import Mathlib

/-!
# RX and H8 simulators: memory, interrupt controllers and peripherals

A shallow embedding of `sim/rx/mem.c` (namespace `Rx`) and `sim/h8300/io.c`
(namespace `H8`), with the descriptor calls of the host they both use
(namespace `Posix`).  All definitions come first, the theorems about them
after.

In `Rx` the C globals become fields of one record `Rx.Mem` that every function
takes and gives back; the serial channels add their own state in `Rx.Io`.  A
function that can stop the current instruction returns `Except Fault α × Mem`:
the fault (or the value) together with the globals as the call left them, so
that what a failing call already changed stays visible.

Machine integers are natural numbers or integers with the wrap-around written
out.  `int` and `unsigned int` are 32 bits wide, `unsigned char` is 8 and
`unsigned short` 16; the width of `unsigned long` is the parameter
`w` (32 on ILP32 hosts, 64 on LP64 hosts) of the functions whose result
depends on it.
-/

deriving instance DecidableEq for Except

namespace Rx

/-! ## Integer conversions of C -/

/-- Conversion to `unsigned char`. -/
def uchar (x : Nat) : Nat := x % 256

/-- Conversion to `unsigned short`. -/
def ushort (x : Nat) : Nat := x % 65536

/-- Conversion of an integer to `unsigned int` (32 bits). -/
def uint32 (x : Int) : Nat := (x % 4294967296).toNat

/-- Conversion of an integer to `int` (32 bits, two's complement). -/
def sint32 (x : Int) : Int :=
  if x % 4294967296 < 2147483648 then x % 4294967296 else x % 4294967296 - 4294967296

/-- Conversion of an integer to `unsigned long`, `w` bits wide. -/
def ulong (w : Nat) (x : Int) : Nat := (x % (2 : Int) ^ w).toNat

/-- Left shift of a promoted `unsigned char`: the operand is an `int`, and so is
the result, which lands in the sign bit when `b << k` reaches 2^31. -/
def shl_int (b k : Nat) : Int := sint32 ((b <<< k : Nat) : Int)

/-! ## Constants and enumerations -/

def L1_BITS : Nat := 10

def L2_BITS : Nat := 10

/-- Modelled from the spec: `PAGE_BITS` is defined in mem.h, which is not among
the sources.  The spec has a 32-bit address split into an outer index, an inner
index and a page offset; with the two 10-bit indices of mem.c that leaves 12
bits (the 4 KiB page `used` also expects between 0xe0000 and 0xe1000). -/
def PAGE_BITS : Nat := 12

def OFF_BITS : Nat := PAGE_BITS

def L1_LEN : Nat := 1 <<< L1_BITS

def L2_LEN : Nat := 1 <<< L2_BITS

def OFF_LEN : Nat := 1 <<< OFF_BITS

/-- Modelled from the spec: the enumeration of mem.h (not among the sources);
the spec lists the three content classifications.  `MC_UNINIT` is what a
zero-filled (`calloc`) classification byte means. -/
inductive mem_content_type where
  | MC_UNINIT
  | MC_DATA
  | MC_PUSHED_PC
  deriving DecidableEq, Repr

/-- Modelled from the spec: the enumeration of mem.h (not among the sources);
the four intents of the spec, with the names mem.c uses. -/
inductive mem_ptr_action where
  | MPA_WRITING
  | MPA_READING
  | MPA_CONTENT_TYPE
  | MPA_DECODE_CACHE
  deriving DecidableEq, Repr

/-- The error numbers mem.c passes to `execution_error` (err.h, not among the
sources). -/
inductive execution_error_num where
  | SIM_ERR_READ_UNWRITTEN_PAGES
  | SIM_ERR_READ_UNWRITTEN_BYTES
  | SIM_ERR_NULL_POINTER_DEREFERENCE
  | SIM_ERR_CORRUPT_STACK
  deriving DecidableEq, Repr

/-- What stops the current instruction: an execution error with the address it
reports, or the access exception of a reserved address. -/
inductive Fault where
  | execution_error (num : execution_error_num) (address : Nat)
  | access_exception
  deriving DecidableEq, Repr

/-- The error kind `NullPointerAccess` of the spec. -/
def Fault.isNullPointerAccess : Fault → Bool
  | .execution_error .SIM_ERR_NULL_POINTER_DEREFERENCE _ => true
  | _ => false

/-- The error kind `ReadOfUnwrittenMemory` of the spec: page never allocated,
or byte classified uninitialized. -/
def Fault.isReadOfUnwrittenMemory : Fault → Bool
  | .execution_error .SIM_ERR_READ_UNWRITTEN_PAGES _ => true
  | .execution_error .SIM_ERR_READ_UNWRITTEN_BYTES _ => true
  | _ => false

/-- The error kind `CorruptedStack` of the spec. -/
def Fault.isCorruptedStack : Fault → Bool
  | .execution_error .SIM_ERR_CORRUPT_STACK _ => true
  | _ => false

/-- The error kind `AccessViolation` of the spec. -/
def Fault.isAccessViolation : Fault → Bool
  | .access_exception => true
  | _ => false

inductive mem_access_type where
  | MEM_RL | MEM_RQ | MEM_RW | MEM_RB | MEM_WL | MEM_WQ | MEM_WW | MEM_WB
  deriving DecidableEq, Repr

structure memlog where
  mpc : Nat
  addr : Nat
  data : Nat
  type : mem_access_type
  deriving DecidableEq, Repr

structure mem_access_flag where
  address : Nat
  flag : Nat
  deriving DecidableEq, Repr

def mem_none : Nat := 0

def mem_r : Nat := 1

def mem_w : Nat := 2

/-! ## The globals -/

/-- One page of the three parallel tables: `pt[pt1][pt2]` (the bytes),
`ptr[pt1][pt2]` (the content classification of each byte) and
`ptdc[pt1][pt2]` (the decoded instruction cached at each offset, `none` for a
null pointer).  `rx_mem_ptr` allocates the three together. -/
structure Page where
  data : Nat → Nat
  ctype : Nat → mem_content_type
  dcache : Nat → Option Nat

/-- A page as `calloc` returns it. -/
def calloc_page : Page :=
  { data := fun _ => 0, ctype := fun _ => .MC_UNINIT, dcache := fun _ => none }

/-- The globals of mem.c and the external flags it reads.  `pt pt1` is `none`
while the outer entry is null and `pt pt1 = some l2` with `l2 pt2 = none` while
the inner entry is null.  `memlog_alloc` is `none` while the pointer
`memlog_buffer` is null and otherwise the size in bytes of the block it points
to; `memlog_buffer i` is the element `i` of the log, `none` while nothing was
stored to it.  `heap` holds what the host answers to the coming calls of
`malloc` and `realloc` for the log, next call first: `true` when it returns a
block, `false` when it returns a null pointer; once the list is used up every
call returns a block. -/
structure Mem where
  pt : Nat → Option (Nat → Option Page)
  rx_big_endian : Bool
  trace : Bool
  verbose : Bool
  enable_counting : Bool
  mem_counters : Nat → Nat → Nat
  memlog_alloc : Option Nat
  memlog_buffer : Nat → Option memlog
  memlogsize : Nat
  memlogtail : Nat
  mem_access_flags : List mem_access_flag
  heap : List Bool

/-- A handle for the pointer `rx_mem_ptr` returns: the page and the offset in
it.  Which of the three planes it points into follows from the action. -/
structure mem_ptr where
  pt1 : Nat
  pt2 : Nat
  pto : Nat
  deriving DecidableEq, Repr

/-- Pointwise update of a table. -/
def upd {α : Type} (f : Nat → α) (i : Nat) (x : α) : Nat → α :=
  fun j => if j = i then x else f j

/-- The page a handle points into, if it is allocated. -/
def page_at (st : Mem) (pt1 pt2 : Nat) : Option Page :=
  match st.pt pt1 with
  | none => none
  | some l2 => l2 pt2

/-- The inner table `pt[pt1]` once it is allocated: the one in place, or a
zero-filled one (`calloc`) when the outer entry is null. -/
def inner_table (st : Mem) (pt1 : Nat) : Nat → Option Page :=
  match st.pt pt1 with
  | none => fun _ => none
  | some t => t

/-- The globals with `pt[pt1]` set to the table `l2` in which entry `pt2` is
the page `pg`. -/
def install (st : Mem) (pt1 pt2 : Nat) (l2 : Nat → Option Page) (pg : Page) : Mem :=
  { st with pt := upd st.pt pt1 (some (upd l2 pt2 (some pg))) }

/-- Read of `m[i]` for a pointer `m` into the byte plane. -/
def load_byte (st : Mem) (m : mem_ptr) (i : Nat) : Nat :=
  match page_at st m.pt1 m.pt2 with
  | none => 0
  | some pg => pg.data (m.pto + i)

/-- Assignment `m[i] = value` for a pointer `m` into the byte plane. -/
def store_byte (st : Mem) (m : mem_ptr) (i : Nat) (value : Nat) : Mem :=
  match page_at st m.pt1 m.pt2 with
  | none => st
  | some pg =>
    install st m.pt1 m.pt2 (inner_table st m.pt1)
      { pg with data := upd pg.data (m.pto + i) value }

/-- Assignment `*mt = type` for a pointer `mt` into the classification plane. -/
def store_ctype (st : Mem) (m : mem_ptr) (type : mem_content_type) : Mem :=
  match page_at st m.pt1 m.pt2 with
  | none => st
  | some pg =>
    install st m.pt1 m.pt2 (inner_table st m.pt1)
      { pg with ctype := upd pg.ctype m.pto type }

/-- Read of `*mt` for a pointer `mt` into the classification plane. -/
def load_ctype (st : Mem) (m : mem_ptr) : mem_content_type :=
  match page_at st m.pt1 m.pt2 with
  | none => .MC_UNINIT
  | some pg => pg.ctype m.pto

/-! ## Collaborators that are not among the sources -/

/-- Modelled from the spec: `execution_error` is defined in err.c, which is not
among the sources.  The spec makes every address-resolution failure fatal to
the current instruction, so the call does not return: it yields the fault and
the globals as they are. -/
def execution_error {α : Type} (st : Mem) (num : execution_error_num) (address : Nat) :
    Except Fault α × Mem :=
  (.error (.execution_error num address), st)

/-- Modelled from the spec: `generate_access_exception` is defined in cpu.c,
which is not among the sources.  The spec has a touch of a reserved range raise
`AccessViolation`, reported like the other faults. -/
def generate_access_exception {α : Type} (st : Mem) : Except Fault α × Mem :=
  (.error .access_exception, st)

/-! ## mem.c -/

/-- The size `sizeof (struct memlog)`: three `unsigned long` fields and an
enumeration (an `int`), padded to the alignment of `unsigned long`; 16 bytes
for `w = 32`, 32 bytes for `w = 64`. -/
def sizeof_memlog (w : Nat) : Nat := 4 * (w / 8)

/-- The function `init_mem`.  `malloc (65536)` returns a block or a null
pointer as the host decides; the pages are freed and the tables zeroed. -/
def init_mem (w : Nat) (st : Mem) : Mem :=
  { st with
    pt := fun _ => none
    mem_counters := fun _ _ => 0
    memlog_alloc := if st.heap.headD true then some 65536 else none
    memlog_buffer := fun _ => none
    heap := st.heap.tail
    memlogsize := 65536 / sizeof_memlog w
    memlogtail := 0 }

def rx_mem_ptr (st : Mem) (address : Nat) (action : mem_ptr_action) :
    Except Fault mem_ptr × Mem :=
  let pt1 := (address >>> (L2_BITS + OFF_BITS)) &&& ((1 <<< L1_BITS) - 1)
  let pt2 := (address >>> OFF_BITS) &&& ((1 <<< L2_BITS) - 1)
  let pto := address &&& ((1 <<< OFF_BITS) - 1)
  if address = 0 then
    execution_error st .SIM_ERR_NULL_POINTER_DEREFERENCE 0
  else
    -- `pt[pt1] == 0`: the three inner tables are allocated, zero-filled
    let l2 : Nat → Option Page := inner_table st pt1
    -- from `if (action == MPA_WRITING)` to the end, on the page `pg`
    let finish : Page → Except Fault mem_ptr × Mem := fun pg =>
      if action = .MPA_WRITING then
        if pg.ctype pto = .MC_PUSHED_PC then
          execution_error (install st pt1 pt2 l2 pg) .SIM_ERR_CORRUPT_STACK address
        else
          (.ok ⟨pt1, pt2, pto⟩,
            install st pt1 pt2 l2
              { pg with
                ctype := upd pg.ctype pto .MC_DATA
                dcache := upd pg.dcache (pto ^^^ (if st.rx_big_endian then 3 else 0)) none })
      else
        (.ok ⟨pt1, pt2, pto⟩, install st pt1 pt2 l2 pg)
    match l2 pt2 with
    | none =>
      if action = .MPA_READING then
        execution_error { st with pt := upd st.pt pt1 (some l2) }
          .SIM_ERR_READ_UNWRITTEN_PAGES address
      else
        finish calloc_page
    | some pg =>
      if action = .MPA_READING ∧ pg.ctype pto = .MC_UNINIT then
        execution_error st .SIM_ERR_READ_UNWRITTEN_BYTES address
      else
        finish pg

def rx_mem_decode_cache (st : Mem) (address : Nat) : Except Fault mem_ptr × Mem :=
  rx_mem_ptr st address .MPA_DECODE_CACHE

def is_reserved_address (address : Nat) : Bool :=
  (decide (address ≥ 0x00020000) && decide (address < 0x00080000))
  || (decide (address ≥ 0x00100000) && decide (address < 0x01000000))
  || (decide (address ≥ 0x08000000) && decide (address < 0xff000000))

/-- The statement `COUNT (isput, bytes)`; the counters are `unsigned int`. -/
def COUNT (st : Mem) (isput bytes : Nat) : Mem :=
  if st.verbose ∧ st.enable_counting then
    { st with
      mem_counters := fun i j =>
        if i = isput ∧ j = bytes then (st.mem_counters i j + 1) % 4294967296
        else st.mem_counters i j }
  else st

/-- The function `add_memlog`.  The size passed to `realloc` and the two
counters are `unsigned long`s.  `realloc` returns a block of the size asked
for, with the elements of the old block, or a null pointer, as the host
decides; through a null pointer no element can be read.  The record is stored
to the element `memlogtail` only when `memlog_buffer` is not null; whether that
element lies inside the block is for `memlog_alloc` to tell. -/
def add_memlog (w : Nat) (st : Mem) (mpc addr : Nat) (type : mem_access_type) (data : Nat) :
    Mem :=
  let st1 : Mem :=
    if st.memlogsize = st.memlogtail then
      { st with
        memlog_alloc :=
          if st.heap.headD true then
            some (ulong w ((st.memlogsize * sizeof_memlog w + 65536 : Nat) : Int))
          else none
        memlog_buffer := if st.heap.headD true then st.memlog_buffer else fun _ => none
        heap := st.heap.tail
        memlogsize := ulong w ((st.memlogsize + 65536 / sizeof_memlog w : Nat) : Int) }
    else st
  match st1.memlog_alloc with
  | none => st1
  | some _ =>
    { st1 with
      memlog_buffer := upd st1.memlog_buffer st1.memlogtail
        (some { mpc := mpc, addr := addr, data := data, type := type })
      memlogtail := ulong w ((st1.memlogtail + 1 : Nat) : Int) }

/-- The initial contents of the table `mem_access_flags`. -/
def mem_access_flags_init : List mem_access_flag :=
  [ ⟨0x00088243, 0⟩, ⟨0x00088245, 0⟩, ⟨0x0008824b, 0⟩, ⟨0x0008824d, 0⟩,
    ⟨0x00088253, 0⟩, ⟨0x00088255, 0⟩, ⟨0x0008825b, 0⟩, ⟨0x0008825d, 0⟩,
    ⟨0x00088263, 0⟩, ⟨0x00088265, 0⟩, ⟨0x0008826b, 0⟩, ⟨0x0008826d, 0⟩,
    ⟨0x00088273, 0⟩, ⟨0x00088275, 0⟩ ]

/-- The loop of `set_rw_flag`: the first entry with the address gets the flag. -/
def set_rw_flag_loop : List mem_access_flag → Nat → Nat → List mem_access_flag
  | [], _, _ => []
  | e :: es, address, flag =>
    if address = e.address then { e with flag := flag } :: es
    else e :: set_rw_flag_loop es address flag

def set_rw_flag (st : Mem) (address : Nat) (flag : Nat) : Mem :=
  if address < 0x00080000 ∨ address ≥ 0x00100000 then st
  else { st with mem_access_flags := set_rw_flag_loop st.mem_access_flags address flag }

def get_rw_flag_loop : List mem_access_flag → Nat → Nat
  | [], _ => mem_none
  | e :: es, address => if address = e.address then e.flag else get_rw_flag_loop es address

def get_rw_flag (st : Mem) (address : Nat) : Nat :=
  get_rw_flag_loop st.mem_access_flags address

def mem_put_byte (st : Mem) (address : Nat) (value : Nat) : Except Fault Unit × Mem :=
  match rx_mem_ptr st address .MPA_WRITING with
  | (.error e, st1) => (.error e, st1)
  | (.ok m, st1) =>
    if is_reserved_address address then
      generate_access_exception st1
    else
      (.ok (), set_rw_flag (store_byte st1 m 0 value) address mem_w)

/-- Two statements in sequence: the second runs on the globals the first left,
unless the first stopped the instruction. -/
def andThen {α : Type} (r : Except Fault Unit × Mem) (k : Mem → Except Fault α × Mem) :
    Except Fault α × Mem :=
  match r with
  | (.error e, st) => (.error e, st)
  | (.ok _, st) => k st

def mem_put_qi (w : Nat) (st : Mem) (address : Int) (value : Nat) (mpc : Nat) :
    Except Fault Unit × Mem :=
  let st0 := if st.trace then add_memlog w st mpc (ulong w address) .MEM_WB (value &&& 0xff) else st
  andThen (mem_put_byte st0 (uint32 address) (uchar (value &&& 0xff))) fun st1 =>
  (.ok (), COUNT st1 1 1)

def mem_put_hi (w : Nat) (st : Mem) (address : Int) (value : Nat) (mpc : Nat) :
    Except Fault Unit × Mem :=
  let st0 :=
    if st.trace then add_memlog w st mpc (ulong w address) .MEM_WW (value &&& 0xffff) else st
  if st.rx_big_endian then
    andThen (mem_put_byte st0 (uint32 address) (uchar (value >>> 8))) fun st1 =>
    andThen (mem_put_byte st1 (uint32 (address + 1)) (uchar (value &&& 0xff))) fun st2 =>
    (.ok (), COUNT st2 1 2)
  else
    andThen (mem_put_byte st0 (uint32 address) (uchar (value &&& 0xff))) fun st1 =>
    andThen (mem_put_byte st1 (uint32 (address + 1)) (uchar (value >>> 8))) fun st2 =>
    (.ok (), COUNT st2 1 2)

def mem_put_psi (w : Nat) (st : Mem) (address : Int) (value : Nat) (mpc : Nat) :
    Except Fault Unit × Mem :=
  let st0 :=
    if st.trace then add_memlog w st mpc (ulong w address) .MEM_WQ (value &&& 0xffffff) else st
  if st.rx_big_endian then
    andThen (mem_put_byte st0 (uint32 address) (uchar (value >>> 16))) fun st1 =>
    andThen (mem_put_byte st1 (uint32 (address + 1)) (uchar ((value >>> 8) &&& 0xff))) fun st2 =>
    andThen (mem_put_byte st2 (uint32 (address + 2)) (uchar (value &&& 0xff))) fun st3 =>
    (.ok (), COUNT st3 1 3)
  else
    andThen (mem_put_byte st0 (uint32 address) (uchar (value &&& 0xff))) fun st1 =>
    andThen (mem_put_byte st1 (uint32 (address + 1)) (uchar ((value >>> 8) &&& 0xff))) fun st2 =>
    andThen (mem_put_byte st2 (uint32 (address + 2)) (uchar (value >>> 16))) fun st3 =>
    (.ok (), COUNT st3 1 3)

def mem_put_si (w : Nat) (st : Mem) (address : Int) (value : Nat) (mpc : Nat) :
    Except Fault Unit × Mem :=
  let st0 :=
    if st.trace then add_memlog w st mpc (ulong w address) .MEM_WL (value &&& 0xffffffff) else st
  if st.rx_big_endian then
    andThen (mem_put_byte st0 (uint32 (address + 0)) (uchar ((value >>> 24) &&& 0xff))) fun st1 =>
    andThen (mem_put_byte st1 (uint32 (address + 1)) (uchar ((value >>> 16) &&& 0xff))) fun st2 =>
    andThen (mem_put_byte st2 (uint32 (address + 2)) (uchar ((value >>> 8) &&& 0xff))) fun st3 =>
    andThen (mem_put_byte st3 (uint32 (address + 3)) (uchar (value &&& 0xff))) fun st4 =>
    (.ok (), COUNT st4 1 4)
  else
    andThen (mem_put_byte st0 (uint32 (address + 0)) (uchar (value &&& 0xff))) fun st1 =>
    andThen (mem_put_byte st1 (uint32 (address + 1)) (uchar ((value >>> 8) &&& 0xff))) fun st2 =>
    andThen (mem_put_byte st2 (uint32 (address + 2)) (uchar ((value >>> 16) &&& 0xff))) fun st3 =>
    andThen (mem_put_byte st3 (uint32 (address + 3)) (uchar ((value >>> 24) &&& 0xff))) fun st4 =>
    (.ok (), COUNT st4 1 4)

/-- The loop of `mem_put_blk` over the bytes of the buffer. -/
def mem_put_blk_loop : Mem → Int → List Nat → Except Fault Unit × Mem
  | st, _, [] => (.ok (), st)
  | st, address, b :: bs =>
    andThen (mem_put_byte st (uint32 address) (uchar b)) fun st1 =>
    mem_put_blk_loop st1 (address + 1) bs

/-- The buffer is the list of its `nbytes` bytes. -/
def mem_put_blk (st : Mem) (address : Int) (buf : List Nat) : Except Fault Unit × Mem :=
  let st0 : Mem :=
    if st.enable_counting then
      { st with
        mem_counters := fun i j =>
          if i = 1 ∧ j = 1 then (st.mem_counters i j + buf.length) % 4294967296
          else st.mem_counters i j }
    else st
  mem_put_blk_loop st0 address buf

def mem_get_pc (w : Nat) (st : Mem) (address : Int) : Except Fault Nat × Mem :=
  match rx_mem_ptr st (ulong w address) .MPA_READING with
  | (.error e, st1) => (.error e, st1)
  | (.ok m, st1) => (.ok (load_byte st1 m 0), COUNT st1 0 0)

def mem_get_byte (st : Mem) (address : Nat) : Except Fault Nat × Mem :=
  match rx_mem_ptr st address .MPA_READING with
  | (.error e, st1) => (.error e, st1)
  | (.ok m, st1) =>
    if is_reserved_address address then
      generate_access_exception st1
    else
      (.ok (load_byte st1 m 0), set_rw_flag st1 address mem_r)

/-- A statement that yields a value, then the rest of the function on it. -/
def bind {α β : Type} (r : Except Fault α × Mem) (k : α → Mem → Except Fault β × Mem) :
    Except Fault β × Mem :=
  match r with
  | (.error e, st) => (.error e, st)
  | (.ok a, st) => k a st

/-- The end of each typed load: count, log when tracing, return `rv`. -/
def finish_get (w : Nat) (st : Mem) (bytes : Nat) (mpc : Nat) (address : Int)
    (type : mem_access_type) (rv : Nat) : Except Fault Nat × Mem :=
  let st1 := COUNT st 0 bytes
  (.ok rv, if st1.trace then add_memlog w st1 mpc (ulong w address) type rv else st1)

def mem_get_qi (w : Nat) (st : Mem) (address : Int) (mpc : Nat) : Except Fault Nat × Mem :=
  bind (mem_get_byte st (uint32 address)) fun rv st1 =>
  finish_get w st1 1 mpc address .MEM_RB rv

def mem_get_hi (w : Nat) (st : Mem) (address : Int) (mpc : Nat) : Except Fault Nat × Mem :=
  if st.rx_big_endian then
    bind (mem_get_byte st (uint32 address)) fun b0 st1 =>
    bind (mem_get_byte st1 (uint32 (address + 1))) fun b1 st2 =>
    finish_get w st2 2 mpc address .MEM_RW (ushort (ushort (b0 <<< 8) ||| b1))
  else
    bind (mem_get_byte st (uint32 address)) fun b0 st1 =>
    bind (mem_get_byte st1 (uint32 (address + 1))) fun b1 st2 =>
    finish_get w st2 2 mpc address .MEM_RW (ushort (ushort b0 ||| (b1 <<< 8)))

def mem_get_psi (w : Nat) (st : Mem) (address : Int) (mpc : Nat) : Except Fault Nat × Mem :=
  if st.rx_big_endian then
    bind (mem_get_byte st (uint32 (address + 2))) fun b2 st1 =>
    bind (mem_get_byte st1 (uint32 (address + 1))) fun b1 st2 =>
    bind (mem_get_byte st2 (uint32 address)) fun b0 st3 =>
    finish_get w st3 3 mpc address .MEM_RQ
      (ulong w b2 ||| ulong w (shl_int b1 8) ||| ulong w (shl_int b0 16))
  else
    bind (mem_get_byte st (uint32 address)) fun b0 st1 =>
    bind (mem_get_byte st1 (uint32 (address + 1))) fun b1 st2 =>
    bind (mem_get_byte st2 (uint32 (address + 2))) fun b2 st3 =>
    finish_get w st3 3 mpc address .MEM_RQ
      (ulong w b0 ||| ulong w (shl_int b1 8) ||| ulong w (shl_int b2 16))

/-- Each `rv |= mem_get_byte (..) << k` shifts an `int` and converts the result
to `unsigned long` before the OR. -/
def mem_get_si (w : Nat) (st : Mem) (address : Int) (mpc : Nat) : Except Fault Nat × Mem :=
  if st.rx_big_endian then
    bind (mem_get_byte st (uint32 (address + 3))) fun b3 st1 =>
    bind (mem_get_byte st1 (uint32 (address + 2))) fun b2 st2 =>
    bind (mem_get_byte st2 (uint32 (address + 1))) fun b1 st3 =>
    bind (mem_get_byte st3 (uint32 address)) fun b0 st4 =>
    finish_get w st4 4 mpc address .MEM_RL
      (ulong w b3 ||| ulong w (shl_int b2 8) ||| ulong w (shl_int b1 16)
        ||| ulong w (shl_int b0 24))
  else
    bind (mem_get_byte st (uint32 address)) fun b0 st1 =>
    bind (mem_get_byte st1 (uint32 (address + 1))) fun b1 st2 =>
    bind (mem_get_byte st2 (uint32 (address + 2))) fun b2 st3 =>
    bind (mem_get_byte st3 (uint32 (address + 3))) fun b3 st4 =>
    finish_get w st4 4 mpc address .MEM_RL
      (ulong w b0 ||| ulong w (shl_int b1 8) ||| ulong w (shl_int b2 16)
        ||| ulong w (shl_int b3 24))

/-- The loop of `mem_get_blk`; the bytes read are what it leaves in the
buffer. -/
def mem_get_blk_loop : Mem → Int → Nat → Except Fault (List Nat) × Mem
  | st, _, 0 => (.ok [], st)
  | st, address, nbytes + 1 =>
    bind (mem_get_byte st (uint32 address)) fun b st1 =>
    bind (mem_get_blk_loop st1 (address + 1) nbytes) fun bs st2 =>
    (.ok (b :: bs), st2)

def mem_get_blk (st : Mem) (address : Int) (nbytes : Nat) : Except Fault (List Nat) × Mem :=
  let st0 : Mem :=
    if st.enable_counting then
      { st with
        mem_counters := fun i j =>
          if i = 0 ∧ j = 1 then (st.mem_counters i j + nbytes) % 4294967296
          else st.mem_counters i j }
    else st
  mem_get_blk_loop st0 address nbytes

def mem_set_content_type (w : Nat) (st : Mem) (address : Int) (type : mem_content_type) :
    Except Fault Unit × Mem :=
  match rx_mem_ptr st (ulong w address) .MPA_CONTENT_TYPE with
  | (.error e, st1) => (.error e, st1)
  | (.ok mt, st1) => (.ok (), store_ctype st1 mt type)

def mem_get_content_type (w : Nat) (st : Mem) (address : Int) :
    Except Fault mem_content_type × Mem :=
  match rx_mem_ptr st (ulong w address) .MPA_CONTENT_TYPE with
  | (.error e, st1) => (.error e, st1)
  | (.ok mt, st1) => (.ok (load_ctype st1 mt), st1)

def iprmap : List Nat := [
  0xff, 0xff, 0xff, 0xff, 0xff, 0xff, 0xff, 0xff,
  0xff, 0xff, 0xff, 0xff, 0xff, 0xff, 0xff, 0xff,
  0x00, 0xff, 0xff, 0xff, 0xff, 0x01, 0xff, 0x02,
  0xff, 0xff, 0xff, 0xff, 0x04, 0x05, 0x06, 0x07,

  0xff, 0xff, 0xff, 0xff, 0xff, 0xff, 0xff, 0xff,
  0xff, 0xff, 0xff, 0xff, 0xff, 0xff, 0xff, 0xff,
  0xff, 0xff, 0xff, 0xff, 0xff, 0xff, 0xff, 0xff,
  0xff, 0xff, 0xff, 0xff, 0xff, 0xff, 0xff, 0xff,

  0x20, 0x21, 0x22, 0x23, 0x24, 0x25, 0x26, 0x27,
  0x28, 0x29, 0x2a, 0x2b, 0x2c, 0x2d, 0x2e, 0x2f,
  0xff, 0xff, 0xff, 0xff, 0xff, 0xff, 0xff, 0xff,
  0xff, 0xff, 0xff, 0xff, 0xff, 0xff, 0xff, 0xff,

  0x40, 0xff, 0x44, 0x45, 0x46, 0x47, 0xff, 0xff,
  0x4c, 0x4c, 0x4c, 0x4c, 0x4d, 0xff, 0xff, 0x4e,
  0x4e, 0xff, 0xff, 0x4f, 0x4f, 0x50, 0x50, 0xff,
  0x51, 0x51, 0x52, 0x52, 0x52, 0x52, 0x53, 0x54,

  0x54, 0xff, 0xff, 0x55, 0x55, 0x56, 0x56, 0xff,
  0x57, 0x57, 0x58, 0x58, 0x58, 0x58, 0x59, 0xff,
  0xff, 0x5a, 0x5a, 0xff, 0xff, 0x5b, 0x5b, 0x5c,
  0x5c, 0xff, 0x5d, 0x5d, 0x5e, 0x5e, 0x5e, 0x5e,

  0x5f, 0x60, 0x60, 0xff, 0xff, 0x61, 0x61, 0x62,
  0x62, 0xff, 0x63, 0x63, 0xff, 0xff, 0x68, 0x68,
  0x68, 0x69, 0x69, 0x69, 0x6a, 0x6a, 0x6a, 0x6b,
  0x6b, 0x6b, 0xff, 0xff, 0xff, 0xff, 0xff, 0xff,

  0xff, 0xff, 0xff, 0xff, 0xff, 0xff, 0x70, 0x71,
  0x72, 0x73, 0xff, 0xff, 0xff, 0xff, 0xff, 0xff,
  0xff, 0xff, 0xff, 0xff, 0xff, 0xff, 0x80, 0x80,
  0x80, 0x80, 0x81, 0x81, 0x81, 0x81, 0x82, 0x82,

  0x82, 0x82, 0x83, 0x83, 0x83, 0x83, 0x84, 0x84,
  0x84, 0x84, 0x85, 0x85, 0x85, 0x85, 0x86, 0x86,
  0x86, 0x86, 0xff, 0xff, 0xff, 0xff, 0x88, 0x89,
  0x8a, 0x8b, 0x8c, 0x8d, 0x8e, 0x8f, 0xff, 0xff ]

/-- The test of the loop body of `icu` for one `irq`, on the three register
arrays `ir`, `ien` and `ipr`. -/
def icu_test (ir ien ipr : Nat → Nat) (pri maxpri : Int) (irq : Nat) : Bool :=
  decide (iprmap.getD irq 0 ≠ 0xff) && decide (ir irq ≠ 0)
  && decide (ien (irq >>> 3) &&& (1 <<< (irq &&& 7)) ≠ 0)
  && decide ((ipr (iprmap.getD irq 0) : Int) > pri)
  && decide ((ipr (iprmap.getD irq 0) : Int) ≥ maxpri)

/-- The loop of `icu` from `irq = n - 1` down to 0, on the pair
`(ackirq, maxpri)`. -/
def icu_loop (ir ien ipr : Nat → Nat) (pri : Int) : Nat → Int × Int → Int × Int
  | 0, s => s
  | irq + 1, s =>
    icu_loop ir ien ipr pri irq
      (if icu_test ir ien ipr pri s.2 irq then ((irq : Int), (ipr (iprmap.getD irq 0) : Int))
       else s)

def icu (st : Mem) (pri : Int) : Except Fault Int × Mem :=
  bind (rx_mem_ptr st 0x00087000 .MPA_WRITING) fun ir st1 =>
  bind (rx_mem_ptr st1 0x00087200 .MPA_WRITING) fun ien st2 =>
  bind (rx_mem_ptr st2 0x00087300 .MPA_WRITING) fun ipr st3 =>
  (.ok (icu_loop (load_byte st3 ir) (load_byte st3 ien) (load_byte st3 ipr) pri 256 (-1, 0)).1,
    st3)

/-! ## Observations used to state the properties -/

/-- The page and offset of a 32-bit address, as `rx_mem_ptr` computes them. -/
def split (address : Nat) : mem_ptr :=
  { pt1 := (address >>> (L2_BITS + OFF_BITS)) &&& ((1 <<< L1_BITS) - 1)
    pt2 := (address >>> OFF_BITS) &&& ((1 <<< L2_BITS) - 1)
    pto := address &&& ((1 <<< OFF_BITS) - 1) }

/-- Whether the page of an address is allocated. -/
def allocated (st : Mem) (address : Nat) : Bool :=
  (page_at st (split address).pt1 (split address).pt2).isSome

/-- The classification byte of an address; a page that is not allocated yet
counts as uninitialized, which is what its bytes are once it is allocated. -/
def ctype_of (st : Mem) (address : Nat) : mem_content_type :=
  load_ctype st (split address)

/-- The byte stored at an address; 0 in a page that is not allocated yet, which
is what its bytes are once it is allocated. -/
def byte_of (st : Mem) (address : Nat) : Nat :=
  load_byte st (split address) 0

/-- The decode-cache slot at the page offset `off` of the page of an address. -/
def dcache_of (st : Mem) (address : Nat) (off : Nat) : Option Nat :=
  match page_at st (split address).pt1 (split address).pt2 with
  | none => none
  | some pg => pg.dcache off

/-- Globals before anything ran: all tables null, little-endian, no tracing;
the host returns every block it is asked for. -/
def Mem.zero : Mem :=
  { pt := fun _ => none
    rx_big_endian := false
    trace := false
    verbose := false
    enable_counting := false
    mem_counters := fun _ _ => 0
    memlog_alloc := none
    memlog_buffer := fun _ => none
    memlogsize := 0
    memlogtail := 0
    mem_access_flags := mem_access_flags_init
    heap := [] }

/-! ## Vocabulary of the statements

Pure functions of the state and abbreviations in which the properties are
stated; none of them is part of mem.c. -/

/-- What `rx_mem_ptr` yields, read off the state before the call. -/
def outcome (st : Mem) (a : Nat) (action : mem_ptr_action) : Except Fault mem_ptr :=
  if a = 0 then .error (.execution_error .SIM_ERR_NULL_POINTER_DEREFERENCE 0)
  else if action = .MPA_READING ∧ allocated st a = false then
    .error (.execution_error .SIM_ERR_READ_UNWRITTEN_PAGES a)
  else if action = .MPA_READING ∧ ctype_of st a = .MC_UNINIT then
    .error (.execution_error .SIM_ERR_READ_UNWRITTEN_BYTES a)
  else if action = .MPA_WRITING ∧ ctype_of st a = .MC_PUSHED_PC then
    .error (.execution_error .SIM_ERR_CORRUPT_STACK a)
  else .ok (split a)

/-- The page of `a` after a successful `rx_mem_ptr st a action`. -/
def resolved_page (st : Mem) (a : Nat) (action : mem_ptr_action) : Page :=
  let pg := (page_at st (split a).pt1 (split a).pt2).getD calloc_page
  if action = .MPA_WRITING then
    { pg with
      ctype := upd pg.ctype (split a).pto .MC_DATA
      dcache := upd pg.dcache ((split a).pto ^^^ (if st.rx_big_endian then 3 else 0)) none }
  else pg

/-- Everything but the page tables is the same in two states. -/
def same_rest (st st' : Mem) : Prop :=
  st'.rx_big_endian = st.rx_big_endian ∧ st'.trace = st.trace ∧ st'.verbose = st.verbose
  ∧ st'.enable_counting = st.enable_counting ∧ st'.mem_counters = st.mem_counters
  ∧ st'.memlog_alloc = st.memlog_alloc ∧ st'.memlog_buffer = st.memlog_buffer
  ∧ st'.memlogsize = st.memlogsize ∧ st'.memlogtail = st.memlogtail
  ∧ st'.mem_access_flags = st.mem_access_flags ∧ st'.heap = st.heap

/-- A byte store would go through: the address is not null, not reserved and
not classified as a pushed return address. -/
def writable (st : Mem) (a : Nat) : Prop :=
  a ≠ 0 ∧ is_reserved_address a = false ∧ ctype_of st a ≠ .MC_PUSHED_PC

/-- A byte load would go through: the address is not null, not reserved and its
byte is classified as something else than uninitialized. -/
def readable (st : Mem) (a : Nat) : Prop :=
  a ≠ 0 ∧ is_reserved_address a = false ∧ ctype_of st a ≠ .MC_UNINIT

instance (st : Mem) (a : Nat) : Decidable (writable st a) := by
  unfold writable; exact inferInstance

instance (st : Mem) (a : Nat) : Decidable (readable st a) := by
  unfold readable; exact inferInstance

/-- The calls `mem_put_byte (a, v)` for the pairs of a list, in order, up to the
first that stops the instruction. -/
def put_bytes : Mem → List (Nat × Nat) → Except Fault Unit × Mem
  | st, [] => (.ok (), st)
  | st, (a, v) :: rest => andThen (mem_put_byte st a v) fun st1 => put_bytes st1 rest

/-- The globals after the optional `add_memlog` that opens a typed store. -/
def traced (w : Nat) (st : Mem) (mpc addr : Nat) (t : mem_access_type) (d : Nat) : Mem :=
  if st.trace then add_memlog w st mpc addr t d else st

/-- The byte stores of `mem_put_hi`, in the order it makes them. -/
def hi_bytes (be : Bool) (A : Int) (v : Nat) : List (Nat × Nat) :=
  if be then [(uint32 A, uchar (v >>> 8)), (uint32 (A + 1), uchar (v &&& 0xff))]
  else [(uint32 A, uchar (v &&& 0xff)), (uint32 (A + 1), uchar (v >>> 8))]

/-- The byte stores of `mem_put_psi`, in the order it makes them. -/
def psi_bytes (be : Bool) (A : Int) (v : Nat) : List (Nat × Nat) :=
  if be then
    [(uint32 A, uchar (v >>> 16)), (uint32 (A + 1), uchar ((v >>> 8) &&& 0xff)),
      (uint32 (A + 2), uchar (v &&& 0xff))]
  else
    [(uint32 A, uchar (v &&& 0xff)), (uint32 (A + 1), uchar ((v >>> 8) &&& 0xff)),
      (uint32 (A + 2), uchar (v >>> 16))]

/-- The byte stores of `mem_put_si`, in the order it makes them. -/
def si_bytes (be : Bool) (A : Int) (v : Nat) : List (Nat × Nat) :=
  if be then
    [(uint32 (A + 0), uchar ((v >>> 24) &&& 0xff)), (uint32 (A + 1), uchar ((v >>> 16) &&& 0xff)),
      (uint32 (A + 2), uchar ((v >>> 8) &&& 0xff)), (uint32 (A + 3), uchar (v &&& 0xff))]
  else
    [(uint32 (A + 0), uchar (v &&& 0xff)), (uint32 (A + 1), uchar ((v >>> 8) &&& 0xff)),
      (uint32 (A + 2), uchar ((v >>> 16) &&& 0xff)), (uint32 (A + 3), uchar ((v >>> 24) &&& 0xff))]

/-- A list of byte stores followed by `COUNT (1, n)`. -/
def typed_put (st : Mem) (l : List (Nat × Nat)) (n : Nat) : Except Fault Unit × Mem :=
  andThen (put_bytes st l) fun s => (.ok (), COUNT s 1 n)

/-- The state `s` shows the same bytes, classifications and allocated pages as
`st`, under the same endianness. -/
def Keeps (st s : Mem) : Prop :=
  (∀ b, byte_of s b = byte_of st b ∧ ctype_of s b = ctype_of st b
    ∧ allocated s b = allocated st b)
  ∧ s.rx_big_endian = st.rx_big_endian

/-- The value `mem_get_si` assembles from the four bytes at `A .. A+3`. -/
def si_value (w : Nat) (be : Bool) (b0 b1 b2 b3 : Nat) : Nat :=
  if be then
    ulong w b3 ||| ulong w (shl_int b2 8) ||| ulong w (shl_int b1 16) ||| ulong w (shl_int b0 24)
  else
    ulong w b0 ||| ulong w (shl_int b1 8) ||| ulong w (shl_int b2 16) ||| ulong w (shl_int b3 24)

/-- Every byte and every classification is the same in `s` as in `st`. -/
def unchanged (st s : Mem) : Prop :=
  ∀ b, byte_of s b = byte_of st b ∧ ctype_of s b = ctype_of st b

/-- A state in which the byte at 0x1000 is classified as a pushed return
address. -/
def pushed_state : Mem :=
  (mem_set_content_type 64 Mem.zero 0x1000 .MC_PUSHED_PC).2

/-- A state in which the byte at the reserved address 0x20000 holds data. -/
def reserved_data_state : Mem :=
  (mem_set_content_type 64 Mem.zero 0x20000 .MC_DATA).2

/-- A state in which the byte at the reserved address 0x20000 is classified as
a pushed return address. -/
def reserved_pushed_state : Mem :=
  (mem_set_content_type 64 Mem.zero 0x20000 .MC_PUSHED_PC).2

/-- The addresses and bytes `mem_put_blk` passes to `mem_put_byte`, in order. -/
def blk_pairs : Int → List Nat → List (Nat × Nat)
  | _, [] => []
  | A, b :: bs => (uint32 A, uchar b) :: blk_pairs (A + 1) bs

/-- The operations of the memory interface, and the poll of the interrupt
controller. -/
inductive Op where
  | put_qi (A : Int) (v mpc : Nat)
  | put_hi (A : Int) (v mpc : Nat)
  | put_psi (A : Int) (v mpc : Nat)
  | put_si (A : Int) (v mpc : Nat)
  | get_qi (A : Int) (mpc : Nat)
  | get_hi (A : Int) (mpc : Nat)
  | get_psi (A : Int) (mpc : Nat)
  | get_si (A : Int) (mpc : Nat)
  | get_pc (A : Int)
  | set_content_type (A : Int) (type : mem_content_type)
  | get_content_type (A : Int)
  | decode_cache (a : Nat)
  | mem_ptr (a : Nat) (action : mem_ptr_action)
  | put_blk (A : Int) (buf : List Nat)
  | get_blk (A : Int) (nbytes : Nat)
  | poll (pri : Int)

/-- The globals after an operation, whether it went through or stopped the
instruction. -/
def Op.run (w : Nat) (st : Mem) : Op → Mem
  | .put_qi A v mpc => (mem_put_qi w st A v mpc).2
  | .put_hi A v mpc => (mem_put_hi w st A v mpc).2
  | .put_psi A v mpc => (mem_put_psi w st A v mpc).2
  | .put_si A v mpc => (mem_put_si w st A v mpc).2
  | .get_qi A mpc => (mem_get_qi w st A mpc).2
  | .get_hi A mpc => (mem_get_hi w st A mpc).2
  | .get_psi A mpc => (mem_get_psi w st A mpc).2
  | .get_si A mpc => (mem_get_si w st A mpc).2
  | .get_pc A => (mem_get_pc w st A).2
  | .set_content_type A type => (mem_set_content_type w st A type).2
  | .get_content_type A => (mem_get_content_type w st A).2
  | .decode_cache a => (rx_mem_decode_cache st a).2
  | .mem_ptr a action => (rx_mem_ptr st a action).2
  | .put_blk A buf => (mem_put_blk st A buf).2
  | .get_blk A nbytes => (mem_get_blk st A nbytes).2
  | .poll pri => (icu st pri).2

/-- The addresses an operation stores a byte to, or sets the classification
of. -/
def Op.stores (w : Nat) : Op → List Nat
  | .put_qi A _ _ => [uint32 A]
  | .put_hi A _ _ => [uint32 A, uint32 (A + 1)]
  | .put_psi A _ _ => [uint32 A, uint32 (A + 1), uint32 (A + 2)]
  | .put_si A _ _ => [uint32 A, uint32 (A + 1), uint32 (A + 2), uint32 (A + 3)]
  | .set_content_type A _ => [ulong w A]
  | .put_blk A buf => (blk_pairs A buf).map Prod.fst
  | _ => []

/-- The addresses an operation resolves with the writing intent without storing
to them; the resolution classifies them as data. -/
def Op.resolves : Op → List Nat
  | .mem_ptr a action => if action = .MPA_WRITING then [a] else []
  | .poll _ => [0x00087000, 0x00087200, 0x00087300]
  | _ => []

/-- The addresses an operation stores to, sets the classification of or
resolves with the writing intent. -/
def Op.targets (w : Nat) (op : Op) : List Nat :=
  op.stores w ++ op.resolves

/-- The operation neither stores to the byte of address `a` nor sets its
classification (two addresses name the same byte when `split` maps them to the
same page and offset, that is when they agree modulo 2^32). -/
def Op.leaves (w : Nat) (a : Nat) (op : Op) : Prop :=
  ∀ t ∈ op.stores w, split t ≠ split a

/-- The operation neither stores to the byte of address `a`, nor sets its
classification, nor resolves it with the writing intent. -/
def Op.avoids (w : Nat) (a : Nat) (op : Op) : Prop :=
  ∀ t ∈ op.targets w, split t ≠ split a

instance (w a : Nat) (op : Op) : Decidable (op.leaves w a) := by
  unfold Op.leaves; exact inferInstance

instance (w a : Nat) (op : Op) : Decidable (op.avoids w a) := by
  unfold Op.avoids; exact inferInstance

/-- The globals after a list of operations, run in order. -/
def run_ops (w : Nat) (st : Mem) (ops : List Op) : Mem :=
  ops.foldl (Op.run w) st

/-- Byte `k` of a value, counted from the least significant one. -/
def byte_n (v k : Nat) : Nat := (v >>> (8 * k)) &&& 0xff

/-- The store of `n` bytes: `mem_put_hi` for 2, `mem_put_psi` for 3 and
`mem_put_si` for 4. -/
def mem_put_n (w n : Nat) (st : Mem) (A : Int) (v mpc : Nat) : Except Fault Unit × Mem :=
  if n = 2 then mem_put_hi w st A v mpc
  else if n = 3 then mem_put_psi w st A v mpc
  else mem_put_si w st A v mpc

/-- The request flag `ir[irq]`, read through the pointer `icu` takes to
0x00087000. -/
def IR (st : Mem) (irq : Nat) : Nat := load_byte st (split 0x00087000) irq

/-- The enable byte `ien[i]`, read through the pointer to 0x00087200. -/
def IEN (st : Mem) (i : Nat) : Nat := load_byte st (split 0x00087200) i

/-- The priority byte `ipr[i]`, read through the pointer to 0x00087300. -/
def IPR (st : Mem) (i : Nat) : Nat := load_byte st (split 0x00087300) i

/-- The priority of an interrupt: the priority register `iprmap` maps it to. -/
def irq_priority (st : Mem) (irq : Nat) : Int := (IPR st (iprmap.getD irq 0) : Int)

/-- A mapped interrupt whose request flag and enable bit are set. -/
def pending_enabled (st : Mem) (irq : Nat) : Prop :=
  irq < 256 ∧ iprmap.getD irq 0 ≠ 0xff ∧ IR st irq ≠ 0
  ∧ IEN st (irq >>> 3) &&& (1 <<< (irq &&& 7)) ≠ 0

/-- A pending, enabled interrupt whose priority is strictly greater than `pri`. -/
def qualifies (st : Mem) (pri : Int) (irq : Nat) : Prop :=
  pending_enabled st irq ∧ irq_priority st irq > pri

/-- None of the three bytes `icu` resolves with the writing intent is classified
as a pushed return address. -/
def icu_ready (st : Mem) : Prop :=
  ctype_of st 0x00087000 ≠ .MC_PUSHED_PC ∧ ctype_of st 0x00087200 ≠ .MC_PUSHED_PC
  ∧ ctype_of st 0x00087300 ≠ .MC_PUSHED_PC

instance (st : Mem) (irq : Nat) : Decidable (pending_enabled st irq) := by
  unfold pending_enabled; exact inferInstance

instance (st : Mem) (pri : Int) (irq : Nat) : Decidable (qualifies st pri irq) := by
  unfold qualifies; exact inferInstance

instance (st : Mem) : Decidable (icu_ready st) := by
  unfold icu_ready; exact inferInstance

/-- The test of the loop on the first four conditions, for abstract register
arrays. -/
def qual (ir ien ipr : Nat → Nat) (pri : Int) (irq : Nat) : Prop :=
  iprmap.getD irq 0 ≠ 0xff ∧ ir irq ≠ 0 ∧ ien (irq >>> 3) &&& (1 <<< (irq &&& 7)) ≠ 0
  ∧ (ipr (iprmap.getD irq 0) : Int) > pri

/-- What holds of `(ackirq, maxpri)` once the loop has handled every `irq` from
255 down to `m`. -/
def icu_inv (ir ien ipr : Nat → Nat) (pri : Int) (m : Nat) (s : Int × Int) : Prop :=
  (s.1 = -1 ∧ s.2 = 0 ∧ ∀ j, m ≤ j → j < 256 → ¬ qual ir ien ipr pri j)
  ∨ ∃ k : Nat, s.1 = (k : Int) ∧ m ≤ k ∧ k < 256 ∧ qual ir ien ipr pri k
      ∧ s.2 = (ipr (iprmap.getD k 0) : Int)
      ∧ ∀ j, m ≤ j → j < 256 → qual ir ien ipr pri j →
          (ipr (iprmap.getD j 0) : Int) ≤ (ipr (iprmap.getD k 0) : Int)
          ∧ ((ipr (iprmap.getD j 0) : Int) = (ipr (iprmap.getD k 0) : Int) → k ≤ j)

/-- A state with two pending, enabled interrupts: 28 at priority 5 and 29 at
priority 3. -/
def icu_state : Mem :=
  run_ops 64 Mem.zero
    [.put_qi 0x0008701c 1 0, .put_qi 0x0008701d 1 0, .put_qi 0x00087203 0x30 0,
      .put_qi 0x00087304 5 0, .put_qi 0x00087305 3 0]

/-- A state with no interrupt pending in which the byte at 0x00087000 is
classified as a pushed return address. -/
def icu_pushed_state : Mem :=
  (mem_set_content_type 64 Mem.zero 0x00087000 .MC_PUSHED_PC).2

/-- The value `mem_get_hi` assembles from the two bytes at `A` and `A + 1`. -/
def hi_value (be : Bool) (b0 b1 : Nat) : Nat :=
  if be then ushort (ushort (b0 <<< 8) ||| b1) else ushort (ushort b0 ||| (b1 <<< 8))

/-- The value `mem_get_psi` assembles from the three bytes at `A .. A + 2`. -/
def psi_value (w : Nat) (be : Bool) (b0 b1 b2 : Nat) : Nat :=
  if be then ulong w b2 ||| ulong w (shl_int b1 8) ||| ulong w (shl_int b0 16)
  else ulong w b0 ||| ulong w (shl_int b1 8) ||| ulong w (shl_int b2 16)

end Rx

/-! # The host side of the serial channels

Both simulators reach the terminal or socket behind a channel through the
descriptor calls `read`, `write`, `accept` and `close`.  The record below is
what those calls can observe and change: the bytes waiting on each descriptor,
the bytes written to it so far, and what the host answers when a call cannot
be served. -/

namespace Posix

/-- The value of `EAGAIN`. -/
def EAGAIN : Int := 11

/-- The host as the descriptor calls see it.  `pending fd` are the bytes a
`read` on `fd` yields, oldest first; `read_errno fd` is `errno` after a `read`
that yields none; `sent fd` are the bytes written to `fd`, oldest first;
`write_errno fd` is `none` while a `write` on `fd` succeeds and `errno`
otherwise; `backlog s` lists the descriptors `accept` returns on the listening
socket `s`, next one first. -/
structure Host where
  pending : Int → List Nat
  read_errno : Int → Int
  sent : Int → List Nat
  write_errno : Int → Option Int
  backlog : Int → List Int

/-- Pointwise update of a table indexed by descriptors. -/
def updi {α : Type} (f : Int → α) (i : Int) (x : α) : Int → α :=
  fun j => if j = i then x else f j

/-- The call `read (fd, &rd, 1)`: the byte read, if the call returns more than
0, and `errno` otherwise. -/
def read (h : Host) (fd : Int) : Except Int Nat × Host :=
  match h.pending fd with
  | [] => (.error (h.read_errno fd), h)
  | rd :: rest => (.ok (rd % 256), { h with pending := updi h.pending fd rest })

/-- The call `write (fd, buf, n)` for the `n` bytes `buf`: whether it returns
more than 0, and `errno` if not. -/
def write (h : Host) (fd : Int) (buf : List Nat) : Except Int Unit × Host :=
  match h.write_errno fd with
  | some e => (.error e, h)
  | none => (.ok (), { h with sent := updi h.sent fd (h.sent fd ++ buf) })

/-- The call `accept (socket, ..)`: the new descriptor, or -1. -/
def accept (h : Host) (socket : Int) : Int × Host :=
  match h.backlog socket with
  | [] => (-1, h)
  | fd :: rest => (fd, { h with backlog := updi h.backlog socket rest })

/-- The call `close (fd)`: what waits on the descriptor is gone. -/
def close (h : Host) (fd : Int) : Host :=
  { h with pending := updi h.pending fd [] }

/-- A host on which nothing waits and every write succeeds. -/
def quiet : Host :=
  { pending := fun _ => [], read_errno := fun _ => EAGAIN, sent := fun _ => [],
    write_errno := fun _ => none, backlog := fun _ => [] }

end Posix

namespace Rx

/-! ## mem.c: the serial channels

The `static` locals of `sci`, the array `sci_port` and the host are the fields
of the record `Io`, next to the globals of the memory. -/

def IRADR (ir : Nat) : Nat := 0x00087000 + ir

def SCI_ERI : Nat := 1 <<< 3

def SCI_RXI : Nat := 1 <<< 2

def SCI_TXI : Nat := 1 <<< 1

def SCI_TEI : Nat := 1 <<< 0

def MAX_SCI_CH : Nat := 3

def PORT_NONE : Nat := 0

def PORT_PTY : Nat := 1

def PORT_NET : Nat := 2

/-- One entry of the array `sci_port`; the socket addresses and the terminal
attributes, which only reach the host, are left out. -/
structure sci_port_t where
  fd : Int
  socket : Int
  iac : Int
  cmd : Nat
  deriving DecidableEq, Repr

/-- One entry of the array `sci_state`, the `static` local of `sci`. -/
structure sci_state_t where
  tx_end_time : Int
  rx_end_time : Int
  txstate : Int
  isr : Nat
  ssr : Nat
  deriving DecidableEq, Repr

/-- The globals of the memory together with what the serial channels keep
between calls and the host they talk to. -/
structure Io where
  mem : Mem
  sci_port : Nat → sci_port_t
  sci_port_type : Nat
  sci_state : Nat → sci_state_t
  host : Posix.Host

/-- Read of `m[i]` through a pointer to `unsigned char`. -/
def ld (st : Mem) (m : mem_ptr) (i : Nat) : Nat := uchar (load_byte st m i)

/-- A call that can stop the current instruction, followed by what comes
after it. -/
def seq {α β : Type} (r : Except Fault α × Io) (k : α → Io → Except Fault β × Io) :
    Except Fault β × Io :=
  match r with
  | (.error f, io) => (.error f, io)
  | (.ok a, io) => k a io

/-- The call `rx_mem_ptr (address, action)` on the memory of the state. -/
def io_mem_ptr (io : Io) (address : Nat) (action : mem_ptr_action) :
    Except Fault mem_ptr × Io :=
  match rx_mem_ptr io.mem address action with
  | (r, m) => (r, { io with mem := m })

/-- The loop of `get_sciir` over the bytes `irptr[i]`, `i` in the list. -/
def get_sciir_loop (st : Mem) (irptr : mem_ptr) : List Nat → Nat → Nat
  | [], isr => isr
  | i :: rest, isr =>
    let isr := uchar (isr <<< 1)
    get_sciir_loop st irptr rest (if load_byte st irptr i ≠ 0 then uchar (isr ||| 1) else isr)

def get_sciir (io : Io) (ch : Nat) : Except Fault Nat × Io :=
  seq (io_mem_ptr io (IRADR (214 + ch * 4)) .MPA_WRITING) fun irptr io =>
    (.ok (get_sciir_loop io.mem irptr (List.range 4) 0), io)

/-- The loop of `set_sciir` over the bytes `irptr[i]`, `i` in the list. -/
def set_sciir_loop (irptr : mem_ptr) : List Nat → Mem → Nat → Mem
  | [], st, _ => st
  | i :: rest, st, isr =>
    set_sciir_loop irptr rest (store_byte st irptr i (if isr &&& (1 <<< 3) ≠ 0 then 1 else 0))
      (uchar (isr <<< 1))

def set_sciir (io : Io) (ch : Nat) (isr : Nat) : Except Fault Unit × Io :=
  seq (io_mem_ptr io (IRADR (214 + ch * 4)) .MPA_WRITING) fun irptr io =>
    (.ok (), { io with mem := set_sciir_loop irptr (List.range 4) io.mem (uchar isr) })

/-- The body of `sci_complete_time` on the values of `SMR (ch)` and
`BRR (ch)`: the arithmetic is done in `int` and the result converted to
`unsigned int`. -/
def sci_complete_time_of (smr brr : Nat) : Nat :=
  let div : List Int := [1, 4, 16, 64]
  let length : Int := if smr &&& 0x40 ≠ 0 then 7 else 8
  let length := sint32 (length + (if smr &&& 0x20 ≠ 0 then 1 else 0))
  let length := sint32 (length + (if smr &&& 0x08 ≠ 0 then 1 else 0))
  let length := sint32 (length + 2)
  uint32 (sint32 (sint32 (sint32 (length * 32) * div.getD (smr &&& 0x03) 0) * brr))

def sci_complete_time (st : Mem) (scibase : mem_ptr) (ch : Nat) : Nat :=
  sci_complete_time_of (ld st scibase (ch * 8 + 0)) (ld st scibase (ch * 8 + 1))

/-- Assignment to `sci_port[ch]`. -/
def set_port (io : Io) (ch : Nat) (p : sci_port_t) : Io :=
  { io with sci_port := upd io.sci_port ch p }

/-- Assignment to `sci_state[ch]`. -/
def set_state (io : Io) (ch : Nat) (s : sci_state_t) : Io :=
  { io with sci_state := upd io.sci_state ch s }

/-- The function `sci_send_data`: `dt` is the character written, `fsync` is
not visible in the state. -/
def sci_send_data (io : Io) (ch : Nat) (txd : Nat) : Io :=
  let dt := uchar txd
  let p := io.sci_port ch
  if p.fd > 0 then
    match Posix.write io.host p.fd [dt] with
    | (.ok _, h) => { io with host := h }
    | (.error e, h) =>
      if e ≠ Posix.EAGAIN then set_port { io with host := h } ch { p with fd := -1 }
      else { io with host := h }
  else io

/-- The function `telnet_escape`.  Its argument `rd` is a `char`; the
comparisons with 1 and 3 and the two places it is stored to (`cmd` and
`rep[2]`, both `unsigned char`) see the same byte whether `char` is signed or
not, so `rd` is that byte. -/
def telnet_escape (io : Io) (ch : Nat) (rd : Nat) : Io :=
  let p := io.sci_port ch
  let cmd := uchar p.cmd
  if p.iac = 1 then
    set_port io ch { p with cmd := uchar rd, iac := sint32 (p.iac + 1) }
  else if p.iac = 2 then
    if (rd = 1 ∨ rd = 3) ∧ cmd = 0xfd then
      set_port io ch { p with iac := 0 }
    else
      let cmd :=
        if rd = 1 ∨ rd = 3 then
          if cmd = 0xfb then 0xfd else if cmd = 0xfd then 0xfb else cmd
        else
          if cmd = 0xfb then 0xfe else if cmd = 0xfd then 0xfc else cmd
      let h := (Posix.write io.host p.fd [0xff, cmd, uchar rd]).2
      set_port { io with host := h } ch { p with iac := 0 }
  else io

/-- The function `telnet_request`. -/
def telnet_request (io : Io) (fd : Int) : Io :=
  { io with host := (Posix.write io.host fd [0xff, 0xfb, 0x03, 0xff, 0xfb, 0x01]).2 }

/-- The function `sci_rcv_data`: `some rd` when it returns 1 with `*rxd = rd`,
`none` when it returns 0 and leaves `*rxd` alone. -/
def sci_rcv_data (io : Io) (ch : Nat) : Option Nat × Io :=
  let p := io.sci_port ch
  if p.fd > 0 then
    match Posix.read io.host p.fd with
    | (.ok rd, h) =>
      let io := { io with host := h }
      if io.sci_port_type = PORT_NET then
        if p.iac > 0 then (none, telnet_escape io ch rd)
        else if rd = 0xff then (none, set_port io ch { p with iac := 1 })
        else (some rd, io)
      else (some rd, io)
    | (.error e, h) =>
      if e = Posix.EAGAIN then (none, { io with host := h })
      else (none, set_port { io with host := Posix.close h p.fd } ch { p with fd := -1 })
  else (none, io)

/-- The `while` loop of `net_accept` on channel `ch`, for at most `n` reads:
whether the function returns 1 from inside the loop.  Every turn takes one
byte off the descriptor, so one more turn than bytes are waiting ends it. -/
def net_accept_while (ch : Nat) : Nat → Io → Bool × Io
  | 0, io => (false, io)
  | n + 1, io =>
    match Posix.read io.host (io.sci_port ch).fd with
    | (.ok rd, h) =>
      let io := { io with host := h }
      if (io.sci_port ch).iac > 0 then (true, telnet_escape io ch rd)
      else if rd = 0xff then (true, set_port io ch { io.sci_port ch with iac := 1 })
      else net_accept_while ch n io
    | (.error _, h) => (false, { io with host := h })

/-- The `for` loop of `net_accept` over the channels listed; `fcntl` is not
visible in the state. -/
def net_accept_for (io : Io) : List Nat → Bool × Io
  | [] => (false, io)
  | ch :: rest =>
    if (io.sci_port ch).fd = -1 then
      match Posix.accept io.host (io.sci_port ch).socket with
      | (connectfd, h) =>
        let io := { io with host := h }
        if connectfd > 0 then
          let io := set_port io ch { io.sci_port ch with fd := connectfd }
          let io := telnet_request io connectfd
          let io := set_port io ch { io.sci_port ch with iac := 0 }
          match net_accept_while ch ((io.host.pending connectfd).length + 1) io with
          | (true, io) => (true, io)
          | (false, io) => net_accept_for io rest
        else net_accept_for io rest
    else net_accept_for io rest

def net_accept (io : Io) : Bool × Io := net_accept_for io (List.range MAX_SCI_CH)

/-- Assignment `m[i] = v` through a pointer to `unsigned char`. -/
def io_store (io : Io) (m : mem_ptr) (i : Nat) (v : Nat) : Io :=
  { io with mem := store_byte io.mem m i (uchar v) }

/-- The call `set_rw_flag` on the memory of the state. -/
def io_set_rw_flag (io : Io) (address flag : Nat) : Io :=
  { io with mem := set_rw_flag io.mem address flag }

/-- Assignment `st->isr = v` for `st = &sci_state[ch]`. -/
def set_isr (io : Io) (ch : Nat) (v : Nat) : Io :=
  set_state io ch { io.sci_state ch with isr := uchar v }

/-- Assignment `st->ssr = v` for `st = &sci_state[ch]`. -/
def set_ssr (io : Io) (ch : Nat) (v : Nat) : Io :=
  set_state io ch { io.sci_state ch with ssr := uchar v }

/-- Assignment `st->tx_end_time = v` for `st = &sci_state[ch]`. -/
def set_tx_end_time (io : Io) (ch : Nat) (v : Int) : Io :=
  set_state io ch { io.sci_state ch with tx_end_time := v }

/-- Assignment `st->rx_end_time = v` for `st = &sci_state[ch]`. -/
def set_rx_end_time (io : Io) (ch : Nat) (v : Int) : Io :=
  set_state io ch { io.sci_state ch with rx_end_time := v }

/-- Assignment `st->txstate = v` for `st = &sci_state[ch]`. -/
def set_txstate (io : Io) (ch : Nat) (v : Int) : Io :=
  set_state io ch { io.sci_state ch with txstate := v }

/-- The start of the loop body of `sci`: the shadows `st->ssr` and `st->isr`
lose what the registers no longer hold and what SCR does not enable; `isr` is
what `get_sciir` returned. -/
def sci_clear (io : Io) (scibase : mem_ptr) (ch : Nat) (isr : Nat) : Io :=
  let io := set_ssr io ch ((io.sci_state ch).ssr &&& ld io.mem scibase (ch * 8 + 4))
  let io := set_isr io ch ((io.sci_state ch).isr &&& isr)
  let io :=
    if ¬ (ld io.mem scibase (ch * 8 + 2) &&& 0x80 ≠ 0) then
      set_isr io ch ((io.sci_state ch).isr &&& (255 - SCI_TXI))
    else io
  let io :=
    if ¬ (ld io.mem scibase (ch * 8 + 2) &&& 0x40 ≠ 0) then
      set_isr io ch ((io.sci_state ch).isr &&& (255 - (SCI_RXI ||| SCI_ERI)))
    else io
  if ¬ (ld io.mem scibase (ch * 8 + 2) &&& 0x4 ≠ 0) then
    set_isr io ch ((io.sci_state ch).isr &&& (255 - SCI_TEI))
  else io

/-- The transmit request of the loop body of `sci`. -/
def sci_tx_request (io : Io) (scibase : mem_ptr) (ch : Nat) : Io :=
  if ld io.mem scibase (ch * 8 + 2) &&& 0x20 ≠ 0 ∧
      get_rw_flag io.mem (0x00088243 + ch * 8) = mem_w ∧ (io.sci_state ch).txstate = 0 then
    let io := sci_send_data io ch (ld io.mem scibase (ch * 8 + 3))
    let io := set_isr io ch ((io.sci_state ch).isr &&& (255 - SCI_TEI))
    let io := set_ssr io ch ((io.sci_state ch).ssr &&& 0xfb)
    let io := set_tx_end_time io ch 1
    let io := set_txstate io ch 1
    io_set_rw_flag io (0x00088243 + ch * 8) mem_none
  else io

/-- The transmit-complete check of the loop body of `sci`. -/
def sci_tx_complete (io : Io) (scibase : mem_ptr) (ch : Nat) : Io :=
  if (io.sci_state ch).isr &&& (SCI_TXI ||| SCI_TEI) ≠ (SCI_TXI ||| SCI_TEI) ∧
      (io.sci_state ch).tx_end_time ≤ 0 then
    if ¬ ((io.sci_state ch).isr &&& SCI_TXI ≠ 0) then
      let io := set_isr io ch ((io.sci_state ch).isr ||| SCI_TXI)
      let io := set_ssr io ch ((io.sci_state ch).ssr ||| 0x80)
      let io := set_tx_end_time io ch (sint32 (sci_complete_time io.mem scibase ch))
      set_txstate io ch 0
    else
      let io := set_isr io ch ((io.sci_state ch).isr ||| SCI_TEI)
      set_ssr io ch ((io.sci_state ch).ssr ||| 0x04)
  else io

/-- The receive check of the loop body of `sci`. -/
def sci_rx (io : Io) (scibase : mem_ptr) (ch : Nat) : Io :=
  if (io.sci_state ch).rx_end_time ≤ 0 then
    if ld io.mem scibase (ch * 8 + 2) &&& 0x10 ≠ 0 then
      match sci_rcv_data io ch with
      | (some data, io) =>
        let io :=
          if get_rw_flag io.mem (0x00088245 + ch * 8) = mem_none then
            let io := set_isr io ch ((io.sci_state ch).isr ||| SCI_ERI)
            let io := io_set_rw_flag io (0x00088245 + ch * 8) mem_none
            set_ssr io ch ((io.sci_state ch).ssr ||| 0x20)
          else
            let io := io_store io scibase (ch * 8 + 5) data
            let io := set_isr io ch ((io.sci_state ch).isr ||| SCI_RXI)
            let io := io_set_rw_flag io (0x00088245 + ch * 8) mem_none
            set_ssr io ch ((io.sci_state ch).ssr ||| 0x40)
        set_rx_end_time io ch (sint32 (sci_complete_time io.mem scibase ch))
      | (none, io) => io
    else io
  else io

/-- The state in which the loop body of `sci` polls the transport for channel
`ch`: the body from the transmit request up to the receive check, after the
shadows were cleared. -/
def sci_to_poll (io : Io) (scibase : mem_ptr) (cycles_diff ch : Nat) : Io :=
  let io := sci_tx_request io scibase ch
  let io := set_tx_end_time io ch (sint32 ((io.sci_state ch).tx_end_time - cycles_diff))
  let io := sci_tx_complete io scibase ch
  set_rx_end_time io ch (sint32 ((io.sci_state ch).rx_end_time - cycles_diff))

/-- The body of the loop of `sci` for channel `ch`. -/
def sci_channel (io : Io) (scibase : mem_ptr) (cycles_diff ch : Nat) : Except Fault Unit × Io :=
  seq (get_sciir io ch) fun isr io =>
    let io := sci_clear io scibase ch isr
    let io := sci_to_poll io scibase cycles_diff ch
    let io := sci_rx io scibase ch
    let io := io_store io scibase (ch * 8 + 4) ((io.sci_state ch).ssr &&& 0xfc)
    set_sciir io ch (io.sci_state ch).isr

/-- The loop of `sci` over the channels listed. -/
def sci_for (scibase : mem_ptr) (cycles_diff : Nat) : List Nat → Io → Except Fault Unit × Io
  | [], io => (.ok (), io)
  | ch :: rest, io =>
    seq (sci_channel io scibase cycles_diff ch) fun _ io => sci_for scibase cycles_diff rest io

def sci (io : Io) (cycles_diff : Nat) : Except Fault Unit × Io :=
  let go := fun (io : Io) =>
    seq (io_mem_ptr io 0x00088240 .MPA_WRITING) fun scibase io =>
      sci_for scibase cycles_diff (List.range MAX_SCI_CH) io
  if io.sci_port_type = PORT_NET then
    match net_accept io with
    | (true, io) => (.ok (), io)
    | (false, io) => go io
  else go io

/-! ## The access-trace log as text -/

/-- The table `memtype_str`. -/
def memtype_str : List String := ["RL", "RP", "RW", "RB", "WL", "WP", "WW", "WB"]

/-- The value of an enumerator of `enum mem_access_type`. -/
def mem_access_type.toNat : mem_access_type → Nat
  | .MEM_RL => 0
  | .MEM_RQ => 1
  | .MEM_RW => 2
  | .MEM_RB => 3
  | .MEM_WL => 4
  | .MEM_WQ => 5
  | .MEM_WW => 6
  | .MEM_WB => 7

/-- The conversion `%08lx` of an `unsigned long`: the hexadecimal digits in
lower case, padded on the left with zeros to eight characters. -/
def fmt_08lx (v : Nat) : String :=
  String.mk (List.replicate (8 - (Nat.toDigits 16 v).length) '0' ++ Nat.toDigits 16 v)

/-- The text of the format `"0x%08lx 0x%08lx %s %08lx\n"` for the record `r`:
`mpc`, `addr`, `memtype_str[type]` and `data`. -/
def memlog_line (r : memlog) : String :=
  "0x" ++ fmt_08lx r.mpc ++ " 0x" ++ fmt_08lx r.addr ++ " "
    ++ memtype_str.getD r.type.toNat default ++ " " ++ fmt_08lx r.data ++ "\n"

/-- The loop of `save_memlog` from `idx` on, `n` turns: the lines it writes.
An element of the buffer that was never assigned has no defined value. -/
def save_memlog_for (st : Mem) : Nat → Nat → Option (List String)
  | 0, _ => some []
  | n + 1, idx =>
    match st.memlog_buffer idx with
    | none => none
    | some r => (save_memlog_for st n (idx + 1)).map (fun ls => memlog_line r :: ls)

/-- The function `save_memlog`: what it prints through the callback and what
it writes to the file; `fopen_ok` tells whether `fopen` returned a stream. -/
def save_memlog (st : Mem) (fopen_ok : Bool) : Option (List String × List String) :=
  if fopen_ok then (save_memlog_for st st.memlogtail 0).map (fun ls => ([], ls))
  else some (["save-history: file open failed.\n"], [])

/-- The loop of `show_memlog` from `idx` on, `n` turns, and the empty line
after it: what is printed through the callback. -/
def show_memlog_for (w : Nat) (st : Mem) : Nat → Nat → Option (List String)
  | 0, _ => some ["\n"]
  | n + 1, idx =>
    match st.memlog_buffer idx with
    | none => none
    | some r =>
      (show_memlog_for w st n ((idx + 1) % 2 ^ w)).map (fun ls => memlog_line r :: ls)

/-- The function `show_memlog`.  Its format has `%08x` where `save_memlog` has
`%08lx`, for the same `unsigned long` arguments: where `unsigned long` is as
wide as `unsigned int` (`w = 32`) the text is the same, elsewhere the
conversions do not fit their arguments and a line has no defined text. -/
def show_memlog (w : Nat) (st : Mem) (lines : Int) : Option (List String) :=
  if w ≠ 32 ∧ 0 < lines then none
  else show_memlog_for w st lines.toNat (ulong w (st.memlogtail - lines))

/-! ## mem.c: the 8-bit timers -/

/-- The globals of the memory together with the `static` locals of
`tmr_update`: the array `prescale` and the array `isr`. -/
structure Tmr where
  mem : Mem
  prescale : Nat → Int
  isr : Nat → Nat

def TMRI_CMA : Nat := 1 <<< 2

def TMRI_CMB : Nat := 1 <<< 1

def TMRI_OVF : Nat := 1 <<< 0

/-- The array `prescale_div` of `tmr_update`, which is also what `prescale`
starts with. -/
def tmr_prescale_div : List Int := [1, 2, 8, 32, 64, 1024, 8192]

/-- A call that can stop the current instruction, followed by what comes
after it. -/
def tmr_seq {α β : Type} (r : Except Fault α × Tmr) (k : α → Tmr → Except Fault β × Tmr) :
    Except Fault β × Tmr :=
  match r with
  | (.error f, t) => (.error f, t)
  | (.ok a, t) => k a t

/-- The call `rx_mem_ptr (address, action)` on the memory of the state. -/
def tmr_mem_ptr (t : Tmr) (address : Nat) (action : mem_ptr_action) :
    Except Fault mem_ptr × Tmr :=
  match rx_mem_ptr t.mem address action with
  | (r, m) => (r, { t with mem := m })

/-- The index `(((ch) / 2) * 0x10 + (ch) % 2) + k` of the macros `TCR8`
(`k = 0`), `TCSR8` (2), `TCORA8` (4), `TCORB8` (6), `TCNT8` (8) and `TCCR8`
(10), with the division and the remainder of C: `ch` is -1 in one use. -/
def tmr_index (ch : Int) (k : Nat) : Nat := ((ch.tdiv 2) * 0x10 + ch.tmod 2 + k).toNat

/-- Read of one of the registers `tmrbase[..]` of channel `ch`. -/
def tmr_reg (t : Tmr) (tmrbase : mem_ptr) (ch : Int) (k : Nat) : Nat :=
  ld t.mem tmrbase (tmr_index ch k)

/-- Assignment to one of the registers `tmrbase[..]` of channel `ch`. -/
def tmr_set_reg (t : Tmr) (tmrbase : mem_ptr) (ch : Int) (k : Nat) (v : Nat) : Tmr :=
  { t with mem := store_byte t.mem tmrbase (tmr_index ch k) (uchar v) }

/-- Assignment `isr[tm] = v`; the elements are `unsigned char`s. -/
def tmr_set_isr (t : Tmr) (tm : Nat) (v : Nat) : Tmr :=
  { t with isr := upd t.isr tm (uchar v) }

/-- Assignment `prescale[pcnt] = v`. -/
def tmr_set_prescale (t : Tmr) (pcnt : Nat) (v : Int) : Tmr :=
  { t with prescale := upd t.prescale pcnt v }

/-- The loop of `get_tmrisr` over the bytes `irptr[i]`, `i` in the list. -/
def get_tmrisr_loop (st : Mem) (irptr : mem_ptr) : List Nat → Nat → Nat
  | [], isr => isr
  | i :: rest, isr =>
    let isr := uchar (isr <<< 1)
    get_tmrisr_loop st irptr rest (if load_byte st irptr i ≠ 0 then uchar (isr ||| 1) else isr)

/-- The function `get_tmrisr`.  Its local `isr` is shifted before anything is
assigned to it: `junk` stands for the value it holds on entry. -/
def get_tmrisr (t : Tmr) (ch : Nat) (junk : Nat) : Except Fault Nat × Tmr :=
  tmr_seq (tmr_mem_ptr t (IRADR (174 + ch * 3)) .MPA_READING) fun irptr t =>
    (.ok (get_tmrisr_loop t.mem irptr (List.range 3) (uchar junk)), t)

/-- The loop of `set_tmrisr` over the bytes `irptr[i]`, `i` in the list. -/
def set_tmrisr_loop (irptr : mem_ptr) : List Nat → Mem → Nat → Mem
  | [], st, _ => st
  | i :: rest, st, isr =>
    set_tmrisr_loop irptr rest (store_byte st irptr i (if isr &&& (1 <<< 2) ≠ 0 then 1 else 0))
      (uchar (isr <<< 1))

def set_tmrisr (t : Tmr) (ch : Nat) (isr : Nat) : Except Fault Unit × Tmr :=
  tmr_seq (tmr_mem_ptr t (IRADR (174 + ch * 3)) .MPA_WRITING) fun irptr t =>
    (.ok (), { t with mem := set_tmrisr_loop irptr (List.range 3) t.mem (uchar isr) })

/-- One compare match check of the 8-bit branch of `tmr_update` on the count
`cnt`: against the register at offset `k`, with the status bit `bit`, the count
cleared when the bits 0x18 of TCR are `clr`. -/
def tmr_match8 (t : Tmr) (tmrbase : mem_ptr) (tm k bit clr cnt : Nat) : Tmr × Nat :=
  if cnt ≥ tmr_reg t tmrbase tm k then
    (tmr_set_isr t tm (t.isr tm ||| bit), if tmr_reg t tmrbase tm 0 &&& 0x18 = clr then 0 else cnt)
  else (t, cnt)

/-- The 8-bit branch of the loop body of `tmr_update` for channel `tm`.  The
counter is an `unsigned char`, and `cnt` is its value after the increment. -/
def tmr_8bit (t : Tmr) (tmrbase : mem_ptr) (tm : Nat) : Except Fault Unit × Tmr :=
  let t := tmr_set_reg t tmrbase tm 8 (tmr_reg t tmrbase tm 8 + 1)
  let cnt := tmr_reg t tmrbase tm 8
  let r : Tmr × Nat :=
    if cnt ≥ 0x100 then (tmr_set_isr t tm (t.isr tm ||| TMRI_OVF), 0) else (t, cnt)
  let r := tmr_match8 r.1 tmrbase tm 4 TMRI_CMA 0x08 r.2
  let r := tmr_match8 r.1 tmrbase tm 6 TMRI_CMB 0x10 r.2
  let t := tmr_set_reg r.1 tmrbase tm 8 r.2
  set_tmrisr t tm (t.isr tm)

/-- One compare match check of the 16-bit branch on the count `cnt`: against
the pair of registers at offset `k`, with the status bit `bit` for channel `tm`
and for channel `low` on a match of the low bytes. -/
def tmr_match16 (t : Tmr) (tmrbase : mem_ptr) (tm low k bit clr cnt : Nat) : Tmr × Nat :=
  let cor := tmr_reg t tmrbase tm k <<< 8 ||| tmr_reg t tmrbase ((tm : Int) + 1) k
  let r : Tmr × Nat :=
    if cnt ≥ cor then
      (tmr_set_isr t tm (t.isr tm ||| bit),
        if tmr_reg t tmrbase tm 0 &&& 0x18 = clr then 0 else cnt)
    else (t, cnt)
  if (r.2 &&& 0xff) ≥ (cor &&& 0xff) then (tmr_set_isr r.1 low (r.1.isr low ||| bit), r.2)
  else r

/-- The 16-bit branch of the loop body of `tmr_update` for an even channel
`tm` whose partner counts on prescaler `pcnt`, from `isr[tm + 1] &= ..` on. -/
def tmr_16bit (t : Tmr) (tmrbase : mem_ptr) (tm junk : Nat) : Except Fault Unit × Tmr :=
  tmr_seq (get_tmrisr t (tm + 1) junk) fun i t =>
    let t := tmr_set_isr t (tm + 1) (t.isr (tm + 1) &&& i)
    let cnt := (tmr_reg t tmrbase tm 8 <<< 8 ||| tmr_reg t tmrbase ((tm : Int) + 1) 8) + 1
    let r : Tmr × Nat :=
      if cnt ≥ 0x10000 then (tmr_set_isr t tm (t.isr tm ||| TMRI_OVF), 0) else (t, cnt)
    let t := tmr_set_reg r.1 tmrbase tm 8 (r.2 >>> 8)
    let t := tmr_set_reg t tmrbase ((tm : Int) - 1) 8 (r.2 &&& 0xff)
    let r := tmr_match16 t tmrbase tm (tm + 1) 4 TMRI_CMA 0x08 r.2
    let r := tmr_match16 r.1 tmrbase tm tm 6 TMRI_CMB 0x10 r.2
    let t := tmr_set_reg r.1 tmrbase tm 8 (r.2 >>> 8)
    let t := tmr_set_reg t tmrbase ((tm : Int) + 1) 8 (r.2 &&& 0xff)
    tmr_seq (set_tmrisr t tm (t.isr tm)) fun _ t => set_tmrisr t (tm + 1) (t.isr (tm + 1))

/-- The body of the inner loop of `tmr_update` for channel `tm` when prescaler
`pcnt` has expired. -/
def tmr_channel (t : Tmr) (tmrbase : mem_ptr) (pcnt tm junk : Nat) : Except Fault Unit × Tmr :=
  if tmr_reg t tmrbase tm 10 &&& 0x01f = 0 then (.ok (), t)
  else
    tmr_seq (get_tmrisr t tm junk) fun i t =>
      let t := tmr_set_isr t tm (t.isr tm &&& i)
      if tmr_reg t tmrbase ((tm &&& 2 : Nat) : Int) 10 &&& 0x18 = 0x18 then
        if tm &&& 1 ≠ 0 then (.ok (), t)
        else if ((tmr_reg t tmrbase ((tm : Int) + 1) 10 &&& 0x07 : Nat) : Int) ≠ (pcnt : Int) - 1
        then (.ok (), t)
        else tmr_16bit t tmrbase tm junk
      else tmr_8bit t tmrbase tm

/-- The inner loop of `tmr_update` over the channels listed. -/
def tmr_for (tmrbase : mem_ptr) (pcnt junk : Nat) : List Nat → Tmr → Except Fault Unit × Tmr
  | [], t => (.ok (), t)
  | tm :: rest, t =>
    tmr_seq (tmr_channel t tmrbase pcnt tm junk) fun _ t => tmr_for tmrbase pcnt junk rest t

/-- The turn of the outer loop of `tmr_update` for prescaler `pcnt`. -/
def tmr_prescaler (tmrbase : mem_ptr) (ch cycles_diff junk pcnt : Nat) (t : Tmr) :
    Except Fault Unit × Tmr :=
  let t := tmr_set_prescale t pcnt (sint32 (t.prescale pcnt - cycles_diff))
  if t.prescale pcnt ≤ 0 then
    tmr_seq (tmr_for tmrbase pcnt junk (List.range ch) t) fun _ t =>
      (.ok (), tmr_set_prescale t pcnt (sint32 (t.prescale pcnt + tmr_prescale_div.getD pcnt 0)))
  else (.ok (), t)

/-- The outer loop of `tmr_update` over the prescalers listed. -/
def tmr_update_for (tmrbase : mem_ptr) (ch cycles_diff junk : Nat) :
    List Nat → Tmr → Except Fault Unit × Tmr
  | [], t => (.ok (), t)
  | pcnt :: rest, t =>
    tmr_seq (tmr_prescaler tmrbase ch cycles_diff junk pcnt t) fun _ t =>
      tmr_update_for tmrbase ch cycles_diff junk rest t

def tmr_update (t : Tmr) (ch cycles_diff junk : Nat) : Except Fault Unit × Tmr :=
  tmr_seq (tmr_mem_ptr t 0x00088200 .MPA_WRITING) fun tmrbase t =>
    tmr_update_for tmrbase ch cycles_diff junk (List.range 7) t

/-! ## mem.c: `sign_ext` and `mem_set_content_range` -/

/-- The operator `&` on two `int`s: the bits of their two's complement
representations. -/
def int_and (a b : Int) : Int := sint32 ((uint32 a &&& uint32 b : Nat) : Int)

/-- The function `sign_ext`.  The shifts `1 << bits` and `1 << (bits - 1)` and
the subtractions are `int` arithmetic, taken in two's complement like the other
`int` arithmetic of mem.c here; a shift by a negative count has no defined
result. -/
def sign_ext (v bits : Int) : Option Int :=
  if bits < 32 then
    if bits < 1 then none
    else
      let v := int_and v (sint32 (shl_int 1 bits.toNat - 1))
      if int_and v (shl_int 1 (bits.toNat - 1)) ≠ 0 then
        some (sint32 (v - shl_int 1 bits.toNat))
      else some v
  else some v

/-- The size `sz` of the chunk that one turn of the loop of
`mem_set_content_range` writes, from `start_address` towards `end_address`. -/
def range_chunk (start_address end_address : Int) : Int :=
  let sz := sint32 (end_address - start_address)
  let ofs := start_address.tmod L1_LEN
  if sint32 (sz + ofs) > L1_LEN then sint32 (L1_LEN - ofs) else sz

/-- The call `memset (mt, type, sz)` for a pointer `mt` into the classification
plane: the `sz` bytes from `mt` on. -/
def memset_ctype (st : Mem) (mt : mem_ptr) (type : mem_content_type) (sz : Nat) : Mem :=
  match page_at st mt.pt1 mt.pt2 with
  | none => st
  | some pg =>
    install st mt.pt1 mt.pt2 (inner_table st mt.pt1)
      { pg with ctype := fun i => if mt.pto ≤ i ∧ i < mt.pto + sz then type else pg.ctype i }

/-- The loop of `mem_set_content_range`, for at most as many turns as the first
argument says: `none` when the turns do not suffice, and when a `memset` has a
negative size or runs over the end of its page, which has no defined result. -/
def mem_set_content_range_loop (w : Nat) (type : mem_content_type) :
    Nat → Mem → Int → Int → Option (Except Fault Unit × Mem)
  | 0, st, start_address, end_address =>
    if start_address < end_address then none else some (.ok (), st)
  | n + 1, st, start_address, end_address =>
    if start_address < end_address then
      let sz := range_chunk start_address end_address
      match rx_mem_ptr st (ulong w start_address) .MPA_CONTENT_TYPE with
      | (.error e, st1) => some (.error e, st1)
      | (.ok mt, st1) =>
        if sz < 0 ∨ mt.pto + sz.toNat > OFF_LEN then none
        else
          mem_set_content_range_loop w type n (memset_ctype st1 mt type sz.toNat)
            (sint32 (start_address + sz)) end_address
    else some (.ok (), st)

/-- The function `mem_set_content_range`.  Every turn of its loop that does not
stop the call advances `start_address` by one at least, so the loop is given
as many turns as there are addresses from `start_address` to `end_address`. -/
def mem_set_content_range (w : Nat) (st : Mem) (start_address end_address : Int)
    (type : mem_content_type) : Option (Except Fault Unit × Mem) :=
  mem_set_content_range_loop w type (end_address - start_address).toNat st start_address
    end_address

/-! ## mem.c: the compare match timers -/

/-- The globals of the memory together with the `static` array `prescale` of
`cmt_update`. -/
structure Cmt where
  mem : Mem
  prescale : Nat → Int

/-- The array `prescale_div` of `cmt_update`, which is also what `prescale`
starts with. -/
def cmt_prescale_div : List Int := [8, 32, 128, 512]

/-- A call that can stop the current instruction, followed by what comes
after it. -/
def cmt_seq {α β : Type} (r : Except Fault α × Cmt) (k : α → Cmt → Except Fault β × Cmt) :
    Except Fault β × Cmt :=
  match r with
  | (.error f, t) => (.error f, t)
  | (.ok a, t) => k a t

/-- The call `rx_mem_ptr (address, action)` on the memory of the state. -/
def cmt_mem_ptr (t : Cmt) (address : Nat) (action : mem_ptr_action) :
    Except Fault mem_ptr × Cmt :=
  match rx_mem_ptr t.mem address action with
  | (r, m) => (r, { t with mem := m })

/-- The index of `CMSTR (ch)` in `cmtbase`. -/
def CMSTR (ch : Nat) : Nat := ch / 2 * 0x10 / 2

/-- The index of `CMCR (ch)` in `cmtbase`. -/
def CMCR (ch : Nat) : Nat := (ch / 2 * 0x10 + (ch % 2 * 0x06) + 0x02) / 2

/-- The index of `CMCNT (ch)` in `cmtbase`. -/
def CMCNT (ch : Nat) : Nat := (ch / 2 * 0x10 + (ch % 2 * 0x06) + 0x04) / 2

/-- The index of `CMCOR (ch)` in `cmtbase`. -/
def CMCOR (ch : Nat) : Nat := (ch / 2 * 0x10 + (ch % 2 * 0x06) + 0x06) / 2

/-- Read of the `unsigned short` `cmtbase[i]`: two bytes of the memory, in the
byte order of the host, which `host_be` tells. -/
def cmt_reg (t : Cmt) (cmtbase : mem_ptr) (host_be : Bool) (i : Nat) : Nat :=
  if host_be then ld t.mem cmtbase (2 * i) <<< 8 ||| ld t.mem cmtbase (2 * i + 1)
  else ld t.mem cmtbase (2 * i) ||| ld t.mem cmtbase (2 * i + 1) <<< 8

/-- Assignment to the `unsigned short` `cmtbase[i]`. -/
def cmt_set_reg (t : Cmt) (cmtbase : mem_ptr) (host_be : Bool) (i : Nat) (v : Nat) : Cmt :=
  let hi := if host_be then 2 * i else 2 * i + 1
  let lo := if host_be then 2 * i + 1 else 2 * i
  let m := store_byte t.mem cmtbase hi (ushort v >>> 8)
  { t with mem := store_byte m cmtbase lo (ushort v &&& 0xff) }

/-- Assignment `prescale[pcnt] = v` in `cmt_update`. -/
def cmt_set_prescale (t : Cmt) (pcnt : Nat) (v : Int) : Cmt :=
  { t with prescale := upd t.prescale pcnt v }

/-- The body of the inner loop of `cmt_update` for channel `tm` when prescaler
`pcnt` has expired. -/
def cmt_channel (t : Cmt) (cmtbase : mem_ptr) (host_be : Bool) (pcnt tm : Nat) :
    Except Fault Unit × Cmt :=
  if cmt_reg t cmtbase host_be (CMSTR tm) &&& (1 <<< (tm % 2)) = 0 then (.ok (), t)
  else if cmt_reg t cmtbase host_be (CMCR tm) &&& 3 ≠ pcnt then (.ok (), t)
  else
    let t := cmt_set_reg t cmtbase host_be (CMCNT tm) (cmt_reg t cmtbase host_be (CMCNT tm) + 1)
    let cnt := cmt_reg t cmtbase host_be (CMCNT tm)
    if cnt ≥ cmt_reg t cmtbase host_be (CMCOR tm) then
      if cmt_reg t cmtbase host_be (CMCR tm) &&& 0x40 ≠ 0 then
        cmt_seq (cmt_mem_ptr t (IRADR (28 + tm)) .MPA_WRITING) fun p t =>
          (.ok (), cmt_set_reg { t with mem := store_byte t.mem p 0 1 } cmtbase host_be
            (CMCNT tm) 0)
      else (.ok (), cmt_set_reg t cmtbase host_be (CMCNT tm) 0)
    else (.ok (), cmt_set_reg t cmtbase host_be (CMCNT tm) cnt)

/-- The inner loop of `cmt_update` over the channels listed. -/
def cmt_for (cmtbase : mem_ptr) (host_be : Bool) (pcnt : Nat) :
    List Nat → Cmt → Except Fault Unit × Cmt
  | [], t => (.ok (), t)
  | tm :: rest, t =>
    cmt_seq (cmt_channel t cmtbase host_be pcnt tm) fun _ t => cmt_for cmtbase host_be pcnt rest t

/-- The turn of the outer loop of `cmt_update` for prescaler `pcnt`;
`cycles_diff` is an `int`. -/
def cmt_prescaler (cmtbase : mem_ptr) (host_be : Bool) (cycles_diff : Int) (pcnt : Nat)
    (t : Cmt) : Except Fault Unit × Cmt :=
  let t := cmt_set_prescale t pcnt (sint32 (t.prescale pcnt - cycles_diff))
  if t.prescale pcnt ≤ 0 then
    cmt_seq (cmt_for cmtbase host_be pcnt (List.range 4) t) fun _ t =>
      (.ok (), cmt_set_prescale t pcnt (sint32 (t.prescale pcnt + cmt_prescale_div.getD pcnt 0)))
  else (.ok (), t)

/-- The outer loop of `cmt_update` over the prescalers listed. -/
def cmt_update_for (cmtbase : mem_ptr) (host_be : Bool) (cycles_diff : Int) :
    List Nat → Cmt → Except Fault Unit × Cmt
  | [], t => (.ok (), t)
  | pcnt :: rest, t =>
    cmt_seq (cmt_prescaler cmtbase host_be cycles_diff pcnt t) fun _ t =>
      cmt_update_for cmtbase host_be cycles_diff rest t

def cmt_update (t : Cmt) (host_be : Bool) (cycles_diff : Int) : Except Fault Unit × Cmt :=
  cmt_seq (cmt_mem_ptr t 0x00088000 .MPA_WRITING) fun cmtbase t =>
    cmt_update_for cmtbase host_be cycles_diff (List.range 4) t

/-! ## mem.c: the entry point of the peripherals -/

/-- What `io_simulation` works on: the state of the serial channels with the
memory, the statics of `tmr_update` and of `cmt_update`, and its own statics
`prev_icycle`, `prev_pcycle` and `pcycles`. -/
structure Rxio where
  io : Io
  tmr_prescale : Nat → Int
  tmr_isr : Nat → Nat
  cmt_prescale : Nat → Int
  prev_icycle : Nat
  prev_pcycle : Nat
  pcycles : Nat

/-- The statements of `io_simulation` up to the test of `pcycle_diff`: the
statics after them and `pcycle_diff`.  `rx_cycles` is the value of the global
of that name; the three statics and the two locals are `unsigned int`s. -/
def io_cycles (b : Rxio) (rx_cycles : Int) : Rxio × Nat :=
  let icycle_diff := uint32 (rx_cycles - b.prev_icycle)
  let b := { b with prev_icycle := uint32 rx_cycles }
  let b := { b with pcycles := uint32 ((b.pcycles : Int) + (icycle_diff / 2 : Nat)) }
  (b, uint32 ((b.pcycles : Int) - b.prev_pcycle))

/-- The call `tmr_update (3, pcycle_diff)` on the state of `io_simulation`. -/
def io_tmr (b : Rxio) (pcycle_diff junk : Nat) : Except Fault Unit × Rxio :=
  match tmr_update ⟨b.io.mem, b.tmr_prescale, b.tmr_isr⟩ 3 pcycle_diff junk with
  | (r, t) =>
    (r, { b with io := { b.io with mem := t.mem }, tmr_prescale := t.prescale,
                 tmr_isr := t.isr })

/-- The call `cmt_update (pcycle_diff)` on the state of `io_simulation`; the
argument is converted to `int`. -/
def io_cmt (b : Rxio) (host_be : Bool) (pcycle_diff : Nat) : Except Fault Unit × Rxio :=
  match cmt_update ⟨b.io.mem, b.cmt_prescale⟩ host_be (sint32 pcycle_diff) with
  | (r, t) => (r, { b with io := { b.io with mem := t.mem }, cmt_prescale := t.prescale })

/-- The calls of `io_simulation` after the test of `pcycle_diff`. -/
def io_peripherals (b : Rxio) (pcycle_diff : Nat) (cpupri : Int) (junk : Nat) (host_be : Bool) :
    Except Fault Int × Rxio :=
  match io_tmr b pcycle_diff junk with
  | (.error f, b) => (.error f, b)
  | (.ok _, b) =>
    match io_cmt b host_be pcycle_diff with
    | (.error f, b) => (.error f, b)
    | (.ok _, b) =>
      match sci b.io pcycle_diff with
      | (.error f, io) => (.error f, { b with io := io })
      | (.ok _, io) =>
        match icu io.mem cpupri with
        | (r, m) => (r, { b with io := { io with mem := m } })

/-- The function `io_simulation`.  `junk` is what the unassigned local of
`get_tmrisr` holds and `host_be` the byte order of the host, in which
`cmt_update` reads its 16-bit registers. -/
def io_simulation (b : Rxio) (rx_cycles cpupri : Int) (junk : Nat) (host_be : Bool) :
    Except Fault Int × Rxio :=
  if (io_cycles b rx_cycles).2 = 0 then (.ok (-1), (io_cycles b rx_cycles).1)
  else
    let r := io_cycles b rx_cycles
    io_peripherals { r.1 with prev_pcycle := r.1.pcycles } r.2 cpupri junk host_be

/-! ## Vocabulary of the statements on the serial channels

Abbreviations in which the properties of `sci` are stated; none of them is
part of mem.c. -/

/-- The pointer `scibase` of `sci`: what `rx_mem_ptr (0x00088240, ..)`
returns. -/
def scibase_ptr : mem_ptr := split 0x00088240

/-- The state in which the loop body of `sci` polls the transport for channel
`ch`: the body up to the receive check; the state `get_sciir` leaves when it
stops the call. -/
def sci_at_poll (io : Io) (scibase : mem_ptr) (cycles_diff ch : Nat) : Io :=
  match get_sciir io ch with
  | (.ok isr, io) => sci_to_poll (sci_clear io scibase ch isr) scibase cycles_diff ch
  | (.error _, io) => io

/-- The register page of the serial channels is allocated and the four
interrupt request bytes of channel `ch` can be resolved for writing. -/
def sci_mapped (io : Io) (ch : Nat) : Prop :=
  allocated io.mem 0x00088240 = true ∧ ctype_of io.mem (IRADR (214 + ch * 4)) ≠ .MC_PUSHED_PC

instance (io : Io) (ch : Nat) : Decidable (sci_mapped io ch) := by
  unfold sci_mapped; exact inferInstance

/-- A state whose serial channel 0 is connected to descriptor 5, on which the
bytes `bs` wait: the register page is allocated, SCR of channel 0 is `scr`, RDR
is `rdr`, the flag of RDR is `flag`, and the channel's shadows are as `sci`
starts with. -/
def sci_io (scr rdr flag : Nat) (bs : List Nat) : Io :=
  let m := (rx_mem_ptr Mem.zero 0x00088240 .MPA_WRITING).2
  let m := store_byte (store_byte m scibase_ptr 2 scr) scibase_ptr 5 rdr
  { mem := set_rw_flag m 0x00088245 flag
    sci_port := fun _ => ⟨5, 0, 0, 0⟩
    sci_port_type := PORT_PTY
    sci_state := fun _ => ⟨0, 0, 0, 0, 0x84⟩
    host := { Posix.quiet with pending := fun fd => if fd = 5 then bs else [] } }

/-- The state in which the loop of `sci` gets to channel `ch`; `none` when the
call returns before: from `net_accept` in socket mode, or stopped by a fault of
`rx_mem_ptr`. -/
def sci_reach (io : Io) (cycles_diff ch : Nat) : Option Io :=
  let go := fun (io : Io) =>
    match io_mem_ptr io 0x00088240 .MPA_WRITING with
    | (.ok scibase, io) =>
      match sci_for scibase cycles_diff (List.range ch) io with
      | (.ok _, io) => some io
      | (.error _, _) => none
    | (.error _, _) => none
  if io.sci_port_type = PORT_NET then
    match net_accept io with
    | (true, _) => none
    | (false, io) => go io
  else go io

/-- What `sci_rcv_data` returns at the receive check of channel `ch` during the
call `sci (cycles_diff)`: `none` when the call does not get to the channel, or
when the call yields no byte. -/
def sci_poll (io : Io) (cycles_diff ch : Nat) : Option Nat :=
  match sci_reach io cycles_diff ch with
  | some s => (sci_rcv_data (sci_at_poll s scibase_ptr cycles_diff ch) ch).1
  | none => none

/-- The three resolutions of `sci` for its channels and the one for the
register page go through: none of the bytes is classified as a pushed return
address. -/
def sci_resolves (io : Io) : Prop :=
  ctype_of io.mem 0x00088240 ≠ .MC_PUSHED_PC ∧
    ∀ ch, ch < MAX_SCI_CH → ctype_of io.mem (IRADR (214 + ch * 4)) ≠ .MC_PUSHED_PC

instance (io : Io) : Decidable (sci_resolves io) := by
  unfold sci_resolves; exact inferInstance

/-- What a run of the loop body of `sci` for channel `i` keeps: the state of
the other channels, the registers other than SSR and RDR of channel `i`, the
flags other than those of TDR and RDR of channel `i`; the register page stays
allocated, and no byte becomes classified as a pushed return address. -/
def keeps_sci (i : Nat) (s s' : Io) : Prop :=
  s'.sci_port_type = s.sci_port_type ∧
    (∀ k, k ≠ i → s'.sci_state k = s.sci_state k) ∧
    (∀ j, j ≠ i * 8 + 4 → j ≠ i * 8 + 5 → ld s'.mem scibase_ptr j = ld s.mem scibase_ptr j) ∧
    (∀ a, a ≠ 0x00088243 + i * 8 → a ≠ 0x00088245 + i * 8 →
      get_rw_flag s'.mem a = get_rw_flag s.mem a) ∧
    (allocated s.mem 0x00088240 = true → allocated s'.mem 0x00088240 = true) ∧
    (∀ x, ctype_of s.mem x ≠ .MC_PUSHED_PC → ctype_of s'.mem x ≠ .MC_PUSHED_PC)

/-- Channel `ch` is the same in both states: its registers, the flags of its
TDR and RDR, and what `sci` keeps for it between calls; the register page stays
allocated, and no byte has become classified as a pushed return address. -/
def same_channel (s s' : Io) (ch : Nat) : Prop :=
  s'.sci_port_type = s.sci_port_type ∧ s'.sci_state ch = s.sci_state ch ∧
    (∀ j, ch * 8 ≤ j → j < ch * 8 + 8 → ld s'.mem scibase_ptr j = ld s.mem scibase_ptr j) ∧
    get_rw_flag s'.mem (0x00088243 + ch * 8) = get_rw_flag s.mem (0x00088243 + ch * 8) ∧
    get_rw_flag s'.mem (0x00088245 + ch * 8) = get_rw_flag s.mem (0x00088245 + ch * 8) ∧
    (allocated s.mem 0x00088240 = true → allocated s'.mem 0x00088240 = true) ∧
    (∀ x, ctype_of s.mem x ≠ .MC_PUSHED_PC → ctype_of s'.mem x ≠ .MC_PUSHED_PC)

/-! ## Vocabulary of the statements on the access-trace log -/

/-- The kind of a logged access, in the words of the statement: `R` for a
load and `W` for a store, followed by `L` for 4 bytes, `P` for 3, `W` for 2
and `B` for 1. -/
def opkind (store : Bool) (bytes : Nat) : String :=
  (if store then "W" else "R") ++
    (if bytes = 4 then "L" else if bytes = 3 then "P" else if bytes = 2 then "W" else "B")

/-- The line `0x<pc> 0x<address> <KIND> <value>` of the statement, the three
numbers as `%08lx` prints them. -/
def record_text (pc address : Nat) (kind : String) (value : Nat) : String :=
  "0x" ++ fmt_08lx pc ++ " 0x" ++ fmt_08lx address ++ " " ++ kind ++ " " ++ fmt_08lx value
    ++ "\n"

/-- The typed access an operation is, if it is one: whether it stores, its
width in bytes, its address and the program counter it is passed. -/
def Op.access : Op → Option (Bool × Nat × Int × Nat)
  | .put_qi A _ mpc => some (true, 1, A, mpc)
  | .put_hi A _ mpc => some (true, 2, A, mpc)
  | .put_psi A _ mpc => some (true, 3, A, mpc)
  | .put_si A _ mpc => some (true, 4, A, mpc)
  | .get_qi A mpc => some (false, 1, A, mpc)
  | .get_hi A mpc => some (false, 2, A, mpc)
  | .get_psi A mpc => some (false, 3, A, mpc)
  | .get_si A mpc => some (false, 4, A, mpc)
  | _ => none

/-- The value a typed access moves: the low bytes of the value stored, or the
value a load returns when it goes through. -/
def Op.value (w : Nat) (st : Mem) : Op → Option Nat
  | .put_qi _ v _ => some (v &&& 0xff)
  | .put_hi _ v _ => some (v &&& 0xffff)
  | .put_psi _ v _ => some (v &&& 0xffffff)
  | .put_si _ v _ => some (v &&& 0xffffffff)
  | .get_qi A mpc => (mem_get_qi w st A mpc).1.toOption
  | .get_hi A mpc => (mem_get_hi w st A mpc).1.toOption
  | .get_psi A mpc => (mem_get_psi w st A mpc).1.toOption
  | .get_si A mpc => (mem_get_si w st A mpc).1.toOption
  | _ => none

/-- Every element of the log below `memlogtail` has been assigned. -/
def log_written (st : Mem) : Prop := ∀ i, i < st.memlogtail → (st.memlog_buffer i).isSome = true

/-- The log takes one more record: the count `memlogtail + 1` is below 2^w, and
if the log is full the host returns the larger block `add_memlog` asks for. -/
def log_takes (w : Nat) (st : Mem) : Prop :=
  st.memlogtail + 1 < 2 ^ w ∧ (st.memlogsize = st.memlogtail → st.heap.headD true = true)

/-- Globals after `init_mem` with tracing switched on. -/
def tracing_state (w : Nat) : Mem := init_mem w { Mem.zero with trace := true }

/-- The trace switch, the log and what the host will answer to requests for
the log are the same in two states. -/
def same_log (st s : Mem) : Prop :=
  s.trace = st.trace ∧ s.memlog_alloc = st.memlog_alloc ∧ s.memlog_buffer = st.memlog_buffer
  ∧ s.memlogsize = st.memlogsize ∧ s.memlogtail = st.memlogtail ∧ s.heap = st.heap

/-- A load that returns a value has left the trace switch and the log as they
were and then passed its value to the optional `add_memlog`. -/
def load_logged (w : Nat) (st : Mem) (mpc addr : Nat) (t : mem_access_type)
    (res : Except Fault Nat × Mem) : Prop :=
  ∀ rv, res.1 = .ok rv → ∃ s, same_log st s ∧ res.2 = traced w s mpc addr t rv

/-! ## Vocabulary of the statements on the 8-bit timers -/

/-- The pointer `tmrbase` of `tmr_update`: what `rx_mem_ptr (0x00088200, ..)`
returns. -/
def tmrbase_ptr : mem_ptr := split 0x00088200

/-- A state in which channel 0 of the 8-bit timers is enabled in 8-bit mode
with the clock select `cks` (TCCR = 0x08 + `cks`) and counts from `tcnt`, with
both compare registers at 0xff; the register page is allocated, the interrupt
request bytes of the channel have been written (they are 0), and the statics
of `tmr_update` are as the program starts. -/
def tmr_state (cks tcnt : Nat) : Tmr :=
  let m := (rx_mem_ptr Mem.zero 0x00088200 .MPA_WRITING).2
  let m := store_byte (store_byte (store_byte (store_byte m tmrbase_ptr 10 (0x08 + cks))
    tmrbase_ptr 8 tcnt) tmrbase_ptr 4 0xff) tmrbase_ptr 6 0xff
  { mem := (rx_mem_ptr m (IRADR 174) .MPA_WRITING).2
    prescale := fun i => tmr_prescale_div.getD i 0
    isr := fun _ => 0 }

/-! ## Vocabulary of the statements on the page tables and the log -/

/-- The assignment `*p = d` the instruction decoder makes through the pointer
`p = rx_mem_decode_cache (..)`: the decoded instruction `d` is cached in the
slot the pointer names. -/
def store_dcache (st : Mem) (m : mem_ptr) (d : Option Nat) : Mem :=
  match page_at st m.pt1 m.pt2 with
  | none => st
  | some pg =>
    install st m.pt1 m.pt2 (inner_table st m.pt1) { pg with dcache := upd pg.dcache m.pto d }

/-- The decode-cache slot of the byte at address `a` under the endianness of
the state: the page offset, xor 3 when big-endian. -/
def slot_of (st : Mem) (a : Nat) : Nat :=
  (split a).pto ^^^ (if st.rx_big_endian then 3 else 0)

/-- A little-endian state in which the instruction decoded at 0x1000 is cached
(in slot 0 of its page) and nothing else is. -/
def cached_state : Mem :=
  store_dcache (rx_mem_decode_cache Mem.zero 0x1000).2 (split 0x1000) (some 7)

/-- The addresses an operation resolves with another intent than reading, in
the order in which it gets to them: those it stores to, sets or reads the
classification of, takes the decode-cache slot of, or resolves for writing. -/
def Op.touches (w : Nat) : Op → List Nat
  | .get_content_type A => [ulong w A]
  | .decode_cache a => [a]
  | .mem_ptr a action => if action = .MPA_READING then [] else [a]
  | op => op.targets w

/-- Two addresses lie in the same page. -/
def same_page (a b : Nat) : Prop :=
  (split a).pt1 = (split b).pt1 ∧ (split a).pt2 = (split b).pt2

instance (a b : Nat) : Decidable (same_page a b) := by
  unfold same_page; exact inferInstance

/-- The operations that only load: the typed loads, the load of an
instruction byte and the block load. -/
def Op.loads : Op → Prop
  | .get_qi _ _ => True
  | .get_hi _ _ => True
  | .get_psi _ _ => True
  | .get_si _ _ => True
  | .get_pc _ => True
  | .get_blk _ _ => True
  | _ => False

/-- A call of one of the two functions that assign to the log. -/
inductive LogCall where
  | init
  | add (mpc addr : Nat) (type : mem_access_type) (data : Nat)

/-- The globals after a call of `init_mem` or `add_memlog`. -/
def LogCall.run (w : Nat) (st : Mem) : LogCall → Mem
  | .init => init_mem w st
  | .add mpc addr type data => add_memlog w st mpc addr type data

/-- The globals after a list of such calls, made in order. -/
def run_log (w : Nat) (st : Mem) (calls : List LogCall) : Mem :=
  calls.foldl (LogCall.run w) st

/-- The log is within its allocation: `memlogtail` is at most `memlogsize`; the
block `memlog_buffer` points to, when the pointer is not null, has room for
`memlogsize` records; and while the pointer is null no element can be read. -/
def log_fits (w : Nat) (st : Mem) : Prop :=
  st.memlogtail ≤ st.memlogsize ∧
    (∀ n, st.memlog_alloc = some n → st.memlogsize * sizeof_memlog w ≤ n) ∧
    (st.memlog_alloc = none → ∀ i, st.memlog_buffer i = none)

/-- The size `add_memlog` asks `realloc` for once the log is full,
`memlogsize * sizeof (struct memlog) + 65536`, is below 2^w: it is not reduced
modulo 2^w. -/
def log_small (w : Nat) (st : Mem) : Prop :=
  st.memlogsize * sizeof_memlog w + 65536 < 2 ^ w

instance (w : Nat) (st : Mem) : Decidable (log_small w st) := by
  unfold log_small; exact inferInstance

/-- The pointer `memlog_buffer` is not null after a call `add_memlog` made in
this state: it is not null and the log is not full, or the log is full and the
host returns the larger block. -/
def log_open (st : Mem) : Prop :=
  (st.memlogsize ≠ st.memlogtail ∧ st.memlog_alloc ≠ none) ∨
    (st.memlogsize = st.memlogtail ∧ st.heap.headD true = true)

/-- The globals with a full log of 4096 records, the first block `init_mem`
asks for where `unsigned long` has 32 bits, and a host that returns a null
pointer to the next request. -/
def full_log_state : Mem :=
  { Mem.zero with
    memlog_alloc := some 65536
    memlog_buffer := fun i => if i < 4096 then some ⟨i, i, i, .MEM_WB⟩ else none
    memlogsize := 4096
    memlogtail := 4096
    heap := [false] }

/-- The globals, where `unsigned long` has 32 bits, with a full log of
268431360 records in a block of 4294901760 bytes. -/
def huge_log_state : Mem :=
  { Mem.zero with
    memlog_alloc := some 4294901760
    memlog_buffer := fun i => if i < 268431360 then some ⟨i, i, i, .MEM_WB⟩ else none
    memlogsize := 268431360
    memlogtail := 268431360 }

/-! ## Vocabulary of the statements on the entry point -/

/-- The state `io_simulation` works on as the program starts, over the memory
and the serial channels given. -/
def Rxio.power_on (io : Io) : Rxio :=
  { io := io
    tmr_prescale := fun i => tmr_prescale_div.getD i 0
    tmr_isr := fun _ => 0
    cmt_prescale := fun i => cmt_prescale_div.getD i 0
    prev_icycle := 0
    prev_pcycle := 0
    pcycles := 0 }

/-- The three cycle counters of `io_simulation` after a call made with
`rx_cycles`. -/
def io_next (b : Rxio) (rx_cycles : Int) : Rxio :=
  if (io_cycles b rx_cycles).2 = 0 then (io_cycles b rx_cycles).1
  else { (io_cycles b rx_cycles).1 with prev_pcycle := (io_cycles b rx_cycles).1.pcycles }

/-- The peripheral cycles that the calls `io_simulation`, one for every value
of `rx_cycles` in the list, pass to `tmr_update`, `cmt_update` and `sci`, in
total; a call that returns before them passes none. -/
def pcycles_delivered (b : Rxio) : List Int → Nat
  | [] => 0
  | c :: cs => (io_cycles b c).2 + pcycles_delivered (io_next b c) cs

/-- The instruction cycles elapsed from call to call, one call for every
value of `rx_cycles` in the list, in total. -/
def icycles_elapsed (prev : Nat) : List Int → Nat
  | [] => 0
  | c :: cs => uint32 (c - prev) + icycles_elapsed (uint32 c) cs

/-- The instruction cycles that the halving of each call drops: the parity of
the cycles elapsed from call to call, in total. -/
def half_cycles_lost (prev : Nat) : List Int → Nat
  | [] => 0
  | c :: cs => uint32 (c - prev) % 2 + half_cycles_lost (uint32 c) cs

/-- The calls `io_simulation` one after the other, one for every value of
`rx_cycles` in the list: what they return, and the state after the last; a
call that stops the instruction ends the list. -/
def io_runs (cpupri : Int) (junk : Nat) (host_be : Bool) : List Int → Rxio → List Int × Rxio
  | [], b => ([], b)
  | c :: cs, b =>
    match io_simulation b c cpupri junk host_be with
    | (.error _, b) => ([], b)
    | (.ok v, b) => (v :: (io_runs cpupri junk host_be cs b).1, (io_runs cpupri junk host_be cs b).2)

/-- A state of the RX with the serial channels unconnected and an empty
memory. -/
def quiet_io : Io :=
  { mem := Mem.zero
    sci_port := fun _ => ⟨-1, 0, 0, 0⟩
    sci_port_type := PORT_NONE
    sci_state := fun _ => ⟨0, 0, 0, 0, 0x84⟩
    host := Posix.quiet }

/-! ## Vocabulary of the statements on the paired 8-bit timers -/

/-- A state in which channels 0 and 1 of the 8-bit timers of the RX count as a
pair (TCCR of channel 0 is 0x18) on prescaler 1 (clock select 0 in TCCR of
channel 1) from 0x0105, with the compare registers TCORA and TCORB of both
channels at 0xff; the register page is allocated, the interrupt request bytes
of both channels have been written (they are 0), and the statics of
`tmr_update` are as the program starts. -/
def tmr_pair_state : Tmr :=
  let m := (rx_mem_ptr Mem.zero 0x00088200 .MPA_WRITING).2
  let m := store_byte (store_byte (store_byte m tmrbase_ptr 10 0x18) tmrbase_ptr 8 0x01)
    tmrbase_ptr 9 0x05
  let m := store_byte (store_byte (store_byte (store_byte m tmrbase_ptr 4 0xff) tmrbase_ptr 5
    0xff) tmrbase_ptr 6 0xff) tmrbase_ptr 7 0xff
  let m := (rx_mem_ptr m (IRADR 174) .MPA_WRITING).2
  { mem := (rx_mem_ptr m (IRADR 177) .MPA_WRITING).2
    prescale := fun i => tmr_prescale_div.getD i 0
    isr := fun _ => 0 }

/-- The pages allocated in `s` are those allocated in `st` and, at most, the
pages of the non-null addresses listed. -/
def grown (st s : Mem) (T : List Nat) : Prop :=
  ∀ b, (allocated st b = true → allocated s b = true) ∧
    (allocated s b = true → allocated st b = true ∨ ∃ t ∈ T, t ≠ 0 ∧ same_page b t)

end Rx

/-! # H8 simulator: internal peripherals

A shallow embedding of `sim/h8300/io.c`: the 8-bit timers, the serial
channels with their telnet parser, and the interrupt controller.  The file's
globals and the `static` locals of its functions are fields of one record
`H8.Sim`.  A function returns `none` where C leaves the behaviour undefined: an
index outside a table, a local variable read before it is set, a function that
ends without `return`. -/

namespace H8

open Rx (uchar ushort uint32 sint32)

/-! ## Tables and globals -/

structure int_list_t where
  vector : Int
  isr_adr : Nat
  isr_mask : Nat
  ier_adr : Nat
  ier_mask : Nat
  deriving DecidableEq, Repr

def MAX_SCI_CH : Nat := 3

def IPRA_H8300H : Nat := 0xfee018

def IPRB_H8300H : Nat := 0xfee019

def IPRA_H8300S : Nat := 0xfffe00

def h8300h_timer8_base : List Nat := [0x80, 0x81, 0x90, 0x91, 0]

def h8300s_timer8_base : List Nat := [0xb0, 0xb1, 0]

def h8300h_sci_base : List Nat := [0xb0, 0xb8, 0xc0]

def h8300s_sci_base : List Nat := [0x78, 0x80, 0x88]

def h8300sx_sci_base : List Nat := [0x80, 0x88, 0x60]

def h8300h_int_table : List int_list_t := [
  ⟨24, 0xffff64, 0x01, 0xffff64, 0x10⟩, ⟨25, 0xffff65, 0x01, 0xffff65, 0x10⟩,
  ⟨26, 0xffff66, 0x01, 0xffff66, 0x10⟩, ⟨28, 0xffff64, 0x02, 0xffff64, 0x20⟩,
  ⟨29, 0xffff65, 0x02, 0xffff65, 0x20⟩, ⟨30, 0xffff66, 0x02, 0xffff66, 0x20⟩,
  ⟨32, 0xffff64, 0x04, 0xffff64, 0x40⟩, ⟨33, 0xffff65, 0x04, 0xffff65, 0x40⟩,
  ⟨34, 0xffff66, 0x04, 0xffff66, 0x40⟩, ⟨36, 0xffff82, 0x40, 0xffff80, 0x40⟩,
  ⟨37, 0xffff82, 0x80, 0xffff80, 0x80⟩, ⟨38, 0xffff83, 0x40, 0xffff81, 0x40⟩,
  ⟨38, 0xffff83, 0x80, 0xffff81, 0x40⟩, ⟨39, 0xffff82, 0x20, 0xffff80, 0x20⟩,
  ⟨39, 0xffff83, 0x20, 0xffff81, 0x20⟩, ⟨40, 0xffff92, 0x40, 0xffff90, 0x40⟩,
  ⟨41, 0xffff92, 0x80, 0xffff90, 0x80⟩, ⟨42, 0xffff93, 0x40, 0xffff91, 0x40⟩,
  ⟨42, 0xffff93, 0x80, 0xffff91, 0x40⟩, ⟨43, 0xffff92, 0x20, 0xffff90, 0x20⟩,
  ⟨43, 0xffff93, 0x20, 0xffff91, 0x20⟩, ⟨52, 0xffffb4, 0x38, 0xffffb2, 0x40⟩,
  ⟨53, 0xffffb4, 0x40, 0xffffb2, 0x40⟩, ⟨54, 0xffffb4, 0x80, 0xffffb2, 0x80⟩,
  ⟨55, 0xffffb4, 0x04, 0xffffb2, 0x04⟩, ⟨56, 0xffffbc, 0x38, 0xffffba, 0x40⟩,
  ⟨57, 0xffffbc, 0x40, 0xffffba, 0x40⟩, ⟨58, 0xffffbc, 0x80, 0xffffba, 0x80⟩,
  ⟨59, 0xffffbc, 0x04, 0xffffba, 0x04⟩, ⟨60, 0xffffc4, 0x38, 0xffffc2, 0x40⟩,
  ⟨61, 0xffffc4, 0x40, 0xffffc2, 0x40⟩, ⟨62, 0xffffc4, 0x80, 0xffffc2, 0x80⟩,
  ⟨63, 0xffffc4, 0x04, 0xffffc2, 0x04⟩, ⟨-1, 0, 0, 0, 0⟩ ]

def h8300s_int_table : List int_list_t := [
  ⟨40, 0xffffd5, 0x01, 0xffffd4, 0x01⟩, ⟨41, 0xffffd5, 0x02, 0xffffd4, 0x02⟩,
  ⟨43, 0xffffd5, 0x10, 0xffffd4, 0x10⟩, ⟨48, 0xffffe5, 0x01, 0xffffe4, 0x01⟩,
  ⟨49, 0xffffe5, 0x01, 0xffffe4, 0x02⟩, ⟨50, 0xffffe5, 0x10, 0xffffe4, 0x10⟩,
  ⟨52, 0xfffff5, 0x01, 0xfffff4, 0x01⟩, ⟨53, 0xfffff5, 0x02, 0xfffff4, 0x02⟩,
  ⟨54, 0xfffff5, 0x10, 0xfffff4, 0x10⟩, ⟨56, 0xfffe85, 0x01, 0xfffe84, 0x01⟩,
  ⟨57, 0xfffe85, 0x02, 0xfffe84, 0x02⟩, ⟨60, 0xfffe85, 0x10, 0xfffe84, 0x10⟩,
  ⟨64, 0xfffe95, 0x01, 0xfffe94, 0x01⟩, ⟨65, 0xfffe95, 0x02, 0xfffe94, 0x02⟩,
  ⟨66, 0xfffe95, 0x10, 0xfffe94, 0x10⟩, ⟨68, 0xfffea5, 0x01, 0xfffea4, 0x01⟩,
  ⟨69, 0xfffea5, 0x02, 0xfffea4, 0x02⟩, ⟨70, 0xfffea5, 0x10, 0xfffea4, 0x10⟩,
  ⟨72, 0xffffb2, 0x40, 0xffffb0, 0x40⟩, ⟨73, 0xffffb2, 0x80, 0xffffb0, 0x80⟩,
  ⟨74, 0xffffb2, 0x20, 0xffffb0, 0x20⟩, ⟨76, 0xffffb3, 0x40, 0xffffb1, 0x40⟩,
  ⟨77, 0xffffb3, 0x80, 0xffffb1, 0x40⟩, ⟨78, 0xffffb3, 0x20, 0xffffb1, 0x20⟩,
  ⟨88, 0xffff7c, 0x38, 0xffff7a, 0x40⟩, ⟨89, 0xffff7c, 0x40, 0xffff7a, 0x40⟩,
  ⟨90, 0xffff7c, 0x80, 0xffff7a, 0x80⟩, ⟨91, 0xffff7c, 0x04, 0xffff7a, 0x04⟩,
  ⟨92, 0xffff84, 0x38, 0xffff82, 0x40⟩, ⟨93, 0xffff84, 0x40, 0xffff82, 0x40⟩,
  ⟨94, 0xffff84, 0x80, 0xffff82, 0x80⟩, ⟨95, 0xffff84, 0x04, 0xffff82, 0x04⟩,
  ⟨96, 0xffff8c, 0x38, 0xffff8a, 0x40⟩, ⟨97, 0xffff8c, 0x40, 0xffff8a, 0x40⟩,
  ⟨98, 0xffff8c, 0x80, 0xffff8a, 0x80⟩, ⟨99, 0xffff8c, 0x04, 0xffff8a, 0x04⟩,
  ⟨-1, 0, 0, 0, 0⟩ ]

def h8300sx_int_table : List int_list_t := [
  ⟨88, 0xffffd5, 0x01, 0xffffd4, 0x01⟩, ⟨89, 0xffffd5, 0x02, 0xffffd4, 0x02⟩,
  ⟨90, 0xffffd5, 0x01, 0xffffd4, 0x01⟩, ⟨91, 0xffffd5, 0x02, 0xffffd4, 0x02⟩,
  ⟨93, 0xffffe5, 0x01, 0xffffe4, 0x01⟩, ⟨94, 0xffffe5, 0x01, 0xffffe4, 0x02⟩,
  ⟨95, 0xffffe5, 0x10, 0xffffe4, 0x10⟩, ⟨96, 0xffffe5, 0x10, 0xffffe4, 0x10⟩,
  ⟨97, 0xfffff5, 0x01, 0xfffff4, 0x01⟩, ⟨98, 0xfffff5, 0x02, 0xfffff4, 0x02⟩,
  ⟨99, 0xfffff5, 0x10, 0xfffff4, 0x10⟩, ⟨100, 0xfffff5, 0x10, 0xfffff4, 0x10⟩,
  ⟨101, 0xfffe85, 0x01, 0xfffe84, 0x01⟩, ⟨102, 0xfffe85, 0x02, 0xfffe84, 0x02⟩,
  ⟨103, 0xfffe85, 0x01, 0xfffe84, 0x01⟩, ⟨104, 0xfffe85, 0x02, 0xfffe84, 0x02⟩,
  ⟨105, 0xfffe85, 0x10, 0xfffe84, 0x10⟩, ⟨106, 0xfffe95, 0x01, 0xfffe94, 0x01⟩,
  ⟨107, 0xfffe95, 0x02, 0xfffe94, 0x02⟩, ⟨108, 0xfffe95, 0x10, 0xfffe94, 0x10⟩,
  ⟨109, 0xfffe95, 0x10, 0xfffe94, 0x10⟩, ⟨110, 0xfffea5, 0x01, 0xfffea4, 0x01⟩,
  ⟨111, 0xfffea5, 0x02, 0xfffea4, 0x02⟩, ⟨112, 0xfffea5, 0x10, 0xfffea4, 0x10⟩,
  ⟨113, 0xfffea5, 0x10, 0xfffea4, 0x10⟩, ⟨116, 0xffffb2, 0x40, 0xffffb0, 0x40⟩,
  ⟨117, 0xffffb2, 0x80, 0xffffb0, 0x80⟩, ⟨118, 0xffffb3, 0x80, 0xffffb1, 0x40⟩,
  ⟨119, 0xffffb2, 0x20, 0xffffb0, 0x20⟩, ⟨120, 0xffffb3, 0x40, 0xffffb1, 0x40⟩,
  ⟨121, 0xffffb3, 0x20, 0xffffb1, 0x20⟩, ⟨144, 0xffff7c, 0x38, 0xffff7a, 0x40⟩,
  ⟨145, 0xffff7c, 0x40, 0xffff7a, 0x40⟩, ⟨146, 0xffff7c, 0x80, 0xffff7a, 0x80⟩,
  ⟨147, 0xffff7c, 0x04, 0xffff7a, 0x04⟩, ⟨148, 0xffff84, 0x38, 0xffff82, 0x40⟩,
  ⟨149, 0xffff84, 0x40, 0xffff82, 0x40⟩, ⟨150, 0xffff84, 0x80, 0xffff82, 0x80⟩,
  ⟨151, 0xffff84, 0x04, 0xffff82, 0x04⟩, ⟨152, 0xffff8c, 0x38, 0xffff8a, 0x40⟩,
  ⟨153, 0xffff8c, 0x40, 0xffff8a, 0x40⟩, ⟨154, 0xffff8c, 0x80, 0xffff8a, 0x80⟩,
  ⟨155, 0xffff8c, 0x04, 0xffff8a, 0x04⟩, ⟨-1, 0, 0, 0, 0⟩ ]

/-- One entry of the array `sci_port`; the socket addresses and the terminal
attributes, which only reach the host, are left out. -/
structure sci_port_t where
  fd : Int
  socket : Int
  iac : Int
  cmd : Nat
  deriving DecidableEq, Repr

def PORT_NONE : Nat := 0

def PORT_PTY : Nat := 1

def PORT_NET : Nat := 2

/-- The state io.c works on.

Modelled from the spec: `memory` and `eightbit` are members of the CPU state
declared in sim-main.h, which is not among the sources.  The spec has every
register be a byte of the address space, so both are arrays of
`unsigned char`: an element is read modulo 256.

The mode flags are the `extern int` variables of the same names.  A pointer
global (`sci_base`, `timer8_base`, `int_table`) is the table it points to, the
empty list while it is null.  `prescale` and `tcsr` are the `static` locals of
`timer8`; `tx_end_time`, `rx_end_time` and `txstate` those of `sci`. -/
structure Sim where
  memory : Nat → Nat
  eightbit : Nat → Nat
  h8300hmode : Int
  h8300smode : Int
  h8300sxmode : Int
  sci_base : List Nat
  ssr : Nat → Nat
  timer8_base : List Nat
  int_table : List int_list_t
  prescale : Nat → Int
  tcsr : Nat → Nat
  tx_end_time : Nat → Int
  rx_end_time : Nat → Int
  txstate : Int
  sci_port : Nat → sci_port_t
  sci_port_type : Nat
  host : Posix.Host

/-- Pointwise update of a table. -/
def upd {α : Type} (f : Nat → α) (i : Nat) (x : α) : Nat → α :=
  fun j => if j = i then x else f j

/-- The element `t[i]` of a table, `none` outside it. -/
def index {α : Type} (t : List α) (i : Int) : Option α :=
  if i < 0 then none else t.get? i.toNat

/-- Read of `STATE_CPU (sd, 0)->memory[a]`. -/
def mem (st : Sim) (a : Nat) : Nat := uchar (st.memory a)

/-- Read of `STATE_CPU (sd, 0)->eightbit[a]`. -/
def reg (st : Sim) (a : Nat) : Nat := uchar (st.eightbit a)

/-- Assignment `STATE_CPU (sd, 0)->eightbit[a] = v`. -/
def set_reg (st : Sim) (a : Nat) (v : Nat) : Sim :=
  { st with eightbit := upd st.eightbit a (uchar v) }

/-! ## The interrupt controller -/

def ipr_bit : List Int := [
  -1, -1, -1, -1, -1, -1, -1, -1,
  -1, -1, -1, -1,  7,  6,  5,  5,
   4,  4,  4,  4,  3,  3,  3,  3,
   2,  2,  2,  2,  1,  1,  1,  1,
   0,  0,  0,  0, 15, 15, 15, 15,
  14, 14, 14, 14, 13, 13, 13, 13,
  -1, -1, -1, -1, 11, 11, 11, 11,
  10, 10, 10, 10,  9,  9,  9,  9 ]

def ipr_table : List Nat := [
  0xff, 0xff, 0xff, 0xff, 0xff, 0xff, 0xff, 0xff,
  0xff, 0xff, 0xff, 0xff, 0xff, 0xff, 0xff, 0xff,
  0x03, 0x02, 0x01, 0x00, 0x13, 0x12, 0x11, 0x10,
  0x23, 0x22, 0x21, 0x20, 0x33, 0x32, 0x31, 0x30,
  0x43, 0x42, 0x41, 0x40, 0x53, 0x53, 0x52, 0x52,
  0x51, 0x51, 0x51, 0x51, 0x51, 0x51, 0x51, 0x51,
  0x50, 0x50, 0x50, 0x50, 0x63, 0x63, 0x63, 0x63,
  0x62, 0x62, 0x62, 0x62, 0x62, 0x62, 0x62, 0x62,
  0x61, 0x61, 0x61, 0x61, 0x60, 0x60, 0x60, 0x60,
  0x73, 0x73, 0x73, 0x73, 0x72, 0x72, 0x72, 0x72,
  0x71, 0x71, 0x71, 0x71, 0x70, 0x83, 0x82, 0x81,
  0x80, 0x80, 0x80, 0x80, 0x93, 0x93, 0x93, 0x93,
  0x92, 0x92, 0x92, 0x92, 0x91, 0x91, 0x91, 0x91,
  0x90, 0x90, 0x90, 0x90, 0xa3, 0xa3, 0xa3, 0xa3,
  0xa2, 0xa2, 0xa2, 0xa2, 0xa1, 0xa1, 0xa1, 0xa1,
  0xa0, 0xa0, 0xa0, 0xa0, 0xa0, 0xa0, 0xa0, 0xa0 ]

/-- The function `get_priority`: the vector with its priority level in the
bits from 0x100 up.  With neither mode flag set the function ends without
`return`. -/
def get_priority (st : Sim) (vec : Int) : Option Int :=
  if st.h8300smode ≠ 0 then
    match index ipr_table vec with
    | none => none
    | some pos =>
      if pos = 0xff then some 0
      else
        let ipr := ushort ((mem st (IPRA_H8300S + ((pos &&& 0xf0) >>> 3)) <<< 8) |||
          mem st (IPRA_H8300S + ((pos &&& 0xf0) >>> 3) + 1))
        some (vec + (((ipr >>> ((pos &&& 0x0f) * 4)) &&& 7) * 0x100 : Nat))
  else if st.h8300hmode ≠ 0 then
    match index ipr_bit vec with
    | none => none
    | some b =>
      if b < 0 then some 0
      else
        let ipr := if b < 8 then mem st IPRA_H8300H else mem st IPRB_H8300H
        let b := 1 <<< (b.toNat &&& 7)
        if ipr &&& b ≠ 0 then some (vec + 0x100) else some vec
  else none

/-- The condition of `intcont` on one entry: its enable bit and its status bit
are both set. -/
def asserted (st : Sim) (e : int_list_t) : Bool :=
  mem st e.ier_adr &&& e.ier_mask ≠ 0 && mem st e.isr_adr &&& e.isr_mask ≠ 0

/-- The loop of `intcont` from the entry at the head of the list on. -/
def intcont_loop (st : Sim) : List int_list_t → Option Int
  | [] => none
  | e :: rest =>
    if e.vector > 0 then
      if asserted st e then get_priority st e.vector else intcont_loop st rest
    else some 0

def intcont (st : Sim) : Option Int := intcont_loop st st.int_table

/-! ## The serial channels -/

/-- The address `sci_base[ch] + k` of register `k` of channel `ch`. -/
def sci_reg (st : Sim) (ch : Nat) (k : Nat) : Option Nat :=
  (st.sci_base.get? ch).map (fun b => b + k)

/-- The body of `sci_complete_time` on the values of `SMR (ch)` and
`BRR (ch)`: the arithmetic is done in `int` and the result converted to
`unsigned int`. -/
def sci_complete_time_of (smr brr : Nat) : Nat :=
  let div : List Int := [1, 4, 16, 64]
  let length : Int := if smr &&& 0x40 ≠ 0 then 7 else 8
  let length := sint32 (length + (if smr &&& 0x20 ≠ 0 then 1 else 0))
  let length := sint32 (length + (if smr &&& 0x08 ≠ 0 then 1 else 0))
  let length := sint32 (length + 2)
  uint32 (sint32 (sint32 (sint32 (length * 32) * div.getD (smr &&& 0x03) 0) * brr))

def sci_complete_time (st : Sim) (ch : Nat) : Option Nat :=
  match sci_reg st ch 0, sci_reg st ch 1 with
  | some smr, some brr => some (sci_complete_time_of (reg st smr) (reg st brr))
  | _, _ => none

/-- Read of an element of an `unsigned char` array that is a `static` local or
a file global (`ssr`, `tcsr`). -/
def byte (f : Nat → Nat) (i : Nat) : Nat := uchar (f i)

/-- Assignment `ssr[ch] = v`. -/
def set_ssr (st : Sim) (ch : Nat) (v : Nat) : Sim :=
  { st with ssr := upd st.ssr ch (uchar v) }

/-- Assignment `tx_end_time[ch] = v`. -/
def set_tx_end_time (st : Sim) (ch : Nat) (v : Int) : Sim :=
  { st with tx_end_time := upd st.tx_end_time ch v }

/-- Assignment `rx_end_time[ch] = v`. -/
def set_rx_end_time (st : Sim) (ch : Nat) (v : Int) : Sim :=
  { st with rx_end_time := upd st.rx_end_time ch v }

/-- Assignment to `sci_port[ch]`. -/
def set_port (st : Sim) (ch : Nat) (p : sci_port_t) : Sim :=
  { st with sci_port := upd st.sci_port ch p }

/-- The function `sci_send_data`: `dt` is the character written, `fsync` is
not visible in the state. -/
def sci_send_data (st : Sim) (ch : Nat) (txd : Nat) : Sim :=
  let dt := uchar txd
  let p := st.sci_port ch
  if p.fd ≥ 0 then
    match Posix.write st.host p.fd [dt] with
    | (.ok _, h) => { st with host := h }
    | (.error e, h) =>
      if e ≠ Posix.EAGAIN then set_port { st with host := h } ch { p with fd := -1 }
      else { st with host := h }
  else st

/-- The function `telnet_escape`.  Its argument `rd` is a `char`; the
comparisons with 1 and 3 and the two places it is stored to (`cmd` and
`rep[2]`, both `unsigned char`) see the same byte whether `char` is signed or
not, so `rd` is that byte. -/
def telnet_escape (st : Sim) (ch : Nat) (rd : Nat) : Sim :=
  let p := st.sci_port ch
  let cmd := uchar p.cmd
  if p.iac = 1 then
    set_port st ch { p with cmd := uchar rd, iac := sint32 (p.iac + 1) }
  else if p.iac = 2 then
    if (rd = 1 ∨ rd = 3) ∧ cmd = 0xfd then
      set_port st ch { p with iac := 0 }
    else
      let cmd :=
        if rd = 1 ∨ rd = 3 then
          if cmd = 0xfb then 0xfd else if cmd = 0xfd then 0xfb else cmd
        else
          if cmd = 0xfb then 0xfe else if cmd = 0xfd then 0xfc else cmd
      let h := (Posix.write st.host p.fd [0xff, cmd, uchar rd]).2
      set_port { st with host := h } ch { p with iac := 0 }
  else st

/-- The function `telnet_request`. -/
def telnet_request (st : Sim) (fd : Int) : Sim :=
  { st with host := (Posix.write st.host fd [0xff, 0xfb, 0x03, 0xff, 0xfb, 0x01]).2 }

/-- The function `sci_rcv_data`: `some rd` when it returns 1 with `*rxd = rd`,
`none` when it returns 0 and leaves `*rxd` alone. -/
def sci_rcv_data (st : Sim) (ch : Nat) : Option Nat × Sim :=
  let p := st.sci_port ch
  if p.fd ≥ 0 then
    match Posix.read st.host p.fd with
    | (.ok rd, h) =>
      let st := { st with host := h }
      if st.sci_port_type = PORT_NET then
        if p.iac > 0 then (none, telnet_escape st ch rd)
        else if rd = 0xff then (none, set_port st ch { p with iac := 1 })
        else (some rd, st)
      else (some rd, st)
    | (.error e, h) =>
      if e = Posix.EAGAIN then (none, { st with host := h })
      else (none, set_port { st with host := Posix.close h p.fd } ch { p with fd := -1 })
  else (none, st)

/-- The `while` loop of `net_accept` on channel `ch`, for at most `n` reads:
whether the function returns 1 from inside the loop.  Every turn takes one
byte off the descriptor, so one more turn than bytes are waiting ends it. -/
def net_accept_while (ch : Nat) : Nat → Sim → Bool × Sim
  | 0, st => (false, st)
  | n + 1, st =>
    match Posix.read st.host (st.sci_port ch).fd with
    | (.ok rd, h) =>
      let st := { st with host := h }
      if (st.sci_port ch).iac > 0 then (true, telnet_escape st ch rd)
      else if rd = 0xff then (true, set_port st ch { st.sci_port ch with iac := 1 })
      else net_accept_while ch n st
    | (.error _, h) => (false, { st with host := h })

/-- The `for` loop of `net_accept` over the channels listed; `fcntl` is not
visible in the state. -/
def net_accept_for (st : Sim) : List Nat → Bool × Sim
  | [] => (false, st)
  | ch :: rest =>
    if (st.sci_port ch).fd = -1 then
      match Posix.accept st.host (st.sci_port ch).socket with
      | (connectfd, h) =>
        let st := { st with host := h }
        if connectfd > 0 then
          let st := set_port st ch { st.sci_port ch with fd := connectfd }
          let st := telnet_request st connectfd
          let st := set_port st ch { st.sci_port ch with iac := 0 }
          match net_accept_while ch ((st.host.pending connectfd).length + 1) st with
          | (true, st) => (true, st)
          | (false, st) => net_accept_for st rest
        else net_accept_for st rest
    else net_accept_for st rest

def net_accept (st : Sim) : Bool × Sim := net_accept_for st (List.range MAX_SCI_CH)

/-- The transmit request of `sci` on the channel whose registers start at
`b`. -/
def sci_tx_request (st : Sim) (ch b : Nat) : Sim :=
  if reg st (b + 2) &&& 0x20 ≠ 0 ∧ ¬ (byte st.ssr ch &&& 0x80 ≠ 0) ∧ st.txstate = 0 then
    let st := sci_send_data st ch (reg st (b + 3))
    let st := set_ssr st ch (byte st.ssr ch &&& 0xfb)
    let st := set_tx_end_time st ch 1
    { st with txstate := 1 }
  else st

/-- The transmit-complete check of `sci`; `t` is what `sci_complete_time`
returns for the channel. -/
def sci_tx_complete (st : Sim) (ch : Nat) (t : Nat) : Sim :=
  if byte st.ssr ch &&& 0x84 ≠ 0x84 ∧ st.tx_end_time ch ≤ 0 then
    if ¬ (byte st.ssr ch &&& 0x80 ≠ 0) then
      let st := set_ssr st ch (byte st.ssr ch ||| 0x80)
      let st := set_tx_end_time st ch (sint32 t)
      { st with txstate := 0 }
    else set_ssr st ch (byte st.ssr ch ||| 0x04)
  else st

/-- The receive check of `sci`. -/
def sci_rx (st : Sim) (ch b : Nat) (t : Nat) : Sim :=
  if st.rx_end_time ch ≤ 0 then
    if reg st (b + 2) &&& 0x10 ≠ 0 then
      match sci_rcv_data st ch with
      | (some data, st) =>
        let st :=
          if byte st.ssr ch &&& 0x40 ≠ 0 then
            set_ssr st ch (byte st.ssr ch ||| 0x20)
          else
            let st := set_reg st (b + 5) data
            set_ssr st ch (byte st.ssr ch ||| 0x40)
        set_rx_end_time st ch (sint32 t)
      | (none, st) => st
    else st
  else st

/-- The body of the loop of `sci` for the channel `ch` whose registers start at
`b = sci_base[ch]`: SMR, BRR, SCR, TDR, SSR and RDR are the registers
`b + 0 .. b + 5`.  Nothing in the body writes SMR or BRR, so the two calls
of `sci_complete_time` return the same `t`. -/
def sci_channel_at (st : Sim) (cycles_diff : Nat) (ch b : Nat) : Sim :=
  let t := sci_complete_time_of (reg st (b + 0)) (reg st (b + 1))
  let st := set_ssr st ch (byte st.ssr ch &&& reg st (b + 4))
  let st := sci_tx_request st ch b
  let st := set_tx_end_time st ch (sint32 (st.tx_end_time ch - cycles_diff))
  let st := sci_tx_complete st ch t
  let st := set_rx_end_time st ch (sint32 (st.rx_end_time ch - cycles_diff))
  let st := sci_rx st ch b t
  set_reg st (b + 4) (byte st.ssr ch)

/-- The body of the loop of `sci` for channel `ch`. -/
def sci_channel (st : Sim) (cycles_diff : Nat) (ch : Nat) : Option Sim :=
  (st.sci_base.get? ch).map (sci_channel_at st cycles_diff ch)

/-- The loop of `sci` over the channels listed. -/
def sci_for (cycles_diff : Nat) : List Nat → Sim → Option Sim
  | [], st => some st
  | ch :: rest, st => (sci_channel st cycles_diff ch).bind (sci_for cycles_diff rest)

def sci (st : Sim) (cycles_diff : Nat) : Option Sim :=
  if st.sci_port_type = PORT_NET then
    match net_accept st with
    | (true, st) => some st
    | (false, st) => sci_for cycles_diff (List.range MAX_SCI_CH) st
  else sci_for cycles_diff (List.range MAX_SCI_CH) st

/-! ## The 8-bit timers -/

/-- The address `timer8_base[ch] + k` of register `k` of timer channel `ch`:
TCR, TCSR, TCORA, TCORB and TCNT are the registers 0, 2, 4, 6 and 8. -/
def timer8_reg (st : Sim) (ch : Int) (k : Nat) : Option Nat :=
  (index st.timer8_base ch).map (fun b => b + k)

/-- Assignment `tcsr[tm] = v`. -/
def set_tcsr (st : Sim) (tm : Nat) (v : Nat) : Sim :=
  { st with tcsr := upd st.tcsr tm (uchar v) }

/-- The compare match checks and the write-back of a channel in 8-bit mode,
for the count `cnt`: the registers of the channel start at `b`. -/
def timer8_match8 (st : Sim) (tm b : Nat) (cnt : Nat) : Sim × Nat :=
  let (st, cnt) :=
    if cnt ≥ reg st (b + 4) then
      (set_tcsr st tm (byte st.tcsr tm ||| 0x40), if reg st b &&& 0x18 = 0x08 then 0 else cnt)
    else (st, cnt)
  let (st, cnt) :=
    if cnt ≥ reg st (b + 6) then
      (set_tcsr st tm (byte st.tcsr tm ||| 0x80), if reg st b &&& 0x18 = 0x10 then 0 else cnt)
    else (st, cnt)
  let st := set_reg st (b + 8) cnt
  let st := set_reg st (b + 2) (reg st (b + 2) &&& 0x1f)
  let st := set_reg st (b + 2) (reg st (b + 2) ||| (byte st.tcsr tm &&& 0xe0))
  (st, cnt)

/-- The 8-bit branch of the loop body of `timer8`.  `cnt` is the local of that
name as the body finds it, `none` while nothing has been assigned to it; the
branch reads it without assigning when the clock select of the channel is not
`pcnt + 1`.  The value of `++TCNT8 (tm)` is the register after the increment,
an `unsigned char`. -/
def timer8_8bit (st : Sim) (pcnt tm b : Nat) (cnt : Option Nat) : Option (Sim × Option Nat) :=
  let (st, cnt) :=
    if reg st b &&& 0x07 = pcnt + 1 then
      let st := set_reg st (b + 8) (reg st (b + 8) + 1)
      let c := reg st (b + 8)
      if c ≥ 0x100 then (set_tcsr st tm (byte st.tcsr tm ||| 0x20), some 0) else (st, some c)
    else (st, cnt)
  match cnt with
  | none => none
  | some c =>
    let (st, c) := timer8_match8 st tm b c
    some (st, some c)

/-- The increment of the 16-bit branch: the count of the pair of counters after
it, and the overflow check. -/
def timer8_count16 (st : Sim) (tm b b1 : Nat) : Sim × Nat :=
  let cnt := (reg st (b + 8) <<< 8 ||| reg st (b1 + 8)) + 1
  if cnt ≥ 0x10000 then (set_tcsr st tm (byte st.tcsr tm ||| 0x20), 0) else (st, cnt)

/-- One compare match check of the 16-bit branch.  The source has the same text
twice: for TCORA (the registers at offset `k = 4`, status bit 0x40, the count
cleared when TCR bits 0x18 are 0x08) and for TCORB (offset 6, bit 0x80, 0x10). -/
def timer8_match16 (st : Sim) (tm b b1 k bit clr : Nat) (cnt : Nat) : Sim × Nat :=
  let cor := reg st (b + k) <<< 8 ||| reg st (b1 + k)
  let (st, cnt) :=
    if cnt ≥ cor then
      (set_tcsr st tm (byte st.tcsr tm ||| bit), if reg st b &&& 0x18 = clr then 0 else cnt)
    else (st, cnt)
  let st :=
    if (cnt &&& 0xff) ≥ (cor &&& 0xff) then
      set_tcsr st (tm + 1) (byte st.tcsr (tm + 1) ||| bit)
    else st
  (st, cnt)

/-- The end of the 16-bit branch: the counters and the two status registers
are written back. -/
def timer8_update16 (st : Sim) (tm b b1 cnt : Nat) : Sim :=
  let st := set_reg st (b + 8) (cnt >>> 8)
  let st := set_reg st (b1 + 8) (cnt &&& 0xff)
  let st := set_reg st (b + 2) (reg st (b + 2) &&& 0x1f)
  let st := set_reg st (b + 2) (reg st (b + 2) ||| (byte st.tcsr tm &&& 0xe0))
  let st := set_reg st (b1 + 2) (reg st (b1 + 2) &&& 0x1f)
  set_reg st (b1 + 2) (reg st (b1 + 2) ||| (byte st.tcsr (tm + 1) &&& 0xe0))

/-- The 16-bit branch of the loop body of `timer8` for an even channel `tm`:
`b` and `b1` are `timer8_base[tm]` and `timer8_base[tm + 1]`.  The assignment
to `TCNT8 (tm - 1)` reads `timer8_base[tm - 1]`, which is outside the table
for `tm = 0`. -/
def timer8_16bit (st : Sim) (tm b b1 : Nat) : Option (Sim × Option Nat) :=
  let st := set_tcsr st (tm + 1) (byte st.tcsr (tm + 1) &&& (reg st (b1 + 2) &&& 0xf0))
  let (st, cnt) := timer8_count16 st tm b b1
  let st := set_reg st (b + 8) (cnt >>> 8)
  match timer8_reg st ((tm : Int) - 1) 8 with
  | none => none
  | some a =>
    let st := set_reg st a (cnt &&& 0xff)
    let (st, cnt) := timer8_match16 st tm b b1 4 0x40 0x08 cnt
    let (st, cnt) := timer8_match16 st tm b b1 6 0x80 0x10 cnt
    some (timer8_update16 st tm b b1 cnt, some cnt)

/-- The body of the inner loop of `timer8` for channel `tm` when prescaler
`pcnt` has expired: the state and the local `cnt` as the body leaves them.
`tcsr` has four elements, as many as the longer table has channels. -/
def timer8_channel (st : Sim) (pcnt tm : Nat) (cnt : Option Nat) : Option (Sim × Option Nat) :=
  match index st.timer8_base tm with
  | none => none
  | some b =>
    if reg st b &&& 0x07 = 0 then some (st, cnt)
    else
      let st := set_tcsr st tm (byte st.tcsr tm &&& (reg st (b + 2) &&& 0xf0))
      match index st.timer8_base ((tm &&& 2 : Nat) : Int) with
      | none => none
      | some b2 =>
        if reg st b2 &&& 0x7 = 0x04 then
          if tm &&& 1 ≠ 0 then some (st, cnt)
          else
            match index st.timer8_base ((tm : Int) + 1) with
            | none => none
            | some b1 => timer8_16bit st tm b b1
        else timer8_8bit st pcnt tm b cnt

/-- The inner loop of `timer8` from channel `tm` on, over the part of the
table that starts at `timer8_base[tm]`; the entry 0 ends it. -/
def timer8_for (pcnt : Nat) : List Nat → Nat → Sim → Option Nat → Option (Sim × Option Nat)
  | [], _, _, _ => none
  | b :: rest, tm, st, cnt =>
    if b = 0 then some (st, cnt)
    else (timer8_channel st pcnt tm cnt).bind (fun r => timer8_for pcnt rest (tm + 1) r.1 r.2)

def prescale_div : List Int := [8, 64, 8192]

/-- Assignment `prescale[pcnt] = v`. -/
def set_prescale (st : Sim) (pcnt : Nat) (v : Int) : Sim :=
  { st with prescale := upd st.prescale pcnt v }

/-- The turn of the outer loop of `timer8` for prescaler `pcnt`. -/
def timer8_prescaler (cycles_diff : Nat) (pcnt : Nat) (st : Sim) (cnt : Option Nat) :
    Option (Sim × Option Nat) :=
  let st := set_prescale st pcnt (sint32 (st.prescale pcnt - cycles_diff))
  if st.prescale pcnt ≤ 0 then
    (timer8_for pcnt st.timer8_base 0 st cnt).map (fun r =>
      (set_prescale r.1 pcnt (sint32 (r.1.prescale pcnt + prescale_div.getD pcnt 0)), r.2))
  else some (st, cnt)

/-- The function `timer8`; on entry nothing has been assigned to `cnt`. -/
def timer8 (st : Sim) (cycles_diff : Nat) : Option Sim :=
  ((((some (st, none)).bind (fun r => timer8_prescaler cycles_diff 0 r.1 r.2)).bind
    (fun r => timer8_prescaler cycles_diff 1 r.1 r.2)).bind
    (fun r => timer8_prescaler cycles_diff 2 r.1 r.2)).map (fun r => r.1)

/-! ## Power-on values -/

def h8300h_reg_ini : List (Nat × Nat) := [
  (0x80, 0x00), (0x81, 0x00), (0x82, 0x00), (0x83, 0x00), (0x84, 0xff), (0x85, 0xff),
  (0x86, 0xff), (0x87, 0xff), (0x88, 0x00), (0x89, 0x00), (0x90, 0x00), (0x91, 0x00),
  (0x92, 0x00), (0x93, 0x00), (0x94, 0xff), (0x95, 0xff), (0x96, 0xff), (0x97, 0xff),
  (0x98, 0x00), (0x99, 0x00), (0xb0, 0x00), (0xb1, 0xff), (0xb2, 0x00), (0xb3, 0xff),
  (0xb4, 0x84), (0xb8, 0x00), (0xb9, 0xff), (0xba, 0x00), (0xbb, 0xff), (0xbc, 0x84),
  (0xc0, 0x00), (0xc1, 0xff), (0xc2, 0x00), (0xc3, 0xff), (0xc4, 0x84) ]

def h8300s_reg_ini : List (Nat × Nat) := [
  (0xb0, 0x00), (0xb1, 0x00), (0xb2, 0x00), (0xb3, 0x00), (0xb4, 0xff), (0xb5, 0xff),
  (0xb6, 0xff), (0xb7, 0xff), (0xb8, 0x00), (0xb9, 0x00), (0x78, 0x00), (0x79, 0xff),
  (0x7a, 0x00), (0x7b, 0xff), (0x7c, 0x84), (0x80, 0x00), (0x81, 0xff), (0x82, 0x00),
  (0x83, 0xff), (0x84, 0x84), (0x88, 0x00), (0x89, 0xff), (0x8a, 0x00), (0x8b, 0xff),
  (0x8c, 0x84) ]

def h8300sx_reg_ini : List (Nat × Nat) := [
  (0xb0, 0x00), (0xb1, 0x00), (0xb2, 0x00), (0xb3, 0x00), (0xb4, 0xff), (0xb5, 0xff),
  (0xb6, 0xff), (0xb7, 0xff), (0xb8, 0x00), (0xb9, 0x00), (0x80, 0x00), (0x81, 0xff),
  (0x82, 0x00), (0x83, 0xff), (0x84, 0x84), (0x88, 0x00), (0x89, 0xff), (0x8a, 0x00),
  (0x8b, 0xff), (0x8c, 0x84), (0x60, 0x00), (0x61, 0xff), (0x62, 0x00), (0x63, 0xff),
  (0x64, 0x84) ]

/-- The loop of `init_ioregs` over a table of address and value pairs. -/
def init_regs (st : Sim) : List (Nat × Nat) → Sim
  | [] => st
  | (addr, data) :: rest => init_regs (set_reg st addr data) rest

/-- The loop of `init_ioregs` that sets `ssr[c] = 0x84`. -/
def init_ssr (st : Sim) : List Nat → Sim
  | [] => st
  | c :: rest => init_ssr (set_ssr st c 0x84) rest

def init_ioregs (st : Sim) : Sim :=
  let st :=
    if st.h8300sxmode ≠ 0 then
      init_regs { st with sci_base := h8300sx_sci_base, timer8_base := h8300s_timer8_base,
                          int_table := h8300sx_int_table } h8300sx_reg_ini
    else if st.h8300smode ≠ 0 then
      init_regs { st with sci_base := h8300s_sci_base, timer8_base := h8300s_timer8_base,
                          int_table := h8300s_int_table } h8300s_reg_ini
    else if st.h8300hmode ≠ 0 then
      init_regs { st with sci_base := h8300h_sci_base, timer8_base := h8300h_timer8_base,
                          int_table := h8300h_int_table } h8300h_reg_ini
    else st
  init_ssr st (List.range MAX_SCI_CH)

/-- The globals and `static` locals of io.c as the program starts: the
initialisers of the source, and zero where there is none. -/
def power_on (memory eightbit : Nat → Nat) (h8300hmode h8300smode h8300sxmode : Int)
    (host : Posix.Host) : Sim :=
  { memory := memory, eightbit := eightbit, h8300hmode := h8300hmode,
    h8300smode := h8300smode, h8300sxmode := h8300sxmode, sci_base := [],
    ssr := fun _ => 0, timer8_base := [], int_table := [],
    prescale := fun i => prescale_div.getD i 0, tcsr := fun _ => 0,
    tx_end_time := fun _ => 0, rx_end_time := fun _ => 0, txstate := 0,
    sci_port := fun _ => ⟨0, 0, 0, 0⟩, sci_port_type := PORT_NONE, host := host }

/-! ## The 16-bit timers -/

def TPU_CH : Nat := 6

def tpubase : List Nat := [0xffffd0, 0xffffe0, 0xfffff0, 0xfffe80, 0xfffe90, 0xfffea0]

/-- Store to `STATE_CPU (sd, 0)->memory[a]`. -/
def set_mem (st : Sim) (a : Nat) (v : Nat) : Sim :=
  { st with memory := upd st.memory a (uchar v) }

/-- The `static` locals of `h8300h_timer16`.  The three shadows are `int`s that
start at 0 and are only combined with values that are not negative. -/
structure Itu where
  prescale : Nat → Int
  tisra : Nat
  tisrb : Nat
  tisrc : Nat

/-- The `static` locals of `h8300s_timer16`; the elements of `tsr` are `int`s
that start at 0 and are only combined with values that are not negative. -/
structure Tpu where
  prescale : Nat → Int
  tsr : Nat → Nat

/-- Assignment `prescale[pcnt] = v` in `h8300h_timer16`. -/
def Itu.set_prescale (t : Itu) (pcnt : Nat) (v : Int) : Itu :=
  { t with prescale := upd t.prescale pcnt v }

/-- Assignment `prescale[pcnt] = v` in `h8300s_timer16`. -/
def Tpu.set_prescale (t : Tpu) (pcnt : Nat) (v : Int) : Tpu :=
  { t with prescale := upd t.prescale pcnt v }

/-- Assignment `tsr[tm] = v`. -/
def Tpu.set_tsr (t : Tpu) (tm : Nat) (v : Nat) : Tpu :=
  { t with tsr := upd t.tsr tm v }

/-- The array `prescale_div` of `h8300h_timer16`. -/
def h8300h_prescale_div : List Int := [1, 2, 4, 8]

/-- The array `prescale_div` of `h8300s_timer16`. -/
def h8300s_prescale_div : List Int := [1, 4, 16, 64]

/-- The statements headed `internal TCSR status clear` in `h8300h_timer16`: each
of the three shadows is masked with bit `tm` of its register. -/
def h8300h_timer16_clear (st : Sim) (t : Itu) (tm : Nat) : Itu :=
  { t with
    tisra := t.tisra &&& (0x07 &&& (reg st 0x64 &&& (1 <<< tm)))
    tisrb := t.tisrb &&& (0x07 &&& (reg st 0x65 &&& (1 <<< tm)))
    tisrc := t.tisrc &&& (0x07 &&& (reg st 0x66 &&& (1 <<< tm))) }

/-- The overflow check and the two compare match checks of `h8300h_timer16` on
the count `cnt` of channel `tm`: the shadows and the count they leave. -/
def h8300h_timer16_checks (st : Sim) (t : Itu) (tm cnt : Nat) : Itu × Nat :=
  let r1 : Itu × Nat :=
    if cnt ≥ 0x10000 then ({ t with tisrc := t.tisrc ||| (1 <<< tm) }, 0) else (t, cnt)
  let gra := reg st (0x6c + tm * 8) <<< 8 ||| reg st (0x6d + tm * 8)
  let r2 : Itu × Nat :=
    if r1.2 ≥ gra then
      ({ r1.1 with tisra := r1.1.tisra ||| (1 <<< tm) },
        if reg st (0x68 + tm * 8) &&& 0x60 = 0x20 then 0 else r1.2)
    else r1
  let grb := reg st (0x6e + tm * 8) <<< 8 ||| reg st (0x6f + tm * 8)
  if r2.2 ≥ grb then
    ({ r2.1 with tisrb := r2.1.tisrb ||| (1 <<< tm) },
      if reg st (0x68 + tm * 8) &&& 0x60 = 0x40 then 0 else r2.2)
  else r2

/-- The body of the inner loop of `h8300h_timer16` for channel `tm` when
prescaler `pcnt` has expired.  `pulse` is the local of that name, which is not
negative inside the branch; `cnt += pulse` is an addition of `int`s, undefined
when the sum is 2^31 or more. -/
def h8300h_timer16_channel (st : Sim) (t : Itu) (pcnt tm pulse : Nat) : Option (Sim × Itu) :=
  if reg st 0x60 &&& (1 <<< tm) = 0 then some (st, t)
  else
    let t := h8300h_timer16_clear st t tm
    if reg st (0x68 + tm * 8) &&& 0x07 = pcnt then
      let cnt := (reg st (0x6a + tm * 8) <<< 8 ||| reg st (0x6b + tm * 8)) + pulse
      if cnt ≥ 2 ^ 31 then none
      else
        let r := h8300h_timer16_checks st t tm cnt
        let st := set_reg st (0x6a + tm * 8) (r.2 >>> 8)
        let st := set_reg st (0x6b + tm * 8) (r.2 &&& 0xff)
        some (st, r.1)
    else some (st, t)

/-- The inner loop of `h8300h_timer16` over the channels listed. -/
def h8300h_timer16_for (pcnt pulse : Nat) : List Nat → Sim → Itu → Option (Sim × Itu)
  | [], st, t => some (st, t)
  | tm :: rest, st, t =>
    (h8300h_timer16_channel st t pcnt tm pulse).bind
      (fun r => h8300h_timer16_for pcnt pulse rest r.1 r.2)

/-- The write-back of the three status registers at the end of an expiry in
`h8300h_timer16`. -/
def h8300h_timer16_update (st : Sim) (t : Itu) : Sim :=
  let st := set_reg st 0x64 (reg st 0x64 &&& 0x70)
  let st := set_reg st 0x64 (reg st 0x64 ||| t.tisra)
  let st := set_reg st 0x65 (reg st 0x65 &&& 0x70)
  let st := set_reg st 0x65 (reg st 0x65 ||| t.tisrb)
  let st := set_reg st 0x66 (reg st 0x66 &&& 0x70)
  set_reg st 0x66 (reg st 0x66 ||| t.tisrc)

/-- The turn of the outer loop of `h8300h_timer16` for prescaler `pcnt`.
`pulse = -prescale[pcnt] / prescale_div[pcnt]` is evaluated before the test and
used only inside the branch, where `-prescale[pcnt]` is not negative; the
negation is undefined for the least `int`, which is in the branch too. -/
def h8300h_timer16_prescaler (cycles_diff : Nat) (pcnt : Nat) (st : Sim) (t : Itu) :
    Option (Sim × Itu) :=
  let t := t.set_prescale pcnt (sint32 (t.prescale pcnt - cycles_diff))
  if t.prescale pcnt = -2 ^ 31 then none
  else if t.prescale pcnt ≤ 0 then
    let pulse := ((-t.prescale pcnt) / h8300h_prescale_div.getD pcnt 0).toNat
    (h8300h_timer16_for pcnt pulse (List.range 3) st t).map (fun r =>
      (h8300h_timer16_update r.1 r.2,
        r.2.set_prescale pcnt (sint32 (r.2.prescale pcnt + h8300h_prescale_div.getD pcnt 0))))
  else some (st, t)

def h8300h_timer16 (st : Sim) (t : Itu) (cycles_diff : Nat) : Option (Sim × Itu) :=
  ((((some (st, t)).bind (fun r => h8300h_timer16_prescaler cycles_diff 0 r.1 r.2)).bind
    (fun r => h8300h_timer16_prescaler cycles_diff 1 r.1 r.2)).bind
    (fun r => h8300h_timer16_prescaler cycles_diff 2 r.1 r.2)).bind
    (fun r => h8300h_timer16_prescaler cycles_diff 3 r.1 r.2)

/-- The overflow check and the two compare match checks of `h8300s_timer16` on
the count `cnt` of channel `tm`, whose registers start at `b`: the statics and
the count they leave.  Both compare match checks clear the count on the same
setting of TCR, 0x20. -/
def h8300s_timer16_checks (st : Sim) (t : Tpu) (tm b cnt : Nat) : Tpu × Nat :=
  let r1 : Tpu × Nat :=
    if cnt ≥ 0x10000 then (t.set_tsr tm (t.tsr tm ||| 0x10), 0) else (t, cnt)
  let gra := mem st (b + 8) <<< 8 ||| mem st (b + 9)
  let r2 : Tpu × Nat :=
    if r1.2 ≥ gra then
      (r1.1.set_tsr tm (r1.1.tsr tm ||| 0x1), if mem st (b + 0) &&& 0x60 = 0x20 then 0 else r1.2)
    else r1
  let grb := mem st (b + 10) <<< 8 ||| mem st (b + 11)
  if r2.2 ≥ grb then
    (r2.1.set_tsr tm (r2.1.tsr tm ||| 0x2), if mem st (b + 0) &&& 0x60 = 0x20 then 0 else r2.2)
  else r2

/-- The body of the inner loop of `h8300s_timer16` for channel `tm`, whose
registers start at `b = tpubase[tm]`, when prescaler `pcnt` has expired;
`cnt += pulse` is an addition of `int`s, undefined when the sum is 2^31 or
more. -/
def h8300s_timer16_channel (st : Sim) (t : Tpu) (pcnt tm b pulse : Nat) : Option (Sim × Tpu) :=
  if reg st 0xc0 &&& (1 <<< tm) = 0 then some (st, t)
  else
    let t := t.set_tsr tm (t.tsr tm &&& mem st (b + 5))
    if mem st (b + 0) &&& 0x07 = pcnt then
      let cnt := (mem st (b + 6) <<< 8 ||| mem st (b + 7)) + pulse
      if cnt ≥ 2 ^ 31 then none
      else
        let r := h8300s_timer16_checks st t tm b cnt
        let st := set_mem st (b + 6) (r.2 >>> 8)
        let st := set_mem st (b + 7) (r.2 &&& 0xff)
        some (st, r.1)
    else some (st, t)

/-- The inner loop of `h8300s_timer16` from channel `tm` on, while
`tm < TPU_CH`: the state, the statics and `tm` as the loop leaves them. -/
def h8300s_timer16_for (pcnt pulse : Nat) : Nat → Nat → Sim → Tpu → Option (Sim × Tpu × Nat)
  | 0, tm, st, t => some (st, t, tm)
  | n + 1, tm, st, t =>
    match index tpubase tm with
    | none => none
    | some b =>
      (h8300s_timer16_channel st t pcnt tm b pulse).bind
        (fun r => h8300s_timer16_for pcnt pulse n (tm + 1) r.1 r.2)

/-- The turn of the outer loop of `h8300s_timer16` for prescaler `pcnt`.  The
statement `TPU_TSR (tm) |= tsr[tm]` stands after the inner loop, where `tm` is
what the loop left: it reads `tpubase[tm]`, and `tsr[tm]` in an array of
`TPU_CH` elements. -/
def h8300s_timer16_prescaler (cycles_diff : Nat) (pcnt : Nat) (st : Sim) (t : Tpu) :
    Option (Sim × Tpu) :=
  let t := t.set_prescale pcnt (sint32 (t.prescale pcnt - cycles_diff))
  if t.prescale pcnt = -2 ^ 31 then none
  else if t.prescale pcnt ≤ 0 then
    let pulse := ((-t.prescale pcnt) / h8300s_prescale_div.getD pcnt 0).toNat
    match h8300s_timer16_for pcnt pulse TPU_CH 0 st t with
    | none => none
    | some (st, t, tm) =>
      let t := t.set_prescale pcnt (sint32 (t.prescale pcnt + h8300s_prescale_div.getD pcnt 0))
      match index tpubase tm with
      | none => none
      | some b =>
        if tm < TPU_CH then some (set_mem st (b + 5) (mem st (b + 5) ||| t.tsr tm), t)
        else none
  else some (st, t)

def h8300s_timer16 (st : Sim) (t : Tpu) (cycles_diff : Nat) : Option (Sim × Tpu) :=
  ((((some (st, t)).bind (fun r => h8300s_timer16_prescaler cycles_diff 0 r.1 r.2)).bind
    (fun r => h8300s_timer16_prescaler cycles_diff 1 r.1 r.2)).bind
    (fun r => h8300s_timer16_prescaler cycles_diff 2 r.1 r.2)).bind
    (fun r => h8300s_timer16_prescaler cycles_diff 3 r.1 r.2)

/-! ## The entry point -/

/-- What `iosimulation` works on: the state of the functions above, the
statics of the two 16-bit timer functions, and its own `static prev_cycles`. -/
structure Board where
  sim : Sim
  itu : Itu
  tpu : Tpu
  prev_cycles : Nat

/-- The conditional expression of `iosimulation`: `cycles` is an `int`,
`prev_cycles` an `unsigned int`, so the comparison and the subtraction convert
`cycles` to `unsigned int`. -/
def cycles_diff_of (prev_cycles : Nat) (cycles : Int) : Nat :=
  if uint32 cycles < prev_cycles then uint32 cycles
  else uint32 ((uint32 cycles : Int) - prev_cycles)

/-- The calls `iosimulation` makes with `cycles_diff`, and the value it
returns. -/
def io_advance (b : Board) (cycles_diff : Nat) : Option (Board × Int) :=
  (timer8 b.sim cycles_diff).bind fun st =>
    let b := { b with sim := st }
    let r : Option Board :=
      if st.h8300smode ≠ 0 then
        (h8300s_timer16 st b.tpu cycles_diff).map (fun r => { b with sim := r.1, tpu := r.2 })
      else if st.h8300hmode ≠ 0 then
        (h8300h_timer16 st b.itu cycles_diff).map (fun r => { b with sim := r.1, itu := r.2 })
      else some b
    r.bind fun b =>
      (sci b.sim cycles_diff).bind fun st =>
        (intcont st).map (fun v => ({ b with sim := st }, v))

def iosimulation (b : Board) (cycles : Int) : Option (Board × Int) :=
  let cycles_diff := cycles_diff_of b.prev_cycles cycles
  let b := { b with prev_cycles := uint32 cycles }
  io_advance b cycles_diff

/-- The statics of `h8300h_timer16` as the program starts. -/
def Itu.power_on : Itu :=
  { prescale := fun i => h8300h_prescale_div.getD i 0, tisra := 0, tisrb := 0, tisrc := 0 }

/-- The statics of `h8300s_timer16` as the program starts. -/
def Tpu.power_on : Tpu :=
  { prescale := fun i => h8300s_prescale_div.getD i 0, tsr := fun _ => 0 }

/-- The state `iosimulation` works on as the program starts. -/
def Board.power_on (st : Sim) : Board :=
  { sim := st, itu := Itu.power_on, tpu := Tpu.power_on, prev_cycles := 0 }

/-! ## Vocabulary of the statements

Pure functions of the state and abbreviations in which the properties are
stated; none of them is part of io.c. -/

/-- The events of the interrupt table: its entries before the closing one. -/
def events (st : Sim) : List int_list_t :=
  st.int_table.takeWhile (fun e => e.vector > 0)

/-- The first event in table order whose enable bit and status bit are set. -/
def first_asserted (st : Sim) : Option int_list_t :=
  (events st).find? (asserted st)

/-- The priority level `get_priority` maps a vector to: what it adds to the
vector, in units of 0x100. -/
def level (st : Sim) (vec : Int) : Int :=
  match get_priority st vec with
  | some p => (p - vec) / 0x100
  | none => 0

/-- The answer of `intcont` is the encoded vector of an asserted event whose
level no asserted event exceeds, and 0 when no event is asserted. -/
def answers_highest (st : Sim) : Prop :=
  ((events st).any (asserted st) = true →
    ∃ e ∈ events st, asserted st e = true ∧ intcont st = get_priority st e.vector ∧
      ∀ f ∈ events st, asserted st f = true → level st f.vector ≤ level st e.vector) ∧
  ((events st).any (asserted st) = false → intcont st = some 0)

instance (st : Sim) : Decidable (answers_highest st) := by
  unfold answers_highest; exact inferInstance

/-- A state with nothing set: no mode chosen, null tables, registers 0. -/
def Sim.zero : Sim :=
  { memory := fun _ => 0, eightbit := fun _ => 0, h8300hmode := 0, h8300smode := 0,
    h8300sxmode := 0, sci_base := [], ssr := fun _ => 0, timer8_base := [], int_table := [],
    prescale := fun _ => 0, tcsr := fun _ => 0, tx_end_time := fun _ => 0,
    rx_end_time := fun _ => 0, txstate := 0, sci_port := fun _ => ⟨0, 0, 0, 0⟩,
    sci_port_type := PORT_NONE, host := Posix.quiet }

/-- An H8/300H in which IMIA0 (vector 24, level 0) and RXI0 (vector 53, raised
to level 1 by bit 3 of IPRB) are both enabled and pending. -/
def two_events : Sim :=
  { Sim.zero with
    h8300hmode := 1
    int_table := h8300h_int_table
    memory := fun a =>
      if a = 0xffff64 then 0x11 else if a = 0xffffb4 then 0x40
      else if a = 0xffffb2 then 0x40 else if a = 0xfee019 then 0x08 else 0 }

/-- The frame length in bits that the serial mode register selects. -/
def bits_per_frame (smr : Nat) : Nat :=
  (if smr &&& 0x40 ≠ 0 then 7 else 8) + (if smr &&& 0x20 ≠ 0 then 1 else 0)
    + (if smr &&& 0x08 ≠ 0 then 1 else 0)

/-- The clock divisor that the serial mode register selects. -/
def clock_divisor (smr : Nat) : Nat := 4 ^ (smr &&& 3)

/-- The cycles one byte takes: the formula of the specification. -/
def cycles_per_byte (smr brr : Nat) : Nat :=
  (bits_per_frame smr + 2) * 32 * clock_divisor smr * brr

/-- The count of a channel after the increment of a tick: the successor of the
counter register, as the eight bits of the register hold it. -/
def count8 (st : Sim) (b : Nat) : Nat := (reg st (b + 8) + 1) % 256

/-- Compare match A for the count `c`: the count has reached TCORA. -/
def match_a (st : Sim) (b c : Nat) : Bool := decide (c ≥ reg st (b + 4))

/-- The count after compare match A: cleared when TCR selects clearing by A. -/
def count_a (st : Sim) (b c : Nat) : Nat :=
  if match_a st b c = true ∧ reg st b &&& 0x18 = 0x08 then 0 else c

/-- Compare match B: the count left by A has reached TCORB. -/
def match_b (st : Sim) (b c : Nat) : Bool := decide (count_a st b c ≥ reg st (b + 6))

/-- The count the checks leave: cleared when TCR selects clearing by B. -/
def count_b (st : Sim) (b c : Nat) : Nat :=
  if match_b st b c = true ∧ reg st b &&& 0x18 = 0x10 then 0 else count_a st b c

/-- The status bits of the events the 8-bit branch detects for the count `c`. -/
def events8 (st : Sim) (b c : Nat) : Nat :=
  (if match_a st b c = true then 0x40 else 0) ||| (if match_b st b c = true then 0x80 else 0)

/-- Channel `tm`, whose registers start at `b`, is enabled and in 8-bit mode:
its clock select is not 0 and the channel `tm & 2`, whose registers start at
`b2`, does not select the 16-bit mode. -/
def mode8 (st : Sim) (tm b b2 : Nat) : Prop :=
  index st.timer8_base tm = some b ∧ index st.timer8_base ((tm &&& 2 : Nat) : Int) = some b2 ∧
    b2 ≤ b ∧ reg st b &&& 0x07 ≠ 0 ∧ reg st b2 &&& 0x7 ≠ 0x04

/-- Channel `tm` runs in 8-bit mode on the prescaler `pcnt`: it is in 8-bit
mode and its clock select is `pcnt + 1`. -/
def runs8 (st : Sim) (pcnt tm b b2 : Nat) : Prop :=
  mode8 st tm b b2 ∧ reg st b &&& 0x07 = pcnt + 1

instance (st : Sim) (tm b b2 : Nat) : Decidable (mode8 st tm b b2) := by
  unfold mode8; exact inferInstance

instance (st : Sim) (pcnt tm b b2 : Nat) : Decidable (runs8 st pcnt tm b b2) := by
  unfold runs8; exact inferInstance

/-- The state after `n` ticks of prescaler `pcnt` on channel `tm`: the loop body
run `n` times, the local `cnt` unassigned on entry each time. -/
def ticks (pcnt tm : Nat) : Nat → Sim → Option Sim
  | 0, st => some st
  | n + 1, st => (timer8_channel st pcnt tm none).bind (fun r => ticks pcnt tm n r.1)

/-- An H8/300H after power-on whose timer channel 0 has the given TCR, TCSR,
TCORA, TCORB and TCNT; every other register is 0, so the other channels are
stopped. -/
def timer_state (tcr tcsr tcora tcorb tcnt : Nat) : Sim :=
  { power_on (fun _ => 0)
      (fun a => if a = 0x80 then tcr else if a = 0x82 then tcsr else if a = 0x84 then tcora
        else if a = 0x86 then tcorb else if a = 0x88 then tcnt else 0) 1 0 0 Posix.quiet with
    timer8_base := h8300h_timer8_base }

/-- The bytes of a stream that are not part of a telnet command, for a parser
that still has `skip` bytes of a command to take: the byte 0xff opens a command
of three bytes. -/
def telnet_strip : Nat → List Nat → List Nat
  | _, [] => []
  | k + 1, _ :: rest => telnet_strip k rest
  | 0, b :: rest => if b = 0xff then telnet_strip 2 rest else b :: telnet_strip 0 rest

/-- The number of bytes of a command the parser still has to take after the
stream. -/
def telnet_left : Nat → List Nat → Nat
  | k, [] => k
  | k + 1, _ :: rest => telnet_left k rest
  | 0, b :: rest => if b = 0xff then telnet_left 2 rest else telnet_left 0 rest

/-- The value of `iac` while `skip` bytes of a command are still to come: 0
when idle, 1 after the byte 0xff, 2 after the command byte. -/
def iac_of (skip : Nat) : Int :=
  match skip with
  | 0 => 0
  | 1 => 2
  | _ => 1

/-- The bytes `n` calls of `sci_rcv_data` on channel `ch` deliver, in order,
and the state after the last call. -/
def rcv_n (ch : Nat) : Nat → Sim → List Nat × Sim
  | 0, st => ([], st)
  | n + 1, st =>
    match sci_rcv_data st ch with
    | (some d, st) => (d :: (rcv_n ch n st).1, (rcv_n ch n st).2)
    | (none, st) => rcv_n ch n st

/-- Channel `ch` is connected to the socket `fd`, on which the bytes `bs` wait,
and its parser still has `skip` bytes of a command to take. -/
def listening (st : Sim) (ch : Nat) (fd : Int) (skip : Nat) (bs : List Nat) : Prop :=
  st.sci_port_type = PORT_NET ∧ (st.sci_port ch).fd = fd ∧ 0 ≤ fd ∧
    (st.sci_port ch).iac = iac_of skip ∧ st.host.pending fd = bs

/-- A state in socket mode whose channel 0 is connected to descriptor 5, on
which the given bytes wait. -/
def net_state (bs : List Nat) : Sim :=
  { Sim.zero with
    sci_port_type := PORT_NET
    sci_port := fun _ => ⟨5, 4, 0, 0⟩
    host := { Posix.quiet with pending := fun fd => if fd = 5 then bs else [] } }

instance (st : Sim) (ch : Nat) (fd : Int) (skip : Nat) (bs : List Nat) :
    Decidable (listening st ch fd skip bs) := by
  unfold listening; exact inferInstance

/-- The state in which the loop body of `sci` polls the transport for channel
`ch`: the body up to the receive check. -/
def sci_at_poll (st : Sim) (cycles_diff ch b : Nat) : Sim :=
  let t := sci_complete_time_of (reg st (b + 0)) (reg st (b + 1))
  let st := set_ssr st ch (byte st.ssr ch &&& reg st (b + 4))
  let st := sci_tx_request st ch b
  let st := set_tx_end_time st ch (sint32 (st.tx_end_time ch - cycles_diff))
  let st := sci_tx_complete st ch t
  set_rx_end_time st ch (sint32 (st.rx_end_time ch - cycles_diff))

/-- The state in which the loop of `sci` reaches channel `ch`, `none` when the
call returns before: after `net_accept` in socket mode, or on a null
`sci_base`. -/
def sci_reach (st : Sim) (cycles_diff ch : Nat) : Option Sim :=
  if st.sci_port_type = PORT_NET then
    match net_accept st with
    | (true, _) => none
    | (false, st) => sci_for cycles_diff (List.range ch) st
  else sci_for cycles_diff (List.range ch) st

/-- An H8/300H after `init_ioregs` whose serial channel 0 is connected to
descriptor 5, on which the bytes `bs` wait, and has the given SCR, TDR, SSR and
shadow of SSR; the channel's timers are 0, and the other channels have no
descriptor. -/
def sci_state (scr tdr ssr shadow : Nat) (bs : List Nat) : Sim :=
  let st := init_ioregs (power_on (fun _ => 0) (fun _ => 0) 1 0 0
    { Posix.quiet with pending := fun fd => if fd = 5 then bs else [] })
  let st := set_reg (set_reg (set_reg st 0xb2 scr) 0xb3 tdr) 0xb4 ssr
  { set_ssr st 0 shadow with
    sci_port := fun ch => if ch = 0 then ⟨5, 0, 0, 0⟩ else ⟨-1, 0, 0, 0⟩ }

/-- The loop body of `sci` for channel `ch` run once for every elapsed-cycle
count of the list, in order, nothing else touching the state in between. -/
def sci_calls (ch : Nat) : List Nat → Sim → Option Sim
  | [], st => some st
  | d :: ds, st => (sci_channel st d ch).bind (sci_calls ch ds)

/-- Channel `ch`, whose registers start at `b`, has sent its byte and waits for
the end of the frame: the transmit-empty bit 0x80 is set in SSR and in its
shadow, the transmit-complete bit 0x04 is clear in the shadow, and the transmit
timer has `e` cycles to go. -/
def tx_waiting (st : Sim) (ch b : Nat) (e : Int) : Prop :=
  st.sci_base.get? ch = some b ∧ byte st.ssr ch &&& 0x80 ≠ 0 ∧ reg st (b + 4) &&& 0x80 ≠ 0 ∧
    byte st.ssr ch &&& 0x04 = 0 ∧ st.tx_end_time ch = e

instance (st : Sim) (ch b : Nat) (e : Int) : Decidable (tx_waiting st ch b e) := by
  unfold tx_waiting; exact inferInstance

/-- The serial channels have the same registers, shadows, timers and table in
both states: they differ at most in the host and the descriptors. -/
def same_sci (s s' : Sim) : Prop :=
  s'.eightbit = s.eightbit ∧ s'.ssr = s.ssr ∧ s'.tx_end_time = s.tx_end_time ∧
    s'.rx_end_time = s.rx_end_time ∧ s'.txstate = s.txstate ∧ s'.sci_base = s.sci_base ∧
    s'.sci_port_type = s.sci_port_type

/-- Channel `ch`, whose registers are the eight bytes from `b`, is the same in
both states: its registers, its shadow of SSR and its two timers. -/
def same_channel (s s' : Sim) (ch b : Nat) : Prop :=
  s'.sci_base = s.sci_base ∧ s'.sci_port_type = s.sci_port_type ∧
    (∀ a, b ≤ a → a < b + 8 → reg s' a = reg s a) ∧ byte s'.ssr ch = byte s.ssr ch ∧
    s'.rx_end_time ch = s.rx_end_time ch ∧ s'.tx_end_time ch = s.tx_end_time ch

/-- The table `sci_base` is one of the three of io.c. -/
def sci_tables (st : Sim) : Prop :=
  st.sci_base = h8300h_sci_base ∨ st.sci_base = h8300s_sci_base ∨
    st.sci_base = h8300sx_sci_base

instance (st : Sim) : Decidable (sci_tables st) := by
  unfold sci_tables; exact inferInstance

/-- What `sci_rcv_data` returns at the receive check of channel `ch` during the
call `sci (cycles_diff)`: `none` when the call returns before it gets to the
channel, or when the call yields no byte. -/
def sci_poll (st : Sim) (cycles_diff ch : Nat) : Option Nat :=
  match sci_reach st cycles_diff ch, st.sci_base.get? ch with
  | some s, some b => (sci_rcv_data (sci_at_poll s cycles_diff ch b) ch).1
  | _, _ => none

/-- Status bit `bit` of timer channel `tm`, whose registers start at `b`, is
latched: set in TCSR and in the shadow `tcsr[tm]`, as `timer8` leaves a bit it
has set. -/
def latched (st : Sim) (tm b bit : Nat) : Prop :=
  reg st (b + 2) &&& bit ≠ 0 ∧ byte st.tcsr tm &&& bit ≠ 0

instance (st : Sim) (tm b bit : Nat) : Decidable (latched st tm b bit) := by
  unfold latched; exact inferInstance

/-- The table `timer8_base` is one of the two of io.c. -/
def timer8_tables (st : Sim) : Prop :=
  st.timer8_base = h8300h_timer8_base ∨ st.timer8_base = h8300s_timer8_base

instance (st : Sim) : Decidable (timer8_tables st) := by
  unfold timer8_tables; exact inferInstance

/-- Between two points of the 16-bit branch of `timer8` for the channels `tm`
and `tm + 1`: the table is the same, the shadows of the two channels have lost
no bit, the other shadows are the same, and so are the registers other than
those listed. -/
def grows16 (tm : Nat) (regs : List Nat) (s x : Sim) : Prop :=
  x.timer8_base = s.timer8_base ∧
    (∀ a, a ∉ regs → reg x a = reg s a) ∧
    (∀ i, i ≠ tm → i ≠ tm + 1 → byte x.tcsr i = byte s.tcsr i) ∧
    (∀ bit, byte s.tcsr tm &&& bit ≠ 0 → byte x.tcsr tm &&& bit ≠ 0) ∧
    (∀ bit, byte s.tcsr (tm + 1) &&& bit ≠ 0 → byte x.tcsr (tm + 1) &&& bit ≠ 0)

/-- What happens to the timers between and in the calls of `timer8`: a call
with the cycles elapsed, or a store of software to a register. -/
inductive timer_step where
  | call (cycles_diff : Nat)
  | store (a v : Nat)
  deriving DecidableEq, Repr

/-- The state after the steps, in order; `none` when a call of `timer8` has no
defined result. -/
def timer_run : List timer_step → Sim → Option Sim
  | [], st => some st
  | .call d :: rest, st => (timer8 st d).bind (timer_run rest)
  | .store a v :: rest, st => timer_run rest (set_reg st a v)

/-- The step is not a store that clears bit `bit` in the register at `a`. -/
def timer_step.keeps (a bit : Nat) : timer_step → Prop
  | .call _ => True
  | .store a' v => a' = a → uchar v &&& bit ≠ 0

instance (a bit : Nat) (e : timer_step) : Decidable (e.keeps a bit) := by
  cases e <;> unfold timer_step.keeps <;> exact inferInstance

/-- Calls of `sci` one after the other, one for every elapsed-cycle count of
the list, each getting to the loop over the channels and nothing else touching
the state in between; `none` when one of them returns from `net_accept`. -/
def sci_loops (ch : Nat) : List Nat → Sim → Option Sim
  | [], st => some st
  | d :: ds, st =>
    match sci_reach st d ch with
    | none => none
    | some _ => (sci st d).bind (sci_loops ch ds)

/-- What the serial code run for channel `i` may change on the host side: the
descriptor record of no other channel; of its own, the descriptor at most by
dropping it (-1); nothing of what the host answers to `write` and `accept`; and
of what was sent, only what went to the channel's own descriptor. -/
def turn_of (s s' : Sim) (i : Nat) : Prop :=
  (∀ j, j ≠ i → s'.sci_port j = s.sci_port j) ∧
    ((s'.sci_port i).fd = (s.sci_port i).fd ∨ (s'.sci_port i).fd = -1) ∧
    s'.host.write_errno = s.host.write_errno ∧ s'.host.backlog = s.host.backlog ∧
    ∀ fd, 0 ≤ fd → fd ≠ (s.sci_port i).fd → s'.host.sent fd = s.host.sent fd

/-- Descriptor `fd` is apart from the channels other than `ch`: it is a
descriptor, none of them has it, and no socket has it waiting to be
accepted. -/
def apart (s : Sim) (ch : Nat) (fd : Int) : Prop :=
  0 ≤ fd ∧ (∀ j, j ≠ ch → (s.sci_port j).fd ≠ fd) ∧ ∀ sock, fd ∉ s.host.backlog sock

/-! ## Vocabulary of the statements on the 16-bit timers and the entry point -/

/-- An H8/300H after power-on, all registers 0 but for those listed with their
values. -/
def h8300h_with (regs : List (Nat × Nat)) : Sim :=
  init_regs { power_on (fun _ => 0) (fun _ => 0) 1 0 0 Posix.quiet with
    sci_base := h8300h_sci_base, timer8_base := h8300h_timer8_base,
    int_table := h8300h_int_table } regs

/-- The loop that stores the listed values to `memory`. -/
def init_mems (st : Sim) : List (Nat × Nat) → Sim
  | [] => st
  | (addr, data) :: rest => init_mems (set_mem st addr data) rest

/-- An H8S after power-on, all registers and all of memory 0 but for the
registers and the bytes of memory listed with their values. -/
def h8300s_with (regs mems : List (Nat × Nat)) : Sim :=
  init_mems (init_regs { power_on (fun _ => 0) (fun _ => 0) 1 1 0 Posix.quiet with
    sci_base := h8300s_sci_base, timer8_base := h8300s_timer8_base,
    int_table := h8300s_int_table } regs) mems

/-- The 16-bit counter of channel `tm` of the H8/300H timers. -/
def TCNT16 (st : Sim) (tm : Nat) : Nat :=
  reg st (0x6a + tm * 8) <<< 8 ||| reg st (0x6b + tm * 8)

/-- The 16-bit counter of the TPU channel whose registers start at `b`. -/
def TPU_TCNT (st : Sim) (b : Nat) : Nat := mem st (b + 6) <<< 8 ||| mem st (b + 7)

/-- The remaining count of a prescaler with period `P` after `c` cycles, from
the remaining count `r`, as the specification has it: the cycles are
subtracted, and the period is added back when nothing positive is left. -/
def carry (r : Int) (c : Nat) (P : Int) : Int :=
  if 0 < r - c then r - c else r - c + P

/-- The number of calls of `timer8`, one for every elapsed-cycle count of the
list, in which prescaler `pcnt` expires; `none` when one of the calls has no
defined result. -/
def expiries (pcnt : Nat) : List Nat → Sim → Option Nat
  | [], _ => some 0
  | d :: ds, st =>
    (timer8 st d).bind fun st' =>
      (expiries pcnt ds st').map
        (fun n => n + (if sint32 (st.prescale pcnt - d) ≤ 0 then 1 else 0))

/-- The calls of `timer8` one after the other, one for every elapsed-cycle
count of the list. -/
def timer8_calls : List Nat → Sim → Option Sim
  | [], st => some st
  | d :: ds, st => (timer8 st d).bind (timer8_calls ds)

/-- The `cycles_diff` of the successive calls `iosimulation (cycles)`, one for
every value of the list, from the `prev_cycles` given. -/
def cycle_deltas : Nat → List Int → List Nat
  | _, [] => []
  | prev, c :: cs => cycles_diff_of prev c :: cycle_deltas (uint32 c) cs

/-- The calls `iosimulation (cycles)` one after the other, one for every value
of the list; `none` when one of them has no defined result. -/
def io_calls : List Int → Board → Option Board
  | [], b => some b
  | c :: cs, b => (iosimulation b c).bind (fun r => io_calls cs r.1)

/-- The board with `prev_cycles` set. -/
def Board.at_cycles (b : Board) (c : Nat) : Board := { b with prev_cycles := c }

/-- An H8/300H after `init_ioregs` on which no serial port has been opened:
`sci_port` and `sci_port_type` are as the program starts.  Channel 0 has
transmit and receive enabled (SCR = 0x30), the byte 0x41 in TDR and the
transmit-empty bit cleared by software; the byte 0x42 waits on descriptor 0. -/
def unopened_state : Sim :=
  init_regs (init_ioregs (power_on (fun _ => 0) (fun _ => 0) 1 0 0
    { Posix.quiet with pending := fun fd => if fd = 0 then [0x42] else [] }))
    [(0xb2, 0x30), (0xb3, 0x41), (0xb4, 0x04)]

/-- The state `sci_state` with channel 0 disconnected: its descriptor is -1. -/
def closed_state (scr tdr ssr shadow : Nat) (bs : List Nat) : Sim :=
  set_port (sci_state scr tdr ssr shadow bs) 0 ⟨-1, 0, 0, 0⟩

/-- The count the checks of `h8300h_timer16` leave for the count `c` on channel
`tm`: 0 on overflow, 0 on a compare match with GRA when TCR selects clearing by
it (bits 0x60 = 0x20), 0 on a compare match with GRB when TCR selects that
(0x40). -/
def checks16h (st : Sim) (tm c : Nat) : Nat :=
  let c := if c ≥ 0x10000 then 0 else c
  let c :=
    if c ≥ (reg st (0x6c + tm * 8) <<< 8 ||| reg st (0x6d + tm * 8)) ∧
        reg st (0x68 + tm * 8) &&& 0x60 = 0x20 then 0
    else c
  if c ≥ (reg st (0x6e + tm * 8) <<< 8 ||| reg st (0x6f + tm * 8)) ∧
      reg st (0x68 + tm * 8) &&& 0x60 = 0x40 then 0
  else c

/-- The count the checks of `h8300s_timer16` leave for the count `c` on the
channel whose registers start at `b`; both compare matches clear the count on
the setting 0x20 of TCR. -/
def checks16s (st : Sim) (b c : Nat) : Nat :=
  let c := if c ≥ 0x10000 then 0 else c
  let c :=
    if c ≥ (mem st (b + 8) <<< 8 ||| mem st (b + 9)) ∧ mem st (b + 0) &&& 0x60 = 0x20 then 0
    else c
  if c ≥ (mem st (b + 10) <<< 8 ||| mem st (b + 11)) ∧ mem st (b + 0) &&& 0x60 = 0x20 then 0
  else c

/-- The whole periods `P` by which a prescaler is overdue that had `r` cycles
left before `c` cycles elapsed: the value of `pulse` in an expiry. -/
def pulses (r : Int) (c : Nat) (P : Int) : Nat := ((c - r) / P).toNat

/-- Channel `tm` of the H8/300H 16-bit timers is started and counts on
prescaler `pcnt`. -/
def counts16h (st : Sim) (pcnt tm : Nat) : Prop :=
  reg st 0x60 &&& (1 <<< tm) ≠ 0 ∧ reg st (0x68 + tm * 8) &&& 0x07 = pcnt

instance (st : Sim) (pcnt tm : Nat) : Decidable (counts16h st pcnt tm) := by
  unfold counts16h; exact inferInstance

/-- Channel `tm` of the TPU, whose registers start at `b`, is started and
counts on prescaler `pcnt`. -/
def counts16s (st : Sim) (pcnt tm b : Nat) : Prop :=
  index tpubase tm = some b ∧ reg st 0xc0 &&& (1 <<< tm) ≠ 0 ∧ mem st (b + 0) &&& 0x07 = pcnt

instance (st : Sim) (pcnt tm b : Nat) : Decidable (counts16s st pcnt tm b) := by
  unfold counts16s; exact inferInstance

/-- An H8/300H on which channel 0 of the 16-bit timers is started
(TSTR = 0x01) and counts on prescaler 0 (TCR = 0) from `tcnt`, with both
general registers at 0xffff. -/
def itu_state (tcnt : Nat) : Sim :=
  h8300h_with [(0x60, 0x01), (0x6a, tcnt >>> 8), (0x6b, tcnt &&& 0xff), (0x6c, 0xff),
    (0x6d, 0xff), (0x6e, 0xff), (0x6f, 0xff)]

/-- An H8S on which channel 0 of the TPU is started (TSTR = 0x01) and counts on
prescaler 0 (TCR = 0) from `tcnt`, with both general registers at 0xffff and
the status register TSR at 0. -/
def tpu_state (tcnt : Nat) : Sim :=
  h8300s_with [(0xc0, 0x01)] [(0xffffd6, tcnt >>> 8), (0xffffd7, tcnt &&& 0xff),
    (0xffffd8, 0xff), (0xffffd9, 0xff), (0xffffda, 0xff), (0xffffdb, 0xff)]

/-- An H8/300H with TSTR = `tstr` on which channel 0 of the 16-bit timers
counts on prescaler 0 from 9 towards GRA = 10, and channel 1 counts on
prescaler 3 from 0; the other general registers are at 0xffff and the three
status registers at 0. -/
def itu_pair_state (tstr : Nat) : Sim :=
  h8300h_with [(0x60, tstr), (0x6b, 9), (0x6d, 10), (0x6e, 0xff), (0x6f, 0xff), (0x70, 0x03),
    (0x74, 0xff), (0x75, 0xff), (0x76, 0xff), (0x77, 0xff)]

/-- An H8/300H on which two channels of the 8-bit timers run in 8-bit mode:
channel 0 on prescaler 0 (TCR = 0x01) from 5, channel 1 on prescaler 1
(TCR = 0x02) from 0x50; the compare registers of both are at 0xff. -/
def timer8_pair_state : Sim :=
  h8300h_with [(0x80, 0x01), (0x84, 0xff), (0x86, 0xff), (0x88, 5), (0x81, 0x02), (0x85, 0xff),
    (0x87, 0xff), (0x89, 0x50)]

/-! ## Vocabulary of the statements on the telnet replies -/

/-- The command byte of the reply to the command `c` with option `o`: DO
(0xfd) for WILL (0xfb) with option 1 or 3, DONT (0xfe) for WILL with another
option, WONT (0xfc) for DO (0xfd), and the command itself otherwise. -/
def reply_command (c o : Nat) : Nat :=
  if c = 0xfb then (if o = 1 ∨ o = 3 then 0xfd else 0xfe)
  else if c = 0xfd then 0xfc
  else c

/-! ## Vocabulary of the statements on the H8SX -/

/-- An H8SX (all three mode flags set) after power-on and `init_ioregs`, all of
memory 0 but for the bytes listed with their values. -/
def h8300sx_with (mems : List (Nat × Nat)) : Sim :=
  init_mems (init_ioregs (power_on (fun _ => 0) (fun _ => 0) 1 1 1 Posix.quiet)) mems

/-! ## Vocabulary of the statements on the paired 8-bit timers -/

/-- An H8/300H on which channels 2 and 3 of the 8-bit timers count as a pair
(TCR of channel 2 is 0x04) from 0x0105, with the compare registers of both at
0xff; channel 1, which is stopped, holds 0x50 in its counter. -/
def timer8_pair23_state : Sim :=
  h8300h_with [(0x90, 0x04), (0x98, 0x01), (0x99, 0x05), (0x94, 0xff), (0x95, 0xff),
    (0x96, 0xff), (0x97, 0xff), (0x89, 0x50)]

/-- An H8/300H on which channels 0 and 1 of the 8-bit timers count as a pair
(TCR of channel 0 is 0x04) from 0x0105, with the compare registers of both at
0xff. -/
def timer8_pair01_state : Sim :=
  h8300h_with [(0x80, 0x04), (0x88, 0x01), (0x89, 0x05), (0x84, 0xff), (0x85, 0xff),
    (0x86, 0xff), (0x87, 0xff)]

/-! ## Vocabulary of the statements that follow a channel through the calls -/

/-- An H8/300H on which channel 0 of the 8-bit timers runs in 8-bit mode with
TCR = `tcr0`, counting from 0 towards TCORA = 10 with TCORB at 0xff, and
channel 1 has TCR = `tcr1`, TCORA = 5 and TCORB at 0xff; a channel whose TCR
is 0 is stopped. -/
def timer8_match_state (tcr0 tcr1 : Nat) : Sim :=
  h8300h_with [(0x80, tcr0), (0x84, 10), (0x86, 0xff), (0x81, tcr1), (0x85, 5), (0x87, 0xff)]

/-- The calls of `h8300h_timer16` one after the other, one for every
elapsed-cycle count of the list. -/
def h8300h_timer16_calls : List Nat → Sim → Itu → Option (Sim × Itu)
  | [], st, t => some (st, t)
  | d :: ds, st, t => (h8300h_timer16 st t d).bind (fun r => h8300h_timer16_calls ds r.1 r.2)

/-- An H8/300H on which channel 0 of the 8-bit timers counts on prescaler 0
from 5, channel 0 of the 16-bit timers is started and counts on prescaler 0
from 5, and serial channel 0, connected to descriptor 5, has sent a byte and
has 1000 cycles of its frame to go. -/
def busy_state : Sim :=
  set_tx_end_time (init_regs (sci_state 0x20 0x41 0x80 0x80 [])
    [(0x80, 0x01), (0x84, 0xff), (0x86, 0xff), (0x88, 5), (0x60, 0x01), (0x6b, 5),
      (0x6c, 0xff), (0x6d, 0xff), (0x6e, 0xff), (0x6f, 0xff)]) 0 1000

end H8

namespace Rx

/-! ## Address arithmetic -/

theorem split_pt1 (a : Nat) : (split a).pt1 = a / 4194304 % 1024 := by
  have h := Nat.and_pow_two_sub_one_eq_mod (a >>> 22) 10
  simp [Nat.shiftRight_eq_div_pow] at h
  simpa [split, L1_BITS, L2_BITS, OFF_BITS, PAGE_BITS, Nat.shiftRight_eq_div_pow] using h

theorem split_pt2 (a : Nat) : (split a).pt2 = a / 4096 % 1024 := by
  have h := Nat.and_pow_two_sub_one_eq_mod (a >>> 12) 10
  simp [Nat.shiftRight_eq_div_pow] at h
  simpa [split, L1_BITS, L2_BITS, OFF_BITS, PAGE_BITS, Nat.shiftRight_eq_div_pow] using h

theorem split_pto (a : Nat) : (split a).pto = a % 4096 := by
  have h := Nat.and_pow_two_sub_one_eq_mod a 12
  simp at h
  simpa [split, L1_BITS, L2_BITS, OFF_BITS, PAGE_BITS] using h

theorem split_eq_iff (a b : Nat) :
    split a = split b ↔ a % 4294967296 = b % 4294967296 := by
  constructor
  · intro h
    have h1 := congrArg mem_ptr.pt1 h
    have h2 := congrArg mem_ptr.pt2 h
    have h3 := congrArg mem_ptr.pto h
    rw [split_pt1, split_pt1] at h1
    rw [split_pt2, split_pt2] at h2
    rw [split_pto, split_pto] at h3
    omega
  · intro h
    have e : ∀ x y : mem_ptr, x.pt1 = y.pt1 → x.pt2 = y.pt2 → x.pto = y.pto → x = y := by
      intro x y h1 h2 h3
      cases x; cases y; simp_all
    apply e
    · rw [split_pt1, split_pt1]; omega
    · rw [split_pt2, split_pt2]; omega
    · rw [split_pto, split_pto]; omega

theorem split_mod (a : Nat) : split (a % 4294967296) = split a := by
  rw [split_eq_iff]; omega

theorem uint32_lt (x : Int) : uint32 x < 4294967296 := by
  unfold uint32; omega

theorem uint32_mod (x : Int) : uint32 x % 4294967296 = uint32 x :=
  Nat.mod_eq_of_lt (uint32_lt x)

/-! ## Resolution: what `rx_mem_ptr` returns and what it leaves behind -/

theorem page_at_install (st : Mem) (p1 p2 : Nat) (pg : Page) (q1 q2 : Nat) :
    page_at (install st p1 p2 (inner_table st p1) pg) q1 q2
      = if q1 = p1 ∧ q2 = p2 then some pg else page_at st q1 q2 := by
  unfold page_at install inner_table upd
  by_cases h1 : q1 = p1
  · subst h1
    by_cases h2 : q2 = p2
    · simp [h2]
    · cases h : st.pt q1 <;> simp [h, h2]
  · simp [h1]

theorem page_at_touch (st : Mem) (p1 q1 q2 : Nat) :
    page_at { st with pt := upd st.pt p1 (some (inner_table st p1)) } q1 q2
      = page_at st q1 q2 := by
  unfold page_at inner_table upd
  by_cases h1 : q1 = p1
  · subst h1
    cases h : st.pt q1 <;> simp [h]
  · simp [h1]

theorem inner_table_apply (st : Mem) (p1 p2 : Nat) :
    inner_table st p1 p2 = page_at st p1 p2 := by
  unfold inner_table page_at
  cases st.pt p1 <;> rfl

theorem rx_mem_ptr_fst (st : Mem) (a : Nat) (action : mem_ptr_action) :
    (rx_mem_ptr st a action).1 = outcome st a action := by
  unfold rx_mem_ptr outcome allocated ctype_of load_ctype execution_error
  simp only [split, inner_table_apply]
  by_cases h0 : a = 0
  · simp [h0]
  · simp only [h0, if_false]
    generalize page_at st ((a >>> (L2_BITS + OFF_BITS)) &&& ((1 <<< L1_BITS) - 1))
      ((a >>> OFF_BITS) &&& ((1 <<< L2_BITS) - 1)) = p
    cases p with
    | none => cases action <;> simp [calloc_page]
    | some pg =>
      cases action <;> simp
      · split <;> simp_all
      · split <;> simp_all

theorem rx_mem_ptr_page_at (st : Mem) (a : Nat) (action : mem_ptr_action) (q1 q2 : Nat) :
    page_at (rx_mem_ptr st a action).2 q1 q2
      = if (outcome st a action).isOk ∧ q1 = (split a).pt1 ∧ q2 = (split a).pt2
        then some (resolved_page st a action) else page_at st q1 q2 := by
  unfold rx_mem_ptr outcome resolved_page allocated ctype_of load_ctype execution_error
  simp only [split]
  by_cases h0 : a = 0
  · simp [h0, Except.isOk, Except.toBool]
  · simp only [h0, if_false]
    rw [inner_table_apply]
    generalize hp : page_at st ((a >>> (L2_BITS + OFF_BITS)) &&& ((1 <<< L1_BITS) - 1))
      ((a >>> OFF_BITS) &&& ((1 <<< L2_BITS) - 1)) = p
    cases p with
    | none =>
      cases action <;>
        simp [calloc_page, page_at_install, page_at_touch, Except.isOk, Except.toBool]
    | some pg =>
      cases action <;> simp [Except.isOk, Except.toBool]
      · split <;> simp_all [page_at_install, Except.isOk, Except.toBool]
      · split <;> simp_all [page_at_install, Except.isOk, Except.toBool]
      · simp [page_at_install]
      · simp [page_at_install]

theorem rx_mem_ptr_same_rest (st : Mem) (a : Nat) (action : mem_ptr_action) :
    same_rest st (rx_mem_ptr st a action).2 := by
  unfold rx_mem_ptr execution_error install same_rest
  simp only []
  repeat' split
  all_goals simp

theorem rx_mem_ptr_big_endian (st : Mem) (a : Nat) (action : mem_ptr_action) :
    (rx_mem_ptr st a action).2.rx_big_endian = st.rx_big_endian :=
  (rx_mem_ptr_same_rest st a action).1

theorem outcome_ok_eq (st : Mem) (a : Nat) (action : mem_ptr_action) (m : mem_ptr)
    (h : outcome st a action = .ok m) : m = split a := by
  unfold outcome at h
  split at h
  · cases h
  · split at h
    · cases h
    · split at h
      · cases h
      · split at h
        · cases h
        · cases h; rfl

theorem resolved_page_data (st : Mem) (a : Nat) (action : mem_ptr_action) (i : Nat) :
    (resolved_page st a action).data i
      = match page_at st (split a).pt1 (split a).pt2 with
        | none => 0
        | some pg => pg.data i := by
  unfold resolved_page
  cases page_at st (split a).pt1 (split a).pt2 <;> cases action <;> simp [calloc_page]

theorem resolved_page_ctype (st : Mem) (a : Nat) (action : mem_ptr_action) (i : Nat) :
    (resolved_page st a action).ctype i
      = if action = .MPA_WRITING ∧ i = (split a).pto then .MC_DATA
        else match page_at st (split a).pt1 (split a).pt2 with
          | none => .MC_UNINIT
          | some pg => pg.ctype i := by
  unfold resolved_page
  cases page_at st (split a).pt1 (split a).pt2 <;> cases action <;> simp [calloc_page, upd]

theorem mem_ptr_ext (x y : mem_ptr) (h1 : x.pt1 = y.pt1) (h2 : x.pt2 = y.pt2)
    (h3 : x.pto = y.pto) : x = y := by
  cases x; cases y; simp_all

/-- The bytes never change under `rx_mem_ptr`. -/
theorem rx_mem_ptr_byte_of (st : Mem) (a : Nat) (action : mem_ptr_action) (b : Nat) :
    byte_of (rx_mem_ptr st a action).2 b = byte_of st b := by
  unfold byte_of load_byte
  rw [rx_mem_ptr_page_at]
  by_cases h : (outcome st a action).isOk ∧ (split b).pt1 = (split a).pt1
      ∧ (split b).pt2 = (split a).pt2
  · rw [if_pos h]
    obtain ⟨_, h1, h2⟩ := h
    simp only [resolved_page_data, h1, h2]
  · rw [if_neg h]

/-- The classification changes under `rx_mem_ptr` only at the resolved byte,
and only for the writing intent, where it becomes `MC_DATA`. -/
theorem rx_mem_ptr_ctype_of (st : Mem) (a : Nat) (action : mem_ptr_action) (b : Nat) :
    ctype_of (rx_mem_ptr st a action).2 b
      = if (outcome st a action).isOk ∧ action = .MPA_WRITING ∧ split b = split a
        then .MC_DATA else ctype_of st b := by
  unfold ctype_of load_ctype
  rw [rx_mem_ptr_page_at]
  by_cases h : (outcome st a action).isOk ∧ (split b).pt1 = (split a).pt1
      ∧ (split b).pt2 = (split a).pt2
  · rw [if_pos h]
    obtain ⟨hok, h1, h2⟩ := h
    simp only [resolved_page_ctype, h1, h2]
    by_cases h3 : (split b).pto = (split a).pto
    · have hs : split b = split a := mem_ptr_ext _ _ h1 h2 h3
      simp [hok, hs]
    · have hs : ¬ split b = split a := fun e => h3 (by rw [e])
      simp [h3, hs]
  · rw [if_neg h]
    have hs : ¬ ((outcome st a action).isOk ∧ action = .MPA_WRITING ∧ split b = split a) := by
      rintro ⟨hok, _, e⟩
      exact h ⟨hok, by rw [e], by rw [e]⟩
    rw [if_neg hs]

theorem rx_mem_ptr_allocated (st : Mem) (a : Nat) (action : mem_ptr_action) (b : Nat) :
    allocated (rx_mem_ptr st a action).2 b
      = (allocated st b ||
          ((outcome st a action).isOk && decide ((split b).pt1 = (split a).pt1)
            && decide ((split b).pt2 = (split a).pt2))) := by
  unfold allocated
  rw [rx_mem_ptr_page_at]
  by_cases hok : (outcome st a action).isOk = true <;>
    by_cases h1 : (split b).pt1 = (split a).pt1 <;>
    by_cases h2 : (split b).pt2 = (split a).pt2 <;> simp [hok, h1, h2]

/-! ## Single-byte stores and loads -/

theorem page_at_store_byte (st : Mem) (m : mem_ptr) (i value : Nat) (q1 q2 : Nat) :
    page_at (store_byte st m i value) q1 q2
      = if q1 = m.pt1 ∧ q2 = m.pt2 then
          (page_at st q1 q2).map fun pg => { pg with data := upd pg.data (m.pto + i) value }
        else page_at st q1 q2 := by
  unfold store_byte
  cases hp : page_at st m.pt1 m.pt2 with
  | none =>
    by_cases h : q1 = m.pt1 ∧ q2 = m.pt2
    · obtain ⟨e1, e2⟩ := h
      simp [e1, e2, hp]
    · simp [h]
  | some pg =>
    simp only []
    rw [page_at_install]
    by_cases h : q1 = m.pt1 ∧ q2 = m.pt2
    · obtain ⟨e1, e2⟩ := h
      simp [e1, e2, hp]
    · simp [h]

theorem page_at_store_ctype (st : Mem) (m : mem_ptr) (type : mem_content_type) (q1 q2 : Nat) :
    page_at (store_ctype st m type) q1 q2
      = if q1 = m.pt1 ∧ q2 = m.pt2 then
          (page_at st q1 q2).map fun pg => { pg with ctype := upd pg.ctype m.pto type }
        else page_at st q1 q2 := by
  unfold store_ctype
  cases hp : page_at st m.pt1 m.pt2 with
  | none =>
    by_cases h : q1 = m.pt1 ∧ q2 = m.pt2
    · obtain ⟨e1, e2⟩ := h
      simp [e1, e2, hp]
    · simp [h]
  | some pg =>
    simp only []
    rw [page_at_install]
    by_cases h : q1 = m.pt1 ∧ q2 = m.pt2
    · obtain ⟨e1, e2⟩ := h
      simp [e1, e2, hp]
    · simp [h]

theorem store_byte_same_rest (st : Mem) (m : mem_ptr) (i value : Nat) :
    same_rest st (store_byte st m i value) := by
  unfold store_byte install same_rest
  repeat' split
  all_goals simp

theorem store_ctype_same_rest (st : Mem) (m : mem_ptr) (type : mem_content_type) :
    same_rest st (store_ctype st m type) := by
  unfold store_ctype install same_rest
  repeat' split
  all_goals simp

theorem byte_of_store_byte (st : Mem) (a value b : Nat) :
    byte_of (store_byte st (split a) 0 value) b
      = if split b = split a ∧ allocated st a then value else byte_of st b := by
  unfold byte_of load_byte allocated
  rw [page_at_store_byte]
  by_cases h : (split b).pt1 = (split a).pt1 ∧ (split b).pt2 = (split a).pt2
  · rw [if_pos h]
    obtain ⟨h1, h2⟩ := h
    rw [h1, h2]
    by_cases h3 : (split b).pto = (split a).pto
    · have hs : split b = split a := mem_ptr_ext _ _ h1 h2 h3
      cases hp : page_at st (split a).pt1 (split a).pt2 <;> simp [hs, upd]
    · have hs : ¬ split b = split a := fun e => h3 (by rw [e])
      cases hp : page_at st (split a).pt1 (split a).pt2 <;> simp [hs, upd, h3]
  · rw [if_neg h]
    have hs : ¬ split b = split a := fun e => h ⟨by rw [e], by rw [e]⟩
    simp [hs]

theorem ctype_of_store_byte (st : Mem) (m : mem_ptr) (i value b : Nat) :
    ctype_of (store_byte st m i value) b = ctype_of st b := by
  unfold ctype_of load_ctype
  rw [page_at_store_byte]
  by_cases h : (split b).pt1 = m.pt1 ∧ (split b).pt2 = m.pt2
  · rw [if_pos h]
    cases hp : page_at st (split b).pt1 (split b).pt2 <;> simp
  · rw [if_neg h]

theorem allocated_store_byte (st : Mem) (m : mem_ptr) (i value b : Nat) :
    allocated (store_byte st m i value) b = allocated st b := by
  unfold allocated
  rw [page_at_store_byte]
  by_cases h : (split b).pt1 = m.pt1 ∧ (split b).pt2 = m.pt2
  · rw [if_pos h]
    cases hp : page_at st (split b).pt1 (split b).pt2 <;> simp
  · rw [if_neg h]

theorem byte_of_store_ctype (st : Mem) (m : mem_ptr) (type : mem_content_type) (b : Nat) :
    byte_of (store_ctype st m type) b = byte_of st b := by
  unfold byte_of load_byte
  rw [page_at_store_ctype]
  by_cases h : (split b).pt1 = m.pt1 ∧ (split b).pt2 = m.pt2
  · rw [if_pos h]
    cases hp : page_at st (split b).pt1 (split b).pt2 <;> simp
  · rw [if_neg h]

theorem ctype_of_store_ctype (st : Mem) (a : Nat) (type : mem_content_type) (b : Nat) :
    ctype_of (store_ctype st (split a) type) b
      = if split b = split a ∧ allocated st a then type else ctype_of st b := by
  unfold ctype_of load_ctype allocated
  rw [page_at_store_ctype]
  by_cases h : (split b).pt1 = (split a).pt1 ∧ (split b).pt2 = (split a).pt2
  · rw [if_pos h]
    obtain ⟨h1, h2⟩ := h
    rw [h1, h2]
    by_cases h3 : (split b).pto = (split a).pto
    · have hs : split b = split a := mem_ptr_ext _ _ h1 h2 h3
      cases hp : page_at st (split a).pt1 (split a).pt2 <;> simp [hs, upd]
    · have hs : ¬ split b = split a := fun e => h3 (by rw [e])
      cases hp : page_at st (split a).pt1 (split a).pt2 <;> simp [hs, upd, h3]
  · rw [if_neg h]
    have hs : ¬ split b = split a := fun e => h ⟨by rw [e], by rw [e]⟩
    simp [hs]

/-- The statements that only touch counters, the log or the access flags leave
the page tables alone. -/
theorem set_rw_flag_pt (st : Mem) (a flag : Nat) : (set_rw_flag st a flag).pt = st.pt := by
  unfold set_rw_flag; split <;> rfl

theorem COUNT_pt (st : Mem) (i j : Nat) : (COUNT st i j).pt = st.pt := by
  unfold COUNT; split <;> rfl

theorem add_memlog_pt (w : Nat) (st : Mem) (mpc addr : Nat) (t : mem_access_type) (d : Nat) :
    (add_memlog w st mpc addr t d).pt = st.pt := by
  unfold add_memlog
  simp only []
  split <;> split <;> rfl

theorem set_rw_flag_big_endian (st : Mem) (a flag : Nat) :
    (set_rw_flag st a flag).rx_big_endian = st.rx_big_endian := by
  unfold set_rw_flag; split <;> rfl

theorem COUNT_big_endian (st : Mem) (i j : Nat) :
    (COUNT st i j).rx_big_endian = st.rx_big_endian := by
  unfold COUNT; split <;> rfl

theorem add_memlog_big_endian (w : Nat) (st : Mem) (mpc addr : Nat) (t : mem_access_type)
    (d : Nat) : (add_memlog w st mpc addr t d).rx_big_endian = st.rx_big_endian := by
  unfold add_memlog
  simp only []
  split <;> split <;> rfl

theorem page_at_congr (st st' : Mem) (h : st'.pt = st.pt) (q1 q2 : Nat) :
    page_at st' q1 q2 = page_at st q1 q2 := by
  unfold page_at; rw [h]

theorem byte_of_congr (st st' : Mem) (h : st'.pt = st.pt) (b : Nat) :
    byte_of st' b = byte_of st b := by
  unfold byte_of load_byte; rw [page_at_congr st st' h]

theorem ctype_of_congr (st st' : Mem) (h : st'.pt = st.pt) (b : Nat) :
    ctype_of st' b = ctype_of st b := by
  unfold ctype_of load_ctype; rw [page_at_congr st st' h]

theorem allocated_congr (st st' : Mem) (h : st'.pt = st.pt) (b : Nat) :
    allocated st' b = allocated st b := by
  unfold allocated; rw [page_at_congr st st' h]

theorem ctype_of_unallocated (st : Mem) (a : Nat) (h : allocated st a = false) :
    ctype_of st a = .MC_UNINIT := by
  unfold allocated at h
  unfold ctype_of load_ctype
  cases hp : page_at st (split a).pt1 (split a).pt2 with
  | none => rfl
  | some pg => rw [hp] at h; simp at h

theorem byte_of_unallocated (st : Mem) (a : Nat) (h : allocated st a = false) :
    byte_of st a = 0 := by
  unfold allocated at h
  unfold byte_of load_byte
  cases hp : page_at st (split a).pt1 (split a).pt2 with
  | none => rfl
  | some pg => rw [hp] at h; simp at h

theorem outcome_writing (st : Mem) (a : Nat) :
    outcome st a .MPA_WRITING
      = if a = 0 then .error (.execution_error .SIM_ERR_NULL_POINTER_DEREFERENCE 0)
        else if ctype_of st a = .MC_PUSHED_PC then
          .error (.execution_error .SIM_ERR_CORRUPT_STACK a)
        else .ok (split a) := by
  unfold outcome
  simp

theorem outcome_reading (st : Mem) (a : Nat) :
    outcome st a .MPA_READING
      = if a = 0 then .error (.execution_error .SIM_ERR_NULL_POINTER_DEREFERENCE 0)
        else if allocated st a = false then
          .error (.execution_error .SIM_ERR_READ_UNWRITTEN_PAGES a)
        else if ctype_of st a = .MC_UNINIT then
          .error (.execution_error .SIM_ERR_READ_UNWRITTEN_BYTES a)
        else .ok (split a) := by
  unfold outcome
  simp

theorem outcome_other (st : Mem) (a : Nat) (action : mem_ptr_action)
    (h1 : action ≠ .MPA_WRITING) (h2 : action ≠ .MPA_READING) :
    outcome st a action
      = if a = 0 then .error (.execution_error .SIM_ERR_NULL_POINTER_DEREFERENCE 0)
        else .ok (split a) := by
  unfold outcome
  simp [h1, h2]

theorem mem_put_byte_eq (st : Mem) (a value : Nat) :
    mem_put_byte st a value
      = match outcome st a .MPA_WRITING with
        | .error e => (.error e, (rx_mem_ptr st a .MPA_WRITING).2)
        | .ok _ =>
          if is_reserved_address a then
            (.error .access_exception, (rx_mem_ptr st a .MPA_WRITING).2)
          else
            (.ok (), set_rw_flag (store_byte (rx_mem_ptr st a .MPA_WRITING).2 (split a) 0 value)
              a mem_w) := by
  have h1 := rx_mem_ptr_fst st a .MPA_WRITING
  unfold mem_put_byte generate_access_exception
  cases h : rx_mem_ptr st a .MPA_WRITING with
  | mk r st1 =>
    rw [h] at h1
    simp only at h1
    rw [← h1]
    cases r with
    | error e => rfl
    | ok m =>
      have hm : m = split a := outcome_ok_eq st a _ m h1.symm
      subst hm
      rfl

theorem mem_get_byte_eq (st : Mem) (a : Nat) :
    mem_get_byte st a
      = match outcome st a .MPA_READING with
        | .error e => (.error e, (rx_mem_ptr st a .MPA_READING).2)
        | .ok _ =>
          if is_reserved_address a then
            (.error .access_exception, (rx_mem_ptr st a .MPA_READING).2)
          else
            (.ok (byte_of st a), set_rw_flag (rx_mem_ptr st a .MPA_READING).2 a mem_r) := by
  have h1 := rx_mem_ptr_fst st a .MPA_READING
  have h2 := rx_mem_ptr_byte_of st a .MPA_READING a
  unfold mem_get_byte generate_access_exception
  cases h : rx_mem_ptr st a .MPA_READING with
  | mk r st1 =>
    rw [h] at h1 h2
    simp only at h1 h2
    rw [← h1]
    cases r with
    | error e => rfl
    | ok m =>
      have hm : m = split a := outcome_ok_eq st a _ m h1.symm
      subst hm
      simp only []
      rw [← h2]
      rfl

/-- A byte store succeeds exactly on a non-null, non-reserved address that is
not classified as a pushed return address. -/
theorem mem_put_byte_fst (st : Mem) (a value : Nat) :
    (mem_put_byte st a value).1
      = if a = 0 then .error (.execution_error .SIM_ERR_NULL_POINTER_DEREFERENCE 0)
        else if ctype_of st a = .MC_PUSHED_PC then
          .error (.execution_error .SIM_ERR_CORRUPT_STACK a)
        else if is_reserved_address a then .error .access_exception
        else .ok () := by
  rw [mem_put_byte_eq, outcome_writing]
  by_cases h0 : a = 0
  · simp [h0]
  · by_cases h1 : ctype_of st a = .MC_PUSHED_PC
    · simp [h0, h1]
    · by_cases h2 : is_reserved_address a = true
      · simp [h0, h1, h2]
      · simp [h0, h1, h2]

theorem mem_put_byte_byte_of (st : Mem) (a value b : Nat) :
    byte_of (mem_put_byte st a value).2 b
      = if (mem_put_byte st a value).1 = .ok () ∧ split b = split a then value
        else byte_of st b := by
  rw [mem_put_byte_fst, mem_put_byte_eq, outcome_writing]
  by_cases h0 : a = 0
  · simp [h0, rx_mem_ptr_byte_of]
  · by_cases h1 : ctype_of st a = .MC_PUSHED_PC
    · simp [h0, h1, rx_mem_ptr_byte_of]
    · by_cases h2 : is_reserved_address a = true
      · simp [h0, h1, h2, rx_mem_ptr_byte_of]
      · have hal : allocated (rx_mem_ptr st a .MPA_WRITING).2 a = true := by
          rw [rx_mem_ptr_allocated, outcome_writing]
          simp [h0, h1, Except.isOk, Except.toBool]
        simp only [h0, h1, h2, if_false, Bool.false_eq_true]
        rw [byte_of_congr _ _ (set_rw_flag_pt _ _ _), byte_of_store_byte, rx_mem_ptr_byte_of]
        simp [hal]

theorem mem_put_byte_ctype_of (st : Mem) (a value b : Nat) :
    ctype_of (mem_put_byte st a value).2 b
      = if a ≠ 0 ∧ ctype_of st a ≠ .MC_PUSHED_PC ∧ split b = split a then .MC_DATA
        else ctype_of st b := by
  have hc := rx_mem_ptr_ctype_of st a .MPA_WRITING b
  rw [outcome_writing] at hc
  rw [mem_put_byte_eq, outcome_writing]
  by_cases h0 : a = 0
  · simp [h0, Except.isOk, Except.toBool] at hc ⊢
    exact hc
  · by_cases h1 : ctype_of st a = .MC_PUSHED_PC
    · simp [h0, h1, Except.isOk, Except.toBool] at hc ⊢
      exact hc
    · by_cases h2 : is_reserved_address a = true
      · simp [h0, h1, h2, Except.isOk, Except.toBool] at hc ⊢
        exact hc
      · simp only [h0, h1, h2, if_false, Bool.false_eq_true]
        rw [ctype_of_congr _ _ (set_rw_flag_pt _ _ _), ctype_of_store_byte, hc]
        simp [h0, h1, Except.isOk, Except.toBool]

theorem mem_put_byte_big_endian (st : Mem) (a value : Nat) :
    (mem_put_byte st a value).2.rx_big_endian = st.rx_big_endian := by
  rw [mem_put_byte_eq]
  split
  · exact rx_mem_ptr_big_endian st a _
  · split
    · exact rx_mem_ptr_big_endian st a _
    · simp only []
      rw [set_rw_flag_big_endian, (store_byte_same_rest _ _ _ _).1]
      exact rx_mem_ptr_big_endian st a _

/-- A byte load succeeds exactly on a non-null, non-reserved address whose byte
is classified as something else than uninitialized, and yields the byte. -/
theorem mem_get_byte_fst (st : Mem) (a : Nat) :
    (mem_get_byte st a).1
      = if a = 0 then .error (.execution_error .SIM_ERR_NULL_POINTER_DEREFERENCE 0)
        else if allocated st a = false then
          .error (.execution_error .SIM_ERR_READ_UNWRITTEN_PAGES a)
        else if ctype_of st a = .MC_UNINIT then
          .error (.execution_error .SIM_ERR_READ_UNWRITTEN_BYTES a)
        else if is_reserved_address a then .error .access_exception
        else .ok (byte_of st a) := by
  rw [mem_get_byte_eq, outcome_reading]
  by_cases h0 : a = 0
  · simp [h0]
  · by_cases ha : allocated st a = false
    · simp [h0, ha]
    · by_cases h1 : ctype_of st a = .MC_UNINIT
      · simp [h0, ha, h1]
      · by_cases h2 : is_reserved_address a = true
        · simp [h0, ha, h1, h2]
        · simp [h0, ha, h1, h2]

theorem mem_get_byte_byte_of (st : Mem) (a b : Nat) :
    byte_of (mem_get_byte st a).2 b = byte_of st b := by
  rw [mem_get_byte_eq]
  split
  · exact rx_mem_ptr_byte_of st a _ b
  · split
    · exact rx_mem_ptr_byte_of st a _ b
    · simp only []
      rw [byte_of_congr _ _ (set_rw_flag_pt _ _ _)]
      exact rx_mem_ptr_byte_of st a _ b

theorem mem_get_byte_ctype_of (st : Mem) (a b : Nat) :
    ctype_of (mem_get_byte st a).2 b = ctype_of st b := by
  have hc : ctype_of (rx_mem_ptr st a .MPA_READING).2 b = ctype_of st b := by
    rw [rx_mem_ptr_ctype_of]; simp
  rw [mem_get_byte_eq]
  split
  · exact hc
  · split
    · exact hc
    · simp only []
      rw [ctype_of_congr _ _ (set_rw_flag_pt _ _ _)]
      exact hc

theorem mem_get_byte_allocated (st : Mem) (a b : Nat) :
    allocated (mem_get_byte st a).2 b = allocated st b := by
  have hc : allocated (rx_mem_ptr st a .MPA_READING).2 b = allocated st b := by
    rw [rx_mem_ptr_allocated, outcome_reading]
    by_cases h0 : a = 0
    · simp [h0, Except.isOk, Except.toBool]
    · by_cases ha : allocated st a = false
      · simp [h0, ha, Except.isOk, Except.toBool]
      · by_cases h1 : ctype_of st a = .MC_UNINIT
        · simp [h0, ha, h1, Except.isOk, Except.toBool]
        · simp only [h0, ha, h1, if_false, Except.isOk, Except.toBool, Bool.true_and]
          by_cases hp : (split b).pt1 = (split a).pt1 ∧ (split b).pt2 = (split a).pt2
          · have : allocated st b = allocated st a := by
              unfold allocated; rw [hp.1, hp.2]
            rw [this]
            simp at ha
            simp [ha]
          · by_cases hp1 : (split b).pt1 = (split a).pt1
            · have hp2 : ¬ (split b).pt2 = (split a).pt2 := fun e => hp ⟨hp1, e⟩
              simp [hp2]
            · simp [hp1]
  rw [mem_get_byte_eq]
  split
  · exact hc
  · split
    · exact hc
    · simp only []
      rw [allocated_congr _ _ (set_rw_flag_pt _ _ _)]
      exact hc

theorem mem_get_byte_big_endian (st : Mem) (a : Nat) :
    (mem_get_byte st a).2.rx_big_endian = st.rx_big_endian := by
  rw [mem_get_byte_eq]
  split
  · exact rx_mem_ptr_big_endian st a _
  · split
    · exact rx_mem_ptr_big_endian st a _
    · simp only []
      rw [set_rw_flag_big_endian]
      exact rx_mem_ptr_big_endian st a _

/-! ## Sequences of byte stores -/

theorem andThen_fst {α : Type} (r : Except Fault Unit × Mem) (k : Mem → Except Fault α × Mem) :
    (andThen r k).1 = match r.1 with
      | .error e => .error e
      | .ok _ => (k r.2).1 := by
  obtain ⟨x, s⟩ := r
  cases x <;> rfl

theorem andThen_snd {α : Type} (r : Except Fault Unit × Mem) (k : Mem → Except Fault α × Mem) :
    (andThen r k).2 = match r.1 with
      | .error _ => r.2
      | .ok _ => (k r.2).2 := by
  obtain ⟨x, s⟩ := r
  cases x <;> rfl

theorem andThen_ok {α : Type} (r : Except Fault Unit × Mem) (k : Mem → Except Fault α × Mem)
    (h : r.1 = .ok ()) : andThen r k = k r.2 := by
  obtain ⟨x, s⟩ := r
  simp only at h
  subst h
  rfl

theorem andThen_error {α : Type} (r : Except Fault Unit × Mem)
    (k : Mem → Except Fault α × Mem) (e : Fault) (h : r.1 = .error e) :
    andThen r k = (.error e, r.2) := by
  obtain ⟨x, s⟩ := r
  simp only at h
  subst h
  rfl

theorem mem_put_byte_ok (st : Mem) (a value : Nat) (h : writable st a) :
    (mem_put_byte st a value).1 = .ok () := by
  obtain ⟨h0, h1, h2⟩ := h
  rw [mem_put_byte_fst]
  simp [h0, h1, h2]

theorem mem_put_byte_writable (st : Mem) (a value b : Nat) (h : writable st b) :
    writable (mem_put_byte st a value).2 b := by
  obtain ⟨h0, h1, h2⟩ := h
  refine ⟨h0, h1, ?_⟩
  rw [mem_put_byte_ctype_of]
  split
  · simp
  · exact h2

/-- A byte store leaves every other byte and its classification as they were,
whether it goes through or not. -/
theorem mem_put_byte_frame (st : Mem) (a value b : Nat) (h : split a ≠ split b) :
    byte_of (mem_put_byte st a value).2 b = byte_of st b
    ∧ ctype_of (mem_put_byte st a value).2 b = ctype_of st b := by
  have h' : ¬ split b = split a := fun e => h e.symm
  rw [mem_put_byte_byte_of, mem_put_byte_ctype_of]
  simp [h']

theorem put_bytes_frame (l : List (Nat × Nat)) (st : Mem) (b : Nat)
    (h : ∀ p ∈ l, split p.1 ≠ split b) :
    byte_of (put_bytes st l).2 b = byte_of st b
    ∧ ctype_of (put_bytes st l).2 b = ctype_of st b := by
  induction l generalizing st with
  | nil => exact ⟨rfl, rfl⟩
  | cons p rest ih =>
    obtain ⟨a, v⟩ := p
    have ha : split a ≠ split b := h (a, v) (List.mem_cons_self _ _)
    have hrest : ∀ q ∈ rest, split q.1 ≠ split b :=
      fun q hq => h q (List.mem_cons_of_mem _ hq)
    have hf := mem_put_byte_frame st a v b ha
    unfold put_bytes
    rw [andThen_snd]
    split
    · exact hf
    · have := ih (mem_put_byte st a v).2 hrest
      rw [this.1, this.2]
      exact hf

theorem put_bytes_big_endian (l : List (Nat × Nat)) (st : Mem) :
    (put_bytes st l).2.rx_big_endian = st.rx_big_endian := by
  induction l generalizing st with
  | nil => rfl
  | cons p rest ih =>
    obtain ⟨a, v⟩ := p
    unfold put_bytes
    rw [andThen_snd]
    split
    · exact mem_put_byte_big_endian st a v
    · rw [ih]; exact mem_put_byte_big_endian st a v

/-- Stores to writable, pairwise different addresses all go through, and each
address then holds its byte and is classified as data. -/
theorem put_bytes_spec (l : List (Nat × Nat)) (st : Mem)
    (hw : ∀ p ∈ l, writable st p.1)
    (hd : l.Pairwise fun p q => split p.1 ≠ split q.1) :
    (put_bytes st l).1 = .ok ()
    ∧ ∀ p ∈ l, byte_of (put_bytes st l).2 p.1 = p.2
        ∧ ctype_of (put_bytes st l).2 p.1 = .MC_DATA := by
  induction l generalizing st with
  | nil => exact ⟨rfl, fun p hp => by cases hp⟩
  | cons p rest ih =>
    obtain ⟨a, v⟩ := p
    have hwa : writable st a := hw (a, v) (List.mem_cons_self _ _)
    have hok := mem_put_byte_ok st a v hwa
    have hrest : ∀ q ∈ rest, writable (mem_put_byte st a v).2 q.1 :=
      fun q hq => mem_put_byte_writable st a v q.1 (hw q (List.mem_cons_of_mem _ hq))
    rw [List.pairwise_cons] at hd
    obtain ⟨hda, hdr⟩ := hd
    have hi := ih (mem_put_byte st a v).2 hrest hdr
    have he : put_bytes st ((a, v) :: rest) = put_bytes (mem_put_byte st a v).2 rest := by
      show andThen _ _ = _
      rw [andThen_ok _ _ hok]
    rw [he]
    refine ⟨hi.1, ?_⟩
    intro p hp
    rw [List.mem_cons] at hp
    rcases hp with hp | hp
    · subst hp
      have hf := put_bytes_frame rest (mem_put_byte st a v).2 a
        (fun q hq => fun e => hda q hq e.symm)
      rw [hf.1, hf.2, mem_put_byte_byte_of, mem_put_byte_ctype_of]
      simp [hok, hwa.1, hwa.2.2]
    · exact hi.2 p hp

theorem put_bytes_writable (l : List (Nat × Nat)) (st : Mem) (b : Nat) (h : writable st b) :
    writable (put_bytes st l).2 b := by
  induction l generalizing st with
  | nil => exact h
  | cons p rest ih =>
    obtain ⟨a, v⟩ := p
    unfold put_bytes
    rw [andThen_snd]
    split
    · exact mem_put_byte_writable st a v b h
    · exact ih _ (mem_put_byte_writable st a v b h)

/-! ## Typed stores -/

theorem andThen_assoc {α : Type} (r : Except Fault Unit × Mem)
    (k1 : Mem → Except Fault Unit × Mem) (k2 : Mem → Except Fault α × Mem) :
    andThen (andThen r k1) k2 = andThen r fun s => andThen (k1 s) k2 := by
  obtain ⟨x, s⟩ := r
  cases x <;> rfl

theorem andThen_pure {α : Type} (s : Mem) (k : Mem → Except Fault α × Mem) :
    andThen (.ok (), s) k = k s := rfl

theorem mem_put_qi_eq (w : Nat) (st : Mem) (A : Int) (v mpc : Nat) :
    mem_put_qi w st A v mpc
      = typed_put (traced w st mpc (ulong w A) .MEM_WB (v &&& 0xff))
          [(uint32 A, uchar (v &&& 0xff))] 1 := by
  unfold mem_put_qi typed_put put_bytes put_bytes traced
  simp only [andThen_assoc, andThen_pure]

theorem mem_put_hi_eq (w : Nat) (st : Mem) (A : Int) (v mpc : Nat) :
    mem_put_hi w st A v mpc
      = typed_put (traced w st mpc (ulong w A) .MEM_WW (v &&& 0xffff))
          (hi_bytes st.rx_big_endian A v) 2 := by
  unfold mem_put_hi typed_put traced hi_bytes
  cases st.rx_big_endian <;> simp [put_bytes, andThen_assoc, andThen_pure]

theorem mem_put_psi_eq (w : Nat) (st : Mem) (A : Int) (v mpc : Nat) :
    mem_put_psi w st A v mpc
      = typed_put (traced w st mpc (ulong w A) .MEM_WQ (v &&& 0xffffff))
          (psi_bytes st.rx_big_endian A v) 3 := by
  unfold mem_put_psi typed_put traced psi_bytes
  cases st.rx_big_endian <;> simp [put_bytes, andThen_assoc, andThen_pure]

theorem mem_put_si_eq (w : Nat) (st : Mem) (A : Int) (v mpc : Nat) :
    mem_put_si w st A v mpc
      = typed_put (traced w st mpc (ulong w A) .MEM_WL (v &&& 0xffffffff))
          (si_bytes st.rx_big_endian A v) 4 := by
  unfold mem_put_si typed_put traced si_bytes
  cases st.rx_big_endian <;> simp [put_bytes, andThen_assoc, andThen_pure]

theorem traced_pt (w : Nat) (st : Mem) (mpc addr : Nat) (t : mem_access_type) (d : Nat) :
    (traced w st mpc addr t d).pt = st.pt := by
  unfold traced; split
  · exact add_memlog_pt _ _ _ _ _ _
  · rfl

theorem traced_big_endian (w : Nat) (st : Mem) (mpc addr : Nat) (t : mem_access_type)
    (d : Nat) : (traced w st mpc addr t d).rx_big_endian = st.rx_big_endian := by
  unfold traced; split
  · exact add_memlog_big_endian _ _ _ _ _ _
  · rfl

theorem writable_congr (st st' : Mem) (h : st'.pt = st.pt) (a : Nat) :
    writable st' a ↔ writable st a := by
  unfold writable; rw [ctype_of_congr st st' h]

theorem readable_congr (st st' : Mem) (h : st'.pt = st.pt) (a : Nat) :
    readable st' a ↔ readable st a := by
  unfold readable; rw [ctype_of_congr st st' h]

theorem typed_put_fst (st : Mem) (l : List (Nat × Nat)) (n : Nat) :
    (typed_put st l n).1 = (put_bytes st l).1 := by
  unfold typed_put
  rw [andThen_fst]
  cases h : (put_bytes st l).1 <;> rfl

theorem typed_put_byte_of (st : Mem) (l : List (Nat × Nat)) (n b : Nat) :
    byte_of (typed_put st l n).2 b = byte_of (put_bytes st l).2 b := by
  unfold typed_put
  rw [andThen_snd]
  split
  · rfl
  · exact byte_of_congr _ _ (COUNT_pt _ _ _) b

theorem typed_put_ctype_of (st : Mem) (l : List (Nat × Nat)) (n b : Nat) :
    ctype_of (typed_put st l n).2 b = ctype_of (put_bytes st l).2 b := by
  unfold typed_put
  rw [andThen_snd]
  split
  · rfl
  · exact ctype_of_congr _ _ (COUNT_pt _ _ _) b

theorem typed_put_big_endian (st : Mem) (l : List (Nat × Nat)) (n : Nat) :
    (typed_put st l n).2.rx_big_endian = st.rx_big_endian := by
  unfold typed_put
  rw [andThen_snd]
  split
  · exact put_bytes_big_endian l st
  · simp only []
    rw [COUNT_big_endian]
    exact put_bytes_big_endian l st

/-- A typed store, whatever its outcome, leaves the bytes it does not address
and their classification as they were. -/
theorem typed_put_frame (st0 st : Mem) (hpt : st0.pt = st.pt) (l : List (Nat × Nat))
    (n b : Nat) (h : ∀ p ∈ l, split p.1 ≠ split b) :
    byte_of (typed_put st0 l n).2 b = byte_of st b
    ∧ ctype_of (typed_put st0 l n).2 b = ctype_of st b := by
  rw [typed_put_byte_of, typed_put_ctype_of]
  have := put_bytes_frame l st0 b h
  rw [this.1, this.2]
  exact ⟨byte_of_congr _ _ hpt b, ctype_of_congr _ _ hpt b⟩

/-- A typed store to writable, pairwise different addresses goes through and
leaves each byte in place, classified as data. -/
theorem typed_put_spec (st0 st : Mem) (hpt : st0.pt = st.pt) (l : List (Nat × Nat)) (n : Nat)
    (hw : ∀ p ∈ l, writable st p.1)
    (hd : l.Pairwise fun p q => split p.1 ≠ split q.1) :
    (typed_put st0 l n).1 = .ok ()
    ∧ ∀ p ∈ l, byte_of (typed_put st0 l n).2 p.1 = p.2
        ∧ ctype_of (typed_put st0 l n).2 p.1 = .MC_DATA := by
  have hw0 : ∀ p ∈ l, writable st0 p.1 :=
    fun p hp => (writable_congr st st0 hpt p.1).2 (hw p hp)
  have hs := put_bytes_spec l st0 hw0 hd
  rw [typed_put_fst]
  refine ⟨hs.1, fun p hp => ?_⟩
  rw [typed_put_byte_of, typed_put_ctype_of]
  exact hs.2 p hp

theorem uint32_add_ne (A : Int) (i j : Nat) (hi : i < 4) (hj : j < 4) (hij : i ≠ j) :
    split (uint32 (A + i)) ≠ split (uint32 (A + j)) := by
  rw [Ne, split_eq_iff, uint32_mod, uint32_mod]
  unfold uint32
  omega

/-! ## Typed loads -/

theorem Keeps.refl (st : Mem) : Keeps st st := ⟨fun _ => ⟨rfl, rfl, rfl⟩, rfl⟩

theorem Keeps.trans {a b c : Mem} (h1 : Keeps a b) (h2 : Keeps b c) : Keeps a c := by
  refine ⟨fun x => ?_, ?_⟩
  · have p := h1.1 x
    have q := h2.1 x
    exact ⟨q.1.trans p.1, q.2.1.trans p.2.1, q.2.2.trans p.2.2⟩
  · exact h2.2.trans h1.2

theorem Keeps.of_pt {st s : Mem} (h : s.pt = st.pt) (hb : s.rx_big_endian = st.rx_big_endian) :
    Keeps st s :=
  ⟨fun b => ⟨byte_of_congr _ _ h b, ctype_of_congr _ _ h b, allocated_congr _ _ h b⟩, hb⟩

theorem readable_of_keeps {st s : Mem} (h : Keeps st s) (a : Nat) (hr : readable st a) :
    readable s a := by
  unfold readable at hr ⊢
  rw [(h.1 a).2.1]
  exact hr

theorem mem_get_byte_keeps (st : Mem) (a : Nat) : Keeps st (mem_get_byte st a).2 :=
  ⟨fun b => ⟨mem_get_byte_byte_of st a b, mem_get_byte_ctype_of st a b,
    mem_get_byte_allocated st a b⟩, mem_get_byte_big_endian st a⟩

theorem bind_fst {α β : Type} (r : Except Fault α × Mem)
    (k : α → Mem → Except Fault β × Mem) :
    (bind r k).1 = match r.1 with
      | .error e => .error e
      | .ok a => (k a r.2).1 := by
  obtain ⟨x, s⟩ := r
  cases x <;> rfl

theorem bind_ok {α β : Type} (r : Except Fault α × Mem) (k : α → Mem → Except Fault β × Mem)
    (a : α) (h : r.1 = .ok a) : bind r k = k a r.2 := by
  obtain ⟨x, s⟩ := r
  simp only at h
  subst h
  rfl

theorem bind_error {α β : Type} (r : Except Fault α × Mem)
    (k : α → Mem → Except Fault β × Mem) (e : Fault) (h : r.1 = .error e) :
    bind r k = (.error e, r.2) := by
  obtain ⟨x, s⟩ := r
  simp only at h
  subst h
  rfl

theorem bind_keeps {α β : Type} (st : Mem) (r : Except Fault α × Mem)
    (k : α → Mem → Except Fault β × Mem) (h1 : Keeps st r.2)
    (h2 : ∀ a, Keeps r.2 (k a r.2).2) : Keeps st (bind r k).2 := by
  obtain ⟨x, s⟩ := r
  cases x with
  | error e => exact h1
  | ok a => exact h1.trans (h2 a)

theorem add_memlog_keeps (w : Nat) (st : Mem) (mpc addr : Nat) (t : mem_access_type) (d : Nat) :
    Keeps st (add_memlog w st mpc addr t d) :=
  Keeps.of_pt (add_memlog_pt _ _ _ _ _ _) (add_memlog_big_endian _ _ _ _ _ _)

theorem COUNT_keeps (st : Mem) (i j : Nat) : Keeps st (COUNT st i j) :=
  Keeps.of_pt (COUNT_pt _ _ _) (COUNT_big_endian _ _ _)

theorem finish_get_keeps (w : Nat) (st : Mem) (n mpc : Nat) (A : Int) (t : mem_access_type)
    (rv : Nat) : Keeps st (finish_get w st n mpc A t rv).2 := by
  unfold finish_get
  simp only []
  split
  · exact (COUNT_keeps st 0 n).trans (add_memlog_keeps _ _ _ _ _ _)
  · exact COUNT_keeps st 0 n

theorem finish_get_fst (w : Nat) (st : Mem) (n mpc : Nat) (A : Int) (t : mem_access_type)
    (rv : Nat) : (finish_get w st n mpc A t rv).1 = .ok rv := rfl

/-- Typed loads leave the bytes, the classifications and the allocated pages
as they were, whatever their outcome. -/
theorem mem_get_qi_keeps (w : Nat) (st : Mem) (A : Int) (mpc : Nat) :
    Keeps st (mem_get_qi w st A mpc).2 := by
  unfold mem_get_qi
  exact bind_keeps st _ _ (mem_get_byte_keeps _ _) fun _ => finish_get_keeps _ _ _ _ _ _ _

theorem mem_get_hi_keeps (w : Nat) (st : Mem) (A : Int) (mpc : Nat) :
    Keeps st (mem_get_hi w st A mpc).2 := by
  unfold mem_get_hi
  split <;>
  exact bind_keeps st _ _ (mem_get_byte_keeps _ _) fun _ =>
    bind_keeps _ _ _ (mem_get_byte_keeps _ _) fun _ => finish_get_keeps _ _ _ _ _ _ _

theorem mem_get_psi_keeps (w : Nat) (st : Mem) (A : Int) (mpc : Nat) :
    Keeps st (mem_get_psi w st A mpc).2 := by
  unfold mem_get_psi
  split <;>
  exact bind_keeps st _ _ (mem_get_byte_keeps _ _) fun _ =>
    bind_keeps _ _ _ (mem_get_byte_keeps _ _) fun _ =>
    bind_keeps _ _ _ (mem_get_byte_keeps _ _) fun _ => finish_get_keeps _ _ _ _ _ _ _

theorem mem_get_si_keeps (w : Nat) (st : Mem) (A : Int) (mpc : Nat) :
    Keeps st (mem_get_si w st A mpc).2 := by
  unfold mem_get_si
  split <;>
  exact bind_keeps st _ _ (mem_get_byte_keeps _ _) fun _ =>
    bind_keeps _ _ _ (mem_get_byte_keeps _ _) fun _ =>
    bind_keeps _ _ _ (mem_get_byte_keeps _ _) fun _ =>
    bind_keeps _ _ _ (mem_get_byte_keeps _ _) fun _ => finish_get_keeps _ _ _ _ _ _ _

theorem ctype_ne_uninit_allocated (st : Mem) (a : Nat) (h : ctype_of st a ≠ .MC_UNINIT) :
    allocated st a = true := by
  cases ha : allocated st a with
  | true => rfl
  | false => exact absurd (ctype_of_unallocated st a ha) h

theorem mem_get_byte_ok (st : Mem) (a : Nat) (h : readable st a) :
    (mem_get_byte st a).1 = .ok (byte_of st a) := by
  obtain ⟨h0, h1, h2⟩ := h
  rw [mem_get_byte_fst]
  simp [h0, h1, h2, ctype_ne_uninit_allocated st a h2]

/-- A readable byte read in a state that keeps `st`: the load goes through, with
the byte of `st`, and the state after still keeps `st`. -/
theorem bind_get_byte {β : Type} (st s : Mem) (hk : Keeps st s) (a : Nat)
    (hr : readable st a) (k : Nat → Mem → Except Fault β × Mem) :
    bind (mem_get_byte s a) k = k (byte_of st a) (mem_get_byte s a).2
    ∧ Keeps st (mem_get_byte s a).2 := by
  have h := mem_get_byte_ok s a (readable_of_keeps hk a hr)
  rw [(hk.1 a).1] at h
  exact ⟨bind_ok _ _ _ h, hk.trans (mem_get_byte_keeps s a)⟩

theorem mem_get_qi_fst (w : Nat) (st : Mem) (A : Int) (mpc : Nat) :
    (mem_get_qi w st A mpc).1 = (mem_get_byte st (uint32 A)).1 := by
  unfold mem_get_qi
  rw [bind_fst]
  cases h : (mem_get_byte st (uint32 A)).1 <;> rfl

theorem mem_get_si_ok (w : Nat) (st : Mem) (A : Int) (mpc : Nat)
    (h0 : readable st (uint32 A)) (h1 : readable st (uint32 (A + 1)))
    (h2 : readable st (uint32 (A + 2))) (h3 : readable st (uint32 (A + 3))) :
    (mem_get_si w st A mpc).1
      = .ok (si_value w st.rx_big_endian (byte_of st (uint32 A)) (byte_of st (uint32 (A + 1)))
          (byte_of st (uint32 (A + 2))) (byte_of st (uint32 (A + 3)))) := by
  unfold mem_get_si si_value
  cases hbe : st.rx_big_endian
  · simp only [Bool.false_eq_true, if_false]
    obtain ⟨e0, k0⟩ := bind_get_byte st st (Keeps.refl st) _ h0
      (fun b0 st1 =>
        bind (mem_get_byte st1 (uint32 (A + 1))) fun b1 st2 =>
        bind (mem_get_byte st2 (uint32 (A + 2))) fun b2 st3 =>
        bind (mem_get_byte st3 (uint32 (A + 3))) fun b3 st4 =>
        finish_get w st4 4 mpc A .MEM_RL
          (ulong w b0 ||| ulong w (shl_int b1 8) ||| ulong w (shl_int b2 16)
            ||| ulong w (shl_int b3 24)))
    rw [e0]
    obtain ⟨e1, k1⟩ := bind_get_byte st _ k0 _ h1
      (fun b1 st2 =>
        bind (mem_get_byte st2 (uint32 (A + 2))) fun b2 st3 =>
        bind (mem_get_byte st3 (uint32 (A + 3))) fun b3 st4 =>
        finish_get w st4 4 mpc A .MEM_RL
          (ulong w (byte_of st (uint32 A)) ||| ulong w (shl_int b1 8) ||| ulong w (shl_int b2 16)
            ||| ulong w (shl_int b3 24)))
    rw [e1]
    obtain ⟨e2, k2⟩ := bind_get_byte st _ k1 _ h2
      (fun b2 st3 =>
        bind (mem_get_byte st3 (uint32 (A + 3))) fun b3 st4 =>
        finish_get w st4 4 mpc A .MEM_RL
          (ulong w (byte_of st (uint32 A)) ||| ulong w (shl_int (byte_of st (uint32 (A + 1))) 8)
            ||| ulong w (shl_int b2 16) ||| ulong w (shl_int b3 24)))
    rw [e2]
    obtain ⟨e3, _⟩ := bind_get_byte st _ k2 _ h3
      (fun b3 st4 =>
        finish_get w st4 4 mpc A .MEM_RL
          (ulong w (byte_of st (uint32 A)) ||| ulong w (shl_int (byte_of st (uint32 (A + 1))) 8)
            ||| ulong w (shl_int (byte_of st (uint32 (A + 2))) 16) ||| ulong w (shl_int b3 24)))
    rw [e3]
    rfl
  · simp only [if_true]
    obtain ⟨e0, k0⟩ := bind_get_byte st st (Keeps.refl st) _ h3
      (fun b3 st1 =>
        bind (mem_get_byte st1 (uint32 (A + 2))) fun b2 st2 =>
        bind (mem_get_byte st2 (uint32 (A + 1))) fun b1 st3 =>
        bind (mem_get_byte st3 (uint32 A)) fun b0 st4 =>
        finish_get w st4 4 mpc A .MEM_RL
          (ulong w b3 ||| ulong w (shl_int b2 8) ||| ulong w (shl_int b1 16)
            ||| ulong w (shl_int b0 24)))
    rw [e0]
    obtain ⟨e1, k1⟩ := bind_get_byte st _ k0 _ h2
      (fun b2 st2 =>
        bind (mem_get_byte st2 (uint32 (A + 1))) fun b1 st3 =>
        bind (mem_get_byte st3 (uint32 A)) fun b0 st4 =>
        finish_get w st4 4 mpc A .MEM_RL
          (ulong w (byte_of st (uint32 (A + 3))) ||| ulong w (shl_int b2 8)
            ||| ulong w (shl_int b1 16) ||| ulong w (shl_int b0 24)))
    rw [e1]
    obtain ⟨e2, k2⟩ := bind_get_byte st _ k1 _ h1
      (fun b1 st3 =>
        bind (mem_get_byte st3 (uint32 A)) fun b0 st4 =>
        finish_get w st4 4 mpc A .MEM_RL
          (ulong w (byte_of st (uint32 (A + 3))) ||| ulong w (shl_int (byte_of st (uint32 (A + 2))) 8)
            ||| ulong w (shl_int b1 16) ||| ulong w (shl_int b0 24)))
    rw [e2]
    obtain ⟨e3, _⟩ := bind_get_byte st _ k2 _ h0
      (fun b0 st4 =>
        finish_get w st4 4 mpc A .MEM_RL
          (ulong w (byte_of st (uint32 (A + 3))) ||| ulong w (shl_int (byte_of st (uint32 (A + 2))) 8)
            ||| ulong w (shl_int (byte_of st (uint32 (A + 1))) 16) ||| ulong w (shl_int b0 24)))
    rw [e3]
    rfl

/-! ## Faults of address resolution and of the byte accessors -/

theorem put_bytes_pushed (st : Mem) (a v : Nat) (rest : List (Nat × Nat)) (h0 : a ≠ 0)
    (hp : ctype_of st a = .MC_PUSHED_PC) :
    (put_bytes st ((a, v) :: rest)).1 = .error (.execution_error .SIM_ERR_CORRUPT_STACK a)
    ∧ unchanged st (put_bytes st ((a, v) :: rest)).2 := by
  have h1 : (mem_put_byte st a v).1 = .error (.execution_error .SIM_ERR_CORRUPT_STACK a) := by
    rw [mem_put_byte_fst]; simp [h0, hp]
  have he : put_bytes st ((a, v) :: rest)
      = (.error (.execution_error .SIM_ERR_CORRUPT_STACK a), (mem_put_byte st a v).2) := by
    show andThen _ _ = _
    exact andThen_error _ _ _ h1
  rw [he]
  refine ⟨rfl, fun b => ?_⟩
  simp only []
  rw [mem_put_byte_byte_of, mem_put_byte_ctype_of]
  simp [h1, hp]

theorem typed_put_pushed (st0 st : Mem) (hpt : st0.pt = st.pt) (a v : Nat)
    (rest : List (Nat × Nat)) (n : Nat) (h0 : a ≠ 0) (hp : ctype_of st a = .MC_PUSHED_PC) :
    (typed_put st0 ((a, v) :: rest) n).1 = .error (.execution_error .SIM_ERR_CORRUPT_STACK a)
    ∧ unchanged st (typed_put st0 ((a, v) :: rest) n).2 := by
  have hp0 : ctype_of st0 a = .MC_PUSHED_PC := by rw [ctype_of_congr st st0 hpt]; exact hp
  have h := put_bytes_pushed st0 a v rest h0 hp0
  rw [typed_put_fst]
  refine ⟨h.1, fun b => ?_⟩
  rw [typed_put_byte_of, typed_put_ctype_of, (h.2 b).1, (h.2 b).2]
  exact ⟨byte_of_congr _ _ hpt b, ctype_of_congr _ _ hpt b⟩

theorem mem_put_blk_loop_eq (buf : List Nat) (st : Mem) (A : Int) :
    mem_put_blk_loop st A buf = put_bytes st (blk_pairs A buf) := by
  induction buf generalizing st A with
  | nil => rfl
  | cons b bs ih =>
    show andThen _ _ = andThen _ _
    congr 1
    funext st1
    exact ih st1 (A + 1)

theorem mem_put_blk_pushed (st : Mem) (A : Int) (b : Nat) (bs : List Nat)
    (h0 : uint32 A ≠ 0) (hp : ctype_of st (uint32 A) = .MC_PUSHED_PC) :
    (mem_put_blk st A (b :: bs)).1 = .error (.execution_error .SIM_ERR_CORRUPT_STACK (uint32 A))
    ∧ unchanged st (mem_put_blk st A (b :: bs)).2 := by
  have key : ∀ st0 : Mem, st0.pt = st.pt →
      (mem_put_blk_loop st0 A (b :: bs)).1
        = .error (.execution_error .SIM_ERR_CORRUPT_STACK (uint32 A))
      ∧ unchanged st (mem_put_blk_loop st0 A (b :: bs)).2 := by
    intro st0 hpt
    have hp0 : ctype_of st0 (uint32 A) = .MC_PUSHED_PC := by
      rw [ctype_of_congr st st0 hpt]; exact hp
    rw [mem_put_blk_loop_eq]
    have h := put_bytes_pushed st0 (uint32 A) (uchar b) (blk_pairs (A + 1) bs) h0 hp0
    refine ⟨h.1, fun x => ?_⟩
    have hx := h.2 x
    show byte_of (put_bytes st0 ((uint32 A, uchar b) :: blk_pairs (A + 1) bs)).2 x = _
      ∧ ctype_of (put_bytes st0 ((uint32 A, uchar b) :: blk_pairs (A + 1) bs)).2 x = _
    rw [hx.1, hx.2]
    exact ⟨byte_of_congr _ _ hpt x, ctype_of_congr _ _ hpt x⟩
  unfold mem_put_blk
  simp only []
  split
  · exact key _ rfl
  · exact key st rfl

/-- C5: a store to a byte classified as a pushed return address fails with
`CorruptedStack` (`SIM_ERR_CORRUPT_STACK`), in `rx_mem_ptr` with the writing
intent and so in `mem_put_byte` and in every `mem_put_*` (`qi`, `hi`, `psi`,
`si`, `blk`) whose first byte it is, and every stored byte and every
classification is left as it was. -/
theorem store_to_pushed_pc_fails (w : Nat) (st : Mem) (A : Int) (v mpc : Nat)
    (h0 : uint32 A ≠ 0) (hp : ctype_of st (uint32 A) = .MC_PUSHED_PC) :
    ((rx_mem_ptr st (uint32 A) .MPA_WRITING).1
        = .error (.execution_error .SIM_ERR_CORRUPT_STACK (uint32 A))
      ∧ unchanged st (rx_mem_ptr st (uint32 A) .MPA_WRITING).2)
    ∧ ((mem_put_byte st (uint32 A) v).1
        = .error (.execution_error .SIM_ERR_CORRUPT_STACK (uint32 A))
      ∧ unchanged st (mem_put_byte st (uint32 A) v).2)
    ∧ ((mem_put_qi w st A v mpc).1 = .error (.execution_error .SIM_ERR_CORRUPT_STACK (uint32 A))
      ∧ unchanged st (mem_put_qi w st A v mpc).2)
    ∧ ((mem_put_hi w st A v mpc).1 = .error (.execution_error .SIM_ERR_CORRUPT_STACK (uint32 A))
      ∧ unchanged st (mem_put_hi w st A v mpc).2)
    ∧ ((mem_put_psi w st A v mpc).1 = .error (.execution_error .SIM_ERR_CORRUPT_STACK (uint32 A))
      ∧ unchanged st (mem_put_psi w st A v mpc).2)
    ∧ ((mem_put_si w st A v mpc).1 = .error (.execution_error .SIM_ERR_CORRUPT_STACK (uint32 A))
      ∧ unchanged st (mem_put_si w st A v mpc).2)
    ∧ (∀ (b : Nat) (bs : List Nat),
        (mem_put_blk st A (b :: bs)).1
          = .error (.execution_error .SIM_ERR_CORRUPT_STACK (uint32 A))
        ∧ unchanged st (mem_put_blk st A (b :: bs)).2)
    ∧ Fault.isCorruptedStack (.execution_error .SIM_ERR_CORRUPT_STACK (uint32 A)) = true := by
  refine ⟨⟨?_, fun b => ⟨rx_mem_ptr_byte_of _ _ _ _, ?_⟩⟩, ⟨?_, fun b => ?_⟩, ?_, ?_, ?_, ?_,
    fun b bs => mem_put_blk_pushed st A b bs h0 hp, rfl⟩
  · rw [rx_mem_ptr_fst, outcome_writing]; simp [h0, hp]
  · rw [rx_mem_ptr_ctype_of, outcome_writing]; simp [h0, hp, Except.isOk, Except.toBool]
  · rw [mem_put_byte_fst]; simp [h0, hp]
  · rw [mem_put_byte_byte_of, mem_put_byte_ctype_of, mem_put_byte_fst]; simp [h0, hp]
  · rw [mem_put_qi_eq]
    exact typed_put_pushed _ st (traced_pt _ _ _ _ _ _) _ _ _ _ h0 hp
  · rw [mem_put_hi_eq]
    unfold hi_bytes
    split <;> exact typed_put_pushed _ st (traced_pt _ _ _ _ _ _) _ _ _ _ h0 hp
  · rw [mem_put_psi_eq]
    unfold psi_bytes
    split <;> exact typed_put_pushed _ st (traced_pt _ _ _ _ _ _) _ _ _ _ h0 hp
  · rw [mem_put_si_eq]
    unfold si_bytes
    simp only [Int.add_zero]
    split <;> exact typed_put_pushed _ st (traced_pt _ _ _ _ _ _) _ _ _ _ h0 hp

set_option maxRecDepth 100000 in
theorem store_to_pushed_pc_fails_witness :
    uint32 0x1000 ≠ 0 ∧ ctype_of pushed_state (uint32 0x1000) = .MC_PUSHED_PC
    ∧ (mem_put_qi 64 pushed_state 0x1000 0x5a 0).1
        = .error (.execution_error .SIM_ERR_CORRUPT_STACK (uint32 0x1000)) :=
  ⟨by decide, by decide,
    (store_to_pushed_pc_fails 64 pushed_state 0x1000 0x5a 0 (by decide) (by decide)).2.2.1.1⟩

/-- C6: a byte store to a non-null, non-reserved address whose classification is
data or uninitialized (which includes every address of a page that was never
allocated) succeeds, and the classification of that byte is data afterwards;
so for `mem_put_byte` and for `mem_put_qi`. -/
theorem store_sets_data (w : Nat) (st : Mem) (A : Int) (v mpc : Nat)
    (h0 : uint32 A ≠ 0) (hr : is_reserved_address (uint32 A) = false)
    (hc : ctype_of st (uint32 A) = .MC_DATA ∨ ctype_of st (uint32 A) = .MC_UNINIT) :
    ((mem_put_byte st (uint32 A) v).1 = .ok ()
      ∧ ctype_of (mem_put_byte st (uint32 A) v).2 (uint32 A) = .MC_DATA)
    ∧ ((mem_put_qi w st A v mpc).1 = .ok ()
      ∧ ctype_of (mem_put_qi w st A v mpc).2 (uint32 A) = .MC_DATA) := by
  have hw : writable st (uint32 A) := by
    refine ⟨h0, hr, ?_⟩
    rcases hc with hc | hc <;> rw [hc] <;> simp
  refine ⟨⟨mem_put_byte_ok st _ v hw, ?_⟩, ?_⟩
  · rw [mem_put_byte_ctype_of]; simp [h0, hw.2.2]
  · rw [mem_put_qi_eq]
    have h := typed_put_spec _ st (traced_pt w st mpc (ulong w A) .MEM_WB (v &&& 0xff))
      [(uint32 A, uchar (v &&& 0xff))] 1 (by simpa using hw) (by simp)
    exact ⟨h.1, (h.2 (uint32 A, uchar (v &&& 0xff)) (List.mem_singleton.2 rfl)).2⟩

set_option maxRecDepth 100000 in
theorem store_sets_data_witness :
    allocated Mem.zero (uint32 0x1000) = false
    ∧ (mem_put_qi 64 Mem.zero 0x1000 0x5a 0).1 = .ok ()
    ∧ ctype_of (mem_put_qi 64 Mem.zero 0x1000 0x5a 0).2 (uint32 0x1000) = .MC_DATA :=
  ⟨by decide,
    (store_sets_data 64 Mem.zero 0x1000 0x5a 0 (by decide) (by decide)
      (Or.inr (by decide))).2⟩

/-- C7: whatever the intent, resolving address 0 fails with `NullPointerAccess`
(`SIM_ERR_NULL_POINTER_DEREFERENCE`), and nothing is changed. -/
theorem null_pointer_access (st : Mem) (action : mem_ptr_action) :
    rx_mem_ptr st 0 action
      = (.error (.execution_error .SIM_ERR_NULL_POINTER_DEREFERENCE 0), st)
    ∧ Fault.isNullPointerAccess (.execution_error .SIM_ERR_NULL_POINTER_DEREFERENCE 0) = true := by
  refine ⟨?_, rfl⟩
  unfold rx_mem_ptr execution_error
  simp

/-- C8, as the claim states it, fails: a byte load from the reserved address
0x20000 whose page was never allocated fails with `SIM_ERR_READ_UNWRITTEN_PAGES`,
and a byte store to it while it is classified as a pushed return address fails
with `SIM_ERR_CORRUPT_STACK`; neither is the access exception. -/
theorem reserved_not_always_access_violation :
    is_reserved_address 0x20000 = true
    ∧ (mem_get_byte Mem.zero 0x20000).1
        = .error (.execution_error .SIM_ERR_READ_UNWRITTEN_PAGES 0x20000)
    ∧ ctype_of reserved_pushed_state 0x20000 = .MC_PUSHED_PC
    ∧ (mem_put_byte reserved_pushed_state 0x20000 0).1
        = .error (.execution_error .SIM_ERR_CORRUPT_STACK 0x20000) := by
  decide

/-- C8, amended: at an address of a reserved range every byte load and every
byte store fails, and it raises `AccessViolation` whenever `rx_mem_ptr` has
resolved the address: a load unless the page was never allocated or the byte is
classified uninitialized (the read-of-unwritten-memory errors come first), a
store unless the byte is classified as a pushed return address (the
corrupted-stack error comes first); the store leaves every byte as it was. -/
theorem reserved_access_violation (st : Mem) (a v : Nat)
    (hr : is_reserved_address a = true) :
    (mem_get_byte st a).1
      = (if allocated st a = false then
          .error (.execution_error .SIM_ERR_READ_UNWRITTEN_PAGES a)
        else if ctype_of st a = .MC_UNINIT then
          .error (.execution_error .SIM_ERR_READ_UNWRITTEN_BYTES a)
        else .error .access_exception)
    ∧ (mem_put_byte st a v).1
      = (if ctype_of st a = .MC_PUSHED_PC then
          .error (.execution_error .SIM_ERR_CORRUPT_STACK a)
        else .error .access_exception)
    ∧ (∀ b, byte_of (mem_put_byte st a v).2 b = byte_of st b)
    ∧ Fault.isAccessViolation .access_exception = true := by
  have h0 : a ≠ 0 := by
    intro e; subst e; simp [is_reserved_address] at hr
  refine ⟨?_, ?_, fun b => ?_, rfl⟩
  · rw [mem_get_byte_fst]
    simp [h0, hr]
  · rw [mem_put_byte_fst]; simp [h0, hr]
  · rw [mem_put_byte_byte_of, mem_put_byte_fst]
    by_cases hc : ctype_of st a = .MC_PUSHED_PC <;> simp [h0, hr, hc]

set_option maxRecDepth 100000 in
theorem reserved_access_violation_witness :
    is_reserved_address 0x20000 = true
    ∧ (mem_get_byte reserved_data_state 0x20000).1 = .error .access_exception
    ∧ (mem_put_byte reserved_data_state 0x20000 7).1 = .error .access_exception :=
  ⟨by decide,
    (reserved_access_violation reserved_data_state 0x20000 7 (by decide)).1,
    (reserved_access_violation reserved_data_state 0x20000 7 (by decide)).2.1⟩

/-! ## Operations between a store and a later load -/

theorem rx_mem_ptr_keeps (st : Mem) (a : Nat) (action : mem_ptr_action)
    (h : action ≠ .MPA_WRITING) (b : Nat) :
    byte_of (rx_mem_ptr st a action).2 b = byte_of st b
    ∧ ctype_of (rx_mem_ptr st a action).2 b = ctype_of st b := by
  refine ⟨rx_mem_ptr_byte_of _ _ _ _, ?_⟩
  rw [rx_mem_ptr_ctype_of]
  simp [h]

theorem mem_get_pc_frame (w : Nat) (st : Mem) (A : Int) (b : Nat) :
    byte_of (mem_get_pc w st A).2 b = byte_of st b
    ∧ ctype_of (mem_get_pc w st A).2 b = ctype_of st b := by
  have h := rx_mem_ptr_keeps st (ulong w A) .MPA_READING (by decide) b
  unfold mem_get_pc
  cases hr : rx_mem_ptr st (ulong w A) .MPA_READING with
  | mk r s =>
    rw [hr] at h
    cases r with
    | error e => exact h
    | ok m =>
      simp only []
      rw [byte_of_congr _ _ (COUNT_pt _ _ _), ctype_of_congr _ _ (COUNT_pt _ _ _)]
      exact h

theorem mem_get_content_type_frame (w : Nat) (st : Mem) (A : Int) (b : Nat) :
    byte_of (mem_get_content_type w st A).2 b = byte_of st b
    ∧ ctype_of (mem_get_content_type w st A).2 b = ctype_of st b := by
  have h := rx_mem_ptr_keeps st (ulong w A) .MPA_CONTENT_TYPE (by decide) b
  unfold mem_get_content_type
  cases hr : rx_mem_ptr st (ulong w A) .MPA_CONTENT_TYPE with
  | mk r s =>
    rw [hr] at h
    cases r with
    | error e => exact h
    | ok m => exact h

/-- Setting the classification of one address leaves every byte, and the
classification of every other address, as they were. -/
theorem mem_set_content_type_frame (w : Nat) (st : Mem) (A : Int) (type : mem_content_type)
    (b : Nat) (hb : split (ulong w A) ≠ split b) :
    byte_of (mem_set_content_type w st A type).2 b = byte_of st b
    ∧ ctype_of (mem_set_content_type w st A type).2 b = ctype_of st b := by
  have h := rx_mem_ptr_keeps st (ulong w A) .MPA_CONTENT_TYPE (by decide) b
  have h1 := rx_mem_ptr_fst st (ulong w A) .MPA_CONTENT_TYPE
  unfold mem_set_content_type
  cases hr : rx_mem_ptr st (ulong w A) .MPA_CONTENT_TYPE with
  | mk r s =>
    rw [hr] at h h1
    cases r with
    | error e => exact h
    | ok m =>
      have hm : m = split (ulong w A) := outcome_ok_eq st _ _ m h1.symm
      subst hm
      simp only []
      rw [byte_of_store_ctype, ctype_of_store_ctype]
      have hb' : ¬ split b = split (ulong w A) := fun e => hb e.symm
      simp only [hb', false_and, if_false]
      exact h

theorem mem_put_blk_frame (st : Mem) (A : Int) (buf : List Nat) (b : Nat)
    (h : ∀ t ∈ (blk_pairs A buf).map Prod.fst, split t ≠ split b) :
    byte_of (mem_put_blk st A buf).2 b = byte_of st b
    ∧ ctype_of (mem_put_blk st A buf).2 b = ctype_of st b := by
  unfold mem_put_blk
  simp only []
  rw [mem_put_blk_loop_eq]
  have hp : ∀ p ∈ blk_pairs A buf, split p.1 ≠ split b :=
    fun p hp => h p.1 (List.mem_map_of_mem _ hp)
  split
  · have hf := put_bytes_frame (blk_pairs A buf)
      { st with
        mem_counters := fun i j =>
          if i = 1 ∧ j = 1 then (st.mem_counters i j + buf.length) % 4294967296
          else st.mem_counters i j } b hp
    rw [hf.1, hf.2]
    exact ⟨byte_of_congr _ _ rfl b, ctype_of_congr _ _ rfl b⟩
  · exact put_bytes_frame (blk_pairs A buf) st b hp

theorem mem_get_blk_loop_keeps (n : Nat) (st : Mem) (A : Int) :
    Keeps st (mem_get_blk_loop st A n).2 := by
  induction n generalizing st A with
  | zero => exact Keeps.refl st
  | succ n ih =>
    unfold mem_get_blk_loop
    exact bind_keeps st _ _ (mem_get_byte_keeps _ _) fun _ =>
      bind_keeps _ _ _ (ih _ _) fun _ => Keeps.refl _

theorem mem_get_blk_keeps (st : Mem) (A : Int) (n : Nat) :
    Keeps st (mem_get_blk st A n).2 := by
  unfold mem_get_blk
  simp only []
  split
  · exact (Keeps.of_pt rfl rfl).trans (mem_get_blk_loop_keeps n _ A)
  · exact mem_get_blk_loop_keeps n st A

theorem bind_snd_frame {α β : Type} (P : Mem → Prop) (r : Except Fault α × Mem)
    (k : α → Mem → Except Fault β × Mem) (h1 : P r.2) (h2 : ∀ a, P (k a r.2).2) :
    P (bind r k).2 := by
  obtain ⟨x, s⟩ := r
  cases x with
  | error e => exact h1
  | ok a => exact h2 a

/-- The poll of the interrupt controller leaves every byte as it was, and every
classification but those of the three addresses it resolves. -/
theorem icu_frame (st : Mem) (pri : Int) (b : Nat)
    (h : ∀ t ∈ [0x00087000, 0x00087200, 0x00087300], split t ≠ split b) :
    byte_of (icu st pri).2 b = byte_of st b ∧ ctype_of (icu st pri).2 b = ctype_of st b := by
  have step : ∀ (s : Mem) (a : Nat), split a ≠ split b →
      byte_of (rx_mem_ptr s a .MPA_WRITING).2 b = byte_of s b
      ∧ ctype_of (rx_mem_ptr s a .MPA_WRITING).2 b = ctype_of s b := by
    intro s a ha
    refine ⟨rx_mem_ptr_byte_of _ _ _ _, ?_⟩
    rw [rx_mem_ptr_ctype_of]
    have : ¬ split b = split a := fun e => ha e.symm
    simp [this]
  have h1 := step st 0x00087000 (h _ (by simp))
  have h2 := step (rx_mem_ptr st 0x00087000 .MPA_WRITING).2 0x00087200 (h _ (by simp))
  have h3 := step (rx_mem_ptr (rx_mem_ptr st 0x00087000 .MPA_WRITING).2 0x00087200
    .MPA_WRITING).2 0x00087300 (h _ (by simp))
  unfold icu
  apply bind_snd_frame (fun s => byte_of s b = byte_of st b ∧ ctype_of s b = ctype_of st b)
  · exact h1
  · intro _
    apply bind_snd_frame (fun s => byte_of s b = byte_of st b ∧ ctype_of s b = ctype_of st b)
    · exact ⟨h2.1.trans h1.1, h2.2.trans h1.2⟩
    · intro _
      apply bind_snd_frame (fun s => byte_of s b = byte_of st b ∧ ctype_of s b = ctype_of st b)
      · exact ⟨h3.1.trans (h2.1.trans h1.1), h3.2.trans (h2.2.trans h1.2)⟩
      · intro _
        exact ⟨h3.1.trans (h2.1.trans h1.1), h3.2.trans (h2.2.trans h1.2)⟩

/-- An operation that avoids the byte of `a` leaves that byte and its
classification as they were, whether it goes through or not. -/
theorem Op.run_frame (w : Nat) (st : Mem) (op : Op) (a : Nat) (h : op.avoids w a) :
    byte_of (op.run w st) a = byte_of st a ∧ ctype_of (op.run w st) a = ctype_of st a := by
  cases op with
  | put_qi A v mpc =>
    show byte_of (mem_put_qi w st A v mpc).2 a = _ ∧ ctype_of (mem_put_qi w st A v mpc).2 a = _
    rw [mem_put_qi_eq]
    exact typed_put_frame _ st (traced_pt _ _ _ _ _ _) _ _ a
      (fun p hp => h p.1 (by simp at hp; subst hp; simp [Op.targets, Op.stores]))
  | put_hi A v mpc =>
    show byte_of (mem_put_hi w st A v mpc).2 a = _ ∧ ctype_of (mem_put_hi w st A v mpc).2 a = _
    rw [mem_put_hi_eq]
    refine typed_put_frame _ st (traced_pt _ _ _ _ _ _) _ _ a (fun p hp => h p.1 ?_)
    unfold hi_bytes at hp
    split at hp <;> simp at hp <;> rcases hp with hp | hp <;> subst hp <;>
      simp [Op.targets, Op.stores]
  | put_psi A v mpc =>
    show byte_of (mem_put_psi w st A v mpc).2 a = _ ∧ ctype_of (mem_put_psi w st A v mpc).2 a = _
    rw [mem_put_psi_eq]
    refine typed_put_frame _ st (traced_pt _ _ _ _ _ _) _ _ a (fun p hp => h p.1 ?_)
    unfold psi_bytes at hp
    split at hp <;> simp at hp <;> rcases hp with hp | hp | hp <;> subst hp <;>
      simp [Op.targets, Op.stores]
  | put_si A v mpc =>
    show byte_of (mem_put_si w st A v mpc).2 a = _ ∧ ctype_of (mem_put_si w st A v mpc).2 a = _
    rw [mem_put_si_eq]
    refine typed_put_frame _ st (traced_pt _ _ _ _ _ _) _ _ a (fun p hp => h p.1 ?_)
    unfold si_bytes at hp
    split at hp <;> simp at hp <;> rcases hp with hp | hp | hp | hp <;> subst hp <;>
      simp [Op.targets, Op.stores]
  | get_qi A mpc => exact ⟨((mem_get_qi_keeps w st A mpc).1 a).1, ((mem_get_qi_keeps w st A mpc).1 a).2.1⟩
  | get_hi A mpc => exact ⟨((mem_get_hi_keeps w st A mpc).1 a).1, ((mem_get_hi_keeps w st A mpc).1 a).2.1⟩
  | get_psi A mpc =>
    exact ⟨((mem_get_psi_keeps w st A mpc).1 a).1, ((mem_get_psi_keeps w st A mpc).1 a).2.1⟩
  | get_si A mpc => exact ⟨((mem_get_si_keeps w st A mpc).1 a).1, ((mem_get_si_keeps w st A mpc).1 a).2.1⟩
  | get_pc A => exact mem_get_pc_frame w st A a
  | set_content_type A type =>
    exact mem_set_content_type_frame w st A type a (h _ (by simp [Op.targets, Op.stores]))
  | get_content_type A => exact mem_get_content_type_frame w st A a
  | decode_cache x => exact rx_mem_ptr_keeps st x .MPA_DECODE_CACHE (by decide) a
  | mem_ptr x action =>
    refine ⟨rx_mem_ptr_byte_of _ _ _ _, ?_⟩
    show ctype_of (rx_mem_ptr st x action).2 a = _
    rw [rx_mem_ptr_ctype_of]
    by_cases hw : action = .MPA_WRITING
    · have hx : ¬ split a = split x :=
        fun e => h x (by simp [Op.targets, Op.stores, Op.resolves, hw]) e.symm
      simp [hx]
    · simp [hw]
  | put_blk A buf =>
    exact mem_put_blk_frame st A buf a
      (fun t ht => h t (List.mem_append_left _ ht))
  | get_blk A n => exact ⟨((mem_get_blk_keeps st A n).1 a).1, ((mem_get_blk_keeps st A n).1 a).2.1⟩
  | poll pri =>
    exact icu_frame st pri a (fun t ht => h t (by simpa [Op.targets, Op.stores, Op.resolves] using ht))

theorem run_ops_frame (w : Nat) (ops : List Op) (st : Mem) (a : Nat)
    (h : ∀ op ∈ ops, op.avoids w a) :
    byte_of (run_ops w st ops) a = byte_of st a
    ∧ ctype_of (run_ops w st ops) a = ctype_of st a := by
  induction ops generalizing st with
  | nil => exact ⟨rfl, rfl⟩
  | cons op rest ih =>
    have h1 := Op.run_frame w st op a (h op (List.mem_cons_self _ _))
    have h2 := ih (op.run w st) (fun o ho => h o (List.mem_cons_of_mem _ ho))
    show byte_of (run_ops w (op.run w st) rest) a = _ ∧ ctype_of (run_ops w (op.run w st) rest) a = _
    rw [h2.1, h2.2]
    exact h1

theorem readable_of_data (st : Mem) (a : Nat) (h0 : a ≠ 0) (hr : is_reserved_address a = false)
    (hc : ctype_of st a = .MC_DATA) : readable st a := by
  refine ⟨h0, hr, ?_⟩
  rw [hc]; simp

theorem rx_mem_ptr_data (s : Mem) (x : Nat) (action : mem_ptr_action) (a : Nat)
    (hd : ctype_of s a = .MC_DATA) :
    byte_of (rx_mem_ptr s x action).2 a = byte_of s a
    ∧ ctype_of (rx_mem_ptr s x action).2 a = .MC_DATA := by
  refine ⟨rx_mem_ptr_byte_of _ _ _ _, ?_⟩
  rw [rx_mem_ptr_ctype_of]
  split
  · rfl
  · exact hd

/-- The poll of the interrupt controller leaves a byte that is classified as
data as it is, classified as data. -/
theorem icu_data (st : Mem) (pri : Int) (a : Nat) (hd : ctype_of st a = .MC_DATA) :
    byte_of (icu st pri).2 a = byte_of st a ∧ ctype_of (icu st pri).2 a = .MC_DATA := by
  have h1 := rx_mem_ptr_data st 0x00087000 .MPA_WRITING a hd
  have h2 := rx_mem_ptr_data (rx_mem_ptr st 0x00087000 .MPA_WRITING).2 0x00087200
    .MPA_WRITING a h1.2
  have h3 := rx_mem_ptr_data (rx_mem_ptr (rx_mem_ptr st 0x00087000 .MPA_WRITING).2 0x00087200
    .MPA_WRITING).2 0x00087300 .MPA_WRITING a h2.2
  unfold icu
  apply bind_snd_frame (fun s => byte_of s a = byte_of st a ∧ ctype_of s a = .MC_DATA)
  · exact h1
  · intro _
    apply bind_snd_frame (fun s => byte_of s a = byte_of st a ∧ ctype_of s a = .MC_DATA)
    · exact ⟨h2.1.trans h1.1, h2.2⟩
    · intro _
      apply bind_snd_frame (fun s => byte_of s a = byte_of st a ∧ ctype_of s a = .MC_DATA)
      · exact ⟨h3.1.trans (h2.1.trans h1.1), h3.2⟩
      · intro _
        exact ⟨h3.1.trans (h2.1.trans h1.1), h3.2⟩

/-- An operation that neither stores to the byte of `a` nor sets its
classification leaves that byte as it is, classified as data, when it was so
classified; whether the operation goes through or not. -/
theorem Op.run_data (w : Nat) (st : Mem) (op : Op) (a : Nat) (h : op.leaves w a)
    (hd : ctype_of st a = .MC_DATA) :
    byte_of (op.run w st) a = byte_of st a ∧ ctype_of (op.run w st) a = .MC_DATA := by
  have via : op.resolves = [] →
      byte_of (op.run w st) a = byte_of st a ∧ ctype_of (op.run w st) a = .MC_DATA := by
    intro hres
    have hav : op.avoids w a := by
      intro t ht
      unfold Op.targets at ht
      rw [hres, List.append_nil] at ht
      exact h t ht
    have hf := Op.run_frame w st op a hav
    exact ⟨hf.1, hf.2.trans hd⟩
  cases op with
  | mem_ptr x action => exact rx_mem_ptr_data st x action a hd
  | poll pri => exact icu_data st pri a hd
  | put_qi A v mpc => exact via rfl
  | put_hi A v mpc => exact via rfl
  | put_psi A v mpc => exact via rfl
  | put_si A v mpc => exact via rfl
  | get_qi A mpc => exact via rfl
  | get_hi A mpc => exact via rfl
  | get_psi A mpc => exact via rfl
  | get_si A mpc => exact via rfl
  | get_pc A => exact via rfl
  | set_content_type A type => exact via rfl
  | get_content_type A => exact via rfl
  | decode_cache x => exact via rfl
  | put_blk A buf => exact via rfl
  | get_blk A n => exact via rfl

theorem run_ops_data (w : Nat) (ops : List Op) (st : Mem) (a : Nat)
    (h : ∀ op ∈ ops, op.leaves w a) (hd : ctype_of st a = .MC_DATA) :
    byte_of (run_ops w st ops) a = byte_of st a
    ∧ ctype_of (run_ops w st ops) a = .MC_DATA := by
  induction ops generalizing st with
  | nil => exact ⟨rfl, hd⟩
  | cons op rest ih =>
    have h1 := Op.run_data w st op a (h op (List.mem_cons_self _ _)) hd
    have h2 := ih (op.run w st) (fun o ho => h o (List.mem_cons_of_mem _ ho)) h1.2
    show byte_of (run_ops w (op.run w st) rest) a = _
      ∧ ctype_of (run_ops w (op.run w st) rest) a = _
    rw [h2.1, h2.2]
    exact ⟨h1.1, rfl⟩

/-- C1: after `mem_put_qi (A, v)` at a non-null, non-reserved address that is not
classified as a pushed return address, `mem_get_qi (A)` returns `v`, at once and
after any operations (typed and block loads and stores, `mem_get_pc`, the
content-type accessors, `rx_mem_ptr`, `rx_mem_decode_cache`, `icu`; failing ones
and loads of `A` itself included) that neither store to `A` nor set its
classification. -/
theorem put_qi_get_qi (w : Nat) (st : Mem) (A : Int) (v mpc : Nat) (hv : v < 256)
    (h0 : uint32 A ≠ 0) (hr : is_reserved_address (uint32 A) = false)
    (hc : ctype_of st (uint32 A) ≠ .MC_PUSHED_PC) :
    (mem_put_qi w st A v mpc).1 = .ok ()
    ∧ ∀ (ops : List Op), (∀ op ∈ ops, op.leaves w (uint32 A)) → ∀ mpc' : Nat,
        (mem_get_qi w (run_ops w (mem_put_qi w st A v mpc).2 ops) A mpc').1 = .ok v := by
  have hw : writable st (uint32 A) := ⟨h0, hr, hc⟩
  have hs : (mem_put_qi w st A v mpc).1 = .ok ()
      ∧ byte_of (mem_put_qi w st A v mpc).2 (uint32 A) = uchar (v &&& 0xff)
        ∧ ctype_of (mem_put_qi w st A v mpc).2 (uint32 A) = .MC_DATA := by
    rw [mem_put_qi_eq]
    have h := typed_put_spec _ st (traced_pt w st mpc (ulong w A) .MEM_WB (v &&& 0xff))
      [(uint32 A, uchar (v &&& 0xff))] 1 (by simpa using hw) (by simp)
    exact ⟨h.1, h.2 (uint32 A, uchar (v &&& 0xff)) (List.mem_singleton.2 rfl)⟩
  have hbyte : uchar (v &&& 0xff) = v := by
    have h := Nat.and_pow_two_sub_one_eq_mod v 8
    simp at h
    unfold uchar
    rw [h]
    omega
  refine ⟨hs.1, fun ops hops mpc' => ?_⟩
  have hf := run_ops_data w ops (mem_put_qi w st A v mpc).2 (uint32 A) hops hs.2.2
  have hrd : readable (run_ops w (mem_put_qi w st A v mpc).2 ops) (uint32 A) :=
    readable_of_data _ _ h0 hr hf.2
  rw [mem_get_qi_fst, mem_get_byte_ok _ _ hrd, hf.1, hs.2.1, hbyte]

set_option maxRecDepth 100000 in
theorem put_qi_get_qi_witness :
    (mem_get_qi 64
        (run_ops 64 (mem_put_qi 64 Mem.zero 0x1000 0x5a 0).2
          [.put_si 0x1001 0x11223344 0, .get_qi 0x1000 0, .mem_ptr 0x1000 .MPA_WRITING,
            .put_blk 0x0ffe [1, 2], .poll 0]) 0x1000 0).1
      = .ok 0x5a :=
  (put_qi_get_qi 64 Mem.zero 0x1000 0x5a 0 (by decide) (by decide) (by decide) (by decide)).2
    [.put_si 0x1001 0x11223344 0, .get_qi 0x1000 0, .mem_ptr 0x1000 .MPA_WRITING,
      .put_blk 0x0ffe [1, 2], .poll 0]
    (by
      intro op hop
      simp only [List.mem_cons, List.mem_singleton, List.not_mem_nil, or_false] at hop
      rcases hop with h | h | h | h | h <;> subst h <;> decide) 0

theorem init_mem_ctype_of (w : Nat) (st : Mem) (a : Nat) :
    ctype_of (init_mem w st) a = .MC_UNINIT := rfl

/-- C2, as the claim states it, fails in four ways, each time at an address
never written since `init_mem`: at address 0 the load fails with the
null-pointer error; at 0x1000, once `mem_set_content_type` has classified it as
data, the load returns the zero-filled byte; at 0x00087000, once `icu` has
resolved it with the writing intent, the load returns the zero-filled byte; and
at the reserved address 0x20000, after a store that failed with the access
exception, the load fails with the access exception. -/
theorem unwritten_not_always_read_unwritten :
    ((mem_get_qi 64 (init_mem 64 Mem.zero) 0 0).1
        = .error (.execution_error .SIM_ERR_NULL_POINTER_DEREFERENCE 0)
      ∧ Fault.isReadOfUnwrittenMemory (.execution_error .SIM_ERR_NULL_POINTER_DEREFERENCE 0)
          = false)
    ∧ (mem_get_qi 64 (mem_set_content_type 64 (init_mem 64 Mem.zero) 0x1000 .MC_DATA).2
        0x1000 0).1 = .ok 0
    ∧ (mem_get_qi 64 (icu (init_mem 64 Mem.zero) 0).2 0x00087000 0).1 = .ok 0
    ∧ ((mem_put_qi 64 (init_mem 64 Mem.zero) 0x20000 7 0).1 = .error .access_exception
      ∧ (mem_get_qi 64 (mem_put_qi 64 (init_mem 64 Mem.zero) 0x20000 7 0).2 0x20000 0).1
          = .error .access_exception
      ∧ Fault.isReadOfUnwrittenMemory .access_exception = false) := by
  decide

/-- C2, amended: for every non-null address `A` that, since `init_mem`, no
operation stored to (or tried to), set the classification of or resolved with
the writing intent, `mem_get_qi (A)` fails with `ReadOfUnwrittenMemory`: with
`SIM_ERR_READ_UNWRITTEN_PAGES` while the page is not allocated and with
`SIM_ERR_READ_UNWRITTEN_BYTES` once it is; it never returns a value. -/
theorem unwritten_read_fails (w : Nat) (st : Mem) (ops : List Op) (A : Int) (mpc : Nat)
    (h0 : uint32 A ≠ 0) (hops : ∀ op ∈ ops, op.avoids w (uint32 A)) :
    (mem_get_qi w (run_ops w (init_mem w st) ops) A mpc).1
      = (if allocated (run_ops w (init_mem w st) ops) (uint32 A) = false then
          .error (.execution_error .SIM_ERR_READ_UNWRITTEN_PAGES (uint32 A))
        else .error (.execution_error .SIM_ERR_READ_UNWRITTEN_BYTES (uint32 A)))
    ∧ ∃ e, (mem_get_qi w (run_ops w (init_mem w st) ops) A mpc).1 = .error e
        ∧ e.isReadOfUnwrittenMemory = true := by
  have hf := run_ops_frame w ops (init_mem w st) (uint32 A) hops
  rw [init_mem_ctype_of] at hf
  have h1 : (mem_get_qi w (run_ops w (init_mem w st) ops) A mpc).1
      = (if allocated (run_ops w (init_mem w st) ops) (uint32 A) = false then
          .error (.execution_error .SIM_ERR_READ_UNWRITTEN_PAGES (uint32 A))
        else .error (.execution_error .SIM_ERR_READ_UNWRITTEN_BYTES (uint32 A))) := by
    rw [mem_get_qi_fst, mem_get_byte_fst]
    simp [h0, hf.2]
  refine ⟨h1, ?_⟩
  rw [h1]
  split
  · exact ⟨_, rfl, rfl⟩
  · exact ⟨_, rfl, rfl⟩

set_option maxRecDepth 100000 in
theorem unwritten_read_fails_witness :
    (mem_get_qi 64
        (run_ops 64 (init_mem 64 Mem.zero) [.put_qi 0x1000 0x5a 0, .get_qi 0x1000 0]) 0x1001 0).1
      = .error (.execution_error .SIM_ERR_READ_UNWRITTEN_BYTES (uint32 0x1001)) :=
  (unwritten_read_fails 64 Mem.zero [.put_qi 0x1000 0x5a 0, .get_qi 0x1000 0] 0x1001 0
    (by decide)
    (by
      intro op hop
      simp only [List.mem_cons, List.mem_singleton, List.not_mem_nil, or_false] at hop
      rcases hop with h | h <;> subst h <;> decide)).1

/-! ## Byte order of the typed stores -/

theorem and_ff (x : Nat) : x &&& 0xff = x % 256 := by
  have h := Nat.and_pow_two_sub_one_eq_mod x 8
  simpa using h

theorem uchar_and_ff (x : Nat) : uchar (x &&& 0xff) = x &&& 0xff := by
  unfold uchar; rw [and_ff]; omega

theorem uchar_eq_and_ff (x : Nat) : uchar x = x &&& 0xff := by
  unfold uchar; rw [and_ff]

theorem split_ne_01 (A : Int) : split (uint32 A) ≠ split (uint32 (A + 1)) := by
  have h := uint32_add_ne A 0 1 (by decide) (by decide) (by decide)
  simpa using h

theorem split_ne_02 (A : Int) : split (uint32 A) ≠ split (uint32 (A + 2)) := by
  have h := uint32_add_ne A 0 2 (by decide) (by decide) (by decide)
  simpa using h

theorem split_ne_03 (A : Int) : split (uint32 A) ≠ split (uint32 (A + 3)) := by
  have h := uint32_add_ne A 0 3 (by decide) (by decide) (by decide)
  simpa using h

theorem split_ne_12 (A : Int) : split (uint32 (A + 1)) ≠ split (uint32 (A + 2)) := by
  have h := uint32_add_ne A 1 2 (by decide) (by decide) (by decide)
  simpa using h

theorem split_ne_13 (A : Int) : split (uint32 (A + 1)) ≠ split (uint32 (A + 3)) := by
  have h := uint32_add_ne A 1 3 (by decide) (by decide) (by decide)
  simpa using h

theorem split_ne_23 (A : Int) : split (uint32 (A + 2)) ≠ split (uint32 (A + 3)) := by
  have h := uint32_add_ne A 2 3 (by decide) (by decide) (by decide)
  simpa using h

theorem hi_bytes_eq (be : Bool) (A : Int) (v : Nat) :
    hi_bytes be A v
      = [(uint32 A, byte_n v (if be then 1 else 0)),
          (uint32 (A + 1), byte_n v (if be then 0 else 1))] := by
  cases be <;> simp [hi_bytes, byte_n, uchar_eq_and_ff, Nat.and_assoc]

theorem psi_bytes_eq (be : Bool) (A : Int) (v : Nat) :
    psi_bytes be A v
      = [(uint32 A, byte_n v (if be then 2 else 0)), (uint32 (A + 1), byte_n v 1),
          (uint32 (A + 2), byte_n v (if be then 0 else 2))] := by
  cases be <;> simp [psi_bytes, byte_n, uchar_eq_and_ff, Nat.and_assoc]

/-- What `mem_put_hi` leaves at `A` and `A + 1`: the two low bytes of the value,
each classified as data, under the endianness it ran with. -/
theorem mem_put_hi_spec (w : Nat) (st : Mem) (A : Int) (v mpc : Nat)
    (h0 : writable st (uint32 A)) (h1 : writable st (uint32 (A + 1))) :
    (mem_put_hi w st A v mpc).1 = .ok ()
    ∧ (byte_of (mem_put_hi w st A v mpc).2 (uint32 A)
          = byte_n v (if st.rx_big_endian then 1 else 0)
      ∧ byte_of (mem_put_hi w st A v mpc).2 (uint32 (A + 1))
          = byte_n v (if st.rx_big_endian then 0 else 1))
    ∧ (ctype_of (mem_put_hi w st A v mpc).2 (uint32 A) = .MC_DATA
      ∧ ctype_of (mem_put_hi w st A v mpc).2 (uint32 (A + 1)) = .MC_DATA)
    ∧ (mem_put_hi w st A v mpc).2.rx_big_endian = st.rx_big_endian := by
  rw [mem_put_hi_eq, hi_bytes_eq]
  have hs := typed_put_spec _ st (traced_pt w st mpc (ulong w A) .MEM_WW (v &&& 0xffff))
    [(uint32 A, byte_n v (if st.rx_big_endian then 1 else 0)),
      (uint32 (A + 1), byte_n v (if st.rx_big_endian then 0 else 1))] 2
    (by intro p hp; simp at hp; rcases hp with hp | hp <;> subst hp <;> assumption)
    (by simp [split_ne_01])
  have a0 := hs.2 (uint32 A, byte_n v (if st.rx_big_endian then 1 else 0)) (by simp)
  have a1 := hs.2 (uint32 (A + 1), byte_n v (if st.rx_big_endian then 0 else 1)) (by simp)
  exact ⟨hs.1, ⟨a0.1, a1.1⟩, ⟨a0.2, a1.2⟩, by rw [typed_put_big_endian, traced_big_endian]⟩

/-- What `mem_put_psi` leaves at `A .. A + 2`: the three low bytes of the value,
each classified as data, under the endianness it ran with. -/
theorem mem_put_psi_spec (w : Nat) (st : Mem) (A : Int) (v mpc : Nat)
    (h0 : writable st (uint32 A)) (h1 : writable st (uint32 (A + 1)))
    (h2 : writable st (uint32 (A + 2))) :
    (mem_put_psi w st A v mpc).1 = .ok ()
    ∧ (byte_of (mem_put_psi w st A v mpc).2 (uint32 A)
          = byte_n v (if st.rx_big_endian then 2 else 0)
      ∧ byte_of (mem_put_psi w st A v mpc).2 (uint32 (A + 1)) = byte_n v 1
      ∧ byte_of (mem_put_psi w st A v mpc).2 (uint32 (A + 2))
          = byte_n v (if st.rx_big_endian then 0 else 2))
    ∧ (ctype_of (mem_put_psi w st A v mpc).2 (uint32 A) = .MC_DATA
      ∧ ctype_of (mem_put_psi w st A v mpc).2 (uint32 (A + 1)) = .MC_DATA
      ∧ ctype_of (mem_put_psi w st A v mpc).2 (uint32 (A + 2)) = .MC_DATA)
    ∧ (mem_put_psi w st A v mpc).2.rx_big_endian = st.rx_big_endian := by
  rw [mem_put_psi_eq, psi_bytes_eq]
  have hs := typed_put_spec _ st (traced_pt w st mpc (ulong w A) .MEM_WQ (v &&& 0xffffff))
    [(uint32 A, byte_n v (if st.rx_big_endian then 2 else 0)), (uint32 (A + 1), byte_n v 1),
      (uint32 (A + 2), byte_n v (if st.rx_big_endian then 0 else 2))] 3
    (by intro p hp; simp at hp; rcases hp with hp | hp | hp <;> subst hp <;> assumption)
    (by simp [split_ne_01, split_ne_02, split_ne_12])
  have a0 := hs.2 (uint32 A, byte_n v (if st.rx_big_endian then 2 else 0)) (by simp)
  have a1 := hs.2 (uint32 (A + 1), byte_n v 1) (by simp)
  have a2 := hs.2 (uint32 (A + 2), byte_n v (if st.rx_big_endian then 0 else 2)) (by simp)
  exact ⟨hs.1, ⟨a0.1, a1.1, a2.1⟩, ⟨a0.2, a1.2, a2.2⟩,
    by rw [typed_put_big_endian, traced_big_endian]⟩

theorem si_bytes_eq (be : Bool) (A : Int) (v : Nat) :
    si_bytes be A v
      = [(uint32 A, byte_n v (if be then 3 else 0)), (uint32 (A + 1), byte_n v (if be then 2 else 1)),
          (uint32 (A + 2), byte_n v (if be then 1 else 2)),
          (uint32 (A + 3), byte_n v (if be then 0 else 3))] := by
  cases be <;> simp [si_bytes, byte_n, uchar_and_ff]

/-- What `mem_put_si` leaves at `A .. A + 3`: the four bytes of the value, each
classified as data, under the endianness it ran with. -/
theorem mem_put_si_spec (w : Nat) (st : Mem) (A : Int) (v mpc : Nat)
    (h0 : writable st (uint32 A)) (h1 : writable st (uint32 (A + 1)))
    (h2 : writable st (uint32 (A + 2))) (h3 : writable st (uint32 (A + 3))) :
    (mem_put_si w st A v mpc).1 = .ok ()
    ∧ (byte_of (mem_put_si w st A v mpc).2 (uint32 A)
          = byte_n v (if st.rx_big_endian then 3 else 0)
      ∧ byte_of (mem_put_si w st A v mpc).2 (uint32 (A + 1))
          = byte_n v (if st.rx_big_endian then 2 else 1)
      ∧ byte_of (mem_put_si w st A v mpc).2 (uint32 (A + 2))
          = byte_n v (if st.rx_big_endian then 1 else 2)
      ∧ byte_of (mem_put_si w st A v mpc).2 (uint32 (A + 3))
          = byte_n v (if st.rx_big_endian then 0 else 3))
    ∧ (ctype_of (mem_put_si w st A v mpc).2 (uint32 A) = .MC_DATA
      ∧ ctype_of (mem_put_si w st A v mpc).2 (uint32 (A + 1)) = .MC_DATA
      ∧ ctype_of (mem_put_si w st A v mpc).2 (uint32 (A + 2)) = .MC_DATA
      ∧ ctype_of (mem_put_si w st A v mpc).2 (uint32 (A + 3)) = .MC_DATA)
    ∧ (mem_put_si w st A v mpc).2.rx_big_endian = st.rx_big_endian := by
  rw [mem_put_si_eq, si_bytes_eq]
  have hs := typed_put_spec _ st (traced_pt w st mpc (ulong w A) .MEM_WL (v &&& 0xffffffff))
    [(uint32 A, byte_n v (if st.rx_big_endian then 3 else 0)),
      (uint32 (A + 1), byte_n v (if st.rx_big_endian then 2 else 1)),
      (uint32 (A + 2), byte_n v (if st.rx_big_endian then 1 else 2)),
      (uint32 (A + 3), byte_n v (if st.rx_big_endian then 0 else 3))] 4
    (by intro p hp; simp at hp; rcases hp with hp | hp | hp | hp <;> subst hp <;> assumption)
    (by simp [split_ne_01, split_ne_02, split_ne_03, split_ne_12, split_ne_13, split_ne_23])
  have a0 := hs.2 (uint32 A, byte_n v (if st.rx_big_endian then 3 else 0)) (by simp)
  have a1 := hs.2 (uint32 (A + 1), byte_n v (if st.rx_big_endian then 2 else 1)) (by simp)
  have a2 := hs.2 (uint32 (A + 2), byte_n v (if st.rx_big_endian then 1 else 2)) (by simp)
  have a3 := hs.2 (uint32 (A + 3), byte_n v (if st.rx_big_endian then 0 else 3)) (by simp)
  exact ⟨hs.1, ⟨a0.1, a1.1, a2.1, a3.1⟩, ⟨a0.2, a1.2, a2.2, a3.2⟩,
    by rw [typed_put_big_endian, traced_big_endian]⟩

theorem ulong_of_nonneg (w : Nat) (hw : 32 ≤ w) (x : Int) (h0 : 0 ≤ x) (h1 : x < 4294967296) :
    ulong w x = x.toNat := by
  unfold ulong
  have hp : (4294967296 : Int) ≤ (2 : Int) ^ w := by
    have : (2 : Int) ^ 32 ≤ (2 : Int) ^ w := pow_le_pow_right₀ (by norm_num) hw
    simpa using this
  rw [Int.emod_eq_of_lt h0 (lt_of_lt_of_le h1 hp)]

/-- Reading, little-endian, the four bytes that a big-endian `mem_put_si` of
0x11223344 left. -/
theorem put_be_get_le (w : Nat) (hw32 : 32 ≤ w) (st : Mem) (A : Int) (mpc mpc' : Nat)
    (hbe : st.rx_big_endian = true)
    (h0 : writable st (uint32 A)) (h1 : writable st (uint32 (A + 1)))
    (h2 : writable st (uint32 (A + 2))) (h3 : writable st (uint32 (A + 3))) :
    (mem_get_si w { (mem_put_si w st A 0x11223344 mpc).2 with rx_big_endian := false } A mpc').1
      = .ok 0x44332211 := by
  obtain ⟨_, ⟨b0, b1, b2, b3⟩, ⟨c0, c1, c2, c3⟩, _⟩ :=
    mem_put_si_spec w st A 0x11223344 mpc h0 h1 h2 h3
  rw [hbe] at b0 b1 b2 b3
  have e : ∀ b, byte_of { (mem_put_si w st A 0x11223344 mpc).2 with rx_big_endian := false } b
      = byte_of (mem_put_si w st A 0x11223344 mpc).2 b := fun b => byte_of_congr _ _ rfl b
  have ec : ∀ b, ctype_of { (mem_put_si w st A 0x11223344 mpc).2 with rx_big_endian := false } b
      = ctype_of (mem_put_si w st A 0x11223344 mpc).2 b := fun b => ctype_of_congr _ _ rfl b
  rw [mem_get_si_ok w _ A mpc'
    (readable_of_data _ _ h0.1 h0.2.1 (by rw [ec, c0]))
    (readable_of_data _ _ h1.1 h1.2.1 (by rw [ec, c1]))
    (readable_of_data _ _ h2.1 h2.2.1 (by rw [ec, c2]))
    (readable_of_data _ _ h3.1 h3.2.1 (by rw [ec, c3]))]
  rw [e, e, e, e, b0, b1, b2, b3]
  have v0 : byte_n 0x11223344 (if true = true then 3 else 0) = 0x11 := by decide
  have v1 : byte_n 0x11223344 (if true = true then 2 else 1) = 0x22 := by decide
  have v2 : byte_n 0x11223344 (if true = true then 1 else 2) = 0x33 := by decide
  have v3 : byte_n 0x11223344 (if true = true then 0 else 3) = 0x44 := by decide
  rw [v0, v1, v2, v3]
  simp only [si_value, Bool.false_eq_true, if_false]
  have s1 : shl_int 0x22 8 = 0x2200 := by decide
  have s2 : shl_int 0x33 16 = 0x330000 := by decide
  have s3 : shl_int 0x44 24 = 0x44000000 := by decide
  rw [s1, s2, s3]
  rw [ulong_of_nonneg w hw32 _ (by decide) (by decide),
    ulong_of_nonneg w hw32 0x2200 (by decide) (by decide),
    ulong_of_nonneg w hw32 0x330000 (by decide) (by decide),
    ulong_of_nonneg w hw32 0x44000000 (by decide) (by decide)]
  rfl

/-- C4: for each width n in {2, 3, 4} and every value v, the n-byte store
(`mem_put_hi`, `mem_put_psi`, `mem_put_si`) to writable addresses succeeds and
leaves at `A + i` byte `n - 1 - i` of `v` when big-endian is configured (most
significant first) and byte `i` when little-endian is (least significant first);
and the bytes stored big-endian for 0x11223344 read back little-endian as
0x44332211. -/
theorem store_byte_order (w n : Nat) (st : Mem) (A : Int) (v mpc : Nat)
    (hn : n = 2 ∨ n = 3 ∨ n = 4)
    (hw : ∀ i : Nat, i < n → writable st (uint32 (A + i))) :
    ((mem_put_n w n st A v mpc).1 = .ok ()
      ∧ ∀ i : Nat, i < n →
          byte_of (mem_put_n w n st A v mpc).2 (uint32 (A + i))
            = byte_n v (if st.rx_big_endian then n - 1 - i else i))
    ∧ (n = 4 → 32 ≤ w → st.rx_big_endian = true → ∀ mpc' : Nat,
        (mem_get_si w { (mem_put_si w st A 0x11223344 mpc).2 with rx_big_endian := false }
            A mpc').1 = .ok 0x44332211) := by
  have w0 : writable st (uint32 A) := by simpa using hw 0 (by omega)
  have w1 : writable st (uint32 (A + 1)) := by simpa using hw 1 (by omega)
  refine ⟨?_, ?_⟩
  · rcases hn with hn | hn | hn
    · subst hn
      obtain ⟨h, ⟨b0, b1⟩, _, _⟩ := mem_put_hi_spec w st A v mpc w0 w1
      refine ⟨h, fun i hi => ?_⟩
      simp only [mem_put_n, if_true]
      interval_cases i
      · simpa using b0
      · simpa using b1
    · subst hn
      have w2 : writable st (uint32 (A + 2)) := by simpa using hw 2 (by omega)
      obtain ⟨h, ⟨b0, b1, b2⟩, _, _⟩ := mem_put_psi_spec w st A v mpc w0 w1 w2
      refine ⟨h, fun i hi => ?_⟩
      simp only [mem_put_n, if_true, if_false, show ¬ (3 = 2) by decide]
      interval_cases i
      · simpa using b0
      · cases hb : st.rx_big_endian <;> simpa [hb] using b1
      · simpa using b2
    · subst hn
      have w2 : writable st (uint32 (A + 2)) := by simpa using hw 2 (by omega)
      have w3 : writable st (uint32 (A + 3)) := by simpa using hw 3 (by omega)
      obtain ⟨h, ⟨b0, b1, b2, b3⟩, _, _⟩ := mem_put_si_spec w st A v mpc w0 w1 w2 w3
      refine ⟨h, fun i hi => ?_⟩
      simp only [mem_put_n, if_false, show ¬ (4 = 2) by decide, show ¬ (4 = 3) by decide]
      interval_cases i
      · simpa using b0
      · simpa using b1
      · simpa using b2
      · simpa using b3
  · intro h4 hw32 hbe mpc'
    subst h4
    have w2 : writable st (uint32 (A + 2)) := by simpa using hw 2 (by omega)
    have w3 : writable st (uint32 (A + 3)) := by simpa using hw 3 (by omega)
    exact put_be_get_le w hw32 st A mpc mpc' hbe w0 w1 w2 w3

set_option maxRecDepth 100000 in
theorem store_byte_order_witness :
    (mem_put_n 64 4 { Mem.zero with rx_big_endian := true } 0x1000 0x11223344 0).1 = .ok ()
    ∧ (mem_get_si 64
        { (mem_put_si 64 { Mem.zero with rx_big_endian := true } 0x1000 0x11223344 0).2
            with rx_big_endian := false } 0x1000 0).1 = .ok 0x44332211 :=
  have h := store_byte_order 64 4 { Mem.zero with rx_big_endian := true } 0x1000 0x11223344 0
    (by decide) (by
      intro i hi
      interval_cases i <;> decide)
  ⟨h.1.1, h.2 rfl (by decide) rfl 0⟩

/-! ## The interrupt controller -/

theorem icu_test_iff (ir ien ipr : Nat → Nat) (pri maxpri : Int) (irq : Nat) :
    icu_test ir ien ipr pri maxpri irq = true
      ↔ qual ir ien ipr pri irq ∧ (ipr (iprmap.getD irq 0) : Int) ≥ maxpri := by
  unfold icu_test qual
  simp only [Bool.and_eq_true, decide_eq_true_eq]
  tauto

theorem icu_loop_inv (ir ien ipr : Nat → Nat) (pri : Int) (n : Nat) (s : Int × Int)
    (hn : n ≤ 256) (h : icu_inv ir ien ipr pri n s) :
    icu_inv ir ien ipr pri 0 (icu_loop ir ien ipr pri n s) := by
  induction n generalizing s with
  | zero => exact h
  | succ irq ih =>
    unfold icu_loop
    apply ih _ (by omega)
    by_cases ht : icu_test ir ien ipr pri s.2 irq = true
    · rw [if_pos ht]
      rw [icu_test_iff] at ht
      obtain ⟨hq, hge⟩ := ht
      refine Or.inr ⟨irq, rfl, le_refl _, by omega, hq, rfl, ?_⟩
      intro j hj hj256 hqj
      rcases Nat.eq_or_lt_of_le hj with e | hlt
      · subst e; exact ⟨le_refl _, fun _ => le_refl _⟩
      · rcases h with ⟨_, _, hnone⟩ | ⟨k, _, hk, _, _, hs2, hmax⟩
        · exact absurd hqj (hnone j (by omega) hj256)
        · have := hmax j (by omega) hj256 hqj
          rw [hs2] at hge
          constructor
          · omega
          · intro _; omega
    · rw [if_neg ht]
      rw [icu_test_iff] at ht
      rcases h with ⟨h1, h2, hnone⟩ | ⟨k, h1, hk, hk256, hqk, hs2, hmax⟩
      · refine Or.inl ⟨h1, h2, ?_⟩
        intro j hj hj256 hqj
        rcases Nat.eq_or_lt_of_le hj with e | hlt
        · subst e
          apply ht
          refine ⟨hqj, ?_⟩
          rw [h2]
          exact Int.ofNat_nonneg _
        · exact hnone j (by omega) hj256 hqj
      · refine Or.inr ⟨k, h1, by omega, hk256, hqk, hs2, ?_⟩
        intro j hj hj256 hqj
        rcases Nat.eq_or_lt_of_le hj with e | hlt
        · subst e
          have hlt : ¬ (ipr (iprmap.getD irq 0) : Int) ≥ s.2 := fun hge => ht ⟨hqj, hge⟩
          rw [hs2] at hlt
          constructor
          · omega
          · intro e; omega
        · exact hmax j (by omega) hj256 hqj

/-- The loop of `icu`, run over all 256 interrupts from nothing acknowledged. -/
theorem icu_loop_spec (ir ien ipr : Nat → Nat) (pri : Int) :
    icu_inv ir ien ipr pri 0 (icu_loop ir ien ipr pri 256 (-1, 0)) :=
  icu_loop_inv ir ien ipr pri 256 (-1, 0) (le_refl _)
    (Or.inl ⟨rfl, rfl, fun j h1 h2 => absurd h1 (by omega)⟩)

theorem rx_mem_ptr_load_byte (st : Mem) (a : Nat) (action : mem_ptr_action) (m : mem_ptr)
    (i : Nat) : load_byte (rx_mem_ptr st a action).2 m i = load_byte st m i := by
  unfold load_byte
  rw [rx_mem_ptr_page_at]
  by_cases h : (outcome st a action).isOk ∧ m.pt1 = (split a).pt1 ∧ m.pt2 = (split a).pt2
  · rw [if_pos h]
    obtain ⟨_, h1, h2⟩ := h
    simp only [resolved_page_data, h1, h2]
  · rw [if_neg h]

/-- What `icu` yields: the corrupted-stack fault of the first of its three
resolutions that meets a pushed return address, else the interrupt its loop
acknowledges. -/
theorem icu_fst (st : Mem) (pri : Int) :
    (icu st pri).1
      = if ctype_of st 0x00087000 = .MC_PUSHED_PC then
          .error (.execution_error .SIM_ERR_CORRUPT_STACK 0x00087000)
        else if ctype_of st 0x00087200 = .MC_PUSHED_PC then
          .error (.execution_error .SIM_ERR_CORRUPT_STACK 0x00087200)
        else if ctype_of st 0x00087300 = .MC_PUSHED_PC then
          .error (.execution_error .SIM_ERR_CORRUPT_STACK 0x00087300)
        else .ok (icu_loop (IR st) (IEN st) (IPR st) pri 256 (-1, 0)).1 := by
  have f1 := rx_mem_ptr_fst st 0x00087000 .MPA_WRITING
  rw [outcome_writing] at f1
  have c2 : ctype_of (rx_mem_ptr st 0x00087000 .MPA_WRITING).2 0x00087200
      = ctype_of st 0x00087200 := by
    rw [rx_mem_ptr_ctype_of]
    have : ¬ split 0x00087200 = split 0x00087000 := by decide
    simp [this]
  have c3 : ctype_of (rx_mem_ptr st 0x00087000 .MPA_WRITING).2 0x00087300
      = ctype_of st 0x00087300 := by
    rw [rx_mem_ptr_ctype_of]
    have : ¬ split 0x00087300 = split 0x00087000 := by decide
    simp [this]
  have f2 := rx_mem_ptr_fst (rx_mem_ptr st 0x00087000 .MPA_WRITING).2 0x00087200 .MPA_WRITING
  rw [outcome_writing, c2] at f2
  have c3' : ctype_of (rx_mem_ptr (rx_mem_ptr st 0x00087000 .MPA_WRITING).2 0x00087200
      .MPA_WRITING).2 0x00087300 = ctype_of st 0x00087300 := by
    rw [rx_mem_ptr_ctype_of]
    have : ¬ split 0x00087300 = split 0x00087200 := by decide
    simp [this, c3]
  have f3 := rx_mem_ptr_fst (rx_mem_ptr (rx_mem_ptr st 0x00087000 .MPA_WRITING).2 0x00087200
      .MPA_WRITING).2 0x00087300 .MPA_WRITING
  rw [outcome_writing, c3'] at f3
  simp only [show ¬ ((0x00087000 : Nat) = 0) by decide, show ¬ ((0x00087200 : Nat) = 0) by decide,
    show ¬ ((0x00087300 : Nat) = 0) by decide, if_false] at f1 f2 f3
  unfold icu
  by_cases h1 : ctype_of st 0x00087000 = .MC_PUSHED_PC
  · rw [if_pos h1] at f1
    rw [bind_error _ _ _ f1, if_pos h1]
  · rw [if_neg h1] at f1
    rw [bind_ok _ _ _ f1, if_neg h1]
    by_cases h2 : ctype_of st 0x00087200 = .MC_PUSHED_PC
    · rw [if_pos h2] at f2
      rw [bind_error _ _ _ f2, if_pos h2]
    · rw [if_neg h2] at f2
      rw [bind_ok _ _ _ f2, if_neg h2]
      by_cases h3 : ctype_of st 0x00087300 = .MC_PUSHED_PC
      · rw [if_pos h3] at f3
        rw [bind_error _ _ _ f3, if_pos h3]
      · rw [if_neg h3] at f3
        rw [bind_ok _ _ _ f3, if_neg h3]
        simp only []
        have e : ∀ m : mem_ptr,
            load_byte (rx_mem_ptr (rx_mem_ptr (rx_mem_ptr st 0x00087000 .MPA_WRITING).2
              0x00087200 .MPA_WRITING).2 0x00087300 .MPA_WRITING).2 m = load_byte st m := by
          intro m
          funext i
          rw [rx_mem_ptr_load_byte, rx_mem_ptr_load_byte, rx_mem_ptr_load_byte]
        rw [e, e, e]
        rfl

theorem load_byte_split_add (st : Mem) (a i : Nat) (h : a % 4096 + i < 4096) :
    load_byte st (split a) i = byte_of st (a + i) := by
  have e1 : (split (a + i)).pt1 = (split a).pt1 := by
    rw [split_pt1, split_pt1]; omega
  have e2 : (split (a + i)).pt2 = (split a).pt2 := by
    rw [split_pt2, split_pt2]; omega
  have e3 : (split (a + i)).pto + 0 = (split a).pto + i := by
    rw [split_pto, split_pto]; omega
  unfold byte_of load_byte
  rw [e1, e2, e3]

/-- The three register arrays of `icu` are the bytes at 0x00087000 + irq,
0x00087200 + i and 0x00087300 + i. -/
theorem icu_registers (st : Mem) (i : Nat) (h : i < 256) :
    IR st i = byte_of st (0x00087000 + i) ∧ IEN st i = byte_of st (0x00087200 + i)
    ∧ IPR st i = byte_of st (0x00087300 + i) :=
  ⟨load_byte_split_add st _ i (by omega), load_byte_split_add st _ i (by omega),
    load_byte_split_add st _ i (by omega)⟩

theorem qual_iff_qualifies (st : Mem) (pri : Int) (j : Nat) :
    qualifies st pri j ↔ j < 256 ∧ qual (IR st) (IEN st) (IPR st) pri j := by
  unfold qualifies pending_enabled qual irq_priority
  tauto

/-- C9: if `icu (pri)` returns `irq >= 0` then `irq` is a mapped interrupt whose
request flag and enable bit are set and whose priority is strictly greater than
`pri`, no qualifying interrupt has a strictly higher priority, and `irq` is the
lowest-numbered among the qualifying interrupts of that highest priority. -/
theorem icu_acknowledges_highest (st : Mem) (pri irq : Int)
    (h : (icu st pri).1 = .ok irq) (hpos : 0 ≤ irq) :
    ∃ k : Nat, irq = (k : Int) ∧ qualifies st pri k
      ∧ (∀ j, qualifies st pri j → irq_priority st j ≤ irq_priority st k)
      ∧ (∀ j, qualifies st pri j → irq_priority st j = irq_priority st k → k ≤ j) := by
  rw [icu_fst] at h
  split at h
  · cases h
  · split at h
    · cases h
    · split at h
      · cases h
      · have he : (icu_loop (IR st) (IEN st) (IPR st) pri 256 (-1, 0)).1 = irq := by
          injection h
        rcases icu_loop_spec (IR st) (IEN st) (IPR st) pri with
          ⟨h1, _, _⟩ | ⟨k, h1, _, hk256, hqk, _, hmax⟩
        · rw [he] at h1; omega
        · rw [he] at h1
          refine ⟨k, h1, (qual_iff_qualifies st pri k).2 ⟨hk256, hqk⟩, ?_, ?_⟩
          · intro j hj
            obtain ⟨hj256, hqj⟩ := (qual_iff_qualifies st pri j).1 hj
            exact (hmax j (Nat.zero_le _) hj256 hqj).1
          · intro j hj e
            obtain ⟨hj256, hqj⟩ := (qual_iff_qualifies st pri j).1 hj
            exact (hmax j (Nat.zero_le _) hj256 hqj).2 e

set_option maxRecDepth 100000 in
theorem icu_acknowledges_highest_witness :
    (icu icu_state 0).1 = .ok 28
    ∧ ∃ k : Nat, (28 : Int) = (k : Int) ∧ qualifies icu_state 0 k
      ∧ (∀ j, qualifies icu_state 0 j → irq_priority icu_state j ≤ irq_priority icu_state k)
      ∧ (∀ j, qualifies icu_state 0 j → irq_priority icu_state j = irq_priority icu_state k
          → k ≤ j) :=
  ⟨by decide, icu_acknowledges_highest icu_state 0 28 (by decide) (by decide)⟩

/-- C10, as the claim states it, fails: with no interrupt pending at all, `icu`
does not return -1 when the byte at 0x00087000, which it resolves with the
writing intent, is classified as a pushed return address; it stops with
`SIM_ERR_CORRUPT_STACK`. -/
theorem icu_stops_on_pushed_pc :
    (∀ j, ¬ qualifies icu_pushed_state 0 j)
    ∧ (icu icu_pushed_state 0).1
        = .error (.execution_error .SIM_ERR_CORRUPT_STACK 0x00087000) := by
  refine ⟨fun j h => h.1.2.2.1 rfl, by decide⟩

/-- C10, amended: when none of the three bytes `icu` resolves with the writing
intent (0x00087000, 0x00087200, 0x00087300) is classified as a pushed return
address, `icu (pri)` returns, and it returns -1 exactly when no mapped interrupt
has its request flag set, its enable bit set and a priority strictly greater
than `pri`; in particular, with exactly two pending, enabled interrupts, at
priorities 3 and 5, `icu (0)` returns the one at priority 5 and `icu (5)`
returns -1. -/
theorem icu_none_iff (st : Mem) (pri : Int) (hready : icu_ready st) :
    (∃ r, (icu st pri).1 = .ok r)
    ∧ ((icu st pri).1 = .ok (-1) ↔ ∀ j, ¬ qualifies st pri j)
    ∧ (∀ i j : Nat, pending_enabled st i → pending_enabled st j →
        (∀ k, pending_enabled st k → k = i ∨ k = j) →
        irq_priority st i = 3 → irq_priority st j = 5 →
        (icu st 0).1 = .ok (j : Int) ∧ (icu st 5).1 = .ok (-1)) := by
  obtain ⟨r1, r2, r3⟩ := hready
  have hf : ∀ p : Int, (icu st p).1 = .ok (icu_loop (IR st) (IEN st) (IPR st) p 256 (-1, 0)).1 := by
    intro p
    rw [icu_fst, if_neg r1, if_neg r2, if_neg r3]
  have hnone : ∀ p : Int, (∀ j, ¬ qualifies st p j) → (icu st p).1 = .ok (-1) := by
    intro p hn
    rw [hf]
    rcases icu_loop_spec (IR st) (IEN st) (IPR st) p with ⟨h1, _, _⟩ | ⟨k, _, _, hk256, hqk, _, _⟩
    · rw [h1]
    · exact absurd ((qual_iff_qualifies st p k).2 ⟨hk256, hqk⟩) (hn k)
  refine ⟨⟨_, hf pri⟩, ⟨?_, hnone pri⟩, ?_⟩
  · intro h j hj
    rw [hf] at h
    have he : (icu_loop (IR st) (IEN st) (IPR st) pri 256 (-1, 0)).1 = -1 := by injection h
    obtain ⟨hj256, hqj⟩ := (qual_iff_qualifies st pri j).1 hj
    rcases icu_loop_spec (IR st) (IEN st) (IPR st) pri with ⟨_, _, hn⟩ | ⟨k, h1, _, _, _, _, _⟩
    · exact hn j (Nat.zero_le _) hj256 hqj
    · rw [he] at h1; omega
  · intro i j hi hj honly pi pj
    constructor
    · rw [hf]
      have hqj : qualifies st 0 j := ⟨hj, by rw [pj]; decide⟩
      rcases icu_loop_spec (IR st) (IEN st) (IPR st) 0 with
        ⟨_, _, hn⟩ | ⟨k, h1, _, hk256, hqk, _, hmax⟩
      · exact absurd ((qual_iff_qualifies st 0 j).1 hqj).2
          (hn j (Nat.zero_le _) ((qual_iff_qualifies st 0 j).1 hqj).1)
      · have hk : qualifies st 0 k := (qual_iff_qualifies st 0 k).2 ⟨hk256, hqk⟩
        have hle := (hmax j (Nat.zero_le _) ((qual_iff_qualifies st 0 j).1 hqj).1
          ((qual_iff_qualifies st 0 j).1 hqj).2).1
        rcases honly k hk.1 with e | e
        · subst e
          unfold irq_priority at pi pj
          omega
        · subst e
          rw [h1]
    · apply hnone
      intro k hk
      have hp := hk.2
      rcases honly k hk.1 with e | e
      · subst e; rw [pi] at hp; exact absurd hp (by decide)
      · subst e; rw [pj] at hp; exact absurd hp (by decide)

set_option maxRecDepth 100000 in
theorem icu_none_iff_witness :
    icu_ready icu_state ∧ irq_priority icu_state 29 = 3 ∧ irq_priority icu_state 28 = 5
    ∧ (icu icu_state 0).1 = .ok 28 ∧ (icu icu_state 5).1 = .ok (-1) :=
  ⟨by decide, by decide, by decide,
    (icu_none_iff icu_state 0 (by decide)).2.2 29 28 (by decide) (by decide)
      (fun k hk =>
        (by decide : ∀ k < 256, pending_enabled icu_state k → k = 29 ∨ k = 28) k hk.1 hk)
      (by decide) (by decide)⟩

/-! ## The 32-bit round trip -/

theorem sint32_of_lt (x : Int) (h0 : 0 ≤ x) (h1 : x < 2147483648) : sint32 x = x := by
  unfold sint32
  have : x % 4294967296 = x := Int.emod_eq_of_lt h0 (by omega)
  rw [this, if_pos h1]

theorem sint32_of_ge (x : Int) (h0 : 2147483648 ≤ x) (h1 : x < 4294967296) :
    sint32 x = x - 4294967296 := by
  unfold sint32
  have : x % 4294967296 = x := Int.emod_eq_of_lt (by omega) h1
  rw [this, if_neg (by omega)]

theorem ulong_of_neg (w : Nat) (hw : 32 ≤ w) (x : Int) (h0 : -4294967296 ≤ x) (h1 : x < 0) :
    ulong w x = 2 ^ w - 4294967296 + (x + 4294967296).toNat := by
  unfold ulong
  have hp : (4294967296 : Int) ≤ (2 : Int) ^ w := by
    have : (2 : Int) ^ 32 ≤ (2 : Int) ^ w := pow_le_pow_right₀ (by norm_num) hw
    simpa using this
  have hpn : (4294967296 : Nat) ≤ 2 ^ w := by
    have : (2 : Nat) ^ 32 ≤ 2 ^ w := Nat.pow_le_pow_right (by norm_num) hw
    simpa using this
  have e : x % (2 : Int) ^ w = x + (2 : Int) ^ w := by
    rw [← Int.add_mul_emod_self (a := x) (b := 1) (c := (2 : Int) ^ w)]
    rw [one_mul]
    exact Int.emod_eq_of_lt (by omega) (by omega)
  rw [e]
  have hc : ((2 ^ w : Nat) : Int) = (2 : Int) ^ w := by push_cast; rfl
  omega

theorem byte_n_eq (v k : Nat) : byte_n v k = v / 2 ^ (8 * k) % 256 := by
  unfold byte_n
  rw [and_ff, Nat.shiftRight_eq_div_pow]

theorem ulong_shl_small (w : Nat) (hw : 32 ≤ w) (c k n : Nat) (hn : c <<< k = n)
    (h : n < 2147483648) : ulong w (shl_int c k) = n := by
  unfold shl_int
  rw [hn, sint32_of_lt _ (Int.ofNat_nonneg _) (by omega),
    ulong_of_nonneg w hw _ (Int.ofNat_nonneg _) (by omega)]
  exact Int.toNat_ofNat n

theorem ulong_shl_large (w : Nat) (hw : 32 ≤ w) (c k n : Nat) (hn : c <<< k = n)
    (h0 : 2147483648 ≤ n) (h1 : n < 4294967296) :
    ulong w (shl_int c k) = 2 ^ w - 4294967296 + n := by
  unfold shl_int
  rw [hn, sint32_of_ge _ (by omega) (by omega), ulong_of_neg w hw _ (by omega) (by omega)]
  congr 1
  omega

theorem or_eq_add_256 (a b : Nat) (h : b < 256) : b ||| 256 * a = 256 * a + b := by
  have := Nat.mul_add_lt_is_or (i := 8) (b := b) (by simpa using h) a
  rw [Nat.or_comm]
  simpa using this.symm

theorem or_eq_add_65536 (a b : Nat) (h : b < 65536) : b ||| 65536 * a = 65536 * a + b := by
  have := Nat.mul_add_lt_is_or (i := 16) (b := b) (by simpa using h) a
  rw [Nat.or_comm]
  simpa using this.symm

theorem or_eq_add_16777216 (a b : Nat) (h : b < 16777216) :
    b ||| 16777216 * a = 16777216 * a + b := by
  have := Nat.mul_add_lt_is_or (i := 24) (b := b) (by simpa using h) a
  rw [Nat.or_comm]
  simpa using this.symm

/-- Four bytes reassembled the way `mem_get_si` does it: their sum by place
value when the top byte is below 0x80; otherwise the shift `<< 24` of the top
byte is a negative `int`, and its conversion to `unsigned long` sets every bit
from 32 up. -/
theorem combine_four (w : Nat) (hw : 32 ≤ w) (c0 c1 c2 c3 : Nat)
    (b0 : c0 < 256) (b1 : c1 < 256) (b2 : c2 < 256) (b3 : c3 < 256) :
    ulong w (c0 : Int) ||| ulong w (shl_int c1 8) ||| ulong w (shl_int c2 16)
        ||| ulong w (shl_int c3 24)
      = if c3 < 128 then c0 + 256 * c1 + 65536 * c2 + 16777216 * c3
        else c0 + 256 * c1 + 65536 * c2 + 16777216 * c3 + (2 ^ w - 4294967296) := by
  have e0 : ulong w (c0 : Int) = c0 := by
    rw [ulong_of_nonneg w hw _ (by omega) (by omega)]; simp
  have s1 : c1 <<< 8 = 256 * c1 := by rw [Nat.shiftLeft_eq]; omega
  have s2 : c2 <<< 16 = 65536 * c2 := by rw [Nat.shiftLeft_eq]; omega
  have s3 : c3 <<< 24 = 16777216 * c3 := by rw [Nat.shiftLeft_eq]; omega
  have e1 : ulong w (shl_int c1 8) = 256 * c1 := ulong_shl_small w hw c1 8 _ s1 (by omega)
  have e2 : ulong w (shl_int c2 16) = 65536 * c2 := ulong_shl_small w hw c2 16 _ s2 (by omega)
  have h24 : (2 : Nat) ^ 24 = 16777216 := by norm_num
  have h8 : (2 : Nat) ^ 8 = 256 := by norm_num
  have hpw : (2 : Nat) ^ w = 16777216 * 2 ^ (w - 24) := by
    have hp := Nat.pow_add 2 24 (w - 24)
    have e : 24 + (w - 24) = w := by omega
    rw [e, h24] at hp
    exact hp
  have hK : 256 ≤ 2 ^ (w - 24) := by
    have hp : (2 : Nat) ^ 8 ≤ 2 ^ (w - 24) := Nat.pow_le_pow_right (by norm_num) (by omega)
    rw [h8] at hp
    exact hp
  rw [e0, e1, e2, or_eq_add_256 c1 c0 b0, or_eq_add_65536 c2 _ (by omega)]
  by_cases h : c3 < 128
  · rw [ulong_shl_small w hw c3 24 _ s3 (by omega), or_eq_add_16777216 c3 _ (by omega),
      if_pos h]
    omega
  · have e3 : ulong w (shl_int c3 24) = 16777216 * (2 ^ (w - 24) - 256 + c3) := by
      rw [ulong_shl_large w hw c3 24 _ s3 (by omega) (by omega), hpw]
      generalize (2 : Nat) ^ (w - 24) = K at hK
      omega
    rw [e3, or_eq_add_16777216 _ _ (by omega), if_neg h, hpw]
    generalize (2 : Nat) ^ (w - 24) = K at hK
    omega

/-- The four bytes of a 32-bit value, reassembled the way `mem_get_si` does it:
the value itself below 2^31, and the value with every bit from 32 up set from
2^31 on. -/
theorem combine_bytes (w : Nat) (hw : 32 ≤ w) (v : Nat) (hv : v < 4294967296) :
    ulong w (byte_n v 0) ||| ulong w (shl_int (byte_n v 1) 8)
        ||| ulong w (shl_int (byte_n v 2) 16) ||| ulong w (shl_int (byte_n v 3) 24)
      = if v < 2147483648 then v else v + (2 ^ w - 4294967296) := by
  have h0 : byte_n v 0 = v % 256 := by rw [byte_n_eq]; simp
  have h1 : byte_n v 1 = v / 256 % 256 := by rw [byte_n_eq]; norm_num
  have h2 : byte_n v 2 = v / 65536 % 256 := by rw [byte_n_eq]; norm_num
  have h3 : byte_n v 3 = v / 16777216 % 256 := by rw [byte_n_eq]; norm_num
  rw [combine_four w hw _ _ _ _ (by omega) (by omega) (by omega) (by omega)]
  rw [h0, h1, h2, h3]
  by_cases h : v < 2147483648
  · rw [if_pos h, if_pos (by omega)]
    omega
  · rw [if_neg h, if_neg (by omega)]
    omega

theorem si_value_bytes (w : Nat) (hw : 32 ≤ w) (v : Nat) (hv : v < 4294967296) (be : Bool) :
    si_value w be (byte_n v (if be then 3 else 0)) (byte_n v (if be then 2 else 1))
        (byte_n v (if be then 1 else 2)) (byte_n v (if be then 0 else 3))
      = if v < 2147483648 then v else v + (2 ^ w - 4294967296) := by
  cases be
  · simp only [si_value, Bool.false_eq_true, if_false]
    exact combine_bytes w hw v hv
  · simp only [si_value, if_true]
    exact combine_bytes w hw v hv

/-- What `mem_get_si` returns after `mem_put_si` of a 32-bit value at four
writable addresses, for every width `w >= 32` of `unsigned long` and both
endianness configurations: the value itself below 2^31, and the value with every
bit from 32 up set from 2^31 on. -/
theorem put_si_get_si (w : Nat) (hw : 32 ≤ w) (st : Mem) (A : Int) (v mpc mpc' : Nat)
    (hv : v < 4294967296)
    (h0 : writable st (uint32 A)) (h1 : writable st (uint32 (A + 1)))
    (h2 : writable st (uint32 (A + 2))) (h3 : writable st (uint32 (A + 3))) :
    (mem_put_si w st A v mpc).1 = .ok ()
    ∧ (mem_get_si w (mem_put_si w st A v mpc).2 A mpc').1
        = .ok (if v < 2147483648 then v else v + (2 ^ w - 4294967296)) := by
  obtain ⟨hok, ⟨b0, b1, b2, b3⟩, ⟨c0, c1, c2, c3⟩, hbe⟩ :=
    mem_put_si_spec w st A v mpc h0 h1 h2 h3
  refine ⟨hok, ?_⟩
  rw [mem_get_si_ok w _ A mpc'
    (readable_of_data _ _ h0.1 h0.2.1 c0) (readable_of_data _ _ h1.1 h1.2.1 c1)
    (readable_of_data _ _ h2.1 h2.2.1 c2) (readable_of_data _ _ h3.1 h3.2.1 c3)]
  rw [b0, b1, b2, b3, hbe, si_value_bytes w hw v hv]

/-- C3 fails on the code where `unsigned long` is 64 bits wide: little-endian,
`mem_put_si (0x1000, 0x80000000)` followed by `mem_get_si (0x1000)` returns
0xffffffff80000000, not 0x80000000 (the same bytes read with a 32-bit
`unsigned long` give 0x80000000). -/
theorem get_si_sign_extends :
    (mem_put_si 64 Mem.zero 0x1000 0x80000000 0).1 = .ok ()
    ∧ (mem_get_si 64 (mem_put_si 64 Mem.zero 0x1000 0x80000000 0).2 0x1000 0).1
        = .ok 0xffffffff80000000
    ∧ (mem_get_si 32 (mem_put_si 32 Mem.zero 0x1000 0x80000000 0).2 0x1000 0).1
        = .ok 0x80000000 := by
  decide

set_option maxRecDepth 100000 in
theorem put_si_get_si_witness :
    (mem_get_si 32 (mem_put_si 32 { Mem.zero with rx_big_endian := true } 0x1000 0x80000001 0).2
        0x1000 0).1 = .ok 0x80000001
    ∧ (mem_get_si 64 (mem_put_si 64 Mem.zero 0x1000 0x11223344 0).2 0x1000 0).1
        = .ok 0x11223344 :=
  ⟨(put_si_get_si 32 (by decide) { Mem.zero with rx_big_endian := true } 0x1000 0x80000001 0 0
      (by decide) (by decide) (by decide) (by decide) (by decide)).2,
    (put_si_get_si 64 (by decide) Mem.zero 0x1000 0x11223344 0 0
      (by decide) (by decide) (by decide) (by decide) (by decide)).2⟩

/-! ## The 16-bit and 24-bit round trips -/

theorem mem_get_hi_ok (w : Nat) (st : Mem) (A : Int) (mpc : Nat)
    (h0 : readable st (uint32 A)) (h1 : readable st (uint32 (A + 1))) :
    (mem_get_hi w st A mpc).1
      = .ok (hi_value st.rx_big_endian (byte_of st (uint32 A)) (byte_of st (uint32 (A + 1)))) := by
  unfold mem_get_hi hi_value
  cases hbe : st.rx_big_endian
  · simp only [Bool.false_eq_true, if_false]
    obtain ⟨e0, k0⟩ := bind_get_byte st st (Keeps.refl st) _ h0
      (fun b0 st1 =>
        bind (mem_get_byte st1 (uint32 (A + 1))) fun b1 st2 =>
        finish_get w st2 2 mpc A .MEM_RW (ushort (ushort b0 ||| (b1 <<< 8))))
    rw [e0]
    obtain ⟨e1, _⟩ := bind_get_byte st _ k0 _ h1
      (fun b1 st2 =>
        finish_get w st2 2 mpc A .MEM_RW (ushort (ushort (byte_of st (uint32 A)) ||| (b1 <<< 8))))
    rw [e1]
    rfl
  · simp only [if_true]
    obtain ⟨e0, k0⟩ := bind_get_byte st st (Keeps.refl st) _ h0
      (fun b0 st1 =>
        bind (mem_get_byte st1 (uint32 (A + 1))) fun b1 st2 =>
        finish_get w st2 2 mpc A .MEM_RW (ushort (ushort (b0 <<< 8) ||| b1)))
    rw [e0]
    obtain ⟨e1, _⟩ := bind_get_byte st _ k0 _ h1
      (fun b1 st2 =>
        finish_get w st2 2 mpc A .MEM_RW (ushort (ushort (byte_of st (uint32 A) <<< 8) ||| b1)))
    rw [e1]
    rfl

theorem mem_get_psi_ok (w : Nat) (st : Mem) (A : Int) (mpc : Nat)
    (h0 : readable st (uint32 A)) (h1 : readable st (uint32 (A + 1)))
    (h2 : readable st (uint32 (A + 2))) :
    (mem_get_psi w st A mpc).1
      = .ok (psi_value w st.rx_big_endian (byte_of st (uint32 A)) (byte_of st (uint32 (A + 1)))
          (byte_of st (uint32 (A + 2)))) := by
  unfold mem_get_psi psi_value
  cases hbe : st.rx_big_endian
  · simp only [Bool.false_eq_true, if_false]
    obtain ⟨e0, k0⟩ := bind_get_byte st st (Keeps.refl st) _ h0
      (fun b0 st1 =>
        bind (mem_get_byte st1 (uint32 (A + 1))) fun b1 st2 =>
        bind (mem_get_byte st2 (uint32 (A + 2))) fun b2 st3 =>
        finish_get w st3 3 mpc A .MEM_RQ
          (ulong w b0 ||| ulong w (shl_int b1 8) ||| ulong w (shl_int b2 16)))
    rw [e0]
    obtain ⟨e1, k1⟩ := bind_get_byte st _ k0 _ h1
      (fun b1 st2 =>
        bind (mem_get_byte st2 (uint32 (A + 2))) fun b2 st3 =>
        finish_get w st3 3 mpc A .MEM_RQ
          (ulong w (byte_of st (uint32 A)) ||| ulong w (shl_int b1 8) ||| ulong w (shl_int b2 16)))
    rw [e1]
    obtain ⟨e2, _⟩ := bind_get_byte st _ k1 _ h2
      (fun b2 st3 =>
        finish_get w st3 3 mpc A .MEM_RQ
          (ulong w (byte_of st (uint32 A)) ||| ulong w (shl_int (byte_of st (uint32 (A + 1))) 8)
            ||| ulong w (shl_int b2 16)))
    rw [e2]
    rfl
  · simp only [if_true]
    obtain ⟨e0, k0⟩ := bind_get_byte st st (Keeps.refl st) _ h2
      (fun b2 st1 =>
        bind (mem_get_byte st1 (uint32 (A + 1))) fun b1 st2 =>
        bind (mem_get_byte st2 (uint32 A)) fun b0 st3 =>
        finish_get w st3 3 mpc A .MEM_RQ
          (ulong w b2 ||| ulong w (shl_int b1 8) ||| ulong w (shl_int b0 16)))
    rw [e0]
    obtain ⟨e1, k1⟩ := bind_get_byte st _ k0 _ h1
      (fun b1 st2 =>
        bind (mem_get_byte st2 (uint32 A)) fun b0 st3 =>
        finish_get w st3 3 mpc A .MEM_RQ
          (ulong w (byte_of st (uint32 (A + 2))) ||| ulong w (shl_int b1 8)
            ||| ulong w (shl_int b0 16)))
    rw [e1]
    obtain ⟨e2, _⟩ := bind_get_byte st _ k1 _ h0
      (fun b0 st3 =>
        finish_get w st3 3 mpc A .MEM_RQ
          (ulong w (byte_of st (uint32 (A + 2))) ||| ulong w (shl_int (byte_of st (uint32 (A + 1))) 8)
            ||| ulong w (shl_int b0 16)))
    rw [e2]
    rfl

theorem combine_two (c0 c1 : Nat) (b0 : c0 < 256) (b1 : c1 < 256) :
    ushort (ushort (c1 <<< 8) ||| c0) = c0 + 256 * c1
    ∧ ushort (ushort c0 ||| (c1 <<< 8)) = c0 + 256 * c1 := by
  have s1 : c1 <<< 8 = 256 * c1 := by rw [Nat.shiftLeft_eq]; omega
  have u1 : ushort (256 * c1) = 256 * c1 := by unfold ushort; omega
  have u0 : ushort c0 = c0 := by unfold ushort; omega
  have o : c0 ||| 256 * c1 = 256 * c1 + c0 := or_eq_add_256 c1 c0 b0
  have u : ushort (256 * c1 + c0) = 256 * c1 + c0 := by unfold ushort; omega
  rw [s1, u1, u0, Nat.or_comm (256 * c1) c0, o, u]
  omega

theorem combine_three (w : Nat) (hw : 32 ≤ w) (c0 c1 c2 : Nat)
    (b0 : c0 < 256) (b1 : c1 < 256) (b2 : c2 < 256) :
    ulong w (c0 : Int) ||| ulong w (shl_int c1 8) ||| ulong w (shl_int c2 16)
      = c0 + 256 * c1 + 65536 * c2 := by
  have e0 : ulong w (c0 : Int) = c0 := by
    rw [ulong_of_nonneg w hw _ (by omega) (by omega)]; simp
  have s1 : c1 <<< 8 = 256 * c1 := by rw [Nat.shiftLeft_eq]; omega
  have s2 : c2 <<< 16 = 65536 * c2 := by rw [Nat.shiftLeft_eq]; omega
  rw [e0, ulong_shl_small w hw c1 8 _ s1 (by omega), ulong_shl_small w hw c2 16 _ s2 (by omega),
    or_eq_add_256 c1 c0 b0, or_eq_add_65536 c2 _ (by omega)]
  omega

/-- The 16-bit and the 24-bit round trips are exact under both endianness
configurations: `mem_get_hi` after `mem_put_hi` returns every `v < 2^16`, and
`mem_get_psi` after `mem_put_psi` every `v < 2^24` (for an `unsigned long` of at
least 32 bits), at writable addresses. -/
theorem put_get_hi_psi (w : Nat) (hw : 32 ≤ w) (st : Mem) (A : Int) (v mpc mpc' : Nat)
    (h0 : writable st (uint32 A)) (h1 : writable st (uint32 (A + 1))) :
    (v < 65536 → (mem_get_hi w (mem_put_hi w st A v mpc).2 A mpc').1 = .ok v)
    ∧ (v < 16777216 → writable st (uint32 (A + 2)) →
        (mem_get_psi w (mem_put_psi w st A v mpc).2 A mpc').1 = .ok v) := by
  have n0 : byte_n v 0 = v % 256 := by rw [byte_n_eq]; simp
  have n1 : byte_n v 1 = v / 256 % 256 := by rw [byte_n_eq]; norm_num
  have n2 : byte_n v 2 = v / 65536 % 256 := by rw [byte_n_eq]; norm_num
  constructor
  · intro hv
    obtain ⟨_, ⟨b0, b1⟩, ⟨c0, c1⟩, hbe⟩ := mem_put_hi_spec w st A v mpc h0 h1
    rw [mem_get_hi_ok w _ A mpc' (readable_of_data _ _ h0.1 h0.2.1 c0)
      (readable_of_data _ _ h1.1 h1.2.1 c1), b0, b1, hbe]
    have hc := combine_two (byte_n v 0) (byte_n v 1) (by omega) (by omega)
    congr 1
    unfold hi_value
    cases st.rx_big_endian
    · simp only [Bool.false_eq_true, if_false]
      rw [hc.2, n0, n1]; omega
    · simp only [if_true]
      rw [hc.1, n0, n1]; omega
  · intro hv h2
    obtain ⟨_, ⟨b0, b1, b2⟩, ⟨c0, c1, c2⟩, hbe⟩ := mem_put_psi_spec w st A v mpc h0 h1 h2
    rw [mem_get_psi_ok w _ A mpc' (readable_of_data _ _ h0.1 h0.2.1 c0)
      (readable_of_data _ _ h1.1 h1.2.1 c1) (readable_of_data _ _ h2.1 h2.2.1 c2),
      b0, b1, b2, hbe]
    have hc := combine_three w hw (byte_n v 0) (byte_n v 1) (byte_n v 2)
      (by omega) (by omega) (by omega)
    congr 1
    unfold psi_value
    cases st.rx_big_endian
    · simp only [Bool.false_eq_true, if_false]
      rw [hc, n0, n1, n2]; omega
    · simp only [if_true]
      rw [hc, n0, n1, n2]; omega

set_option maxRecDepth 100000 in
theorem put_get_hi_psi_witness :
    (mem_get_hi 64 (mem_put_hi 64 Mem.zero 0x1000 0x8001 0).2 0x1000 0).1 = .ok 0x8001
    ∧ (mem_get_psi 64 (mem_put_psi 64 Mem.zero 0x1000 0x800001 0).2 0x1000 0).1
        = .ok 0x800001 :=
  ⟨(put_get_hi_psi 64 (by decide) Mem.zero 0x1000 0x8001 0 0 (by decide) (by decide)).1
      (by decide),
    (put_get_hi_psi 64 (by decide) Mem.zero 0x1000 0x800001 0 0 (by decide) (by decide)).2
      (by decide) (by decide)⟩

end Rx

namespace H8

open Rx (uchar ushort uint32 sint32)

/-! ## Integer conversions -/

theorem sint32_small (x : Int) (h0 : 0 ≤ x) (h1 : x < 2147483648) : sint32 x = x := by
  unfold sint32
  have : x % 4294967296 = x := Int.emod_eq_of_lt h0 (by omega)
  rw [this]; simp [h1]

theorem uint32_small (x : Nat) (h1 : x < 4294967296) : uint32 (x : Int) = x := by
  unfold uint32
  have : (x : Int) % 4294967296 = x := Int.emod_eq_of_lt (by omega) (by omega)
  rw [this]; simp

theorem uchar_lt (x : Nat) : uchar x < 256 := by unfold uchar; omega

theorem reg_lt (st : Sim) (a : Nat) : reg st a < 256 := uchar_lt _

theorem mem_lt (st : Sim) (a : Nat) : mem st a < 256 := uchar_lt _

/-! ## The interrupt controller -/

/-- What the loop of `intcont` answers on any table. -/
theorem intcont_loop_eq (st : Sim) (l : List int_list_t) :
    intcont_loop st l =
      match (l.takeWhile (fun e => e.vector > 0)).find? (asserted st) with
      | some e => get_priority st e.vector
      | none => if l.all (fun e => e.vector > 0) then none else some 0 := by
  induction l with
  | nil => simp [intcont_loop]
  | cons e rest ih =>
    unfold intcont_loop
    by_cases hv : e.vector > 0
    · by_cases ha : asserted st e = true
      · simp [hv, ha, List.takeWhile_cons, List.find?_cons]
      · simp only [Bool.not_eq_true] at ha
        simp [hv, ha, List.takeWhile_cons, List.find?_cons, ih]
    · simp [hv, List.takeWhile_cons]

/-- C11, as stated, fails: with IMIA0 at level 0 and RXI0 at level 1 both
enabled and pending, `intcont` answers 24, the vector of IMIA0 at level 0,
although RXI0 is asserted at the higher level. -/
theorem intcont_not_highest :
    intcont two_events = some 24 ∧ level two_events 24 = 0 ∧ level two_events 53 = 1 ∧
      ¬ answers_highest two_events := by
  decide

theorem get_priority_h (st : Sim) (hs : st.h8300smode = 0) (hh : st.h8300hmode ≠ 0)
    (e : int_list_t) (he : e ∈ h8300h_int_table.takeWhile (fun e => e.vector > 0)) :
    get_priority st e.vector = some (e.vector + 0x100 * level st e.vector) ∧
      0 ≤ level st e.vector ∧ level st e.vector ≤ 1 := by
  have key : ∀ f ∈ h8300h_int_table.takeWhile (fun e => e.vector > 0),
      ∃ b : Int, index ipr_bit f.vector = some b ∧ 0 ≤ b := by decide
  obtain ⟨b, hb, hb0⟩ := key e he
  have hb' : ¬ b < 0 := by omega
  unfold level
  by_cases hi : (if b < 8 then mem st IPRA_H8300H else mem st IPRB_H8300H) &&&
      1 <<< (b.toNat &&& 7) ≠ 0
  · have : get_priority st e.vector = some (e.vector + 0x100) := by
      simp only [get_priority, hs, hb, hb']; simp [hh, hi]
    rw [this]; simp
  · have : get_priority st e.vector = some e.vector := by
      simp only [get_priority, hs, hb, hb']; simp [hh, hi]
    rw [this]; simp

theorem get_priority_s (st : Sim) (hs : st.h8300smode ≠ 0)
    (e : int_list_t) (he : e ∈ h8300s_int_table.takeWhile (fun e => e.vector > 0)) :
    get_priority st e.vector = some (e.vector + 0x100 * level st e.vector) ∧
      0 ≤ level st e.vector ∧ level st e.vector ≤ 7 := by
  have key : ∀ f ∈ h8300s_int_table.takeWhile (fun e => e.vector > 0),
      ∃ pos : Nat, index ipr_table f.vector = some pos ∧ pos ≠ 0xff := by decide
  obtain ⟨pos, hp, hp0⟩ := key e he
  obtain ⟨x, hx⟩ : ∃ x : Nat, get_priority st e.vector
      = some (e.vector + (((x &&& 7) * 0x100 : Nat) : Int)) := by
    refine ⟨ushort ((mem st (IPRA_H8300S + ((pos &&& 0xf0) >>> 3)) <<< 8) |||
          mem st (IPRA_H8300S + ((pos &&& 0xf0) >>> 3) + 1)) >>> ((pos &&& 0x0f) * 4), ?_⟩
    simp only [get_priority, hp]
    simp only [hs, hp0, ne_eq, not_false_eq_true, ↓reduceIte]
  have h7 : x &&& 7 ≤ 7 := Nat.and_le_right
  unfold level
  rw [hx]
  have : (e.vector + (((x &&& 7) * 0x100 : Nat) : Int) - e.vector) / 0x100
      = ((x &&& 7 : Nat) : Int) := by
    push_cast; omega
  simp only [this]
  refine ⟨by push_cast; ring_nf, by omega, by omega⟩

theorem intcont_eq (st : Sim)
    (ht : st.int_table = h8300h_int_table ∨ st.int_table = h8300s_int_table ∨
      st.int_table = h8300sx_int_table) :
    intcont st = match first_asserted st with
      | some e => get_priority st e.vector
      | none => some 0 := by
  have hterm : st.int_table.all (fun e => e.vector > 0) = false := by
    rcases ht with h | h | h <;> rw [h] <;> decide
  unfold intcont first_asserted events
  rw [intcont_loop_eq, hterm]
  cases List.find? (asserted st) (List.takeWhile (fun e => decide (e.vector > 0)) st.int_table)
    <;> simp

/-- C11, amended: for every H8 register state (any of the three interrupt
tables) in which at least one event has both its enable bit and its status bit
set, `intcont` returns what `get_priority` makes of the first such event in
table order, whatever the levels of the later ones; it returns 0 (none) when no
event has both bits set.  On the H8/300H table in H8/300H mode and on the H8S
table in H8S mode that answer is the vector plus 0x100 times its level, a level
of at most 1 and at most 7. -/
theorem intcont_first_asserted (st : Sim)
    (ht : st.int_table = h8300h_int_table ∨ st.int_table = h8300s_int_table ∨
      st.int_table = h8300sx_int_table) :
    ((∃ e ∈ events st, asserted st e = true) →
      ∃ e before after, events st = before ++ e :: after ∧
        (∀ f ∈ before, asserted st f = false) ∧ asserted st e = true ∧
        intcont st = get_priority st e.vector) ∧
    ((∀ e ∈ events st, asserted st e = false) → intcont st = some 0) ∧
    (st.h8300smode = 0 → st.h8300hmode ≠ 0 → st.int_table = h8300h_int_table →
      ∀ e ∈ events st, get_priority st e.vector = some (e.vector + 0x100 * level st e.vector) ∧
        0 ≤ level st e.vector ∧ level st e.vector ≤ 1) ∧
    (st.h8300smode ≠ 0 → st.int_table = h8300s_int_table →
      ∀ e ∈ events st, get_priority st e.vector = some (e.vector + 0x100 * level st e.vector) ∧
        0 ≤ level st e.vector ∧ level st e.vector ≤ 7) := by
  refine ⟨?_, ?_, ?_, ?_⟩
  · rintro ⟨e, he, ha⟩
    cases hf : first_asserted st with
    | none =>
      have := (List.find?_eq_none.1 hf) e he
      exact absurd ha this
    | some g =>
      obtain ⟨hg, l1, l2, hl, hb⟩ := List.find?_eq_some.1 hf
      refine ⟨g, l1, l2, hl, fun f hfm => by simpa using hb f hfm, hg, ?_⟩
      rw [intcont_eq st ht, hf]
  · intro hall
    have hf : first_asserted st = none :=
      List.find?_eq_none.2 (fun x hx => by simp [hall x hx])
    rw [intcont_eq st ht, hf]
  · intro hs hh htab e he
    unfold events at he
    rw [htab] at he
    exact get_priority_h st hs hh e he
  · intro hs htab e he
    unfold events at he
    rw [htab] at he
    exact get_priority_s st hs e he

set_option maxRecDepth 100000 in
theorem intcont_first_asserted_witness :
    (∃ e ∈ events two_events, asserted two_events e = true) ∧
      ∃ e before after, events two_events = before ++ e :: after ∧
        (∀ f ∈ before, asserted two_events f = false) ∧ asserted two_events e = true ∧
        intcont two_events = get_priority two_events e.vector :=
  ⟨by decide, (intcont_first_asserted two_events (Or.inl rfl)).1 (by decide)⟩

/-! ## The time one byte takes -/

theorem and3_lt (x : Nat) : x &&& 3 < 4 :=
  Nat.lt_succ_of_le Nat.and_le_right

theorem bits_per_frame_bounds (smr : Nat) : 7 ≤ bits_per_frame smr ∧ bits_per_frame smr ≤ 10 := by
  unfold bits_per_frame
  split_ifs <;> omega

theorem clock_divisor_cases (smr : Nat) :
    (smr &&& 3 = 0 ∧ clock_divisor smr = 1) ∨ (smr &&& 3 = 1 ∧ clock_divisor smr = 4) ∨
      (smr &&& 3 = 2 ∧ clock_divisor smr = 16) ∨ (smr &&& 3 = 3 ∧ clock_divisor smr = 64) := by
  have h := and3_lt smr
  unfold clock_divisor
  interval_cases hx : smr &&& 3 <;> simp

theorem frame_product (n d brr : Nat) (hn : n ≤ 10) (hd : d ≤ 64) (hb : brr < 256) :
    uint32 (sint32 (sint32 (sint32 (((n + 2 : Nat) : Int) * 32) * (d : Int)) * (brr : Int)))
      = (n + 2) * 32 * d * brr ∧ (n + 2) * 32 * d * brr ≤ 6266880 := by
  have h1 : (n + 2) * 32 ≤ 384 := by omega
  have h2 : (n + 2) * 32 * d ≤ 384 * 64 := Nat.mul_le_mul h1 hd
  have h3 : (n + 2) * 32 * d * brr ≤ 384 * 64 * 255 := Nat.mul_le_mul h2 (by omega)
  have e1 : sint32 (((n + 2 : Nat) : Int) * 32) = (((n + 2) * 32 : Nat) : Int) := by
    rw [sint32_small] <;> push_cast <;> omega
  have e2 : sint32 ((((n + 2) * 32 : Nat) : Int) * (d : Int))
      = (((n + 2) * 32 * d : Nat) : Int) := by
    rw [← Nat.cast_mul]
    generalize (n + 2) * 32 * d = a at h2
    rw [sint32_small] <;> omega
  have e3 : sint32 ((((n + 2) * 32 * d : Nat) : Int) * (brr : Int))
      = (((n + 2) * 32 * d * brr : Nat) : Int) := by
    rw [← Nat.cast_mul]
    generalize (n + 2) * 32 * d * brr = a at h3
    rw [sint32_small] <;> omega
  rw [e1, e2, e3, uint32_small _ (by omega)]
  exact ⟨rfl, by omega⟩

theorem sci_complete_time_of_eq (smr brr : Nat) (hb : brr < 256) :
    sci_complete_time_of smr brr = cycles_per_byte smr brr ∧
      cycles_per_byte smr brr ≤ 12 * 32 * 64 * 255 := by
  obtain ⟨l7, l10⟩ := bits_per_frame_bounds smr
  have hlen : (sint32 (sint32 (sint32 ((if smr &&& 0x40 ≠ 0 then 7 else 8 : Int)
      + (if smr &&& 0x20 ≠ 0 then 1 else 0)) + (if smr &&& 0x08 ≠ 0 then 1 else 0)) + 2))
      = ((bits_per_frame smr + 2 : Nat) : Int) := by
    unfold bits_per_frame
    split_ifs <;> simp [sint32]
  unfold sci_complete_time_of cycles_per_byte
  simp only [hlen]
  generalize bits_per_frame smr = n at l7 l10 ⊢
  rcases clock_divisor_cases smr with ⟨h, hd⟩ | ⟨h, hd⟩ | ⟨h, hd⟩ | ⟨h, hd⟩ <;>
    rw [h, hd] <;> simp only [List.getD_cons_zero, List.getD_cons_succ]
  · exact frame_product n 1 brr l10 (by omega) hb
  · exact frame_product n 4 brr l10 (by omega) hb
  · exact frame_product n 16 brr l10 (by omega) hb
  · exact frame_product n 64 brr l10 (by omega) hb

/-! ## Masks as arithmetic -/

theorem and_byte_mask (x m : Nat) (hm : m < 256) : x &&& m = (x % 256) &&& m := by
  have h255 : (255 : Nat) = 2 ^ 8 - 1 := rfl
  have : (255 &&& m : Nat) = m := by
    rw [Nat.and_comm, h255, Nat.and_pow_two_sub_one_eq_mod]; exact Nat.mod_eq_of_lt hm
  conv_lhs => rw [← this, ← Nat.and_assoc, h255, Nat.and_pow_two_sub_one_eq_mod]

theorem or_byte_mask (x m : Nat) (hm : m < 256) : x ||| m = x / 256 * 256 + ((x % 256) ||| m) := by
  have hy : x % 256 < 2 ^ 8 := Nat.mod_lt _ (by decide)
  have hym : (x % 256 ||| m) < 2 ^ 8 := Nat.or_lt_two_pow hy hm
  have e1 : x = 2 ^ 8 * (x / 256) ||| x % 256 := by
    rw [← Nat.mul_add_lt_is_or hy]; omega
  conv_lhs => rw [e1, Nat.or_assoc, ← Nat.mul_add_lt_is_or hym]
  omega

set_option maxRecDepth 100000 in
theorem byte_masks : ∀ y < 256,
    y &&& 0x20 = y / 32 % 2 * 32 ∧ y &&& 0x40 = y / 64 % 2 * 64 ∧
    y &&& 0x80 = y / 128 % 2 * 128 ∧ y &&& 0xe0 = y / 32 % 8 * 32 ∧
    y &&& 0xf0 = y / 16 % 16 * 16 ∧ y ||| 0x20 = y + 32 - y / 32 % 2 * 32 ∧
    y ||| 0x40 = y + 64 - y / 64 % 2 * 64 ∧ y ||| 0x80 = y + 128 - y / 128 % 2 * 128 ∧
    y &&& 0x18 = y / 8 % 4 * 8 ∧ y &&& 0x84 = y / 128 % 2 * 128 + y / 4 % 2 * 4 ∧
    y &&& 0x04 = y / 4 % 2 * 4 ∧ y &&& 0x10 = y / 16 % 2 * 16 ∧
    y &&& 0xfb = y - y / 4 % 2 * 4 ∧ y ||| 0x04 = y + 4 - y / 4 % 2 * 4 := by
  decide

theorem and_20 (x : Nat) : x &&& 0x20 = x / 32 % 2 * 32 := by
  rw [and_byte_mask x _ (by decide), (byte_masks _ (Nat.mod_lt _ (by decide))).1]; omega

theorem and_40 (x : Nat) : x &&& 0x40 = x / 64 % 2 * 64 := by
  rw [and_byte_mask x _ (by decide), (byte_masks _ (Nat.mod_lt _ (by decide))).2.1]; omega

theorem and_80 (x : Nat) : x &&& 0x80 = x / 128 % 2 * 128 := by
  rw [and_byte_mask x _ (by decide), (byte_masks _ (Nat.mod_lt _ (by decide))).2.2.1]; omega

theorem and_e0 (x : Nat) : x &&& 0xe0 = x / 32 % 8 * 32 := by
  rw [and_byte_mask x _ (by decide), (byte_masks _ (Nat.mod_lt _ (by decide))).2.2.2.1]; omega

theorem and_f0 (x : Nat) : x &&& 0xf0 = x / 16 % 16 * 16 := by
  rw [and_byte_mask x _ (by decide), (byte_masks _ (Nat.mod_lt _ (by decide))).2.2.2.2.1]; omega

theorem and_1f (x : Nat) : x &&& 0x1f = x % 32 :=
  Nat.and_pow_two_sub_one_eq_mod x 5

theorem and_07 (x : Nat) : x &&& 0x07 = x % 8 :=
  Nat.and_pow_two_sub_one_eq_mod x 3

theorem and_ff_mod (x : Nat) : x &&& 0xff = x % 256 :=
  Nat.and_pow_two_sub_one_eq_mod x 8

theorem or_20 (x : Nat) : x ||| 0x20 = x + 32 - x / 32 % 2 * 32 := by
  rw [or_byte_mask x _ (by decide), (byte_masks _ (Nat.mod_lt _ (by decide))).2.2.2.2.2.1]; omega

theorem or_40 (x : Nat) : x ||| 0x40 = x + 64 - x / 64 % 2 * 64 := by
  rw [or_byte_mask x _ (by decide), (byte_masks _ (Nat.mod_lt _ (by decide))).2.2.2.2.2.2.1]; omega

theorem or_80 (x : Nat) : x ||| 0x80 = x + 128 - x / 128 % 2 * 128 := by
  rw [or_byte_mask x _ (by decide), (byte_masks _ (Nat.mod_lt _ (by decide))).2.2.2.2.2.2.2.1]; omega

/-- The union of a value below 32 with a multiple of 32 is their sum. -/
theorem or_low_high (a b : Nat) (ha : a < 32) : a ||| b * 32 = a + b * 32 := by
  rw [Nat.or_comm]
  have := Nat.mul_add_lt_is_or (i := 5) (b := a) (by simpa using ha) b
  rw [show (2 : Nat) ^ 5 = 32 from rfl] at this
  rw [Nat.mul_comm b 32, ← this]; omega

theorem and_18 (x : Nat) : x &&& 0x18 = x / 8 % 4 * 8 := by
  rw [and_byte_mask x _ (by decide), (byte_masks _ (Nat.mod_lt _ (by decide))).2.2.2.2.2.2.2.2.1]
  omega

theorem and_84 (x : Nat) : x &&& 0x84 = x / 128 % 2 * 128 + x / 4 % 2 * 4 := by
  rw [and_byte_mask x _ (by decide),
    (byte_masks _ (Nat.mod_lt _ (by decide))).2.2.2.2.2.2.2.2.2.1]
  omega

theorem and_04 (x : Nat) : x &&& 0x04 = x / 4 % 2 * 4 := by
  rw [and_byte_mask x _ (by decide),
    (byte_masks _ (Nat.mod_lt _ (by decide))).2.2.2.2.2.2.2.2.2.2.1]
  omega

theorem and_10 (x : Nat) : x &&& 0x10 = x / 16 % 2 * 16 := by
  rw [and_byte_mask x _ (by decide),
    (byte_masks _ (Nat.mod_lt _ (by decide))).2.2.2.2.2.2.2.2.2.2.2.1]
  omega

theorem and_fb (x : Nat) : x % 256 &&& 0xfb = x % 256 - x / 4 % 2 * 4 := by
  rw [(byte_masks _ (Nat.mod_lt _ (by decide))).2.2.2.2.2.2.2.2.2.2.2.2.1]
  omega

theorem or_04 (x : Nat) : x ||| 0x04 = x + 4 - x / 4 % 2 * 4 := by
  rw [or_byte_mask x _ (by decide),
    (byte_masks _ (Nat.mod_lt _ (by decide))).2.2.2.2.2.2.2.2.2.2.2.2.2]
  omega

/-! ## Registers and shadows under the assignments -/

@[simp] theorem reg_set_reg (st : Sim) (a v a' : Nat) :
    reg (set_reg st a v) a' = if a' = a then v % 256 else reg st a' := by
  unfold reg set_reg upd uchar
  by_cases h : a' = a <;> simp [h]

@[simp] theorem reg_set_tcsr (st : Sim) (tm v a : Nat) : reg (set_tcsr st tm v) a = reg st a := rfl

@[simp] theorem tcsr_set_reg (st : Sim) (a v : Nat) : (set_reg st a v).tcsr = st.tcsr := rfl

@[simp] theorem byte_set_tcsr (st : Sim) (tm v tm' : Nat) :
    byte (set_tcsr st tm v).tcsr tm' = if tm' = tm then v % 256 else byte st.tcsr tm' := by
  unfold byte set_tcsr upd uchar
  by_cases h : tm' = tm <;> simp [h]

@[simp] theorem base_set_reg (st : Sim) (a v : Nat) :
    (set_reg st a v).timer8_base = st.timer8_base := rfl

@[simp] theorem base_set_tcsr (st : Sim) (tm v : Nat) :
    (set_tcsr st tm v).timer8_base = st.timer8_base := rfl

@[simp] theorem prescale_set_reg (st : Sim) (a v : Nat) :
    (set_reg st a v).prescale = st.prescale := rfl

@[simp] theorem prescale_set_tcsr (st : Sim) (tm v : Nat) :
    (set_tcsr st tm v).prescale = st.prescale := rfl

theorem byte_lt (f : Nat → Nat) (i : Nat) : byte f i < 256 := uchar_lt _

/-! ## One tick of a channel in 8-bit mode -/

theorem timer8_match8_snd (st : Sim) (tm b cnt : Nat) :
    (timer8_match8 st tm b cnt).2 =
      (let c1 := if cnt ≥ reg st (b + 4) ∧ reg st b &&& 0x18 = 0x08 then 0 else cnt
       if c1 ≥ reg st (b + 6) ∧ reg st b &&& 0x18 = 0x10 then 0 else c1) := by
  unfold timer8_match8
  by_cases h1 : cnt ≥ reg st (b + 4) <;> by_cases h2 : reg st b &&& 0x18 = 0x08 <;>
    by_cases h3 : reg st b &&& 0x18 = 0x10 <;> simp [h1, h2, h3] <;>
    split_ifs <;> simp_all

theorem timer8_match8_tcnt (st : Sim) (tm b cnt : Nat) :
    reg (timer8_match8 st tm b cnt).1 (b + 8) = (timer8_match8 st tm b cnt).2 % 256 := by
  unfold timer8_match8
  by_cases h1 : cnt ≥ reg st (b + 4) <;> by_cases h2 : reg st b &&& 0x18 = 0x08 <;>
    by_cases h3 : reg st b &&& 0x18 = 0x10 <;> simp [h1, h2, h3]

theorem or_lt_256 {x y : Nat} (hx : x < 256) (hy : y < 256) : x ||| y < 256 :=
  Nat.or_lt_two_pow (n := 8) hx hy

theorem and_lt_256 (x : Nat) {y : Nat} (hy : y < 256) : x &&& y < 256 :=
  Nat.and_lt_two_pow (n := 8) x hy

theorem mod256_eq {x : Nat} (hx : x < 256) : x % 256 = x := Nat.mod_eq_of_lt hx

theorem timer8_match8_obs (st : Sim) (tm b cnt : Nat) :
    byte (timer8_match8 st tm b cnt).1.tcsr tm =
      (byte st.tcsr tm ||| (if cnt ≥ reg st (b + 4) then 0x40 else 0)) |||
        (if (if cnt ≥ reg st (b + 4) ∧ reg st b &&& 0x18 = 0x08 then 0 else cnt)
          ≥ reg st (b + 6) then 0x80 else 0) ∧
    reg (timer8_match8 st tm b cnt).1 (b + 2) =
      (reg st (b + 2) &&& 0x1f) ||| (byte (timer8_match8 st tm b cnt).1.tcsr tm &&& 0xe0) ∧
    (∀ a, a ≠ b + 8 → a ≠ b + 2 → reg (timer8_match8 st tm b cnt).1 a = reg st a) ∧
    (∀ i, i ≠ tm → byte (timer8_match8 st tm b cnt).1.tcsr i = byte st.tcsr i) ∧
    (timer8_match8 st tm b cnt).1.timer8_base = st.timer8_base ∧
    (timer8_match8 st tm b cnt).1.prescale = st.prescale := by
  have hs := byte_lt st.tcsr tm
  have hr := reg_lt st (b + 2)
  unfold timer8_match8
  by_cases h1 : cnt ≥ reg st (b + 4) <;> by_cases h2 : reg st b &&& 0x18 = 0x08 <;>
    by_cases h3 : reg st b &&& 0x18 = 0x10 <;>
    simp [h1, h2, h3, or_lt_256, and_lt_256, mod256_eq, reg_lt, byte_lt] <;>
    split_ifs <;> simp_all [or_lt_256, and_lt_256, mod256_eq, reg_lt, byte_lt]

/-- The loop body on a channel in 8-bit mode, for the count `c` it works with:
the incremented counter when the expired prescaler is the selected one, the
value the local `cnt` already has when it is not.  The count, the counter
register, the shadow and the status register it leaves, and what it leaves
alone. -/
theorem timer8_channel_8bit (st : Sim) (pcnt tm b b2 c : Nat) (cnt : Option Nat)
    (h : mode8 st tm b b2)
    (hc : (reg st b &&& 0x07 = pcnt + 1 ∧ c = count8 st b) ∨
      (reg st b &&& 0x07 ≠ pcnt + 1 ∧ cnt = some c)) :
    ∃ st', timer8_channel st pcnt tm cnt = some (st', some (count_b st b c)) ∧
      reg st' (b + 8) = count_b st b c % 256 ∧
      byte st'.tcsr tm = (byte st.tcsr tm &&& (reg st (b + 2) &&& 0xf0)) ||| events8 st b c ∧
      reg st' (b + 2) = (reg st (b + 2) &&& 0x1f) ||| (byte st'.tcsr tm &&& 0xe0) ∧
      (∀ a, a ≠ b + 8 → a ≠ b + 2 → reg st' a = reg st a) ∧
      (∀ i, i ≠ tm → byte st'.tcsr i = byte st.tcsr i) ∧
      st'.timer8_base = st.timer8_base ∧ st'.prescale = st.prescale := by
  obtain ⟨hb, hb2, hle, hen, h8⟩ := h
  have hm : (byte st.tcsr tm &&& (reg st (b + 2) &&& 240)) % 256
      = byte st.tcsr tm &&& (reg st (b + 2) &&& 240) :=
    mod256_eq (and_lt_256 _ (and_lt_256 _ (by decide)))
  have e4 : b + 4 ≠ b + 8 := by omega
  have e6 : b + 6 ≠ b + 8 := by omega
  have e2 : b + 2 ≠ b + 8 := by omega
  have e0 : b ≠ b + 8 := by omega
  rcases hc with ⟨hsel, hc⟩ | ⟨hsel, hc⟩
  · subst hc
    have hnc : ¬ (reg st (b + 8) + 1) % 256 ≥ 0x100 := by
      have := Nat.mod_lt (reg st (b + 8) + 1) (show 0 < 256 by decide); omega
    obtain ⟨o1, o2, o3, o4, o5, o6⟩ := timer8_match8_obs
      (set_reg (set_tcsr st tm (byte st.tcsr tm &&& (reg st (b + 2) &&& 0xf0))) (b + 8)
        (reg st (b + 8) + 1)) tm b ((reg st (b + 8) + 1) % 256)
    have o0 := timer8_match8_snd
      (set_reg (set_tcsr st tm (byte st.tcsr tm &&& (reg st (b + 2) &&& 0xf0))) (b + 8)
        (reg st (b + 8) + 1)) tm b ((reg st (b + 8) + 1) % 256)
    have ot := timer8_match8_tcnt
      (set_reg (set_tcsr st tm (byte st.tcsr tm &&& (reg st (b + 2) &&& 0xf0))) (b + 8)
        (reg st (b + 8) + 1)) tm b ((reg st (b + 8) + 1) % 256)
    simp only [reg_set_reg, reg_set_tcsr, tcsr_set_reg, byte_set_tcsr, e4, e6, e2, e0,
      ↓reduceIte, base_set_reg, base_set_tcsr, prescale_set_reg, prescale_set_tcsr]
      at o0 o1 o2 o3 o4 o5 o6 ot
    have hcb : (timer8_match8
        (set_reg (set_tcsr st tm (byte st.tcsr tm &&& (reg st (b + 2) &&& 0xf0))) (b + 8)
          (reg st (b + 8) + 1)) tm b ((reg st (b + 8) + 1) % 256)).2
        = count_b st b (count8 st b) := by
      rw [o0]; simp [count_b, match_b, count_a, match_a, count8]
    refine ⟨(timer8_match8
        (set_reg (set_tcsr st tm (byte st.tcsr tm &&& (reg st (b + 2) &&& 0xf0))) (b + 8)
          (reg st (b + 8) + 1)) tm b ((reg st (b + 8) + 1) % 256)).1, ?_, ?_, ?_, ?_, ?_, ?_, ?_, ?_⟩
    · simp only [timer8_channel, hb, hen, ↓reduceIte, base_set_tcsr, hb2, reg_set_tcsr, h8,
        timer8_8bit, hsel, reg_set_reg, hnc, ← hcb]
      simp
    · rw [ot, hcb]
    · rw [o1]
      simp only [hm, events8, match_a, match_b, count_a, count8, Nat.or_assoc,
        decide_eq_true_eq, ge_iff_le]
    · exact o2
    · intro a h1 h2
      rw [o3 a h1 h2]; simp [h1]
    · intro i hi
      rw [o4 i hi]; simp [hi]
    · exact o5
    · exact o6
  · subst hc
    obtain ⟨o1, o2, o3, o4, o5, o6⟩ := timer8_match8_obs
      (set_tcsr st tm (byte st.tcsr tm &&& (reg st (b + 2) &&& 0xf0))) tm b c
    have o0 := timer8_match8_snd
      (set_tcsr st tm (byte st.tcsr tm &&& (reg st (b + 2) &&& 0xf0))) tm b c
    have ot := timer8_match8_tcnt
      (set_tcsr st tm (byte st.tcsr tm &&& (reg st (b + 2) &&& 0xf0))) tm b c
    simp only [reg_set_reg, reg_set_tcsr, tcsr_set_reg, byte_set_tcsr, e4, e6, e2, e0,
      ↓reduceIte, base_set_reg, base_set_tcsr, prescale_set_reg, prescale_set_tcsr]
      at o0 o1 o2 o3 o4 o5 o6 ot
    have hcb : (timer8_match8
        (set_tcsr st tm (byte st.tcsr tm &&& (reg st (b + 2) &&& 0xf0))) tm b c).2
        = count_b st b c := by
      rw [o0]; simp [count_b, match_b, count_a, match_a]
    refine ⟨(timer8_match8
        (set_tcsr st tm (byte st.tcsr tm &&& (reg st (b + 2) &&& 0xf0))) tm b c).1,
        ?_, ?_, ?_, ?_, ?_, ?_, ?_, ?_⟩
    · simp only [timer8_channel, hb, hen, ↓reduceIte, base_set_tcsr, hb2, reg_set_tcsr, h8,
        timer8_8bit, hsel, ← hcb]
    · rw [ot, hcb]
    · rw [o1]
      simp only [hm, events8, match_a, match_b, count_a, Nat.or_assoc,
        decide_eq_true_eq, ge_iff_le]
    · exact o2
    · exact o3
    · intro i hi
      rw [o4 i hi]; simp [hi]
    · exact o5
    · exact o6

/-- The loop body on a channel in 8-bit mode reads the local `cnt` unassigned
when the expired prescaler is not the selected one and nothing was assigned
before. -/
theorem timer8_channel_unassigned (st : Sim) (pcnt tm b b2 : Nat) (h : mode8 st tm b b2)
    (hsel : reg st b &&& 0x07 ≠ pcnt + 1) : timer8_channel st pcnt tm none = none := by
  obtain ⟨hb, hb2, hle, hen, h8⟩ := h
  simp only [timer8_channel, hb, hen, ↓reduceIte, base_set_tcsr, hb2, reg_set_tcsr, h8,
    timer8_8bit, hsel]

theorem or_mod32_mul32 (x y : Nat) : x % 32 ||| y * 32 = x % 32 + y * 32 :=
  or_low_high _ _ (Nat.mod_lt _ (by decide))

theorem or_c0 (x : Nat) : x ||| 0xc0 = x + 192 - x / 64 % 4 * 64 := by
  have hc0 : (0xc0 : Nat) = 0x40 ||| 0x80 := by decide
  rw [hc0, ← Nat.or_assoc, or_80, or_40]; omega

/-- The status register a tick writes back, bit by bit: the top three bits are
those of the shadow after the tick, the low five stay. -/
theorem status_after (s r ev : Nat) (hev : ev = 0 ∨ ev = 0x40 ∨ ev = 0x80 ∨ ev = 0xc0) :
    ((r &&& 0x1f) ||| (((s &&& (r &&& 0xf0)) ||| ev) &&& 0xe0)) &&& 0xe0
      = ((s &&& r) ||| ev) &&& 0xe0 ∧
    ((r &&& 0x1f) ||| (((s &&& (r &&& 0xf0)) ||| ev) &&& 0xe0)) &&& 0x1f = r &&& 0x1f ∧
    ((s &&& (r &&& 0xf0)) ||| ev) &&& 0xe0 = ((s &&& r) ||| ev) &&& 0xe0 := by
  rw [← Nat.and_assoc s r]
  generalize s &&& r = a
  rcases hev with h | h | h | h <;> subst h
  · simp only [Nat.or_zero, and_f0, and_e0, and_1f, or_mod32_mul32]; omega
  · simp only [and_f0, or_40, and_e0, and_1f, or_mod32_mul32]; omega
  · simp only [and_f0, or_80, and_e0, and_1f, or_mod32_mul32]; omega
  · simp only [and_f0, or_c0, and_e0, and_1f, or_mod32_mul32]; omega

theorem events8_cases (st : Sim) (b c : Nat) :
    events8 st b c = 0 ∨ events8 st b c = 0x40 ∨ events8 st b c = 0x80 ∨
      events8 st b c = 0xc0 := by
  unfold events8
  cases match_a st b c <;> cases match_b st b c <;> simp

/-- The status bits a run of the loop body in 8-bit mode leaves, in the
register and in the shadow: those set in both before, and the events. -/
theorem timer8_latch (st : Sim) (pcnt tm b b2 c : Nat) (cnt : Option Nat)
    (h : mode8 st tm b b2)
    (hc : (reg st b &&& 0x07 = pcnt + 1 ∧ c = count8 st b) ∨
      (reg st b &&& 0x07 ≠ pcnt + 1 ∧ cnt = some c)) :
    ∃ st', timer8_channel st pcnt tm cnt = some (st', some (count_b st b c)) ∧
      reg st' (b + 2) &&& 0xe0 = ((byte st.tcsr tm &&& reg st (b + 2)) ||| events8 st b c) &&& 0xe0 ∧
      byte st'.tcsr tm &&& 0xe0
        = ((byte st.tcsr tm &&& reg st (b + 2)) ||| events8 st b c) &&& 0xe0 ∧
      reg st' (b + 2) &&& 0x1f = reg st (b + 2) &&& 0x1f := by
  obtain ⟨st', h1, _, h3, h4, _⟩ := timer8_channel_8bit st pcnt tm b b2 c cnt h hc
  obtain ⟨k1, k2, k3⟩ := status_after (byte st.tcsr tm) (reg st (b + 2)) (events8 st b c)
    (events8_cases st b c)
  refine ⟨st', h1, ?_, ?_, ?_⟩
  · rw [h4, h3]; exact k1
  · rw [h3]; exact k3
  · rw [h4, h3]; exact k2

theorem and_bit_of_e0 (x y bit : Nat) (hb : bit = 0x20 ∨ bit = 0x40 ∨ bit = 0x80)
    (h : x &&& 0xe0 = y &&& 0xe0) : x &&& bit = y &&& bit := by
  have hx : ∀ z : Nat, z &&& bit = (z &&& 0xe0) &&& bit := by
    intro z
    rcases hb with r | r | r <;> subst r <;>
      simp only [and_e0, and_20, and_40, and_80] <;> omega
  rw [hx x, hx y, h]

/-- The frame of a run of the loop body in 8-bit mode: the channel stays in the
mode it is in. -/
theorem mode8_after (st st' : Sim) (tm b b2 : Nat) (h : mode8 st tm b b2)
    (hf : ∀ a, a ≠ b + 8 → a ≠ b + 2 → reg st' a = reg st a)
    (hbase : st'.timer8_base = st.timer8_base) : mode8 st' tm b b2 := by
  obtain ⟨hb, hb2, hle, hen, h8⟩ := h
  refine ⟨by rw [hbase]; exact hb, by rw [hbase]; exact hb2, hle, ?_, ?_⟩
  · rw [hf b (by omega) (by omega)]; exact hen
  · rw [hf b2 (by omega) (by omega)]; exact h8

theorem ticks_succ (pcnt tm n : Nat) (st : Sim) :
    ticks pcnt tm (n + 1) st
      = (ticks pcnt tm n st).bind (fun s => (timer8_channel s pcnt tm none).map (fun r => r.1)) := by
  induction n generalizing st with
  | zero =>
    simp only [ticks]
    cases h : timer8_channel st pcnt tm none <;> simp [ticks, h]
  | succ n ih =>
    rw [ticks]
    cases h : timer8_channel st pcnt tm none with
    | none => simp [ticks, h]
    | some r =>
      simp only [Option.some_bind]
      rw [ih r.1]
      conv_rhs => rw [ticks, h]
      simp

/-- While the count stays below both compare values, `k` ticks count to `k`
and leave the other registers alone. -/
theorem ticks_count (st : Sim) (pcnt tm b b2 : Nat) (h : runs8 st pcnt tm b b2)
    (h0 : reg st (b + 8) = 0) (k : Nat) (hA : k < reg st (b + 4)) (hB : k < reg st (b + 6)) :
    ∃ st', ticks pcnt tm k st = some st' ∧ reg st' (b + 8) = k ∧
      (∀ a, a ≠ b + 8 → a ≠ b + 2 → reg st' a = reg st a) ∧
      st'.timer8_base = st.timer8_base := by
  induction k with
  | zero => exact ⟨st, rfl, h0, fun _ _ _ => rfl, rfl⟩
  | succ k ih =>
    obtain ⟨s, hs, hk, hf, hbase⟩ := ih (by omega) (by omega)
    have hA' := reg_lt st (b + 4)
    have hm : mode8 s tm b b2 := mode8_after st s tm b b2 h.1 hf hbase
    have hsel : reg s b &&& 0x07 = pcnt + 1 := by
      rw [hf b (by omega) (by omega)]; exact h.2
    obtain ⟨s', t1, t2, _, _, t5, _, t7, _⟩ :=
      timer8_channel_8bit s pcnt tm b b2 (count8 s b) none hm (Or.inl ⟨hsel, rfl⟩)
    have hc8 : count8 s b = k + 1 := by
      unfold count8; rw [hk]; exact Nat.mod_eq_of_lt (by omega)
    have hcb : count_b s b (count8 s b) = k + 1 := by
      have e4 := hf (b + 4) (by omega) (by omega)
      have e6 := hf (b + 6) (by omega) (by omega)
      have hna : match_a s b (k + 1) = false := by simp [match_a, e4]; omega
      have hca : count_a s b (k + 1) = k + 1 := by simp [count_a, hna]
      have hnb : match_b s b (k + 1) = false := by simp [match_b, hca, e6]; omega
      rw [hc8]; simp [count_b, hnb, hca]
    refine ⟨s', ?_, ?_, ?_, ?_⟩
    · rw [ticks_succ, hs]; simp [t1]
    · rw [t2, hcb]; exact Nat.mod_eq_of_lt (by omega)
    · intro a h1 h2; rw [t5 a h1 h2, hf a h1 h2]
    · rw [t7, hbase]

/-- The body of the inner loop of `timer8` on its own: for every compare value
N in 1..255, a channel in 8-bit mode with compare-A = N, compare-B above N,
clearing by compare match A selected (TCR bits 0x18 = 0x08) and the counter at
0 has, after N runs of the body for its selected prescaler with nothing else
touching its registers in between, its match-A status bit (TCSR 0x40) set and
its counter at 0. -/
theorem timer8_compare_match_a (st : Sim) (pcnt tm b b2 N : Nat) (h : runs8 st pcnt tm b b2)
    (hN1 : 1 ≤ N) (hN : N ≤ 255) (hA : reg st (b + 4) = N) (hB : N < reg st (b + 6))
    (hclr : reg st b &&& 0x18 = 0x08) (h0 : reg st (b + 8) = 0) :
    ∃ st', ticks pcnt tm N st = some st' ∧ reg st' (b + 2) &&& 0x40 ≠ 0 ∧
      reg st' (b + 8) = 0 := by
  obtain ⟨k, rfl⟩ : ∃ k, N = k + 1 := ⟨N - 1, by omega⟩
  obtain ⟨s, hs, hk, hf, hbase⟩ :=
    ticks_count st pcnt tm b b2 h h0 k (by omega) (by omega)
  have hm : mode8 s tm b b2 := mode8_after st s tm b b2 h.1 hf hbase
  have hsel : reg s b &&& 0x07 = pcnt + 1 := by
    rw [hf b (by omega) (by omega)]; exact h.2
  have e0 := hf b (by omega) (by omega)
  have e4 := hf (b + 4) (by omega) (by omega)
  have e6 := hf (b + 6) (by omega) (by omega)
  have hc8 : count8 s b = k + 1 := by
    unfold count8; rw [hk]; exact Nat.mod_eq_of_lt (by omega)
  have hma : match_a s b (k + 1) = true := by simp [match_a, e4, hA]
  have hca : count_a s b (k + 1) = 0 := by simp [count_a, hma, e0, hclr]
  have hmb : match_b s b (k + 1) = false := by simp [match_b, hca, e6]; omega
  have hcb : count_b s b (k + 1) = 0 := by simp [count_b, hmb, hca]
  have hev : events8 s b (k + 1) = 0x40 := by simp [events8, hma, hmb]
  obtain ⟨s', t1, t2, _⟩ :=
    timer8_channel_8bit s pcnt tm b b2 (count8 s b) none hm (Or.inl ⟨hsel, rfl⟩)
  obtain ⟨s'', l1, l2, _⟩ := timer8_latch s pcnt tm b b2 (count8 s b) none hm (Or.inl ⟨hsel, rfl⟩)
  rw [t1] at l1
  obtain rfl : s' = s'' := by injection l1 with l1; exact (Prod.mk.inj l1).1
  refine ⟨s', ?_, ?_, ?_⟩
  · rw [ticks_succ, hs]; simp [t1]
  · rw [and_bit_of_e0 _ _ 0x40 (by simp) l2, hc8, hev]
    simp only [or_40, and_40]; omega
  · rw [t2, hc8, hcb]

set_option maxRecDepth 100000 in
theorem timer8_compare_match_a_witness :
    runs8 (timer_state 0x09 0 10 0xff 0) 0 0 0x80 0x80 ∧
      ∃ st', ticks 0 0 10 (timer_state 0x09 0 10 0xff 0) = some st' ∧
        reg st' (0x80 + 2) &&& 0x40 ≠ 0 ∧ reg st' (0x80 + 8) = 0 :=
  ⟨by decide, timer8_compare_match_a (timer_state 0x09 0 10 0xff 0) 0 0 0x80 0x80 10
    (by decide) (by decide) (by decide) (by decide) (by decide) (by decide) (by decide)⟩

/-- The 8-bit branch never raises the overflow bit: for every enabled channel
in 8-bit mode whose counter holds 255, a tick of its selected prescaler leaves
the counter at 0 and the overflow bit (0x20) of TCSR as the shadow and the
register both had it before, so clear when it was clear.  The value of
`++TCNT8 (tm)` is an `unsigned char` and never reaches 0x100. -/
theorem timer8_overflow_lost (st : Sim) (pcnt tm b b2 : Nat) (cnt : Option Nat)
    (h : runs8 st pcnt tm b b2) (hcnt : reg st (b + 8) = 255) :
    ∃ st' c, timer8_channel st pcnt tm cnt = some (st', c) ∧ reg st' (b + 8) = 0 ∧
      reg st' (b + 2) &&& 0x20 = (byte st.tcsr tm &&& reg st (b + 2)) &&& 0x20 := by
  have hc8 : count8 st b = 0 := by unfold count8; rw [hcnt]
  have hcb : count_b st b 0 = 0 := by
    unfold count_b count_a; split_ifs <;> rfl
  obtain ⟨s', t1, t2, _⟩ :=
    timer8_channel_8bit st pcnt tm b b2 (count8 st b) cnt h.1 (Or.inl ⟨h.2, rfl⟩)
  obtain ⟨s'', l1, l2, _⟩ := timer8_latch st pcnt tm b b2 (count8 st b) cnt h.1 (Or.inl ⟨h.2, rfl⟩)
  rw [t1] at l1
  obtain rfl : s' = s'' := by injection l1 with l1; exact (Prod.mk.inj l1).1
  refine ⟨s', _, t1, by rw [t2, hc8, hcb], ?_⟩
  rw [and_bit_of_e0 _ _ 0x20 (by simp) l2]
  rcases events8_cases st b (count8 st b) with e | e | e | e <;> rw [e] <;>
    simp only [Nat.or_zero, or_40, or_80, or_c0, and_20] <;> omega

set_option maxRecDepth 100000 in
theorem timer8_overflow_lost_witness :
    runs8 (timer_state 0x01 0x00 0xff 0xff 255) 0 0 0x80 0x80 ∧
      reg (timer_state 0x01 0x00 0xff 0xff 255) (0x80 + 8) = 255 ∧
      ∃ st' c, timer8_channel (timer_state 0x01 0x00 0xff 0xff 255) 0 0 none = some (st', c) ∧
        reg st' (0x80 + 8) = 0 ∧
        reg st' (0x80 + 2) &&& 0x20
          = (byte (timer_state 0x01 0x00 0xff 0xff 255).tcsr 0 &&&
              reg (timer_state 0x01 0x00 0xff 0xff 255) (0x80 + 2)) &&& 0x20 :=
  ⟨by decide, by decide,
    timer8_overflow_lost (timer_state 0x01 0x00 0xff 0xff 255) 0 0 0x80 0x80 none
      (by decide) (by decide)⟩

set_option maxRecDepth 100000 in
/-- C12 fails on the code: on an H8/300H whose timer channel 0 is enabled on
the first prescaler (TCR = 0x01) in 8-bit mode with its counter at 255, TCORA
and TCORB at 0xff and TCSR clear, the call `timer8` with 8 elapsed cycles, one
tick of that prescaler, leaves the counter at 0 and TCSR at 0: the overflow
bit 0x20 is not set. -/
theorem timer8_overflow_bit_not_set :
    runs8 (timer_state 0x01 0x00 0xff 0xff 255) 0 0 0x80 0x80 ∧
    reg (timer_state 0x01 0x00 0xff 0xff 255) 0x88 = 255 ∧
    (timer8 (timer_state 0x01 0x00 0xff 0xff 255) 8).map
      (fun s => (reg s 0x88, reg s 0x82, byte s.tcsr 0, s.prescale 0)) = some (0, 0, 0, 8) := by
  decide

/-! ## The telnet parser -/

@[simp] theorem telnet_strip_nil (k : Nat) : telnet_strip k [] = [] := by
  cases k <;> rfl

@[simp] theorem telnet_left_nil (k : Nat) : telnet_left k [] = k := by
  cases k <;> rfl

theorem pending_write (h : Posix.Host) (fd : Int) (buf : List Nat) :
    (Posix.write h fd buf).2.pending = h.pending := by
  unfold Posix.write
  cases h.write_errno fd <;> rfl

/-- One call of `sci_rcv_data` in socket mode with a byte waiting: the byte is
delivered exactly when the parser is idle and the byte is not 0xff, and the
parser moves on by one byte. -/
theorem sci_rcv_data_net (st : Sim) (ch : Nat) (fd : Int) (k b : Nat) (rest : List Nat)
    (hk : k ≤ 2) (h : listening st ch fd k (b :: rest)) :
    (sci_rcv_data st ch).1 = (if k = 0 ∧ uchar b ≠ 0xff then some (uchar b) else none) ∧
      listening (sci_rcv_data st ch).2 ch fd (telnet_left k [uchar b]) rest := by
  obtain ⟨hnet, hfd, h0, hiac, hp⟩ := h
  have hfd0 : (st.sci_port ch).fd ≥ 0 := by rw [hfd]; exact h0
  have hread : Posix.read st.host (st.sci_port ch).fd
      = (.ok (uchar b), { st.host with pending := Posix.updi st.host.pending fd rest }) := by
    unfold Posix.read; rw [hfd, hp]; rfl
  unfold sci_rcv_data
  simp only [hfd0, ↓reduceIte, hread, hnet]
  interval_cases k
  · -- idle
    have hi : ¬ (st.sci_port ch).iac > 0 := by rw [hiac]; decide
    by_cases hb : uchar b = 0xff
    · simp [hi, hb, listening, set_port, upd, hnet, hfd, h0, telnet_left, iac_of, Posix.updi]
    · simp [hi, hb, listening, hnet, hfd, h0, telnet_left, iac_of, Posix.updi, hiac]
  · -- the option byte is due
    have hi : (st.sci_port ch).iac > 0 := by rw [hiac]; decide
    have hi2 : (st.sci_port ch).iac = 2 := by rw [hiac]; rfl
    simp only [hi, ↓reduceIte, telnet_escape, hi2]
    simp only [show ¬ ((2 : Int) = 1) by decide, ↓reduceIte]
    rw [if_neg (by simp : ¬ ((1 : Nat) = 0 ∧ uchar b ≠ 0xff))]
    split_ifs <;> first
      | omega
      | simp [listening, set_port, upd, hnet, hfd, h0, telnet_left, iac_of, Posix.updi,
          pending_write]
  · -- the command byte is due
    have hi : (st.sci_port ch).iac > 0 := by rw [hiac]; decide
    have hi1 : (st.sci_port ch).iac = 1 := by rw [hiac]; rfl
    simp only [hi, ↓reduceIte, telnet_escape, hi1]
    simp [listening, set_port, upd, hnet, hfd, h0, telnet_left, iac_of, Posix.updi, sint32]

theorem telnet_strip_cons (k x : Nat) (l : List Nat) :
    telnet_strip k (x :: l)
      = (if k = 0 ∧ x ≠ 0xff then [x] else []) ++ telnet_strip (telnet_left k [x]) l := by
  cases k with
  | zero => by_cases hx : x = 0xff <;> simp [telnet_strip, telnet_left, hx]
  | succ k => simp [telnet_strip, telnet_left]

theorem telnet_left_cons (k x : Nat) (l : List Nat) :
    telnet_left k (x :: l) = telnet_left (telnet_left k [x]) l := by
  cases k with
  | zero => by_cases hx : x = 0xff <;> simp [telnet_left, hx]
  | succ k => simp [telnet_left]

theorem telnet_left_one_le (k x : Nat) (hk : k ≤ 2) : telnet_left k [x] ≤ 2 := by
  cases k with
  | zero => by_cases hx : x = 0xff <;> simp [telnet_left, hx]
  | succ k => simp [telnet_left]; omega

/-- The bytes a stream delivers through `sci_rcv_data`, one call per byte. -/
theorem rcv_n_stream (ch : Nat) (fd : Int) (bs : List Nat) :
    ∀ (k : Nat) (more : List Nat) (st : Sim), k ≤ 2 → listening st ch fd k (bs ++ more) →
      (rcv_n ch bs.length st).1 = telnet_strip k (bs.map uchar) ∧
        listening (rcv_n ch bs.length st).2 ch fd (telnet_left k (bs.map uchar)) more := by
  induction bs with
  | nil => intro k more st _ h; simpa [rcv_n] using h
  | cons b bs ih =>
    intro k more st hk h
    obtain ⟨r1, r2⟩ := sci_rcv_data_net st ch fd k b (bs ++ more) hk h
    obtain ⟨i1, i2⟩ := ih (telnet_left k [uchar b]) more (sci_rcv_data st ch).2
      (telnet_left_one_le k _ hk) r2
    simp only [List.length_cons, List.map_cons]
    rw [telnet_left_cons k (uchar b) (bs.map uchar), telnet_strip_cons k (uchar b)]
    cases hr : sci_rcv_data st ch with
    | mk d s =>
      rw [hr] at r1 i1 i2
      simp only at r1 i1 i2
      by_cases hc : k = 0 ∧ uchar b ≠ 0xff
      · rw [if_pos hc] at r1
        subst r1
        simp only [rcv_n, hr, if_pos hc]
        exact ⟨by rw [i1]; rfl, i2⟩
      · rw [if_neg hc] at r1
        subst r1
        simp only [rcv_n, hr, if_neg hc]
        exact ⟨by rw [i1]; rfl, i2⟩

/-- C19: in socket mode, for every byte stream read through `sci_rcv_data`, one
call per byte, from the idle parser state: the bytes delivered are those of the
stream without every byte 0xff and the two bytes that follow it, each
unchanged, and the parser ends where the stream leaves it.  So a byte other
than 0xff is delivered with the parser still idle (`iac = 0`), and a byte 0xff
and the two bytes after it are not delivered, the parser being idle again after
the third. -/
theorem telnet_commands_not_delivered (st : Sim) (ch : Nat) (fd : Int) (bs more : List Nat)
    (h : listening st ch fd 0 (bs ++ more)) :
    (rcv_n ch bs.length st).1 = telnet_strip 0 (bs.map uchar) ∧
    listening (rcv_n ch bs.length st).2 ch fd (telnet_left 0 (bs.map uchar)) more ∧
    (∀ b, bs = [b] → uchar b ≠ 0xff →
      (rcv_n ch 1 st).1 = [uchar b] ∧ ((rcv_n ch 1 st).2.sci_port ch).iac = 0) ∧
    (∀ x y, bs = [0xff, x, y] →
      (rcv_n ch 3 st).1 = [] ∧ ((rcv_n ch 3 st).2.sci_port ch).iac = 0) := by
  obtain ⟨g1, g2⟩ := rcv_n_stream ch fd bs 0 more st (by decide) h
  refine ⟨g1, g2, ?_, ?_⟩
  · intro b hb hne
    subst hb
    simp only [List.length_singleton, List.map_cons, List.map_nil] at g1 g2
    rw [telnet_strip_cons, telnet_left_cons] at *
    refine ⟨by rw [g1]; simp [hne], ?_⟩
    rw [g2.2.2.2.1]; simp [telnet_left, hne, iac_of]
  · intro x y hb
    subst hb
    simp only [List.length_cons, List.length_nil, List.map_cons, List.map_nil] at g1 g2
    have hu : uchar 0xff = 0xff := by decide
    rw [hu] at g1 g2
    refine ⟨by rw [g1]; simp [telnet_strip], ?_⟩
    rw [g2.2.2.2.1]; simp [telnet_left, iac_of]

set_option maxRecDepth 100000 in
theorem telnet_commands_not_delivered_witness :
    listening (net_state [0x41, 0xff, 0xfb, 0x01, 0x42]) 0 5 0
        ([0x41, 0xff, 0xfb, 0x01, 0x42] ++ []) ∧
      (rcv_n 0 [0x41, 0xff, 0xfb, 0x01, 0x42].length
          (net_state [0x41, 0xff, 0xfb, 0x01, 0x42])).1
        = telnet_strip 0 ([0x41, 0xff, 0xfb, 0x01, 0x42].map uchar) :=
  ⟨by decide, (telnet_commands_not_delivered (net_state [0x41, 0xff, 0xfb, 0x01, 0x42]) 0 5
    [0x41, 0xff, 0xfb, 0x01, 0x42] [] (by decide)).1⟩

/-! ## The serial channels -/

@[simp] theorem byte_set_ssr (st : Sim) (ch v ch' : Nat) :
    byte (set_ssr st ch v).ssr ch' = if ch' = ch then v % 256 else byte st.ssr ch' := by
  unfold byte set_ssr upd uchar
  by_cases h : ch' = ch <;> simp [h]

@[simp] theorem reg_set_ssr (st : Sim) (ch v a : Nat) : reg (set_ssr st ch v) a = reg st a := rfl

@[simp] theorem reg_set_tx (st : Sim) (ch : Nat) (v : Int) (a : Nat) :
    reg (set_tx_end_time st ch v) a = reg st a := rfl

@[simp] theorem reg_set_rx (st : Sim) (ch : Nat) (v : Int) (a : Nat) :
    reg (set_rx_end_time st ch v) a = reg st a := rfl

@[simp] theorem ssr_set_reg (st : Sim) (a v : Nat) : (set_reg st a v).ssr = st.ssr := rfl

@[simp] theorem ssr_set_tx (st : Sim) (ch : Nat) (v : Int) :
    (set_tx_end_time st ch v).ssr = st.ssr := rfl

@[simp] theorem ssr_set_rx (st : Sim) (ch : Nat) (v : Int) :
    (set_rx_end_time st ch v).ssr = st.ssr := rfl

/-- What `sci_send_data` leaves alone. -/
theorem sci_send_data_frame (st : Sim) (ch txd : Nat) :
    (sci_send_data st ch txd).eightbit = st.eightbit ∧
    (sci_send_data st ch txd).ssr = st.ssr ∧
    (sci_send_data st ch txd).tx_end_time = st.tx_end_time ∧
    (sci_send_data st ch txd).rx_end_time = st.rx_end_time ∧
    (sci_send_data st ch txd).txstate = st.txstate ∧
    (sci_send_data st ch txd).sci_base = st.sci_base ∧
    (sci_send_data st ch txd).sci_port_type = st.sci_port_type ∧
    (sci_send_data st ch txd).host.pending = st.host.pending := by
  unfold sci_send_data
  by_cases h : (st.sci_port ch).fd ≥ 0
  · simp only [h, ↓reduceIte]
    unfold Posix.write
    cases st.host.write_errno (st.sci_port ch).fd with
    | none => simp
    | some e => by_cases he : e ≠ Posix.EAGAIN <;> simp [he, set_port]
  · simp [h]

/-- What `telnet_escape` leaves alone. -/
theorem telnet_escape_frame (st : Sim) (ch rd : Nat) :
    (telnet_escape st ch rd).eightbit = st.eightbit ∧
    (telnet_escape st ch rd).ssr = st.ssr ∧
    (telnet_escape st ch rd).tx_end_time = st.tx_end_time ∧
    (telnet_escape st ch rd).rx_end_time = st.rx_end_time ∧
    (telnet_escape st ch rd).txstate = st.txstate ∧
    (telnet_escape st ch rd).sci_base = st.sci_base ∧
    (telnet_escape st ch rd).sci_port_type = st.sci_port_type := by
  unfold telnet_escape
  by_cases h1 : (st.sci_port ch).iac = 1
  · simp [h1, set_port]
  · by_cases h2 : (st.sci_port ch).iac = 2
    · by_cases h3 : (rd = 1 ∨ rd = 3) ∧ uchar (st.sci_port ch).cmd = 0xfd
      · simp [h2, h3, set_port]
      · simp [h2, h3, set_port]
    · simp [h1, h2]

/-- What `sci_rcv_data` leaves alone. -/
theorem sci_rcv_data_frame (st : Sim) (ch : Nat) :
    (sci_rcv_data st ch).2.eightbit = st.eightbit ∧
    (sci_rcv_data st ch).2.ssr = st.ssr ∧
    (sci_rcv_data st ch).2.tx_end_time = st.tx_end_time ∧
    (sci_rcv_data st ch).2.rx_end_time = st.rx_end_time ∧
    (sci_rcv_data st ch).2.txstate = st.txstate ∧
    (sci_rcv_data st ch).2.sci_base = st.sci_base ∧
    (sci_rcv_data st ch).2.sci_port_type = st.sci_port_type := by
  unfold sci_rcv_data
  by_cases h : (st.sci_port ch).fd ≥ 0
  · simp only [h, ↓reduceIte]
    unfold Posix.read
    cases st.host.pending (st.sci_port ch).fd with
    | nil => by_cases he : st.host.read_errno (st.sci_port ch).fd = Posix.EAGAIN <;>
        simp [he, set_port]
    | cons rd rest =>
      simp only
      split_ifs
      · exact telnet_escape_frame _ ch _
      · simp [set_port]
      · simp
      · simp
  · simp [h]

theorem sci_channel_at_eq (st : Sim) (d ch b : Nat) :
    sci_channel_at st d ch b =
      set_reg (sci_rx (sci_at_poll st d ch b) ch b
          (sci_complete_time_of (reg st (b + 0)) (reg st (b + 1)))) (b + 4)
        (byte (sci_rx (sci_at_poll st d ch b) ch b
          (sci_complete_time_of (reg st (b + 0)) (reg st (b + 1)))).ssr ch) := rfl

/-- What the transmit request of the loop body of `sci` changes. -/
theorem sci_tx_request_obs (st : Sim) (ch b : Nat) :
    (sci_tx_request st ch b).eightbit = st.eightbit ∧
    (sci_tx_request st ch b).rx_end_time = st.rx_end_time ∧
    (sci_tx_request st ch b).sci_base = st.sci_base ∧
    (sci_tx_request st ch b).sci_port_type = st.sci_port_type ∧
    (sci_tx_request st ch b).host.pending = st.host.pending ∧
    (∀ i, i ≠ ch → (sci_tx_request st ch b).tx_end_time i = st.tx_end_time i) ∧
    (∀ i, i ≠ ch → byte (sci_tx_request st ch b).ssr i = byte st.ssr i) ∧
    (if reg st (b + 2) &&& 0x20 ≠ 0 ∧ ¬ (byte st.ssr ch &&& 0x80 ≠ 0) ∧ st.txstate = 0 then
      byte (sci_tx_request st ch b).ssr ch = byte st.ssr ch &&& 0xfb ∧
      (sci_tx_request st ch b).tx_end_time ch = 1 ∧ (sci_tx_request st ch b).txstate = 1
    else
      byte (sci_tx_request st ch b).ssr ch = byte st.ssr ch ∧
      (sci_tx_request st ch b).tx_end_time ch = st.tx_end_time ch ∧
      (sci_tx_request st ch b).txstate = st.txstate) := by
  obtain ⟨f1, f2, f3, f4, f5, f6, f7, f8⟩ := sci_send_data_frame st ch (reg st (b + 3))
  have hlt : byte st.ssr ch &&& 0xfb < 256 := and_lt_256 _ (by decide)
  unfold sci_tx_request
  split_ifs with h
  · refine ⟨f1, f4, f6, f7, f8, ?_, ?_, ?_, ?_, rfl⟩
    · intro i hi; simp [set_tx_end_time, set_ssr, upd, hi, f3]
    · intro i hi; simp [set_tx_end_time, set_ssr, upd, hi, f2, byte]
    · simp [set_tx_end_time, set_ssr, upd, byte, f2, uchar]
      simpa [byte, uchar] using hlt
    · simp [set_tx_end_time, set_ssr, upd]
  · exact ⟨rfl, rfl, rfl, rfl, rfl, fun _ _ => rfl, fun _ _ => rfl, rfl, rfl, rfl⟩

/-- What the transmit-complete check of the loop body of `sci` changes. -/
theorem sci_tx_complete_obs (st : Sim) (ch t : Nat) :
    (sci_tx_complete st ch t).eightbit = st.eightbit ∧
    (sci_tx_complete st ch t).rx_end_time = st.rx_end_time ∧
    (sci_tx_complete st ch t).sci_base = st.sci_base ∧
    (sci_tx_complete st ch t).sci_port_type = st.sci_port_type ∧
    (sci_tx_complete st ch t).host = st.host ∧
    (sci_tx_complete st ch t).sci_port = st.sci_port ∧
    (∀ i, i ≠ ch → (sci_tx_complete st ch t).tx_end_time i = st.tx_end_time i) ∧
    (∀ i, i ≠ ch → byte (sci_tx_complete st ch t).ssr i = byte st.ssr i) ∧
    (if byte st.ssr ch &&& 0x84 ≠ 0x84 ∧ st.tx_end_time ch ≤ 0 then
      if ¬ (byte st.ssr ch &&& 0x80 ≠ 0) then
        byte (sci_tx_complete st ch t).ssr ch = byte st.ssr ch ||| 0x80 ∧
        (sci_tx_complete st ch t).tx_end_time ch = sint32 t ∧
        (sci_tx_complete st ch t).txstate = 0
      else
        byte (sci_tx_complete st ch t).ssr ch = byte st.ssr ch ||| 0x04 ∧
        (sci_tx_complete st ch t).tx_end_time ch = st.tx_end_time ch ∧
        (sci_tx_complete st ch t).txstate = st.txstate
    else
      byte (sci_tx_complete st ch t).ssr ch = byte st.ssr ch ∧
      (sci_tx_complete st ch t).tx_end_time ch = st.tx_end_time ch ∧
      (sci_tx_complete st ch t).txstate = st.txstate) := by
  have h80 : (byte st.ssr ch ||| 0x80) % 256 = byte st.ssr ch ||| 0x80 :=
    mod256_eq (or_lt_256 (byte_lt _ _) (by decide))
  have h04 : (byte st.ssr ch ||| 0x04) % 256 = byte st.ssr ch ||| 0x04 :=
    mod256_eq (or_lt_256 (byte_lt _ _) (by decide))
  unfold sci_tx_complete
  by_cases h1 : byte st.ssr ch &&& 0x84 ≠ 0x84 ∧ st.tx_end_time ch ≤ 0
  · by_cases h2 : ¬ (byte st.ssr ch &&& 0x80 ≠ 0)
    · rw [if_pos h1, if_pos h2, if_pos h1, if_pos h2]
      refine ⟨rfl, rfl, rfl, rfl, rfl, rfl, ?_, ?_, ?_, ?_, rfl⟩
      · intro i hi; simp [set_tx_end_time, set_ssr, upd, hi]
      · intro i hi; simp [set_tx_end_time, set_ssr, upd, hi, byte]
      · simp only [set_tx_end_time, byte_set_ssr, ↓reduceIte]; exact h80
      · simp [set_tx_end_time, set_ssr, upd]
    · rw [if_pos h1, if_neg h2, if_pos h1, if_neg h2]
      refine ⟨rfl, rfl, rfl, rfl, rfl, rfl, ?_, ?_, ?_, rfl, rfl⟩
      · intro i hi; rfl
      · intro i hi; simp [hi]
      · simp only [byte_set_ssr, ↓reduceIte]; exact h04
  · rw [if_neg h1, if_neg h1]
    exact ⟨rfl, rfl, rfl, rfl, rfl, rfl, fun _ _ => rfl, fun _ _ => rfl, rfl, rfl, rfl⟩

theorem and_or_const (x c k : Nat) (h : c &&& k = 0) : (x ||| c) &&& k = x &&& k := by
  rw [Nat.and_distrib_right, h, Nat.or_zero]

theorem and_and_const (x c k : Nat) (h : c &&& k = k) : (x &&& c) &&& k = x &&& k := by
  rw [Nat.and_assoc, h]

theorem and_or_self (x c k : Nat) (h : c &&& k = k) : (x ||| c) &&& k = k := by
  apply Nat.eq_of_testBit_eq
  intro i
  have := congrArg (fun z => Nat.testBit z i) h
  simp only [Nat.testBit_and, Nat.testBit_or] at this ⊢
  cases hc : c.testBit i <;> cases hk : k.testBit i <;> simp_all

/-- The transmit part of the loop body of `sci` leaves the receive side alone:
the registers, the receive timer but for the elapsed cycles, and every bit of
the shadow other than 0x80 and 0x04. -/
theorem sci_at_poll_rx (st : Sim) (d ch b : Nat) :
    (sci_at_poll st d ch b).eightbit = st.eightbit ∧
      (sci_at_poll st d ch b).rx_end_time ch = sint32 (st.rx_end_time ch - d) ∧
      (sci_at_poll st d ch b).sci_base = st.sci_base ∧
      (sci_at_poll st d ch b).sci_port_type = st.sci_port_type ∧
      (sci_at_poll st d ch b).host.pending = st.host.pending ∧
      ∀ k, 0x80 &&& k = 0 → 0x04 &&& k = 0 → 0xfb &&& k = k →
        byte (sci_at_poll st d ch b).ssr ch &&& k = (byte st.ssr ch &&& reg st (b + 4)) &&& k := by
  have hl : (byte st.ssr ch &&& reg st (b + 4)) % 256 = byte st.ssr ch &&& reg st (b + 4) :=
    mod256_eq (and_lt_256 _ (reg_lt _ _))
  obtain ⟨a1, a2, a3, a4, a5, _, _, a8⟩ :=
    sci_tx_request_obs (set_ssr st ch (byte st.ssr ch &&& reg st (b + 4))) ch b
  obtain ⟨c1, c2, c3, c4, c5, _, _, _, c9⟩ :=
    sci_tx_complete_obs
      (set_tx_end_time (sci_tx_request (set_ssr st ch (byte st.ssr ch &&& reg st (b + 4))) ch b)
        ch (sint32 ((sci_tx_request (set_ssr st ch (byte st.ssr ch &&& reg st (b + 4)))
          ch b).tx_end_time ch - d))) ch
      (sci_complete_time_of (reg st (b + 0)) (reg st (b + 1)))
  have e1 : (sci_at_poll st d ch b).ssr = (sci_tx_complete
      (set_tx_end_time (sci_tx_request (set_ssr st ch (byte st.ssr ch &&& reg st (b + 4))) ch b)
        ch (sint32 ((sci_tx_request (set_ssr st ch (byte st.ssr ch &&& reg st (b + 4)))
          ch b).tx_end_time ch - d))) ch
      (sci_complete_time_of (reg st (b + 0)) (reg st (b + 1)))).ssr := rfl
  refine ⟨?_, ?_, ?_, ?_, ?_, ?_⟩
  · show (sci_tx_complete _ ch _).eightbit = _
    rw [c1]; exact a1
  · show upd (sci_tx_complete _ ch _).rx_end_time ch _ ch = _
    rw [c2]
    simp only [upd, ↓reduceIte]
    show sint32 ((sci_tx_request _ ch b).rx_end_time ch - d) = _
    rw [a2]; rfl
  · show (sci_tx_complete _ ch _).sci_base = _
    rw [c3]; exact a3
  · show (sci_tx_complete _ ch _).sci_port_type = _
    rw [c4]; exact a4
  · show (sci_tx_complete _ ch _).host.pending = _
    rw [c5]; exact a5
  · intro k hk80 hk04 hfb
    rw [e1]
    simp only [byte_set_ssr, ↓reduceIte, hl] at a8
    have s1 : byte (sci_tx_request (set_ssr st ch (byte st.ssr ch &&& reg st (b + 4))) ch b).ssr ch
        &&& k = (byte st.ssr ch &&& reg st (b + 4)) &&& k := by
      split_ifs at a8 with h
      · rw [a8.1, and_and_const _ _ _ hfb]
      · rw [a8.1]
    simp only [ssr_set_tx] at c9
    rw [← s1]
    split_ifs at c9 <;> first
      | rw [c9.1, and_or_const _ _ _ hk80]
      | rw [c9.1, and_or_const _ _ _ hk04]
      | rw [c9.1]

theorem sci_rcv_data_lt (st : Sim) (ch data : Nat) (h : (sci_rcv_data st ch).1 = some data) :
    data < 256 := by
  unfold sci_rcv_data at h
  by_cases hf : (st.sci_port ch).fd ≥ 0
  · simp only [hf, ↓reduceIte] at h
    unfold Posix.read at h
    cases hp : st.host.pending (st.sci_port ch).fd with
    | nil =>
      rw [hp] at h
      simp only at h
      split_ifs at h
    | cons rd rest =>
      rw [hp] at h
      simp only at h
      split_ifs at h <;> simp at h <;> omega
  · simp [hf] at h

theorem sci_complete_time_of_int (smr brr : Nat) (hb : brr < 256) :
    sint32 (sci_complete_time_of smr brr) = (cycles_per_byte smr brr : Int) := by
  obtain ⟨h1, h2⟩ := sci_complete_time_of_eq smr brr hb
  rw [h1, sint32_small] <;> omega

/-- The receive check of the loop body of `sci` when the receive timer has run
out, receiving is enabled and the transport yields a byte. -/
theorem sci_rx_yield (s : Sim) (ch b t data : Nat) (hel : s.rx_end_time ch ≤ 0)
    (hre : reg s (b + 2) &&& 0x10 ≠ 0) (hy : (sci_rcv_data s ch).1 = some data) :
    let s' := sci_rx s ch b t
    s'.rx_end_time ch = sint32 t ∧
    (∀ a, a ≠ b + 5 → reg s' a = reg s a) ∧
    (byte s.ssr ch &&& 0x40 ≠ 0 →
      byte s'.ssr ch = byte s.ssr ch ||| 0x20 ∧ reg s' (b + 5) = reg s (b + 5)) ∧
    (byte s.ssr ch &&& 0x40 = 0 →
      byte s'.ssr ch = byte s.ssr ch ||| 0x40 ∧ reg s' (b + 5) = data) := by
  intro s'
  have hd := sci_rcv_data_lt s ch data hy
  obtain ⟨f1, f2, f3, f4, f5, f6, f7⟩ := sci_rcv_data_frame s ch
  have h20 : (byte s.ssr ch ||| 0x20) % 256 = byte s.ssr ch ||| 0x20 :=
    mod256_eq (or_lt_256 (byte_lt _ _) (by decide))
  have h40 : (byte s.ssr ch ||| 0x40) % 256 = byte s.ssr ch ||| 0x40 :=
    mod256_eq (or_lt_256 (byte_lt _ _) (by decide))
  have hs' : s' = sci_rx s ch b t := rfl
  unfold sci_rx at hs'
  rw [if_pos hel, if_pos hre] at hs'
  cases hr : sci_rcv_data s ch with
  | mk o s3 =>
    rw [hr] at hy f1 f2 f3 f4 f5 f6 f7 hs'
    simp only at hy f1 f2 hs'
    subst hy
    simp only at hs'
    have hb3 : byte s3.ssr ch = byte s.ssr ch := by rw [f2]
    have hr3 : ∀ a, reg s3 a = reg s a := fun a => by unfold reg; rw [f1]
    by_cases hfull : byte s.ssr ch &&& 0x40 ≠ 0
    · have hfull3 : byte s3.ssr ch &&& 0x40 ≠ 0 := by rw [hb3]; exact hfull
      rw [if_pos hfull3] at hs'
      rw [hs']
      refine ⟨by simp [set_rx_end_time, upd], fun a _ => by simp [hr3],
        fun _ => ⟨by simp [hb3, h20], by simp [hr3]⟩, fun h => absurd h hfull⟩
    · have hfull3 : ¬ byte s3.ssr ch &&& 0x40 ≠ 0 := by rw [hb3]; exact hfull
      rw [if_neg hfull3] at hs'
      rw [hs']
      refine ⟨by simp [set_rx_end_time, upd], fun a ha => by simp [hr3, ha],
        fun h => absurd h hfull, fun _ => ⟨by simp [hb3, h40], by simp [mod256_eq hd]⟩⟩

/-- The loop body of `sci` when the transport yields a byte at the poll of a
channel whose receive timer has run out and which has receiving enabled: the
registers and the receive timer it leaves. -/
theorem sci_channel_rx (st : Sim) (d ch b data : Nat) (hb : st.sci_base.get? ch = some b)
    (hre : reg st (b + 2) &&& 0x10 ≠ 0) (hel : sint32 (st.rx_end_time ch - d) ≤ 0)
    (hy : (sci_rcv_data (sci_at_poll st d ch b) ch).1 = some data) :
    ∃ st', sci_channel st d ch = some st' ∧
      st'.rx_end_time ch = (cycles_per_byte (reg st b) (reg st (b + 1)) : Int) ∧
      ((byte st.ssr ch &&& reg st (b + 4)) &&& 0x40 = 0 →
        reg st' (b + 5) = data ∧ reg st' (b + 4) &&& 0x40 ≠ 0 ∧
        reg st' (b + 4) &&& 0x20 = (byte st.ssr ch &&& reg st (b + 4)) &&& 0x20) ∧
      ((byte st.ssr ch &&& reg st (b + 4)) &&& 0x40 ≠ 0 →
        reg st' (b + 5) = reg st (b + 5) ∧ reg st' (b + 4) &&& 0x20 ≠ 0 ∧
        reg st' (b + 4) &&& 0x40 ≠ 0) := by
  obtain ⟨p1, p2, p3, p4, p5, p6⟩ := sci_at_poll_rx st d ch b
  have hreg : ∀ a, reg (sci_at_poll st d ch b) a = reg st a := fun a => by unfold reg; rw [p1]
  have hel' : (sci_at_poll st d ch b).rx_end_time ch ≤ 0 := by rw [p2]; exact hel
  have hre' : reg (sci_at_poll st d ch b) (b + 2) &&& 0x10 ≠ 0 := by rw [hreg]; exact hre
  obtain ⟨r1, r2, r3, r4⟩ := sci_rx_yield (sci_at_poll st d ch b) ch b
    (sci_complete_time_of (reg st (b + 0)) (reg st (b + 1))) data hel' hre' hy
  have h40 := p6 0x40 (by decide) (by decide) (by decide)
  have h20 := p6 0x20 (by decide) (by decide) (by decide)
  have e45 : b + 5 ≠ b + 4 := by omega
  have e44 : b + 4 ≠ b + 5 := by omega
  refine ⟨sci_channel_at st d ch b, by unfold sci_channel; rw [hb]; rfl, ?_, ?_, ?_⟩
  · rw [sci_channel_at_eq]
    show (sci_rx _ ch b _).rx_end_time ch = _
    rw [r1, Nat.add_zero, sci_complete_time_of_int _ _ (reg_lt _ _)]
  · intro hfree
    rw [← h40] at hfree
    obtain ⟨q1, q2⟩ := r4 hfree
    rw [sci_channel_at_eq]
    simp only [reg_set_reg, e45, ↓reduceIte]
    refine ⟨q2, ?_, ?_⟩
    · rw [q1, mod256_eq (or_lt_256 (byte_lt _ _) (by decide)),
        and_or_self _ _ _ (by decide)]
      decide
    · rw [q1, mod256_eq (or_lt_256 (byte_lt _ _) (by decide)),
        and_or_const _ _ _ (by decide), h20]
  · intro hfull
    rw [← h40] at hfull
    obtain ⟨q1, q2⟩ := r3 hfull
    rw [sci_channel_at_eq]
    simp only [reg_set_reg, e45, ↓reduceIte]
    refine ⟨by rw [q2, hreg], ?_, ?_⟩
    · rw [q1, mod256_eq (or_lt_256 (byte_lt _ _) (by decide)),
        and_or_self _ _ _ (by decide)]
      decide
    · rw [q1, mod256_eq (or_lt_256 (byte_lt _ _) (by decide)),
        and_or_const _ _ _ (by decide)]
      exact hfull

/-- What the receive check of the loop body of `sci` leaves alone: the transmit
side, and every bit of the shadow other than 0x40 and 0x20. -/
theorem sci_rx_frame (s : Sim) (ch b t : Nat) :
    (sci_rx s ch b t).tx_end_time = s.tx_end_time ∧
    (sci_rx s ch b t).txstate = s.txstate ∧
    (sci_rx s ch b t).sci_base = s.sci_base ∧
    (sci_rx s ch b t).sci_port_type = s.sci_port_type ∧
    (∀ a, a ≠ b + 5 → reg (sci_rx s ch b t) a = reg s a) ∧
    (∀ i, i ≠ ch → byte (sci_rx s ch b t).ssr i = byte s.ssr i) ∧
    (∀ i, i ≠ ch → (sci_rx s ch b t).rx_end_time i = s.rx_end_time i) ∧
    (∀ k, 0x40 &&& k = 0 → 0x20 &&& k = 0 →
      byte (sci_rx s ch b t).ssr ch &&& k = byte s.ssr ch &&& k) := by
  obtain ⟨f1, f2, f3, f4, f5, f6, f7⟩ := sci_rcv_data_frame s ch
  have hr3 : ∀ a, reg (sci_rcv_data s ch).2 a = reg s a := fun a => by unfold reg; rw [f1]
  have hb3 : ∀ i, byte (sci_rcv_data s ch).2.ssr i = byte s.ssr i := fun i => by rw [f2]
  have h20 : (byte s.ssr ch ||| 0x20) % 256 = byte s.ssr ch ||| 0x20 :=
    mod256_eq (or_lt_256 (byte_lt _ _) (by decide))
  have h40 : (byte s.ssr ch ||| 0x40) % 256 = byte s.ssr ch ||| 0x40 :=
    mod256_eq (or_lt_256 (byte_lt _ _) (by decide))
  unfold sci_rx
  by_cases hel : s.rx_end_time ch ≤ 0
  · by_cases hre : reg s (b + 2) &&& 0x10 ≠ 0
    · rw [if_pos hel, if_pos hre]
      cases hr : sci_rcv_data s ch with
      | mk o s3 =>
        rw [hr] at f1 f2 f3 f4 f5 f6 f7 hr3 hb3
        simp only at f1 f2 f3 f4 f5 f6 f7 hr3 hb3
        cases o with
        | none =>
          simp only
          exact ⟨f3, f5, f6, f7, fun a _ => hr3 a, fun i _ => hb3 i,
            fun i _ => by rw [f4], fun k _ _ => by rw [hb3]⟩
        | some data =>
          simp only
          by_cases hfull : byte s3.ssr ch &&& 0x40 ≠ 0
          · rw [if_pos hfull]
            refine ⟨f3, f5, f6, f7, fun a _ => by simp [hr3], fun i hi => by simp [hi, hb3],
              fun i hi => by simp [set_rx_end_time, upd, hi, set_ssr, f4], fun k h4 h2 => ?_⟩
            simp only [ssr_set_rx, byte_set_ssr, ↓reduceIte, hb3, h20]
            exact and_or_const _ _ _ h2
          · rw [if_neg hfull]
            refine ⟨f3, f5, f6, f7, fun a ha => by simp [hr3, ha],
              fun i hi => by simp [hi, hb3],
              fun i hi => by simp [set_rx_end_time, upd, hi, set_ssr, f4, set_reg],
              fun k h4 h2 => ?_⟩
            simp only [ssr_set_rx, byte_set_ssr, ↓reduceIte, ssr_set_reg, hb3, h40]
            exact and_or_const _ _ _ h4
    · rw [if_pos hel, if_neg hre]
      exact ⟨rfl, rfl, rfl, rfl, fun _ _ => rfl, fun _ _ => rfl, fun _ _ => rfl, fun _ _ _ => rfl⟩
  · rw [if_neg hel]
    exact ⟨rfl, rfl, rfl, rfl, fun _ _ => rfl, fun _ _ => rfl, fun _ _ => rfl, fun _ _ _ => rfl⟩

theorem and_fb_80 (x : Nat) : (x &&& 0xfb) &&& 0x80 = x &&& 0x80 :=
  and_and_const _ _ _ (by decide)

theorem and_fb_04 (x : Nat) : (x &&& 0xfb) &&& 0x04 = 0 := by
  rw [Nat.and_assoc, show (0xfb &&& 0x04 : Nat) = 0 from rfl, Nat.and_zero]

theorem not_84_of_not_80 (x : Nat) (h : x &&& 0x80 = 0) : x &&& 0x84 ≠ 0x84 := by
  rw [and_80] at h; rw [and_84]; omega

theorem not_84_of_not_04 (x : Nat) (h : x &&& 0x04 = 0) : x &&& 0x84 ≠ 0x84 := by
  rw [and_04] at h; rw [and_84]; omega

/-- The transmit part of the loop body of `sci` when a transmission is
requested: the byte is handed to `sci_send_data`, and with the shift time of 1
run out the shadow has the transmit-empty bit again, the transmit-complete bit
clear, and the transmit timer holds the time of one byte. -/
theorem sci_at_poll_start (st : Sim) (d ch b : Nat) (hte : reg st (b + 2) &&& 0x20 ≠ 0)
    (hlive : (byte st.ssr ch &&& reg st (b + 4)) &&& 0x80 = 0) (htx : st.txstate = 0)
    (hd : sint32 (1 - (d : Int)) ≤ 0) :
    byte (sci_at_poll st d ch b).ssr ch &&& 0x80 ≠ 0 ∧
    byte (sci_at_poll st d ch b).ssr ch &&& 0x04 = 0 ∧
    (sci_at_poll st d ch b).tx_end_time ch
      = sint32 (sci_complete_time_of (reg st (b + 0)) (reg st (b + 1))) ∧
    (sci_at_poll st d ch b).txstate = 0 ∧
    (sci_at_poll st d ch b).host
      = (sci_send_data (set_ssr st ch (byte st.ssr ch &&& reg st (b + 4))) ch
          (reg st (b + 3))).host ∧
    (sci_at_poll st d ch b).sci_port
      = (sci_send_data (set_ssr st ch (byte st.ssr ch &&& reg st (b + 4))) ch
          (reg st (b + 3))).sci_port := by
  have hl : (byte st.ssr ch &&& reg st (b + 4)) % 256 = byte st.ssr ch &&& reg st (b + 4) :=
    mod256_eq (and_lt_256 _ (reg_lt _ _))
  have hreq : reg (set_ssr st ch (byte st.ssr ch &&& reg st (b + 4))) (b + 2) &&& 0x20 ≠ 0 ∧
      ¬ (byte (set_ssr st ch (byte st.ssr ch &&& reg st (b + 4))).ssr ch &&& 0x80 ≠ 0) ∧
      (set_ssr st ch (byte st.ssr ch &&& reg st (b + 4))).txstate = 0 := by
    refine ⟨hte, ?_, htx⟩
    simp only [byte_set_ssr, ↓reduceIte, hl, hlive]; simp
  obtain ⟨_, _, _, _, _, _, _, a8⟩ :=
    sci_tx_request_obs (set_ssr st ch (byte st.ssr ch &&& reg st (b + 4))) ch b
  rw [if_pos hreq] at a8
  obtain ⟨q1, q2, q3⟩ := a8
  simp only [byte_set_ssr, ↓reduceIte, hl] at q1
  obtain ⟨_, _, _, _, c5, c6, _, _, c9⟩ :=
    sci_tx_complete_obs
      (set_tx_end_time (sci_tx_request (set_ssr st ch (byte st.ssr ch &&& reg st (b + 4))) ch b)
        ch (sint32 ((sci_tx_request (set_ssr st ch (byte st.ssr ch &&& reg st (b + 4)))
          ch b).tx_end_time ch - d))) ch
      (sci_complete_time_of (reg st (b + 0)) (reg st (b + 1)))
  simp only [ssr_set_tx] at c9
  have h80 : byte (sci_tx_request (set_ssr st ch (byte st.ssr ch &&& reg st (b + 4))) ch b).ssr
      ch &&& 0x80 = 0 := by rw [q1, and_fb_80, hlive]
  have h04 : byte (sci_tx_request (set_ssr st ch (byte st.ssr ch &&& reg st (b + 4))) ch b).ssr
      ch &&& 0x04 = 0 := by rw [q1, and_fb_04]
  have hdue : byte (sci_tx_request (set_ssr st ch (byte st.ssr ch &&& reg st (b + 4))) ch b).ssr
      ch &&& 0x84 ≠ 0x84 ∧
      (set_tx_end_time (sci_tx_request (set_ssr st ch (byte st.ssr ch &&& reg st (b + 4))) ch b)
        ch (sint32 ((sci_tx_request (set_ssr st ch (byte st.ssr ch &&& reg st (b + 4)))
          ch b).tx_end_time ch - d))).tx_end_time ch ≤ 0 := by
    refine ⟨not_84_of_not_80 _ h80, ?_⟩
    simp only [set_tx_end_time, upd, ↓reduceIte, q2]
    exact hd
  have hn80 : ¬ (byte (sci_tx_request (set_ssr st ch (byte st.ssr ch &&& reg st (b + 4)))
      ch b).ssr ch &&& 0x80 ≠ 0) := by simp [h80]
  rw [if_pos hdue, if_pos hn80] at c9
  obtain ⟨w1, w2, w3⟩ := c9
  refine ⟨?_, ?_, ?_, ?_, ?_, ?_⟩
  · show byte (sci_tx_complete _ ch _).ssr ch &&& 0x80 ≠ 0
    rw [w1, and_or_self _ _ _ (by decide)]; decide
  · show byte (sci_tx_complete _ ch _).ssr ch &&& 0x04 = 0
    rw [w1, and_or_const _ _ _ (by decide), h04]
  · show (sci_tx_complete _ ch _).tx_end_time ch = _
    rw [w2]
  · show (sci_tx_complete _ ch _).txstate = 0
    exact w3
  · show (sci_tx_complete _ ch _).host = _
    rw [c5]
    show (sci_tx_request _ ch b).host = _
    unfold sci_tx_request
    rw [if_pos hreq]; rfl
  · show (sci_tx_complete _ ch _).sci_port = _
    rw [c6]
    show (sci_tx_request _ ch b).sci_port = _
    unfold sci_tx_request
    rw [if_pos hreq]; rfl

/-- The transmit part of the loop body of `sci` while the transmit-empty bit is
set and the transmit-complete bit is not: nothing is sent, the transmit timer
loses the elapsed cycles, and the transmit-complete bit is set exactly when the
timer has run out. -/
theorem sci_at_poll_wait (st : Sim) (d ch b : Nat)
    (h80 : (byte st.ssr ch &&& reg st (b + 4)) &&& 0x80 ≠ 0)
    (h04 : (byte st.ssr ch &&& reg st (b + 4)) &&& 0x04 = 0) :
    (sci_at_poll st d ch b).tx_end_time ch = sint32 (st.tx_end_time ch - d) ∧
    (sci_at_poll st d ch b).txstate = st.txstate ∧
    (sci_at_poll st d ch b).host = st.host ∧
    (sci_at_poll st d ch b).sci_port = st.sci_port ∧
    byte (sci_at_poll st d ch b).ssr ch &&& 0x80 ≠ 0 ∧
    (sint32 (st.tx_end_time ch - d) ≤ 0 → byte (sci_at_poll st d ch b).ssr ch &&& 0x04 ≠ 0) ∧
    (0 < sint32 (st.tx_end_time ch - d) → byte (sci_at_poll st d ch b).ssr ch &&& 0x04 = 0) := by
  have hl : (byte st.ssr ch &&& reg st (b + 4)) % 256 = byte st.ssr ch &&& reg st (b + 4) :=
    mod256_eq (and_lt_256 _ (reg_lt _ _))
  have hreq : ¬ (reg (set_ssr st ch (byte st.ssr ch &&& reg st (b + 4))) (b + 2) &&& 0x20 ≠ 0 ∧
      ¬ (byte (set_ssr st ch (byte st.ssr ch &&& reg st (b + 4))).ssr ch &&& 0x80 ≠ 0) ∧
      (set_ssr st ch (byte st.ssr ch &&& reg st (b + 4))).txstate = 0) := by
    simp only [byte_set_ssr, ↓reduceIte, hl]
    intro h; exact h.2.1 h80
  have hs1 : sci_tx_request (set_ssr st ch (byte st.ssr ch &&& reg st (b + 4))) ch b
      = set_ssr st ch (byte st.ssr ch &&& reg st (b + 4)) := by
    unfold sci_tx_request; rw [if_neg hreq]
  obtain ⟨_, _, _, _, c5, c6, _, _, c9⟩ :=
    sci_tx_complete_obs
      (set_tx_end_time (set_ssr st ch (byte st.ssr ch &&& reg st (b + 4)))
        ch (sint32 ((set_ssr st ch (byte st.ssr ch &&& reg st (b + 4))).tx_end_time ch - d))) ch
      (sci_complete_time_of (reg st (b + 0)) (reg st (b + 1)))
  simp only [ssr_set_tx, byte_set_ssr, ↓reduceIte, hl] at c9
  have e1 : sci_at_poll st d ch b = set_rx_end_time (sci_tx_complete
      (set_tx_end_time (set_ssr st ch (byte st.ssr ch &&& reg st (b + 4)))
        ch (sint32 ((set_ssr st ch (byte st.ssr ch &&& reg st (b + 4))).tx_end_time ch - d))) ch
      (sci_complete_time_of (reg st (b + 0)) (reg st (b + 1)))) ch
      (sint32 ((sci_tx_complete
      (set_tx_end_time (set_ssr st ch (byte st.ssr ch &&& reg st (b + 4)))
        ch (sint32 ((set_ssr st ch (byte st.ssr ch &&& reg st (b + 4))).tx_end_time ch - d))) ch
      (sci_complete_time_of (reg st (b + 0)) (reg st (b + 1)))).rx_end_time ch - d)) := by
    unfold sci_at_poll; simp only [hs1]
  have hte : (set_tx_end_time (set_ssr st ch (byte st.ssr ch &&& reg st (b + 4)))
        ch (sint32 ((set_ssr st ch (byte st.ssr ch &&& reg st (b + 4))).tx_end_time ch - d))).tx_end_time
        ch = sint32 (st.tx_end_time ch - d) := by
    simp [set_tx_end_time, upd, set_ssr]
  rw [hte] at c9
  have hne : byte st.ssr ch &&& reg st (b + 4) &&& 0x84 ≠ 0x84 := not_84_of_not_04 _ h04
  rw [e1]
  simp only [ssr_set_rx]
  by_cases hd : sint32 (st.tx_end_time ch - d) ≤ 0
  · have hdue : byte st.ssr ch &&& reg st (b + 4) &&& 0x84 ≠ 0x84 ∧
        sint32 (st.tx_end_time ch - d) ≤ 0 := ⟨hne, hd⟩
    have hn : ¬ ¬ (byte st.ssr ch &&& reg st (b + 4) &&& 0x80 ≠ 0) := by simpa using h80
    rw [if_pos hdue, if_neg hn] at c9
    obtain ⟨w1, w2, w3⟩ := c9
    refine ⟨?_, ?_, ?_, ?_, ?_, ?_, ?_⟩
    · show (sci_tx_complete _ ch _).tx_end_time ch = _
      rw [w2]
    · show (sci_tx_complete _ ch _).txstate = _
      rw [w3]; rfl
    · show (sci_tx_complete _ ch _).host = _
      rw [c5]; rfl
    · show (sci_tx_complete _ ch _).sci_port = _
      rw [c6]; rfl
    · rw [w1, and_or_const _ _ _ (by decide)]; exact h80
    · intro _
      rw [w1, and_or_self _ _ _ (by decide)]; decide
    · intro h; omega
  · have hdue : ¬ (byte st.ssr ch &&& reg st (b + 4) &&& 0x84 ≠ 0x84 ∧
        sint32 (st.tx_end_time ch - d) ≤ 0) := fun h => hd h.2
    rw [if_neg hdue] at c9
    obtain ⟨w1, w2, w3⟩ := c9
    refine ⟨?_, ?_, ?_, ?_, ?_, ?_, ?_⟩
    · show (sci_tx_complete _ ch _).tx_end_time ch = _
      rw [w2]
    · show (sci_tx_complete _ ch _).txstate = _
      rw [w3]; rfl
    · show (sci_tx_complete _ ch _).host = _
      rw [c5]; rfl
    · show (sci_tx_complete _ ch _).sci_port = _
      rw [c6]; rfl
    · rw [w1]; exact h80
    · intro h; exact absurd h hd
    · intro _; rw [w1]; exact h04

theorem and_and_ne (x y k : Nat) (hk : k = 0x80 ∨ k = 0x04 ∨ k = 0x40 ∨ k = 0x20)
    (hx : x &&& k ≠ 0) (hy : y &&& k ≠ 0) : (x &&& y) &&& k ≠ 0 := by
  have key : ∀ z : Nat, z &&& k ≠ 0 → z &&& k = k := by
    intro z hz
    rcases hk with r | r | r | r <;> subst r
    · rw [and_80] at hz ⊢; omega
    · rw [and_04] at hz ⊢; omega
    · rw [and_40] at hz ⊢; omega
    · rw [and_20] at hz ⊢; omega
  have h1 := key x hx
  have h2 := key y hy
  have : (x &&& y) &&& k = k := by
    rw [Nat.and_assoc, h2, h1]
  rw [this]
  rcases hk with r | r | r | r <;> subst r <;> decide

theorem and_and_zero (x y k : Nat) (hx : x &&& k = 0) : (x &&& y) &&& k = 0 := by
  rw [Nat.and_assoc, Nat.and_comm y k, ← Nat.and_assoc, hx, Nat.zero_and]

/-- One run of the loop body of `sci` on a channel that waits for the end of
the frame: the channel goes on waiting while the transmit timer has cycles
left, and has the transmit-complete bit set when the timer runs out. -/
theorem sci_channel_wait (st : Sim) (d ch b : Nat) (e : Int) (h : tx_waiting st ch b e) :
    ∃ st', sci_channel st d ch = some st' ∧ reg st' (b + 4) &&& 0x80 ≠ 0 ∧
      (0 < sint32 (e - d) → tx_waiting st' ch b (sint32 (e - d)) ∧ reg st' (b + 4) &&& 0x04 = 0) ∧
      (sint32 (e - d) ≤ 0 → reg st' (b + 4) &&& 0x04 ≠ 0) := by
  obtain ⟨hb, s80, r80, s04, he⟩ := h
  have l80 : (byte st.ssr ch &&& reg st (b + 4)) &&& 0x80 ≠ 0 :=
    and_and_ne _ _ _ (by simp) s80 r80
  have l04 : (byte st.ssr ch &&& reg st (b + 4)) &&& 0x04 = 0 := and_and_zero _ _ _ s04
  obtain ⟨w1, w2, w3, w4, w5, w6, w7⟩ := sci_at_poll_wait st d ch b l80 l04
  obtain ⟨x1, x2, x3, x4, x5, x6, x7, x8⟩ := sci_rx_frame (sci_at_poll st d ch b) ch b
    (sci_complete_time_of (reg st (b + 0)) (reg st (b + 1)))
  obtain ⟨p1, p2, p3, p4, p5, p6⟩ := sci_at_poll_rx st d ch b
  have k80 := x8 0x80 (by decide) (by decide)
  have k04 := x8 0x04 (by decide) (by decide)
  have hbl := byte_lt (sci_rx (sci_at_poll st d ch b) ch b
    (sci_complete_time_of (reg st (b + 0)) (reg st (b + 1)))).ssr ch
  rw [he] at w1 w6 w7
  refine ⟨sci_channel_at st d ch b, by unfold sci_channel; rw [hb]; rfl, ?_, ?_, ?_⟩
  · rw [sci_channel_at_eq]
    simp only [reg_set_reg, ↓reduceIte, mod256_eq hbl, k80]
    exact w5
  · intro hpos
    rw [sci_channel_at_eq]
    refine ⟨⟨?_, ?_, ?_, ?_, ?_⟩, ?_⟩
    · show (sci_rx _ ch b _).sci_base.get? ch = _
      rw [x3, p3]; exact hb
    · simp only [ssr_set_reg, k80]; exact w5
    · simp only [reg_set_reg, ↓reduceIte, mod256_eq hbl, k80]; exact w5
    · simp only [ssr_set_reg, k04]; exact w7 hpos
    · show (sci_rx _ ch b _).tx_end_time ch = _
      rw [x1, w1]
    · simp only [reg_set_reg, ↓reduceIte, mod256_eq hbl, k04]; exact w7 hpos
  · intro hle
    rw [sci_channel_at_eq]
    simp only [reg_set_reg, ↓reduceIte, mod256_eq hbl, k04]
    exact w6 hle

theorem sent_write (h : Posix.Host) (fd fd' : Int) (buf : List Nat) :
    ∃ r, (Posix.write h fd buf).2.sent fd' = h.sent fd' ++ r := by
  unfold Posix.write
  cases h.write_errno fd with
  | some e => exact ⟨[], by simp⟩
  | none =>
    by_cases hf : fd' = fd
    · exact ⟨buf, by simp [Posix.updi, hf]⟩
    · exact ⟨[], by simp [Posix.updi, hf]⟩

/-- What `telnet_escape` writes: it only adds to what was sent. -/
theorem telnet_escape_sent (st : Sim) (ch rd : Nat) (fd' : Int) :
    ∃ r, (telnet_escape st ch rd).host.sent fd' = st.host.sent fd' ++ r := by
  unfold telnet_escape
  by_cases h1 : (st.sci_port ch).iac = 1
  · exact ⟨[], by simp [h1, set_port]⟩
  · by_cases h2 : (st.sci_port ch).iac = 2
    · by_cases h3 : (rd = 1 ∨ rd = 3) ∧ uchar (st.sci_port ch).cmd = 0xfd
      · exact ⟨[], by simp [h2, h3, set_port]⟩
      · simp only [h1, h2, h3, ↓reduceIte, set_port]
        exact sent_write _ _ _ _
    · exact ⟨[], by simp [h1, h2]⟩

/-- What `sci_rcv_data` writes: it only adds to what was sent, and nothing
outside socket mode. -/
theorem sci_rcv_data_sent (st : Sim) (ch : Nat) (fd' : Int) :
    ∃ r, (sci_rcv_data st ch).2.host.sent fd' = st.host.sent fd' ++ r ∧
      (st.sci_port_type ≠ PORT_NET → r = []) := by
  unfold sci_rcv_data
  by_cases h : (st.sci_port ch).fd ≥ 0
  · simp only [h, ↓reduceIte]
    unfold Posix.read
    cases st.host.pending (st.sci_port ch).fd with
    | nil =>
      by_cases he : st.host.read_errno (st.sci_port ch).fd = Posix.EAGAIN
      · exact ⟨[], by simp [he]⟩
      · exact ⟨[], by simp [he, set_port, Posix.close]⟩
    | cons rd rest =>
      simp only
      by_cases hn : st.sci_port_type = PORT_NET
      · rw [if_pos hn]
        by_cases hi : (st.sci_port ch).iac > 0
        · rw [if_pos hi]
          obtain ⟨r, hr⟩ := telnet_escape_sent
            { st with host := { st.host with
                pending := Posix.updi st.host.pending (st.sci_port ch).fd rest } } ch (rd % 256) fd'
          exact ⟨r, hr, fun hne => absurd hn hne⟩
        · rw [if_neg hi]
          by_cases hff : rd % 256 = 0xff
          · exact ⟨[], by simp [hff, set_port], fun _ => rfl⟩
          · exact ⟨[], by simp [hff], fun _ => rfl⟩
      · rw [if_neg hn]
        exact ⟨[], by simp, fun _ => rfl⟩
  · exact ⟨[], by simp [h]⟩

/-- What the receive check of `sci` writes. -/
theorem sci_rx_sent (s : Sim) (ch b t : Nat) (fd' : Int) :
    ∃ r, (sci_rx s ch b t).host.sent fd' = s.host.sent fd' ++ r ∧
      (s.sci_port_type ≠ PORT_NET → r = []) := by
  obtain ⟨r, hr, hn⟩ := sci_rcv_data_sent s ch fd'
  unfold sci_rx
  by_cases hel : s.rx_end_time ch ≤ 0
  · by_cases hre : reg s (b + 2) &&& 0x10 ≠ 0
    · rw [if_pos hel, if_pos hre]
      cases hc : sci_rcv_data s ch with
      | mk o s3 =>
        rw [hc] at hr
        cases o with
        | none => exact ⟨r, hr, hn⟩
        | some data =>
          refine ⟨r, ?_, hn⟩
          simp only
          split_ifs <;> simpa [set_rx_end_time, set_ssr, set_reg] using hr
    · rw [if_pos hel, if_neg hre]; exact ⟨[], by simp, fun _ => rfl⟩
  · rw [if_neg hel]; exact ⟨[], by simp, fun _ => rfl⟩

/-- What `sci_send_data` sends on a connected channel whose descriptor takes
the byte. -/
theorem sci_send_data_sent (st : Sim) (ch txd : Nat) (fd : Int) (hfd : (st.sci_port ch).fd = fd)
    (h0 : 0 ≤ fd) (hw : st.host.write_errno fd = none) :
    (sci_send_data st ch txd).host.sent fd = st.host.sent fd ++ [uchar txd] ∧
      (sci_send_data st ch txd).sci_port = st.sci_port := by
  unfold sci_send_data
  have h0' : (st.sci_port ch).fd ≥ 0 := by rw [hfd]; exact h0
  simp only [h0', ↓reduceIte]
  unfold Posix.write
  rw [hfd, hw]
  simp [Posix.updi]

/-- Runs of the loop body of `sci` on a channel that waits for the end of the
frame, while the cycles that elapse stay below the cycles the transmit timer
has left: the channel goes on waiting, transmit-complete still clear. -/
theorem sci_calls_wait (ch b : Nat) (ds : List Nat) :
    ∀ (st : Sim) (e : Int), tx_waiting st ch b e → reg st (b + 4) &&& 0x04 = 0 →
      e < 2147483648 → ((ds.sum : Nat) : Int) < e →
      ∃ st', sci_calls ch ds st = some st' ∧ tx_waiting st' ch b (e - ds.sum) ∧
        reg st' (b + 4) &&& 0x04 = 0 := by
  induction ds with
  | nil => intro st e h h4 _ _; exact ⟨st, rfl, by simpa using h, h4⟩
  | cons d ds ih =>
    intro st e h h4 he hs
    simp only [List.sum_cons, Nat.cast_add] at hs
    have hd0 : (0 : Int) ≤ (d : Int) := Int.ofNat_nonneg d
    have hs0 : (0 : Int) ≤ ((ds.sum : Nat) : Int) := Int.ofNat_nonneg _
    have hpos : sint32 (e - d) = e - d := sint32_small _ (by omega) (by omega)
    obtain ⟨s1, c1, _, c3, _⟩ := sci_channel_wait st d ch b e h
    rw [hpos] at c3
    obtain ⟨w1, w2⟩ := c3 (by omega)
    obtain ⟨s2, i1, i2, i3⟩ := ih s1 (e - d) w1 w2 (by omega) (by omega)
    refine ⟨s2, by simp [sci_calls, c1, i1], ?_, i3⟩
    have : e - ((d + ds.sum : Nat) : Int) = e - d - ds.sum := by push_cast; omega
    simp only [List.sum_cons]
    rw [this]; exact i2

theorem sint32_range (x : Int) (h1 : -2147483648 ≤ x) (h2 : x < 2147483648) : sint32 x = x := by
  unfold sint32
  by_cases h : 0 ≤ x
  · have : x % 4294967296 = x := Int.emod_eq_of_lt h (by omega)
    rw [this]; simp [h2]
  · have : x % 4294967296 = x + 4294967296 := by omega
    rw [this]
    have h3 : ¬ x + 4294967296 < 2147483648 := by omega
    simp [h3]

/-- One run of the loop body of `sci` on a channel with transmit enabled (SCR
bit 0x20), whose transmit-empty bit (SSR 0x80) software has cleared, with no
shift in progress and `cycles_diff` from 1 to 2^31 + 1: the TDR byte is handed
to `sci_send_data` once (on a connected channel whose descriptor takes the byte
it is added once to what was sent), SSR 0x80 is set again and transmit-complete
(SSR 0x04) is left clear; transmit-complete is then set by the first later run
at which the cycles of one byte have elapsed, each run's `cycles_diff` being at
most 2^31. -/
theorem sci_channel_tx (st : Sim) (d ch b : Nat) (hb : st.sci_base.get? ch = some b)
    (hte : reg st (b + 2) &&& 0x20 ≠ 0) (hclr : reg st (b + 4) &&& 0x80 = 0)
    (htx : st.txstate = 0) (hd1 : 1 ≤ d) (hd2 : d ≤ 2 ^ 31 + 1) :
    ∃ st', sci_channel st d ch = some st' ∧
      (∀ fd, (st.sci_port ch).fd = fd → 0 ≤ fd → st.host.write_errno fd = none →
        ∃ r, st'.host.sent fd = st.host.sent fd ++ reg st (b + 3) :: r ∧
          (st.sci_port_type ≠ PORT_NET → r = [])) ∧
      reg st' (b + 4) &&& 0x80 ≠ 0 ∧ reg st' (b + 4) &&& 0x04 = 0 ∧
      tx_waiting st' ch b (cycles_per_byte (reg st b) (reg st (b + 1))) ∧
      ∀ (ds : List Nat) (d' : Nat), (∀ x ∈ ds, x ≤ 2 ^ 31) → d' ≤ 2 ^ 31 →
        (ds = [] ∨ ds.sum < cycles_per_byte (reg st b) (reg st (b + 1))) →
        cycles_per_byte (reg st b) (reg st (b + 1)) ≤ ds.sum + d' →
        ∃ s1 s2, sci_calls ch ds st' = some s1 ∧ reg s1 (b + 4) &&& 0x04 = 0 ∧
          sci_channel s1 d' ch = some s2 ∧ reg s2 (b + 4) &&& 0x04 ≠ 0 := by
  have hlive : (byte st.ssr ch &&& reg st (b + 4)) &&& 0x80 = 0 := by
    rw [Nat.and_assoc, hclr, Nat.and_zero]
  have hd : sint32 (1 - (d : Int)) ≤ 0 := by
    have h2 : (2 : Nat) ^ 31 = 2147483648 := by norm_num
    rw [h2] at hd2
    rw [sint32_range] <;> omega
  obtain ⟨t1, t2, t3, t4, t5, t6⟩ := sci_at_poll_start st d ch b hte hlive htx hd
  obtain ⟨x1, x2, x3, x4, x5, x6, x7, x8⟩ := sci_rx_frame (sci_at_poll st d ch b) ch b
    (sci_complete_time_of (reg st (b + 0)) (reg st (b + 1)))
  obtain ⟨p1, p2, p3, p4, p5, p6⟩ := sci_at_poll_rx st d ch b
  have k80 := x8 0x80 (by decide) (by decide)
  have k04 := x8 0x04 (by decide) (by decide)
  have hbl := byte_lt (sci_rx (sci_at_poll st d ch b) ch b
    (sci_complete_time_of (reg st (b + 0)) (reg st (b + 1)))).ssr ch
  have hcpb := sci_complete_time_of_eq (reg st b) (reg st (b + 1)) (reg_lt _ _)
  have r80 : reg (sci_channel_at st d ch b) (b + 4) &&& 0x80 ≠ 0 := by
    rw [sci_channel_at_eq]
    simp only [reg_set_reg, ↓reduceIte, mod256_eq hbl, k80]; exact t1
  have r04 : reg (sci_channel_at st d ch b) (b + 4) &&& 0x04 = 0 := by
    rw [sci_channel_at_eq]
    simp only [reg_set_reg, ↓reduceIte, mod256_eq hbl, k04]; exact t2
  have hw : tx_waiting (sci_channel_at st d ch b) ch b
      (cycles_per_byte (reg st b) (reg st (b + 1))) := by
    rw [sci_channel_at_eq]
    refine ⟨?_, ?_, ?_, ?_, ?_⟩
    · show (sci_rx _ ch b _).sci_base.get? ch = _
      rw [x3, p3]; exact hb
    · simp only [ssr_set_reg, k80]; exact t1
    · simp only [reg_set_reg, ↓reduceIte, mod256_eq hbl, k80]; exact t1
    · simp only [ssr_set_reg, k04]; exact t2
    · show (sci_rx _ ch b _).tx_end_time ch = _
      rw [x1, t3, Nat.add_zero, sci_complete_time_of_int _ _ (reg_lt _ _)]
  refine ⟨sci_channel_at st d ch b, by unfold sci_channel; rw [hb]; rfl, ?_, r80, r04, hw, ?_⟩
  · intro fd hfd h0 hwr
    obtain ⟨r, hr, hn⟩ := sci_rx_sent (sci_at_poll st d ch b) ch b
      (sci_complete_time_of (reg st (b + 0)) (reg st (b + 1))) fd
    obtain ⟨g1, _⟩ := sci_send_data_sent (set_ssr st ch (byte st.ssr ch &&& reg st (b + 4))) ch
      (reg st (b + 3)) fd hfd h0 hwr
    refine ⟨r, ?_, fun hne => hn (by rw [p4]; exact hne)⟩
    rw [sci_channel_at_eq]
    show (sci_rx _ ch b _).host.sent fd = _
    rw [hr, t5, g1]
    simp [set_ssr, uchar, mod256_eq (reg_lt st (b + 3))]
  · intro ds d' hds hd' hsum hel
    have h2 : (2 : Nat) ^ 31 = 2147483648 := by norm_num
    rw [h2] at hd'
    have hc : cycles_per_byte (reg st b) (reg st (b + 1)) ≤ 6266880 := hcpb.2
    rcases hsum with rfl | hsum
    · obtain ⟨s2, c1, _, _, c4⟩ := sci_channel_wait (sci_channel_at st d ch b) d' ch b _ hw
      refine ⟨_, s2, rfl, r04, c1, c4 ?_⟩
      simp only [List.sum_nil, Nat.zero_add] at hel
      rw [sint32_range] <;> omega
    · obtain ⟨s1, i1, i2, i3⟩ := sci_calls_wait ch b ds (sci_channel_at st d ch b) _ hw r04
        (by omega) (by exact_mod_cast hsum)
      obtain ⟨s2, c1, _, _, c4⟩ := sci_channel_wait s1 d' ch b _ i2
      refine ⟨s1, s2, i1, i3, c1, c4 ?_⟩
      have : ((cycles_per_byte (reg st b) (reg st (b + 1)) : Nat) : Int) - (ds.sum : Nat)
          - (d' : Nat) ≤ 0 := by omega
      rw [sint32_range] <;> omega

/-! ## The call `sci` as a whole -/

theorem same_sci_refl (s : Sim) : same_sci s s := ⟨rfl, rfl, rfl, rfl, rfl, rfl, rfl⟩

theorem same_sci_trans {a b c : Sim} (h1 : same_sci a b) (h2 : same_sci b c) : same_sci a c := by
  obtain ⟨a1, a2, a3, a4, a5, a6, a7⟩ := h1
  obtain ⟨b1, b2, b3, b4, b5, b6, b7⟩ := h2
  exact ⟨b1.trans a1, b2.trans a2, b3.trans a3, b4.trans a4, b5.trans a5, b6.trans a6,
    b7.trans a7⟩

theorem same_sci_host (s : Sim) (h : Posix.Host) : same_sci s { s with host := h } :=
  ⟨rfl, rfl, rfl, rfl, rfl, rfl, rfl⟩

theorem same_sci_port (s : Sim) (ch : Nat) (p : sci_port_t) : same_sci s (set_port s ch p) :=
  ⟨rfl, rfl, rfl, rfl, rfl, rfl, rfl⟩

theorem net_accept_while_frame (ch : Nat) (n : Nat) :
    ∀ st, same_sci st (net_accept_while ch n st).2 := by
  induction n with
  | zero => intro st; exact same_sci_refl st
  | succ n ih =>
    intro st
    unfold net_accept_while
    cases hr : Posix.read st.host (st.sci_port ch).fd with
    | mk r h =>
      cases r with
      | error e => exact same_sci_host st h
      | ok rd =>
        simp only
        split_ifs
        · exact same_sci_trans (same_sci_host st h) (telnet_escape_frame _ ch rd)
        · exact same_sci_trans (same_sci_host st h) (same_sci_port _ _ _)
        · exact same_sci_trans (same_sci_host st h) (ih _)

theorem net_accept_for_frame (l : List Nat) : ∀ st, same_sci st (net_accept_for st l).2 := by
  induction l with
  | nil => intro st; exact same_sci_refl st
  | cons ch rest ih =>
    intro st
    unfold net_accept_for
    split_ifs with hfd
    · cases ha : Posix.accept st.host (st.sci_port ch).socket with
      | mk connectfd h =>
        simp only
        split_ifs with hc
        · have k1 : same_sci st (set_port (telnet_request (set_port { st with host := h } ch
              { ({ st with host := h } : Sim).sci_port ch with fd := connectfd }) connectfd) ch
              { (telnet_request (set_port { st with host := h } ch
                { ({ st with host := h } : Sim).sci_port ch with fd := connectfd })
                  connectfd).sci_port ch with iac := 0 }) :=
            ⟨rfl, rfl, rfl, rfl, rfl, rfl, rfl⟩
          generalize (set_port (telnet_request (set_port { st with host := h } ch
              { ({ st with host := h } : Sim).sci_port ch with fd := connectfd }) connectfd) ch
              { (telnet_request (set_port { st with host := h } ch
                { ({ st with host := h } : Sim).sci_port ch with fd := connectfd })
                  connectfd).sci_port ch with iac := 0 }) = s1 at k1 ⊢
          have k2 := net_accept_while_frame ch ((s1.host.pending connectfd).length + 1) s1
          cases hw : net_accept_while ch ((s1.host.pending connectfd).length + 1) s1 with
          | mk r s2 =>
            rw [hw] at k2
            cases r with
            | true => exact same_sci_trans k1 k2
            | false => exact same_sci_trans (same_sci_trans k1 k2) (ih s2)
        · exact same_sci_trans (same_sci_host st h) (ih _)
    · exact ih st

theorem net_accept_frame (st : Sim) : same_sci st (net_accept st).2 :=
  net_accept_for_frame _ st

theorem same_channel_refl (s : Sim) (ch b : Nat) : same_channel s s ch b :=
  ⟨rfl, rfl, fun _ _ _ => rfl, rfl, rfl, rfl⟩

theorem same_channel_trans {x y z : Sim} {ch b : Nat} (h1 : same_channel x y ch b)
    (h2 : same_channel y z ch b) : same_channel x z ch b := by
  obtain ⟨a1, a2, a3, a4, a5, a6⟩ := h1
  obtain ⟨b1, b2, b3, b4, b5, b6⟩ := h2
  exact ⟨b1.trans a1, b2.trans a2, fun a l u => (b3 a l u).trans (a3 a l u), b4.trans a4,
    b5.trans a5, b6.trans a6⟩

theorem same_channel_of_same_sci {s s' : Sim} (h : same_sci s s') (ch b : Nat) :
    same_channel s s' ch b := by
  obtain ⟨a1, a2, a3, a4, a5, a6, a7⟩ := h
  exact ⟨a6, a7, fun a _ _ => by unfold reg; rw [a1], by rw [a2], by rw [a4], by rw [a3]⟩

/-- The part of the loop body of `sci` before the receive check leaves the
timers and shadows of the other channels alone. -/
theorem sci_at_poll_other (st : Sim) (d ch b i : Nat) (hi : i ≠ ch) :
    byte (sci_at_poll st d ch b).ssr i = byte st.ssr i ∧
      (sci_at_poll st d ch b).rx_end_time i = st.rx_end_time i ∧
      (sci_at_poll st d ch b).tx_end_time i = st.tx_end_time i := by
  obtain ⟨_, a2, _, _, _, a6, a7, _⟩ :=
    sci_tx_request_obs (set_ssr st ch (byte st.ssr ch &&& reg st (b + 4))) ch b
  obtain ⟨_, c2, _, _, _, _, c7, c8, _⟩ :=
    sci_tx_complete_obs
      (set_tx_end_time (sci_tx_request (set_ssr st ch (byte st.ssr ch &&& reg st (b + 4))) ch b)
        ch (sint32 ((sci_tx_request (set_ssr st ch (byte st.ssr ch &&& reg st (b + 4)))
          ch b).tx_end_time ch - d))) ch
      (sci_complete_time_of (reg st (b + 0)) (reg st (b + 1)))
  refine ⟨?_, ?_, ?_⟩
  · show byte (sci_tx_complete _ ch _).ssr i = _
    rw [c8 i hi]
    simp only [ssr_set_tx]
    rw [a7 i hi]
    simp [hi]
  · show upd (sci_tx_complete _ ch _).rx_end_time ch _ i = _
    rw [c2]
    simp only [upd, hi, ↓reduceIte]
    show (sci_tx_request _ ch b).rx_end_time i = _
    rw [a2]; rfl
  · show (sci_tx_complete _ ch _).tx_end_time i = _
    rw [c7 i hi]
    show upd (sci_tx_request _ ch b).tx_end_time ch _ i = _
    simp only [upd, hi, ↓reduceIte]
    rw [a6 i hi]; rfl

/-- The loop body of `sci` for a channel leaves every other channel alone whose
registers lie elsewhere. -/
theorem sci_channel_at_other (st : Sim) (d ch' b' ch b : Nat) (hne : ch ≠ ch')
    (hsp : b + 8 ≤ b' ∨ b' + 8 ≤ b) :
    same_channel st (sci_channel_at st d ch' b') ch b := by
  obtain ⟨p1, _, p3, p4, _, _⟩ := sci_at_poll_rx st d ch' b'
  obtain ⟨o1, o2, o3⟩ := sci_at_poll_other st d ch' b' ch hne
  obtain ⟨x1, _, x3, x4, x5, x6, x7, _⟩ := sci_rx_frame (sci_at_poll st d ch' b') ch' b'
    (sci_complete_time_of (reg st (b' + 0)) (reg st (b' + 1)))
  rw [sci_channel_at_eq]
  refine ⟨?_, ?_, ?_, ?_, ?_, ?_⟩
  · show (sci_rx _ ch' b' _).sci_base = _
    rw [x3, p3]
  · show (sci_rx _ ch' b' _).sci_port_type = _
    rw [x4, p4]
  · intro a l u
    have e4 : a ≠ b' + 4 := by omega
    have e5 : a ≠ b' + 5 := by omega
    simp only [reg_set_reg, e4, ↓reduceIte]
    rw [x5 a e5]
    unfold reg; rw [p1]
  · simp only [ssr_set_reg]
    rw [x6 ch hne, o1]
  · show (sci_rx _ ch' b' _).rx_end_time ch = _
    rw [x7 ch hne, o2]
  · show (sci_rx _ ch' b' _).tx_end_time ch = _
    rw [x1, o3]

theorem sci_tables_spacing (T : List Nat)
    (hT : T = h8300h_sci_base ∨ T = h8300s_sci_base ∨ T = h8300sx_sci_base)
    (i j bi bj : Nat) (hi : T.get? i = some bi) (hj : T.get? j = some bj) (hij : i ≠ j) :
    bi + 8 ≤ bj ∨ bj + 8 ≤ bi := by
  have h3i : i < 3 := by
    rcases hT with rfl | rfl | rfl <;>
      exact (List.get?_eq_some.mp hi).1
  have h3j : j < 3 := by
    rcases hT with rfl | rfl | rfl <;>
      exact (List.get?_eq_some.mp hj).1
  rcases hT with rfl | rfl | rfl <;> interval_cases i <;> interval_cases j <;>
    simp [h8300h_sci_base, h8300s_sci_base, h8300sx_sci_base] at hi hj hij ⊢ <;> omega

theorem sci_tables_get (T : List Nat)
    (hT : T = h8300h_sci_base ∨ T = h8300s_sci_base ∨ T = h8300sx_sci_base)
    (i : Nat) (hi : i < 3) : ∃ b, T.get? i = some b := by
  rcases hT with rfl | rfl | rfl <;> interval_cases i <;>
    simp [h8300h_sci_base, h8300s_sci_base, h8300sx_sci_base]

/-- The loop of `sci` over channels other than `ch` leaves channel `ch`
alone. -/
theorem sci_for_other (d ch b : Nat) (l : List Nat) :
    ∀ st, sci_tables st → st.sci_base.get? ch = some b → (∀ i ∈ l, i < 3 ∧ i ≠ ch) →
      ∃ st', sci_for d l st = some st' ∧ same_channel st st' ch b ∧ sci_tables st' := by
  induction l with
  | nil => intro st ht _ _; exact ⟨st, rfl, same_channel_refl _ _ _, ht⟩
  | cons i rest ih =>
    intro st ht hb hl
    obtain ⟨hi3, hic⟩ := hl i (List.mem_cons_self _ _)
    obtain ⟨bi, hbi⟩ := sci_tables_get st.sci_base ht i hi3
    have hsp := sci_tables_spacing st.sci_base ht ch i b bi hb hbi (Ne.symm hic)
    have k := sci_channel_at_other st d i bi ch b (Ne.symm hic) hsp
    have ht1 : sci_tables (sci_channel_at st d i bi) := by
      unfold sci_tables; rw [k.1]; exact ht
    obtain ⟨st', e1, e2, e3⟩ := ih (sci_channel_at st d i bi) ht1 (by rw [k.1]; exact hb)
      (fun j hj => hl j (List.mem_cons_of_mem _ hj))
    refine ⟨st', ?_, same_channel_trans k e2, e3⟩
    unfold sci_for sci_channel
    rw [hbi]
    exact e1

theorem sci_for_append (d : Nat) (l1 l2 : List Nat) :
    ∀ st, sci_for d (l1 ++ l2) st = (sci_for d l1 st).bind (sci_for d l2) := by
  induction l1 with
  | nil => intro st; rfl
  | cons i rest ih =>
    intro st
    show (sci_channel st d i).bind (sci_for d (rest ++ l2))
      = ((sci_channel st d i).bind (sci_for d rest)).bind (sci_for d l2)
    cases sci_channel st d i with
    | none => rfl
    | some s => exact ih s

theorem sci_channel_at_base (st : Sim) (d ch b : Nat) :
    (sci_channel_at st d ch b).sci_base = st.sci_base := by
  obtain ⟨_, _, p3, _, _, _⟩ := sci_at_poll_rx st d ch b
  obtain ⟨_, _, x3, _, _, _, _, _⟩ := sci_rx_frame (sci_at_poll st d ch b) ch b
    (sci_complete_time_of (reg st (b + 0)) (reg st (b + 1)))
  rw [sci_channel_at_eq]
  show (sci_rx _ ch b _).sci_base = _
  rw [x3, p3]

theorem sci_tables_congr {s s' : Sim} (h : s'.sci_base = s.sci_base) (ht : sci_tables s) :
    sci_tables s' := by
  unfold sci_tables; rw [h]; exact ht

theorem range_three_split (ch : Nat) (hch : ch < 3) :
    List.range 3 = List.range ch ++ ch :: List.range' (ch + 1) (2 - ch) := by
  interval_cases ch <;> rfl

/-- The call `sci` around the run of its loop body for channel `ch`: the state
`s` in which the loop gets to the channel has the channel as it was on entry,
and the rest of the call leaves the channel as that run left it. -/
theorem sci_around (st : Sim) (d ch b : Nat) (s : Sim) (ht : sci_tables st) (hch : ch < 3)
    (hb : st.sci_base.get? ch = some b) (hr : sci_reach st d ch = some s) :
    same_channel st s ch b ∧ s.sci_base.get? ch = some b ∧
      ∃ st', sci st d = some st' ∧ same_channel (sci_channel_at s d ch b) st' ch b := by
  have key : ∀ s0, same_sci st s0 → sci_for d (List.range ch) s0 = some s →
      same_channel st s ch b ∧ s.sci_base.get? ch = some b ∧
        ∃ st', sci_for d (List.range 3) s0 = some st' ∧
          same_channel (sci_channel_at s d ch b) st' ch b := by
    intro s0 h0 hs
    have c0 := same_channel_of_same_sci h0 ch b
    have ht0 : sci_tables s0 := sci_tables_congr c0.1 ht
    have hb0 : s0.sci_base.get? ch = some b := by rw [c0.1]; exact hb
    obtain ⟨s', e1, e2, e3⟩ := sci_for_other d ch b (List.range ch) s0 ht0 hb0
      (fun i hi => by rw [List.mem_range] at hi; omega)
    rw [hs] at e1
    obtain rfl : s = s' := Option.some.inj e1
    have hbs : s.sci_base.get? ch = some b := by rw [e2.1]; exact hb0
    have hb1 : (sci_channel_at s d ch b).sci_base.get? ch = some b := by
      rw [sci_channel_at_base]; exact hbs
    obtain ⟨st', f1, f2, _⟩ := sci_for_other d ch b (List.range' (ch + 1) (2 - ch))
      (sci_channel_at s d ch b) (sci_tables_congr (sci_channel_at_base s d ch b) e3) hb1
      (fun i hi => by rw [List.mem_range'_1] at hi; omega)
    refine ⟨same_channel_trans c0 e2, hbs, st', ?_, f2⟩
    rw [range_three_split ch hch, sci_for_append, hs]
    show (sci_channel s d ch).bind _ = _
    unfold sci_channel
    rw [hbs]
    exact f1
  unfold sci_reach at hr
  unfold sci
  by_cases hn : st.sci_port_type = PORT_NET
  · rw [if_pos hn] at hr ⊢
    have hf := net_accept_frame st
    cases ha : net_accept st with
    | mk r s0 =>
      rw [ha] at hr hf
      cases r with
      | true => simp at hr
      | false => exact key s0 hf hr
  · rw [if_neg hn] at hr ⊢
    exact key st (same_sci_refl st) hr

theorem sci_tables_lt (st : Sim) (ht : sci_tables st) (ch b : Nat)
    (hb : st.sci_base.get? ch = some b) : ch < 3 := by
  have := (List.get?_eq_some.mp hb).1
  rcases ht with h | h | h <;> rw [h] at this <;> exact this

/-- The call `sci` when the transport yields a byte at the poll of a channel
whose receive timer has run out and which has receiving enabled: the registers
and the receive timer of the channel after the call. -/
theorem sci_call_rx (st : Sim) (d ch b data : Nat) (ht : sci_tables st)
    (hb : st.sci_base.get? ch = some b)
    (hre : reg st (b + 2) &&& 0x10 ≠ 0) (hel : sint32 (st.rx_end_time ch - d) ≤ 0)
    (hy : sci_poll st d ch = some data) :
    ∃ st', sci st d = some st' ∧
      st'.rx_end_time ch = (cycles_per_byte (reg st b) (reg st (b + 1)) : Int) ∧
      ((byte st.ssr ch &&& reg st (b + 4)) &&& 0x40 = 0 →
        reg st' (b + 5) = data ∧ reg st' (b + 4) &&& 0x40 ≠ 0 ∧
        reg st' (b + 4) &&& 0x20 = (byte st.ssr ch &&& reg st (b + 4)) &&& 0x20) ∧
      ((byte st.ssr ch &&& reg st (b + 4)) &&& 0x40 ≠ 0 →
        reg st' (b + 5) = reg st (b + 5) ∧ reg st' (b + 4) &&& 0x20 ≠ 0 ∧
        reg st' (b + 4) &&& 0x40 ≠ 0) := by
  have hch := sci_tables_lt st ht ch b hb
  unfold sci_poll at hy
  cases hr : sci_reach st d ch with
  | none => rw [hr] at hy; simp at hy
  | some s =>
    rw [hr, hb] at hy
    simp only at hy
    obtain ⟨⟨_, _, c3, c4, c5, _⟩, hbs, st', e, ⟨_, _, k3, _, k5, _⟩⟩ :=
      sci_around st d ch b s ht hch hb hr
    have r0 := c3 b (by omega) (by omega)
    have r1 := c3 (b + 1) (by omega) (by omega)
    have r2 := c3 (b + 2) (by omega) (by omega)
    have r4 := c3 (b + 4) (by omega) (by omega)
    have r5 := c3 (b + 5) (by omega) (by omega)
    obtain ⟨s1, g1, g2, g3, g4⟩ := sci_channel_rx s d ch b data hbs (by rw [r2]; exact hre)
      (by rw [c5]; exact hel) hy
    have hs1 : s1 = sci_channel_at s d ch b := by
      unfold sci_channel at g1
      rw [hbs] at g1
      exact (Option.some.inj g1).symm
    subst hs1
    rw [r0, r1] at g2
    rw [c4, r4] at g3 g4
    rw [r5] at g4
    refine ⟨st', e, by rw [k5]; exact g2, ?_, ?_⟩
    · intro hf
      rw [k3 (b + 5) (by omega) (by omega), k3 (b + 4) (by omega) (by omega)]
      exact g3 hf
    · intro hf
      rw [k3 (b + 5) (by omega) (by omega), k3 (b + 4) (by omega) (by omega)]
      exact g4 hf
/-! ## Status bits stay set -/

theorem and_two_pow_ne (x k : Nat) : x &&& 2 ^ k ≠ 0 ↔ x.testBit k = true := by
  constructor
  · intro h
    obtain ⟨i, hi⟩ := Nat.ne_zero_implies_bit_true h
    rw [Nat.testBit_and, Nat.testBit_two_pow] at hi
    simp only [Bool.and_eq_true, decide_eq_true_eq] at hi
    obtain ⟨h1, rfl⟩ := hi
    exact h1
  · intro h e
    have := congrArg (fun z => Nat.testBit z k) e
    simp only [Nat.testBit_and, Nat.testBit_two_pow_self, h, Nat.zero_testBit] at this
    exact absurd this (by decide)

theorem status_bit_cases (bit : Nat) (hb : bit = 0x20 ∨ bit = 0x40 ∨ bit = 0x80) :
    ∃ k, (k = 5 ∨ k = 6 ∨ k = 7) ∧ bit = 2 ^ k := by
  rcases hb with r | r | r
  · exact ⟨5, Or.inl rfl, r⟩
  · exact ⟨6, Or.inr (Or.inl rfl), r⟩
  · exact ⟨7, Or.inr (Or.inr rfl), r⟩

theorem or_and_ne (x c bit : Nat) (h : x &&& bit ≠ 0) : (x ||| c) &&& bit ≠ 0 := by
  intro e
  apply h
  apply Nat.eq_of_testBit_eq
  intro i
  have := congrArg (fun z => Nat.testBit z i) e
  simp only [Nat.testBit_and, Nat.testBit_or, Nat.zero_testBit] at this ⊢
  cases hx : x.testBit i <;> cases hb : bit.testBit i <;> simp_all

theorem and_f0_ne (x y bit : Nat) (hb : bit = 0x20 ∨ bit = 0x40 ∨ bit = 0x80)
    (hx : x &&& bit ≠ 0) (hy : y &&& bit ≠ 0) : (x &&& (y &&& 0xf0)) &&& bit ≠ 0 := by
  obtain ⟨k, hk, rfl⟩ := status_bit_cases bit hb
  rw [and_two_pow_ne] at hx hy ⊢
  rw [Nat.testBit_and, Nat.testBit_and, hx, hy]
  rcases hk with rfl | rfl | rfl <;> decide

theorem uchar_and_bit (x bit : Nat) (hb : bit = 0x20 ∨ bit = 0x40 ∨ bit = 0x80) :
    (x % 256) &&& bit = x &&& bit := by
  rcases hb with r | r | r <;> subst r <;> exact (and_byte_mask x _ (by decide)).symm

/-- The write-back of the status bits: TCSR gets bit `bit` as the shadow has
it. -/
theorem write_back_bit (r s bit : Nat) (hb : bit = 0x20 ∨ bit = 0x40 ∨ bit = 0x80) :
    ((r &&& 0x1f) ||| (s &&& 0xe0)) &&& bit ≠ 0 ↔ s &&& bit ≠ 0 := by
  obtain ⟨k, hk, rfl⟩ := status_bit_cases bit hb
  rw [and_two_pow_ne, and_two_pow_ne, Nat.testBit_or, Nat.testBit_and, Nat.testBit_and]
  rcases hk with rfl | rfl | rfl <;>
    simp [show Nat.testBit 31 5 = false by decide, show Nat.testBit 31 6 = false by decide,
      show Nat.testBit 31 7 = false by decide, show Nat.testBit 224 5 = true by decide,
      show Nat.testBit 224 6 = true by decide, show Nat.testBit 224 7 = true by decide]

/-- The 8-bit branch as the checks of `timer8_match8` on a state and a count:
the counter incremented and its new value when the expired prescaler is the
selected one, the state as it is and the local `cnt` when not. -/
theorem timer8_8bit_eq (s : Sim) (pcnt tm b : Nat) (cnt : Option Nat) :
    timer8_8bit s pcnt tm b cnt =
      if reg s b &&& 0x07 = pcnt + 1 then
        some ((timer8_match8 (set_reg s (b + 8) (reg s (b + 8) + 1)) tm b
            ((reg s (b + 8) + 1) % 256)).1,
          some (timer8_match8 (set_reg s (b + 8) (reg s (b + 8) + 1)) tm b
            ((reg s (b + 8) + 1) % 256)).2)
      else cnt.map (fun c => ((timer8_match8 s tm b c).1, some (timer8_match8 s tm b c).2)) := by
  unfold timer8_8bit
  by_cases hsel : reg s b &&& 0x07 = pcnt + 1
  · have hlt : ¬ ((reg s (b + 8) + 1) % 256 ≥ 256) := by omega
    simp only [hsel, ↓reduceIte, reg_set_reg, hlt]
  · simp only [hsel, ↓reduceIte]
    cases cnt <;> rfl

/-- What the 8-bit branch of the loop body leaves: the registers other than
TCNT and TCSR of the channel, the shadows of the other channels, the status
bits of TCSR as the shadow has them, and in the shadow every bit it had. -/
theorem timer8_8bit_obs (s : Sim) (pcnt tm b : Nat) (cnt : Option Nat) (s' : Sim)
    (c' : Option Nat) (h : timer8_8bit s pcnt tm b cnt = some (s', c')) :
    s'.timer8_base = s.timer8_base ∧
      (∀ a, a ≠ b + 8 → a ≠ b + 2 → reg s' a = reg s a) ∧
      (∀ i, i ≠ tm → byte s'.tcsr i = byte s.tcsr i) ∧
      reg s' (b + 2) = (reg s (b + 2) &&& 0x1f) ||| (byte s'.tcsr tm &&& 0xe0) ∧
      ∀ bit, byte s.tcsr tm &&& bit ≠ 0 → byte s'.tcsr tm &&& bit ≠ 0 := by
  have e28 : b + 2 ≠ b + 8 := by omega
  have key : ∀ (x : Sim) (c : Nat), x.timer8_base = s.timer8_base →
      (∀ a, a ≠ b + 8 → reg x a = reg s a) → x.tcsr = s.tcsr →
      s' = (timer8_match8 x tm b c).1 →
      s'.timer8_base = s.timer8_base ∧
      (∀ a, a ≠ b + 8 → a ≠ b + 2 → reg s' a = reg s a) ∧
      (∀ i, i ≠ tm → byte s'.tcsr i = byte s.tcsr i) ∧
      reg s' (b + 2) = (reg s (b + 2) &&& 0x1f) ||| (byte s'.tcsr tm &&& 0xe0) ∧
      ∀ bit, byte s.tcsr tm &&& bit ≠ 0 → byte s'.tcsr tm &&& bit ≠ 0 := by
    intro x c hbase hreg htc hs'
    obtain ⟨o1, o2, o3, o4, o5, _⟩ := timer8_match8_obs x tm b c
    rw [← hs'] at o1 o2 o3 o4 o5
    refine ⟨o5.trans hbase, fun a h8 h2 => (o3 a h8 h2).trans (hreg a h8),
      fun i hi => by rw [o4 i hi, htc], by rw [o2, hreg _ e28], fun bit hbit => ?_⟩
    rw [o1, htc]
    exact or_and_ne _ _ _ (or_and_ne _ _ _ hbit)
  rw [timer8_8bit_eq] at h
  by_cases hsel : reg s b &&& 0x07 = pcnt + 1
  · rw [if_pos hsel] at h
    have hs' := (Prod.mk.inj (Option.some.inj h)).1
    exact key (set_reg s (b + 8) (reg s (b + 8) + 1)) ((reg s (b + 8) + 1) % 256) rfl
      (fun a ha => by simp [ha]) rfl hs'.symm
  · rw [if_neg hsel] at h
    cases cnt with
    | none => simp at h
    | some c =>
      have hs' := (Prod.mk.inj (Option.some.inj h)).1
      exact key s c rfl (fun a _ => rfl) rfl hs'.symm
theorem or_mod_and_ne (x c bit : Nat) (hx : x < 256) (h : x &&& bit ≠ 0) :
    (x ||| c) % 256 &&& bit ≠ 0 := by
  obtain ⟨i, hi⟩ := Nat.ne_zero_implies_bit_true h
  rw [Nat.testBit_and, Bool.and_eq_true] at hi
  obtain ⟨h1, h2⟩ := hi
  have hi8 : i < 8 := by
    by_contra hge
    have : x < 2 ^ i := lt_of_lt_of_le hx (by
      have : (256 : Nat) = 2 ^ 8 := rfl
      rw [this]; exact Nat.pow_le_pow_right (by decide) (by omega))
    rw [Nat.testBit_lt_two_pow this] at h1
    exact absurd h1 (by decide)
  have t : ((x ||| c) % 2 ^ 8).testBit i = true := by
    rw [Nat.testBit_mod_two_pow, Nat.testBit_or, h1]
    simp [hi8]
  intro e
  have e' : ((x ||| c) % 2 ^ 8 &&& bit).testBit i = true := by
    rw [Nat.testBit_and, t, h2]; rfl
  have h256 : (256 : Nat) = 2 ^ 8 := rfl
  rw [h256] at e
  rw [e, Nat.zero_testBit] at e'
  exact absurd e' (by decide)

theorem grows16_refl (tm : Nat) (regs : List Nat) (s : Sim) : grows16 tm regs s s :=
  ⟨rfl, fun _ _ => rfl, fun _ _ _ => rfl, fun _ h => h, fun _ h => h⟩

theorem grows16_trans {tm : Nat} {regs : List Nat} {x y z : Sim} (h1 : grows16 tm regs x y)
    (h2 : grows16 tm regs y z) : grows16 tm regs x z := by
  obtain ⟨a1, a2, a3, a4, a5⟩ := h1
  obtain ⟨b1, b2, b3, b4, b5⟩ := h2
  exact ⟨b1.trans a1, fun a h => (b2 a h).trans (a2 a h), fun i h h' => (b3 i h h').trans (a3 i h h'),
    fun bit h => b4 bit (a4 bit h), fun bit h => b5 bit (a5 bit h)⟩

theorem grows16_set_reg (tm : Nat) (regs : List Nat) (s : Sim) (a v : Nat) (ha : a ∈ regs) :
    grows16 tm regs s (set_reg s a v) := by
  refine ⟨rfl, fun x hx => ?_, fun _ _ _ => rfl, fun _ h => h, fun _ h => h⟩
  have : x ≠ a := fun e => hx (e ▸ ha)
  simp [this]

theorem grows16_or (tm : Nat) (regs : List Nat) (s : Sim) (k c : Nat)
    (hk : k = tm ∨ k = tm + 1) :
    grows16 tm regs s (set_tcsr s k (byte s.tcsr k ||| c)) := by
  refine ⟨rfl, fun _ _ => rfl, fun i h1 h2 => ?_, fun bit h => ?_, fun bit h => ?_⟩
  · have : i ≠ k := by rcases hk with rfl | rfl <;> assumption
    simp [this]
  · rw [byte_set_tcsr]
    split_ifs with e
    · rw [← e]; exact or_mod_and_ne _ _ _ (byte_lt _ _) h
    · exact h
  · rw [byte_set_tcsr]
    split_ifs with e
    · rw [← e]; exact or_mod_and_ne _ _ _ (byte_lt _ _) h
    · exact h
theorem grows16_count16 (s : Sim) (tm b b1 : Nat) (regs : List Nat) :
    grows16 tm regs s (timer8_count16 s tm b b1).1 := by
  unfold timer8_count16
  simp only []
  split_ifs
  · exact grows16_or tm regs s tm _ (Or.inl rfl)
  · exact grows16_refl tm regs s

theorem grows16_match16 (s : Sim) (tm b b1 k bit clr cnt : Nat) (regs : List Nat) :
    grows16 tm regs s (timer8_match16 s tm b b1 k bit clr cnt).1 := by
  unfold timer8_match16
  by_cases h1 : cnt ≥ (reg s (b + k) <<< 8 ||| reg s (b1 + k))
  · simp only [h1, ↓reduceIte]
    split_ifs <;> first
      | exact grows16_trans (grows16_or tm regs s tm _ (Or.inl rfl))
          (grows16_or tm regs _ (tm + 1) _ (Or.inr rfl))
      | exact grows16_or tm regs s tm _ (Or.inl rfl)
  · simp only [h1, ↓reduceIte]
    split_ifs <;> first
      | exact grows16_or tm regs s (tm + 1) _ (Or.inr rfl)
      | exact grows16_refl tm regs s

theorem write_back_byte (x s bit : Nat) (hb : bit = 0x20 ∨ bit = 0x40 ∨ bit = 0x80) :
    ((x &&& 0x1f) % 256 ||| (s &&& 0xe0)) % 256 &&& bit ≠ 0 ↔ s &&& bit ≠ 0 := by
  rw [uchar_and_bit _ _ hb, mod256_eq (and_lt_256 _ (by decide))]
  exact write_back_bit x s bit hb

/-- The write-back of the 16-bit branch: the status bits of the two TCSR are
what the shadows hold, the shadows stay, and the other registers stay. -/
theorem timer8_update16_obs (s : Sim) (tm b b1 cnt : Nat) :
    (timer8_update16 s tm b b1 cnt).timer8_base = s.timer8_base ∧
    (timer8_update16 s tm b b1 cnt).tcsr = s.tcsr ∧
    (∀ a, a ≠ b + 8 → a ≠ b1 + 8 → a ≠ b + 2 → a ≠ b1 + 2 →
      reg (timer8_update16 s tm b b1 cnt) a = reg s a) ∧
    (∀ bit, bit = 0x20 ∨ bit = 0x40 ∨ bit = 0x80 →
      (reg (timer8_update16 s tm b b1 cnt) (b1 + 2) &&& bit ≠ 0 ↔
        byte s.tcsr (tm + 1) &&& bit ≠ 0)) ∧
    (b ≠ b1 → ∀ bit, bit = 0x20 ∨ bit = 0x40 ∨ bit = 0x80 →
      (reg (timer8_update16 s tm b b1 cnt) (b + 2) &&& bit ≠ 0 ↔ byte s.tcsr tm &&& bit ≠ 0)) := by
  unfold timer8_update16
  refine ⟨rfl, rfl, fun a h8 h18 h2 h12 => by simp [h8, h18, h2, h12], fun bit hb => ?_,
    fun hne bit hb => ?_⟩
  · simp only [reg_set_reg, ↓reduceIte, tcsr_set_reg]
    exact write_back_byte _ _ _ hb
  · have e : b + 2 ≠ b1 + 2 := by omega
    simp only [reg_set_reg, ↓reduceIte, tcsr_set_reg, e]
    exact write_back_byte _ _ _ hb

/-- The 16-bit branch as its write-back on a state in which the shadows have
grown from those the first assignment of the branch leaves. -/
theorem timer8_16bit_stages (s : Sim) (tm b b1 : Nat) (s' : Sim) (c' : Option Nat)
    (h : timer8_16bit s tm b b1 = some (s', c')) :
    ∃ a0 y c, index s.timer8_base ((tm : Int) - 1) = some a0 ∧
      grows16 tm [b + 8, a0 + 8]
        (set_tcsr s (tm + 1) (byte s.tcsr (tm + 1) &&& (reg s (b1 + 2) &&& 0xf0))) y ∧
      s' = timer8_update16 y tm b b1 c := by
  unfold timer8_16bit at h
  simp only [] at h
  have g2 := fun regs => grows16_count16
    (set_tcsr s (tm + 1) (byte s.tcsr (tm + 1) &&& (reg s (b1 + 2) &&& 0xf0))) tm b b1 regs
  generalize timer8_count16
    (set_tcsr s (tm + 1) (byte s.tcsr (tm + 1) &&& (reg s (b1 + 2) &&& 0xf0))) tm b b1 = p2
    at h g2
  obtain ⟨s2, c2⟩ := p2
  simp only at h g2
  have hbase : (set_reg s2 (b + 8) (c2 >>> 8)).timer8_base = s.timer8_base := (g2 []).1
  unfold timer8_reg at h
  rw [hbase] at h
  cases hi : index s.timer8_base ((tm : Int) - 1) with
  | none => rw [hi] at h; simp at h
  | some a0 =>
    rw [hi] at h
    simp only [Option.map_some'] at h
    have g4 : grows16 tm [b + 8, a0 + 8]
        (set_tcsr s (tm + 1) (byte s.tcsr (tm + 1) &&& (reg s (b1 + 2) &&& 0xf0)))
        (set_reg (set_reg s2 (b + 8) (c2 >>> 8)) (a0 + 8) (c2 &&& 0xff)) :=
      grows16_trans (grows16_trans (g2 _) (grows16_set_reg tm _ s2 _ _ (by simp)))
        (grows16_set_reg tm _ _ _ _ (by simp))
    generalize set_reg (set_reg s2 (b + 8) (c2 >>> 8)) (a0 + 8) (c2 &&& 0xff) = s4 at h g4
    have g5 := grows16_trans g4 (grows16_match16 s4 tm b b1 4 0x40 0x08 c2 [b + 8, a0 + 8])
    generalize timer8_match16 s4 tm b b1 4 0x40 0x08 c2 = p5 at h g5
    obtain ⟨s5, c5⟩ := p5
    simp only at h g5
    have g6 := grows16_trans g5 (grows16_match16 s5 tm b b1 6 0x80 0x10 c5 [b + 8, a0 + 8])
    generalize timer8_match16 s5 tm b b1 6 0x80 0x10 c5 = p6 at h g6
    obtain ⟨s6, c6⟩ := p6
    simp only at h g6
    exact ⟨a0, s6, c6, rfl, g6, ((Prod.mk.inj (Option.some.inj h)).1).symm⟩

/-- What the 16-bit branch of the loop body leaves for the channels `tm` and
`tm + 1` it works on, and for the others. -/
theorem timer8_16bit_obs (s : Sim) (tm b b1 : Nat) (s' : Sim) (c' : Option Nat)
    (h : timer8_16bit s tm b b1 = some (s', c')) :
    s'.timer8_base = s.timer8_base ∧
    (∀ a, a ≠ b + 8 → a ≠ b1 + 8 → a ≠ b + 2 → a ≠ b1 + 2 →
      (∀ a0, index s.timer8_base ((tm : Int) - 1) = some a0 → a ≠ a0 + 8) →
      reg s' a = reg s a) ∧
    (∀ i, i ≠ tm → i ≠ tm + 1 → byte s'.tcsr i = byte s.tcsr i) ∧
    (∀ bit, byte s.tcsr tm &&& bit ≠ 0 → byte s'.tcsr tm &&& bit ≠ 0) ∧
    (∀ bit, bit = 0x20 ∨ bit = 0x40 ∨ bit = 0x80 → byte s.tcsr (tm + 1) &&& bit ≠ 0 →
      reg s (b1 + 2) &&& bit ≠ 0 → byte s'.tcsr (tm + 1) &&& bit ≠ 0) ∧
    (∀ bit, bit = 0x20 ∨ bit = 0x40 ∨ bit = 0x80 →
      (reg s' (b1 + 2) &&& bit ≠ 0 ↔ byte s'.tcsr (tm + 1) &&& bit ≠ 0)) ∧
    (b ≠ b1 → ∀ bit, bit = 0x20 ∨ bit = 0x40 ∨ bit = 0x80 →
      (reg s' (b + 2) &&& bit ≠ 0 ↔ byte s'.tcsr tm &&& bit ≠ 0)) := by
  obtain ⟨a0, y, c, hi, ⟨y1, y2, y3, y4, y5⟩, rfl⟩ := timer8_16bit_stages s tm b b1 s' c' h
  obtain ⟨u1, u2, u3, u4, u5⟩ := timer8_update16_obs y tm b b1 c
  have e1 : tm ≠ tm + 1 := by omega
  refine ⟨u1.trans y1, ?_, ?_, ?_, ?_, ?_, ?_⟩
  · intro a h8 h18 h2 h12 ha0
    rw [u3 a h8 h18 h2 h12, y2 a (by
      simp only [List.mem_cons, List.mem_singleton, List.not_mem_nil, or_false, not_or]
      exact ⟨h8, ha0 a0 hi⟩)]
    rfl
  · intro i h1 h2
    rw [u2, y3 i h1 h2]
    simp [h2]
  · intro bit hbit
    rw [u2]
    apply y4
    simpa [e1] using hbit
  · intro bit hb hs hr
    rw [u2]
    apply y5
    rw [byte_set_tcsr, if_pos rfl, uchar_and_bit _ _ hb]
    exact and_f0_ne _ _ _ hb hs hr
  · intro bit hb
    rw [u2] at *
    exact u4 bit hb
  · intro hne bit hb
    rw [u2] at *
    exact u5 hne bit hb

theorem index_some {T : List Nat} {i : Int} {b : Nat} (h : index T i = some b) :
    ∃ n : Nat, i = n ∧ T.get? n = some b := by
  unfold index at h
  split_ifs at h with hneg
  exact ⟨i.toNat, (Int.toNat_of_nonneg (by omega)).symm, h⟩

/-- The registers of the timer channels in the two tables: TCSR of a channel is
no register of another channel and no counter. -/
theorem timer8_tables_spacing (T : List Nat)
    (hT : T = h8300h_timer8_base ∨ T = h8300s_timer8_base) (i j : Int) (bi bj : Nat)
    (hi : index T i = some bi) (hj : index T j = some bj) (h0 : bi ≠ 0) :
    bi + 2 ≠ bj + 8 ∧ (bi + 2 = bj + 2 → i = j) := by
  obtain ⟨n, rfl, hn⟩ := index_some hi
  obtain ⟨m, rfl, hm⟩ := index_some hj
  rcases hT with rfl | rfl
  · have ln : n < 5 := (List.get?_eq_some.mp hn).1
    have lm : m < 5 := (List.get?_eq_some.mp hm).1
    interval_cases n <;> interval_cases m <;>
      simp [h8300h_timer8_base] at hn hm <;> subst hn <;> subst hm <;> simp at h0 ⊢
  · have ln : n < 3 := (List.get?_eq_some.mp hn).1
    have lm : m < 3 := (List.get?_eq_some.mp hm).1
    interval_cases n <;> interval_cases m <;>
      simp [h8300s_timer8_base] at hn hm <;> subst hn <;> subst hm <;> simp at h0 ⊢

/-- A run of the loop body of `timer8`, whatever the channel, the prescaler and
the local `cnt`: a status bit that is latched stays latched, and a status bit
that is clear in TCSR or latched is so afterwards. -/
theorem timer8_channel_status (s : Sim) (pcnt tm' : Nat) (cnt : Option Nat) (s' : Sim)
    (c' : Option Nat) (h : timer8_channel s pcnt tm' cnt = some (s', c'))
    (tm b bit : Nat) (ht : timer8_tables s) (hb : index s.timer8_base tm = some b)
    (hb0 : b ≠ 0) (hbit : bit = 0x20 ∨ bit = 0x40 ∨ bit = 0x80) :
    s'.timer8_base = s.timer8_base ∧ (latched s tm b bit → latched s' tm b bit) ∧
      (reg s (b + 2) &&& bit = 0 ∨ latched s tm b bit →
        reg s' (b + 2) &&& bit = 0 ∨ latched s' tm b bit) := by
  have sp := fun j bj hj => timer8_tables_spacing s.timer8_base ht tm j b bj hb hj hb0
  -- a state with the same TCSR and shadow of the channel
  have same : ∀ x : Sim, x.timer8_base = s.timer8_base → reg x (b + 2) = reg s (b + 2) →
      byte x.tcsr tm = byte s.tcsr tm →
      x.timer8_base = s.timer8_base ∧ (latched s tm b bit → latched x tm b bit) ∧
      (reg s (b + 2) &&& bit = 0 ∨ latched s tm b bit →
        reg x (b + 2) &&& bit = 0 ∨ latched x tm b bit) := by
    intro x hx hr hs
    unfold latched
    rw [hr, hs]
    exact ⟨hx, fun l => l, fun l => l⟩
  -- a state whose TCSR has the bit as its shadow has it, the shadow having lost nothing
  have follows : ∀ x : Sim, x.timer8_base = s.timer8_base →
      (reg x (b + 2) &&& bit ≠ 0 ↔ byte x.tcsr tm &&& bit ≠ 0) →
      (latched s tm b bit → byte x.tcsr tm &&& bit ≠ 0) →
      x.timer8_base = s.timer8_base ∧ (latched s tm b bit → latched x tm b bit) ∧
      (reg s (b + 2) &&& bit = 0 ∨ latched s tm b bit →
        reg x (b + 2) &&& bit = 0 ∨ latched x tm b bit) := by
    intro x hx hiff hmono
    refine ⟨hx, fun l => ⟨hiff.mpr (hmono l), hmono l⟩, fun _ => ?_⟩
    by_cases hz : reg x (b + 2) &&& bit = 0
    · exact Or.inl hz
    · exact Or.inr ⟨hz, hiff.mp hz⟩
  unfold timer8_channel at h
  cases hb' : index s.timer8_base tm' with
  | none => rw [hb'] at h; simp at h
  | some b' =>
    rw [hb'] at h
    simp only at h
    by_cases hen : reg s b' &&& 0x07 = 0
    · rw [if_pos hen] at h
      obtain rfl := (Prod.mk.inj (Option.some.inj h)).1
      exact same s rfl rfl rfl
    · rw [if_neg hen] at h
      simp only [base_set_tcsr, reg_set_tcsr] at h
      -- the shadow after the first assignment of the body
      have l1 : latched s tm b bit →
          byte (set_tcsr s tm' (byte s.tcsr tm' &&& (reg s (b' + 2) &&& 0xf0))).tcsr tm &&& bit
            ≠ 0 := by
        intro l
        rw [byte_set_tcsr]
        split_ifs with e
        · subst e
          have eb : b' = b := by
            rw [hb] at hb'; exact (Option.some.inj hb').symm
          rw [uchar_and_bit _ _ hbit, eb]
          exact and_f0_ne _ _ _ hbit l.2 l.1
        · exact l.2
      cases hb2 : index s.timer8_base ((tm' &&& 2 : Nat) : Int) with
      | none => rw [hb2] at h; simp at h
      | some b2 =>
        rw [hb2] at h
        simp only at h
        by_cases h16 : reg s b2 &&& 0x7 = 0x04
        · rw [if_pos h16] at h
          by_cases hodd : tm' &&& 1 ≠ 0
          · rw [if_pos hodd] at h
            obtain rfl := (Prod.mk.inj (Option.some.inj h)).1
            refine ⟨rfl, fun l => ⟨l.1, l1 l⟩, fun j => ?_⟩
            rcases j with z | l
            · exact Or.inl z
            · exact Or.inr ⟨l.1, l1 l⟩
          · rw [if_neg hodd] at h
            cases hb1 : index s.timer8_base ((tm' : Int) + 1) with
            | none => rw [hb1] at h; simp at h
            | some b1 =>
              rw [hb1] at h
              simp only at h
              obtain ⟨o1, o2, o3, o4, o5, o6, o7⟩ := timer8_16bit_obs _ tm' b' b1 s' c' h
              simp only [base_set_tcsr, reg_set_tcsr] at o1 o2 o5
              by_cases e0 : tm = tm'
              · subst e0
                have eb : b' = b := by
                  rw [hb] at hb'; exact (Option.some.inj hb').symm
                subst eb
                have hne : b' ≠ b1 := by
                  intro e
                  have := (sp _ b1 hb1).2 (by rw [e])
                  omega
                exact follows s' o1 (o7 hne bit hbit) (fun l => o4 bit (l1 l))
              · by_cases e1 : tm = tm' + 1
                · subst e1
                  have eb : b1 = b := by
                    have : ((tm' + 1 : Nat) : Int) = (tm' : Int) + 1 := by push_cast; rfl
                    rw [this, hb1] at hb; exact Option.some.inj hb
                  subst eb
                  refine follows s' o1 (o6 bit hbit) (fun l => o5 bit hbit ?_ l.1)
                  have := l1 l
                  rwa [byte_set_tcsr, if_neg (by omega)] at this ⊢
                · have r2 : reg s' (b + 2) = reg s (b + 2) := by
                    refine o2 (b + 2) (sp _ b' hb').1 (sp _ b1 hb1).1 ?_ ?_ ?_
                    · intro e
                      have := (sp _ b' hb').2 e
                      exact e0 (by exact_mod_cast this)
                    · intro e
                      have := (sp _ b1 hb1).2 e
                      exact e1 (by exact_mod_cast this)
                    · intro a0 ha0
                      exact (sp _ a0 ha0).1
                  have t2 : byte s'.tcsr tm = byte s.tcsr tm := by
                    rw [o3 tm e0 e1, byte_set_tcsr, if_neg e0]
                  exact same s' o1 r2 t2
        · rw [if_neg h16] at h
          obtain ⟨o1, o2, o3, o4, o5⟩ := timer8_8bit_obs _ pcnt tm' b' cnt s' c' h
          simp only [base_set_tcsr, reg_set_tcsr] at o1 o2 o4
          by_cases e0 : tm = tm'
          · subst e0
            have eb : b' = b := by
              rw [hb] at hb'; exact (Option.some.inj hb').symm
            subst eb
            refine follows s' o1 ?_ (fun l => o5 bit (l1 l))
            rw [o4]
            exact write_back_bit _ _ _ hbit
          · have r2 : reg s' (b + 2) = reg s (b + 2) := by
              refine o2 (b + 2) (sp _ b' hb').1 ?_
              intro e
              have := (sp _ b' hb').2 e
              exact e0 (by exact_mod_cast this)
            have t2 : byte s'.tcsr tm = byte s.tcsr tm := by
              rw [o3 tm e0, byte_set_tcsr, if_neg e0]
            exact same s' o1 r2 t2

/-- The inner loop of `timer8` keeps a latched status bit latched, and a status
bit that is clear in TCSR or latched is so afterwards. -/
theorem timer8_for_status (pcnt : Nat) (tm b bit : Nat) (hb0 : b ≠ 0)
    (hbit : bit = 0x20 ∨ bit = 0x40 ∨ bit = 0x80) (l : List Nat) :
    ∀ (tm0 : Nat) (s : Sim) (cnt : Option Nat) (s' : Sim) (c' : Option Nat),
      timer8_for pcnt l tm0 s cnt = some (s', c') → timer8_tables s →
      index s.timer8_base tm = some b →
      s'.timer8_base = s.timer8_base ∧ (latched s tm b bit → latched s' tm b bit) ∧
        (reg s (b + 2) &&& bit = 0 ∨ latched s tm b bit →
          reg s' (b + 2) &&& bit = 0 ∨ latched s' tm b bit) := by
  induction l with
  | nil => intro tm0 s cnt s' c' h; simp [timer8_for] at h
  | cons b0 rest ih =>
    intro tm0 s cnt s' c' h ht hb
    unfold timer8_for at h
    by_cases hz : b0 = 0
    · rw [if_pos hz] at h
      obtain rfl := (Prod.mk.inj (Option.some.inj h)).1
      exact ⟨rfl, fun l => l, fun l => l⟩
    · rw [if_neg hz] at h
      cases hc : timer8_channel s pcnt tm0 cnt with
      | none => rw [hc] at h; simp at h
      | some r =>
        obtain ⟨s1, c1⟩ := r
        rw [hc] at h
        simp only [Option.some_bind] at h
        obtain ⟨a1, a2, a3⟩ := timer8_channel_status s pcnt tm0 cnt s1 c1 hc tm b bit ht hb hb0 hbit
        have ht1 : timer8_tables s1 := by unfold timer8_tables; rw [a1]; exact ht
        obtain ⟨b1, b2, b3⟩ := ih (tm0 + 1) s1 c1 s' c' h ht1 (by rw [a1]; exact hb)
        exact ⟨b1.trans a1, fun l => b2 (a2 l), fun l => b3 (a3 l)⟩

theorem timer8_prescaler_status (d pcnt : Nat) (tm b bit : Nat) (hb0 : b ≠ 0)
    (hbit : bit = 0x20 ∨ bit = 0x40 ∨ bit = 0x80) (s : Sim) (cnt : Option Nat) (s' : Sim)
    (c' : Option Nat) (h : timer8_prescaler d pcnt s cnt = some (s', c'))
    (ht : timer8_tables s) (hb : index s.timer8_base tm = some b) :
    s'.timer8_base = s.timer8_base ∧ (latched s tm b bit → latched s' tm b bit) ∧
      (reg s (b + 2) &&& bit = 0 ∨ latched s tm b bit →
        reg s' (b + 2) &&& bit = 0 ∨ latched s' tm b bit) := by
  unfold timer8_prescaler at h
  simp only [] at h
  split_ifs at h
  · cases hf : timer8_for pcnt (set_prescale s pcnt (sint32 (s.prescale pcnt - d))).timer8_base 0
        (set_prescale s pcnt (sint32 (s.prescale pcnt - d))) cnt with
    | none => rw [hf] at h; simp at h
    | some r =>
      obtain ⟨s1, c1⟩ := r
      rw [hf] at h
      simp only [Option.map_some'] at h
      obtain rfl := (Prod.mk.inj (Option.some.inj h)).1
      exact timer8_for_status pcnt tm b bit hb0 hbit _ 0
        (set_prescale s pcnt (sint32 (s.prescale pcnt - d))) cnt s1 c1 hf ht hb
  · obtain rfl := (Prod.mk.inj (Option.some.inj h)).1
    exact ⟨rfl, fun l => l, fun l => l⟩

/-- The call `timer8` keeps a latched status bit latched, and a status bit that
is clear in TCSR or latched is so afterwards. -/
theorem timer8_status (s : Sim) (d : Nat) (s' : Sim) (h : timer8 s d = some s')
    (tm b bit : Nat) (ht : timer8_tables s) (hb : index s.timer8_base tm = some b)
    (hb0 : b ≠ 0) (hbit : bit = 0x20 ∨ bit = 0x40 ∨ bit = 0x80) :
    s'.timer8_base = s.timer8_base ∧ (latched s tm b bit → latched s' tm b bit) ∧
      (reg s (b + 2) &&& bit = 0 ∨ latched s tm b bit →
        reg s' (b + 2) &&& bit = 0 ∨ latched s' tm b bit) := by
  unfold timer8 at h
  simp only [Option.some_bind] at h
  cases h0 : timer8_prescaler d 0 s none with
  | none => rw [h0] at h; simp at h
  | some r0 =>
    obtain ⟨s0, c0⟩ := r0
    rw [h0] at h
    simp only [Option.some_bind] at h
    obtain ⟨a1, a2, a3⟩ := timer8_prescaler_status d 0 tm b bit hb0 hbit s none s0 c0 h0 ht hb
    have ht0 : timer8_tables s0 := by unfold timer8_tables; rw [a1]; exact ht
    cases h1 : timer8_prescaler d 1 s0 c0 with
    | none => rw [h1] at h; simp at h
    | some r1 =>
      obtain ⟨s1, c1⟩ := r1
      rw [h1] at h
      simp only [Option.some_bind] at h
      obtain ⟨b1, b2, b3⟩ := timer8_prescaler_status d 1 tm b bit hb0 hbit s0 c0 s1 c1 h1 ht0
        (by rw [a1]; exact hb)
      have ht1 : timer8_tables s1 := by unfold timer8_tables; rw [b1]; exact ht0
      cases h2 : timer8_prescaler d 2 s1 c1 with
      | none => rw [h2] at h; simp at h
      | some r2 =>
        obtain ⟨s2, c2⟩ := r2
        rw [h2] at h
        simp only [Option.map_some'] at h
        obtain rfl := Option.some.inj h
        obtain ⟨e1, e2, e3⟩ := timer8_prescaler_status d 2 tm b bit hb0 hbit s1 c1 s2 c2 h2 ht1
          (by rw [b1, a1]; exact hb)
        exact ⟨e1.trans (b1.trans a1), fun l => e2 (b2 (a2 l)), fun l => e3 (b3 (a3 l))⟩

/-- Calls of `timer8` and stores of software that do not clear the bit in TCSR
keep a latched status bit latched. -/
theorem timer_run_status (tm b bit : Nat) (hb0 : b ≠ 0)
    (hbit : bit = 0x20 ∨ bit = 0x40 ∨ bit = 0x80) (steps : List timer_step) :
    ∀ (s s' : Sim), timer_run steps s = some s' → timer8_tables s →
      index s.timer8_base tm = some b → (∀ e ∈ steps, e.keeps (b + 2) bit) →
      latched s tm b bit → latched s' tm b bit := by
  induction steps with
  | nil =>
    intro s s' h _ _ _ l
    obtain rfl := Option.some.inj h
    exact l
  | cons e rest ih =>
    intro s s' h ht hb hk l
    have hke := hk e (List.mem_cons_self _ _)
    have hkr : ∀ e ∈ rest, e.keeps (b + 2) bit := fun x hx => hk x (List.mem_cons_of_mem _ hx)
    cases e with
    | call d =>
      unfold timer_run at h
      cases hc : timer8 s d with
      | none => rw [hc] at h; simp at h
      | some s1 =>
        rw [hc] at h
        simp only [Option.some_bind] at h
        obtain ⟨a1, a2, _⟩ := timer8_status s d s1 hc tm b bit ht hb hb0 hbit
        exact ih s1 s' h (by unfold timer8_tables; rw [a1]; exact ht) (by rw [a1]; exact hb) hkr
          (a2 l)
    | store a v =>
      unfold timer_run at h
      refine ih (set_reg s a v) s' h ht hb hkr ?_
      unfold latched
      rw [reg_set_reg, tcsr_set_reg]
      refine ⟨?_, l.2⟩
      split_ifs with e
      · exact hke e.symm
      · exact l.1

/-- C14: once `timer8` has set a status bit (overflow 0x20, match-A 0x40 or
match-B 0x80) in a channel's TCSR, the bit stays set after every later call of
`timer8`, ticks that raise no event included, for as long as software does not
clear it in the register.  A bit is set by `timer8` when it is clear in TCSR
before a call and set after it; it is then latched, set in TCSR and in the
shadow, and a latched bit stays latched over every run of calls of `timer8`
and of stores that do not clear it in TCSR.  The calls are those with a defined
result. -/
theorem timer8_status_stays (st : Sim) (tm b bit : Nat) (ht : timer8_tables st)
    (hb : index st.timer8_base tm = some b) (hb0 : b ≠ 0)
    (hbit : bit = 0x20 ∨ bit = 0x40 ∨ bit = 0x80) :
    (∀ (d : Nat) (st1 : Sim) (steps : List timer_step) (st' : Sim),
      reg st (b + 2) &&& bit = 0 → timer8 st d = some st1 → reg st1 (b + 2) &&& bit ≠ 0 →
      (∀ e ∈ steps, e.keeps (b + 2) bit) → timer_run steps st1 = some st' →
      reg st' (b + 2) &&& bit ≠ 0) ∧
    (latched st tm b bit → ∀ (steps : List timer_step) (st' : Sim),
      (∀ e ∈ steps, e.keeps (b + 2) bit) → timer_run steps st = some st' →
      latched st' tm b bit) := by
  constructor
  · intro d st1 steps st' hclr hcall hset hk hrun
    obtain ⟨a1, _, a3⟩ := timer8_status st d st1 hcall tm b bit ht hb hb0 hbit
    have l1 : latched st1 tm b bit := by
      rcases a3 (Or.inl hclr) with z | l
      · exact absurd z hset
      · exact l
    exact (timer_run_status tm b bit hb0 hbit steps st1 st' hrun
      (by unfold timer8_tables; rw [a1]; exact ht) (by rw [a1]; exact hb) hk l1).1
  · intro l steps st' hk hrun
    exact timer_run_status tm b bit hb0 hbit steps st st' hrun ht hb hk l

set_option maxRecDepth 100000 in
theorem timer8_status_stays_witness :
    timer8_tables (timer_state 0x09 0x00 10 0xff 9) ∧
    index (timer_state 0x09 0x00 10 0xff 9).timer8_base ((0 : Nat) : Int) = some 0x80 ∧
    (0x80 : Nat) ≠ 0 ∧
    ((∀ (d : Nat) (st1 : Sim) (steps : List timer_step) (st' : Sim),
      reg (timer_state 0x09 0x00 10 0xff 9) (0x80 + 2) &&& 0x40 = 0 →
      timer8 (timer_state 0x09 0x00 10 0xff 9) d = some st1 →
      reg st1 (0x80 + 2) &&& 0x40 ≠ 0 →
      (∀ e ∈ steps, e.keeps (0x80 + 2) 0x40) → timer_run steps st1 = some st' →
      reg st' (0x80 + 2) &&& 0x40 ≠ 0) ∧
    (latched (timer_state 0x09 0x00 10 0xff 9) 0 0x80 0x40 →
      ∀ (steps : List timer_step) (st' : Sim),
      (∀ e ∈ steps, e.keeps (0x80 + 2) 0x40) →
      timer_run steps (timer_state 0x09 0x00 10 0xff 9) = some st' →
      latched st' 0 0x80 0x40)) ∧
    reg (timer_state 0x09 0x00 10 0xff 9) (0x80 + 2) &&& 0x40 = 0 ∧
    ((timer8 (timer_state 0x09 0x00 10 0xff 9) 8).map (fun s => reg s (0x80 + 2)) = some 0x40) ∧
    ((timer8 (timer_state 0x09 0x00 10 0xff 9) 8).bind
      (timer_run [.call 8, .store 0x88 5, .store 0x82 0x41, .call 8, .call 100])).map
        (fun s => reg s (0x80 + 2) &&& 0x40) = some 0x40 :=
  ⟨by decide, by decide, by decide,
    timer8_status_stays (timer_state 0x09 0x00 10 0xff 9) 0 0x80 0x40 (by decide) (by decide)
      (by decide) (by decide),
    by decide, by decide, by decide⟩

/-! ## Transmission over whole calls -/

/-- A run of the loop body of `sci` leaves no shift in progress when there was
none and at least one cycle, and at most 2^31 + 1, has elapsed. -/
theorem sci_channel_at_txstate (s : Sim) (d ch b : Nat) (h0 : s.txstate = 0)
    (hd : sint32 (1 - (d : Int)) ≤ 0) : (sci_channel_at s d ch b).txstate = 0 := by
  obtain ⟨_, x2, _⟩ := sci_rx_frame (sci_at_poll s d ch b) ch b
    (sci_complete_time_of (reg s (b + 0)) (reg s (b + 1)))
  rw [sci_channel_at_eq]
  show (sci_rx _ ch b _).txstate = 0
  rw [x2]
  have hl : (byte s.ssr ch &&& reg s (b + 4)) % 256 = byte s.ssr ch &&& reg s (b + 4) :=
    mod256_eq (and_lt_256 _ (reg_lt _ _))
  by_cases hreq : reg s (b + 2) &&& 0x20 ≠ 0 ∧ (byte s.ssr ch &&& reg s (b + 4)) &&& 0x80 = 0
  · exact (sci_at_poll_start s d ch b hreq.1 hreq.2 h0 hd).2.2.2.1
  · obtain ⟨_, _, _, _, _, _, _, a8⟩ :=
      sci_tx_request_obs (set_ssr s ch (byte s.ssr ch &&& reg s (b + 4))) ch b
    obtain ⟨_, _, _, _, _, _, _, _, c9⟩ :=
      sci_tx_complete_obs
        (set_tx_end_time (sci_tx_request (set_ssr s ch (byte s.ssr ch &&& reg s (b + 4))) ch b)
          ch (sint32 ((sci_tx_request (set_ssr s ch (byte s.ssr ch &&& reg s (b + 4)))
            ch b).tx_end_time ch - d))) ch
        (sci_complete_time_of (reg s (b + 0)) (reg s (b + 1)))
    have hno : ¬ (reg (set_ssr s ch (byte s.ssr ch &&& reg s (b + 4))) (b + 2) &&& 0x20 ≠ 0 ∧
        ¬ (byte (set_ssr s ch (byte s.ssr ch &&& reg s (b + 4))).ssr ch &&& 0x80 ≠ 0) ∧
        (set_ssr s ch (byte s.ssr ch &&& reg s (b + 4))).txstate = 0) := by
      rintro ⟨r1, r2, _⟩
      simp only [reg_set_ssr, byte_set_ssr, ↓reduceIte, hl, ne_eq, not_not] at r1 r2
      exact hreq ⟨r1, r2⟩
    rw [if_neg hno] at a8
    have t0 : (sci_tx_request (set_ssr s ch (byte s.ssr ch &&& reg s (b + 4))) ch b).txstate
        = 0 := a8.2.2.trans h0
    show (sci_tx_complete _ ch _).txstate = 0
    have t1 : (set_tx_end_time (sci_tx_request (set_ssr s ch (byte s.ssr ch &&& reg s (b + 4)))
        ch b) ch (sint32 ((sci_tx_request (set_ssr s ch (byte s.ssr ch &&& reg s (b + 4)))
          ch b).tx_end_time ch - d))).txstate = 0 := t0
    split_ifs at c9 <;> first | exact c9.2.2 | exact c9.2.2.trans t1

theorem sci_for_txstate (d : Nat) (hd : sint32 (1 - (d : Int)) ≤ 0) (l : List Nat) :
    ∀ s s', sci_for d l s = some s' → s.txstate = 0 → s'.txstate = 0 := by
  induction l with
  | nil => intro s s' h h0; obtain rfl := Option.some.inj h; exact h0
  | cons i rest ih =>
    intro s s' h h0
    unfold sci_for sci_channel at h
    cases hb : s.sci_base.get? i with
    | none => rw [hb] at h; simp at h
    | some bi =>
      rw [hb] at h
      simp only [Option.map_some', Option.some_bind] at h
      exact ih _ s' h (sci_channel_at_txstate s d i bi h0 hd)

theorem sci_reach_txstate (st : Sim) (d ch : Nat) (s : Sim) (hd : sint32 (1 - (d : Int)) ≤ 0)
    (h0 : st.txstate = 0) (hr : sci_reach st d ch = some s) : s.txstate = 0 := by
  unfold sci_reach at hr
  by_cases hn : st.sci_port_type = PORT_NET
  · rw [if_pos hn] at hr
    have hf := net_accept_frame st
    cases ha : net_accept st with
    | mk r s0 =>
      rw [ha] at hr hf
      cases r with
      | true => simp at hr
      | false => exact sci_for_txstate d hd _ s0 s hr (hf.2.2.2.2.1.trans h0)
  · rw [if_neg hn] at hr
    exact sci_for_txstate d hd _ st s hr h0

theorem tx_waiting_congr {s s' : Sim} {ch b : Nat} (h : same_channel s s' ch b) (e : Int)
    (hw : tx_waiting s ch b e) : tx_waiting s' ch b e := by
  obtain ⟨a1, _, a3, a4, _, a6⟩ := h
  obtain ⟨w1, w2, w3, w4, w5⟩ := hw
  exact ⟨by rw [a1]; exact w1, by rw [a4]; exact w2,
    by rw [a3 (b + 4) (by omega) (by omega)]; exact w3, by rw [a4]; exact w4, by rw [a6]; exact w5⟩

/-- A call of `sci` that gets to its loop, on a channel that waits for the end
of the frame: the channel goes on waiting while the transmit timer has cycles
left, and has the transmit-complete bit set when the timer runs out. -/
theorem sci_call_wait (st : Sim) (d ch b : Nat) (e : Int) (x : Sim) (ht : sci_tables st)
    (h : tx_waiting st ch b e) (hr : sci_reach st d ch = some x) :
    ∃ st', sci st d = some st' ∧ sci_tables st' ∧
      (0 < sint32 (e - d) → tx_waiting st' ch b (sint32 (e - d)) ∧ reg st' (b + 4) &&& 0x04 = 0) ∧
      (sint32 (e - d) ≤ 0 → reg st' (b + 4) &&& 0x04 ≠ 0) := by
  have hb := h.1
  have hch := sci_tables_lt st ht ch b hb
  obtain ⟨c, hbx, st', es, k⟩ := sci_around st d ch b x ht hch hb hr
  obtain ⟨s1, g1, _, g3, g4⟩ := sci_channel_wait x d ch b e (tx_waiting_congr c e h)
  have hs1 : s1 = sci_channel_at x d ch b := by
    unfold sci_channel at g1
    rw [hbx] at g1
    exact (Option.some.inj g1).symm
  subst hs1
  have r4 := k.2.2.1 (b + 4) (by omega) (by omega)
  have hbase : st'.sci_base = st.sci_base := by
    rw [k.1, sci_channel_at_base, c.1]
  refine ⟨st', es, sci_tables_congr hbase ht, fun hp => ?_, fun hl => ?_⟩
  · obtain ⟨w1, w2⟩ := g3 hp
    exact ⟨tx_waiting_congr k _ w1, by rw [r4]; exact w2⟩
  · rw [r4]; exact g4 hl

/-- Calls of `sci` that get to their loops, on a channel that waits for the end
of the frame, while the cycles that elapse stay below the cycles the transmit
timer has left: the channel goes on waiting, transmit-complete still clear. -/
theorem sci_loops_wait (ch b : Nat) (ds : List Nat) :
    ∀ (st : Sim) (e : Int) (s1 : Sim), sci_tables st → tx_waiting st ch b e →
      reg st (b + 4) &&& 0x04 = 0 → e < 2147483648 → ((ds.sum : Nat) : Int) < e →
      sci_loops ch ds st = some s1 →
      sci_tables s1 ∧ tx_waiting s1 ch b (e - ds.sum) ∧ reg s1 (b + 4) &&& 0x04 = 0 := by
  induction ds with
  | nil =>
    intro st e s1 ht h h4 _ _ hl
    obtain rfl := Option.some.inj hl
    exact ⟨ht, by simpa using h, h4⟩
  | cons d ds ih =>
    intro st e s1 ht h h4 he hs hl
    simp only [List.sum_cons, Nat.cast_add] at hs
    have hd0 : (0 : Int) ≤ (d : Int) := Int.ofNat_nonneg d
    have hs0 : (0 : Int) ≤ ((ds.sum : Nat) : Int) := Int.ofNat_nonneg _
    have hpos : sint32 (e - d) = e - d := sint32_small _ (by omega) (by omega)
    unfold sci_loops at hl
    cases hr : sci_reach st d ch with
    | none => rw [hr] at hl; simp at hl
    | some x =>
      rw [hr] at hl
      simp only at hl
      obtain ⟨st', es, ht', c3, _⟩ := sci_call_wait st d ch b e x ht h hr
      rw [hpos] at c3
      obtain ⟨w1, w2⟩ := c3 (by omega)
      rw [es] at hl
      simp only [Option.some_bind] at hl
      obtain ⟨i1, i2, i3⟩ := ih st' (e - d) s1 ht' w1 w2 (by omega) (by omega) hl
      refine ⟨i1, ?_, i3⟩
      have : e - ((d + ds.sum : Nat) : Int) = e - d - ds.sum := by push_cast; omega
      simp only [List.sum_cons]
      rw [this]; exact i2

/-! ## The host side of a call of `sci` -/

theorem turn_of_refl (s : Sim) (i : Nat) : turn_of s s i :=
  ⟨fun _ _ => rfl, Or.inl rfl, rfl, rfl, fun _ _ _ => rfl⟩

theorem turn_of_trans {a b c : Sim} {i : Nat} (h1 : turn_of a b i) (h2 : turn_of b c i) :
    turn_of a c i := by
  obtain ⟨a1, a2, a3, a4, a5⟩ := h1
  obtain ⟨b1, b2, b3, b4, b5⟩ := h2
  refine ⟨fun j hj => (b1 j hj).trans (a1 j hj), ?_, b3.trans a3, b4.trans a4, fun fd h0 hne => ?_⟩
  · rcases b2 with h | h
    · rw [h]; exact a2
    · exact Or.inr h
  · rw [← a5 fd h0 hne]
    apply b5 fd h0
    rcases a2 with h | h
    · rw [h]; exact hne
    · rw [h]; omega

theorem turn_of_eq {s s' : Sim} (i : Nat) (h1 : s'.sci_port = s.sci_port) (h2 : s'.host = s.host) :
    turn_of s s' i :=
  ⟨fun _ _ => by rw [h1], Or.inl (by rw [h1]), by rw [h2], by rw [h2], fun _ _ _ => by rw [h2]⟩

theorem read_host (h : Posix.Host) (fd : Int) :
    (Posix.read h fd).2.sent = h.sent ∧ (Posix.read h fd).2.write_errno = h.write_errno ∧
      (Posix.read h fd).2.backlog = h.backlog := by
  unfold Posix.read
  cases h.pending fd <;> exact ⟨rfl, rfl, rfl⟩

theorem write_host (h : Posix.Host) (fd : Int) (buf : List Nat) :
    (∀ fd', fd' ≠ fd → (Posix.write h fd buf).2.sent fd' = h.sent fd') ∧
      (Posix.write h fd buf).2.write_errno = h.write_errno ∧
      (Posix.write h fd buf).2.backlog = h.backlog := by
  unfold Posix.write
  cases h.write_errno fd with
  | some e => exact ⟨fun _ _ => rfl, rfl, rfl⟩
  | none =>
    refine ⟨fun fd' hne => ?_, rfl, rfl⟩
    show Posix.updi h.sent fd _ fd' = _
    unfold Posix.updi
    rw [if_neg hne]

theorem turn_of_port (s : Sim) (i : Nat) (p : sci_port_t)
    (hp : p.fd = (s.sci_port i).fd ∨ p.fd = -1) : turn_of s (set_port s i p) i := by
  refine ⟨fun j hj => ?_, ?_, rfl, rfl, fun _ _ _ => rfl⟩
  · show upd s.sci_port i p j = _
    unfold upd; rw [if_neg hj]
  · have : (set_port s i p).sci_port i = p := by
      show upd s.sci_port i p i = _
      unfold upd; rw [if_pos rfl]
    rw [this]; exact hp

theorem turn_of_host (s : Sim) (i : Nat) (h : Posix.Host) (h1 : h.write_errno = s.host.write_errno)
    (h2 : h.backlog = s.host.backlog)
    (h3 : ∀ fd, 0 ≤ fd → fd ≠ (s.sci_port i).fd → h.sent fd = s.host.sent fd) :
    turn_of s { s with host := h } i :=
  ⟨fun _ _ => rfl, Or.inl rfl, h1, h2, h3⟩

theorem turn_of_send_data (s : Sim) (i txd : Nat) : turn_of s (sci_send_data s i txd) i := by
  unfold sci_send_data
  by_cases hfd : (s.sci_port i).fd ≥ 0
  · simp only [hfd, ↓reduceIte]
    obtain ⟨w1, w2, w3⟩ := write_host s.host (s.sci_port i).fd [uchar txd]
    have hh : turn_of s { s with host := (Posix.write s.host (s.sci_port i).fd [uchar txd]).2 } i :=
      turn_of_host s i _ w2 w3 (fun fd _ hne => w1 fd hne)
    cases hw : Posix.write s.host (s.sci_port i).fd [uchar txd] with
    | mk r h =>
      rw [hw] at hh
      cases r with
      | ok u => exact hh
      | error e =>
        simp only
        split_ifs
        · exact turn_of_trans hh (turn_of_port _ i _ (Or.inr rfl))
        · exact hh
  · simp only [hfd, ↓reduceIte]
    exact turn_of_refl s i

theorem turn_of_write_port (s : Sim) (i : Nat) (buf : List Nat) (p : sci_port_t)
    (hp : p.fd = (s.sci_port i).fd ∨ p.fd = -1) :
    turn_of s (set_port { s with host := (Posix.write s.host (s.sci_port i).fd buf).2 } i p) i := by
  obtain ⟨w1, w2, w3⟩ := write_host s.host (s.sci_port i).fd buf
  exact turn_of_trans (turn_of_host s i _ w2 w3 (fun fd _ hne => w1 fd hne))
    (turn_of_port _ i _ hp)

theorem turn_of_telnet_escape (s : Sim) (i rd : Nat) : turn_of s (telnet_escape s i rd) i := by
  unfold telnet_escape
  simp only
  split_ifs <;>
    first
    | exact turn_of_refl s i
    | exact turn_of_port s i _ (Or.inl rfl)
    | exact turn_of_write_port s i _ _ (Or.inl rfl)

theorem turn_of_rcv_data (s : Sim) (i : Nat) : turn_of s (sci_rcv_data s i).2 i := by
  unfold sci_rcv_data
  by_cases hfd : (s.sci_port i).fd ≥ 0
  · simp only [hfd, ↓reduceIte]
    obtain ⟨r1, r2, r3⟩ := read_host s.host (s.sci_port i).fd
    have hh : turn_of s { s with host := (Posix.read s.host (s.sci_port i).fd).2 } i :=
      turn_of_host s i _ r2 r3 (fun fd _ _ => by rw [r1])
    cases hr : Posix.read s.host (s.sci_port i).fd with
    | mk r h =>
      rw [hr] at hh
      cases r with
      | ok rd =>
        simp only
        split_ifs
        · exact turn_of_trans hh (turn_of_telnet_escape _ i rd)
        · exact turn_of_trans hh (turn_of_port _ i _ (Or.inl rfl))
        · exact hh
        · exact hh
      | error e =>
        simp only
        split_ifs
        · exact hh
        · exact turn_of_trans hh (turn_of_trans
            (turn_of_host { s with host := h } i (Posix.close h (s.sci_port i).fd) rfl rfl
              (fun _ _ _ => rfl))
            (turn_of_port _ i _ (Or.inr rfl)))
  · simp only [hfd, ↓reduceIte]
    exact turn_of_refl s i

theorem turn_of_net_accept_while (i : Nat) (n : Nat) :
    ∀ s, turn_of s (net_accept_while i n s).2 i := by
  induction n with
  | zero => intro s; exact turn_of_refl s i
  | succ n ih =>
    intro s
    unfold net_accept_while
    obtain ⟨r1, r2, r3⟩ := read_host s.host (s.sci_port i).fd
    have hh : turn_of s { s with host := (Posix.read s.host (s.sci_port i).fd).2 } i :=
      turn_of_host s i _ r2 r3 (fun fd _ _ => by rw [r1])
    cases hr : Posix.read s.host (s.sci_port i).fd with
    | mk r h =>
      rw [hr] at hh
      cases r with
      | error e => exact hh
      | ok rd =>
        simp only
        split_ifs
        · exact turn_of_trans hh (turn_of_telnet_escape _ i rd)
        · exact turn_of_trans hh (turn_of_port _ i _ (Or.inl rfl))
        · exact turn_of_trans hh (ih _)

theorem turn_of_set_ssr {s x : Sim} {i : Nat} (h : turn_of s x i) (ch v : Nat) :
    turn_of s (set_ssr x ch v) i := h

theorem turn_of_set_reg {s x : Sim} {i : Nat} (h : turn_of s x i) (a v : Nat) :
    turn_of s (set_reg x a v) i := h

theorem turn_of_set_tx_end_time {s x : Sim} {i : Nat} (h : turn_of s x i) (ch : Nat) (v : Int) :
    turn_of s (set_tx_end_time x ch v) i := h

theorem turn_of_set_rx_end_time {s x : Sim} {i : Nat} (h : turn_of s x i) (ch : Nat) (v : Int) :
    turn_of s (set_rx_end_time x ch v) i := h

theorem turn_of_tx_request (s : Sim) (i b : Nat) : turn_of s (sci_tx_request s i b) i := by
  unfold sci_tx_request
  split_ifs
  · exact turn_of_send_data s i (reg s (b + 3))
  · exact turn_of_refl s i

theorem turn_of_tx_complete (s : Sim) (i t : Nat) : turn_of s (sci_tx_complete s i t) i := by
  unfold sci_tx_complete
  split_ifs
  · exact turn_of_refl s i
  · exact turn_of_refl s i
  · exact turn_of_refl s i

theorem turn_of_rx (s : Sim) (i b t : Nat) : turn_of s (sci_rx s i b t) i := by
  unfold sci_rx
  split_ifs
  · have h := turn_of_rcv_data s i
    cases hc : sci_rcv_data s i with
    | mk o s3 =>
      rw [hc] at h
      cases o with
      | none => exact h
      | some data =>
        simp only
        split_ifs
        · exact h
        · exact h
  · exact turn_of_refl s i
  · exact turn_of_refl s i

/-- The loop body of `sci` for channel `i` is on the host side a turn of
channel `i`. -/
theorem turn_of_channel_at (s : Sim) (d i b : Nat) : turn_of s (sci_channel_at s d i b) i := by
  rw [sci_channel_at_eq]
  refine turn_of_set_reg (turn_of_trans ?_ (turn_of_rx _ i b _)) _ _
  exact turn_of_set_rx_end_time (turn_of_trans (turn_of_set_tx_end_time (turn_of_trans
    (turn_of_set_ssr (turn_of_refl s i) _ _) (turn_of_tx_request _ i b)) _ _)
    (turn_of_tx_complete _ i _)) _ _

/-- A turn of another channel leaves what belongs to channel `ch` alone. -/
theorem apart_turn {s s' : Sim} {i ch : Nat} {fd : Int} (h : turn_of s s' i) (hi : i ≠ ch)
    (ha : apart s ch fd) :
    apart s' ch fd ∧ s'.sci_port ch = s.sci_port ch ∧ s'.host.sent fd = s.host.sent fd ∧
      s'.host.write_errno = s.host.write_errno := by
  obtain ⟨t1, t2, t3, t4, t5⟩ := h
  obtain ⟨a1, a2, a3⟩ := ha
  refine ⟨⟨a1, fun j hj => ?_, fun sock => by rw [t4]; exact a3 sock⟩, t1 ch (Ne.symm hi),
    t5 fd a1 (Ne.symm (a2 i hi)), t3⟩
  by_cases hji : j = i
  · subst hji
    rcases t2 with e | e
    · rw [e]; exact a2 j hj
    · rw [e]; omega
  · rw [t1 j hji]; exact a2 j hj

/-- The turn of channel `ch` itself leaves the other channels where they
were. -/
theorem apart_own {s s' : Sim} {ch : Nat} {fd : Int} (h : turn_of s s' ch) (ha : apart s ch fd) :
    apart s' ch fd := by
  obtain ⟨t1, _, _, t4, _⟩ := h
  obtain ⟨a1, a2, a3⟩ := ha
  exact ⟨a1, fun j hj => by rw [t1 j hj]; exact a2 j hj, fun sock => by rw [t4]; exact a3 sock⟩

theorem sci_for_apart (d ch : Nat) (fd : Int) (l : List Nat) (hl : ch ∉ l) :
    ∀ s s', sci_for d l s = some s' → apart s ch fd →
      apart s' ch fd ∧ s'.sci_port ch = s.sci_port ch ∧ s'.host.sent fd = s.host.sent fd ∧
        s'.host.write_errno = s.host.write_errno := by
  induction l with
  | nil =>
    intro s s' h ha
    obtain rfl := Option.some.inj h
    exact ⟨ha, rfl, rfl, rfl⟩
  | cons i rest ih =>
    intro s s' h ha
    have hi : i ≠ ch := fun e => hl (by rw [e]; exact List.mem_cons_self _ _)
    unfold sci_for sci_channel at h
    cases hb : s.sci_base.get? i with
    | none => rw [hb] at h; simp at h
    | some bi =>
      rw [hb] at h
      simp only [Option.map_some', Option.some_bind] at h
      obtain ⟨k1, k2, k3, k4⟩ := apart_turn (turn_of_channel_at s d i bi) hi ha
      obtain ⟨i1, i2, i3, i4⟩ := ih (fun hm => hl (List.mem_cons_of_mem _ hm)) _ s' h k1
      exact ⟨i1, i2.trans k2, i3.trans k3, i4.trans k4⟩

theorem accept_host (h : Posix.Host) (sock : Int) :
    (Posix.accept h sock).2.sent = h.sent ∧
      (Posix.accept h sock).2.write_errno = h.write_errno ∧
      (∀ fd, (∀ k, fd ∉ h.backlog k) → ∀ k, fd ∉ (Posix.accept h sock).2.backlog k) ∧
      ∀ fd, 0 ≤ fd → (∀ k, fd ∉ h.backlog k) → (Posix.accept h sock).1 ≠ fd := by
  unfold Posix.accept
  cases hb : h.backlog sock with
  | nil => exact ⟨rfl, rfl, fun _ hk => hk, fun fd h0 _ => by show (-1 : Int) ≠ fd; omega⟩
  | cons c rest =>
    refine ⟨rfl, rfl, fun fd hk k => ?_, fun fd _ hk e => ?_⟩
    · show fd ∉ Posix.updi h.backlog sock rest k
      unfold Posix.updi
      split_ifs with hks
      · intro hm
        exact hk sock (by rw [hb]; exact List.mem_cons_of_mem _ hm)
      · exact hk k
    · apply hk sock
      rw [hb]
      have : c = fd := e
      rw [this]; exact List.mem_cons_self _ _

/-- In socket mode `net_accept` leaves alone a connected channel whose
descriptor is apart from the others. -/
theorem net_accept_for_apart (ch : Nat) (fd : Int) (l : List Nat) :
    ∀ s, apart s ch fd → (s.sci_port ch).fd = fd →
      apart (net_accept_for s l).2 ch fd ∧ (net_accept_for s l).2.sci_port ch = s.sci_port ch ∧
        (net_accept_for s l).2.host.sent fd = s.host.sent fd ∧
        (net_accept_for s l).2.host.write_errno = s.host.write_errno := by
  induction l with
  | nil => intro s ha _; exact ⟨ha, rfl, rfl, rfl⟩
  | cons i rest ih =>
    intro s ha hp
    unfold net_accept_for
    by_cases hfd : (s.sci_port i).fd = -1
    · rw [if_pos hfd]
      have hi : i ≠ ch := by
        intro e
        rw [e, hp] at hfd
        have := ha.1
        omega
      obtain ⟨c1, c2, c3, c4⟩ := accept_host s.host (s.sci_port i).socket
      have hc := c4 fd ha.1 ha.2.2
      have hbk := c3 fd ha.2.2
      cases hacc : Posix.accept s.host (s.sci_port i).socket with
      | mk connectfd h =>
        rw [hacc] at c1 c2 hc hbk
        simp only at c1 c2 hc hbk
        have hs0 : apart { s with host := h } ch fd ∧
            ({ s with host := h } : Sim).sci_port ch = s.sci_port ch ∧
            ({ s with host := h } : Sim).host.sent fd = s.host.sent fd ∧
            ({ s with host := h } : Sim).host.write_errno = s.host.write_errno :=
          ⟨⟨ha.1, ha.2.1, hbk⟩, rfl, by show h.sent fd = _; rw [c1], c2⟩
        simp only
        by_cases hcp : connectfd > 0
        · rw [if_pos hcp]
          obtain ⟨w1, w2, w3⟩ := write_host h connectfd [0xff, 0xfb, 0x03, 0xff, 0xfb, 0x01]
          have k1 : apart (set_port (telnet_request (set_port { s with host := h } i
                { ({ s with host := h } : Sim).sci_port i with fd := connectfd }) connectfd) i
                { (telnet_request (set_port { s with host := h } i
                  { ({ s with host := h } : Sim).sci_port i with fd := connectfd })
                    connectfd).sci_port i with iac := 0 }) ch fd ∧
              (set_port (telnet_request (set_port { s with host := h } i
                { ({ s with host := h } : Sim).sci_port i with fd := connectfd }) connectfd) i
                { (telnet_request (set_port { s with host := h } i
                  { ({ s with host := h } : Sim).sci_port i with fd := connectfd })
                    connectfd).sci_port i with iac := 0 }).sci_port ch = s.sci_port ch ∧
              (set_port (telnet_request (set_port { s with host := h } i
                { ({ s with host := h } : Sim).sci_port i with fd := connectfd }) connectfd) i
                { (telnet_request (set_port { s with host := h } i
                  { ({ s with host := h } : Sim).sci_port i with fd := connectfd })
                    connectfd).sci_port i with iac := 0 }).host.sent fd = s.host.sent fd ∧
              (set_port (telnet_request (set_port { s with host := h } i
                { ({ s with host := h } : Sim).sci_port i with fd := connectfd }) connectfd) i
                { (telnet_request (set_port { s with host := h } i
                  { ({ s with host := h } : Sim).sci_port i with fd := connectfd })
                    connectfd).sci_port i with iac := 0 }).host.write_errno
                = s.host.write_errno := by
            refine ⟨⟨ha.1, fun j hj => ?_, fun sock => ?_⟩, ?_, ?_, ?_⟩
            · by_cases hji : j = i
              · subst hji
                simp only [set_port, telnet_request, upd, ↓reduceIte]
                exact hc
              · simp only [set_port, telnet_request, upd, if_neg hji]
                exact ha.2.1 j hj
            · show fd ∉ (Posix.write h connectfd _).2.backlog sock
              rw [w3]; exact hbk sock
            · simp only [set_port, telnet_request, upd, if_neg (Ne.symm hi)]
            · show (Posix.write h connectfd _).2.sent fd = _
              rw [w1 fd (Ne.symm hc), c1]
            · show (Posix.write h connectfd _).2.write_errno = _
              rw [w2, c2]
          generalize (set_port (telnet_request (set_port { s with host := h } i
              { ({ s with host := h } : Sim).sci_port i with fd := connectfd }) connectfd) i
              { (telnet_request (set_port { s with host := h } i
                { ({ s with host := h } : Sim).sci_port i with fd := connectfd })
                  connectfd).sci_port i with iac := 0 }) = s1 at k1 ⊢
          obtain ⟨q1, q2, q3, q4⟩ := apart_turn
            (turn_of_net_accept_while i ((s1.host.pending connectfd).length + 1) s1) hi k1.1
          cases hw : net_accept_while i ((s1.host.pending connectfd).length + 1) s1 with
          | mk r s2 =>
            rw [hw] at q1 q2 q3 q4
            simp only at q1 q2 q3 q4
            cases r with
            | true =>
              exact ⟨q1, q2.trans k1.2.1, q3.trans k1.2.2.1, q4.trans k1.2.2.2⟩
            | false =>
              obtain ⟨i1, i2, i3, i4⟩ := ih s2 q1 (by rw [q2, k1.2.1]; exact hp)
              exact ⟨i1, i2.trans (q2.trans k1.2.1), i3.trans (q3.trans k1.2.2.1),
                i4.trans (q4.trans k1.2.2.2)⟩
        · rw [if_neg hcp]
          obtain ⟨i1, i2, i3, i4⟩ := ih { s with host := h } hs0.1 hp
          exact ⟨i1, i2, i3.trans hs0.2.2.1, i4.trans hs0.2.2.2⟩
    · rw [if_neg hfd]
      exact ih s ha hp

/-- The state in which the loop of `sci` gets to channel `ch` has left alone a
connected channel `ch` whose descriptor is apart from the others. -/
theorem sci_reach_apart (st : Sim) (d ch : Nat) (fd : Int) (s : Sim) (ha : apart st ch fd)
    (hp : (st.sci_port ch).fd = fd) (hr : sci_reach st d ch = some s) :
    apart s ch fd ∧ s.sci_port ch = st.sci_port ch ∧ s.host.sent fd = st.host.sent fd ∧
      s.host.write_errno = st.host.write_errno := by
  have hl : ch ∉ List.range ch := by rw [List.mem_range]; omega
  unfold sci_reach at hr
  by_cases hn : st.sci_port_type = PORT_NET
  · rw [if_pos hn] at hr
    obtain ⟨n1, n2, n3, n4⟩ := net_accept_for_apart ch fd (List.range MAX_SCI_CH) st ha hp
    have hna : net_accept st = net_accept_for st (List.range MAX_SCI_CH) := rfl
    rw [← hna] at n1 n2 n3 n4
    cases hacc : net_accept st with
    | mk r s0 =>
      rw [hacc] at hr n1 n2 n3 n4
      simp only at n1 n2 n3 n4
      cases r with
      | true => simp at hr
      | false =>
        obtain ⟨f1, f2, f3, f4⟩ := sci_for_apart d ch fd _ hl s0 s hr n1
        exact ⟨f1, f2.trans n2, f3.trans n3, f4.trans n4⟩
  · rw [if_neg hn] at hr
    exact sci_for_apart d ch fd _ hl st s hr ha

/-- The call `sci` after the loop has got to channel `ch` in state `s`: the
run of the loop body for the channel, then the channels after it. -/
theorem sci_rest (st : Sim) (d ch b : Nat) (s : Sim) (hch : ch < 3)
    (hr : sci_reach st d ch = some s) (hbs : s.sci_base.get? ch = some b) :
    sci st d = sci_for d (List.range' (ch + 1) (2 - ch)) (sci_channel_at s d ch b) := by
  have key : ∀ s0, sci_for d (List.range ch) s0 = some s →
      sci_for d (List.range 3) s0
        = sci_for d (List.range' (ch + 1) (2 - ch)) (sci_channel_at s d ch b) := by
    intro s0 hs
    rw [range_three_split ch hch, sci_for_append, hs]
    show (sci_channel s d ch).bind _ = _
    unfold sci_channel
    rw [hbs]
    rfl
  unfold sci_reach at hr
  unfold sci
  by_cases hn : st.sci_port_type = PORT_NET
  · rw [if_pos hn] at hr ⊢
    cases ha : net_accept st with
    | mk r s0 =>
      rw [ha] at hr
      cases r with
      | true => simp at hr
      | false => exact key s0 hr
  · rw [if_neg hn] at hr ⊢
    exact key st hr

/-- A call of `sci` gets to every channel of the table unless `net_accept`
returns 1 in socket mode. -/
theorem sci_reach_some (st : Sim) (d ch b : Nat) (ht : sci_tables st)
    (hb : st.sci_base.get? ch = some b)
    (hacc : st.sci_port_type = PORT_NET → (net_accept st).1 = false) :
    ∃ s, sci_reach st d ch = some s := by
  have key : ∀ s0, same_sci st s0 → ∃ s, sci_for d (List.range ch) s0 = some s := by
    intro s0 h0
    have c0 := same_channel_of_same_sci h0 ch b
    obtain ⟨s', e1, _, _⟩ := sci_for_other d ch b (List.range ch) s0 (sci_tables_congr c0.1 ht)
      (by rw [c0.1]; exact hb)
      (fun i hi => by
        have := sci_tables_lt st ht ch b hb
        rw [List.mem_range] at hi; omega)
    exact ⟨s', e1⟩
  unfold sci_reach
  by_cases hn : st.sci_port_type = PORT_NET
  · rw [if_pos hn]
    have hf := net_accept_frame st
    have h1 := hacc hn
    cases ha : net_accept st with
    | mk r s0 =>
      rw [ha] at hf h1
      simp only at h1
      subst h1
      exact key s0 hf
  · rw [if_neg hn]
    exact key st (same_sci_refl st)

/-- On a channel with transmit enabled (SCR bit 0x20), whose
transmit-empty bit (SSR 0x80) software has cleared, with no shift in progress,
one call of `sci` with `cycles_diff` from 1 to 2^31 + 1 that gets past
`net_accept` (in socket mode `net_accept` returns 0) sends the TDR byte to the
transport once: on a connected channel whose descriptor takes the byte and is
apart from the other channels, the byte is added once to what was sent, followed
in socket mode by what the telnet parser answers.  The call sets SSR 0x80 again
and leaves transmit-complete (SSR 0x04) clear, the transmit timer holding the
cycles of one byte.  Over later calls that get to the loop with nothing else
touching the state, transmit-complete stays clear while the elapsed cycles stay
below the cycles of one byte, and is set by the first call at which they have
elapsed, that call having `cycles_diff` at most 2^31 and getting past
`net_accept`. -/
theorem sci_transmits_once (st : Sim) (d ch b : Nat) (ht : sci_tables st)
    (hb : st.sci_base.get? ch = some b) (hte : reg st (b + 2) &&& 0x20 ≠ 0)
    (hclr : reg st (b + 4) &&& 0x80 = 0) (htx : st.txstate = 0) (hd1 : 1 ≤ d)
    (hd2 : d ≤ 2 ^ 31 + 1) (hacc : st.sci_port_type = PORT_NET → (net_accept st).1 = false) :
    ∃ st', sci st d = some st' ∧
      (∀ fd, (st.sci_port ch).fd = fd → apart st ch fd → st.host.write_errno fd = none →
        ∃ r, st'.host.sent fd = st.host.sent fd ++ reg st (b + 3) :: r ∧
          (st.sci_port_type ≠ PORT_NET → r = [])) ∧
      reg st' (b + 4) &&& 0x80 ≠ 0 ∧ reg st' (b + 4) &&& 0x04 = 0 ∧
      st'.tx_end_time ch = cycles_per_byte (reg st b) (reg st (b + 1)) ∧
      ∀ (ds : List Nat) (d' : Nat) (s1 : Sim), d' ≤ 2 ^ 31 →
        (ds = [] ∨ ds.sum < cycles_per_byte (reg st b) (reg st (b + 1))) →
        cycles_per_byte (reg st b) (reg st (b + 1)) ≤ ds.sum + d' →
        sci_loops ch ds st' = some s1 →
        (s1.sci_port_type = PORT_NET → (net_accept s1).1 = false) →
        reg s1 (b + 4) &&& 0x04 = 0 ∧
          ∃ s2, sci s1 d' = some s2 ∧ reg s2 (b + 4) &&& 0x04 ≠ 0 := by
  have hch := sci_tables_lt st ht ch b hb
  have h2 : (2 : Nat) ^ 31 = 2147483648 := by norm_num
  rw [h2] at hd2
  have hd : sint32 (1 - (d : Int)) ≤ 0 := by
    rw [sint32_range] <;> omega
  obtain ⟨s, hr⟩ := sci_reach_some st d ch b ht hb hacc
  obtain ⟨c, hbs, st', es, k⟩ := sci_around st d ch b s ht hch hb hr
  have q0 := c.2.2.1 b (by omega) (by omega)
  have q1 := c.2.2.1 (b + 1) (by omega) (by omega)
  have q2 := c.2.2.1 (b + 2) (by omega) (by omega)
  have q3 := c.2.2.1 (b + 3) (by omega) (by omega)
  have q4 := c.2.2.1 (b + 4) (by omega) (by omega)
  obtain ⟨s1, g1, g2, g3, g4, g5, _⟩ := sci_channel_tx s d ch b hbs (by rw [q2]; exact hte)
    (by rw [q4]; exact hclr) (sci_reach_txstate st d ch s hd htx hr) hd1 (by rw [h2]; exact hd2)
  have hs1 : s1 = sci_channel_at s d ch b := by
    unfold sci_channel at g1
    rw [hbs] at g1
    exact (Option.some.inj g1).symm
  subst hs1
  rw [q0, q1] at g5
  rw [q3] at g2
  have r4 := k.2.2.1 (b + 4) (by omega) (by omega)
  have hw : tx_waiting st' ch b (cycles_per_byte (reg st b) (reg st (b + 1))) :=
    tx_waiting_congr k _ g5
  have ht' : sci_tables st' := by
    refine sci_tables_congr ?_ ht
    rw [k.1, sci_channel_at_base, c.1]
  have r04 : reg st' (b + 4) &&& 0x04 = 0 := by rw [r4]; exact g4
  have hcpb := sci_complete_time_of_eq (reg st b) (reg st (b + 1)) (reg_lt _ _)
  refine ⟨st', es, ?_, by rw [r4]; exact g3, r04, hw.2.2.2.2, ?_⟩
  · intro fd hfd hap hwr
    obtain ⟨a1, a2, a3, a4⟩ := sci_reach_apart st d ch fd s hap hfd hr
    obtain ⟨r, e1, e2⟩ := g2 fd (by rw [a2]; exact hfd) hap.1 (by rw [a4]; exact hwr)
    have hrest := sci_rest st d ch b s hch hr hbs
    rw [es] at hrest
    obtain ⟨_, _, f3, _⟩ := sci_for_apart d ch fd (List.range' (ch + 1) (2 - ch))
      (by rw [List.mem_range'_1]; omega) (sci_channel_at s d ch b) st' hrest.symm
      (apart_own (turn_of_channel_at s d ch b) a1)
    refine ⟨r, ?_, fun hne => e2 (by rw [c.2.1]; exact hne)⟩
    rw [f3, e1, a3]
  · intro ds d' x hd' hsum hel hl hacc'
    rw [h2] at hd'
    have hc : cycles_per_byte (reg st b) (reg st (b + 1)) ≤ 6266880 := hcpb.2
    have fin : ∀ (e : Int), sci_tables x → tx_waiting x ch b e → sint32 (e - d') ≤ 0 →
        ∃ s2, sci x d' = some s2 ∧ reg s2 (b + 4) &&& 0x04 ≠ 0 := by
      intro e hx hwx hle
      obtain ⟨y, hy⟩ := sci_reach_some x d' ch b hx hwx.1 hacc'
      obtain ⟨s2, u1, _, _, u4⟩ := sci_call_wait x d' ch b e y hx hwx hy
      exact ⟨s2, u1, u4 hle⟩
    rcases hsum with rfl | hsum
    · obtain rfl : st' = x := Option.some.inj hl
      simp only [List.sum_nil, Nat.zero_add] at hel
      refine ⟨r04, fin _ ht' hw ?_⟩
      rw [sint32_range] <;> omega
    · obtain ⟨i1, i2, i3⟩ := sci_loops_wait ch b ds st' _ x ht' hw r04 (by omega)
        (by exact_mod_cast hsum) hl
      refine ⟨i3, fin _ i1 i2 ?_⟩
      have : ((cycles_per_byte (reg st b) (reg st (b + 1)) : Nat) : Int) - (ds.sum : Nat)
          - (d' : Nat) ≤ 0 := by omega
      rw [sint32_range] <;> omega

set_option maxRecDepth 100000 in
theorem sci_transmits_once_witness :
    sci_tables (sci_state 0x20 0x41 0x04 0x84 []) ∧
    (sci_state 0x20 0x41 0x04 0x84 []).sci_base.get? 0 = some 0xb0 ∧
    reg (sci_state 0x20 0x41 0x04 0x84 []) (0xb0 + 2) &&& 0x20 ≠ 0 ∧
    reg (sci_state 0x20 0x41 0x04 0x84 []) (0xb0 + 4) &&& 0x80 = 0 ∧
    (sci_state 0x20 0x41 0x04 0x84 []).txstate = 0 ∧ 1 ≤ 1 ∧ 1 ≤ 2 ^ 31 + 1 ∧
    ((sci_state 0x20 0x41 0x04 0x84 []).sci_port_type = PORT_NET →
      (net_accept (sci_state 0x20 0x41 0x04 0x84 [])).1 = false) ∧
    ((sci_state 0x20 0x41 0x04 0x84 []).sci_port 0).fd = 5 ∧
    apart (sci_state 0x20 0x41 0x04 0x84 []) 0 5 ∧
    (sci_state 0x20 0x41 0x04 0x84 []).host.write_errno 5 = none ∧
    (sci_state 0x20 0x41 0x04 0x84 []).sci_port_type ≠ PORT_NET ∧
    (∃ st', sci (sci_state 0x20 0x41 0x04 0x84 []) 1 = some st' ∧
      (∀ fd, ((sci_state 0x20 0x41 0x04 0x84 []).sci_port 0).fd = fd →
        apart (sci_state 0x20 0x41 0x04 0x84 []) 0 fd →
        (sci_state 0x20 0x41 0x04 0x84 []).host.write_errno fd = none →
        ∃ r, st'.host.sent fd = (sci_state 0x20 0x41 0x04 0x84 []).host.sent fd
            ++ reg (sci_state 0x20 0x41 0x04 0x84 []) (0xb0 + 3) :: r ∧
          ((sci_state 0x20 0x41 0x04 0x84 []).sci_port_type ≠ PORT_NET → r = [])) ∧
      reg st' (0xb0 + 4) &&& 0x80 ≠ 0 ∧ reg st' (0xb0 + 4) &&& 0x04 = 0 ∧
      st'.tx_end_time 0 = cycles_per_byte (reg (sci_state 0x20 0x41 0x04 0x84 []) 0xb0)
        (reg (sci_state 0x20 0x41 0x04 0x84 []) (0xb0 + 1)) ∧
      ∀ (ds : List Nat) (d' : Nat) (s1 : Sim), d' ≤ 2 ^ 31 →
        (ds = [] ∨ ds.sum < cycles_per_byte (reg (sci_state 0x20 0x41 0x04 0x84 []) 0xb0)
          (reg (sci_state 0x20 0x41 0x04 0x84 []) (0xb0 + 1))) →
        cycles_per_byte (reg (sci_state 0x20 0x41 0x04 0x84 []) 0xb0)
          (reg (sci_state 0x20 0x41 0x04 0x84 []) (0xb0 + 1)) ≤ ds.sum + d' →
        sci_loops 0 ds st' = some s1 →
        (s1.sci_port_type = PORT_NET → (net_accept s1).1 = false) →
        reg s1 (0xb0 + 4) &&& 0x04 = 0 ∧
          ∃ s2, sci s1 d' = some s2 ∧ reg s2 (0xb0 + 4) &&& 0x04 ≠ 0) ∧
    (sci (sci_state 0x20 0x41 0x04 0x84 []) 1).map
      (fun s => (s.host.sent 5, reg s (0xb0 + 4) &&& 0x84, s.tx_end_time 0))
      = some ([0x41], 0x80, 81600) ∧
    ((sci (sci_state 0x20 0x41 0x04 0x84 []) 1).bind (sci_loops 0 [40000, 41599])).map
      (fun s => (s.sci_port_type, reg s (0xb0 + 4) &&& 0x04)) = some (PORT_NONE, 0) ∧
    (((sci (sci_state 0x20 0x41 0x04 0x84 []) 1).bind (sci_loops 0 [40000, 41599])).bind
      (fun s => sci s 1)).map (fun s => (s.host.sent 5, reg s (0xb0 + 4) &&& 0x04))
      = some ([0x41], 0x04) :=
  ⟨by decide, by decide, by decide, by decide, by decide, by decide, by decide, by decide,
    by decide,
    ⟨by decide, fun j hj => by simp [sci_state, hj], fun sock => by
      show (5 : Int) ∉ ([] : List Int)
      simp⟩,
    by decide, by decide,
    sci_transmits_once (sci_state 0x20 0x41 0x04 0x84 []) 1 0 0xb0 (by decide) (by decide)
      (by decide) (by decide) (by decide) (by decide) (by decide) (by decide),
    by decide, by decide, by decide⟩

end H8

namespace Rx

open H8 (cycles_per_byte bits_per_frame clock_divisor)

/-! ## The serial channels -/

theorem ld_lt (st : Mem) (m : mem_ptr) (i : Nat) : ld st m i < 256 := by
  unfold ld uchar; omega

theorem ld_congr (st st' : Mem) (h : st'.pt = st.pt) (m : mem_ptr) (i : Nat) :
    ld st' m i = ld st m i := by
  unfold ld load_byte
  rw [page_at_congr st st' h]

theorem ld_store_byte (st : Mem) (m : mem_ptr) (i v j : Nat)
    (h : (page_at st m.pt1 m.pt2).isSome = true) :
    ld (store_byte st m i v) m j = if j = i then uchar v else ld st m j := by
  unfold ld load_byte
  rw [page_at_store_byte]
  cases hp : page_at st m.pt1 m.pt2 with
  | none => rw [hp] at h; cases h
  | some pg =>
    simp only [and_self, if_true, Option.map_some', upd]
    by_cases e : j = i
    · simp [e]
    · have : m.pto + j ≠ m.pto + i := by omega
      simp [e, this]

theorem ld_store_byte_other (st : Mem) (n m : mem_ptr) (i v j : Nat)
    (h : ¬ (m.pt1 = n.pt1 ∧ m.pt2 = n.pt2)) :
    ld (store_byte st n i v) m j = ld st m j := by
  unfold ld load_byte
  rw [page_at_store_byte, if_neg h]

theorem isSome_store_byte (st : Mem) (n : mem_ptr) (i v : Nat) (q1 q2 : Nat) :
    (page_at (store_byte st n i v) q1 q2).isSome = (page_at st q1 q2).isSome := by
  rw [page_at_store_byte]
  split_ifs <;> cases page_at st q1 q2 <;> rfl

theorem get_set_rw_flag_loop (l : List mem_access_flag) (a f b : Nat) (h : b ≠ a) :
    get_rw_flag_loop (set_rw_flag_loop l a f) b = get_rw_flag_loop l b := by
  induction l with
  | nil => rfl
  | cons e es ih =>
    unfold set_rw_flag_loop
    by_cases ha : a = e.address
    · rw [if_pos ha]
      unfold get_rw_flag_loop
      have : b ≠ e.address := by rw [← ha]; exact h
      simp [this]
    · rw [if_neg ha]
      unfold get_rw_flag_loop
      rw [ih]

theorem get_set_rw_flag (st : Mem) (a f b : Nat) (h : b ≠ a) :
    get_rw_flag (set_rw_flag st a f) b = get_rw_flag st b := by
  unfold get_rw_flag set_rw_flag
  split_ifs
  · rfl
  · exact get_set_rw_flag_loop _ _ _ _ h

theorem get_rw_flag_congr (st st' : Mem) (h : st'.mem_access_flags = st.mem_access_flags)
    (a : Nat) : get_rw_flag st' a = get_rw_flag st a := by
  unfold get_rw_flag; rw [h]

theorem store_byte_flags (st : Mem) (m : mem_ptr) (i v : Nat) :
    (store_byte st m i v).mem_access_flags = st.mem_access_flags :=
  (store_byte_same_rest st m i v).2.2.2.2.2.2.2.2.2.1

theorem rx_mem_ptr_flags (st : Mem) (a : Nat) (action : mem_ptr_action) :
    (rx_mem_ptr st a action).2.mem_access_flags = st.mem_access_flags :=
  (rx_mem_ptr_same_rest st a action).2.2.2.2.2.2.2.2.2.1

theorem ld_set_rw_flag (st : Mem) (a f : Nat) (m : mem_ptr) (i : Nat) :
    ld (set_rw_flag st a f) m i = ld st m i :=
  ld_congr _ _ (set_rw_flag_pt st a f) m i

theorem rx_sci_send_data_frame (io : Io) (ch txd : Nat) :
    (sci_send_data io ch txd).mem = io.mem ∧ (sci_send_data io ch txd).sci_state = io.sci_state ∧
      (sci_send_data io ch txd).sci_port_type = io.sci_port_type := by
  unfold sci_send_data
  by_cases h : (io.sci_port ch).fd > 0
  · simp only [h, ↓reduceIte]
    unfold Posix.write
    cases io.host.write_errno (io.sci_port ch).fd with
    | none => simp
    | some e => by_cases he : e ≠ Posix.EAGAIN <;> simp [he, set_port]
  · simp [h]

theorem rx_telnet_escape_frame (io : Io) (ch rd : Nat) :
    (telnet_escape io ch rd).mem = io.mem ∧ (telnet_escape io ch rd).sci_state = io.sci_state := by
  unfold telnet_escape
  by_cases h1 : (io.sci_port ch).iac = 1
  · simp [h1, set_port]
  · by_cases h2 : (io.sci_port ch).iac = 2
    · by_cases h3 : (rd = 1 ∨ rd = 3) ∧ uchar (io.sci_port ch).cmd = 0xfd
      · simp [h2, h3, set_port]
      · simp [h2, h3, set_port]
    · simp [h1, h2]

theorem rx_sci_rcv_data_frame (io : Io) (ch : Nat) :
    (sci_rcv_data io ch).2.mem = io.mem ∧ (sci_rcv_data io ch).2.sci_state = io.sci_state := by
  unfold sci_rcv_data
  by_cases h : (io.sci_port ch).fd > 0
  · simp only [h, ↓reduceIte]
    unfold Posix.read
    cases io.host.pending (io.sci_port ch).fd with
    | nil => by_cases he : io.host.read_errno (io.sci_port ch).fd = Posix.EAGAIN <;>
        simp [he, set_port]
    | cons rd rest =>
      simp only
      split_ifs
      · exact rx_telnet_escape_frame _ ch _
      · simp [set_port]
      · simp
      · simp
  · simp [h]

theorem rx_sci_rcv_data_lt (io : Io) (ch data : Nat) (h : (sci_rcv_data io ch).1 = some data) :
    data < 256 := by
  unfold sci_rcv_data at h
  by_cases hf : (io.sci_port ch).fd > 0
  · simp only [hf, ↓reduceIte] at h
    unfold Posix.read at h
    cases hp : io.host.pending (io.sci_port ch).fd with
    | nil =>
      rw [hp] at h
      simp only at h
      split_ifs at h
    | cons rd rest =>
      rw [hp] at h
      simp only at h
      split_ifs at h <;> simp at h <;> omega
  · simp [hf] at h

@[simp] theorem mem_set_state (io : Io) (ch : Nat) (s : sci_state_t) :
    (set_state io ch s).mem = io.mem := rfl

@[simp] theorem mem_set_isr (io : Io) (ch v : Nat) : (set_isr io ch v).mem = io.mem := rfl

@[simp] theorem mem_set_ssr (io : Io) (ch v : Nat) : (set_ssr io ch v).mem = io.mem := rfl

@[simp] theorem mem_set_tx_end_time (io : Io) (ch : Nat) (v : Int) :
    (set_tx_end_time io ch v).mem = io.mem := rfl

@[simp] theorem mem_set_rx_end_time (io : Io) (ch : Nat) (v : Int) :
    (set_rx_end_time io ch v).mem = io.mem := rfl

@[simp] theorem mem_set_txstate (io : Io) (ch : Nat) (v : Int) :
    (set_txstate io ch v).mem = io.mem := rfl

@[simp] theorem rx_set_isr (io : Io) (ch v : Nat) :
    ((set_isr io ch v).sci_state ch).rx_end_time = (io.sci_state ch).rx_end_time := by
  simp [set_isr, set_state, upd]

@[simp] theorem rx_set_ssr (io : Io) (ch v : Nat) :
    ((set_ssr io ch v).sci_state ch).rx_end_time = (io.sci_state ch).rx_end_time := by
  simp [set_ssr, set_state, upd]

@[simp] theorem rx_set_tx_end_time (io : Io) (ch : Nat) (v : Int) :
    ((set_tx_end_time io ch v).sci_state ch).rx_end_time = (io.sci_state ch).rx_end_time := by
  simp [set_tx_end_time, set_state, upd]

@[simp] theorem rx_set_txstate (io : Io) (ch : Nat) (v : Int) :
    ((set_txstate io ch v).sci_state ch).rx_end_time = (io.sci_state ch).rx_end_time := by
  simp [set_txstate, set_state, upd]

@[simp] theorem rx_set_rx_end_time (io : Io) (ch : Nat) (v : Int) :
    ((set_rx_end_time io ch v).sci_state ch).rx_end_time = v := by
  simp [set_rx_end_time, set_state, upd]

@[simp] theorem ssr_set_ssr (io : Io) (ch v : Nat) :
    ((set_ssr io ch v).sci_state ch).ssr = uchar v := by
  simp [set_ssr, set_state, upd]

@[simp] theorem ssr_set_isr (io : Io) (ch v : Nat) :
    ((set_isr io ch v).sci_state ch).ssr = (io.sci_state ch).ssr := by
  simp [set_isr, set_state, upd]

@[simp] theorem ssr_set_rx_end_time (io : Io) (ch : Nat) (v : Int) :
    ((set_rx_end_time io ch v).sci_state ch).ssr = (io.sci_state ch).ssr := by
  simp [set_rx_end_time, set_state, upd]

theorem sci_clear_frame (io : Io) (scibase : mem_ptr) (ch isr : Nat) :
    (sci_clear io scibase ch isr).mem = io.mem ∧
      ((sci_clear io scibase ch isr).sci_state ch).rx_end_time = (io.sci_state ch).rx_end_time := by
  unfold sci_clear
  simp only []
  split_ifs <;> simp

theorem sci_tx_request_frame (io : Io) (scibase : mem_ptr) (ch : Nat) :
    (sci_tx_request io scibase ch).mem.pt = io.mem.pt ∧
      (∀ a, a ≠ 0x00088243 + ch * 8 →
        get_rw_flag (sci_tx_request io scibase ch).mem a = get_rw_flag io.mem a) ∧
      ((sci_tx_request io scibase ch).sci_state ch).rx_end_time = (io.sci_state ch).rx_end_time := by
  unfold sci_tx_request
  split_ifs with h
  · obtain ⟨e1, e2, _⟩ := rx_sci_send_data_frame io ch (ld io.mem scibase (ch * 8 + 3))
    simp only [io_set_rw_flag, mem_set_txstate, mem_set_tx_end_time, mem_set_ssr, mem_set_isr,
      rx_set_txstate, rx_set_tx_end_time, rx_set_ssr, rx_set_isr, e1, e2]
    exact ⟨set_rw_flag_pt _ _ _, fun a ha => get_set_rw_flag _ _ _ _ ha, trivial⟩
  · exact ⟨rfl, fun _ _ => rfl, rfl⟩

theorem sci_tx_complete_frame (io : Io) (scibase : mem_ptr) (ch : Nat) :
    (sci_tx_complete io scibase ch).mem = io.mem ∧
      ((sci_tx_complete io scibase ch).sci_state ch).rx_end_time = (io.sci_state ch).rx_end_time := by
  unfold sci_tx_complete
  split_ifs <;> simp

theorem sci_to_poll_frame (io : Io) (scibase : mem_ptr) (d ch : Nat) :
    (sci_to_poll io scibase d ch).mem.pt = io.mem.pt ∧
      (∀ a, a ≠ 0x00088243 + ch * 8 →
        get_rw_flag (sci_to_poll io scibase d ch).mem a = get_rw_flag io.mem a) ∧
      ((sci_to_poll io scibase d ch).sci_state ch).rx_end_time
        = sint32 ((io.sci_state ch).rx_end_time - d) := by
  obtain ⟨a1, a2, a3⟩ := sci_tx_request_frame io scibase ch
  unfold sci_to_poll
  simp only []
  generalize sci_tx_request io scibase ch = s1 at *
  obtain ⟨b1, b2⟩ := sci_tx_complete_frame
    (set_tx_end_time s1 ch (sint32 ((s1.sci_state ch).tx_end_time - d))) scibase ch
  generalize sci_tx_complete
    (set_tx_end_time s1 ch (sint32 ((s1.sci_state ch).tx_end_time - d))) scibase ch = s2 at *
  simp only [mem_set_rx_end_time, rx_set_rx_end_time, mem_set_tx_end_time,
    rx_set_tx_end_time] at b1 b2 ⊢
  rw [b1, b2, a3]
  exact ⟨a1, a2, rfl⟩

theorem IRADR_ne_zero (k : Nat) : IRADR k ≠ 0 := by unfold IRADR; omega

theorem io_mem_ptr_writing (io : Io) (a : Nat) (h0 : a ≠ 0)
    (h : ctype_of io.mem a ≠ .MC_PUSHED_PC) :
    io_mem_ptr io a .MPA_WRITING
      = (.ok (split a), { io with mem := (rx_mem_ptr io.mem a .MPA_WRITING).2 }) := by
  unfold io_mem_ptr
  have h1 := rx_mem_ptr_fst io.mem a .MPA_WRITING
  rw [outcome_writing, if_neg h0, if_neg h] at h1
  cases hr : rx_mem_ptr io.mem a .MPA_WRITING with
  | mk r1 r2 =>
    rw [hr] at h1
    simp only at h1
    subst h1
    rfl

theorem get_sciir_eq (io : Io) (ch : Nat)
    (h : ctype_of io.mem (IRADR (214 + ch * 4)) ≠ .MC_PUSHED_PC) :
    get_sciir io ch
      = (.ok (get_sciir_loop (rx_mem_ptr io.mem (IRADR (214 + ch * 4)) .MPA_WRITING).2
            (split (IRADR (214 + ch * 4))) (List.range 4) 0),
          { io with mem := (rx_mem_ptr io.mem (IRADR (214 + ch * 4)) .MPA_WRITING).2 }) := by
  unfold get_sciir
  rw [io_mem_ptr_writing io _ (IRADR_ne_zero _) h]
  rfl

theorem set_sciir_eq (io : Io) (ch isr : Nat)
    (h : ctype_of io.mem (IRADR (214 + ch * 4)) ≠ .MC_PUSHED_PC) :
    set_sciir io ch isr
      = (.ok (),
          { io with
            mem := set_sciir_loop (split (IRADR (214 + ch * 4))) (List.range 4)
              (rx_mem_ptr io.mem (IRADR (214 + ch * 4)) .MPA_WRITING).2 (uchar isr) }) := by
  unfold set_sciir
  rw [io_mem_ptr_writing io _ (IRADR_ne_zero _) h]
  rfl

theorem ld_set_sciir_loop (irptr m : mem_ptr) (h : ¬ (m.pt1 = irptr.pt1 ∧ m.pt2 = irptr.pt2))
    (l : List Nat) (st : Mem) (isr j : Nat) :
    ld (set_sciir_loop irptr l st isr) m j = ld st m j := by
  induction l generalizing st isr with
  | nil => rfl
  | cons i rest ih =>
    unfold set_sciir_loop
    rw [ih, ld_store_byte_other _ _ _ _ _ _ h]

theorem ld_rx_mem_ptr (st : Mem) (a : Nat) (action : mem_ptr_action) (m : mem_ptr) (i : Nat) :
    ld (rx_mem_ptr st a action).2 m i = ld st m i := by
  unfold ld; rw [rx_mem_ptr_load_byte]

theorem scibase_ne_ir (k : Nat) (hk : k < 3000) :
    ¬ (scibase_ptr.pt1 = (split (IRADR k)).pt1 ∧ scibase_ptr.pt2 = (split (IRADR k)).pt2) := by
  unfold scibase_ptr IRADR
  rw [split_pt1, split_pt2, split_pt2]
  omega

@[simp] theorem mem_io_store (io : Io) (m : mem_ptr) (i v : Nat) :
    (io_store io m i v).mem = store_byte io.mem m i (uchar v) := rfl

@[simp] theorem mem_io_set_rw_flag (io : Io) (a f : Nat) :
    (io_set_rw_flag io a f).mem = set_rw_flag io.mem a f := rfl

@[simp] theorem sci_state_io_store (io : Io) (m : mem_ptr) (i v : Nat) :
    (io_store io m i v).sci_state = io.sci_state := rfl

@[simp] theorem sci_state_io_set_rw_flag (io : Io) (a f : Nat) :
    (io_set_rw_flag io a f).sci_state = io.sci_state := rfl

@[simp] theorem ctype_of_set_rw_flag (st : Mem) (a f b : Nat) :
    ctype_of (set_rw_flag st a f) b = ctype_of st b :=
  ctype_of_congr _ _ (set_rw_flag_pt st a f) b

@[simp] theorem page_at_set_rw_flag (st : Mem) (a f q1 q2 : Nat) :
    page_at (set_rw_flag st a f) q1 q2 = page_at st q1 q2 :=
  page_at_congr _ _ (set_rw_flag_pt st a f) q1 q2

theorem uchar_uchar (x : Nat) : uchar (uchar x) = uchar x := by unfold uchar; omega

theorem uchar_of_lt {x : Nat} (h : x < 256) : uchar x = x := by unfold uchar; omega

/-- The receive check of the loop body of `sci` when the receive timer has run
out, receiving is enabled and the transport yields a byte. -/
theorem rx_sci_rx_yield (p : Io) (scibase : mem_ptr) (ch data : Nat)
    (hal : (page_at p.mem scibase.pt1 scibase.pt2).isSome = true)
    (hel : (p.sci_state ch).rx_end_time ≤ 0)
    (hre : ld p.mem scibase (ch * 8 + 2) &&& 0x10 ≠ 0)
    (hy : (sci_rcv_data p ch).1 = some data) :
    (∀ b, ctype_of (sci_rx p scibase ch).mem b = ctype_of p.mem b) ∧
    (page_at (sci_rx p scibase ch).mem scibase.pt1 scibase.pt2).isSome = true ∧
    ((sci_rx p scibase ch).sci_state ch).rx_end_time
      = sint32 (sci_complete_time_of (ld p.mem scibase (ch * 8 + 0))
          (ld p.mem scibase (ch * 8 + 1))) ∧
    (get_rw_flag p.mem (0x00088245 + ch * 8) ≠ mem_none →
      (∀ j, ld (sci_rx p scibase ch).mem scibase j
        = if j = ch * 8 + 5 then data else ld p.mem scibase j) ∧
      ((sci_rx p scibase ch).sci_state ch).ssr = uchar ((p.sci_state ch).ssr ||| 0x40)) ∧
    (get_rw_flag p.mem (0x00088245 + ch * 8) = mem_none →
      (∀ j, ld (sci_rx p scibase ch).mem scibase j = ld p.mem scibase j) ∧
      ((sci_rx p scibase ch).sci_state ch).ssr = uchar ((p.sci_state ch).ssr ||| 0x20)) := by
  have hd := rx_sci_rcv_data_lt p ch data hy
  obtain ⟨f1, f2⟩ := rx_sci_rcv_data_frame p ch
  unfold sci_rx
  rw [if_pos hel, if_pos hre]
  cases hr : sci_rcv_data p ch with
  | mk o s3 =>
    rw [hr] at hy f1 f2
    simp only at hy f1 f2
    subst hy
    simp only
    by_cases hflag : get_rw_flag p.mem (0x00088245 + ch * 8) = mem_none
    · have hflag3 : get_rw_flag s3.mem (0x00088245 + ch * 8) = mem_none := by rw [f1]; exact hflag
      rw [if_pos hflag3]
      simp only [mem_set_rx_end_time, mem_set_ssr, mem_io_set_rw_flag, mem_set_isr,
        ctype_of_set_rw_flag, page_at_set_rw_flag, rx_set_rx_end_time, ssr_set_rx_end_time,
        ssr_set_ssr, sci_state_io_set_rw_flag, ssr_set_isr, ld_set_rw_flag, f1, f2,
        sci_complete_time]
      exact ⟨fun _ => trivial, hal, trivial, fun h => absurd hflag h,
        fun _ => ⟨fun _ => trivial, trivial⟩⟩
    · have hflag3 : ¬ get_rw_flag s3.mem (0x00088245 + ch * 8) = mem_none := by
        rw [f1]; exact hflag
      have e0 : ch * 8 + 0 ≠ ch * 8 + 5 := by omega
      have e1 : ch * 8 + 1 ≠ ch * 8 + 5 := by omega
      rw [if_neg hflag3]
      simp only [mem_set_rx_end_time, mem_set_ssr, mem_io_set_rw_flag, mem_set_isr,
        ctype_of_set_rw_flag, page_at_set_rw_flag, rx_set_rx_end_time, ssr_set_rx_end_time,
        ssr_set_ssr, sci_state_io_set_rw_flag, ssr_set_isr, ld_set_rw_flag, f1, f2,
        sci_complete_time, mem_io_store, sci_state_io_store, ctype_of_store_byte,
        isSome_store_byte, ld_store_byte _ _ _ _ _ hal, uchar_uchar, uchar_of_lt hd, e0, e1,
        if_false]
      exact ⟨fun _ => trivial, hal, trivial, fun _ => ⟨fun _ => trivial, trivial⟩,
        fun h => absurd h hflag⟩

theorem ssr_bit_written (x bit : Nat) (hb : bit = 0x40 ∨ bit = 0x20) :
    uchar (uchar (x ||| bit) &&& 0xfc) &&& bit ≠ 0 := by
  have h1 : uchar (x ||| bit) &&& 0xfc < 256 := H8.and_lt_256 _ (by decide)
  rw [uchar_of_lt h1]
  unfold uchar
  rcases hb with rfl | rfl
  · rw [H8.and_and_const _ _ _ (by decide), ← H8.and_byte_mask _ _ (by decide),
      H8.and_or_self _ _ _ (by decide)]
    decide
  · rw [H8.and_and_const _ _ _ (by decide), ← H8.and_byte_mask _ _ (by decide),
      H8.and_or_self _ _ _ (by decide)]
    decide

/-- The loop body of `sci` when the transport yields a byte at the poll of a
channel whose receive timer has run out and which has receiving enabled: the
registers and the receive timer it leaves. -/
theorem rx_sci_channel_rx (io : Io) (d ch data : Nat) (hch : ch < MAX_SCI_CH)
    (hmap : sci_mapped io ch)
    (hre : ld io.mem scibase_ptr (ch * 8 + 2) &&& 0x10 ≠ 0)
    (hel : sint32 ((io.sci_state ch).rx_end_time - d) ≤ 0)
    (hy : (sci_rcv_data (sci_at_poll io scibase_ptr d ch) ch).1 = some data) :
    ∃ io', sci_channel io scibase_ptr d ch = (.ok (), io') ∧
      (io'.sci_state ch).rx_end_time
        = (cycles_per_byte (ld io.mem scibase_ptr (ch * 8)) (ld io.mem scibase_ptr (ch * 8 + 1))
            : Int) ∧
      (get_rw_flag io.mem (0x00088245 + ch * 8) ≠ mem_none →
        ld io'.mem scibase_ptr (ch * 8 + 5) = data ∧
        ld io'.mem scibase_ptr (ch * 8 + 4) &&& 0x40 ≠ 0) ∧
      (get_rw_flag io.mem (0x00088245 + ch * 8) = mem_none →
        ld io'.mem scibase_ptr (ch * 8 + 5) = ld io.mem scibase_ptr (ch * 8 + 5) ∧
        ld io'.mem scibase_ptr (ch * 8 + 4) &&& 0x20 ≠ 0) := by
  obtain ⟨hal, hct⟩ := hmap
  have hk : 214 + ch * 4 < 3000 := by unfold MAX_SCI_CH at hch; omega
  have hne := scibase_ne_ir _ hk
  have hg := get_sciir_eq io ch hct
  generalize hm1 : (rx_mem_ptr io.mem (IRADR (214 + ch * 4)) .MPA_WRITING).2 = m1 at hg
  generalize get_sciir_loop m1 (split (IRADR (214 + ch * 4))) (List.range 4) 0 = isr at hg
  have hok : (outcome io.mem (IRADR (214 + ch * 4)) .MPA_WRITING).isOk = true := by
    rw [outcome_writing, if_neg (IRADR_ne_zero _), if_neg hct]; rfl
  -- what the resolution of the request bytes leaves
  have m1_ld : ∀ j, ld m1 scibase_ptr j = ld io.mem scibase_ptr j := fun j => by
    rw [← hm1, ld_rx_mem_ptr]
  have m1_flag : ∀ x, get_rw_flag m1 x = get_rw_flag io.mem x := fun x => by
    rw [← hm1]; exact get_rw_flag_congr _ _ (rx_mem_ptr_flags _ _ _) x
  have m1_al : (page_at m1 scibase_ptr.pt1 scibase_ptr.pt2).isSome = true := by
    have := rx_mem_ptr_allocated io.mem (IRADR (214 + ch * 4)) .MPA_WRITING 0x00088240
    rw [hm1, hal, Bool.true_or] at this
    exact this
  have m1_ct : ctype_of m1 (IRADR (214 + ch * 4)) = .MC_DATA := by
    rw [← hm1, rx_mem_ptr_ctype_of, if_pos ⟨hok, rfl, rfl⟩]
  -- the state at the poll
  have hp : sci_at_poll io scibase_ptr d ch
      = sci_to_poll (sci_clear { io with mem := m1 } scibase_ptr ch isr) scibase_ptr d ch := by
    unfold sci_at_poll; rw [hg]
  rw [hp] at hy
  have hbody : sci_channel io scibase_ptr d ch
      = set_sciir (io_store (sci_rx (sci_to_poll (sci_clear { io with mem := m1 } scibase_ptr ch
            isr) scibase_ptr d ch) scibase_ptr ch) scibase_ptr (ch * 8 + 4)
          (((sci_rx (sci_to_poll (sci_clear { io with mem := m1 } scibase_ptr ch isr)
            scibase_ptr d ch) scibase_ptr ch).sci_state ch).ssr &&& 0xfc)) ch
          (((sci_rx (sci_to_poll (sci_clear { io with mem := m1 } scibase_ptr ch isr)
            scibase_ptr d ch) scibase_ptr ch).sci_state ch).isr) := by
    unfold sci_channel; rw [hg]; rfl
  obtain ⟨c1, c2⟩ := sci_clear_frame { io with mem := m1 } scibase_ptr ch isr
  obtain ⟨t1, t2, t3⟩ := sci_to_poll_frame (sci_clear { io with mem := m1 } scibase_ptr ch isr)
    scibase_ptr d ch
  generalize sci_to_poll (sci_clear { io with mem := m1 } scibase_ptr ch isr) scibase_ptr d ch
    = p at hy t1 t2 t3 hbody
  rw [c1] at t1 t2
  rw [c2] at t3
  have p_ld : ∀ j, ld p.mem scibase_ptr j = ld io.mem scibase_ptr j := fun j => by
    rw [ld_congr _ _ t1, m1_ld]
  have p_al : (page_at p.mem scibase_ptr.pt1 scibase_ptr.pt2).isSome = true := by
    rw [page_at_congr _ _ t1]; exact m1_al
  have p_ct : ctype_of p.mem (IRADR (214 + ch * 4)) = .MC_DATA := by
    rw [ctype_of_congr _ _ t1]; exact m1_ct
  have p_flag : get_rw_flag p.mem (0x00088245 + ch * 8) = get_rw_flag io.mem (0x00088245 + ch * 8) := by
    rw [t2 _ (by omega), m1_flag]
  obtain ⟨y1, y2, y3, y4, y5⟩ := rx_sci_rx_yield p scibase_ptr ch data p_al
    (by rw [t3]; exact hel) (by rw [p_ld]; exact hre) hy
  generalize sci_rx p scibase_ptr ch = q at y1 y2 y3 y4 y5 hbody
  have q_ct : ctype_of (io_store q scibase_ptr (ch * 8 + 4) ((q.sci_state ch).ssr &&& 0xfc)).mem
      (IRADR (214 + ch * 4)) ≠ .MC_PUSHED_PC := by
    rw [mem_io_store, ctype_of_store_byte, y1, p_ct]; decide
  rw [set_sciir_eq _ _ _ q_ct] at hbody
  have hcpb := H8.sci_complete_time_of_int (ld io.mem scibase_ptr (ch * 8))
    (ld io.mem scibase_ptr (ch * 8 + 1)) (ld_lt _ _ _)
  have e54 : ch * 8 + 5 ≠ ch * 8 + 4 := by omega
  refine ⟨_, hbody, ?_, ?_, ?_⟩
  · show (q.sci_state ch).rx_end_time = _
    rw [y3, p_ld, p_ld, Nat.add_zero]
    exact hcpb
  · intro hf
    obtain ⟨z1, z2⟩ := y4 (by rw [p_flag]; exact hf)
    simp only [ld_set_sciir_loop _ _ hne, ld_rx_mem_ptr, mem_io_store, ld_store_byte _ _ _ _ _ y2,
      e54, if_false, if_true, z1, z2, uchar_uchar]
    exact ⟨trivial, ssr_bit_written _ _ (Or.inl rfl)⟩
  · intro hf
    obtain ⟨z1, z2⟩ := y5 (by rw [p_flag]; exact hf)
    simp only [ld_set_sciir_loop _ _ hne, ld_rx_mem_ptr, mem_io_store, ld_store_byte _ _ _ _ _ y2,
      e54, if_false, if_true, z1, z2, uchar_uchar, p_ld]
    exact ⟨trivial, ssr_bit_written _ _ (Or.inr rfl)⟩

/-! ## The call `sci` as a whole -/

theorem keeps_sci_refl (i : Nat) (s : Io) : keeps_sci i s s :=
  ⟨rfl, fun _ _ => rfl, fun _ _ _ => rfl, fun _ _ _ => rfl, fun h => h, fun _ h => h⟩

theorem keeps_sci_trans {i : Nat} {x y z : Io} (h1 : keeps_sci i x y) (h2 : keeps_sci i y z) :
    keeps_sci i x z := by
  obtain ⟨a1, a2, a3, a4, a5, a6⟩ := h1
  obtain ⟨b1, b2, b3, b4, b5, b6⟩ := h2
  exact ⟨b1.trans a1, fun k hk => (b2 k hk).trans (a2 k hk),
    fun j h4 h5 => (b3 j h4 h5).trans (a3 j h4 h5), fun a h3 h5 => (b4 a h3 h5).trans (a4 a h3 h5),
    fun h => b5 (a5 h), fun x h => b6 x (a6 x h)⟩

/-- A step that leaves the memory alone and changes at most what `sci` keeps
for channel `i`. -/
theorem keeps_sci_of_mem {i : Nat} {s s' : Io} (hm : s'.mem = s.mem)
    (hp : s'.sci_port_type = s.sci_port_type) (hs : ∀ k, k ≠ i → s'.sci_state k = s.sci_state k) :
    keeps_sci i s s' :=
  ⟨hp, hs, fun _ _ _ => by rw [hm], fun _ _ _ => by rw [hm], fun h => by rw [hm]; exact h,
    fun _ h => by rw [hm]; exact h⟩

theorem keeps_sci_set_state (i : Nat) (s : Io) (v : sci_state_t) :
    keeps_sci i s (set_state s i v) :=
  keeps_sci_of_mem rfl rfl (fun k hk => by simp [set_state, upd, hk])

theorem keeps_sci_set_isr (i : Nat) (s : Io) (v : Nat) : keeps_sci i s (set_isr s i v) :=
  keeps_sci_set_state i s _

theorem keeps_sci_set_ssr (i : Nat) (s : Io) (v : Nat) : keeps_sci i s (set_ssr s i v) :=
  keeps_sci_set_state i s _

theorem keeps_sci_set_tx_end_time (i : Nat) (s : Io) (v : Int) :
    keeps_sci i s (set_tx_end_time s i v) :=
  keeps_sci_set_state i s _

theorem keeps_sci_set_rx_end_time (i : Nat) (s : Io) (v : Int) :
    keeps_sci i s (set_rx_end_time s i v) :=
  keeps_sci_set_state i s _

theorem keeps_sci_set_txstate (i : Nat) (s : Io) (v : Int) :
    keeps_sci i s (set_txstate s i v) :=
  keeps_sci_set_state i s _

theorem rx_sci_rcv_data_port_type (io : Io) (ch : Nat) :
    (sci_rcv_data io ch).2.sci_port_type = io.sci_port_type := by
  unfold sci_rcv_data
  by_cases h : (io.sci_port ch).fd > 0
  · simp only [h, ↓reduceIte]
    unfold Posix.read
    cases io.host.pending (io.sci_port ch).fd with
    | nil => by_cases he : io.host.read_errno (io.sci_port ch).fd = Posix.EAGAIN <;>
        simp [he, set_port]
    | cons rd rest =>
      simp only
      split_ifs
      · unfold telnet_escape
        simp only []
        split_ifs <;> rfl
      · rfl
      · rfl
      · rfl
  · simp [h]

theorem keeps_sci_send_data (i : Nat) (s : Io) (txd : Nat) :
    keeps_sci i s (sci_send_data s i txd) := by
  obtain ⟨e1, e2, e3⟩ := rx_sci_send_data_frame s i txd
  exact keeps_sci_of_mem e1 e3 (fun k _ => by rw [e2])

theorem keeps_sci_rcv_data (i : Nat) (s : Io) : keeps_sci i s (sci_rcv_data s i).2 := by
  obtain ⟨e1, e2⟩ := rx_sci_rcv_data_frame s i
  exact keeps_sci_of_mem e1 (rx_sci_rcv_data_port_type s i) (fun k _ => by rw [e2])

theorem ld_store_byte_ne (st : Mem) (m : mem_ptr) (i v j : Nat) (h : j ≠ i) :
    ld (store_byte st m i v) m j = ld st m j := by
  unfold ld load_byte
  rw [page_at_store_byte]
  cases hp : page_at st m.pt1 m.pt2 with
  | none => simp
  | some pg =>
    have : m.pto + j ≠ m.pto + i := by omega
    simp [upd, this]

theorem allocated_eq (st : Mem) :
    allocated st 0x00088240 = (page_at st scibase_ptr.pt1 scibase_ptr.pt2).isSome := rfl

theorem keeps_sci_store (i : Nat) (s : Io) (j v : Nat) (hj : j = i * 8 + 4 ∨ j = i * 8 + 5) :
    keeps_sci i s (io_store s scibase_ptr j v) := by
  refine ⟨rfl, fun _ _ => rfl, fun k h4 h5 => ?_, fun a _ _ => ?_, fun h => ?_, fun x h => ?_⟩
  · rw [mem_io_store, ld_store_byte_ne]
    rcases hj with rfl | rfl <;> assumption
  · rw [mem_io_store]; exact get_rw_flag_congr _ _ (store_byte_flags _ _ _ _) a
  · rw [mem_io_store, allocated_eq, isSome_store_byte, ← allocated_eq]; exact h
  · rw [mem_io_store, ctype_of_store_byte]; exact h

theorem keeps_sci_flag (i : Nat) (s : Io) (a f : Nat)
    (ha : a = 0x00088243 + i * 8 ∨ a = 0x00088245 + i * 8) :
    keeps_sci i s (io_set_rw_flag s a f) := by
  refine ⟨rfl, fun _ _ => rfl, fun k _ _ => ?_, fun x h3 h5 => ?_, fun h => ?_, fun x h => ?_⟩
  · rw [mem_io_set_rw_flag, ld_set_rw_flag]
  · rw [mem_io_set_rw_flag, get_set_rw_flag]
    rcases ha with rfl | rfl <;> assumption
  · rw [mem_io_set_rw_flag, allocated_eq, page_at_set_rw_flag, ← allocated_eq]; exact h
  · rw [mem_io_set_rw_flag, ctype_of_set_rw_flag]; exact h

theorem keeps_sci_resolve (i : Nat) (s : Io) (a : Nat) :
    keeps_sci i s { s with mem := (rx_mem_ptr s.mem a .MPA_WRITING).2 } := by
  refine ⟨rfl, fun _ _ => rfl, fun k _ _ => ?_, fun x _ _ => ?_, fun h => ?_, fun x h => ?_⟩
  · exact ld_rx_mem_ptr _ _ _ _ _
  · exact get_rw_flag_congr _ _ (rx_mem_ptr_flags _ _ _) x
  · show allocated (rx_mem_ptr s.mem a .MPA_WRITING).2 0x00088240 = true
    rw [rx_mem_ptr_allocated, h, Bool.true_or]
  · show ctype_of (rx_mem_ptr s.mem a .MPA_WRITING).2 x ≠ _
    rw [rx_mem_ptr_ctype_of]
    split_ifs
    · decide
    · exact h

theorem keeps_sci_clear (i : Nat) (s : Io) (scibase : mem_ptr) (isr : Nat) :
    keeps_sci i s (sci_clear s scibase i isr) := by
  unfold sci_clear
  simp only []
  have k1 := keeps_sci_set_ssr i s ((s.sci_state i).ssr &&& ld s.mem scibase (i * 8 + 4))
  generalize set_ssr s i ((s.sci_state i).ssr &&& ld s.mem scibase (i * 8 + 4)) = s1 at k1 ⊢
  have k2 := keeps_sci_trans k1 (keeps_sci_set_isr i s1 ((s1.sci_state i).isr &&& isr))
  generalize set_isr s1 i ((s1.sci_state i).isr &&& isr) = s2 at k2 ⊢
  have k3 : keeps_sci i s (if ¬ (ld s2.mem scibase (i * 8 + 2) &&& 0x80 ≠ 0) then
      set_isr s2 i ((s2.sci_state i).isr &&& (255 - SCI_TXI)) else s2) := by
    split_ifs
    · exact k2
    · exact keeps_sci_trans k2 (keeps_sci_set_isr _ _ _)
  generalize (if ¬ (ld s2.mem scibase (i * 8 + 2) &&& 0x80 ≠ 0) then
      set_isr s2 i ((s2.sci_state i).isr &&& (255 - SCI_TXI)) else s2) = s3 at k3 ⊢
  have k4 : keeps_sci i s (if ¬ (ld s3.mem scibase (i * 8 + 2) &&& 0x40 ≠ 0) then
      set_isr s3 i ((s3.sci_state i).isr &&& (255 - (SCI_RXI ||| SCI_ERI))) else s3) := by
    split_ifs
    · exact k3
    · exact keeps_sci_trans k3 (keeps_sci_set_isr _ _ _)
  generalize (if ¬ (ld s3.mem scibase (i * 8 + 2) &&& 0x40 ≠ 0) then
      set_isr s3 i ((s3.sci_state i).isr &&& (255 - (SCI_RXI ||| SCI_ERI))) else s3) = s4 at k4 ⊢
  split_ifs
  · exact k4
  · exact keeps_sci_trans k4 (keeps_sci_set_isr _ _ _)

theorem keeps_sci_tx_request (i : Nat) (s : Io) (scibase : mem_ptr) :
    keeps_sci i s (sci_tx_request s scibase i) := by
  unfold sci_tx_request
  split_ifs
  · exact keeps_sci_trans (keeps_sci_trans (keeps_sci_trans (keeps_sci_trans (keeps_sci_trans
      (keeps_sci_send_data i s _) (keeps_sci_set_isr _ _ _)) (keeps_sci_set_ssr _ _ _))
      (keeps_sci_set_tx_end_time _ _ _)) (keeps_sci_set_txstate _ _ _))
      (keeps_sci_flag _ _ _ _ (Or.inl rfl))
  · exact keeps_sci_refl i s

theorem keeps_sci_tx_complete (i : Nat) (s : Io) (scibase : mem_ptr) :
    keeps_sci i s (sci_tx_complete s scibase i) := by
  unfold sci_tx_complete
  split_ifs
  · exact keeps_sci_trans (keeps_sci_set_isr i s _) (keeps_sci_set_ssr _ _ _)
  · exact keeps_sci_trans (keeps_sci_trans (keeps_sci_trans
      (keeps_sci_set_isr i s _) (keeps_sci_set_ssr _ _ _))
      (keeps_sci_set_tx_end_time _ _ _)) (keeps_sci_set_txstate _ _ _)
  · exact keeps_sci_refl i s

theorem keeps_sci_to_poll (i : Nat) (s : Io) (scibase : mem_ptr) (d : Nat) :
    keeps_sci i s (sci_to_poll s scibase d i) := by
  unfold sci_to_poll
  exact keeps_sci_trans (keeps_sci_trans (keeps_sci_trans
    (keeps_sci_tx_request i s scibase) (keeps_sci_set_tx_end_time _ _ _))
    (keeps_sci_tx_complete _ _ _)) (keeps_sci_set_rx_end_time _ _ _)

theorem keeps_sci_rx (i : Nat) (s : Io) : keeps_sci i s (sci_rx s scibase_ptr i) := by
  unfold sci_rx
  split_ifs
  · have k := keeps_sci_rcv_data i s
    cases hr : sci_rcv_data s i with
    | mk o s3 =>
      rw [hr] at k
      cases o with
      | none => exact k
      | some data =>
        simp only
        refine keeps_sci_trans (keeps_sci_trans k ?_) (keeps_sci_set_rx_end_time _ _ _)
        split_ifs
        · exact keeps_sci_trans (keeps_sci_trans (keeps_sci_set_isr i s3 _)
            (keeps_sci_flag _ _ _ _ (Or.inr rfl))) (keeps_sci_set_ssr _ _ _)
        · exact keeps_sci_trans (keeps_sci_trans (keeps_sci_trans
            (keeps_sci_store i s3 _ _ (Or.inr rfl)) (keeps_sci_set_isr _ _ _))
            (keeps_sci_flag _ _ _ _ (Or.inr rfl))) (keeps_sci_set_ssr _ _ _)
  · exact keeps_sci_refl i s
  · exact keeps_sci_refl i s

theorem set_sciir_loop_keeps (irptr : mem_ptr) (l : List Nat) :
    ∀ (st : Mem) (isr : Nat),
      (set_sciir_loop irptr l st isr).mem_access_flags = st.mem_access_flags ∧
      allocated (set_sciir_loop irptr l st isr) 0x00088240 = allocated st 0x00088240 ∧
      ∀ x, ctype_of (set_sciir_loop irptr l st isr) x = ctype_of st x := by
  induction l with
  | nil => intro st isr; exact ⟨rfl, rfl, fun _ => rfl⟩
  | cons i rest ih =>
    intro st isr
    unfold set_sciir_loop
    obtain ⟨a1, a2, a3⟩ := ih (store_byte st irptr i (if isr &&& (1 <<< 3) ≠ 0 then 1 else 0))
      (uchar (isr <<< 1))
    refine ⟨a1.trans (store_byte_flags _ _ _ _), a2.trans ?_, fun x => (a3 x).trans ?_⟩
    · rw [allocated_eq, isSome_store_byte, ← allocated_eq]
    · exact ctype_of_store_byte _ _ _ _ _

theorem keeps_sci_set_sciir_loop (i k : Nat) (hk : k < 3000) (s : Io) (m : Mem)
    (hm : keeps_sci i s { s with mem := m }) (isr : Nat) :
    keeps_sci i s
      { s with mem := set_sciir_loop (split (IRADR k)) (List.range 4) m isr } := by
  obtain ⟨a1, a2, a3, a4, a5, a6⟩ := hm
  obtain ⟨b1, b2, b3⟩ := set_sciir_loop_keeps (split (IRADR k)) (List.range 4) m isr
  refine ⟨rfl, fun _ _ => rfl, fun j h4 h5 => ?_, fun x h3 h5 => ?_, fun h => ?_, fun x h => ?_⟩
  · show ld (set_sciir_loop _ _ m isr) scibase_ptr j = _
    rw [ld_set_sciir_loop _ _ (scibase_ne_ir k hk)]
    exact a3 j h4 h5
  · show get_rw_flag (set_sciir_loop _ _ m isr) x = _
    rw [get_rw_flag_congr _ _ b1]
    exact a4 x h3 h5
  · show allocated (set_sciir_loop _ _ m isr) 0x00088240 = true
    rw [b2]; exact a5 h
  · show ctype_of (set_sciir_loop _ _ m isr) x ≠ _
    rw [b3]; exact a6 x h

/-- The loop body of `sci` for channel `i` goes through when the channel's
request bytes can be resolved, and keeps what is not the channel's. -/
theorem rx_sci_channel_keeps (s : Io) (d i : Nat) (hi : i < MAX_SCI_CH)
    (hct : ctype_of s.mem (IRADR (214 + i * 4)) ≠ .MC_PUSHED_PC) :
    ∃ s', sci_channel s scibase_ptr d i = (.ok (), s') ∧ keeps_sci i s s' := by
  have hk : 214 + i * 4 < 3000 := by unfold MAX_SCI_CH at hi; omega
  have hg := get_sciir_eq s i hct
  have k1 := keeps_sci_resolve i s (IRADR (214 + i * 4))
  generalize ({ s with mem := (rx_mem_ptr s.mem (IRADR (214 + i * 4)) .MPA_WRITING).2 } : Io)
    = s1 at hg k1
  generalize get_sciir_loop (rx_mem_ptr s.mem (IRADR (214 + i * 4)) .MPA_WRITING).2
    (split (IRADR (214 + i * 4))) (List.range 4) 0 = isr at hg
  have k2 := keeps_sci_trans k1 (keeps_sci_clear i s1 scibase_ptr isr)
  have k3 := keeps_sci_trans k2 (keeps_sci_to_poll i _ scibase_ptr d)
  have k4 := keeps_sci_trans k3 (keeps_sci_rx i _)
  have hbody : sci_channel s scibase_ptr d i
      = set_sciir (io_store (sci_rx (sci_to_poll (sci_clear s1 scibase_ptr i isr) scibase_ptr d i)
            scibase_ptr i) scibase_ptr (i * 8 + 4)
          (((sci_rx (sci_to_poll (sci_clear s1 scibase_ptr i isr) scibase_ptr d i)
            scibase_ptr i).sci_state i).ssr &&& 0xfc)) i
          (((sci_rx (sci_to_poll (sci_clear s1 scibase_ptr i isr) scibase_ptr d i)
            scibase_ptr i).sci_state i).isr) := by
    unfold sci_channel; rw [hg]; rfl
  generalize sci_rx (sci_to_poll (sci_clear s1 scibase_ptr i isr) scibase_ptr d i) scibase_ptr i
    = q at k4 hbody
  have k5 := keeps_sci_trans k4 (keeps_sci_store i q (i * 8 + 4) ((q.sci_state i).ssr &&& 0xfc)
    (Or.inl rfl))
  generalize io_store q scibase_ptr (i * 8 + 4) ((q.sci_state i).ssr &&& 0xfc) = q' at k5 hbody
  rw [set_sciir_eq _ _ _ (k5.2.2.2.2.2 _ hct)] at hbody
  exact ⟨_, hbody, keeps_sci_trans k5
    (keeps_sci_set_sciir_loop i _ hk q' _ (keeps_sci_resolve i q' _) _)⟩

theorem rx_same_channel_refl (s : Io) (ch : Nat) : same_channel s s ch :=
  ⟨rfl, rfl, fun _ _ _ => rfl, rfl, rfl, fun h => h, fun _ h => h⟩

theorem rx_same_channel_trans {x y z : Io} {ch : Nat} (h1 : same_channel x y ch)
    (h2 : same_channel y z ch) : same_channel x z ch := by
  obtain ⟨a1, a2, a3, a4, a5, a6, a7⟩ := h1
  obtain ⟨b1, b2, b3, b4, b5, b6, b7⟩ := h2
  exact ⟨b1.trans a1, b2.trans a2, fun j l u => (b3 j l u).trans (a3 j l u), b4.trans a4,
    b5.trans a5, fun h => b6 (a6 h), fun x h => b7 x (a7 x h)⟩

theorem same_channel_of_keeps {i ch : Nat} {s s' : Io} (h : keeps_sci i s s') (hne : ch ≠ i) :
    same_channel s s' ch := by
  obtain ⟨a1, a2, a3, a4, a5, a6⟩ := h
  exact ⟨a1, a2 ch hne, fun j l u => a3 j (by omega) (by omega), a4 _ (by omega) (by omega),
    a4 _ (by omega) (by omega), a5, a6⟩

/-- The loop of `sci` over channels other than `ch` goes through when their
request bytes can be resolved, and leaves channel `ch` alone. -/
theorem rx_sci_for_other (d ch : Nat) (l : List Nat) :
    ∀ s, (∀ i ∈ l, i < MAX_SCI_CH ∧ i ≠ ch ∧
        ctype_of s.mem (IRADR (214 + i * 4)) ≠ .MC_PUSHED_PC) →
      ∃ s', sci_for scibase_ptr d l s = (.ok (), s') ∧ same_channel s s' ch := by
  induction l with
  | nil => intro s _; exact ⟨s, rfl, rx_same_channel_refl _ _⟩
  | cons i rest ih =>
    intro s hl
    obtain ⟨hi3, hic, hct⟩ := hl i (List.mem_cons_self _ _)
    obtain ⟨s1, e1, k1⟩ := rx_sci_channel_keeps s d i hi3 hct
    obtain ⟨s', e2, k2⟩ := ih s1 (fun j hj => by
      obtain ⟨j3, jc, jct⟩ := hl j (List.mem_cons_of_mem _ hj)
      exact ⟨j3, jc, k1.2.2.2.2.2 _ jct⟩)
    refine ⟨s', ?_, rx_same_channel_trans (same_channel_of_keeps k1 (Ne.symm hic)) k2⟩
    unfold sci_for
    rw [e1]
    exact e2

theorem rx_net_accept_while_frame (ch : Nat) (n : Nat) :
    ∀ io, (net_accept_while ch n io).2.mem = io.mem ∧
      (net_accept_while ch n io).2.sci_state = io.sci_state ∧
      (net_accept_while ch n io).2.sci_port_type = io.sci_port_type := by
  induction n with
  | zero => intro io; exact ⟨rfl, rfl, rfl⟩
  | succ n ih =>
    intro io
    unfold net_accept_while
    cases hr : Posix.read io.host (io.sci_port ch).fd with
    | mk r h =>
      cases r with
      | error e => exact ⟨rfl, rfl, rfl⟩
      | ok rd =>
        simp only
        split_ifs
        · obtain ⟨e1, e2⟩ := rx_telnet_escape_frame { io with host := h } ch rd
          refine ⟨e1, e2, ?_⟩
          unfold telnet_escape
          simp only []
          split_ifs <;> rfl
        · exact ⟨rfl, rfl, rfl⟩
        · obtain ⟨e1, e2, e3⟩ := ih { io with host := h }
          exact ⟨e1, e2, e3⟩

theorem rx_net_accept_for_frame (l : List Nat) :
    ∀ io, (net_accept_for io l).2.mem = io.mem ∧
      (net_accept_for io l).2.sci_state = io.sci_state ∧
      (net_accept_for io l).2.sci_port_type = io.sci_port_type := by
  induction l with
  | nil => intro io; exact ⟨rfl, rfl, rfl⟩
  | cons ch rest ih =>
    intro io
    unfold net_accept_for
    split_ifs with hfd
    · cases ha : Posix.accept io.host (io.sci_port ch).socket with
      | mk connectfd h =>
        simp only
        split_ifs with hc
        · have k1 : (set_port (telnet_request (set_port { io with host := h } ch
              { ({ io with host := h } : Io).sci_port ch with fd := connectfd }) connectfd) ch
              { (telnet_request (set_port { io with host := h } ch
                { ({ io with host := h } : Io).sci_port ch with fd := connectfd })
                  connectfd).sci_port ch with iac := 0 }).mem = io.mem ∧
              (set_port (telnet_request (set_port { io with host := h } ch
              { ({ io with host := h } : Io).sci_port ch with fd := connectfd }) connectfd) ch
              { (telnet_request (set_port { io with host := h } ch
                { ({ io with host := h } : Io).sci_port ch with fd := connectfd })
                  connectfd).sci_port ch with iac := 0 }).sci_state = io.sci_state ∧
              (set_port (telnet_request (set_port { io with host := h } ch
              { ({ io with host := h } : Io).sci_port ch with fd := connectfd }) connectfd) ch
              { (telnet_request (set_port { io with host := h } ch
                { ({ io with host := h } : Io).sci_port ch with fd := connectfd })
                  connectfd).sci_port ch with iac := 0 }).sci_port_type = io.sci_port_type :=
            ⟨rfl, rfl, rfl⟩
          generalize (set_port (telnet_request (set_port { io with host := h } ch
              { ({ io with host := h } : Io).sci_port ch with fd := connectfd }) connectfd) ch
              { (telnet_request (set_port { io with host := h } ch
                { ({ io with host := h } : Io).sci_port ch with fd := connectfd })
                  connectfd).sci_port ch with iac := 0 }) = s1 at k1 ⊢
          have k2 := rx_net_accept_while_frame ch ((s1.host.pending connectfd).length + 1) s1
          cases hw : net_accept_while ch ((s1.host.pending connectfd).length + 1) s1 with
          | mk r s2 =>
            rw [hw] at k2
            simp only at k2
            cases r with
            | true => exact ⟨k2.1.trans k1.1, k2.2.1.trans k1.2.1, k2.2.2.trans k1.2.2⟩
            | false =>
              obtain ⟨e1, e2, e3⟩ := ih s2
              exact ⟨e1.trans (k2.1.trans k1.1), e2.trans (k2.2.1.trans k1.2.1),
                e3.trans (k2.2.2.trans k1.2.2)⟩
        · obtain ⟨e1, e2, e3⟩ := ih { io with host := h }
          exact ⟨e1, e2, e3⟩
    · exact ih io

theorem rx_same_channel_of_mem {s s' : Io} (hm : s'.mem = s.mem)
    (hs : s'.sci_state = s.sci_state) (hp : s'.sci_port_type = s.sci_port_type) (ch : Nat) :
    same_channel s s' ch :=
  ⟨hp, by rw [hs], fun _ _ _ => by rw [hm], by rw [hm], by rw [hm],
    fun h => by rw [hm]; exact h, fun _ h => by rw [hm]; exact h⟩

theorem rx_sci_for_append (scibase : mem_ptr) (d : Nat) (l1 l2 : List Nat) :
    ∀ io, sci_for scibase d (l1 ++ l2) io
      = seq (sci_for scibase d l1 io) (fun _ io => sci_for scibase d l2 io) := by
  induction l1 with
  | nil => intro io; rfl
  | cons i rest ih =>
    intro io
    show seq (sci_channel io scibase d i) (fun _ io => sci_for scibase d (rest ++ l2) io)
      = seq (seq (sci_channel io scibase d i) (fun _ io => sci_for scibase d rest io))
          (fun _ io => sci_for scibase d l2 io)
    cases hc : sci_channel io scibase d i with
    | mk r s =>
      cases r with
      | error f => rfl
      | ok u => exact ih s

theorem rx_same_channel_resolve (s : Io) (a ch : Nat) :
    same_channel s { s with mem := (rx_mem_ptr s.mem a .MPA_WRITING).2 } ch := by
  obtain ⟨a1, _, a3, a4, a5, a6⟩ := keeps_sci_resolve (ch + 1) s a
  exact ⟨a1, rfl, fun j _ _ => a3 j (by omega) (by omega), a4 _ (by omega) (by omega),
    a4 _ (by omega) (by omega), a5, a6⟩

/-- The call `sci` around the run of its loop body for channel `ch`: the state
`s` in which the loop gets to the channel has the channel as it was on entry
and the register page allocated, the run goes through, and the rest of the call
leaves the channel as that run left it. -/
theorem rx_sci_around (io : Io) (d ch : Nat) (s : Io) (hres : sci_resolves io)
    (hch : ch < MAX_SCI_CH) (hr : sci_reach io d ch = some s) :
    same_channel io s ch ∧ allocated s.mem 0x00088240 = true ∧
      ∃ s1 io', sci_channel s scibase_ptr d ch = (.ok (), s1) ∧ sci io d = (.ok (), io') ∧
        same_channel s1 io' ch := by
  have h3 : ch < 3 := hch
  have key : ∀ s0 : Io, s0.mem = io.mem → s0.sci_state = io.sci_state →
      s0.sci_port_type = io.sci_port_type →
      (match io_mem_ptr s0 0x00088240 .MPA_WRITING with
        | (.ok scibase, io) =>
          match sci_for scibase d (List.range ch) io with
          | (.ok _, io) => some io
          | (.error _, _) => none
        | (.error _, _) => none) = some s →
      same_channel io s ch ∧ allocated s.mem 0x00088240 = true ∧
        ∃ s1 io', sci_channel s scibase_ptr d ch = (.ok (), s1) ∧
          seq (io_mem_ptr s0 0x00088240 .MPA_WRITING)
            (fun scibase io => sci_for scibase d (List.range MAX_SCI_CH) io) = (.ok (), io') ∧
          same_channel s1 io' ch := by
    intro s0 hm hs hp hgo
    have c0 := rx_same_channel_of_mem hm hs hp ch
    have hp0 : io_mem_ptr s0 0x00088240 .MPA_WRITING
        = (.ok scibase_ptr, { s0 with mem := (rx_mem_ptr s0.mem 0x00088240 .MPA_WRITING).2 }) :=
      io_mem_ptr_writing s0 _ (by decide) (by rw [hm]; exact hres.1)
    have c1 := rx_same_channel_resolve s0 0x00088240 ch
    have hal : allocated ({ s0 with
        mem := (rx_mem_ptr s0.mem 0x00088240 .MPA_WRITING).2 } : Io).mem 0x00088240 = true := by
      show allocated (rx_mem_ptr s0.mem 0x00088240 .MPA_WRITING).2 0x00088240 = true
      have hok : (outcome s0.mem 0x00088240 .MPA_WRITING).isOk = true := by
        rw [outcome_writing, if_neg (by decide), if_neg (by rw [hm]; exact hres.1)]; rfl
      rw [rx_mem_ptr_allocated, hok]
      simp
    have hct0 : ∀ k, k < MAX_SCI_CH → ctype_of ({ s0 with
        mem := (rx_mem_ptr s0.mem 0x00088240 .MPA_WRITING).2 } : Io).mem (IRADR (214 + k * 4))
          ≠ .MC_PUSHED_PC := fun k hk =>
      c1.2.2.2.2.2.2 _ (by rw [hm]; exact hres.2 k hk)
    rw [hp0] at hgo ⊢
    generalize ({ s0 with mem := (rx_mem_ptr s0.mem 0x00088240 .MPA_WRITING).2 } : Io) = s0'
      at hgo c1 hal hct0 ⊢
    simp only [seq] at hgo ⊢
    obtain ⟨s', e1, k1⟩ := rx_sci_for_other d ch (List.range ch) s0' (fun i hi => by
      rw [List.mem_range] at hi
      exact ⟨by unfold MAX_SCI_CH; omega, by omega, hct0 i (by unfold MAX_SCI_CH; omega)⟩)
    rw [e1] at hgo
    simp only at hgo
    obtain rfl : s' = s := Option.some.inj hgo
    obtain ⟨s1, eb, kb⟩ := rx_sci_channel_keeps s' d ch hch (k1.2.2.2.2.2.2 _ (hct0 ch hch))
    obtain ⟨io', e2, k2⟩ := rx_sci_for_other d ch (List.range' (ch + 1) (2 - ch)) s1
      (fun i hi => by
        rw [List.mem_range'_1] at hi
        have hi3 : i < MAX_SCI_CH := by unfold MAX_SCI_CH; omega
        exact ⟨hi3, by omega, kb.2.2.2.2.2 _ (k1.2.2.2.2.2.2 _ (hct0 i hi3))⟩)
    refine ⟨rx_same_channel_trans (rx_same_channel_trans c0 c1) k1, k1.2.2.2.2.2.1 hal,
      s1, io', eb, ?_, k2⟩
    show sci_for scibase_ptr d (List.range 3) s0' = _
    rw [H8.range_three_split ch h3, rx_sci_for_append, e1]
    show seq (sci_channel s' scibase_ptr d ch) _ = _
    rw [eb]
    exact e2
  unfold sci_reach at hr
  unfold sci
  simp only [] at hr ⊢
  by_cases hn : io.sci_port_type = PORT_NET
  · rw [if_pos hn] at hr ⊢
    obtain ⟨f1, f2, f3⟩ := rx_net_accept_for_frame (List.range MAX_SCI_CH) io
    have ha : net_accept io = net_accept_for io (List.range MAX_SCI_CH) := rfl
    rw [← ha] at f1 f2 f3
    cases hna : net_accept io with
    | mk r s0 =>
      rw [hna] at hr f1 f2 f3
      cases r with
      | true => simp at hr
      | false => exact key s0 f1 f2 f3 hr
  · rw [if_neg hn] at hr ⊢
    exact key io rfl rfl rfl hr

/-- The call `sci` when the transport yields a byte at the poll of a channel
whose receive timer has run out and which has receiving enabled: the registers
and the receive timer of the channel after the call. -/
theorem rx_sci_call_rx (io : Io) (d ch data : Nat) (hres : sci_resolves io)
    (hch : ch < MAX_SCI_CH)
    (hre : ld io.mem scibase_ptr (ch * 8 + 2) &&& 0x10 ≠ 0)
    (hel : sint32 ((io.sci_state ch).rx_end_time - d) ≤ 0)
    (hy : sci_poll io d ch = some data) :
    ∃ io', sci io d = (.ok (), io') ∧
      (io'.sci_state ch).rx_end_time
        = (cycles_per_byte (ld io.mem scibase_ptr (ch * 8)) (ld io.mem scibase_ptr (ch * 8 + 1))
            : Int) ∧
      (get_rw_flag io.mem (0x00088245 + ch * 8) ≠ mem_none →
        ld io'.mem scibase_ptr (ch * 8 + 5) = data ∧
        ld io'.mem scibase_ptr (ch * 8 + 4) &&& 0x40 ≠ 0) ∧
      (get_rw_flag io.mem (0x00088245 + ch * 8) = mem_none →
        ld io'.mem scibase_ptr (ch * 8 + 5) = ld io.mem scibase_ptr (ch * 8 + 5) ∧
        ld io'.mem scibase_ptr (ch * 8 + 4) &&& 0x20 ≠ 0) := by
  unfold sci_poll at hy
  cases hr : sci_reach io d ch with
  | none => rw [hr] at hy; simp at hy
  | some s =>
    rw [hr] at hy
    simp only at hy
    obtain ⟨⟨_, c2, c3, _, c5, _, c7⟩, hal, s1, io', eb, e, ⟨_, k2, k3, _, _, _, _⟩⟩ :=
      rx_sci_around io d ch s hres hch hr
    have r0 := c3 (ch * 8) (by omega) (by omega)
    have r1 := c3 (ch * 8 + 1) (by omega) (by omega)
    have r2 := c3 (ch * 8 + 2) (by omega) (by omega)
    have r5 := c3 (ch * 8 + 5) (by omega) (by omega)
    obtain ⟨s1', g1, g2, g3, g4⟩ := rx_sci_channel_rx s d ch data hch
      ⟨hal, c7 _ (hres.2 ch hch)⟩ (by rw [r2]; exact hre) (by rw [c2]; exact hel) hy
    rw [eb] at g1
    obtain rfl : s1 = s1' := (Prod.mk.inj g1).2
    rw [r0, r1] at g2
    rw [c5] at g3 g4
    rw [r5] at g4
    refine ⟨io', e, by rw [k2]; exact g2, ?_, ?_⟩
    · intro hf
      rw [k3 (ch * 8 + 5) (by omega) (by omega), k3 (ch * 8 + 4) (by omega) (by omega)]
      exact g3 hf
    · intro hf
      rw [k3 (ch * 8 + 5) (by omega) (by omega), k3 (ch * 8 + 4) (by omega) (by omega)]
      exact g4 hf

end Rx

namespace H8

open Rx (uchar ushort uint32 sint32)

theorem sci_complete_time_eq (st : Sim) (ch b : Nat) (hb : st.sci_base.get? ch = some b) :
    sci_complete_time st ch = some (cycles_per_byte (reg st b) (reg st (b + 1))) := by
  unfold sci_complete_time sci_reg
  rw [hb]
  simp only [Option.map_some', Nat.add_zero,
    (sci_complete_time_of_eq (reg st b) (reg st (b + 1)) (reg_lt _ _)).1]

theorem rx_sci_complete_time_eq (m : Rx.Mem) (scibase : Rx.mem_ptr) (ch : Nat) :
    Rx.sci_complete_time m scibase ch
      = cycles_per_byte (Rx.ld m scibase (ch * 8)) (Rx.ld m scibase (ch * 8 + 1)) := by
  unfold Rx.sci_complete_time
  exact (sci_complete_time_of_eq _ _ (Rx.ld_lt _ _ _)).1

/-- C20: for every SMR value and every BRR value (a byte),
`sci_complete_time`, on the H8 and on the RX, returns
(bits_per_frame + 2) * 32 * clock_divisor * BRR, where bits_per_frame is 7 if
SMR bit 0x40 is set and 8 otherwise, plus 1 if SMR bit 0x20 is set, plus 1 if
SMR bit 0x08 is set, and clock_divisor is 4 to the power (SMR & 3); the result
is at most 12*32*64*255, so the `int` arithmetic of the function, which the
embedding wraps at 32 bits, does not overflow. -/
theorem sci_complete_time_formula (smr brr : Nat) (hb : brr < 256) :
    sci_complete_time_of smr brr = cycles_per_byte smr brr ∧
    Rx.sci_complete_time_of smr brr = cycles_per_byte smr brr ∧
    cycles_per_byte smr brr
      = ((if smr &&& 0x40 ≠ 0 then 7 else 8) + (if smr &&& 0x20 ≠ 0 then 1 else 0)
          + (if smr &&& 0x08 ≠ 0 then 1 else 0) + 2) * 32 * 4 ^ (smr &&& 3) * brr ∧
    cycles_per_byte smr brr ≤ 12 * 32 * 64 * 255 ∧
    (∀ (st : Sim) (ch b : Nat), st.sci_base.get? ch = some b → reg st b = smr →
      reg st (b + 1) = brr → sci_complete_time st ch = some (cycles_per_byte smr brr)) ∧
    (∀ (m : Rx.Mem) (scibase : Rx.mem_ptr) (ch : Nat), Rx.ld m scibase (ch * 8 + 0) = smr →
      Rx.ld m scibase (ch * 8 + 1) = brr →
      Rx.sci_complete_time m scibase ch = cycles_per_byte smr brr) := by
  obtain ⟨h1, h2⟩ := sci_complete_time_of_eq smr brr hb
  have h3 : Rx.sci_complete_time_of smr brr = cycles_per_byte smr brr := h1
  refine ⟨h1, h3, rfl, h2, ?_, ?_⟩
  · intro st ch b hbase e1 e2
    rw [sci_complete_time_eq st ch b hbase, e1, e2]
  · intro m scibase ch e1 e2
    rw [rx_sci_complete_time_eq, ← Nat.add_zero (ch * 8), e1, e2]

set_option maxRecDepth 100000 in
theorem sci_complete_time_formula_witness :
    (0xff : Nat) < 256 ∧
    sci_complete_time_of 0x6b 0xff = cycles_per_byte 0x6b 0xff ∧
    Rx.sci_complete_time_of 0x6b 0xff = cycles_per_byte 0x6b 0xff ∧
    cycles_per_byte 0x6b 0xff
      = ((if 0x6b &&& 0x40 ≠ 0 then 7 else 8) + (if 0x6b &&& 0x20 ≠ 0 then 1 else 0)
          + (if 0x6b &&& 0x08 ≠ 0 then 1 else 0) + 2) * 32 * 4 ^ (0x6b &&& 3) * 0xff ∧
    cycles_per_byte 0x6b 0xff ≤ 12 * 32 * 64 * 255 ∧
    (∀ (st : Sim) (ch b : Nat), st.sci_base.get? ch = some b → reg st b = 0x6b →
      reg st (b + 1) = 0xff → sci_complete_time st ch = some (cycles_per_byte 0x6b 0xff)) ∧
    (∀ (m : Rx.Mem) (scibase : Rx.mem_ptr) (ch : Nat), Rx.ld m scibase (ch * 8 + 0) = 0x6b →
      Rx.ld m scibase (ch * 8 + 1) = 0xff →
      Rx.sci_complete_time m scibase ch = cycles_per_byte 0x6b 0xff) :=
  ⟨by decide, sci_complete_time_formula 0x6b 0xff (by decide)⟩

/-- C16: for every SCI channel with receive enabled (SCR bit 0x10), an elapsed
receive timer and no unread byte pending, when the poll of the transport yields
the byte `data` during the call `sci (cycles_diff)`, after the call the receive
data register RDR holds `data`, the receive-full bit 0x40 is set in SSR and the
receive timer is re-armed to `sci_complete_time`.  On the H8 no unread byte is
pending when bit 0x40 is clear in SSR or in its shadow; on the RX when RDR was
read or written since the last delivery (its flag is not `mem_none`), and the
four resolutions of the call go through. -/
theorem sci_receive_delivers (st : Sim) (d ch b data : Nat) (io : Rx.Io) (rd rch rdata : Nat)
    (ht : sci_tables st) (hb : st.sci_base.get? ch = some b)
    (hre : reg st (b + 2) &&& 0x10 ≠ 0) (hel : sint32 (st.rx_end_time ch - d) ≤ 0)
    (hfree : (byte st.ssr ch &&& reg st (b + 4)) &&& 0x40 = 0)
    (hy : sci_poll st d ch = some data)
    (rres : Rx.sci_resolves io) (rhch : rch < Rx.MAX_SCI_CH)
    (rhre : Rx.ld io.mem Rx.scibase_ptr (rch * 8 + 2) &&& 0x10 ≠ 0)
    (rhel : sint32 ((io.sci_state rch).rx_end_time - rd) ≤ 0)
    (rhfree : Rx.get_rw_flag io.mem (0x00088245 + rch * 8) ≠ Rx.mem_none)
    (rhy : Rx.sci_poll io rd rch = some rdata) :
    (∃ st' t, sci st d = some st' ∧ reg st' (b + 5) = data ∧ reg st' (b + 4) &&& 0x40 ≠ 0 ∧
      sci_complete_time st ch = some t ∧ st'.rx_end_time ch = t) ∧
    (∃ io', Rx.sci io rd = (.ok (), io') ∧ Rx.ld io'.mem Rx.scibase_ptr (rch * 8 + 5) = rdata ∧
      Rx.ld io'.mem Rx.scibase_ptr (rch * 8 + 4) &&& 0x40 ≠ 0 ∧
      (io'.sci_state rch).rx_end_time = Rx.sci_complete_time io.mem Rx.scibase_ptr rch) := by
  constructor
  · obtain ⟨st', e, g2, g3, _⟩ := sci_call_rx st d ch b data ht hb hre hel hy
    obtain ⟨q1, q2, _⟩ := g3 hfree
    exact ⟨st', _, e, q1, q2, sci_complete_time_eq st ch b hb, g2⟩
  · obtain ⟨io', e, g2, g3, _⟩ := Rx.rx_sci_call_rx io rd rch rdata rres rhch rhre rhel rhy
    obtain ⟨q1, q2⟩ := g3 rhfree
    exact ⟨io', e, q1, q2, by rw [g2, rx_sci_complete_time_eq]⟩

/-- C17: when a second byte arrives from the transport while the first received
byte is still unread, the call `sci` sets the overrun bit 0x20 in SSR and
leaves the receive data register as it is, holding the first byte.  The first
byte is still unread on the H8 while the receive-full bit 0x40 is still set in
SSR, and so in the shadow that set it; on the RX while RDR was neither read nor
written since the delivery (its flag is `mem_none`).  The byte arrives at the
poll of a channel with receive enabled and an elapsed receive timer. -/
theorem sci_receive_overrun (st : Sim) (d ch b data : Nat) (io : Rx.Io) (rd rch rdata : Nat)
    (ht : sci_tables st) (hb : st.sci_base.get? ch = some b)
    (hre : reg st (b + 2) &&& 0x10 ≠ 0) (hel : sint32 (st.rx_end_time ch - d) ≤ 0)
    (hfull : (byte st.ssr ch &&& reg st (b + 4)) &&& 0x40 ≠ 0)
    (hy : sci_poll st d ch = some data)
    (rres : Rx.sci_resolves io) (rhch : rch < Rx.MAX_SCI_CH)
    (rhre : Rx.ld io.mem Rx.scibase_ptr (rch * 8 + 2) &&& 0x10 ≠ 0)
    (rhel : sint32 ((io.sci_state rch).rx_end_time - rd) ≤ 0)
    (rhfull : Rx.get_rw_flag io.mem (0x00088245 + rch * 8) = Rx.mem_none)
    (rhy : Rx.sci_poll io rd rch = some rdata) :
    (∃ st', sci st d = some st' ∧ reg st' (b + 4) &&& 0x20 ≠ 0 ∧
      reg st' (b + 5) = reg st (b + 5)) ∧
    (∃ io', Rx.sci io rd = (.ok (), io') ∧
      Rx.ld io'.mem Rx.scibase_ptr (rch * 8 + 4) &&& 0x20 ≠ 0 ∧
      Rx.ld io'.mem Rx.scibase_ptr (rch * 8 + 5)
        = Rx.ld io.mem Rx.scibase_ptr (rch * 8 + 5)) := by
  constructor
  · obtain ⟨st', e, _, _, g4⟩ := sci_call_rx st d ch b data ht hb hre hel hy
    obtain ⟨q1, q2, _⟩ := g4 hfull
    exact ⟨st', e, q2, q1⟩
  · obtain ⟨io', e, _, _, g4⟩ := Rx.rx_sci_call_rx io rd rch rdata rres rhch rhre rhel rhy
    obtain ⟨q1, q2⟩ := g4 rhfull
    exact ⟨io', e, q2, q1⟩

set_option maxRecDepth 100000 in
theorem sci_receive_delivers_witness :
    sci_tables (sci_state 0x10 0x00 0x84 0x84 [0x41]) ∧
    (sci_state 0x10 0x00 0x84 0x84 [0x41]).sci_base.get? 0 = some 0xb0 ∧
    reg (sci_state 0x10 0x00 0x84 0x84 [0x41]) (0xb0 + 2) &&& 0x10 ≠ 0 ∧
    sint32 ((sci_state 0x10 0x00 0x84 0x84 [0x41]).rx_end_time 0 - (1 : Nat)) ≤ 0 ∧
    (byte (sci_state 0x10 0x00 0x84 0x84 [0x41]).ssr 0 &&&
      reg (sci_state 0x10 0x00 0x84 0x84 [0x41]) (0xb0 + 4)) &&& 0x40 = 0 ∧
    sci_poll (sci_state 0x10 0x00 0x84 0x84 [0x41]) 1 0 = some 0x41 ∧
    Rx.sci_resolves (Rx.sci_io 0x10 0x00 Rx.mem_w [0x41]) ∧ 0 < Rx.MAX_SCI_CH ∧
    Rx.ld (Rx.sci_io 0x10 0x00 Rx.mem_w [0x41]).mem Rx.scibase_ptr (0 * 8 + 2) &&& 0x10 ≠ 0 ∧
    sint32 (((Rx.sci_io 0x10 0x00 Rx.mem_w [0x41]).sci_state 0).rx_end_time - (1 : Nat)) ≤ 0 ∧
    Rx.get_rw_flag (Rx.sci_io 0x10 0x00 Rx.mem_w [0x41]).mem (0x00088245 + 0 * 8)
      ≠ Rx.mem_none ∧
    Rx.sci_poll (Rx.sci_io 0x10 0x00 Rx.mem_w [0x41]) 1 0 = some 0x41 ∧
    (∃ st' t, sci (sci_state 0x10 0x00 0x84 0x84 [0x41]) 1 = some st' ∧
      reg st' (0xb0 + 5) = 0x41 ∧ reg st' (0xb0 + 4) &&& 0x40 ≠ 0 ∧
      sci_complete_time (sci_state 0x10 0x00 0x84 0x84 [0x41]) 0 = some t ∧
      st'.rx_end_time 0 = t) ∧
    (∃ io', Rx.sci (Rx.sci_io 0x10 0x00 Rx.mem_w [0x41]) 1 = (.ok (), io') ∧
      Rx.ld io'.mem Rx.scibase_ptr (0 * 8 + 5) = 0x41 ∧
      Rx.ld io'.mem Rx.scibase_ptr (0 * 8 + 4) &&& 0x40 ≠ 0 ∧
      (io'.sci_state 0).rx_end_time
        = Rx.sci_complete_time (Rx.sci_io 0x10 0x00 Rx.mem_w [0x41]).mem Rx.scibase_ptr 0) :=
  ⟨by decide, by decide, by decide, by decide, by decide, by decide, by decide, by decide,
    by decide, by decide, by decide, by decide,
    sci_receive_delivers (sci_state 0x10 0x00 0x84 0x84 [0x41]) 1 0 0xb0 0x41
      (Rx.sci_io 0x10 0x00 Rx.mem_w [0x41]) 1 0 0x41
      (by decide) (by decide) (by decide) (by decide) (by decide) (by decide)
      (by decide) (by decide) (by decide) (by decide) (by decide) (by decide)⟩

set_option maxRecDepth 100000 in
theorem sci_receive_overrun_witness :
    sci_tables (sci_state 0x10 0x00 0xc4 0xc4 [0x42]) ∧
    (sci_state 0x10 0x00 0xc4 0xc4 [0x42]).sci_base.get? 0 = some 0xb0 ∧
    reg (sci_state 0x10 0x00 0xc4 0xc4 [0x42]) (0xb0 + 2) &&& 0x10 ≠ 0 ∧
    sint32 ((sci_state 0x10 0x00 0xc4 0xc4 [0x42]).rx_end_time 0 - (1 : Nat)) ≤ 0 ∧
    (byte (sci_state 0x10 0x00 0xc4 0xc4 [0x42]).ssr 0 &&&
      reg (sci_state 0x10 0x00 0xc4 0xc4 [0x42]) (0xb0 + 4)) &&& 0x40 ≠ 0 ∧
    sci_poll (sci_state 0x10 0x00 0xc4 0xc4 [0x42]) 1 0 = some 0x42 ∧
    Rx.sci_resolves (Rx.sci_io 0x10 0x41 Rx.mem_none [0x42]) ∧ 0 < Rx.MAX_SCI_CH ∧
    Rx.ld (Rx.sci_io 0x10 0x41 Rx.mem_none [0x42]).mem Rx.scibase_ptr (0 * 8 + 2) &&& 0x10 ≠ 0 ∧
    sint32 (((Rx.sci_io 0x10 0x41 Rx.mem_none [0x42]).sci_state 0).rx_end_time - (1 : Nat))
      ≤ 0 ∧
    Rx.get_rw_flag (Rx.sci_io 0x10 0x41 Rx.mem_none [0x42]).mem (0x00088245 + 0 * 8)
      = Rx.mem_none ∧
    Rx.sci_poll (Rx.sci_io 0x10 0x41 Rx.mem_none [0x42]) 1 0 = some 0x42 ∧
    (∃ st', sci (sci_state 0x10 0x00 0xc4 0xc4 [0x42]) 1 = some st' ∧
      reg st' (0xb0 + 4) &&& 0x20 ≠ 0 ∧
      reg st' (0xb0 + 5) = reg (sci_state 0x10 0x00 0xc4 0xc4 [0x42]) (0xb0 + 5)) ∧
    (∃ io', Rx.sci (Rx.sci_io 0x10 0x41 Rx.mem_none [0x42]) 1 = (.ok (), io') ∧
      Rx.ld io'.mem Rx.scibase_ptr (0 * 8 + 4) &&& 0x20 ≠ 0 ∧
      Rx.ld io'.mem Rx.scibase_ptr (0 * 8 + 5)
        = Rx.ld (Rx.sci_io 0x10 0x41 Rx.mem_none [0x42]).mem Rx.scibase_ptr (0 * 8 + 5)) :=
  ⟨by decide, by decide, by decide, by decide, by decide, by decide, by decide, by decide,
    by decide, by decide, by decide, by decide,
    sci_receive_overrun (sci_state 0x10 0x00 0xc4 0xc4 [0x42]) 1 0 0xb0 0x42
      (Rx.sci_io 0x10 0x41 Rx.mem_none [0x42]) 1 0 0x42
      (by decide) (by decide) (by decide) (by decide) (by decide) (by decide)
      (by decide) (by decide) (by decide) (by decide) (by decide) (by decide)⟩

end H8

namespace Rx

theorem same_log_refl (st : Mem) : same_log st st := ⟨rfl, rfl, rfl, rfl, rfl, rfl⟩

theorem same_log_trans {a b c : Mem} (h1 : same_log a b) (h2 : same_log b c) : same_log a c :=
  ⟨h2.1.trans h1.1, h2.2.1.trans h1.2.1, h2.2.2.1.trans h1.2.2.1, h2.2.2.2.1.trans h1.2.2.2.1,
    h2.2.2.2.2.1.trans h1.2.2.2.2.1, h2.2.2.2.2.2.trans h1.2.2.2.2.2⟩

theorem same_log_of_rest {st s : Mem} (h : same_rest st s) : same_log st s :=
  ⟨h.2.1, h.2.2.2.2.2.1, h.2.2.2.2.2.2.1, h.2.2.2.2.2.2.2.1, h.2.2.2.2.2.2.2.2.1,
    h.2.2.2.2.2.2.2.2.2.2⟩

theorem set_rw_flag_log (st : Mem) (a flag : Nat) : same_log st (set_rw_flag st a flag) := by
  unfold set_rw_flag
  split
  · exact same_log_refl st
  · exact ⟨rfl, rfl, rfl, rfl, rfl, rfl⟩

theorem COUNT_log (st : Mem) (i j : Nat) : same_log st (COUNT st i j) := by
  unfold COUNT
  split
  · exact ⟨rfl, rfl, rfl, rfl, rfl, rfl⟩
  · exact same_log_refl st

theorem mem_put_byte_log (st : Mem) (a v : Nat) : same_log st (mem_put_byte st a v).2 := by
  have h := same_log_of_rest (rx_mem_ptr_same_rest st a .MPA_WRITING)
  rw [mem_put_byte_eq]
  cases outcome st a .MPA_WRITING with
  | error e => exact h
  | ok m =>
    simp only []
    split
    · exact h
    · exact same_log_trans h (same_log_trans (same_log_of_rest (store_byte_same_rest _ _ _ _))
        (set_rw_flag_log _ _ _))

theorem mem_get_byte_log (st : Mem) (a : Nat) : same_log st (mem_get_byte st a).2 := by
  have h := same_log_of_rest (rx_mem_ptr_same_rest st a .MPA_READING)
  rw [mem_get_byte_eq]
  cases outcome st a .MPA_READING with
  | error e => exact h
  | ok m =>
    simp only []
    split
    · exact h
    · exact same_log_trans h (set_rw_flag_log _ _ _)

theorem put_bytes_log (l : List (Nat × Nat)) : ∀ st : Mem, same_log st (put_bytes st l).2 := by
  induction l with
  | nil => intro st; exact same_log_refl st
  | cons p rest ih =>
    intro st
    obtain ⟨a, v⟩ := p
    unfold put_bytes andThen
    have h := mem_put_byte_log st a v
    cases hr : mem_put_byte st a v with
    | mk r s1 =>
      rw [hr] at h
      cases r with
      | error e => exact h
      | ok u => exact same_log_trans h (ih s1)

theorem typed_put_log (st : Mem) (l : List (Nat × Nat)) (n : Nat) :
    same_log st (typed_put st l n).2 := by
  unfold typed_put andThen
  have h := put_bytes_log l st
  cases hr : put_bytes st l with
  | mk r s1 =>
    rw [hr] at h
    cases r with
    | error e => exact h
    | ok u => exact same_log_trans h (COUNT_log _ _ _)

theorem finish_get_logged (w : Nat) (st s : Mem) (h : same_log st s) (n mpc : Nat) (A : Int)
    (t : mem_access_type) (rv : Nat) :
    load_logged w st mpc (ulong w A) t (finish_get w s n mpc A t rv) := by
  intro rv1 h1
  have e : rv1 = rv := by
    have : (Except.ok rv : Except Fault Nat) = .ok rv1 := h1
    injection this with h2
    exact h2.symm
  subst e
  exact ⟨COUNT s 0 n, same_log_trans h (COUNT_log _ _ _), rfl⟩

theorem bind_logged (w : Nat) (st s : Mem) (h : same_log st s) (mpc addr : Nat)
    (t : mem_access_type) (a : Nat) (k : Nat → Mem → Except Fault Nat × Mem)
    (hk : ∀ b s1, same_log st s1 → load_logged w st mpc addr t (k b s1)) :
    load_logged w st mpc addr t (bind (mem_get_byte s a) k) := by
  have h1 := mem_get_byte_log s a
  unfold bind
  cases hr : mem_get_byte s a with
  | mk r s1 =>
    rw [hr] at h1
    cases r with
    | error e => intro rv hrv; cases hrv
    | ok b => exact hk b s1 (same_log_trans h h1)

theorem mem_get_qi_logged (w : Nat) (st : Mem) (A : Int) (mpc : Nat) :
    load_logged w st mpc (ulong w A) .MEM_RB (mem_get_qi w st A mpc) := by
  unfold mem_get_qi
  exact bind_logged w st st (same_log_refl st) _ _ _ _ _
    (fun b s1 h1 => finish_get_logged w st s1 h1 _ _ _ _ _)

theorem mem_get_hi_logged (w : Nat) (st : Mem) (A : Int) (mpc : Nat) :
    load_logged w st mpc (ulong w A) .MEM_RW (mem_get_hi w st A mpc) := by
  unfold mem_get_hi
  split <;>
  exact bind_logged w st st (same_log_refl st) _ _ _ _ _
    (fun b s1 h1 => bind_logged w st s1 h1 _ _ _ _ _
      (fun b s2 h2 => finish_get_logged w st s2 h2 _ _ _ _ _))

theorem mem_get_psi_logged (w : Nat) (st : Mem) (A : Int) (mpc : Nat) :
    load_logged w st mpc (ulong w A) .MEM_RQ (mem_get_psi w st A mpc) := by
  unfold mem_get_psi
  split <;>
  exact bind_logged w st st (same_log_refl st) _ _ _ _ _
    (fun b s1 h1 => bind_logged w st s1 h1 _ _ _ _ _
      (fun b s2 h2 => bind_logged w st s2 h2 _ _ _ _ _
        (fun b s3 h3 => finish_get_logged w st s3 h3 _ _ _ _ _)))

theorem mem_get_si_logged (w : Nat) (st : Mem) (A : Int) (mpc : Nat) :
    load_logged w st mpc (ulong w A) .MEM_RL (mem_get_si w st A mpc) := by
  unfold mem_get_si
  split <;>
  exact bind_logged w st st (same_log_refl st) _ _ _ _ _
    (fun b s1 h1 => bind_logged w st s1 h1 _ _ _ _ _
      (fun b s2 h2 => bind_logged w st s2 h2 _ _ _ _ _
        (fun b s3 h3 => bind_logged w st s3 h3 _ _ _ _ _
          (fun b s4 h4 => finish_get_logged w st s4 h4 _ _ _ _ _))))

theorem ulong_small (w n : Nat) (h : n < 2 ^ w) : ulong w (n : Int) = n := by
  unfold ulong
  have h2 : (n : Int) < (2 : Int) ^ w := by exact_mod_cast h
  rw [Int.emod_eq_of_lt (Int.natCast_nonneg n) h2]
  rfl

theorem add_memlog_log (w : Nat) (s : Mem) (mpc addr : Nat) (t : mem_access_type) (d : Nat)
    (hb : s.memlog_alloc.isSome = true) (hk : log_takes w s) :
    (add_memlog w s mpc addr t d).memlog_buffer
        = upd s.memlog_buffer s.memlogtail (some ⟨mpc, addr, d, t⟩) ∧
      (add_memlog w s mpc addr t d).memlogtail = s.memlogtail + 1 := by
  have ht := ulong_small w (s.memlogtail + 1) hk.1
  unfold add_memlog
  by_cases h : s.memlogsize = s.memlogtail
  · simp only []
    rw [if_pos h]
    simp only [hk.2 h, if_true]
    exact ⟨trivial, ht⟩
  · simp only []
    rw [if_neg h]
    cases ha : s.memlog_alloc with
    | none => rw [ha] at hb; cases hb
    | some x => exact ⟨rfl, ht⟩

/-- The record a typed access appends: the log after the access is the log
before it with one more element. -/
theorem op_run_log (w : Nat) (st : Mem) (op : Op) (store : Bool) (n : Nat) (A : Int)
    (mpc v : Nat) (ht : st.trace = true) (hb : st.memlog_alloc.isSome = true)
    (hk : log_takes w st)
    (ha : op.access = some (store, n, A, mpc)) (hv : op.value w st = some v) :
    ∃ t, memtype_str.getD t.toNat default = opkind store n ∧
      (op.run w st).memlog_buffer
        = upd st.memlog_buffer st.memlogtail (some ⟨mpc, ulong w A, v, t⟩) ∧
      (op.run w st).memlogtail = st.memlogtail + 1 := by
  have put : ∀ (t : mem_access_type) (l : List (Nat × Nat)) (k : Nat),
      (typed_put (traced w st mpc (ulong w A) t v) l k).2.memlog_buffer
          = upd st.memlog_buffer st.memlogtail (some ⟨mpc, ulong w A, v, t⟩) ∧
        (typed_put (traced w st mpc (ulong w A) t v) l k).2.memlogtail = st.memlogtail + 1 := by
    intro t l k
    have h := typed_put_log (traced w st mpc (ulong w A) t v) l k
    have h2 := add_memlog_log w st mpc (ulong w A) t v hb hk
    rw [h.2.2.1, h.2.2.2.2.1]
    unfold traced
    rw [if_pos ht]
    exact h2
  have get : ∀ (t : mem_access_type) (res : Except Fault Nat × Mem),
      load_logged w st mpc (ulong w A) t res → res.1.toOption = some v →
      res.2.memlog_buffer = upd st.memlog_buffer st.memlogtail (some ⟨mpc, ulong w A, v, t⟩) ∧
        res.2.memlogtail = st.memlogtail + 1 := by
    intro t res hl hr
    have hok : res.1 = .ok v := by
      cases h1 : res.1 with
      | error e => rw [h1] at hr; cases hr
      | ok x =>
        rw [h1] at hr
        have : x = v := Option.some.inj hr
        rw [this]
    obtain ⟨s, hs, e⟩ := hl v hok
    rw [e]
    unfold traced
    rw [if_pos (hs.1.trans ht)]
    have h2 := add_memlog_log w s mpc (ulong w A) t v (by rw [hs.2.1]; exact hb)
      (by unfold log_takes; rw [hs.2.2.2.2.1, hs.2.2.2.1, hs.2.2.2.2.2]; exact hk)
    rw [hs.2.2.1, hs.2.2.2.2.1] at h2
    exact h2
  cases op with
  | put_qi A1 v1 mpc1 =>
    simp only [Op.access, Option.some.injEq, Prod.mk.injEq] at ha
    obtain ⟨rfl, rfl, rfl, rfl⟩ := ha
    obtain rfl : v1 &&& 0xff = v := Option.some.inj hv
    refine ⟨.MEM_WB, rfl, ?_⟩
    show (mem_put_qi w st A1 v1 mpc1).2.memlog_buffer = _ ∧
      (mem_put_qi w st A1 v1 mpc1).2.memlogtail = _
    rw [mem_put_qi_eq]
    exact put _ _ _
  | put_hi A1 v1 mpc1 =>
    simp only [Op.access, Option.some.injEq, Prod.mk.injEq] at ha
    obtain ⟨rfl, rfl, rfl, rfl⟩ := ha
    obtain rfl : v1 &&& 0xffff = v := Option.some.inj hv
    refine ⟨.MEM_WW, rfl, ?_⟩
    show (mem_put_hi w st A1 v1 mpc1).2.memlog_buffer = _ ∧
      (mem_put_hi w st A1 v1 mpc1).2.memlogtail = _
    rw [mem_put_hi_eq]
    exact put _ _ _
  | put_psi A1 v1 mpc1 =>
    simp only [Op.access, Option.some.injEq, Prod.mk.injEq] at ha
    obtain ⟨rfl, rfl, rfl, rfl⟩ := ha
    obtain rfl : v1 &&& 0xffffff = v := Option.some.inj hv
    refine ⟨.MEM_WQ, rfl, ?_⟩
    show (mem_put_psi w st A1 v1 mpc1).2.memlog_buffer = _ ∧
      (mem_put_psi w st A1 v1 mpc1).2.memlogtail = _
    rw [mem_put_psi_eq]
    exact put _ _ _
  | put_si A1 v1 mpc1 =>
    simp only [Op.access, Option.some.injEq, Prod.mk.injEq] at ha
    obtain ⟨rfl, rfl, rfl, rfl⟩ := ha
    obtain rfl : v1 &&& 0xffffffff = v := Option.some.inj hv
    refine ⟨.MEM_WL, rfl, ?_⟩
    show (mem_put_si w st A1 v1 mpc1).2.memlog_buffer = _ ∧
      (mem_put_si w st A1 v1 mpc1).2.memlogtail = _
    rw [mem_put_si_eq]
    exact put _ _ _
  | get_qi A1 mpc1 =>
    simp only [Op.access, Option.some.injEq, Prod.mk.injEq] at ha
    obtain ⟨rfl, rfl, rfl, rfl⟩ := ha
    exact ⟨.MEM_RB, rfl, get _ _ (mem_get_qi_logged w st A1 mpc1) hv⟩
  | get_hi A1 mpc1 =>
    simp only [Op.access, Option.some.injEq, Prod.mk.injEq] at ha
    obtain ⟨rfl, rfl, rfl, rfl⟩ := ha
    exact ⟨.MEM_RW, rfl, get _ _ (mem_get_hi_logged w st A1 mpc1) hv⟩
  | get_psi A1 mpc1 =>
    simp only [Op.access, Option.some.injEq, Prod.mk.injEq] at ha
    obtain ⟨rfl, rfl, rfl, rfl⟩ := ha
    exact ⟨.MEM_RQ, rfl, get _ _ (mem_get_psi_logged w st A1 mpc1) hv⟩
  | get_si A1 mpc1 =>
    simp only [Op.access, Option.some.injEq, Prod.mk.injEq] at ha
    obtain ⟨rfl, rfl, rfl, rfl⟩ := ha
    exact ⟨.MEM_RL, rfl, get _ _ (mem_get_si_logged w st A1 mpc1) hv⟩
  | get_pc _ => cases ha
  | set_content_type _ _ => cases ha
  | get_content_type _ => cases ha
  | decode_cache _ => cases ha
  | mem_ptr _ _ => cases ha
  | put_blk _ _ => cases ha
  | get_blk _ _ => cases ha
  | poll _ => cases ha

theorem save_for_congr (st s : Mem) (n : Nat) : ∀ idx : Nat,
    (∀ i, idx ≤ i → i < idx + n → s.memlog_buffer i = st.memlog_buffer i) →
    save_memlog_for s n idx = save_memlog_for st n idx := by
  induction n with
  | zero => intro idx _; rfl
  | succ n ih =>
    intro idx h
    unfold save_memlog_for
    rw [h idx (le_refl _) (by omega), ih (idx + 1) (fun i h1 h2 => h i (by omega) (by omega))]

theorem save_for_some (st : Mem) (n : Nat) : ∀ idx : Nat,
    (∀ i, idx ≤ i → i < idx + n → (st.memlog_buffer i).isSome = true) →
    ∃ ls, save_memlog_for st n idx = some ls := by
  induction n with
  | zero => intro idx _; exact ⟨[], rfl⟩
  | succ n ih =>
    intro idx h
    obtain ⟨ls, e⟩ := ih (idx + 1) (fun i h1 h2 => h i (by omega) (by omega))
    have h0 := h idx (le_refl _) (by omega)
    unfold save_memlog_for
    cases hb : st.memlog_buffer idx with
    | none => rw [hb] at h0; cases h0
    | some r => exact ⟨memlog_line r :: ls, by simp only [e, Option.map_some']⟩

theorem save_for_succ (st : Mem) (n : Nat) : ∀ idx : Nat,
    save_memlog_for st (n + 1) idx
      = (save_memlog_for st n idx).bind
          (fun ls => (st.memlog_buffer (idx + n)).map (fun r => ls ++ [memlog_line r])) := by
  induction n with
  | zero =>
    intro idx
    unfold save_memlog_for save_memlog_for
    rw [Nat.add_zero]
    cases st.memlog_buffer idx <;> rfl
  | succ n ih =>
    intro idx
    rw [save_memlog_for, ih (idx + 1)]
    conv_rhs => rw [save_memlog_for]
    have e : idx + 1 + n = idx + (n + 1) := by omega
    rw [e]
    cases st.memlog_buffer idx with
    | none => rfl
    | some r =>
      simp only []
      cases save_memlog_for st n (idx + 1) with
      | none => rfl
      | some ls =>
        cases st.memlog_buffer (idx + (n + 1)) <;> rfl

theorem ulong_pred (w n : Nat) (h : n < 2 ^ w) : ulong w (((n + 1 : Nat) : Int) - 1) = n := by
  unfold ulong
  have e : ((n + 1 : Nat) : Int) - 1 = (n : Int) := by push_cast; omega
  rw [e]
  have h2 : (n : Int) < (2 : Int) ^ w := by exact_mod_cast h
  rw [Int.emod_eq_of_lt (Int.natCast_nonneg n) h2]
  rfl

/-- C24, amended: with tracing on, every typed load that returns a value and
every typed store appends one record to the access-trace log, when the log
takes it (`memlog_buffer` is not null and, if the log is full, the host returns
the larger block `add_memlog` asks for), and the record is rendered, by
`save_memlog` as the last line of the file and by
`show_memlog` (where `unsigned long` has 32 bits) as the last line shown, as
`0x<pc> 0x<address> <KIND> <value>` with the three numbers in hexadecimal
padded to 8 digits and KIND drawn from RL, RP, RW, RB, WL, WP, WW, WB: RL/WL
for a 32-bit, RP/WP for a 24-bit, RW/WW for a 16-bit and RB/WB for an 8-bit
load/store, after the typed load or store that produced the record. -/
theorem memlog_record_rendered (w : Nat) (st : Mem) (op : Op) (store : Bool) (n : Nat) (A : Int)
    (mpc v : Nat) (ht : st.trace = true) (hb : st.memlog_alloc.isSome = true)
    (hl : log_written st) (hw : st.memlogtail < 2 ^ w) (hk : log_takes w st)
    (ha : op.access = some (store, n, A, mpc)) (hv : op.value w st = some v) :
    opkind store n ∈ ["RL", "RP", "RW", "RB", "WL", "WP", "WW", "WB"] ∧
    ∃ ls, save_memlog st true = some ([], ls) ∧
      save_memlog (op.run w st) true
        = some ([], ls ++ [record_text mpc (ulong w A) (opkind store n) v]) ∧
      (w = 32 → show_memlog w (op.run w st) 1
        = some [record_text mpc (ulong w A) (opkind store n) v, "\n"]) := by
  obtain ⟨t, hk, hbuf, htail⟩ := op_run_log w st op store n A mpc v ht hb hk ha hv
  have hline : memlog_line ⟨mpc, ulong w A, v, t⟩
      = record_text mpc (ulong w A) (opkind store n) v := by
    unfold memlog_line record_text
    rw [hk]
  obtain ⟨ls, els⟩ := save_for_some st st.memlogtail 0 (fun i _ h2 => hl i (by omega))
  have hat : (op.run w st).memlog_buffer st.memlogtail = some ⟨mpc, ulong w A, v, t⟩ := by
    rw [hbuf]
    unfold upd
    rw [if_pos rfl]
  refine ⟨?_, ls, ?_, ?_, ?_⟩
  · rw [← hk]
    cases t <;> decide
  · unfold save_memlog
    rw [if_pos rfl, els]
    rfl
  · unfold save_memlog
    rw [if_pos rfl, htail, save_for_succ, save_for_congr st (op.run w st) st.memlogtail 0
      (fun i _ h2 => by rw [hbuf]; unfold upd; rw [if_neg (by omega)]), els]
    simp only [Option.some_bind, Nat.zero_add, hat, Option.map_some', hline]
  · intro h32
    unfold show_memlog
    rw [if_neg (fun h => h.1 h32), htail, ulong_pred w _ hw]
    show show_memlog_for w (op.run w st) 1 st.memlogtail = _
    unfold show_memlog_for show_memlog_for
    rw [hat]
    simp only [Option.map_some', hline]

set_option maxRecDepth 100000 in
theorem memlog_record_rendered_witness :
    (tracing_state 32).trace = true ∧ (tracing_state 32).memlog_alloc.isSome = true ∧
    log_takes 32 (tracing_state 32) ∧
    (Op.put_psi 0x2000 0x12abcdef 0x1000).access = some (true, 3, 0x2000, 0x1000) ∧
    (Op.put_psi 0x2000 0x12abcdef 0x1000).value 32 (tracing_state 32) = some 0xabcdef ∧
    record_text 0x1000 (ulong 32 0x2000) (opkind true 3) 0xabcdef
      = "0x00001000 0x00002000 WP 00abcdef\n" ∧
    (opkind true 3 ∈ ["RL", "RP", "RW", "RB", "WL", "WP", "WW", "WB"] ∧
    ∃ ls, save_memlog (tracing_state 32) true = some ([], ls) ∧
      save_memlog ((Op.put_psi 0x2000 0x12abcdef 0x1000).run 32 (tracing_state 32)) true
        = some ([], ls ++ [record_text 0x1000 (ulong 32 0x2000) (opkind true 3) 0xabcdef]) ∧
      (32 = 32 → show_memlog 32 ((Op.put_psi 0x2000 0x12abcdef 0x1000).run 32 (tracing_state 32)) 1
        = some [record_text 0x1000 (ulong 32 0x2000) (opkind true 3) 0xabcdef, "\n"])) :=
  ⟨rfl, rfl, ⟨by decide, fun h => absurd h (by decide)⟩, rfl, by decide, by decide,
    memlog_record_rendered 32 (tracing_state 32) (Op.put_psi 0x2000 0x12abcdef 0x1000) true 3
      0x2000 0x1000 0xabcdef rfl rfl (fun i hi => absurd hi (Nat.not_lt_zero i)) (by decide)
      ⟨by decide, fun h => absurd h (by decide)⟩ rfl (by decide)⟩

set_option maxRecDepth 100000 in
/-- C24, as stated, fails: with tracing on, a 24-bit store of 0x12abcdef to
0x2000 at program counter 0x1000 is written by `save_memlog` and shown by
`show_memlog` as `0x00001000 0x00002000 WP 00abcdef`, and a 24-bit load of it
as `0x00001004 0x00002000 RP 00abcdef`: the kinds are `WP` and `RP`, which are
not among RL, RQ, RW, RB, WL, WQ, WW, WB. -/
theorem memlog_kind_outside_the_set :
    save_memlog (run_ops 32 (tracing_state 32)
        [.put_psi 0x2000 0x12abcdef 0x1000, .get_psi 0x2000 0x1004]) true
      = some ([], ["0x00001000 0x00002000 WP 00abcdef\n", "0x00001004 0x00002000 RP 00abcdef\n"]) ∧
    show_memlog 32 (run_ops 32 (tracing_state 32)
        [.put_psi 0x2000 0x12abcdef 0x1000, .get_psi 0x2000 0x1004]) 2
      = some ["0x00001000 0x00002000 WP 00abcdef\n", "0x00001004 0x00002000 RP 00abcdef\n", "\n"] ∧
    "WP" ∉ ["RL", "RQ", "RW", "RB", "WL", "WQ", "WW", "WB"] ∧
    "RP" ∉ ["RL", "RQ", "RW", "RB", "WL", "WQ", "WW", "WB"] := by
  decide

end Rx

namespace H8

open Rx (uchar ushort uint32 sint32)

/-! ## The prescalers of `timer8` -/

theorem timer8_count16_prescale (st : Sim) (tm b b1 : Nat) :
    (timer8_count16 st tm b b1).1.prescale = st.prescale := by
  unfold timer8_count16
  simp only
  split_ifs <;> rfl

theorem timer8_match16_prescale (st : Sim) (tm b b1 k bit clr cnt : Nat) :
    (timer8_match16 st tm b b1 k bit clr cnt).1.prescale = st.prescale := by
  unfold timer8_match16
  simp only
  split_ifs <;> rfl

theorem timer8_16bit_prescale (s : Sim) (tm b b1 : Nat) (s' : Sim) (c' : Option Nat)
    (h : timer8_16bit s tm b b1 = some (s', c')) : s'.prescale = s.prescale := by
  unfold timer8_16bit at h
  simp only [] at h
  have g2 := timer8_count16_prescale
    (set_tcsr s (tm + 1) (byte s.tcsr (tm + 1) &&& (reg s (b1 + 2) &&& 0xf0))) tm b b1
  generalize timer8_count16
    (set_tcsr s (tm + 1) (byte s.tcsr (tm + 1) &&& (reg s (b1 + 2) &&& 0xf0))) tm b b1 = p2
    at h g2
  obtain ⟨s2, c2⟩ := p2
  simp only at h g2
  cases hi : timer8_reg (set_reg s2 (b + 8) (c2 >>> 8)) ((tm : Int) - 1) 8 with
  | none => rw [hi] at h; simp at h
  | some a =>
    rw [hi] at h
    simp only at h
    have g4 : (set_reg (set_reg s2 (b + 8) (c2 >>> 8)) a (c2 &&& 0xff)).prescale = s.prescale := g2
    generalize set_reg (set_reg s2 (b + 8) (c2 >>> 8)) a (c2 &&& 0xff) = s4 at h g4
    have g5 := (timer8_match16_prescale s4 tm b b1 4 0x40 0x08 c2).trans g4
    generalize timer8_match16 s4 tm b b1 4 0x40 0x08 c2 = p5 at h g5
    obtain ⟨s5, c5⟩ := p5
    simp only at h g5
    have g6 := (timer8_match16_prescale s5 tm b b1 6 0x80 0x10 c5).trans g5
    generalize timer8_match16 s5 tm b b1 6 0x80 0x10 c5 = p6 at h g6
    obtain ⟨s6, c6⟩ := p6
    simp only at h g6
    rw [← (Prod.mk.inj (Option.some.inj h)).1]
    exact g6

theorem timer8_8bit_prescale (s : Sim) (pcnt tm b : Nat) (cnt : Option Nat) (s' : Sim)
    (c' : Option Nat) (h : timer8_8bit s pcnt tm b cnt = some (s', c')) :
    s'.prescale = s.prescale := by
  rw [timer8_8bit_eq] at h
  split_ifs at h
  · rw [← (Prod.mk.inj (Option.some.inj h)).1]
    exact (timer8_match8_obs _ tm b _).2.2.2.2.2
  · cases cnt with
    | none => simp at h
    | some c =>
      simp only [Option.map_some'] at h
      rw [← (Prod.mk.inj (Option.some.inj h)).1]
      exact (timer8_match8_obs _ tm b _).2.2.2.2.2

theorem timer8_channel_prescale (s : Sim) (pcnt tm : Nat) (cnt : Option Nat) (s' : Sim)
    (c' : Option Nat) (h : timer8_channel s pcnt tm cnt = some (s', c')) :
    s'.prescale = s.prescale := by
  unfold timer8_channel at h
  cases hb : index s.timer8_base tm with
  | none => rw [hb] at h; simp at h
  | some b =>
    rw [hb] at h
    simp only at h
    by_cases h0 : reg s b &&& 0x07 = 0
    · rw [if_pos h0] at h
      rw [← (Prod.mk.inj (Option.some.inj h)).1]
    · rw [if_neg h0] at h
      cases hb2 : index (set_tcsr s tm (byte s.tcsr tm &&& (reg s (b + 2) &&& 0xf0))).timer8_base
          ((tm &&& 2 : Nat) : Int) with
      | none => rw [hb2] at h; simp at h
      | some b2 =>
        rw [hb2] at h
        simp only at h
        by_cases h16 : reg (set_tcsr s tm (byte s.tcsr tm &&& (reg s (b + 2) &&& 0xf0))) b2
            &&& 0x7 = 0x04
        · rw [if_pos h16] at h
          by_cases hodd : tm &&& 1 ≠ 0
          · rw [if_pos hodd] at h
            rw [← (Prod.mk.inj (Option.some.inj h)).1]; rfl
          · rw [if_neg hodd] at h
            cases hb1 : index (set_tcsr s tm
                (byte s.tcsr tm &&& (reg s (b + 2) &&& 0xf0))).timer8_base ((tm : Int) + 1) with
            | none => rw [hb1] at h; simp at h
            | some b1 =>
              rw [hb1] at h
              simp only at h
              exact timer8_16bit_prescale
                (set_tcsr s tm (byte s.tcsr tm &&& (reg s (b + 2) &&& 0xf0))) tm b b1 s' c' h
        · rw [if_neg h16] at h
          exact timer8_8bit_prescale
            (set_tcsr s tm (byte s.tcsr tm &&& (reg s (b + 2) &&& 0xf0))) pcnt tm b cnt s' c' h

theorem timer8_for_prescale (pcnt : Nat) (l : List Nat) :
    ∀ (tm : Nat) (s : Sim) (cnt : Option Nat) (s' : Sim) (c' : Option Nat),
      timer8_for pcnt l tm s cnt = some (s', c') → s'.prescale = s.prescale := by
  induction l with
  | nil => intro tm s cnt s' c' h; simp [timer8_for] at h
  | cons b rest ih =>
    intro tm s cnt s' c' h
    unfold timer8_for at h
    split_ifs at h with hb
    · rw [← (Prod.mk.inj (Option.some.inj h)).1]
    · cases hc : timer8_channel s pcnt tm cnt with
      | none => rw [hc] at h; simp at h
      | some r =>
        rw [hc] at h
        simp only [Option.some_bind] at h
        exact (ih _ _ _ _ _ h).trans (timer8_channel_prescale s pcnt tm cnt r.1 r.2 hc)

theorem prescale_set_prescale (st : Sim) (p : Nat) (v : Int) (q : Nat) :
    (set_prescale st p v).prescale q = if q = p then v else st.prescale q := rfl

/-- One turn of the outer loop of `timer8`, with the arithmetic of the
integers: when something positive is left the turn only stores it; otherwise it
runs the inner loop once and adds the period back. -/
theorem timer8_prescaler_eq (st : Sim) (d pcnt : Nat) (cnt : Option Nat) (hp : pcnt < 3)
    (hlo : -2147483648 ≤ st.prescale pcnt - d) (hhi : st.prescale pcnt - d < 2147483648) :
    timer8_prescaler d pcnt st cnt =
      if 0 < st.prescale pcnt - d then
        some (set_prescale st pcnt (st.prescale pcnt - d), cnt)
      else
        (timer8_for pcnt st.timer8_base 0 (set_prescale st pcnt (st.prescale pcnt - d)) cnt).map
          (fun r => (set_prescale r.1 pcnt (st.prescale pcnt - d + prescale_div.getD pcnt 0),
            r.2)) := by
  have hP : 0 < prescale_div.getD pcnt 0 ∧ prescale_div.getD pcnt 0 ≤ 8192 := by
    interval_cases pcnt <;> decide
  unfold timer8_prescaler
  simp only [sint32_range _ hlo hhi, prescale_set_prescale, ↓reduceIte]
  by_cases h0 : 0 < st.prescale pcnt - d
  · rw [if_pos h0, if_neg (by omega)]
  · rw [if_neg h0, if_pos (by omega)]
    show (timer8_for pcnt st.timer8_base 0 (set_prescale st pcnt (st.prescale pcnt - d)) cnt).map _
      = _
    cases hf : timer8_for pcnt st.timer8_base 0
        (set_prescale st pcnt (st.prescale pcnt - d)) cnt with
    | none => rfl
    | some r =>
      have hr := timer8_for_prescale pcnt _ 0 _ cnt r.1 r.2 hf
      simp only [Option.map_some']
      rw [hr, prescale_set_prescale, if_pos rfl, sint32_range _ (by omega) (by omega)]

/-- What one turn of the outer loop of `timer8` leaves of the prescalers. -/
theorem timer8_prescaler_prescale (st : Sim) (d pcnt : Nat) (cnt : Option Nat) (s' : Sim)
    (c' : Option Nat) (h : timer8_prescaler d pcnt st cnt = some (s', c')) :
    (∀ q, q ≠ pcnt → s'.prescale q = st.prescale q) ∧
      (pcnt < 3 → -2147483648 ≤ st.prescale pcnt - d → st.prescale pcnt - d < 2147483648 →
        s'.prescale pcnt = carry (st.prescale pcnt) d (prescale_div.getD pcnt 0)) := by
  constructor
  · intro q hq
    unfold timer8_prescaler at h
    simp only at h
    split_ifs at h
    · cases hf : timer8_for pcnt (set_prescale st pcnt (sint32 (st.prescale pcnt - d))).timer8_base
          0 (set_prescale st pcnt (sint32 (st.prescale pcnt - d))) cnt with
      | none => rw [hf] at h; simp at h
      | some r =>
        rw [hf] at h
        simp only [Option.map_some'] at h
        have hr := timer8_for_prescale pcnt _ 0 _ cnt r.1 r.2 hf
        rw [← (Prod.mk.inj (Option.some.inj h)).1, prescale_set_prescale, if_neg hq, hr,
          prescale_set_prescale, if_neg hq]
    · rw [← (Prod.mk.inj (Option.some.inj h)).1, prescale_set_prescale, if_neg hq]
  · intro hp hlo hhi
    rw [timer8_prescaler_eq st d pcnt cnt hp hlo hhi] at h
    unfold carry
    by_cases h0 : 0 < st.prescale pcnt - d
    · rw [if_pos h0] at h ⊢
      rw [← (Prod.mk.inj (Option.some.inj h)).1, prescale_set_prescale, if_pos rfl]
    · rw [if_neg h0] at h ⊢
      cases hf : timer8_for pcnt st.timer8_base 0
          (set_prescale st pcnt (st.prescale pcnt - d)) cnt with
      | none => rw [hf] at h; simp at h
      | some r =>
        rw [hf] at h
        simp only [Option.map_some'] at h
        rw [← (Prod.mk.inj (Option.some.inj h)).1, prescale_set_prescale, if_pos rfl]

/-- What a call of `timer8` leaves of prescaler `pcnt`. -/
theorem timer8_prescale (st : Sim) (d pcnt : Nat) (st' : Sim) (h : timer8 st d = some st')
    (hp : pcnt < 3) (hlo : -2147483648 ≤ st.prescale pcnt - d)
    (hhi : st.prescale pcnt - d < 2147483648) :
    st'.prescale pcnt = carry (st.prescale pcnt) d (prescale_div.getD pcnt 0) := by
  unfold timer8 at h
  simp only [Option.some_bind] at h
  cases h0 : timer8_prescaler d 0 st none with
  | none => rw [h0] at h; simp at h
  | some r0 =>
    rw [h0] at h
    simp only [Option.some_bind] at h
    cases h1 : timer8_prescaler d 1 r0.1 r0.2 with
    | none => rw [h1] at h; simp at h
    | some r1 =>
      rw [h1] at h
      simp only [Option.some_bind] at h
      cases h2 : timer8_prescaler d 2 r1.1 r1.2 with
      | none => rw [h2] at h; simp at h
      | some r2 =>
        rw [h2] at h
        simp only [Option.map_some'] at h
        obtain rfl := Option.some.inj h
        obtain ⟨a0, b0⟩ := timer8_prescaler_prescale st d 0 none r0.1 r0.2 h0
        obtain ⟨a1, b1⟩ := timer8_prescaler_prescale r0.1 d 1 r0.2 r1.1 r1.2 h1
        obtain ⟨a2, b2⟩ := timer8_prescaler_prescale r1.1 d 2 r1.2 r2.1 r2.2 h2
        interval_cases pcnt
        · rw [a2 0 (by decide), a1 0 (by decide)]
          exact b0 (by decide) hlo hhi
        · rw [a2 1 (by decide)]
          have e : r0.1.prescale 1 = st.prescale 1 := a0 1 (by decide)
          rw [← e] at hlo hhi ⊢
          exact b1 (by decide) hlo hhi
        · have e : r1.1.prescale 2 = st.prescale 2 := (a1 2 (by decide)).trans (a0 2 (by decide))
          rw [← e] at hlo hhi ⊢
          exact b2 (by decide) hlo hhi

theorem prescale_div_cases (pcnt : Nat) (hp : pcnt < 3) :
    ∃ P : Nat, prescale_div.getD pcnt 0 = (P : Int) ∧ 0 < P ∧ P ≤ 8192 := by
  interval_cases pcnt
  · exact ⟨8, rfl, by decide, by decide⟩
  · exact ⟨64, rfl, by decide, by decide⟩
  · exact ⟨8192, rfl, by decide, by decide⟩

/-- The calls of `timer8` from a state in which prescaler `pcnt`, of period
`P`, has `r` cycles left, each call with at most `P` cycles: the number of
expiries and the cycles left at the end. -/
theorem expiries_from (pcnt P : Nat) (hp : pcnt < 3) (hP : prescale_div.getD pcnt 0 = (P : Int))
    (hP0 : 0 < P) (hP1 : P ≤ 8192) (ds : List Nat) :
    ∀ (st : Sim) (r : Nat), st.prescale pcnt = (r : Int) → 1 ≤ r → r ≤ P → (∀ d ∈ ds, d ≤ P) →
      expiries pcnt ds st = (timer8_calls ds st).map (fun _ => (P - r + ds.sum) / P) ∧
      ∀ st', timer8_calls ds st = some st' →
        st'.prescale pcnt = ((P - (P - r + ds.sum) % P : Nat) : Int) := by
  induction ds with
  | nil =>
    intro st r hr h1 h2 _
    refine ⟨?_, ?_⟩
    · show some 0 = some ((P - r + 0) / P)
      rw [Nat.add_zero, Nat.div_eq_of_lt (by omega)]
    · intro st' h
      obtain rfl := Option.some.inj h
      rw [hr, List.sum_nil, Nat.add_zero, Nat.mod_eq_of_lt (by omega)]
      congr 1
      omega
  | cons d ds ih =>
    intro st r hr h1 h2 hd
    have hdP : d ≤ P := hd d (List.mem_cons_self _ _)
    have hds : ∀ x ∈ ds, x ≤ P := fun x hx => hd x (List.mem_cons_of_mem _ hx)
    unfold expiries timer8_calls
    cases ht : timer8 st d with
    | none => exact ⟨rfl, fun st' h => by simp at h⟩
    | some s1 =>
      simp only [Option.some_bind, List.sum_cons]
      have hc := timer8_prescale st d pcnt s1 ht hp (by rw [hr]; omega) (by rw [hr]; omega)
      rw [hr, hP] at hc
      unfold carry at hc
      have hs : sint32 ((r : Int) - (d : Int)) = (r : Int) - d :=
        sint32_range _ (by omega) (by omega)
      rw [hr, hs]
      by_cases hlt : d < r
      · rw [if_pos (by omega)] at hc
        have hc' : s1.prescale pcnt = ((r - d : Nat) : Int) := by rw [hc]; omega
        obtain ⟨i1, i2⟩ := ih s1 (r - d) hc' (by omega) (by omega) hds
        have e : P - (r - d) + ds.sum = P - r + (d + ds.sum) := by omega
        rw [i1, if_neg (by omega), Option.map_map]
        refine ⟨?_, fun st' h => ?_⟩
        · congr 1
          funext _
          simp only [Function.comp, Nat.add_zero, e]
        · rw [i2 st' h, e]
      · rw [if_neg (by omega)] at hc
        have hc' : s1.prescale pcnt = ((r + P - d : Nat) : Int) := by rw [hc]; omega
        obtain ⟨i1, i2⟩ := ih s1 (r + P - d) hc' (by omega) (by omega) hds
        have e : P - r + (d + ds.sum) = P - (r + P - d) + ds.sum + P := by omega
        rw [i1, if_pos (by omega), Option.map_map]
        refine ⟨?_, fun st' h => ?_⟩
        · congr 1
          funext _
          simp only [Function.comp, e, Nat.add_div_right _ hP0]
        · rw [i2 st' h, e, Nat.add_mod_right]

/-- C25, amended: for every call `timer8 (c)` and each of its three prescalers
with the remaining count `r` before the call, when `r - c` is not below -2^31,
the least `int`: the turn of the prescaler only stores `r - c` when `r - c > 0`,
no channel being ticked; otherwise it runs the loop over the channels exactly
once and then adds the period, the remainder being kept.  So the remaining
count after a call is `r - c` when `r - c > 0` and `r - c + period` otherwise;
and a call in which something positive is left of all three prescalers changes
nothing but the three counts. -/
theorem timer8_prescaler_carry (st : Sim) (d pcnt : Nat) (hp : pcnt < 3)
    (hlo : -2 ^ 31 ≤ st.prescale pcnt - d) (hhi : st.prescale pcnt < 2 ^ 31) :
    (∀ cnt, 0 < st.prescale pcnt - d →
      timer8_prescaler d pcnt st cnt = some (set_prescale st pcnt (st.prescale pcnt - d), cnt)) ∧
    (∀ cnt, st.prescale pcnt - d ≤ 0 →
      timer8_prescaler d pcnt st cnt =
        (timer8_for pcnt st.timer8_base 0 (set_prescale st pcnt (st.prescale pcnt - d)) cnt).map
          (fun r => (set_prescale r.1 pcnt (st.prescale pcnt - d + prescale_div.getD pcnt 0),
            r.2))) ∧
    (∀ st', timer8 st d = some st' →
      st'.prescale pcnt = carry (st.prescale pcnt) d (prescale_div.getD pcnt 0)) ∧
    ((∀ q, q < 3 → 0 < st.prescale q - d ∧ st.prescale q < 2 ^ 31) →
      timer8 st d = some (set_prescale (set_prescale (set_prescale st 0 (st.prescale 0 - d)) 1
        (st.prescale 1 - d)) 2 (st.prescale 2 - d))) := by
  have h2 : (2 : Int) ^ 31 = 2147483648 := by norm_num
  rw [h2] at hlo hhi
  have hd0 : (0 : Int) ≤ (d : Int) := Int.ofNat_nonneg d
  have e := fun cnt => timer8_prescaler_eq st d pcnt cnt hp hlo (by omega)
  refine ⟨fun cnt h0 => ?_, fun cnt h0 => ?_, fun st' h => ?_, fun hall => ?_⟩
  · rw [e cnt, if_pos h0]
  · rw [e cnt, if_neg (by omega)]
  · exact timer8_prescale st d pcnt st' h hp hlo (by omega)
  · rw [h2] at hall
    obtain ⟨a0, b0⟩ := hall 0 (by decide)
    obtain ⟨a1, b1⟩ := hall 1 (by decide)
    obtain ⟨a2, b2⟩ := hall 2 (by decide)
    unfold timer8
    simp only [Option.some_bind]
    rw [timer8_prescaler_eq st d 0 none (by decide) (by omega) (by omega), if_pos a0]
    simp only [Option.some_bind]
    rw [timer8_prescaler_eq _ d 1 none (by decide)
      (by rw [prescale_set_prescale, if_neg (by decide)]; omega)
      (by rw [prescale_set_prescale, if_neg (by decide)]; omega)]
    rw [if_pos (by rw [prescale_set_prescale, if_neg (by decide)]; exact a1)]
    simp only [Option.some_bind]
    rw [timer8_prescaler_eq _ d 2 none (by decide)
      (by rw [prescale_set_prescale, if_neg (by decide), prescale_set_prescale,
        if_neg (by decide)]; omega)
      (by rw [prescale_set_prescale, if_neg (by decide), prescale_set_prescale,
        if_neg (by decide)]; omega)]
    rw [if_pos (by rw [prescale_set_prescale, if_neg (by decide), prescale_set_prescale,
        if_neg (by decide)]; exact a2)]
    rfl

set_option maxRecDepth 100000 in
theorem timer8_prescaler_carry_witness :
    (0 : Nat) < 3 ∧
    -2 ^ 31 ≤ (timer_state 0x01 0x00 0xff 0xff 5).prescale 0 - (8 : Nat) ∧
    (timer_state 0x01 0x00 0xff 0xff 5).prescale 0 < 2 ^ 31 ∧
    ((∀ cnt, 0 < (timer_state 0x01 0x00 0xff 0xff 5).prescale 0 - (8 : Nat) →
      timer8_prescaler 8 0 (timer_state 0x01 0x00 0xff 0xff 5) cnt
        = some (set_prescale (timer_state 0x01 0x00 0xff 0xff 5) 0
            ((timer_state 0x01 0x00 0xff 0xff 5).prescale 0 - (8 : Nat)), cnt)) ∧
    (∀ cnt, (timer_state 0x01 0x00 0xff 0xff 5).prescale 0 - (8 : Nat) ≤ 0 →
      timer8_prescaler 8 0 (timer_state 0x01 0x00 0xff 0xff 5) cnt =
        (timer8_for 0 (timer_state 0x01 0x00 0xff 0xff 5).timer8_base 0
          (set_prescale (timer_state 0x01 0x00 0xff 0xff 5) 0
            ((timer_state 0x01 0x00 0xff 0xff 5).prescale 0 - (8 : Nat))) cnt).map
          (fun r => (set_prescale r.1 0
            ((timer_state 0x01 0x00 0xff 0xff 5).prescale 0 - (8 : Nat)
              + prescale_div.getD 0 0), r.2))) ∧
    (∀ st', timer8 (timer_state 0x01 0x00 0xff 0xff 5) 8 = some st' →
      st'.prescale 0 = carry ((timer_state 0x01 0x00 0xff 0xff 5).prescale 0) 8
        (prescale_div.getD 0 0)) ∧
    ((∀ q, q < 3 → 0 < (timer_state 0x01 0x00 0xff 0xff 5).prescale q - (8 : Nat) ∧
        (timer_state 0x01 0x00 0xff 0xff 5).prescale q < 2 ^ 31) →
      timer8 (timer_state 0x01 0x00 0xff 0xff 5) 8
        = some (set_prescale (set_prescale (set_prescale (timer_state 0x01 0x00 0xff 0xff 5) 0
          ((timer_state 0x01 0x00 0xff 0xff 5).prescale 0 - (8 : Nat))) 1
          ((timer_state 0x01 0x00 0xff 0xff 5).prescale 1 - (8 : Nat))) 2
          ((timer_state 0x01 0x00 0xff 0xff 5).prescale 2 - (8 : Nat))))) ∧
    (timer_state 0x01 0x00 0xff 0xff 5).prescale 0 - (8 : Nat) ≤ 0 ∧
    (timer8 (timer_state 0x01 0x00 0xff 0xff 5) 8).map
      (fun s => (s.prescale 0, s.prescale 1, s.prescale 2, reg s 0x88)) = some (8, 56, 8184, 6) ∧
    (timer8 (timer_state 0x01 0x00 0xff 0xff 5) 3).map
      (fun s => (s.prescale 0, s.prescale 1, s.prescale 2, reg s 0x88)) = some (5, 61, 8189, 5) :=
  ⟨by decide, by decide, by decide,
    timer8_prescaler_carry (timer_state 0x01 0x00 0xff 0xff 5) 8 0 (by decide) (by decide)
      (by decide),
    by decide, by decide, by decide⟩

set_option maxRecDepth 100000 in
/-- C25, as stated, fails for a large `cycles_diff`: on an H8/300H after
power-on whose timer channel 0 counts on the first prescaler, the call `timer8`
with `cycles_diff = 0x80002001` leaves 2147475463 in that prescaler, not
`r - c + 8`, and the counter of the channel where it was, although `r - c` is
not positive: the difference wraps around to a positive `int`. -/
theorem timer8_prescaler_wraps :
    (timer_state 0x01 0x00 0xff 0xff 5).prescale 0 = 8 ∧
    runs8 (timer_state 0x01 0x00 0xff 0xff 5) 0 0 0x80 0x80 ∧
    reg (timer_state 0x01 0x00 0xff 0xff 5) 0x88 = 5 ∧
    ¬ (0 < (8 : Int) - (0x80002001 : Nat)) ∧
    carry 8 0x80002001 8 = -2147491825 ∧
    (timer8 (timer_state 0x01 0x00 0xff 0xff 5) 0x80002001).map
      (fun s => (s.prescale 0, reg s 0x88)) = some (2147475463, 5) := by
  decide

/-- C26: carry-over is exact.  For every sequence of `timer8` calls from a
state in which a prescaler holds its period `P`, as at power-on, each call with
`cycles_diff` at most `P`: the number of calls in which the prescaler expires
is the sum of the `cycles_diff` divided by `P`, rounded down, and the remaining
count after the calls is in 1..P, the period less the remainder of that
division. -/
theorem timer8_carry_exact (st : Sim) (pcnt P : Nat) (ds : List Nat) (hp : pcnt < 3)
    (hP : prescale_div.getD pcnt 0 = (P : Int)) (h0 : st.prescale pcnt = (P : Int))
    (hd : ∀ d ∈ ds, d ≤ P) :
    expiries pcnt ds st = (timer8_calls ds st).map (fun _ => ds.sum / P) ∧
    ∀ st', timer8_calls ds st = some st' →
      1 ≤ st'.prescale pcnt ∧ st'.prescale pcnt ≤ P ∧
        st'.prescale pcnt = (P : Int) - ((ds.sum % P : Nat) : Int) := by
  obtain ⟨P', e, hP0, hP1⟩ := prescale_div_cases pcnt hp
  have hPP : P' = P := by rw [hP] at e; exact_mod_cast e.symm
  subst hPP
  obtain ⟨i1, i2⟩ := expiries_from pcnt P' hp hP hP0 hP1 ds st P' h0 (by omega) (by omega) hd
  simp only [Nat.sub_self, Nat.zero_add] at i1 i2
  refine ⟨i1, fun st' h => ?_⟩
  have hm : ds.sum % P' < P' := Nat.mod_lt _ hP0
  rw [i2 st' h]
  omega

set_option maxRecDepth 100000 in
theorem timer8_carry_exact_witness :
    (0 : Nat) < 3 ∧ prescale_div.getD 0 0 = ((8 : Nat) : Int) ∧
    (timer_state 0x01 0x00 0xff 0xff 5).prescale 0 = ((8 : Nat) : Int) ∧
    (∀ d ∈ [3, 8, 5, 0, 7], d ≤ 8) ∧
    (expiries 0 [3, 8, 5, 0, 7] (timer_state 0x01 0x00 0xff 0xff 5)
      = (timer8_calls [3, 8, 5, 0, 7] (timer_state 0x01 0x00 0xff 0xff 5)).map
          (fun _ => [3, 8, 5, 0, 7].sum / 8) ∧
    ∀ st', timer8_calls [3, 8, 5, 0, 7] (timer_state 0x01 0x00 0xff 0xff 5) = some st' →
      1 ≤ st'.prescale 0 ∧ st'.prescale 0 ≤ (8 : Nat) ∧
        st'.prescale 0 = ((8 : Nat) : Int) - (([3, 8, 5, 0, 7].sum % 8 : Nat) : Int)) ∧
    expiries 0 [3, 8, 5, 0, 7] (timer_state 0x01 0x00 0xff 0xff 5) = some 2 ∧
    (timer8_calls [3, 8, 5, 0, 7] (timer_state 0x01 0x00 0xff 0xff 5)).map
      (fun s => (s.prescale 0, reg s 0x88)) = some (1, 7) :=
  ⟨by decide, by decide, by decide, by decide,
    timer8_carry_exact (timer_state 0x01 0x00 0xff 0xff 5) 0 8 [3, 8, 5, 0, 7] (by decide)
      (by decide) (by decide) (by decide),
    by decide, by decide⟩

/-! ## Power-on values -/

theorem init_regs_frame (l : List (Nat × Nat)) :
    ∀ s : Sim, (init_regs s l).sci_base = s.sci_base ∧
      (init_regs s l).timer8_base = s.timer8_base ∧ (init_regs s l).ssr = s.ssr := by
  induction l with
  | nil => intro s; exact ⟨rfl, rfl, rfl⟩
  | cons p rest ih =>
    intro s
    obtain ⟨addr, data⟩ := p
    exact ih (set_reg s addr data)

theorem init_ssr_frame (l : List Nat) :
    ∀ s : Sim, (init_ssr s l).sci_base = s.sci_base ∧
      (init_ssr s l).timer8_base = s.timer8_base ∧ (init_ssr s l).eightbit = s.eightbit := by
  induction l with
  | nil => intro s; exact ⟨rfl, rfl, rfl⟩
  | cons c rest ih =>
    intro s
    exact ih (set_ssr s c 0x84)

theorem init_ssr_three (s : Sim) (ch : Nat) (h : ch < 3) :
    byte (init_ssr s (List.range MAX_SCI_CH)).ssr ch = 0x84 := by
  have e : List.range MAX_SCI_CH = [0, 1, 2] := by decide
  rw [e]
  interval_cases ch <;> simp [init_ssr, byte_set_ssr, uchar]

theorem reg_init_ssr (s : Sim) (l : List Nat) (a : Nat) : reg (init_ssr s l) a = reg s a := by
  unfold reg
  rw [(init_ssr_frame l s).2.2]

/-- C23: after `init_ioregs` under each hardware variant (H8SX, H8S, H8/300H,
tested in that order), `sci_base` and `timer8_base` are the variant's tables;
for each of the three SCI channels of the table SSR reads 0x84 and equals the
shadow `ssr[ch]`, BRR reads 0xff, SMR and SCR read 0; and every 8-bit timer
channel of the table has TCR = 0 (stopped), TCNT = 0 and both compare registers
0xff. -/
theorem init_ioregs_defaults (st : Sim)
    (hv : st.h8300sxmode ≠ 0 ∨ st.h8300smode ≠ 0 ∨ st.h8300hmode ≠ 0) :
    (init_ioregs st).sci_base =
      (if st.h8300sxmode ≠ 0 then h8300sx_sci_base
        else if st.h8300smode ≠ 0 then h8300s_sci_base else h8300h_sci_base) ∧
    (init_ioregs st).timer8_base =
      (if st.h8300sxmode ≠ 0 then h8300s_timer8_base
        else if st.h8300smode ≠ 0 then h8300s_timer8_base else h8300h_timer8_base) ∧
    (init_ioregs st).sci_base.length = 3 ∧
    (∀ ch b, (init_ioregs st).sci_base.get? ch = some b →
      reg (init_ioregs st) (b + 4) = 0x84 ∧ byte (init_ioregs st).ssr ch = 0x84 ∧
      reg (init_ioregs st) (b + 1) = 0xff ∧ reg (init_ioregs st) b = 0 ∧
      reg (init_ioregs st) (b + 2) = 0) ∧
    (∀ tm b, (init_ioregs st).timer8_base.get? tm = some b → b ≠ 0 →
      reg (init_ioregs st) b = 0 ∧ reg (init_ioregs st) (b + 8) = 0 ∧
      reg (init_ioregs st) (b + 4) = 0xff ∧ reg (init_ioregs st) (b + 6) = 0xff) := by
  have key : ∀ (s : Sim) (ini : List (Nat × Nat)) (sb tb : List Nat) (it : List int_list_t),
      s = { st with sci_base := sb, timer8_base := tb, int_table := it } →
      s.sci_base = sb → s.timer8_base = tb →
      init_ioregs st = init_ssr (init_regs s ini) (List.range MAX_SCI_CH) →
      sb.length = 3 →
      (∀ ch b, sb.get? ch = some b →
        reg (init_regs s ini) (b + 4) = 0x84 ∧ reg (init_regs s ini) (b + 1) = 0xff ∧
        reg (init_regs s ini) b = 0 ∧ reg (init_regs s ini) (b + 2) = 0) →
      (∀ tm b, tb.get? tm = some b → b ≠ 0 →
        reg (init_regs s ini) b = 0 ∧ reg (init_regs s ini) (b + 8) = 0 ∧
        reg (init_regs s ini) (b + 4) = 0xff ∧ reg (init_regs s ini) (b + 6) = 0xff) →
      (init_ioregs st).sci_base = sb ∧ (init_ioregs st).timer8_base = tb ∧
      (init_ioregs st).sci_base.length = 3 ∧
      (∀ ch b, (init_ioregs st).sci_base.get? ch = some b →
        reg (init_ioregs st) (b + 4) = 0x84 ∧ byte (init_ioregs st).ssr ch = 0x84 ∧
        reg (init_ioregs st) (b + 1) = 0xff ∧ reg (init_ioregs st) b = 0 ∧
        reg (init_ioregs st) (b + 2) = 0) ∧
      (∀ tm b, (init_ioregs st).timer8_base.get? tm = some b → b ≠ 0 →
        reg (init_ioregs st) b = 0 ∧ reg (init_ioregs st) (b + 8) = 0 ∧
        reg (init_ioregs st) (b + 4) = 0xff ∧ reg (init_ioregs st) (b + 6) = 0xff) := by
    intro s ini sb tb it _ hsb htb he hlen hsci htm
    have e1 : (init_ioregs st).sci_base = sb := by
      rw [he, (init_ssr_frame _ _).1, (init_regs_frame _ _).1, hsb]
    have e2 : (init_ioregs st).timer8_base = tb := by
      rw [he, (init_ssr_frame _ _).2.1, (init_regs_frame _ _).2.1, htb]
    refine ⟨e1, e2, by rw [e1]; exact hlen, fun ch b hb => ?_, fun tm b hb hb0 => ?_⟩
    · rw [e1] at hb
      have hch : ch < 3 := by
        have := (List.get?_eq_some.mp hb).1
        omega
      obtain ⟨r1, r2, r3, r4⟩ := hsci ch b hb
      rw [he]
      simp only [reg_init_ssr]
      exact ⟨r1, init_ssr_three _ ch hch, r2, r3, r4⟩
    · rw [e2] at hb
      rw [he]
      simp only [reg_init_ssr]
      exact htm tm b hb hb0
  by_cases hsx : st.h8300sxmode ≠ 0
  · simp only [if_pos hsx]
    refine key _ h8300sx_reg_ini h8300sx_sci_base h8300s_timer8_base h8300sx_int_table rfl rfl rfl
      (by unfold init_ioregs; simp only [if_pos hsx]) rfl ?_ ?_
    · intro ch b hb
      have hch : ch < 3 := (List.get?_eq_some.mp hb).1
      interval_cases ch <;> obtain rfl := Option.some.inj hb <;>
        simp [init_regs, h8300sx_reg_ini, reg_set_reg]
    · intro tm b hb hb0
      have htm : tm < 3 := (List.get?_eq_some.mp hb).1
      interval_cases tm <;> obtain rfl := Option.some.inj hb <;>
        first
        | exact absurd rfl hb0
        | simp [init_regs, h8300sx_reg_ini, reg_set_reg]
  · by_cases hs : st.h8300smode ≠ 0
    · simp only [if_neg hsx, if_pos hs]
      refine key _ h8300s_reg_ini h8300s_sci_base h8300s_timer8_base h8300s_int_table rfl rfl rfl
        (by unfold init_ioregs; simp only [if_neg hsx, if_pos hs]) rfl ?_ ?_
      · intro ch b hb
        have hch : ch < 3 := (List.get?_eq_some.mp hb).1
        interval_cases ch <;> obtain rfl := Option.some.inj hb <;>
          simp [init_regs, h8300s_reg_ini, reg_set_reg]
      · intro tm b hb hb0
        have htm : tm < 3 := (List.get?_eq_some.mp hb).1
        interval_cases tm <;> obtain rfl := Option.some.inj hb <;>
          first
          | exact absurd rfl hb0
          | simp [init_regs, h8300s_reg_ini, reg_set_reg]
    · have hh : st.h8300hmode ≠ 0 := by
        rcases hv with h | h | h
        · exact absurd h hsx
        · exact absurd h hs
        · exact h
      simp only [if_neg hsx, if_neg hs]
      refine key _ h8300h_reg_ini h8300h_sci_base h8300h_timer8_base h8300h_int_table rfl rfl rfl
        (by unfold init_ioregs; simp only [if_neg hsx, if_neg hs, if_pos hh]) rfl ?_ ?_
      · intro ch b hb
        have hch : ch < 3 := (List.get?_eq_some.mp hb).1
        interval_cases ch <;> obtain rfl := Option.some.inj hb <;>
          simp [init_regs, h8300h_reg_ini, reg_set_reg]
      · intro tm b hb hb0
        have htm : tm < 5 := (List.get?_eq_some.mp hb).1
        interval_cases tm <;> obtain rfl := Option.some.inj hb <;>
          first
          | exact absurd rfl hb0
          | simp [init_regs, h8300h_reg_ini, reg_set_reg]

set_option maxRecDepth 100000 in
theorem init_ioregs_defaults_witness :
    ((power_on (fun _ => 0x5a) (fun _ => 0x5a) 1 1 0 Posix.quiet).h8300sxmode ≠ 0 ∨
      (power_on (fun _ => 0x5a) (fun _ => 0x5a) 1 1 0 Posix.quiet).h8300smode ≠ 0 ∨
      (power_on (fun _ => 0x5a) (fun _ => 0x5a) 1 1 0 Posix.quiet).h8300hmode ≠ 0) ∧
    ((init_ioregs (power_on (fun _ => 0x5a) (fun _ => 0x5a) 1 1 0 Posix.quiet)).sci_base =
      (if (power_on (fun _ => 0x5a) (fun _ => 0x5a) 1 1 0 Posix.quiet).h8300sxmode ≠ 0
        then h8300sx_sci_base
        else if (power_on (fun _ => 0x5a) (fun _ => 0x5a) 1 1 0 Posix.quiet).h8300smode ≠ 0
          then h8300s_sci_base else h8300h_sci_base) ∧
    (init_ioregs (power_on (fun _ => 0x5a) (fun _ => 0x5a) 1 1 0 Posix.quiet)).timer8_base =
      (if (power_on (fun _ => 0x5a) (fun _ => 0x5a) 1 1 0 Posix.quiet).h8300sxmode ≠ 0
        then h8300s_timer8_base
        else if (power_on (fun _ => 0x5a) (fun _ => 0x5a) 1 1 0 Posix.quiet).h8300smode ≠ 0
          then h8300s_timer8_base else h8300h_timer8_base) ∧
    (init_ioregs (power_on (fun _ => 0x5a) (fun _ => 0x5a) 1 1 0 Posix.quiet)).sci_base.length
      = 3 ∧
    (∀ ch b, (init_ioregs (power_on (fun _ => 0x5a) (fun _ => 0x5a) 1 1 0
        Posix.quiet)).sci_base.get? ch = some b →
      reg (init_ioregs (power_on (fun _ => 0x5a) (fun _ => 0x5a) 1 1 0 Posix.quiet)) (b + 4)
        = 0x84 ∧
      byte (init_ioregs (power_on (fun _ => 0x5a) (fun _ => 0x5a) 1 1 0 Posix.quiet)).ssr ch
        = 0x84 ∧
      reg (init_ioregs (power_on (fun _ => 0x5a) (fun _ => 0x5a) 1 1 0 Posix.quiet)) (b + 1)
        = 0xff ∧
      reg (init_ioregs (power_on (fun _ => 0x5a) (fun _ => 0x5a) 1 1 0 Posix.quiet)) b = 0 ∧
      reg (init_ioregs (power_on (fun _ => 0x5a) (fun _ => 0x5a) 1 1 0 Posix.quiet)) (b + 2)
        = 0) ∧
    (∀ tm b, (init_ioregs (power_on (fun _ => 0x5a) (fun _ => 0x5a) 1 1 0
        Posix.quiet)).timer8_base.get? tm = some b → b ≠ 0 →
      reg (init_ioregs (power_on (fun _ => 0x5a) (fun _ => 0x5a) 1 1 0 Posix.quiet)) b = 0 ∧
      reg (init_ioregs (power_on (fun _ => 0x5a) (fun _ => 0x5a) 1 1 0 Posix.quiet)) (b + 8)
        = 0 ∧
      reg (init_ioregs (power_on (fun _ => 0x5a) (fun _ => 0x5a) 1 1 0 Posix.quiet)) (b + 4)
        = 0xff ∧
      reg (init_ioregs (power_on (fun _ => 0x5a) (fun _ => 0x5a) 1 1 0 Posix.quiet)) (b + 6)
        = 0xff)) ∧
    (init_ioregs (power_on (fun _ => 0x5a) (fun _ => 0x5a) 1 1 0 Posix.quiet)).sci_base
      = [0x78, 0x80, 0x88] ∧
    [0x7c, 0x79, 0x78, 0x7a, 0xb1, 0xb9, 0xb5, 0xb7].map
      (reg (init_ioregs (power_on (fun _ => 0x5a) (fun _ => 0x5a) 1 1 0 Posix.quiet)))
      = [0x84, 0xff, 0, 0, 0, 0, 0xff, 0xff] :=
  ⟨by decide,
    init_ioregs_defaults (power_on (fun _ => 0x5a) (fun _ => 0x5a) 1 1 0 Posix.quiet)
      (by decide),
    by decide, by decide⟩

/-! ## The entry point -/

theorem uint32_nonneg (x : Int) (h0 : 0 ≤ x) (h1 : x < 4294967296) : (uint32 x : Int) = x := by
  unfold uint32
  have : x % 4294967296 = x := Int.emod_eq_of_lt h0 h1
  rw [this]
  omega

theorem uint32_neg (x : Int) (h0 : -4294967296 ≤ x) (h1 : x < 0) :
    (uint32 x : Int) = x + 4294967296 := by
  unfold uint32
  have : x % 4294967296 = x + 4294967296 := by omega
  rw [this]
  omega

/-- The conditional expression of `iosimulation` on values that have not
decreased, and on values that have. -/
theorem cycles_diff_of_eq (prev : Nat) (cycles : Int) (hp : prev < 4294967296) :
    (prev ≤ uint32 cycles → cycles_diff_of prev cycles = uint32 cycles - prev) ∧
    (uint32 cycles < prev → cycles_diff_of prev cycles = uint32 cycles) := by
  unfold cycles_diff_of
  have hu := Rx.uint32_lt cycles
  constructor
  · intro h
    rw [if_neg (by omega)]
    have e : ((uint32 cycles : Int) - (prev : Int)) = ((uint32 cycles - prev : Nat) : Int) := by
      omega
    rw [e, uint32_small _ (by omega)]
  · intro h
    rw [if_pos h]

theorem io_advance_prev (b : Board) (d : Nat) (b' : Board) (v : Int)
    (h : io_advance b d = some (b', v)) : b'.prev_cycles = b.prev_cycles := by
  unfold io_advance at h
  cases h8 : timer8 b.sim d with
  | none => rw [h8] at h; simp at h
  | some st =>
    rw [h8] at h
    simp only [Option.some_bind] at h
    have key : ∀ r : Option Board, (∀ x, r = some x → x.prev_cycles = b.prev_cycles) →
        (r.bind fun b0 => (sci b0.sim d).bind fun st0 =>
          (intcont st0).map (fun v0 => (({ b0 with sim := st0 } : Board), v0))) = some (b', v) →
        b'.prev_cycles = b.prev_cycles := by
      intro r hr hk
      cases r with
      | none => simp at hk
      | some x =>
        simp only [Option.some_bind] at hk
        cases hs : sci x.sim d with
        | none => rw [hs] at hk; simp at hk
        | some st0 =>
          rw [hs] at hk
          simp only [Option.some_bind] at hk
          cases hi : intcont st0 with
          | none => rw [hi] at hk; simp at hk
          | some v0 =>
            rw [hi] at hk
            simp only [Option.map_some'] at hk
            rw [← (Prod.mk.inj (Option.some.inj hk)).1]
            exact hr x rfl
    refine key _ ?_ h
    intro x hx
    split_ifs at hx
    · cases ht : h8300s_timer16 st b.tpu d with
      | none => rw [ht] at hx; simp at hx
      | some r =>
        rw [ht] at hx
        simp only [Option.map_some'] at hx
        rw [← Option.some.inj hx]
    · cases ht : h8300h_timer16 st b.itu d with
      | none => rw [ht] at hx; simp at hx
      | some r =>
        rw [ht] at hx
        simp only [Option.map_some'] at hx
        rw [← Option.some.inj hx]
    · rw [← Option.some.inj hx]

theorem getLast_getD_cons (x : Int) (xs : List Int) (a b : Int) :
    (x :: xs).getLast?.getD a = (x :: xs).getLast?.getD b := by
  cases h : (x :: xs).getLast? with
  | none => simp at h
  | some v => rfl

theorem cycle_deltas_from (cs : List Int) :
    ∀ prev : Nat, prev < 2147483648 → List.Chain (fun x y => x ≤ y) (prev : Int) cs →
      (∀ c ∈ cs, c < 2147483648) →
      (((cycle_deltas prev cs).sum : Nat) : Int) = cs.getLast?.getD prev - prev := by
  induction cs with
  | nil => intro prev _ _ _; simp [cycle_deltas]
  | cons c cs ih =>
    intro prev hp hch hlt
    obtain ⟨h1, h2⟩ := List.chain_cons.mp hch
    have hc := hlt c (List.mem_cons_self _ _)
    have hp0 : (0 : Int) ≤ (prev : Int) := Int.ofNat_nonneg prev
    have hu : (uint32 c : Int) = c := uint32_nonneg c (by omega) (by omega)
    have hd := (cycles_diff_of_eq prev c (by omega)).1 (by omega)
    have hi := ih (uint32 c) (by omega) (by rw [hu]; exact h2)
      (fun x hx => hlt x (List.mem_cons_of_mem _ hx))
    unfold cycle_deltas
    rw [List.sum_cons, hd, Nat.cast_add, hi, hu, Nat.cast_sub (by omega), hu]
    cases cs with
    | nil => simp
    | cons x xs =>
      rw [List.getLast?_cons_cons, getLast_getD_cons x xs (↑prev) c]
      omega

/-- The elapsed cycles `iosimulation (cycles)` computes.  `cycles`, an `int`, is
compared with and subtracted from the `unsigned int prev_cycles` as an
`unsigned int`, which it equals when it is not negative: the calls are made
with `cycles - prev_cycles` when `cycles` has not decreased and with `cycles`
when it has, and a call that returns leaves `cycles` in `prev_cycles`.  So over
a sequence of values that do not decrease, from `prev_cycles = 0`, the deltas
sum to the last value. -/
theorem iosimulation_elapsed (b : Board) (cycles : Int) (hlo : -2 ^ 31 ≤ cycles)
    (hhi : cycles < 2 ^ 31) (hp : b.prev_cycles < 2 ^ 32) :
    (0 ≤ cycles → (uint32 cycles : Int) = cycles) ∧
    (∃ d, iosimulation b cycles = io_advance (b.at_cycles (uint32 cycles)) d ∧
      (b.prev_cycles ≤ uint32 cycles → (d : Int) = (uint32 cycles : Int) - b.prev_cycles) ∧
      (uint32 cycles < b.prev_cycles → d = uint32 cycles)) ∧
    (∀ b' v, iosimulation b cycles = some (b', v) → b'.prev_cycles = uint32 cycles) ∧
    (∀ cs : List Int, List.Chain (fun x y => x ≤ y) 0 cs → (∀ c ∈ cs, c < 2 ^ 31) →
      (cycle_deltas 0 cs).sum = (cs.getLast?.getD 0).toNat ∧
      ∀ b0 b', b0.prev_cycles = 0 → io_calls cs b0 = some b' →
        (b'.prev_cycles : Int) = cs.getLast?.getD 0) := by
  have h2 : (2 : Int) ^ 31 = 2147483648 := by norm_num
  have h3 : (2 : Nat) ^ 32 = 4294967296 := by norm_num
  rw [h2] at hlo hhi
  rw [h3] at hp
  obtain ⟨e1, e2⟩ := cycles_diff_of_eq b.prev_cycles cycles hp
  refine ⟨fun h0 => uint32_nonneg cycles h0 (by omega),
    ⟨cycles_diff_of b.prev_cycles cycles, rfl, fun h => ?_, e2⟩, fun b' v h => ?_,
    fun cs hch hlt => ?_⟩
  · rw [e1 h, Nat.cast_sub h]
  · exact io_advance_prev _ _ b' v h
  · rw [h2] at hlt
    have hs := cycle_deltas_from cs 0 (by decide) (by simpa using hch) hlt
    simp only [Nat.cast_zero, sub_zero] at hs
    refine ⟨by omega, ?_⟩
    have gen : ∀ (l : List Int) (p : Int) (b0 b' : Board), List.Chain (fun x y => x ≤ y) p l →
        0 ≤ p → (∀ c ∈ l, c < 2147483648) → (b0.prev_cycles : Int) = p →
        io_calls l b0 = some b' → (b'.prev_cycles : Int) = l.getLast?.getD p := by
      intro l
      induction l with
      | nil =>
        intro p b0 b' _ _ _ hb0 hc
        obtain rfl := Option.some.inj hc
        simpa using hb0
      | cons c rest ih =>
        intro p b0 b' hch0 hp0 hl hb0 hc
        obtain ⟨c1, c2⟩ := List.chain_cons.mp hch0
        have hcl := hl c (List.mem_cons_self _ _)
        unfold io_calls at hc
        cases hio : iosimulation b0 c with
        | none => rw [hio] at hc; simp at hc
        | some r =>
          rw [hio] at hc
          simp only [Option.some_bind] at hc
          have hr : r.1.prev_cycles = uint32 c := io_advance_prev _ _ r.1 r.2 hio
          have hi := ih c r.1 b' c2 (by omega) (fun x hx => hl x (List.mem_cons_of_mem _ hx))
            (by rw [hr]; exact uint32_nonneg c (by omega) (by omega)) hc
          rw [hi]
          cases rest with
          | nil => simp
          | cons x xs => rw [List.getLast?_cons_cons, getLast_getD_cons x xs c p]
    intro b0 b' hb0 hc
    exact gen cs 0 b0 b' hch (le_refl 0) hlt (by rw [hb0]; rfl) hc

set_option maxRecDepth 100000 in
theorem iosimulation_elapsed_witness :
    -2 ^ 31 ≤ (8 : Int) ∧ (8 : Int) < 2 ^ 31 ∧
    ((Board.power_on (h8300h_with [(0x80, 0x01), (0x84, 0xff), (0x86, 0xff),
      (0x88, 5)])).at_cycles 3).prev_cycles < 2 ^ 32 ∧
    ((0 ≤ (8 : Int) → (uint32 8 : Int) = 8) ∧
    (∃ d, iosimulation ((Board.power_on (h8300h_with [(0x80, 0x01), (0x84, 0xff), (0x86, 0xff),
        (0x88, 5)])).at_cycles 3) 8
        = io_advance (((Board.power_on (h8300h_with [(0x80, 0x01), (0x84, 0xff), (0x86, 0xff),
          (0x88, 5)])).at_cycles 3).at_cycles (uint32 8)) d ∧
      (((Board.power_on (h8300h_with [(0x80, 0x01), (0x84, 0xff), (0x86, 0xff),
          (0x88, 5)])).at_cycles 3).prev_cycles ≤ uint32 8 →
        (d : Int) = (uint32 8 : Int) - ((Board.power_on (h8300h_with [(0x80, 0x01), (0x84, 0xff),
          (0x86, 0xff), (0x88, 5)])).at_cycles 3).prev_cycles) ∧
      (uint32 8 < ((Board.power_on (h8300h_with [(0x80, 0x01), (0x84, 0xff), (0x86, 0xff),
          (0x88, 5)])).at_cycles 3).prev_cycles → d = uint32 8)) ∧
    (∀ b' v, iosimulation ((Board.power_on (h8300h_with [(0x80, 0x01), (0x84, 0xff),
        (0x86, 0xff), (0x88, 5)])).at_cycles 3) 8 = some (b', v) →
      b'.prev_cycles = uint32 8) ∧
    (∀ cs : List Int, List.Chain (fun x y => x ≤ y) 0 cs → (∀ c ∈ cs, c < 2 ^ 31) →
      (cycle_deltas 0 cs).sum = (cs.getLast?.getD 0).toNat ∧
      ∀ b0 b', b0.prev_cycles = 0 → io_calls cs b0 = some b' →
        (b'.prev_cycles : Int) = cs.getLast?.getD 0)) ∧
    cycle_deltas 0 [3, 8, 12, 2] = [3, 5, 4, 2] ∧
    (io_calls [3, 8, 12] (Board.power_on (h8300h_with [(0x80, 0x01), (0x84, 0xff), (0x86, 0xff),
      (0x88, 5)]))).map (fun x => (x.prev_cycles, x.sim.prescale 0, reg x.sim 0x88))
      = some (12, 4, 6) ∧
    (io_calls [3, 8, 12, 2] (Board.power_on (h8300h_with [(0x80, 0x01), (0x84, 0xff),
      (0x86, 0xff), (0x88, 5)]))).map (fun x => (x.prev_cycles, x.sim.prescale 0, reg x.sim 0x88))
      = some (2, 2, 6) :=
  ⟨by decide, by decide, by decide,
    iosimulation_elapsed ((Board.power_on (h8300h_with [(0x80, 0x01), (0x84, 0xff), (0x86, 0xff),
      (0x88, 5)])).at_cycles 3) 8 (by decide) (by decide) (by decide),
    by decide, by decide, by decide⟩

/-! ## Channels without a transport -/

set_option maxRecDepth 100000 in
/-- C21 fails on the code for a channel for which no port was ever opened: the
array `sci_port` is a zero-initialised `static`, so such a channel has the
descriptor 0, which passes the test `fd >= 0`.  On an H8/300H after
`init_ioregs` with no port opened, the call `sci` writes the TDR byte of
channel 0 to descriptor 0 and reads descriptor 0; the byte waiting there lands
in RDR and receive-full (SSR 0x40) is set. -/
theorem sci_unopened_uses_descriptor_zero :
    unopened_state.sci_port_type = PORT_NONE ∧
    (List.range MAX_SCI_CH).map (fun ch => (unopened_state.sci_port ch).fd) = [0, 0, 0] ∧
    unopened_state.sci_base.get? 0 = some 0xb0 ∧
    (unopened_state.host.sent 0, unopened_state.host.pending 0, reg unopened_state (0xb0 + 5),
      reg unopened_state (0xb0 + 4) &&& 0x60) = ([], [0x42], 0, 0) ∧
    (sci unopened_state 1).map
      (fun s => (s.host.sent 0, s.host.pending 0, reg s (0xb0 + 5), reg s (0xb0 + 4) &&& 0x60))
      = some ([0x41], [], 0x42, 0x40) := by
  decide

theorem sci_send_data_closed (s : Sim) (ch x : Nat) (h : (s.sci_port ch).fd < 0) :
    sci_send_data s ch x = s := by
  unfold sci_send_data
  simp only
  rw [if_neg (by omega)]

theorem sci_rcv_data_closed (s : Sim) (ch : Nat) (h : (s.sci_port ch).fd < 0) :
    sci_rcv_data s ch = (none, s) := by
  unfold sci_rcv_data
  simp only
  rw [if_neg (by omega)]

theorem sci_rx_closed (s : Sim) (ch b t : Nat) (h : (s.sci_port ch).fd < 0) :
    sci_rx s ch b t = s := by
  unfold sci_rx
  rw [sci_rcv_data_closed s ch h]
  split_ifs <;> rfl

theorem sci_tx_request_closed (s : Sim) (ch b : Nat) (h : (s.sci_port ch).fd < 0) :
    (sci_tx_request s ch b).host = s.host ∧ (sci_tx_request s ch b).sci_port = s.sci_port := by
  unfold sci_tx_request
  rw [sci_send_data_closed s ch _ h]
  split_ifs
  · exact ⟨rfl, rfl⟩
  · exact ⟨rfl, rfl⟩

theorem sci_at_poll_closed (s : Sim) (d ch b : Nat) (h : (s.sci_port ch).fd < 0) :
    (sci_at_poll s d ch b).host = s.host ∧ (sci_at_poll s d ch b).sci_port = s.sci_port := by
  obtain ⟨a1, a2⟩ := sci_tx_request_closed (set_ssr s ch (byte s.ssr ch &&& reg s (b + 4))) ch b h
  obtain ⟨_, _, _, _, c5, c6, _⟩ := sci_tx_complete_obs
    (set_tx_end_time (sci_tx_request (set_ssr s ch (byte s.ssr ch &&& reg s (b + 4))) ch b)
      ch (sint32 ((sci_tx_request (set_ssr s ch (byte s.ssr ch &&& reg s (b + 4)))
        ch b).tx_end_time ch - d))) ch (sci_complete_time_of (reg s (b + 0)) (reg s (b + 1)))
  constructor
  · show (sci_tx_complete _ ch _).host = _
    rw [c5]; exact a1
  · show (sci_tx_complete _ ch _).sci_port = _
    rw [c6]; exact a2

/-- The loop body of `sci` on a channel whose descriptor is negative: the host
and the descriptors are as they were, and so is RDR; the bits receive-full and
overrun are those the shadow and SSR both had. -/
theorem sci_channel_at_closed (s : Sim) (d ch b : Nat) (h : (s.sci_port ch).fd < 0) :
    (sci_channel_at s d ch b).host = s.host ∧ (sci_channel_at s d ch b).sci_port = s.sci_port ∧
    reg (sci_channel_at s d ch b) (b + 5) = reg s (b + 5) ∧
    reg (sci_channel_at s d ch b) (b + 4) &&& 0x60
      = (byte s.ssr ch &&& reg s (b + 4)) &&& 0x60 := by
  obtain ⟨p1, p2⟩ := sci_at_poll_closed s d ch b h
  obtain ⟨q1, _, _, _, _, q6⟩ := sci_at_poll_rx s d ch b
  have hx := sci_rx_closed (sci_at_poll s d ch b) ch b
    (sci_complete_time_of (reg s (b + 0)) (reg s (b + 1))) (by rw [p2]; exact h)
  rw [sci_channel_at_eq, hx]
  refine ⟨p1, p2, ?_, ?_⟩
  · rw [reg_set_reg, if_neg (by omega)]
    unfold reg
    rw [q1]
  · rw [reg_set_reg, if_pos rfl, mod256_eq (byte_lt _ _)]
    exact q6 0x60 (by decide) (by decide) (by decide)

theorem sci_for_port (d ch : Nat) (l : List Nat) (hl : ch ∉ l) :
    ∀ s s', sci_for d l s = some s' → s'.sci_port ch = s.sci_port ch := by
  induction l with
  | nil => intro s s' h; obtain rfl := Option.some.inj h; rfl
  | cons i rest ih =>
    intro s s' h
    have hi : ch ≠ i := fun e => hl (by rw [e]; exact List.mem_cons_self _ _)
    unfold sci_for sci_channel at h
    cases hb : s.sci_base.get? i with
    | none => rw [hb] at h; simp at h
    | some bi =>
      rw [hb] at h
      simp only [Option.map_some', Option.some_bind] at h
      rw [ih (fun hm => hl (List.mem_cons_of_mem _ hm)) _ s' h]
      exact (turn_of_channel_at s d i bi).1 ch hi

/-- A channel with no connected transport is treated as having no data: when
the loop of `sci` gets to a channel whose descriptor is negative (outside socket
mode that is the descriptor on entry), its turn leaves the host and the
descriptors as they are, so nothing is read or written; and after the call RDR
is what it was and receive-full and overrun are no more than the shadow and
SSR both had before. -/
theorem sci_unconnected (st : Sim) (d ch b : Nat) (s : Sim) (ht : sci_tables st)
    (hb : st.sci_base.get? ch = some b) (hr : sci_reach st d ch = some s)
    (hfd : (s.sci_port ch).fd < 0) :
    (sci_channel_at s d ch b).host = s.host ∧ (sci_channel_at s d ch b).sci_port = s.sci_port ∧
    (st.sci_port_type ≠ PORT_NET → s.sci_port ch = st.sci_port ch) ∧
    ∃ st', sci st d = some st' ∧ reg st' (b + 5) = reg st (b + 5) ∧
      reg st' (b + 4) &&& 0x60 = (byte st.ssr ch &&& reg st (b + 4)) &&& 0x60 := by
  have hch := sci_tables_lt st ht ch b hb
  obtain ⟨c1, c2, c3, c4⟩ := sci_channel_at_closed s d ch b hfd
  obtain ⟨c, _, st', es, k⟩ := sci_around st d ch b s ht hch hb hr
  refine ⟨c1, c2, fun hn => ?_, st', es, ?_, ?_⟩
  · unfold sci_reach at hr
    rw [if_neg hn] at hr
    exact sci_for_port d ch _ (by rw [List.mem_range]; omega) st s hr
  · rw [k.2.2.1 (b + 5) (by omega) (by omega), c3, c.2.2.1 (b + 5) (by omega) (by omega)]
  · rw [k.2.2.1 (b + 4) (by omega) (by omega), c4, c.2.2.1 (b + 4) (by omega) (by omega),
      c.2.2.2.1]

set_option maxRecDepth 100000 in
theorem sci_unconnected_witness :
    sci_tables (closed_state 0x30 0x41 0x04 0x84 [0x42]) ∧
    (closed_state 0x30 0x41 0x04 0x84 [0x42]).sci_base.get? 0 = some 0xb0 ∧
    (sci_reach (closed_state 0x30 0x41 0x04 0x84 [0x42]) 1 0).map (fun s => (s.sci_port 0).fd)
      = some (-1) ∧
    (sci (closed_state 0x30 0x41 0x04 0x84 [0x42]) 1).map
      (fun s => (s.host.sent 5, s.host.pending 5, reg s (0xb0 + 5), reg s (0xb0 + 4) &&& 0x60))
      = some ([], [0x42], 0, 0) ∧
    ∃ s, sci_reach (closed_state 0x30 0x41 0x04 0x84 [0x42]) 1 0 = some s ∧
      (s.sci_port 0).fd < 0 ∧
      ((sci_channel_at s 1 0 0xb0).host = s.host ∧ (sci_channel_at s 1 0 0xb0).sci_port
          = s.sci_port ∧
        ((closed_state 0x30 0x41 0x04 0x84 [0x42]).sci_port_type ≠ PORT_NET →
          s.sci_port 0 = (closed_state 0x30 0x41 0x04 0x84 [0x42]).sci_port 0) ∧
        ∃ st', sci (closed_state 0x30 0x41 0x04 0x84 [0x42]) 1 = some st' ∧
          reg st' (0xb0 + 5) = reg (closed_state 0x30 0x41 0x04 0x84 [0x42]) (0xb0 + 5) ∧
          reg st' (0xb0 + 4) &&& 0x60
            = (byte (closed_state 0x30 0x41 0x04 0x84 [0x42]).ssr 0 &&&
                reg (closed_state 0x30 0x41 0x04 0x84 [0x42]) (0xb0 + 4)) &&& 0x60) :=
  ⟨by decide, by decide, by decide, by decide,
    closed_state 0x30 0x41 0x04 0x84 [0x42], rfl, by decide,
    sci_unconnected (closed_state 0x30 0x41 0x04 0x84 [0x42]) 1 0 0xb0
      (closed_state 0x30 0x41 0x04 0x84 [0x42]) (by decide) (by decide) rfl (by decide)⟩

/-! ## The 16-bit timers -/

theorem join16 (c : Nat) (h : c < 65536) : ((c >>> 8) % 256) <<< 8 ||| (c &&& 0xff) % 256 = c := by
  have h1 : c >>> 8 = c / 256 := by rw [Nat.shiftRight_eq_div_pow]
  have h2 : c &&& 0xff = c % 256 := and_ff_mod c
  have h3 : c / 256 % 256 = c / 256 := Nat.mod_eq_of_lt (by omega)
  rw [h1, h2, Nat.mod_mod, h3, Nat.shiftLeft_eq, show (2 : Nat) ^ 8 = 256 from rfl, Nat.or_comm,
    Nat.mul_comm (c / 256) 256, Rx.or_eq_add_256 _ _ (Nat.mod_lt _ (by decide))]
  omega

theorem shl8_or (a b : Nat) (hb : b < 256) : a <<< 8 ||| b = 256 * a + b := by
  rw [Nat.shiftLeft_eq, show (2 : Nat) ^ 8 = 256 from rfl, Nat.or_comm, Nat.mul_comm a 256]
  exact Rx.or_eq_add_256 a b hb

theorem h8300h_checks_count (st : Sim) (t : Itu) (tm cnt : Nat) :
    (h8300h_timer16_checks st t tm cnt).2 = checks16h st tm cnt ∧
      (h8300h_timer16_checks st t tm cnt).2 < 65536 ∧
      (h8300h_timer16_checks st t tm cnt).1.prescale = t.prescale := by
  unfold h8300h_timer16_checks checks16h
  simp only []
  refine ⟨?_, ?_, ?_⟩
  · split_ifs <;> simp_all
  · split_ifs <;> simp_all
  · split_ifs <;> rfl

theorem checks16h_congr (s s' : Sim) (tm : Nat)
    (h : ∀ a, 0x68 + tm * 8 ≤ a → a < 0x70 + tm * 8 → a ≠ 0x6a + tm * 8 → a ≠ 0x6b + tm * 8 →
      reg s' a = reg s a) (c : Nat) : checks16h s' tm c = checks16h s tm c := by
  unfold checks16h
  rw [h (0x68 + tm * 8) (by omega) (by omega) (by omega) (by omega),
    h (0x6c + tm * 8) (by omega) (by omega) (by omega) (by omega),
    h (0x6d + tm * 8) (by omega) (by omega) (by omega) (by omega),
    h (0x6e + tm * 8) (by omega) (by omega) (by omega) (by omega),
    h (0x6f + tm * 8) (by omega) (by omega) (by omega) (by omega)]

/-- The body of the inner loop of `h8300h_timer16`: it has a result when the
pulses leave the addition within `int`, it writes the counter of its channel
only, and for a started channel that counts on the expired prescaler the
counter it leaves is what the checks make of the count plus `pulse`. -/
theorem h8300h_channel_obs (st : Sim) (t : Itu) (pcnt tm pulse : Nat)
    (hpl : pulse ≤ 2147418112) :
    ∃ st' t', h8300h_timer16_channel st t pcnt tm pulse = some (st', t') ∧
      (∀ a, a ≠ 0x6a + tm * 8 → a ≠ 0x6b + tm * 8 → reg st' a = reg st a) ∧
      t'.prescale = t.prescale ∧
      (counts16h st pcnt tm → TCNT16 st' tm = checks16h st tm (TCNT16 st tm + pulse)) := by
  have g1 := reg_lt st (0x6a + tm * 8)
  have g2 := reg_lt st (0x6b + tm * 8)
  have hcnt : reg st (0x6a + tm * 8) <<< 8 ||| reg st (0x6b + tm * 8) < 65536 := by
    rw [shl8_or _ _ g2]
    omega
  unfold h8300h_timer16_channel counts16h
  by_cases hs : reg st 0x60 &&& (1 <<< tm) = 0
  · rw [if_pos hs]
    exact ⟨st, t, rfl, fun _ _ _ => rfl, rfl, fun h => absurd hs h.1⟩
  · rw [if_neg hs]
    simp only []
    by_cases hsel : reg st (0x68 + tm * 8) &&& 0x07 = pcnt
    · rw [if_pos hsel, if_neg (by norm_num; omega)]
      obtain ⟨c1, c2, c3⟩ := h8300h_checks_count st (h8300h_timer16_clear st t tm) tm
        ((reg st (0x6a + tm * 8) <<< 8 ||| reg st (0x6b + tm * 8)) + pulse)
      refine ⟨_, _, rfl, fun a h1 h2 => ?_, c3, fun _ => ?_⟩
      · rw [reg_set_reg, if_neg h2, reg_set_reg, if_neg h1]
      · unfold TCNT16
        rw [reg_set_reg, if_neg (by omega), reg_set_reg, if_pos rfl, reg_set_reg, if_pos rfl,
          join16 _ c2, c1]
    · rw [if_neg hsel]
      exact ⟨st, _, rfl, fun _ _ _ => rfl, rfl, fun h => absurd h.2 hsel⟩

theorem h8300h_for_obs (pcnt pulse tm : Nat) (hpl : pulse ≤ 2147418112) (l : List Nat)
    (hnd : l.Nodup) :
    ∀ (st : Sim) (t : Itu), ∃ st' t', h8300h_timer16_for pcnt pulse l st t = some (st', t') ∧
      (∀ a, (∀ j ∈ l, a ≠ 0x6a + j * 8 ∧ a ≠ 0x6b + j * 8) → reg st' a = reg st a) ∧
      t'.prescale = t.prescale ∧
      (tm ∈ l → counts16h st pcnt tm →
        TCNT16 st' tm = checks16h st tm (TCNT16 st tm + pulse)) := by
  induction l with
  | nil => intro st t; exact ⟨st, t, rfl, fun _ _ => rfl, rfl, fun h => by simp at h⟩
  | cons j rest ih =>
    intro st t
    obtain ⟨hj, hrest⟩ := List.nodup_cons.mp hnd
    obtain ⟨s1, t1, e1, f1, p1, k1⟩ := h8300h_channel_obs st t pcnt j pulse hpl
    obtain ⟨s2, t2, e2, f2, p2, k2⟩ := ih hrest s1 t1
    refine ⟨s2, t2, ?_, fun a ha => ?_, p2.trans p1, fun hm hc => ?_⟩
    · unfold h8300h_timer16_for
      rw [e1]
      exact e2
    · rw [f2 a (fun i hi => ha i (List.mem_cons_of_mem _ hi))]
      exact f1 a (ha j (List.mem_cons_self _ _)).1 (ha j (List.mem_cons_self _ _)).2
    · by_cases htj : tm = j
      · subst htj
        have fr : ∀ a, (a = 0x6a + tm * 8 ∨ a = 0x6b + tm * 8) → reg s2 a = reg s1 a := by
          intro a ha
          refine f2 a (fun i hi => ?_)
          have hne : i ≠ tm := fun e => hj (e ▸ hi)
          omega
        unfold TCNT16
        rw [fr _ (Or.inl rfl), fr _ (Or.inr rfl)]
        exact k1 hc
      · have hmr : tm ∈ rest := by
          rcases List.mem_cons.mp hm with h | h
          · exact absurd h htj
          · exact h
        have f1' : ∀ a, 0x68 + tm * 8 ≤ a → a < 0x70 + tm * 8 → reg s1 a = reg st a :=
          fun a h1 h2 => f1 a (by omega) (by omega)
        have hc1 : counts16h s1 pcnt tm := by
          unfold counts16h at hc ⊢
          rw [f1 0x60 (by omega) (by omega), f1' _ (by omega) (by omega)]
          exact hc
        rw [k2 hmr hc1, checks16h_congr st s1 tm (fun a h1 h2 _ _ => f1' a h1 h2)]
        unfold TCNT16
        rw [f1' _ (by omega) (by omega), f1' _ (by omega) (by omega)]

theorem h8300h_for_prescale (pcnt pulse : Nat) (l : List Nat) :
    ∀ (st : Sim) (t : Itu) (r : Sim × Itu), h8300h_timer16_for pcnt pulse l st t = some r →
      r.2.prescale = t.prescale := by
  induction l with
  | nil => intro st t r h; rw [← Option.some.inj h]
  | cons j rest ih =>
    intro st t r h
    unfold h8300h_timer16_for at h
    cases hc : h8300h_timer16_channel st t pcnt j pulse with
    | none => rw [hc] at h; simp at h
    | some r1 =>
      rw [hc] at h
      simp only [Option.some_bind] at h
      rw [ih r1.1 r1.2 r h]
      unfold h8300h_timer16_channel at hc
      simp only [] at hc
      split_ifs at hc
      · rw [← Option.some.inj hc]
      · rw [← Option.some.inj hc]
        exact (h8300h_checks_count _ _ _ _).2.2
      · rw [← Option.some.inj hc]
        rfl

theorem itu_prescale_set (t : Itu) (p : Nat) (v : Int) (q : Nat) :
    (t.set_prescale p v).prescale q = if q = p then v else t.prescale q := rfl

theorem h8300h_div_cases (pcnt : Nat) (hp : pcnt < 4) :
    0 < h8300h_prescale_div.getD pcnt 0 ∧ h8300h_prescale_div.getD pcnt 0 ≤ 8 := by
  interval_cases pcnt <;> decide

/-- One turn of the outer loop of `h8300h_timer16` in which the prescaler
expires, with the arithmetic of the integers: the inner loop is run with the
pulses by which the prescaler is overdue. -/
theorem h8300h_prescaler_eq (st : Sim) (t : Itu) (d pcnt : Nat) (hp : pcnt < 4)
    (hlo : -2147483648 < t.prescale pcnt - d) (hhi : t.prescale pcnt - d ≤ 0) :
    h8300h_timer16_prescaler d pcnt st t =
      (h8300h_timer16_for pcnt (pulses (t.prescale pcnt) d (h8300h_prescale_div.getD pcnt 0))
          (List.range 3) st (t.set_prescale pcnt (t.prescale pcnt - d))).map
        (fun r => (h8300h_timer16_update r.1 r.2,
          r.2.set_prescale pcnt (t.prescale pcnt - d + h8300h_prescale_div.getD pcnt 0))) := by
  obtain ⟨hP0, hP1⟩ := h8300h_div_cases pcnt hp
  unfold h8300h_timer16_prescaler pulses
  have hs : sint32 (t.prescale pcnt - d) = t.prescale pcnt - d :=
    sint32_range _ (by omega) (by omega)
  simp only [hs, itu_prescale_set, ↓reduceIte]
  rw [if_neg (by norm_num; omega), if_pos hhi]
  have e : -(t.prescale pcnt - (d : Int)) = (d : Int) - t.prescale pcnt := by omega
  rw [e]
  cases hf : h8300h_timer16_for pcnt
      (((d : Int) - t.prescale pcnt) / h8300h_prescale_div.getD pcnt 0).toNat (List.range 3) st
      (t.set_prescale pcnt (t.prescale pcnt - d)) with
  | none => rfl
  | some r =>
    have hr := h8300h_for_prescale pcnt _ _ st _ r hf
    simp only [Option.map_some']
    rw [hr, itu_prescale_set, if_pos rfl, sint32_range _ (by omega) (by omega)]

@[simp] theorem mem_set_mem (st : Sim) (a v a' : Nat) :
    mem (set_mem st a v) a' = if a' = a then v % 256 else mem st a' := by
  unfold mem set_mem upd uchar
  by_cases h : a' = a <;> simp [h]

@[simp] theorem reg_set_mem (st : Sim) (a v a' : Nat) : reg (set_mem st a v) a' = reg st a' := rfl

theorem h8300s_checks_count (st : Sim) (t : Tpu) (tm b cnt : Nat) :
    (h8300s_timer16_checks st t tm b cnt).2 = checks16s st b cnt ∧
      (h8300s_timer16_checks st t tm b cnt).2 < 65536 ∧
      (h8300s_timer16_checks st t tm b cnt).1.prescale = t.prescale := by
  unfold h8300s_timer16_checks checks16s
  simp only []
  refine ⟨?_, ?_, ?_⟩
  · split_ifs <;> simp_all
  · split_ifs <;> simp_all
  · split_ifs <;> rfl

theorem checks16s_congr (s s' : Sim) (b : Nat)
    (h : ∀ a, b ≤ a → a < b + 12 → a ≠ b + 6 → a ≠ b + 7 → mem s' a = mem s a) (c : Nat) :
    checks16s s' b c = checks16s s b c := by
  unfold checks16s
  rw [h (b + 0) (by omega) (by omega) (by omega) (by omega),
    h (b + 8) (by omega) (by omega) (by omega) (by omega),
    h (b + 9) (by omega) (by omega) (by omega) (by omega),
    h (b + 10) (by omega) (by omega) (by omega) (by omega),
    h (b + 11) (by omega) (by omega) (by omega) (by omega)]

/-- The body of the inner loop of `h8300s_timer16`: it has a result when the
pulses leave the addition within `int`, it writes the counter of its channel
only, and for a started channel that counts on the expired prescaler the
counter it leaves is what the checks make of the count plus `pulse`. -/
theorem h8300s_channel_obs (st : Sim) (t : Tpu) (pcnt tm b pulse : Nat)
    (hpl : pulse ≤ 2147418112) :
    ∃ st' t', h8300s_timer16_channel st t pcnt tm b pulse = some (st', t') ∧
      (∀ a, a ≠ b + 6 → a ≠ b + 7 → mem st' a = mem st a) ∧ st'.eightbit = st.eightbit ∧
      t'.prescale = t.prescale ∧
      (reg st 0xc0 &&& (1 <<< tm) ≠ 0 → mem st (b + 0) &&& 0x07 = pcnt →
        TPU_TCNT st' b = checks16s st b (TPU_TCNT st b + pulse)) := by
  have g1 := mem_lt st (b + 6)
  have g2 := mem_lt st (b + 7)
  have hcnt : mem st (b + 6) <<< 8 ||| mem st (b + 7) < 65536 := by
    rw [shl8_or _ _ g2]
    omega
  unfold h8300s_timer16_channel
  by_cases hs : reg st 0xc0 &&& (1 <<< tm) = 0
  · rw [if_pos hs]
    exact ⟨st, t, rfl, fun _ _ _ => rfl, rfl, rfl, fun h => absurd hs h⟩
  · rw [if_neg hs]
    simp only []
    by_cases hsel : mem st (b + 0) &&& 0x07 = pcnt
    · rw [if_pos hsel, if_neg (by norm_num; omega)]
      obtain ⟨c1, c2, c3⟩ := h8300s_timer16_checks st (t.set_tsr tm (t.tsr tm &&& mem st (b + 5)))
        tm b ((mem st (b + 6) <<< 8 ||| mem st (b + 7)) + pulse) |> fun _ =>
          h8300s_checks_count st (t.set_tsr tm (t.tsr tm &&& mem st (b + 5))) tm b
            ((mem st (b + 6) <<< 8 ||| mem st (b + 7)) + pulse)
      refine ⟨_, _, rfl, fun a h1 h2 => ?_, rfl, c3, fun _ _ => ?_⟩
      · rw [mem_set_mem, if_neg h2, mem_set_mem, if_neg h1]
      · unfold TPU_TCNT
        rw [mem_set_mem, if_neg (by omega), mem_set_mem, if_pos rfl, mem_set_mem, if_pos rfl,
          join16 _ c2, c1]
    · rw [if_neg hsel]
      exact ⟨st, _, rfl, fun _ _ _ => rfl, rfl, rfl, fun _ h => absurd h hsel⟩

theorem tpubase_spacing (i j bi bj : Nat) (hi : index tpubase i = some bi)
    (hj : index tpubase j = some bj) (hne : i ≠ j) : bi + 16 ≤ bj ∨ bj + 16 ≤ bi := by
  unfold index at hi hj
  simp only [Int.natCast_nonneg, not_lt.mpr, ↓reduceIte, Int.toNat_ofNat] at hi hj
  have h1 : i < 6 := (List.get?_eq_some.mp hi).1
  have h2 : j < 6 := (List.get?_eq_some.mp hj).1
  interval_cases i <;> interval_cases j <;> simp_all [tpubase] <;> omega

theorem h8300s_for_obs (pcnt pulse tm b : Nat) (hpl : pulse ≤ 2147418112) (n : Nat) :
    ∀ (tm0 : Nat) (st : Sim) (t : Tpu), tm0 + n ≤ 6 →
      ∃ st' t', h8300s_timer16_for pcnt pulse n tm0 st t = some (st', t', tm0 + n) ∧
        (∀ a, (∀ j bj, tm0 ≤ j → j < tm0 + n → index tpubase j = some bj →
          a ≠ bj + 6 ∧ a ≠ bj + 7) → mem st' a = mem st a) ∧
        st'.eightbit = st.eightbit ∧ t'.prescale = t.prescale ∧
        (tm0 ≤ tm → tm < tm0 + n → counts16s st pcnt tm b →
          TPU_TCNT st' b = checks16s st b (TPU_TCNT st b + pulse)) := by
  induction n with
  | zero =>
    intro tm0 st t _
    exact ⟨st, t, rfl, fun _ _ => rfl, rfl, rfl, fun h1 h2 => by omega⟩
  | succ n ih =>
    intro tm0 st t hle
    have h0 : tm0 < 6 := by omega
    obtain ⟨b0, hb0⟩ : ∃ b0, index tpubase tm0 = some b0 := by
      interval_cases tm0 <;> exact ⟨_, rfl⟩
    obtain ⟨s1, t1, e1, f1, g1, p1, k1⟩ := h8300s_channel_obs st t pcnt tm0 b0 pulse hpl
    obtain ⟨s2, t2, e2, f2, g2, p2, k2⟩ := ih (tm0 + 1) s1 t1 (by omega)
    refine ⟨s2, t2, ?_, fun a ha => ?_, g2.trans g1, p2.trans p1, fun h1 h2 hc => ?_⟩
    · unfold h8300s_timer16_for
      rw [hb0]
      simp only
      rw [e1]
      simp only [Option.some_bind]
      rw [e2, Nat.add_assoc, Nat.add_comm 1 n]
    · rw [f2 a (fun j bj hj1 hj2 hbj => ha j bj (by omega) (by omega) hbj)]
      exact f1 a (ha tm0 b0 (le_refl _) (by omega) hb0).1 (ha tm0 b0 (le_refl _) (by omega) hb0).2
    · obtain ⟨hb, hst, hsel⟩ := hc
      by_cases htj : tm = tm0
      · subst htj
        rw [hb0] at hb
        obtain rfl := Option.some.inj hb
        have fr : ∀ a, (a = b0 + 6 ∨ a = b0 + 7) → mem s2 a = mem s1 a := by
          intro a ha
          refine f2 a (fun j bj hj1 hj2 hbj => ?_)
          have := tpubase_spacing tm j b0 bj hb0 hbj (by omega)
          omega
        unfold TPU_TCNT
        rw [fr _ (Or.inl rfl), fr _ (Or.inr rfl)]
        exact k1 hst hsel
      · have sp := tpubase_spacing tm tm0 b b0 hb hb0 htj
        have f1' : ∀ a, b ≤ a → a < b + 12 → mem s1 a = mem st a :=
          fun a h1 h2 => f1 a (by omega) (by omega)
        have hc1 : counts16s s1 pcnt tm b := by
          refine ⟨hb, ?_, ?_⟩
          · unfold reg; rw [g1]; exact hst
          · rw [f1' _ (by omega) (by omega)]; exact hsel
        rw [k2 (by omega) (by omega) hc1, checks16s_congr st s1 b (fun a h1 h2 _ _ => f1' a h1 h2)]
        unfold TPU_TCNT
        rw [f1' _ (by omega) (by omega), f1' _ (by omega) (by omega)]

theorem tpu_prescale_set (t : Tpu) (p : Nat) (v : Int) (q : Nat) :
    (t.set_prescale p v).prescale q = if q = p then v else t.prescale q := rfl

theorem h8300s_div_cases (pcnt : Nat) (hp : pcnt < 4) :
    0 < h8300s_prescale_div.getD pcnt 0 ∧ h8300s_prescale_div.getD pcnt 0 ≤ 64 := by
  interval_cases pcnt <;> decide

/-- One turn of the outer loop of `h8300s_timer16` in which the prescaler
expires and the pulses leave the additions within `int`: the inner loop is run
with the pulses by which the prescaler is overdue and leaves `tm = TPU_CH`, so
the statement after it indexes `tpubase` and `tsr` outside their bounds. -/
theorem h8300s_prescaler_eq (st : Sim) (t : Tpu) (d pcnt : Nat) (hp : pcnt < 4)
    (hlo : -2147483648 < t.prescale pcnt - d) (hhi : t.prescale pcnt - d ≤ 0) :
    h8300s_timer16_prescaler d pcnt st t =
      (h8300s_timer16_for pcnt (pulses (t.prescale pcnt) d (h8300s_prescale_div.getD pcnt 0))
          TPU_CH 0 st (t.set_prescale pcnt (t.prescale pcnt - d))).bind (fun _ => none) ∧
    h8300s_timer16_prescaler d pcnt st t = none := by
  obtain ⟨hP0, hP1⟩ := h8300s_div_cases pcnt hp
  have key : h8300s_timer16_prescaler d pcnt st t =
      (h8300s_timer16_for pcnt (pulses (t.prescale pcnt) d (h8300s_prescale_div.getD pcnt 0))
          TPU_CH 0 st (t.set_prescale pcnt (t.prescale pcnt - d))).bind (fun _ => none) := by
    unfold h8300s_timer16_prescaler pulses
    have hs : sint32 (t.prescale pcnt - d) = t.prescale pcnt - d :=
      sint32_range _ (by omega) (by omega)
    simp only [hs, tpu_prescale_set, ↓reduceIte]
    rw [if_neg (by norm_num; omega), if_pos hhi]
    have e : -(t.prescale pcnt - (d : Int)) = (d : Int) - t.prescale pcnt := by omega
    rw [e]
    cases hf : h8300s_timer16_for pcnt
        (((d : Int) - t.prescale pcnt) / h8300s_prescale_div.getD pcnt 0).toNat TPU_CH 0 st
        (t.set_prescale pcnt (t.prescale pcnt - d)) with
    | none => rfl
    | some r =>
      obtain ⟨s1, t1, tm1⟩ := r
      simp only [Option.some_bind]
      have htm : tm1 = 6 := by
        have hfor : ∀ (n tm0 : Nat) (s : Sim) (u : Tpu) (x : Sim × Tpu × Nat),
            h8300s_timer16_for pcnt
              (((d : Int) - t.prescale pcnt) / h8300s_prescale_div.getD pcnt 0).toNat n tm0 s u
              = some x → x.2.2 = tm0 + n := by
          intro n
          induction n with
          | zero => intro tm0 s u x hx; rw [← Option.some.inj hx]; rfl
          | succ n ih =>
            intro tm0 s u x hx
            unfold h8300s_timer16_for at hx
            cases hi : index tpubase tm0 with
            | none => rw [hi] at hx; simp at hx
            | some b0 =>
              rw [hi] at hx
              simp only at hx
              cases hc : h8300s_timer16_channel s u pcnt tm0 b0
                  (((d : Int) - t.prescale pcnt) / h8300s_prescale_div.getD pcnt 0).toNat with
              | none => rw [hc] at hx; simp at hx
              | some r1 =>
                rw [hc] at hx
                simp only [Option.some_bind] at hx
                rw [ih _ _ _ _ hx]
                omega
        have := hfor TPU_CH 0 _ _ _ hf
        simpa [TPU_CH] using this
      subst htm
      rfl
  refine ⟨key, ?_⟩
  rw [key]
  cases h8300s_timer16_for pcnt (pulses (t.prescale pcnt) d (h8300s_prescale_div.getD pcnt 0))
      TPU_CH 0 st (t.set_prescale pcnt (t.prescale pcnt - d)) <;> rfl

theorem timer16_update_reg (st : Sim) (t : Itu) (a : Nat) (h1 : a ≠ 0x64) (h2 : a ≠ 0x65)
    (h3 : a ≠ 0x66) : reg (h8300h_timer16_update st t) a = reg st a := by
  unfold h8300h_timer16_update
  simp only [reg_set_reg, if_neg h1, if_neg h2, if_neg h3]

theorem pulses_le (r : Int) (d : Nat) (P : Int) (hP : 0 < P) (hhi : r - d ≤ 0) :
    (pulses r d P : Int) ≤ d - r := by
  unfold pulses
  have h0 : (0 : Int) ≤ d - r := by omega
  rw [Int.toNat_of_nonneg (Int.ediv_nonneg h0 (le_of_lt hP))]
  exact Int.ediv_le_self _ h0

/-- What an expiry adds.  An expiry of prescaler `pcnt` in `h8300h_timer16`, and the
inner loop that an expiry runs in `h8300s_timer16`, increase the 16-bit counter
of every started channel whose clock select is `pcnt` by `pulse`, the number of
whole periods `(cycles_diff - r) / prescale_div[pcnt]` by which the prescaler,
which had `r` cycles left, is overdue, before the overflow and compare checks;
this holds while `r - cycles_diff` is not below `-(2^31 - 2^16)`, so that no
addition leaves `int`.  In `h8300s_timer16` the expiry has no defined result
after the loop (see C29). -/
theorem timer16_adds_pulse (h : Sim) (t : Itu) (s : Sim) (u : Tpu) (d pcnt i j b : Nat)
    (hp : pcnt < 4) (hi : i < 3)
    (hlo : -2147418112 ≤ t.prescale pcnt - d) (hhi : t.prescale pcnt - d ≤ 0)
    (hlo' : -2147418112 ≤ u.prescale pcnt - d) (hhi' : u.prescale pcnt - d ≤ 0)
    (hc : counts16h h pcnt i) (hc' : counts16s s pcnt j b) :
    (∃ r, h8300h_timer16_prescaler d pcnt h t = some r ∧
      TCNT16 r.1 i = checks16h h i
        (TCNT16 h i + pulses (t.prescale pcnt) d (h8300h_prescale_div.getD pcnt 0))) ∧
    (∃ r, h8300s_timer16_for pcnt (pulses (u.prescale pcnt) d (h8300s_prescale_div.getD pcnt 0))
        TPU_CH 0 s (u.set_prescale pcnt (u.prescale pcnt - d)) = some r ∧
      h8300s_timer16_prescaler d pcnt s u = (some r).bind (fun _ => none) ∧
      TPU_TCNT r.1 b = checks16s s b
        (TPU_TCNT s b + pulses (u.prescale pcnt) d (h8300s_prescale_div.getD pcnt 0))) := by
  constructor
  · have hP := h8300h_div_cases pcnt hp
    have hpl := pulses_le (t.prescale pcnt) d _ hP.1 hhi
    obtain ⟨s1, t1, e1, f1, _, k1⟩ := h8300h_for_obs pcnt
      (pulses (t.prescale pcnt) d (h8300h_prescale_div.getD pcnt 0)) i (by omega) (List.range 3)
      (List.nodup_range 3) h (t.set_prescale pcnt (t.prescale pcnt - d))
    refine ⟨(h8300h_timer16_update s1 t1, t1.set_prescale pcnt
      (t.prescale pcnt - d + h8300h_prescale_div.getD pcnt 0)), ?_, ?_⟩
    · rw [h8300h_prescaler_eq h t d pcnt hp (by omega) hhi, e1]
      rfl
    · show TCNT16 (h8300h_timer16_update s1 t1) i = _
      rw [← k1 (by simp; omega) hc]
      unfold TCNT16
      rw [timer16_update_reg _ _ _ (by omega) (by omega) (by omega),
        timer16_update_reg _ _ _ (by omega) (by omega) (by omega)]
  · have hP := h8300s_div_cases pcnt hp
    have hpl := pulses_le (u.prescale pcnt) d _ hP.1 hhi'
    have hj : j < 6 := by
      have := hc'.1
      unfold index at this
      simp only [Int.natCast_nonneg, not_lt.mpr, ↓reduceIte, Int.toNat_ofNat] at this
      exact (List.get?_eq_some.mp this).1
    obtain ⟨s1, t1, e1, _, _, _, k1⟩ := h8300s_for_obs pcnt
      (pulses (u.prescale pcnt) d (h8300s_prescale_div.getD pcnt 0)) j b (by omega) 6 0 s
      (u.set_prescale pcnt (u.prescale pcnt - d)) (by omega)
    refine ⟨(s1, t1, 0 + 6), e1, ?_, k1 (by omega) (by omega) hc'⟩
    rw [(h8300s_prescaler_eq s u d pcnt hp (by omega) hhi').1]
    exact congrArg
      (fun x : Option (Sim × Tpu × Nat) => x.bind (fun _ => (none : Option (Sim × Tpu)))) e1

set_option maxRecDepth 100000 in
theorem timer16_adds_pulse_witness :
    counts16h (itu_state 5) 0 0 ∧ counts16s (tpu_state 5) 0 0 0xffffd0 ∧
    pulses (Itu.power_on.prescale 0) 7 (h8300h_prescale_div.getD 0 0) = 6 ∧
    ((∃ r, h8300h_timer16_prescaler 7 0 (itu_state 5) Itu.power_on = some r ∧
      TCNT16 r.1 0 = checks16h (itu_state 5) 0
        (TCNT16 (itu_state 5) 0 +
          pulses (Itu.power_on.prescale 0) 7 (h8300h_prescale_div.getD 0 0))) ∧
    (∃ r, h8300s_timer16_for 0 (pulses (Tpu.power_on.prescale 0) 7 (h8300s_prescale_div.getD 0 0))
        TPU_CH 0 (tpu_state 5) (Tpu.power_on.set_prescale 0 (Tpu.power_on.prescale 0 - 7))
          = some r ∧
      h8300s_timer16_prescaler 7 0 (tpu_state 5) Tpu.power_on = (some r).bind (fun _ => none) ∧
      TPU_TCNT r.1 0xffffd0 = checks16s (tpu_state 5) 0xffffd0
        (TPU_TCNT (tpu_state 5) 0xffffd0 +
          pulses (Tpu.power_on.prescale 0) 7 (h8300s_prescale_div.getD 0 0)))) :=
  ⟨by decide, by decide, by decide,
    timer16_adds_pulse (itu_state 5) Itu.power_on (tpu_state 5) Tpu.power_on 7 0 0 0 0xffffd0
      (by decide) (by decide) (by decide) (by decide) (by decide) (by decide) (by decide)
      (by decide)⟩

set_option maxRecDepth 100000 in
/-- C29: on an H8S whose TPU channel 0 is started and counts on prescaler 0
from 0xffff, a call with `cycles_diff = 2` makes the counter overflow.  The
inner loop leaves the overflow bit 0x10 in `tsr[0]` only, the status register
TSR of channel 0 in memory still 0 and `tm = 6 = TPU_CH`; the statement
`TPU_TSR (tm) |= tsr[tm]` that follows indexes `tpubase` and `tsr` with 6, so
the call has no defined result. -/
theorem tpu_status_index_out_of_bounds :
    counts16s (tpu_state 0xffff) 0 0 0xffffd0 ∧
    (h8300s_timer16_for 0 1 TPU_CH 0 (tpu_state 0xffff) (Tpu.power_on.set_prescale 0 (-1))).map
      (fun r => (TPU_TCNT r.1 0xffffd0, mem r.1 (0xffffd0 + 5), r.2.1.tsr 0, r.2.2))
      = some (0, 0, 0x10, 6) ∧
    index tpubase 6 = none ∧
    (h8300s_timer16 (tpu_state 0xffff) Tpu.power_on 2).isSome = false := by
  decide

/-- Every expiry of a prescaler in `h8300s_timer16` ends in the statement that
indexes `tpubase` and `tsr` with `TPU_CH`: the turn of the outer loop has no
defined result. -/
theorem tpu_expiry_undefined (s : Sim) (u : Tpu) (d pcnt : Nat) (hp : pcnt < 4)
    (hlo : -2147483648 < u.prescale pcnt - d) (hhi : u.prescale pcnt - d ≤ 0) :
    h8300s_timer16_prescaler d pcnt s u = none :=
  (h8300s_prescaler_eq s u d pcnt hp hlo hhi).2

theorem tpu_expiry_undefined_witness :
    Tpu.power_on.prescale 0 - (2 : Nat) ≤ 0 ∧
      h8300s_timer16_prescaler 2 0 (tpu_state 0xffff) Tpu.power_on = none :=
  ⟨by decide, tpu_expiry_undefined (tpu_state 0xffff) Tpu.power_on 2 0 (by decide) (by decide)
    (by decide)⟩

set_option maxRecDepth 100000 in
/-- C30: channel 0 of the H8/300H 16-bit timers counts from 9 to GRA = 10 in a
call with `cycles_diff = 2`.  With channel 1 started too (TSTR = 0x03) the
compare match bit of channel 0 is gone when the call returns: TISRA and the
shadow `tisra` are 0, where they are 1 with channel 0 alone (TSTR = 0x01).  And
once the bit is in TISRA, a later call in which only channel 1 is started
(TSTR = 0x02) clears it, without any write to TISRA by software. -/
theorem timer16_pending_bit_cleared :
    ((h8300h_timer16 (itu_pair_state 0x03) Itu.power_on 2).map
      (fun r => (TCNT16 r.1 0, reg r.1 0x64, r.2.tisra))) = some (10, 0, 0) ∧
    ((h8300h_timer16 (itu_pair_state 0x01) Itu.power_on 2).map
      (fun r => (TCNT16 r.1 0, reg r.1 0x64, r.2.tisra))) = some (10, 1, 1) ∧
    (((h8300h_timer16 (itu_pair_state 0x01) Itu.power_on 2).bind
      (fun r => h8300h_timer16 (set_reg r.1 0x60 0x02) r.2 1)).map
      (fun r => (TCNT16 r.1 0, reg r.1 0x64, r.2.tisra))) = some (10, 0, 0) := by
  decide

set_option maxRecDepth 100000 in
/-- C27: two channels of the H8/300H 8-bit timers run in 8-bit mode, channel 0
on prescaler 0 from 5 and channel 1 on prescaler 1 from 0x50.  A call `timer8`
with `cycles_diff = 8` makes prescaler 0 expire and not prescaler 1; after it
the counter of channel 1 is 6, the count left in `cnt` by channel 0, and not
0x50.  On the RX, channel 0 of the 8-bit timers is enabled in 8-bit mode with
the clock select 5 and counts from 5: the call `tmr_update (3, 1)` makes
prescaler 0 expire and no other, and the counter is 6 after it; the call
`tmr_update (3, 2)` makes prescalers 0 and 1 expire, and the counter is 7: the
channel is ticked by every prescaler that expires, whatever its clock select
and whatever `get_tmrisr` finds in its unassigned local. -/
theorem timer8_ticks_unselected_channels :
    (reg timer8_pair_state 0x81 &&& 0x07 ≠ 0 + 1 ∧
      sint32 (timer8_pair_state.prescale 0 - 8) ≤ 0 ∧
      ¬ sint32 (timer8_pair_state.prescale 1 - 8) ≤ 0 ∧
      reg timer8_pair_state 0x89 = 0x50 ∧
      (timer8 timer8_pair_state 8).map (fun r => (reg r 0x88, reg r 0x89)) = some (6, 6)) ∧
    (Rx.tmr_reg (Rx.tmr_state 5 5) Rx.tmrbase_ptr 0 10 &&& 0x18 ≠ 0x18 ∧
      Rx.tmr_reg (Rx.tmr_state 5 5) Rx.tmrbase_ptr 0 10 &&& 0x07 = 5 ∧
      Rx.tmr_reg (Rx.tmr_state 5 5) Rx.tmrbase_ptr 0 8 = 5 ∧
      ((Rx.tmr_update (Rx.tmr_state 5 5) 3 1 0).1.isOk = true ∧
        Rx.tmr_reg (Rx.tmr_update (Rx.tmr_state 5 5) 3 1 0).2 Rx.tmrbase_ptr 0 8 = 6 ∧
        (List.range 7).map (Rx.tmr_update (Rx.tmr_state 5 5) 3 1 0).2.prescale
          = [1, 1, 7, 31, 63, 1023, 8191]) ∧
      ((Rx.tmr_update (Rx.tmr_state 5 5) 3 1 0xff).1.isOk = true ∧
        Rx.tmr_reg (Rx.tmr_update (Rx.tmr_state 5 5) 3 1 0xff).2 Rx.tmrbase_ptr 0 8 = 6) ∧
      ((Rx.tmr_update (Rx.tmr_state 5 5) 3 2 0).1.isOk = true ∧
        Rx.tmr_reg (Rx.tmr_update (Rx.tmr_state 5 5) 3 2 0).2 Rx.tmrbase_ptr 0 8 = 7 ∧
        (List.range 7).map (Rx.tmr_update (Rx.tmr_state 5 5) 3 2 0).2.prescale
          = [0, 2, 6, 30, 62, 1022, 8190])) := by
  decide

end H8

namespace Rx

theorem uint32_of_nat (n : Nat) (h : n < 4294967296) : uint32 (n : Int) = n := by
  unfold uint32
  rw [Int.emod_eq_of_lt (Int.natCast_nonneg n) (by exact_mod_cast h)]
  rfl

theorem sint32_of_nat (n : Nat) (h : n < 2147483648) : sint32 (n : Int) = n := by
  unfold sint32
  rw [Int.emod_eq_of_lt (Int.natCast_nonneg n) (by omega)]
  rw [if_pos (by exact_mod_cast h)]

theorem shl_int_one (k : Nat) (hk : k ≤ 31) :
    shl_int 1 k = if 2 ^ k = 2147483648 then -2147483648 else ((2 ^ k : Nat) : Int) := by
  interval_cases k <;> decide

theorem two_pow_le_31 (k : Nat) (hk : k ≤ 31) : 2 ^ k ≤ 2147483648 := by
  calc 2 ^ k ≤ 2 ^ 31 := Nat.pow_le_pow_right (by norm_num) hk
    _ = 2147483648 := by norm_num

theorem and_pow_ne_iff (a k : Nat) (ha : a < 2 ^ (k + 1)) : a &&& 2 ^ k ≠ 0 ↔ 2 ^ k ≤ a := by
  rw [Nat.and_two_pow]
  have hp : 0 < 2 ^ k := Nat.pos_pow_of_pos k (by norm_num)
  have hd : a / 2 ^ k < 2 := by
    rw [Nat.div_lt_iff_lt_mul hp]
    rw [pow_succ] at ha
    omega
  by_cases h : 2 ^ k ≤ a
  · have h1 : a / 2 ^ k = 1 := by
      have : 1 ≤ a / 2 ^ k := (Nat.le_div_iff_mul_le hp).mpr (by omega)
      omega
    have : a.testBit k = true := by
      rw [Nat.testBit_to_div_mod, h1]
      decide
    simp [this, h, Nat.ne_of_gt hp]
  · have h1 : a / 2 ^ k = 0 := Nat.div_eq_of_lt (by omega)
    have : a.testBit k = false := by
      rw [Nat.testBit_to_div_mod, h1]
      decide
    simp [this, h]

theorem mask_eq (P : Nat) (h2 : 2 ≤ P) (hP : P ≤ 2147483648) :
    uint32 (sint32 ((if P = 2147483648 then -2147483648 else (P : Int)) - 1)) = P - 1 := by
  unfold uint32 sint32
  split_ifs <;> omega

theorem sub_pow_eq (a P : Nat) (ha : a < P) (hh : P ≤ 2 * a) (hP : P ≤ 2147483648) :
    sint32 ((a : Int) - (if P = 2147483648 then -2147483648 else (P : Int))) = (a : Int) - P := by
  unfold sint32
  split_ifs <;> omega

theorem pow_dvd_32 (j : Nat) (h31 : j + 1 ≤ 31) : ((2 ^ (j + 1) : Nat) : Int) ∣ 4294967296 := by
  have e : (4294967296 : Nat) = 2 ^ (j + 1) * 2 ^ (31 - j) := by
    rw [← pow_add, show j + 1 + (31 - j) = 32 by omega]
    norm_num
  exact ⟨((2 ^ (31 - j) : Nat) : Int), by exact_mod_cast e⟩

theorem uint32_cast (v : Int) : (uint32 v : Int) = v % 4294967296 := by
  unfold uint32
  exact Int.toNat_of_nonneg (Int.emod_nonneg _ (by norm_num))

theorem uint32_mod_pow (v : Int) (j : Nat) (h31 : j + 1 ≤ 31) :
    ((uint32 v % 2 ^ (j + 1) : Nat) : Int) = v % ((2 ^ (j + 1) : Nat) : Int) := by
  rw [Int.natCast_mod, uint32_cast]
  exact Int.emod_emod_of_dvd v (pow_dvd_32 j h31)

theorem int_and_mask (v : Int) (j : Nat) (h31 : j + 1 ≤ 31) :
    int_and v (sint32 (shl_int 1 (j + 1) - 1)) = ((uint32 v % 2 ^ (j + 1) : Nat) : Int) := by
  have hP31 := two_pow_le_31 (j + 1) h31
  have hHpos : 0 < 2 ^ j := Nat.pos_pow_of_pos _ (by norm_num)
  have hPH : 2 ^ (j + 1) = 2 * 2 ^ j := by rw [pow_succ]; omega
  have hlt : uint32 v % 2 ^ (j + 1) < 2 ^ (j + 1) := Nat.mod_lt _ (by omega)
  unfold int_and
  rw [shl_int_one (j + 1) h31, mask_eq _ (by omega) hP31, Nat.and_pow_two_sub_one_eq_mod,
    sint32_of_nat _ (by omega)]

theorem int_and_bit (a j : Nat) (h31 : j + 1 ≤ 31) (ha : a < 2 ^ (j + 1)) :
    int_and (a : Int) (shl_int 1 j) = ((a &&& 2 ^ j : Nat) : Int) := by
  have hP31 := two_pow_le_31 (j + 1) h31
  have hPH : 2 ^ (j + 1) = 2 * 2 ^ j := by rw [pow_succ]; omega
  unfold int_and
  rw [shl_int_one j (by omega), if_neg (by omega), uint32_of_nat _ (by omega),
    uint32_of_nat _ (by omega), sint32_of_nat]
  exact lt_of_le_of_lt Nat.and_le_right (by omega)

/-- What `sign_ext` computes for a width from 1 to 31: the remainder of `v`
modulo 2^bits, less 2^bits when it is 2^(bits-1) or more. -/
theorem sign_ext_eq (v : Int) (k : Nat) (h1 : 1 ≤ k) (h31 : k ≤ 31) :
    sign_ext v k = some (if ((2 ^ (k - 1) : Nat) : Int) ≤ v % ((2 ^ k : Nat) : Int)
      then v % ((2 ^ k : Nat) : Int) - ((2 ^ k : Nat) : Int) else v % ((2 ^ k : Nat) : Int)) := by
  obtain ⟨j, rfl⟩ : ∃ j, k = j + 1 := ⟨k - 1, by omega⟩
  have hP31 := two_pow_le_31 (j + 1) h31
  have hHpos : 0 < 2 ^ j := Nat.pos_pow_of_pos _ (by norm_num)
  have hPH : 2 ^ (j + 1) = 2 * 2 ^ j := by rw [pow_succ]; omega
  have halt : uint32 v % 2 ^ (j + 1) < 2 ^ (j + 1) := Nat.mod_lt _ (by omega)
  have hiff := and_pow_ne_iff (uint32 v % 2 ^ (j + 1)) j halt
  rw [← uint32_mod_pow v j h31]
  unfold sign_ext
  rw [if_pos (by omega), if_neg (by omega)]
  simp only [Int.toNat_ofNat, Nat.add_sub_cancel, int_and_mask v j h31,
    int_and_bit _ j h31 halt]
  by_cases hge : 2 ^ j ≤ uint32 v % 2 ^ (j + 1)
  · rw [if_pos (by exact_mod_cast hiff.mpr hge), if_pos (by exact_mod_cast hge),
      shl_int_one (j + 1) h31, sub_pow_eq _ _ halt (by omega) hP31]
  · have hz : uint32 v % 2 ^ (j + 1) &&& 2 ^ j = 0 := by
      by_contra hne
      exact hge (hiff.mp hne)
    rw [if_neg (by rw [hz]; simp), if_neg (by exact_mod_cast hge)]

/-- C40: for every integer `v` and every width `bits` from 1 to 31,
`sign_ext (v, bits)` returns the one value in [-2^(bits-1), 2^(bits-1)) that is
congruent to `v` modulo 2^bits; for `bits` of 32 or more it returns `v`
unchanged; and `sign_ext` is idempotent: applied to its result with the same
width it returns that result. -/
theorem sign_ext_centered (v bits : Int) (hb : 1 ≤ bits) :
    (bits < 32 → ∃ r, sign_ext v bits = some r ∧
      -(2 : Int) ^ (bits.toNat - 1) ≤ r ∧ r < (2 : Int) ^ (bits.toNat - 1) ∧
      (2 : Int) ^ bits.toNat ∣ r - v ∧
      ∀ r', -(2 : Int) ^ (bits.toNat - 1) ≤ r' → r' < (2 : Int) ^ (bits.toNat - 1) →
        (2 : Int) ^ bits.toNat ∣ r' - v → r' = r) ∧
    (32 ≤ bits → sign_ext v bits = some v) ∧
    (∀ r, sign_ext v bits = some r → sign_ext r bits = some r) := by
  have key : bits < 32 → ∃ r, sign_ext v bits = some r ∧
      -(2 : Int) ^ (bits.toNat - 1) ≤ r ∧ r < (2 : Int) ^ (bits.toNat - 1) ∧
      (2 : Int) ^ bits.toNat ∣ r - v ∧
      (∀ r', -(2 : Int) ^ (bits.toNat - 1) ≤ r' → r' < (2 : Int) ^ (bits.toNat - 1) →
        (2 : Int) ^ bits.toNat ∣ r' - v → r' = r) ∧ sign_ext r bits = some r := by
    intro hlt
    obtain ⟨k, rfl⟩ : ∃ k : Nat, bits = k := ⟨bits.toNat, (Int.toNat_of_nonneg (by omega)).symm⟩
    have h1 : 1 ≤ k := by omega
    have h31 : k ≤ 31 := by omega
    obtain ⟨j, rfl⟩ : ∃ j, k = j + 1 := ⟨k - 1, by omega⟩
    have eall := fun x : Int => sign_ext_eq x (j + 1) h1 h31
    simp only [Int.toNat_ofNat, Nat.add_sub_cancel] at eall ⊢
    have hHpos : 0 < 2 ^ j := Nat.pos_pow_of_pos _ (by norm_num)
    have hPH : 2 ^ (j + 1) = 2 * 2 ^ j := by rw [pow_succ]; omega
    have cP : ((2 : Int) ^ (j + 1)) = ((2 ^ (j + 1) : Nat) : Int) := by
      rw [Nat.cast_pow]; rfl
    have cH : ((2 : Int) ^ j) = ((2 ^ j : Nat) : Int) := by
      rw [Nat.cast_pow]; rfl
    rw [cP, cH]
    generalize 2 ^ (j + 1) = P at eall hPH ⊢
    generalize 2 ^ j = H at eall hPH hHpos ⊢
    subst hPH
    have e1 := eall v
    have hm0 : 0 ≤ v % ((2 * H : Nat) : Int) := Int.emod_nonneg _ (by omega)
    have hm1 : v % ((2 * H : Nat) : Int) < ((2 * H : Nat) : Int) :=
      Int.emod_lt_of_pos _ (by omega)
    have hq := Int.ediv_add_emod v ((2 * H : Nat) : Int)
    generalize v / ((2 * H : Nat) : Int) = q at hq
    generalize hm : v % ((2 * H : Nat) : Int) = m at e1 hm0 hm1 hq
    have uniq : ∀ r r' : Int, -(H : Int) ≤ r → r < H → -(H : Int) ≤ r' → r' < H →
        (((2 * H : Nat) : Int) ∣ r - v) → (((2 * H : Nat) : Int) ∣ r' - v) → r' = r := by
      intro r r' a1 a2 b1 b2 d1 d2
      have d : ((2 * H : Nat) : Int) ∣ r' - r := by
        have := Int.dvd_sub d2 d1
        rwa [show r' - v - (r - v) = r' - r by ring] at this
      have hz := Int.eq_zero_of_abs_lt_dvd d (by rw [abs_lt]; constructor <;> push_cast <;> omega)
      omega
    have idem : ∀ r : Int, (((2 * H : Nat) : Int) ∣ r - v) → r % ((2 * H : Nat) : Int) = m := by
      intro r d
      rw [← hm]
      exact (Int.emod_emod_of_dvd r (dvd_refl _)).symm.trans
        ((Int.emod_emod_of_dvd r (dvd_refl _)).trans (Int.emod_eq_emod_iff_emod_sub_eq_zero.mpr
          (Int.emod_eq_zero_of_dvd d)))
    by_cases hge : (H : Int) ≤ m
    · rw [if_pos hge] at e1
      have dv : ((2 * H : Nat) : Int) ∣ m - ((2 * H : Nat) : Int) - v :=
        ⟨-q - 1, by rw [← hq]; ring⟩
      refine ⟨_, e1, by push_cast at hm1 ⊢; omega, by push_cast at hm1 ⊢; omega, dv,
        fun r' b1 b2 d2 => uniq _ r' (by push_cast at hm1 ⊢; omega)
          (by push_cast at hm1 ⊢; omega) b1 b2 dv d2, ?_⟩
      rw [eall, idem _ dv, if_pos hge]
    · rw [if_neg hge] at e1
      have dv : ((2 * H : Nat) : Int) ∣ m - v := ⟨-q, by rw [← hq]; ring⟩
      refine ⟨_, e1, by omega, by omega, dv,
        fun r' b1 b2 d2 => uniq _ r' (by omega) (by omega) b1 b2 dv d2, ?_⟩
      rw [eall, idem _ dv, if_neg hge]
  refine ⟨fun hlt => ?_, fun h32 => ?_, fun r hr => ?_⟩
  · obtain ⟨r, a1, a2, a3, a4, a5, _⟩ := key hlt
    exact ⟨r, a1, a2, a3, a4, a5⟩
  · unfold sign_ext
    rw [if_neg (by omega)]
  · by_cases hlt : bits < 32
    · obtain ⟨r0, a1, _, _, _, _, a6⟩ := key hlt
      rw [a1] at hr
      rw [← Option.some.inj hr]
      exact a6
    · unfold sign_ext at hr ⊢
      rw [if_neg hlt] at hr ⊢

set_option maxRecDepth 100000 in
theorem sign_ext_centered_witness :
    (1 : Int) ≤ 8 ∧ sign_ext 200 8 = some (-56) ∧ sign_ext (-56) 8 = some (-56) ∧
    sign_ext 0x12345678 31 = some 0x12345678 ∧ sign_ext 0x7fffffff 31 = some (-1) ∧
    sign_ext (-5) 32 = some (-5) ∧
    (((8 : Int) < 32 → ∃ r, sign_ext 200 8 = some r ∧
      -(2 : Int) ^ ((8 : Int).toNat - 1) ≤ r ∧ r < (2 : Int) ^ ((8 : Int).toNat - 1) ∧
      (2 : Int) ^ (8 : Int).toNat ∣ r - 200 ∧
      ∀ r', -(2 : Int) ^ ((8 : Int).toNat - 1) ≤ r' → r' < (2 : Int) ^ ((8 : Int).toNat - 1) →
        (2 : Int) ^ (8 : Int).toNat ∣ r' - 200 → r' = r) ∧
    (32 ≤ (8 : Int) → sign_ext 200 8 = some 200) ∧
    (∀ r, sign_ext 200 8 = some r → sign_ext r 8 = some r)) :=
  ⟨by decide, by decide, by decide, by decide, by decide, by decide,
    sign_ext_centered 200 8 (by decide)⟩

/-- C37: the split of an address into the outer index, the inner index and the
page offset is injective on the 32-bit addresses; so a byte store to `A`,
whether by `mem_put_byte` or by `mem_put_qi` and whether it goes through or
not, changes neither the stored value nor the classification of any address
`B` different from `A`. -/
theorem split_injective (w : Nat) (st : Mem) (A B v mpc : Nat) (hA : A < 4294967296)
    (hB : B < 4294967296) :
    (split A = split B ↔ A = B) ∧
    (A ≠ B →
      (byte_of (mem_put_byte st A v).2 B = byte_of st B ∧
        ctype_of (mem_put_byte st A v).2 B = ctype_of st B) ∧
      (byte_of (mem_put_qi w st (A : Int) v mpc).2 B = byte_of st B ∧
        ctype_of (mem_put_qi w st (A : Int) v mpc).2 B = ctype_of st B)) := by
  have inj : split A = split B ↔ A = B := by
    rw [split_eq_iff, Nat.mod_eq_of_lt hA, Nat.mod_eq_of_lt hB]
  refine ⟨inj, fun hne => ⟨mem_put_byte_frame st A v B (fun h => hne (inj.mp h)), ?_⟩⟩
  have hu : uint32 (A : Int) = A := uint32_of_nat A hA
  have := Op.run_frame w st (.put_qi (A : Int) v mpc) B (by
    intro t ht
    simp only [Op.targets, Op.stores, Op.resolves, List.append_nil, List.mem_singleton] at ht
    rw [ht, hu]
    exact fun h => hne (inj.mp h))
  exact this

set_option maxRecDepth 100000 in
theorem split_injective_witness :
    (0x1000 : Nat) < 4294967296 ∧ (0x401000 : Nat) < 4294967296 ∧
    split 0x1000 = ⟨0, 1, 0⟩ ∧ split 0x401000 = ⟨1, 1, 0⟩ ∧
    ((split 0x1000 = split 0x401000 ↔ (0x1000 : Nat) = 0x401000) ∧
    ((0x1000 : Nat) ≠ 0x401000 →
      (byte_of (mem_put_byte pushed_state 0x1000 0x55).2 0x401000
          = byte_of pushed_state 0x401000 ∧
        ctype_of (mem_put_byte pushed_state 0x1000 0x55).2 0x401000
          = ctype_of pushed_state 0x401000) ∧
      (byte_of (mem_put_qi 32 pushed_state ((0x1000 : Nat) : Int) 0x55 0).2 0x401000
          = byte_of pushed_state 0x401000 ∧
        ctype_of (mem_put_qi 32 pushed_state ((0x1000 : Nat) : Int) 0x55 0).2 0x401000
          = ctype_of pushed_state 0x401000))) :=
  ⟨by decide, by decide, by decide, by decide,
    split_injective 32 pushed_state 0x1000 0x401000 0x55 0 (by decide) (by decide)⟩

theorem sizeof_memlog_cases (w : Nat) (hw : w = 32 ∨ w = 64) :
    0 < sizeof_memlog w ∧ sizeof_memlog w ≤ 65536 := by
  rcases hw with rfl | rfl <;> decide

theorem memlog_consts (w : Nat) (hw : w = 32 ∨ w = 64) :
    1 ≤ sizeof_memlog w ∧ 1 ≤ 65536 / sizeof_memlog w
      ∧ 65536 / sizeof_memlog w * sizeof_memlog w = 65536 := by
  rcases hw with rfl | rfl <;> decide

theorem log_fits_init (w : Nat) (hw : w = 32 ∨ w = 64) (st : Mem) :
    log_fits w (init_mem w st) := by
  obtain ⟨_, _, hk⟩ := memlog_consts w hw
  unfold log_fits init_mem
  refine ⟨Nat.zero_le _, fun n hn => ?_, fun _ _ => rfl⟩
  simp only [] at hn ⊢
  rw [hk]
  cases hg : st.heap.headD true
  · rw [hg] at hn; cases hn
  · rw [hg] at hn
    simp only [if_true, Option.some.injEq] at hn
    omega

/-- One call `add_memlog` on a log within its allocation, the size it would ask
for being below 2^w: the log is within its allocation afterwards; if the
pointer is not null after the call, the record went to the element
`memlogtail`, which is inside the block, `memlogtail` is one more and the other
elements are kept; if it is null, nothing was stored and `memlogtail` is what
it was. -/
theorem add_memlog_step (w : Nat) (hw : w = 32 ∨ w = 64) (s : Mem) (h : log_fits w s)
    (hs : log_small w s) (mpc addr : Nat) (t : mem_access_type) (d : Nat) :
    log_fits w (add_memlog w s mpc addr t d) ∧
    ((add_memlog w s mpc addr t d).memlog_alloc ≠ none ↔ log_open s) ∧
    (∀ n, (add_memlog w s mpc addr t d).memlog_alloc = some n →
      (add_memlog w s mpc addr t d).memlogtail = s.memlogtail + 1 ∧
      (s.memlogtail + 1) * sizeof_memlog w ≤ n ∧
      (add_memlog w s mpc addr t d).memlog_buffer s.memlogtail = some ⟨mpc, addr, d, t⟩ ∧
      ∀ i, i ≠ s.memlogtail →
        (add_memlog w s mpc addr t d).memlog_buffer i = s.memlog_buffer i) ∧
    ((add_memlog w s mpc addr t d).memlog_alloc = none →
      (add_memlog w s mpc addr t d).memlogtail = s.memlogtail ∧
      ∀ i, (add_memlog w s mpc addr t d).memlog_buffer i = none) ∧
    (add_memlog w s mpc addr t d).heap
      = (if s.memlogsize = s.memlogtail then s.heap.tail else s.heap) := by
  obtain ⟨hS, hk, hkS⟩ := memlog_consts w hw
  obtain ⟨h1, h2, h3⟩ := h
  unfold log_small at hs
  have hmul : (s.memlogsize + 65536 / sizeof_memlog w) * sizeof_memlog w
      = s.memlogsize * sizeof_memlog w + 65536 := by rw [Nat.add_mul, hkS]
  have hle : s.memlogsize + 65536 / sizeof_memlog w
      ≤ (s.memlogsize + 65536 / sizeof_memlog w) * sizeof_memlog w :=
    Nat.le_mul_of_pos_right _ hS
  have hsz := ulong_small w (s.memlogsize * sizeof_memlog w + 65536) hs
  have hsz2 := ulong_small w (s.memlogsize + 65536 / sizeof_memlog w) (by omega)
  have htl := ulong_small w (s.memlogtail + 1) (by omega)
  unfold add_memlog log_fits log_open
  by_cases he : s.memlogsize = s.memlogtail
  · simp only []
    rw [if_pos he, if_pos he]
    cases hg : s.heap.headD true
    · simp only [Bool.false_eq_true, if_false]
      refine ⟨⟨?_, ?_, ?_⟩, ?_, ?_, ?_, ?_⟩
      · rw [hsz2]; omega
      · intro n hn; cases hn
      · intros; trivial
      · constructor
        · intro hne; exact absurd rfl hne
        · rintro (⟨hne, _⟩ | ⟨_, hf⟩)
          · exact absurd he hne
          · cases hf
      · intro n hn; cases hn
      · intro _; exact ⟨by trivial, fun _ => by trivial⟩
      · trivial
    · simp only [if_true]
      refine ⟨⟨?_, ?_, ?_⟩, ?_, ?_, ?_, ?_⟩
      · rw [hsz2, htl]; omega
      · intro n hn
        rw [hsz] at hn
        rw [hsz2, hmul]
        have := Option.some.inj hn
        omega
      · intro hn; cases hn
      · constructor
        · intro _; exact Or.inr ⟨he, by trivial⟩
        · intro _ hn; cases hn
      · intro n hn
        rw [hsz] at hn
        have := Option.some.inj hn
        have hx : (s.memlogtail + 1) * sizeof_memlog w
            ≤ (s.memlogsize + 65536 / sizeof_memlog w) * sizeof_memlog w :=
          Nat.mul_le_mul_right _ (by omega)
        refine ⟨htl, by omega, ?_, fun i hi => ?_⟩
        · unfold upd; rw [if_pos rfl]
        · unfold upd; rw [if_neg hi]
      · intro hn; cases hn
      · trivial
  · simp only []
    rw [if_neg he, if_neg he]
    cases ha : s.memlog_alloc with
    | none =>
      simp only []
      refine ⟨⟨h1, ?_, ?_⟩, ?_, ?_, ?_, ?_⟩
      · intro n hn; rw [ha] at hn; cases hn
      · intro _; exact h3 ha
      · constructor
        · intro hne; exact absurd ha hne
        · rintro (⟨_, hne⟩ | ⟨hf, _⟩)
          · exact absurd rfl hne
          · exact absurd hf he
      · intro n hn; rw [ha] at hn; cases hn
      · intro _; exact ⟨by trivial, h3 ha⟩
      · trivial
    | some n =>
      simp only []
      have hlt : s.memlogtail + 1 ≤ s.memlogsize := by omega
      have hx : (s.memlogtail + 1) * sizeof_memlog w ≤ s.memlogsize * sizeof_memlog w :=
        Nat.mul_le_mul_right _ hlt
      have hn2 := h2 n ha
      refine ⟨⟨?_, ?_, ?_⟩, ?_, ?_, ?_, ?_⟩
      · rw [htl]; omega
      · intro m hm
        have := Option.some.inj hm
        omega
      · intro hn; cases hn
      · constructor
        · intro _; exact Or.inl ⟨he, by simp⟩
        · intro _ hn; cases hn
      · intro m hm
        have := Option.some.inj hm
        refine ⟨htl, by omega, ?_, fun i hi => ?_⟩
        · unfold upd; rw [if_pos rfl]
        · unfold upd; rw [if_neg hi]
      · intro hn; cases hn
      · trivial

theorem run_log_append (w : Nat) (st : Mem) (calls : List LogCall) (c : LogCall) :
    run_log w st (calls ++ [c]) = c.run w (run_log w st calls) := by
  unfold run_log
  rw [List.foldl_append]
  rfl

theorem run_log_fits (w : Nat) (hw : w = 32 ∨ w = 64) (calls : List LogCall) :
    ∀ st : Mem, log_fits w st →
      (∀ n, n ≤ calls.length → log_small w (run_log w st (calls.take n))) →
      log_fits w (run_log w st calls) := by
  induction calls with
  | nil => intro st h _; exact h
  | cons c rest ih =>
    intro st h hs
    have hs0 : log_small w st := hs 0 (Nat.zero_le _)
    have e : run_log w st (c :: rest) = run_log w (c.run w st) rest := rfl
    rw [e]
    refine ih _ ?_ (fun n hn => ?_)
    · cases c with
      | init => exact log_fits_init w hw st
      | add mpc addr t d => exact (add_memlog_step w hw st h hs0 mpc addr t d).1
    · have := hs (n + 1) (by simp only [List.length_cons]; omega)
      exact this

theorem headD_granted (l : List Bool) (h : ∀ g ∈ l, g = true) : l.headD true = true := by
  cases l with
  | nil => rfl
  | cons a t => exact h a (List.mem_cons_self a t)

/-- While the host returns every block it is asked for, a log that starts with
a buffer or full (as it is when the program starts: no buffer, no room) has a
buffer after each call `add_memlog`. -/
theorem run_log_granted (w : Nat) (hw : w = 32 ∨ w = 64) (calls : List LogCall) :
    ∀ st : Mem, log_fits w st →
      (∀ n, n ≤ calls.length → log_small w (run_log w st (calls.take n))) →
      (∀ g ∈ st.heap, g = true) →
      (st.memlog_alloc ≠ none ∨ st.memlogsize = st.memlogtail) →
      (∀ g ∈ (run_log w st calls).heap, g = true) ∧
      ((run_log w st calls).memlog_alloc ≠ none
        ∨ (run_log w st calls).memlogsize = (run_log w st calls).memlogtail) := by
  induction calls with
  | nil => intro st _ _ hg ho; exact ⟨hg, ho⟩
  | cons c rest ih =>
    intro st h hs hg ho
    have hs0 : log_small w st := hs 0 (Nat.zero_le _)
    have hd := headD_granted st.heap hg
    have e : run_log w st (c :: rest) = run_log w (c.run w st) rest := rfl
    rw [e]
    have hs' : ∀ n, n ≤ rest.length → log_small w (run_log w (c.run w st) (rest.take n)) :=
      fun n hn => hs (n + 1) (by simp only [List.length_cons]; omega)
    cases c with
    | init =>
      refine ih _ (log_fits_init w hw st) hs' ?_ ?_
      · intro g hgm
        exact hg g (List.mem_of_mem_tail hgm)
      · left
        show (init_mem w st).memlog_alloc ≠ none
        unfold init_mem
        simp only [hd, if_true]
        exact fun hn => by cases hn
    | add mpc addr t d =>
      obtain ⟨a1, a2, _, _, a5⟩ := add_memlog_step w hw st h hs0 mpc addr t d
      refine ih _ a1 hs' ?_ ?_
      · intro g hgm
        have hgm' : g ∈ (add_memlog w st mpc addr t d).heap := hgm
        rw [a5] at hgm'
        by_cases he : st.memlogsize = st.memlogtail
        · rw [if_pos he] at hgm'
          exact hg g (List.mem_of_mem_tail hgm')
        · rw [if_neg he] at hgm'
          exact hg g hgm'
      · left
        apply a2.mpr
        unfold log_open
        by_cases he : st.memlogsize = st.memlogtail
        · exact Or.inr ⟨he, hd⟩
        · rcases ho with ho | ho
          · exact Or.inl ⟨he, ho⟩
          · exact absurd ho he

/-- C39, amended: after any sequence of `init_mem` and `add_memlog` calls made
from a log within its allocation, while the size `add_memlog` asks `realloc`
for stays below 2^w (`unsigned long`), `memlogtail <= memlogsize` holds and the
buffer, when `memlog_buffer` is not null, has room for `memlogsize` records.
`memlog_buffer` is not null after a further `add_memlog` exactly when it was
not null in a log that was not full, or the log was full and `realloc`
returned a block; that call then wrote its record to the element `memlogtail`,
inside the allocated block, increased `memlogtail` by exactly one and kept the
earlier records in their order.  When `memlog_buffer` is null after the call
(`malloc` or `realloc` returned a null pointer), the call stored no record, left
`memlogtail` as it was, and no record can be read.  While the host returns
every block it is asked for, from the start of the program on, the pointer is
not null after any `add_memlog`. -/
theorem memlog_within_buffer (w : Nat) (hw : w = 32 ∨ w = 64) (st : Mem) (calls : List LogCall)
    (h0 : log_fits w st)
    (hs : ∀ n, n ≤ calls.length → log_small w (run_log w st (calls.take n)))
    (mpc addr : Nat) (t : mem_access_type) (d : Nat) :
    log_fits w (run_log w st calls) ∧
    log_fits w (run_log w st (calls ++ [.add mpc addr t d])) ∧
    ((run_log w st (calls ++ [.add mpc addr t d])).memlog_alloc ≠ none
      ↔ log_open (run_log w st calls)) ∧
    (∀ n, (run_log w st (calls ++ [.add mpc addr t d])).memlog_alloc = some n →
      (run_log w st (calls ++ [.add mpc addr t d])).memlogtail
        = (run_log w st calls).memlogtail + 1 ∧
      ((run_log w st calls).memlogtail + 1) * sizeof_memlog w ≤ n ∧
      (run_log w st (calls ++ [.add mpc addr t d])).memlog_buffer
          (run_log w st calls).memlogtail = some ⟨mpc, addr, d, t⟩ ∧
      ∀ i, i < (run_log w st calls).memlogtail →
        (run_log w st (calls ++ [.add mpc addr t d])).memlog_buffer i
          = (run_log w st calls).memlog_buffer i) ∧
    ((run_log w st (calls ++ [.add mpc addr t d])).memlog_alloc = none →
      (run_log w st (calls ++ [.add mpc addr t d])).memlogtail
        = (run_log w st calls).memlogtail ∧
      ∀ i, (run_log w st (calls ++ [.add mpc addr t d])).memlog_buffer i = none) ∧
    ((∀ g ∈ st.heap, g = true) →
      (st.memlog_alloc ≠ none ∨ st.memlogsize = st.memlogtail) →
      (run_log w st (calls ++ [.add mpc addr t d])).memlog_alloc ≠ none) := by
  have hf := run_log_fits w hw calls st h0 hs
  have hl : log_small w (run_log w st calls) := by
    have := hs calls.length (le_refl _)
    rw [List.take_length] at this
    exact this
  have e : run_log w st (calls ++ [.add mpc addr t d])
      = add_memlog w (run_log w st calls) mpc addr t d := run_log_append w st calls _
  rw [e]
  obtain ⟨a1, a2, a3, a4, _⟩ := add_memlog_step w hw _ hf hl mpc addr t d
  refine ⟨hf, a1, a2, fun n hn => ?_, a4, fun hg ho => ?_⟩
  · obtain ⟨b1, b2, b3, b4⟩ := a3 n hn
    exact ⟨b1, b2, b3, fun i hi => b4 i (by omega)⟩
  · obtain ⟨g1, g2⟩ := run_log_granted w hw calls st h0 hs hg ho
    apply a2.mpr
    unfold log_open
    by_cases he : (run_log w st calls).memlogsize = (run_log w st calls).memlogtail
    · exact Or.inr ⟨he, headD_granted _ g1⟩
    · rcases g2 with g2 | g2
      · exact Or.inl ⟨he, g2⟩
      · exact absurd g2 he

theorem dcache_of_store_byte (st : Mem) (m : mem_ptr) (i value b off : Nat) :
    dcache_of (store_byte st m i value) b off = dcache_of st b off := by
  unfold dcache_of
  rw [page_at_store_byte]
  by_cases h : (split b).pt1 = m.pt1 ∧ (split b).pt2 = m.pt2
  · rw [if_pos h]
    cases page_at st (split b).pt1 (split b).pt2 <;> rfl
  · rw [if_neg h]

theorem dcache_of_set_rw_flag (st : Mem) (a f b off : Nat) :
    dcache_of (set_rw_flag st a f) b off = dcache_of st b off := by
  unfold dcache_of
  rw [page_at_set_rw_flag]

/-- The decode cache after `rx_mem_ptr`: a resolution for writing that gets
past the checks empties the slot of its byte, and nothing else changes. -/
theorem rx_mem_ptr_dcache (st : Mem) (a : Nat) (action : mem_ptr_action) (b off : Nat) :
    dcache_of (rx_mem_ptr st a action).2 b off
      = if (outcome st a action).isOk ∧ action = .MPA_WRITING ∧ same_page b a ∧
          off = slot_of st a then none
        else dcache_of st b off := by
  unfold dcache_of same_page slot_of
  rw [rx_mem_ptr_page_at]
  by_cases hok : (outcome st a action).isOk = true
  · by_cases hp : (split b).pt1 = (split a).pt1 ∧ (split b).pt2 = (split a).pt2
    · rw [if_pos ⟨hok, hp⟩]
      simp only [hp.1, hp.2, and_self, true_and, hok]
      unfold resolved_page
      by_cases hw : action = .MPA_WRITING
      · simp only [hw, ↓reduceIte, upd, true_and]
        by_cases ho : off = (split a).pto ^^^ (if st.rx_big_endian then 3 else 0)
        · simp [ho]
        · simp only [ho, ↓reduceIte]
          cases page_at st (split a).pt1 (split a).pt2 <;> rfl
      · simp only [hw, ↓reduceIte, false_and]
        cases page_at st (split a).pt1 (split a).pt2 <;> rfl
    · rw [if_neg (fun h => hp h.2), if_neg (fun h => hp h.2.2.1)]
  · rw [if_neg (fun h => hok h.1), if_neg (fun h => hok h.1)]

/-- The decode cache after a byte store, whether it went through or not. -/
theorem mem_put_byte_dcache (st : Mem) (a v b off : Nat) :
    dcache_of (mem_put_byte st a v).2 b off
      = if (outcome st a .MPA_WRITING).isOk ∧ same_page b a ∧ off = slot_of st a then none
        else dcache_of st b off := by
  have h := rx_mem_ptr_dcache st a .MPA_WRITING b off
  simp only [true_and] at h
  rw [mem_put_byte_eq]
  cases ho : outcome st a .MPA_WRITING with
  | error e => rw [ho] at h; exact h
  | ok m =>
    rw [ho] at h
    simp only []
    split
    · exact h
    · rw [dcache_of_set_rw_flag, dcache_of_store_byte]
      exact h

/-- C35, amended: after every successful store to address `A` the decode-cache
slot that the endianness mapping assigns to `A` (the page offset, xor 3 when
big-endian) is empty; every other slot is as it was before the store, also
that of a cached instruction that starts before `A` and extends over it. -/
theorem store_empties_slot (st : Mem) (A v : Nat) (hok : (mem_put_byte st A v).1 = .ok ()) :
    dcache_of (mem_put_byte st A v).2 A (slot_of st A) = none ∧
    ∀ b off, ¬ (same_page b A ∧ off = slot_of st A) →
      dcache_of (mem_put_byte st A v).2 b off = dcache_of st b off := by
  have ho : (outcome st A .MPA_WRITING).isOk = true := by
    rw [mem_put_byte_eq] at hok
    cases h : outcome st A .MPA_WRITING with
    | error e => rw [h] at hok; cases hok
    | ok m => rfl
  refine ⟨?_, fun b off hb => ?_⟩
  · rw [mem_put_byte_dcache, if_pos ⟨ho, ⟨rfl, rfl⟩, rfl⟩]
  · rw [mem_put_byte_dcache, if_neg (fun h => hb h.2)]

set_option maxRecDepth 100000 in
theorem store_empties_slot_witness :
    (mem_put_byte cached_state 0x1000 0x55).1 = .ok () ∧
    dcache_of cached_state 0x1000 (slot_of cached_state 0x1000) = some 7 ∧
    (dcache_of (mem_put_byte cached_state 0x1000 0x55).2 0x1000 (slot_of cached_state 0x1000)
        = none ∧
      ∀ b off, ¬ (same_page b 0x1000 ∧ off = slot_of cached_state 0x1000) →
        dcache_of (mem_put_byte cached_state 0x1000 0x55).2 b off
          = dcache_of cached_state b off) :=
  ⟨by decide, by decide, store_empties_slot cached_state 0x1000 0x55 (by decide)⟩

set_option maxRecDepth 100000 in
/-- C35, as stated, fails: the instruction decoded at 0x1000 is cached.  A
store to 0x1001, a byte that every instruction of two bytes or more at 0x1000
extends over, goes through and empties the slot of 0x1001 only: the
instruction cached for 0x1000 is still in the cache afterwards.  In big-endian
configuration it is the store to 0x1003 that empties the slot of the
instruction at 0x1000, and the stores to 0x1000, 0x1001 and 0x1002 leave
it. -/
theorem store_keeps_overlapping_instruction :
    dcache_of cached_state 0x1000 (split 0x1000).pto = some 7 ∧
    (mem_put_byte cached_state 0x1001 0x55).1 = .ok () ∧
    dcache_of (mem_put_byte cached_state 0x1001 0x55).2 0x1000 (split 0x1000).pto = some 7 ∧
    dcache_of (mem_put_byte cached_state 0x1001 0x55).2 0x1001 (split 0x1001).pto = none ∧
    [0x1000, 0x1001, 0x1002, 0x1003].map (fun a =>
      dcache_of (mem_put_byte { cached_state with rx_big_endian := true } a 0x55).2 0x1000
        (split 0x1000).pto) = [some 7, some 7, some 7, none] := by
  decide

theorem log_fits_zero (w : Nat) : log_fits w Mem.zero :=
  ⟨le_refl _, fun _ hn => (by cases hn), fun _ _ => rfl⟩

set_option maxRecDepth 100000 in
theorem memlog_within_buffer_witness :
    log_fits 32 Mem.zero ∧
    (∀ n, n ≤ [LogCall.add 1 2 .MEM_WB 3, .init, .add 4 5 .MEM_RL 6].length →
      log_small 32 (run_log 32 Mem.zero
        ([LogCall.add 1 2 .MEM_WB 3, .init, .add 4 5 .MEM_RL 6].take n))) ∧
    (run_log 32 Mem.zero [.add 1 2 .MEM_WB 3, .init, .add 4 5 .MEM_RL 6]).memlogtail = 1 ∧
    (run_log 32 Mem.zero [.add 1 2 .MEM_WB 3, .init, .add 4 5 .MEM_RL 6]).memlogsize = 4096 ∧
    (run_log 32 Mem.zero [.add 1 2 .MEM_WB 3, .init, .add 4 5 .MEM_RL 6]).memlog_alloc
      = some 65536 ∧
    (run_log 32 Mem.zero ([.add 1 2 .MEM_WB 3, .init, .add 4 5 .MEM_RL 6] ++
        [.add 7 8 .MEM_WW 9])).memlog_alloc = some 65536 ∧
    (log_fits 32 (run_log 32 Mem.zero [.add 1 2 .MEM_WB 3, .init, .add 4 5 .MEM_RL 6]) ∧
    log_fits 32 (run_log 32 Mem.zero ([.add 1 2 .MEM_WB 3, .init, .add 4 5 .MEM_RL 6] ++
        [.add 7 8 .MEM_WW 9])) ∧
    ((run_log 32 Mem.zero ([.add 1 2 .MEM_WB 3, .init, .add 4 5 .MEM_RL 6] ++
        [.add 7 8 .MEM_WW 9])).memlog_alloc ≠ none
      ↔ log_open (run_log 32 Mem.zero [.add 1 2 .MEM_WB 3, .init, .add 4 5 .MEM_RL 6])) ∧
    (∀ n, (run_log 32 Mem.zero ([.add 1 2 .MEM_WB 3, .init, .add 4 5 .MEM_RL 6] ++
        [.add 7 8 .MEM_WW 9])).memlog_alloc = some n →
      (run_log 32 Mem.zero ([.add 1 2 .MEM_WB 3, .init, .add 4 5 .MEM_RL 6] ++
          [.add 7 8 .MEM_WW 9])).memlogtail
        = (run_log 32 Mem.zero [.add 1 2 .MEM_WB 3, .init, .add 4 5 .MEM_RL 6]).memlogtail + 1 ∧
      ((run_log 32 Mem.zero [.add 1 2 .MEM_WB 3, .init, .add 4 5 .MEM_RL 6]).memlogtail + 1)
        * sizeof_memlog 32 ≤ n ∧
      (run_log 32 Mem.zero ([.add 1 2 .MEM_WB 3, .init, .add 4 5 .MEM_RL 6] ++
          [.add 7 8 .MEM_WW 9])).memlog_buffer
          (run_log 32 Mem.zero [.add 1 2 .MEM_WB 3, .init, .add 4 5 .MEM_RL 6]).memlogtail
        = some ⟨7, 8, 9, .MEM_WW⟩ ∧
      ∀ i, i < (run_log 32 Mem.zero [.add 1 2 .MEM_WB 3, .init, .add 4 5 .MEM_RL 6]).memlogtail →
        (run_log 32 Mem.zero ([.add 1 2 .MEM_WB 3, .init, .add 4 5 .MEM_RL 6] ++
            [.add 7 8 .MEM_WW 9])).memlog_buffer i
          = (run_log 32 Mem.zero [.add 1 2 .MEM_WB 3, .init, .add 4 5 .MEM_RL 6]).memlog_buffer
              i) ∧
    ((run_log 32 Mem.zero ([.add 1 2 .MEM_WB 3, .init, .add 4 5 .MEM_RL 6] ++
        [.add 7 8 .MEM_WW 9])).memlog_alloc = none →
      (run_log 32 Mem.zero ([.add 1 2 .MEM_WB 3, .init, .add 4 5 .MEM_RL 6] ++
          [.add 7 8 .MEM_WW 9])).memlogtail
        = (run_log 32 Mem.zero [.add 1 2 .MEM_WB 3, .init, .add 4 5 .MEM_RL 6]).memlogtail ∧
      ∀ i, (run_log 32 Mem.zero ([.add 1 2 .MEM_WB 3, .init, .add 4 5 .MEM_RL 6] ++
          [.add 7 8 .MEM_WW 9])).memlog_buffer i = none) ∧
    ((∀ g ∈ Mem.zero.heap, g = true) →
      (Mem.zero.memlog_alloc ≠ none ∨ Mem.zero.memlogsize = Mem.zero.memlogtail) →
      (run_log 32 Mem.zero ([.add 1 2 .MEM_WB 3, .init, .add 4 5 .MEM_RL 6] ++
        [.add 7 8 .MEM_WW 9])).memlog_alloc ≠ none)) :=
  ⟨log_fits_zero 32, by decide, by decide, by decide, by decide, by decide,
    memlog_within_buffer 32 (Or.inl rfl) Mem.zero [.add 1 2 .MEM_WB 3, .init, .add 4 5 .MEM_RL 6]
      (log_fits_zero 32) (by decide) 7 8 .MEM_WW 9⟩

set_option maxRecDepth 100000 in
/-- C39, as stated, fails where the host returns a null pointer.  With the
`malloc` of `init_mem` refused, `memlog_buffer` is null and `memlogsize` is
4096: the buffer has no room at all, and the `add_memlog` that follows stores
nothing and leaves `memlogtail` at 0.  With a full log of 4096 records and the
`realloc` refused, `add_memlog` sets `memlog_buffer` to the null pointer,
raises `memlogsize` to 8192 and leaves `memlogtail` at 4096: the record is not
stored, the count is not increased and the 4096 earlier records can no longer
be read. -/
theorem add_memlog_without_block :
    log_fits 32 { Mem.zero with heap := [false] } ∧
    (run_log 32 { Mem.zero with heap := [false] } [.init]).memlog_alloc = none ∧
    (run_log 32 { Mem.zero with heap := [false] } [.init]).memlogsize = 4096 ∧
    (run_log 32 { Mem.zero with heap := [false] } [.init]).memlogtail = 0 ∧
    (run_log 32 { Mem.zero with heap := [false] } [.init, .add 1 2 .MEM_WB 3]).memlogtail = 0 ∧
    (run_log 32 { Mem.zero with heap := [false] } [.init, .add 1 2 .MEM_WB 3]).memlog_buffer 0
      = none ∧
    log_fits 32 full_log_state ∧ log_small 32 full_log_state ∧
    full_log_state.memlog_buffer 0 = some ⟨0, 0, 0, .MEM_WB⟩ ∧
    (run_log 32 full_log_state [.add 1 2 .MEM_WB 3]).memlog_alloc = none ∧
    (run_log 32 full_log_state [.add 1 2 .MEM_WB 3]).memlogsize = 8192 ∧
    (run_log 32 full_log_state [.add 1 2 .MEM_WB 3]).memlogtail = 4096 ∧
    (run_log 32 full_log_state [.add 1 2 .MEM_WB 3]).memlog_buffer 4096 = none ∧
    (run_log 32 full_log_state [.add 1 2 .MEM_WB 3]).memlog_buffer 0 = none :=
  ⟨⟨le_refl _, fun _ hn => (by cases hn), fun _ _ => rfl⟩, by decide, by decide, by decide,
    by decide, by decide,
    ⟨le_refl _, fun n hn => (by cases hn; decide), fun hn => (by cases hn)⟩, by decide,
    by decide, by decide, by decide, by decide, by decide, by decide⟩

set_option maxRecDepth 100000 in
/-- Where `unsigned long` has 32 bits, the size asked of `realloc` for a full
log of 268431360 records, `268431360 * 16 + 65536`, is 2^32 and is reduced to
0: with a block of that size the record goes to the element 268431360, which
is outside it. -/
theorem add_memlog_request_wraps :
    log_fits 32 huge_log_state ∧ ¬ log_small 32 huge_log_state ∧
    (add_memlog 32 huge_log_state 1 2 .MEM_WB 3).memlog_alloc = some 0 ∧
    (add_memlog 32 huge_log_state 1 2 .MEM_WB 3).memlog_buffer 268431360
      = some ⟨1, 2, 3, .MEM_WB⟩ ∧
    ¬ log_fits 32 (add_memlog 32 huge_log_state 1 2 .MEM_WB 3) :=
  ⟨⟨le_refl _, fun n hn => (by cases hn; decide), fun hn => (by cases hn)⟩, by decide,
    by decide, by decide,
    fun h => absurd (h.2.1 0 (by decide)) (by decide)⟩

theorem L1_LEN_eq : L1_LEN = 1024 := by decide

theorem OFF_LEN_eq : OFF_LEN = 4096 := by decide

/-- The chunk of one turn of `mem_set_content_range` from a positive address:
it has one byte at least, it ends at `end_address` or before, and it ends at
the next multiple of `L1_LEN` or before. -/
theorem range_chunk_bounds (s e : Int) (h0 : 0 < s) (h1 : s < e) (h2 : e < 2147483648) :
    1 ≤ range_chunk s e ∧ range_chunk s e ≤ e - s ∧ s % 1024 + range_chunk s e ≤ 1024 := by
  unfold range_chunk
  rw [L1_LEN_eq]
  have ht : s.tmod ((1024 : Nat) : Int) = s % 1024 := Int.tmod_eq_emod (by omega) (by norm_num)
  simp only [ht]
  have hs : sint32 (e - s) = e - s := H8.sint32_range _ (by omega) (by omega)
  rw [hs]
  have hs2 : sint32 (e - s + s % 1024) = e - s + s % 1024 := H8.sint32_range _ (by omega) (by omega)
  rw [hs2]
  have hs3 : sint32 (((1024 : Nat) : Int) - s % 1024) = 1024 - s % 1024 :=
    H8.sint32_range _ (by omega) (by omega)
  rw [hs3]
  split_ifs with h
  · refine ⟨by omega, ?_, by omega⟩
    have : (((1024 : Nat) : Int)) = 1024 := rfl
    omega
  · have : (((1024 : Nat) : Int)) = 1024 := rfl
    exact ⟨by omega, le_refl _, by omega⟩
theorem page_at_memset_ctype (st : Mem) (m : mem_ptr) (type : mem_content_type) (n q1 q2 : Nat) :
    page_at (memset_ctype st m type n) q1 q2
      = if q1 = m.pt1 ∧ q2 = m.pt2 then
          (page_at st q1 q2).map fun pg =>
            { pg with ctype := fun i => if m.pto ≤ i ∧ i < m.pto + n then type else pg.ctype i }
        else page_at st q1 q2 := by
  unfold memset_ctype
  cases hp : page_at st m.pt1 m.pt2 with
  | none =>
    by_cases h : q1 = m.pt1 ∧ q2 = m.pt2
    · obtain ⟨e1, e2⟩ := h
      simp [e1, e2, hp]
    · simp [h]
  | some pg =>
    simp only []
    rw [page_at_install]
    by_cases h : q1 = m.pt1 ∧ q2 = m.pt2
    · obtain ⟨e1, e2⟩ := h
      simp [e1, e2, hp]
    · simp [h]

theorem byte_of_memset_ctype (st : Mem) (m : mem_ptr) (type : mem_content_type) (n b : Nat) :
    byte_of (memset_ctype st m type n) b = byte_of st b := by
  unfold byte_of load_byte
  rw [page_at_memset_ctype]
  by_cases h : (split b).pt1 = m.pt1 ∧ (split b).pt2 = m.pt2
  · rw [if_pos h]
    cases page_at st (split b).pt1 (split b).pt2 <;> rfl
  · rw [if_neg h]

theorem ctype_of_memset_ctype (st : Mem) (a : Nat) (type : mem_content_type) (n b : Nat)
    (ha : allocated st a = true) :
    ctype_of (memset_ctype st (split a) type n) b
      = if same_page b a ∧ (split a).pto ≤ (split b).pto ∧ (split b).pto < (split a).pto + n
        then type else ctype_of st b := by
  unfold ctype_of load_ctype same_page
  rw [page_at_memset_ctype]
  by_cases h : (split b).pt1 = (split a).pt1 ∧ (split b).pt2 = (split a).pt2
  · rw [if_pos h]
    unfold allocated at ha
    rw [← h.1, ← h.2] at ha
    cases hp : page_at st (split b).pt1 (split b).pt2 with
    | none => rw [hp] at ha; cases ha
    | some pg =>
      simp only [Option.map_some', h, true_and, and_self]
  · rw [if_neg h, if_neg (fun x => h x.1)]

/-- The addresses of one chunk: for 32-bit addresses `s` and `b` and a chunk of
`n` bytes from `s` that ends in the page of `s`, `b` is in the page of `s` at an
offset of the chunk exactly when `s <= b < s + n`. -/
theorem chunk_addresses (s b n : Nat) (hs : s < 4294967296) (hb : b < 4294967296)
    (hn : s % 4096 + n ≤ 4096) :
    (same_page b s ∧ (split s).pto ≤ (split b).pto ∧ (split b).pto < (split s).pto + n)
      ↔ (s ≤ b ∧ b < s + n) := by
  unfold same_page
  simp only [split_pt1, split_pt2, split_pto]
  omega

/-- The loop of `mem_set_content_range` from a positive `start_address`, given
turns enough: it returns, and classifies the addresses from `start_address` to
`end_address` and no other. -/
theorem mem_set_content_range_loop_spec (w : Nat) (hw : 32 ≤ w) (type : mem_content_type)
    (e : Int) (h2 : e < 2147483648) (n : Nat) :
    ∀ (st : Mem) (s : Int), 0 < s → s ≤ e → (e - s).toNat ≤ n →
      ∃ st', mem_set_content_range_loop w type n st s e = some (.ok (), st') ∧
        ∀ b : Nat, b < 4294967296 →
          (ctype_of st' b = if s ≤ (b : Int) ∧ (b : Int) < e then type else ctype_of st b) ∧
          byte_of st' b = byte_of st b := by
  induction n with
  | zero =>
    intro st s h0 h1 hn
    have hse : s = e := by omega
    subst hse
    refine ⟨st, ?_, fun b _ => ⟨?_, rfl⟩⟩
    · unfold mem_set_content_range_loop
      rw [if_neg (lt_irrefl _)]
    · rw [if_neg (by omega)]
  | succ n ih =>
    intro st s h0 h1 hn
    by_cases hlt : s < e
    · obtain ⟨c1, c2, c3⟩ := range_chunk_bounds s e h0 hlt h2
      have hu : ulong w s = s.toNat := ulong_of_nonneg w hw s (by omega) (by omega)
      have hnz : s.toNat ≠ 0 := by omega
      have hout : outcome st s.toNat .MPA_CONTENT_TYPE = .ok (split s.toNat) := by
        rw [outcome_other st _ _ (by decide) (by decide), if_neg hnz]
      have hfst := rx_mem_ptr_fst st s.toNat .MPA_CONTENT_TYPE
      have hal := rx_mem_ptr_allocated st s.toNat .MPA_CONTENT_TYPE s.toNat
      have hct := fun b => rx_mem_ptr_ctype_of st s.toNat .MPA_CONTENT_TYPE b
      have hby := fun b => rx_mem_ptr_byte_of st s.toNat .MPA_CONTENT_TYPE b
      rw [hout] at hfst hal
      simp only [Except.isOk, Except.toBool, decide_True, Bool.and_self, Bool.or_true] at hal
      generalize hsz : range_chunk s e = sz at c1 c2 c3
      have hpto : (split s.toNat).pto + sz.toNat ≤ 4096 := by
        rw [split_pto]
        omega
      have hs' : sint32 (s + sz) = s + sz := H8.sint32_range _ (by omega) (by omega)
      obtain ⟨st', e1, e2⟩ := ih
        (memset_ctype (rx_mem_ptr st s.toNat .MPA_CONTENT_TYPE).2 (split s.toNat) type sz.toNat)
        (s + sz) (by omega) (by omega) (by omega)
      refine ⟨st', ?_, fun b hb => ?_⟩
      · unfold mem_set_content_range_loop
        rw [if_pos hlt, hu]
        simp only [hsz]
        cases hr : rx_mem_ptr st s.toNat .MPA_CONTENT_TYPE with
        | mk r st1 =>
          rw [hr] at hfst e1
          simp only at hfst e1
          subst hfst
          simp only []
          rw [if_neg (by rw [OFF_LEN_eq]; omega), hs']
          exact e1
      · obtain ⟨d1, d2⟩ := e2 b hb
        refine ⟨?_, ?_⟩
        · rw [d1, ctype_of_memset_ctype _ _ _ _ _ hal, hct b]
          have hnw : ¬ ((outcome st s.toNat .MPA_CONTENT_TYPE).isOk = true ∧
              mem_ptr_action.MPA_CONTENT_TYPE = mem_ptr_action.MPA_WRITING ∧
              split b = split s.toNat) := fun h => by cases h.2.1
          rw [if_neg hnw]
          have hca := chunk_addresses s.toNat b sz.toNat (by omega) hb (by omega)
          by_cases hin : s.toNat ≤ b ∧ b < s.toNat + sz.toNat
          · rw [if_pos (hca.mpr hin)]
            by_cases h3 : s + sz ≤ (b : Int) ∧ (b : Int) < e
            · rw [if_pos h3, if_pos (by omega)]
            · rw [if_neg h3, if_pos (by omega)]
          · rw [if_neg (fun h => hin (hca.mp h))]
            by_cases h3 : s + sz ≤ (b : Int) ∧ (b : Int) < e
            · rw [if_pos h3, if_pos (by omega)]
            · rw [if_neg h3, if_neg (by omega)]
        · rw [d2, byte_of_memset_ctype, hby b]
    · have hse : s = e := by omega
      subst hse
      refine ⟨st, ?_, fun b _ => ⟨?_, rfl⟩⟩
      · unfold mem_set_content_range_loop
        rw [if_neg (lt_irrefl _)]
      · rw [if_neg (by omega)]
/-- C34: for all addresses `0 < start < end`, `mem_set_content_range (start,
end, type)` returns (its loop finishes within as many turns as there are
addresses in the range) and sets the content classification of exactly the
addresses in [start, end) to `type`, leaving the classification of every
other address and every stored byte as they were; every chunk it writes has one
byte at least and ends in the page in which it starts, so no `memset` crosses a
page boundary. -/
theorem mem_set_content_range_spec (w : Nat) (st : Mem) (start_address end_address : Int)
    (type : mem_content_type) (hw : 32 ≤ w) (h0 : 0 < start_address)
    (h1 : start_address < end_address) (h2 : end_address < 2147483648) :
    (∃ st', mem_set_content_range w st start_address end_address type = some (.ok (), st') ∧
      ∀ b : Nat, b < 4294967296 →
        (ctype_of st' b = if start_address ≤ (b : Int) ∧ (b : Int) < end_address then type
          else ctype_of st b) ∧
        byte_of st' b = byte_of st b) ∧
    ∀ s : Int, start_address ≤ s → s < end_address →
      1 ≤ range_chunk s end_address ∧
        (split s.toNat).pto + (range_chunk s end_address).toNat ≤ OFF_LEN := by
  refine ⟨?_, fun s hs1 hs2 => ?_⟩
  · unfold mem_set_content_range
    exact mem_set_content_range_loop_spec w hw type end_address h2 _ st start_address h0
      (le_of_lt h1) (le_refl _)
  · obtain ⟨c1, c2, c3⟩ := range_chunk_bounds s end_address (by omega) hs2 h2
    refine ⟨c1, ?_⟩
    rw [split_pto, OFF_LEN_eq]
    omega

set_option maxRecDepth 100000 in
theorem mem_set_content_range_spec_witness :
    (32 : Nat) ≤ 32 ∧ (0 : Int) < 0xffe ∧ (0xffe : Int) < 0x1402 ∧
    (0x1402 : Int) < 2147483648 ∧
    [range_chunk 0xffe 0x1402, range_chunk 0x1000 0x1402, range_chunk 0x1400 0x1402]
      = [2, 1024, 2] ∧
    (mem_set_content_range 32 pushed_state 0xffe 0x1402 .MC_DATA).map (fun r =>
      (r.1, [0xffd, 0xffe, 0xfff, 0x1000, 0x13ff, 0x1401, 0x1402].map (ctype_of r.2)))
      = some (.ok (), [.MC_UNINIT, .MC_DATA, .MC_DATA, .MC_DATA, .MC_DATA, .MC_DATA,
          .MC_UNINIT]) ∧
    ((∃ st', mem_set_content_range 32 pushed_state 0xffe 0x1402 .MC_DATA = some (.ok (), st') ∧
      ∀ b : Nat, b < 4294967296 →
        (ctype_of st' b = if (0xffe : Int) ≤ (b : Int) ∧ (b : Int) < 0x1402 then .MC_DATA
          else ctype_of pushed_state b) ∧
        byte_of st' b = byte_of pushed_state b) ∧
    ∀ s : Int, 0xffe ≤ s → s < 0x1402 →
      1 ≤ range_chunk s 0x1402 ∧
        (split s.toNat).pto + (range_chunk s 0x1402).toNat ≤ OFF_LEN) :=
  ⟨by decide, by decide, by decide, by decide, by decide, by decide,
    mem_set_content_range_spec 32 pushed_state 0xffe 0x1402 .MC_DATA (by decide) (by decide)
      (by decide) (by decide)⟩

theorem allocated_same_page (st : Mem) (a b : Nat) (h : same_page b a) :
    allocated st b = allocated st a := by
  unfold allocated
  rw [h.1, h.2]

theorem same_page_refl (a : Nat) : same_page a a := ⟨rfl, rfl⟩

/-- Where `rx_mem_ptr` allocates: the page of a non-null address resolved with
another intent than reading, and no other page. -/
theorem rx_mem_ptr_allocated_eq (st : Mem) (a : Nat) (action : mem_ptr_action) (b : Nat) :
    allocated (rx_mem_ptr st a action).2 b
      = (allocated st b ||
          (decide (a ≠ 0) && decide (action ≠ .MPA_READING) && decide (same_page b a))) := by
  rw [rx_mem_ptr_allocated]
  by_cases hp : same_page b a
  · have e := allocated_same_page st a b hp
    have d1 : decide ((split b).pt1 = (split a).pt1) = true := decide_eq_true hp.1
    have d2 : decide ((split b).pt2 = (split a).pt2) = true := decide_eq_true hp.2
    rw [d1, d2, decide_eq_true hp, e]
    by_cases h0 : a = 0
    · subst h0
      cases action <;> simp [outcome, Except.isOk, Except.toBool]
    · cases action with
      | MPA_WRITING =>
        rw [outcome_writing, if_neg h0]
        by_cases hc : ctype_of st a = .MC_PUSHED_PC
        · have ha : allocated st a = true := by
            by_contra hn
            have := ctype_of_unallocated st a (by simpa using hn)
            rw [this] at hc
            cases hc
          simp [hc, ha, h0, Except.isOk, Except.toBool]
        · simp [hc, h0, Except.isOk, Except.toBool]
      | MPA_READING =>
        rw [outcome_reading, if_neg h0]
        by_cases ha : allocated st a = false
        · simp [ha, Except.isOk, Except.toBool]
        · have ha' : allocated st a = true := by simpa using ha
          simp [ha']
      | MPA_CONTENT_TYPE =>
        rw [outcome_other st a _ (by decide) (by decide), if_neg h0]
        simp [h0, Except.isOk, Except.toBool]
      | MPA_DECODE_CACHE =>
        rw [outcome_other st a _ (by decide) (by decide), if_neg h0]
        simp [h0, Except.isOk, Except.toBool]
  · have d3 : decide (same_page b a) = false := decide_eq_false hp
    have d12 : (decide ((split b).pt1 = (split a).pt1) && decide ((split b).pt2 = (split a).pt2))
        = false := by
      by_cases h1 : (split b).pt1 = (split a).pt1
      · have h2 : (split b).pt2 ≠ (split a).pt2 := fun h2 => hp ⟨h1, h2⟩
        simp [h2]
      · simp [h1]
    rw [d3, Bool.and_false, Bool.and_assoc, d12, Bool.and_false]

theorem grown_refl (st : Mem) (T : List Nat) : grown st st T :=
  fun _ => ⟨id, Or.inl⟩

theorem grown_trans {st s u : Mem} {T1 T2 : List Nat} (h1 : grown st s T1) (h2 : grown s u T2) :
    grown st u (T1 ++ T2) := by
  intro b
  refine ⟨fun h => (h2 b).1 ((h1 b).1 h), fun h => ?_⟩
  rcases (h2 b).2 h with h3 | ⟨t, ht, h0, hp⟩
  · rcases (h1 b).2 h3 with h4 | ⟨t, ht, h0, hp⟩
    · exact Or.inl h4
    · exact Or.inr ⟨t, List.mem_append_left _ ht, h0, hp⟩
  · exact Or.inr ⟨t, List.mem_append_right _ ht, h0, hp⟩

theorem grown_mono {st s : Mem} {T T' : List Nat} (h : grown st s T) (hs : ∀ t ∈ T, t ∈ T') :
    grown st s T' := by
  intro b
  refine ⟨(h b).1, fun hb => ?_⟩
  rcases (h b).2 hb with h1 | ⟨t, ht, h0, hp⟩
  · exact Or.inl h1
  · exact Or.inr ⟨t, hs t ht, h0, hp⟩

theorem grown_of_pt {st s : Mem} (h : s.pt = st.pt) (T : List Nat) : grown st s T := by
  intro b
  rw [allocated_congr st s h b]
  exact ⟨id, Or.inl⟩

theorem grown_of_keeps {st s : Mem} (h : Keeps st s) (T : List Nat) : grown st s T := by
  intro b
  rw [(h.1 b).2.2]
  exact ⟨id, Or.inl⟩

theorem grown_rx_mem_ptr (st : Mem) (a : Nat) (action : mem_ptr_action) :
    grown st (rx_mem_ptr st a action).2 (if action = .MPA_READING then [] else [a]) := by
  intro b
  rw [rx_mem_ptr_allocated_eq]
  refine ⟨fun h => by rw [h]; rfl, fun h => ?_⟩
  by_cases hb : allocated st b = true
  · exact Or.inl hb
  · right
    have hb' : allocated st b = false := by simpa using hb
    rw [hb'] at h
    simp only [Bool.false_or, Bool.and_eq_true, decide_eq_true_eq] at h
    obtain ⟨⟨h0, hr⟩, hp⟩ := h
    rw [if_neg hr]
    exact ⟨a, List.mem_singleton.mpr rfl, h0, hp⟩

theorem allocated_store_ctype (st : Mem) (m : mem_ptr) (type : mem_content_type) (b : Nat) :
    allocated (store_ctype st m type) b = allocated st b := by
  unfold allocated
  rw [page_at_store_ctype]
  by_cases h : (split b).pt1 = m.pt1 ∧ (split b).pt2 = m.pt2
  · rw [if_pos h]
    cases page_at st (split b).pt1 (split b).pt2 <;> rfl
  · rw [if_neg h]

theorem grown_store_byte (st : Mem) (m : mem_ptr) (i v : Nat) (T : List Nat) :
    grown st (store_byte st m i v) T := by
  intro b
  rw [allocated_store_byte]
  exact ⟨id, Or.inl⟩

theorem grown_store_ctype (st : Mem) (m : mem_ptr) (type : mem_content_type) (T : List Nat) :
    grown st (store_ctype st m type) T := by
  intro b
  rw [allocated_store_ctype]
  exact ⟨id, Or.inl⟩

theorem grown_mem_put_byte (st : Mem) (a v : Nat) : grown st (mem_put_byte st a v).2 [a] := by
  have h : grown st (rx_mem_ptr st a .MPA_WRITING).2 [a] := grown_rx_mem_ptr st a .MPA_WRITING
  rw [mem_put_byte_eq]
  cases outcome st a .MPA_WRITING with
  | error e => exact h
  | ok m =>
    simp only []
    split
    · exact h
    · exact grown_mono (grown_trans h (grown_trans (grown_store_byte _ _ _ _ [])
        (grown_of_pt (set_rw_flag_pt _ _ _) []))) (by simp)

theorem grown_put_bytes (l : List (Nat × Nat)) :
    ∀ st : Mem, grown st (put_bytes st l).2 (l.map Prod.fst) := by
  induction l with
  | nil => intro st; exact grown_refl st _
  | cons p rest ih =>
    intro st
    obtain ⟨a, v⟩ := p
    unfold put_bytes andThen
    have h := grown_mem_put_byte st a v
    cases hr : mem_put_byte st a v with
    | mk r s1 =>
      rw [hr] at h
      cases r with
      | error e => exact grown_mono h (by simp)
      | ok u => exact grown_trans h (ih s1)

theorem grown_typed_put (st0 st : Mem) (hpt : st0.pt = st.pt) (l : List (Nat × Nat)) (n : Nat) :
    grown st (typed_put st0 l n).2 (l.map Prod.fst) := by
  have h0 : grown st st0 [] := grown_of_pt hpt []
  have h := grown_put_bytes l st0
  unfold typed_put andThen
  cases hr : put_bytes st0 l with
  | mk r s1 =>
    rw [hr] at h
    cases r with
    | error e => exact grown_mono (grown_trans h0 h) (by simp)
    | ok u =>
      exact grown_mono (grown_trans h0 (grown_trans h (grown_of_pt (COUNT_pt _ _ _) []))) (by simp)

theorem hi_bytes_fst (be : Bool) (A : Int) (v : Nat) :
    (hi_bytes be A v).map Prod.fst = [uint32 A, uint32 (A + 1)] := by
  cases be <;> rfl

theorem psi_bytes_fst (be : Bool) (A : Int) (v : Nat) :
    (psi_bytes be A v).map Prod.fst = [uint32 A, uint32 (A + 1), uint32 (A + 2)] := by
  cases be <;> rfl

theorem si_bytes_fst (be : Bool) (A : Int) (v : Nat) :
    (si_bytes be A v).map Prod.fst
      = [uint32 A, uint32 (A + 1), uint32 (A + 2), uint32 (A + 3)] := by
  cases be <;> simp [si_bytes]

theorem grown_allocated {st s : Mem} {T : List Nat} (h : grown st s T) (b : Nat)
    (hb : allocated st b = true) : allocated s b = true := (h b).1 hb

theorem rx_mem_ptr_allocates (st : Mem) (a : Nat) (action : mem_ptr_action) (h0 : a ≠ 0)
    (hr : action ≠ .MPA_READING) : allocated (rx_mem_ptr st a action).2 a = true := by
  rw [rx_mem_ptr_allocated_eq]
  simp [h0, hr, same_page_refl]

theorem mem_put_byte_allocates (st : Mem) (a v : Nat) (h0 : a ≠ 0) :
    allocated (mem_put_byte st a v).2 a = true := by
  have h := rx_mem_ptr_allocates st a .MPA_WRITING h0 (by decide)
  rw [mem_put_byte_eq]
  cases outcome st a .MPA_WRITING with
  | error e => exact h
  | ok m =>
    simp only []
    split
    · exact h
    · rw [allocated_congr _ _ (set_rw_flag_pt _ _ _), allocated_store_byte]
      exact h

theorem put_bytes_allocates (st : Mem) (a v : Nat) (rest : List (Nat × Nat)) (h0 : a ≠ 0) :
    allocated (put_bytes st ((a, v) :: rest)).2 a = true := by
  have h := mem_put_byte_allocates st a v h0
  unfold put_bytes andThen
  cases hr : mem_put_byte st a v with
  | mk r s1 =>
    rw [hr] at h
    cases r with
    | error e => exact h
    | ok u => exact grown_allocated (grown_put_bytes rest s1) a h

theorem typed_put_allocates (st : Mem) (a v : Nat) (rest : List (Nat × Nat)) (n : Nat)
    (h0 : a ≠ 0) : allocated (typed_put st ((a, v) :: rest) n).2 a = true := by
  have h := put_bytes_allocates st a v rest h0
  unfold typed_put andThen
  cases hr : put_bytes st ((a, v) :: rest) with
  | mk r s1 =>
    rw [hr] at h
    cases r with
    | error e => exact h
    | ok u =>
      show allocated (COUNT s1 1 n) a = true
      rw [allocated_congr _ _ (COUNT_pt _ _ _)]
      exact h

theorem typed_put_head (st : Mem) (l : List (Nat × Nat)) (n t : Nat)
    (ht : (l.map Prod.fst).head? = some t) (h0 : t ≠ 0) :
    allocated (typed_put st l n).2 t = true := by
  cases l with
  | nil => cases ht
  | cons p rest =>
    obtain ⟨a, v⟩ := p
    have e : a = t := by simpa using ht
    subst e
    exact typed_put_allocates st a v rest n h0

theorem grown_put_bytes_pt (l : List (Nat × Nat)) (st0 st : Mem) (hpt : st0.pt = st.pt) :
    grown st (put_bytes st0 l).2 (l.map Prod.fst) :=
  grown_mono (grown_trans (grown_of_pt hpt []) (grown_put_bytes l st0)) (by simp)

theorem mem_put_blk_grown (st : Mem) (A : Int) (buf : List Nat) :
    grown st (mem_put_blk st A buf).2 ((blk_pairs A buf).map Prod.fst) := by
  unfold mem_put_blk
  simp only []
  rw [mem_put_blk_loop_eq]
  split
  · exact grown_put_bytes_pt _ _ st rfl
  · exact grown_put_bytes _ _

theorem mem_put_blk_head (st : Mem) (A : Int) (buf : List Nat) (t : Nat)
    (ht : ((blk_pairs A buf).map Prod.fst).head? = some t) (h0 : t ≠ 0) :
    allocated (mem_put_blk st A buf).2 t = true := by
  unfold mem_put_blk
  simp only []
  rw [mem_put_blk_loop_eq]
  cases hl : blk_pairs A buf with
  | nil => rw [hl] at ht; cases ht
  | cons p rest =>
    obtain ⟨a, v⟩ := p
    rw [hl] at ht
    have e : a = t := by simpa using ht
    subst e
    exact put_bytes_allocates _ a v rest h0

theorem content_type_grown (st : Mem) (a : Nat) :
    grown st (rx_mem_ptr st a .MPA_CONTENT_TYPE).2 [a] :=
  grown_rx_mem_ptr st a .MPA_CONTENT_TYPE

theorem mem_set_content_type_grown (w : Nat) (st : Mem) (A : Int) (type : mem_content_type) :
    grown st (mem_set_content_type w st A type).2 [ulong w A] := by
  have h := content_type_grown st (ulong w A)
  unfold mem_set_content_type
  cases hr : rx_mem_ptr st (ulong w A) .MPA_CONTENT_TYPE with
  | mk r s1 =>
    rw [hr] at h
    cases r with
    | error e => exact h
    | ok m => exact grown_mono (grown_trans h (grown_store_ctype s1 m type [])) (by simp)

theorem mem_set_content_type_allocates (w : Nat) (st : Mem) (A : Int) (type : mem_content_type)
    (h0 : ulong w A ≠ 0) :
    allocated (mem_set_content_type w st A type).2 (ulong w A) = true := by
  have h := rx_mem_ptr_allocates st (ulong w A) .MPA_CONTENT_TYPE h0 (by decide)
  unfold mem_set_content_type
  cases hr : rx_mem_ptr st (ulong w A) .MPA_CONTENT_TYPE with
  | mk r s1 =>
    rw [hr] at h
    cases r with
    | error e => exact h
    | ok m =>
      show allocated (store_ctype s1 m type) _ = true
      rw [allocated_store_ctype]
      exact h

theorem mem_get_content_type_snd (w : Nat) (st : Mem) (A : Int) :
    (mem_get_content_type w st A).2 = (rx_mem_ptr st (ulong w A) .MPA_CONTENT_TYPE).2 := by
  unfold mem_get_content_type
  cases hr : rx_mem_ptr st (ulong w A) .MPA_CONTENT_TYPE with
  | mk r s1 => cases r <;> rfl

theorem mem_get_pc_allocated (w : Nat) (st : Mem) (A : Int) (b : Nat) :
    allocated (mem_get_pc w st A).2 b = allocated st b := by
  have h := rx_mem_ptr_allocated_eq st (ulong w A) .MPA_READING b
  unfold mem_get_pc
  cases hr : rx_mem_ptr st (ulong w A) .MPA_READING with
  | mk r s1 =>
    rw [hr] at h
    simp at h
    cases r with
    | error e => exact h
    | ok m =>
      show allocated (COUNT s1 0 0) b = _
      rw [allocated_congr _ _ (COUNT_pt _ _ _)]
      exact h

theorem icu_grown (st : Mem) (pri : Int) :
    grown st (icu st pri).2 [0x00087000, 0x00087200, 0x00087300] := by
  have h1 := grown_rx_mem_ptr st 0x00087000 .MPA_WRITING
  unfold icu bind
  cases hr1 : rx_mem_ptr st 0x00087000 .MPA_WRITING with
  | mk r1 s1 =>
    rw [hr1] at h1
    cases r1 with
    | error e => exact grown_mono h1 (by simp)
    | ok m1 =>
      have h2 := grown_rx_mem_ptr s1 0x00087200 .MPA_WRITING
      simp only []
      cases hr2 : rx_mem_ptr s1 0x00087200 .MPA_WRITING with
      | mk r2 s2 =>
        rw [hr2] at h2
        cases r2 with
        | error e => exact grown_mono (grown_trans h1 h2) (by simp)
        | ok m2 =>
          have h3 := grown_rx_mem_ptr s2 0x00087300 .MPA_WRITING
          simp only []
          cases hr3 : rx_mem_ptr s2 0x00087300 .MPA_WRITING with
          | mk r3 s3 =>
            rw [hr3] at h3
            cases r3 with
            | error e => exact grown_mono (grown_trans h1 (grown_trans h2 h3)) (by simp)
            | ok m3 => exact grown_mono (grown_trans h1 (grown_trans h2 h3)) (by simp)

theorem icu_allocates (st : Mem) (pri : Int) : allocated (icu st pri).2 0x00087000 = true := by
  have h1 := rx_mem_ptr_allocates st 0x00087000 .MPA_WRITING (by decide) (by decide)
  unfold icu bind
  cases hr1 : rx_mem_ptr st 0x00087000 .MPA_WRITING with
  | mk r1 s1 =>
    rw [hr1] at h1
    cases r1 with
    | error e => exact h1
    | ok m1 =>
      have h2 := grown_rx_mem_ptr s1 0x00087200 .MPA_WRITING
      simp only []
      cases hr2 : rx_mem_ptr s1 0x00087200 .MPA_WRITING with
      | mk r2 s2 =>
        rw [hr2] at h2
        cases r2 with
        | error e => exact grown_allocated h2 _ h1
        | ok m2 =>
          have h3 := grown_rx_mem_ptr s2 0x00087300 .MPA_WRITING
          simp only []
          cases hr3 : rx_mem_ptr s2 0x00087300 .MPA_WRITING with
          | mk r3 s3 =>
            rw [hr3] at h3
            cases r3 with
            | error e => exact grown_allocated h3 _ (grown_allocated h2 _ h1)
            | ok m3 => exact grown_allocated h3 _ (grown_allocated h2 _ h1)

/-- An operation allocates at most the pages of the non-null addresses it
resolves with another intent than reading, and frees none. -/
theorem Op.run_grown (w : Nat) (st : Mem) (op : Op) : grown st (op.run w st) (op.touches w) := by
  cases op with
  | put_qi A v mpc =>
    show grown st (mem_put_qi w st A v mpc).2 _
    rw [mem_put_qi_eq]
    exact grown_mono (grown_typed_put _ st (traced_pt _ _ _ _ _ _) _ _)
      (by simp [Op.touches, Op.targets, Op.stores, Op.resolves])
  | put_hi A v mpc =>
    show grown st (mem_put_hi w st A v mpc).2 _
    rw [mem_put_hi_eq]
    have h := grown_typed_put _ st (traced_pt w st mpc (ulong w A) .MEM_WW (v &&& 0xffff))
      (hi_bytes st.rx_big_endian A v) 2
    rw [hi_bytes_fst] at h
    exact grown_mono h (by simp [Op.touches, Op.targets, Op.stores, Op.resolves])
  | put_psi A v mpc =>
    show grown st (mem_put_psi w st A v mpc).2 _
    rw [mem_put_psi_eq]
    have h := grown_typed_put _ st (traced_pt w st mpc (ulong w A) .MEM_WQ (v &&& 0xffffff))
      (psi_bytes st.rx_big_endian A v) 3
    rw [psi_bytes_fst] at h
    exact grown_mono h (by simp [Op.touches, Op.targets, Op.stores, Op.resolves])
  | put_si A v mpc =>
    show grown st (mem_put_si w st A v mpc).2 _
    rw [mem_put_si_eq]
    have h := grown_typed_put _ st (traced_pt w st mpc (ulong w A) .MEM_WL (v &&& 0xffffffff))
      (si_bytes st.rx_big_endian A v) 4
    rw [si_bytes_fst] at h
    exact grown_mono h (by simp [Op.touches, Op.targets, Op.stores, Op.resolves])
  | get_qi A mpc => exact grown_of_keeps (mem_get_qi_keeps w st A mpc) _
  | get_hi A mpc => exact grown_of_keeps (mem_get_hi_keeps w st A mpc) _
  | get_psi A mpc => exact grown_of_keeps (mem_get_psi_keeps w st A mpc) _
  | get_si A mpc => exact grown_of_keeps (mem_get_si_keeps w st A mpc) _
  | get_pc A =>
    intro b
    show (_ → allocated (mem_get_pc w st A).2 b = true) ∧ (allocated (mem_get_pc w st A).2 b = true → _)
    rw [mem_get_pc_allocated]
    exact ⟨id, Or.inl⟩
  | set_content_type A type =>
    exact grown_mono (mem_set_content_type_grown w st A type)
      (by simp [Op.touches, Op.targets, Op.stores, Op.resolves])
  | get_content_type A =>
    show grown st (mem_get_content_type w st A).2 _
    rw [mem_get_content_type_snd]
    exact content_type_grown st (ulong w A)
  | decode_cache a => exact grown_rx_mem_ptr st a .MPA_DECODE_CACHE
  | mem_ptr a action => exact grown_rx_mem_ptr st a action
  | put_blk A buf =>
    exact grown_mono (mem_put_blk_grown st A buf)
      (by simp [Op.touches, Op.targets, Op.stores, Op.resolves])
  | get_blk A nbytes => exact grown_of_keeps (mem_get_blk_keeps st A nbytes) _
  | poll pri =>
    exact grown_mono (icu_grown st pri) (by simp [Op.touches, Op.targets, Op.stores, Op.resolves])

theorem run_ops_grown (w : Nat) (ops : List Op) :
    ∀ st : Mem, grown st (run_ops w st ops) (ops.flatMap (Op.touches w)) := by
  induction ops with
  | nil => intro st; exact grown_refl st _
  | cons op rest ih =>
    intro st
    exact grown_trans (Op.run_grown w st op) (ih (op.run w st))

/-- The page of the first non-null address an operation resolves with another
intent than reading is allocated afterwards. -/
theorem Op.run_allocates (w : Nat) (st : Mem) (op : Op) (t : Nat)
    (ht : (op.touches w).head? = some t) (h0 : t ≠ 0) : allocated (op.run w st) t = true := by
  cases op with
  | put_qi A v mpc =>
    show allocated (mem_put_qi w st A v mpc).2 t = true
    rw [mem_put_qi_eq]
    exact typed_put_head _ _ _ t (by simpa [Op.touches, Op.targets, Op.stores] using ht) h0
  | put_hi A v mpc =>
    show allocated (mem_put_hi w st A v mpc).2 t = true
    rw [mem_put_hi_eq]
    refine typed_put_head _ _ _ t ?_ h0
    rw [hi_bytes_fst]
    simpa [Op.touches, Op.targets, Op.stores] using ht
  | put_psi A v mpc =>
    show allocated (mem_put_psi w st A v mpc).2 t = true
    rw [mem_put_psi_eq]
    refine typed_put_head _ _ _ t ?_ h0
    rw [psi_bytes_fst]
    simpa [Op.touches, Op.targets, Op.stores] using ht
  | put_si A v mpc =>
    show allocated (mem_put_si w st A v mpc).2 t = true
    rw [mem_put_si_eq]
    refine typed_put_head _ _ _ t ?_ h0
    rw [si_bytes_fst]
    simpa [Op.touches, Op.targets, Op.stores] using ht
  | get_qi A mpc => simp [Op.touches, Op.targets, Op.stores, Op.resolves] at ht
  | get_hi A mpc => simp [Op.touches, Op.targets, Op.stores, Op.resolves] at ht
  | get_psi A mpc => simp [Op.touches, Op.targets, Op.stores, Op.resolves] at ht
  | get_si A mpc => simp [Op.touches, Op.targets, Op.stores, Op.resolves] at ht
  | get_pc A => simp [Op.touches, Op.targets, Op.stores, Op.resolves] at ht
  | set_content_type A type =>
    have e : ulong w A = t := by simpa [Op.touches, Op.targets, Op.stores, Op.resolves] using ht
    subst e
    exact mem_set_content_type_allocates w st A type h0
  | get_content_type A =>
    have e : ulong w A = t := by simpa [Op.touches] using ht
    subst e
    show allocated (mem_get_content_type w st A).2 _ = true
    rw [mem_get_content_type_snd]
    exact rx_mem_ptr_allocates st _ _ h0 (by decide)
  | decode_cache a =>
    have e : a = t := by simpa [Op.touches] using ht
    subst e
    exact rx_mem_ptr_allocates st _ _ h0 (by decide)
  | mem_ptr a action =>
    by_cases hr : action = .MPA_READING
    · simp [Op.touches, hr] at ht
    · have e : a = t := by simpa [Op.touches, hr] using ht
      subst e
      exact rx_mem_ptr_allocates st _ _ h0 hr
  | put_blk A buf =>
    exact mem_put_blk_head st A buf t
      (by simpa [Op.touches, Op.targets, Op.stores, Op.resolves] using ht) h0
  | get_blk A nbytes => simp [Op.touches, Op.targets, Op.stores, Op.resolves] at ht
  | poll pri =>
    have e : 0x00087000 = t := by simpa [Op.touches, Op.targets, Op.stores, Op.resolves] using ht
    subst e
    exact icu_allocates st pri

theorem Op.loads_allocated (w : Nat) (st : Mem) (op : Op) (h : op.loads) (b : Nat) :
    allocated (op.run w st) b = allocated st b := by
  cases op with
  | get_qi A mpc => exact ((mem_get_qi_keeps w st A mpc).1 b).2.2
  | get_hi A mpc => exact ((mem_get_hi_keeps w st A mpc).1 b).2.2
  | get_psi A mpc => exact ((mem_get_psi_keeps w st A mpc).1 b).2.2
  | get_si A mpc => exact ((mem_get_si_keeps w st A mpc).1 b).2.2
  | get_pc A => exact mem_get_pc_allocated w st A b
  | get_blk A nbytes => exact ((mem_get_blk_keeps st A nbytes).1 b).2.2
  | put_qi A v mpc => exact absurd h (by simp [Op.loads])
  | put_hi A v mpc => exact absurd h (by simp [Op.loads])
  | put_psi A v mpc => exact absurd h (by simp [Op.loads])
  | put_si A v mpc => exact absurd h (by simp [Op.loads])
  | set_content_type A type => exact absurd h (by simp [Op.loads])
  | get_content_type A => exact absurd h (by simp [Op.loads])
  | decode_cache a => exact absurd h (by simp [Op.loads])
  | mem_ptr a action => exact absurd h (by simp [Op.loads])
  | put_blk A buf => exact absurd h (by simp [Op.loads])
  | poll pri => exact absurd h (by simp [Op.loads])

theorem init_mem_allocated (w : Nat) (st : Mem) (b : Nat) :
    allocated (init_mem w st) b = false := rfl

theorem run_ops_allocates (w : Nat) (ops : List Op) :
    ∀ (st : Mem) (b : Nat),
      (∃ op ∈ ops, ∃ t, (op.touches w).head? = some t ∧ t ≠ 0 ∧ same_page b t) →
      allocated (run_ops w st ops) b = true := by
  induction ops with
  | nil =>
    intro st b h
    obtain ⟨op, hop, _⟩ := h
    cases hop
  | cons o rest ih =>
    intro st b h
    obtain ⟨op, hop, t, ht, h0, hp⟩ := h
    show allocated (run_ops w (o.run w st) rest) b = true
    rcases List.mem_cons.mp hop with e | hin
    · subst e
      have h1 : allocated (op.run w st) b = true := by
        rw [allocated_same_page _ t b hp]
        exact Op.run_allocates w st op t ht h0
      exact grown_allocated (run_ops_grown w rest (op.run w st)) b h1
    · exact ih (o.run w st) b ⟨op, hin, t, ht, h0, hp⟩

/-- C36, amended: after any sequence of operations since `init_mem`, a page is
allocated if and only if `rx_mem_ptr` has resolved a non-null address in it with
another intent than reading, which it does for a store (whether or not the
store then goes through), for a classification access, for a decode-cache
access and for a resolution with the writing intent such as the three the poll
of the interrupt controller makes. A resolution allocates the page of its
address under exactly these conditions and no other page; a page allocated
after the sequence holds a non-null address one of the operations resolves this
way; the page of the first such address of any operation of the sequence is
allocated after it; and a load, failing or not, leaves the allocation of every
page as it was, so that a read that fails on a never-allocated page leaves
that page unallocated. -/
theorem allocated_iff_resolved (w : Nat) (st : Mem) (ops : List Op) (b : Nat) :
    allocated (init_mem w st) b = false
    ∧ (∀ (s : Mem) (a : Nat) (action : mem_ptr_action),
        allocated (rx_mem_ptr s a action).2 b
          = (allocated s b ||
              (decide (a ≠ 0) && decide (action ≠ .MPA_READING) && decide (same_page b a))))
    ∧ (allocated (run_ops w (init_mem w st) ops) b = true →
        ∃ op ∈ ops, ∃ t ∈ op.touches w, t ≠ 0 ∧ same_page b t)
    ∧ ((∃ op ∈ ops, ∃ t, (op.touches w).head? = some t ∧ t ≠ 0 ∧ same_page b t) →
        allocated (run_ops w (init_mem w st) ops) b = true)
    ∧ (∀ (s : Mem) (op : Op), op.loads → allocated (op.run w s) b = allocated s b)
    ∧ (∀ (s : Mem) (A : Int) (mpc : Nat), allocated s (uint32 A) = false →
        (∃ e, (mem_get_qi w s A mpc).1 = .error e)
        ∧ allocated (mem_get_qi w s A mpc).2 (uint32 A) = false) := by
  refine ⟨rfl, fun s a action => rx_mem_ptr_allocated_eq s a action b, fun h => ?_,
    run_ops_allocates w ops _ b, fun s op hl => Op.loads_allocated w s op hl b, fun s A mpc h => ?_⟩
  · rcases ((run_ops_grown w ops (init_mem w st)) b).2 h with h1 | ⟨t, ht, h0, hp⟩
    · rw [init_mem_allocated] at h1
      cases h1
    · obtain ⟨op, hop, hto⟩ := List.mem_flatMap.mp ht
      exact ⟨op, hop, t, hto, h0, hp⟩
  · refine ⟨?_, ?_⟩
    · rw [mem_get_qi_fst, mem_get_byte_eq, outcome_reading]
      by_cases h0 : uint32 A = 0
      · rw [if_pos h0]
        exact ⟨_, rfl⟩
      · rw [if_neg h0]
        simp only [h, ↓reduceIte]
        exact ⟨_, rfl⟩
    · rw [((mem_get_qi_keeps w s A mpc).1 (uint32 A)).2.2]
      exact h

theorem allocated_iff_resolved_witness :
    (∃ op ∈ [Op.put_qi 0x1000 7 0, Op.get_qi 0x5000 0],
        ∃ t, (op.touches 64).head? = some t ∧ t ≠ 0 ∧ same_page 0x1fff t)
    ∧ allocated (run_ops 64 (init_mem 64 Mem.zero) [.put_qi 0x1000 7 0, .get_qi 0x5000 0]) 0x1fff
        = true
    ∧ allocated (run_ops 64 (init_mem 64 Mem.zero) [.put_qi 0x1000 7 0, .get_qi 0x5000 0]) 0x5000
        = false :=
  ⟨⟨_, List.mem_cons_self _ _, 0x1000, rfl, by decide, by decide⟩,
    (allocated_iff_resolved 64 Mem.zero [.put_qi 0x1000 7 0, .get_qi 0x5000 0] 0x1fff).2.2.2.1
      ⟨_, List.mem_cons_self _ _, 0x1000, rfl, by decide, by decide⟩,
    by decide⟩

/-- C36, as stated, fails in both directions. After `init_mem` and one poll of
the interrupt controller, which is no store, no classification access and no
decode-cache access, the page of 0x00087000 is allocated; and a store to
address 0 touches the byte but stops at the null-pointer test, before any
allocation, as does the 16-bit store there, whose second byte at address 1 is
never reached. -/
theorem allocated_without_store :
    (allocated (run_ops 64 (init_mem 64 Mem.zero) [.poll 0]) 0x00087000 = true
      ∧ (Op.poll 0).stores 64 = [])
    ∧ ((mem_put_qi 64 (init_mem 64 Mem.zero) 0 7 0).1
        = .error (.execution_error .SIM_ERR_NULL_POINTER_DEREFERENCE 0)
      ∧ allocated (run_ops 64 (init_mem 64 Mem.zero) [.put_qi 0 7 0]) 0 = false)
    ∧ ((Op.put_hi 0 7 0).stores 64 = [0, 1]
      ∧ allocated (run_ops 64 (init_mem 64 Mem.zero) [.put_hi 0 7 0]) 1 = false) := by
  decide

theorem io_tmr_counters (b : Rxio) (d junk : Nat) :
    (io_tmr b d junk).2.prev_icycle = b.prev_icycle
    ∧ (io_tmr b d junk).2.prev_pcycle = b.prev_pcycle
    ∧ (io_tmr b d junk).2.pcycles = b.pcycles := by
  unfold io_tmr
  cases tmr_update ⟨b.io.mem, b.tmr_prescale, b.tmr_isr⟩ 3 d junk with
  | mk r t => exact ⟨rfl, rfl, rfl⟩

theorem io_cmt_counters (b : Rxio) (host_be : Bool) (d : Nat) :
    (io_cmt b host_be d).2.prev_icycle = b.prev_icycle
    ∧ (io_cmt b host_be d).2.prev_pcycle = b.prev_pcycle
    ∧ (io_cmt b host_be d).2.pcycles = b.pcycles := by
  unfold io_cmt
  cases cmt_update ⟨b.io.mem, b.cmt_prescale⟩ host_be (sint32 d) with
  | mk r t => exact ⟨rfl, rfl, rfl⟩

theorem io_peripherals_counters (b : Rxio) (d : Nat) (cpupri : Int) (junk : Nat) (host_be : Bool) :
    (io_peripherals b d cpupri junk host_be).2.prev_icycle = b.prev_icycle
    ∧ (io_peripherals b d cpupri junk host_be).2.prev_pcycle = b.prev_pcycle
    ∧ (io_peripherals b d cpupri junk host_be).2.pcycles = b.pcycles := by
  have h1 := io_tmr_counters b d junk
  unfold io_peripherals
  cases ht : io_tmr b d junk with
  | mk r1 b1 =>
    rw [ht] at h1
    cases r1 with
    | error f => exact h1
    | ok u =>
      have h2 := io_cmt_counters b1 host_be d
      simp only []
      cases hc : io_cmt b1 host_be d with
      | mk r2 b2 =>
        rw [hc] at h2
        have h3 : b2.prev_icycle = b.prev_icycle ∧ b2.prev_pcycle = b.prev_pcycle
            ∧ b2.pcycles = b.pcycles :=
          ⟨h2.1.trans h1.1, h2.2.1.trans h1.2.1, h2.2.2.trans h1.2.2⟩
        cases r2 with
        | error f => exact h3
        | ok u2 =>
          simp only []
          cases hs : sci b2.io d with
          | mk r3 io3 =>
            cases r3 with
            | error f => exact h3
            | ok u3 =>
              simp only []
              cases icu io3.mem cpupri with
              | mk r4 m4 => exact h3

/-- The three cycle counters after a call of `io_simulation`, whatever the
peripherals do. -/
theorem io_simulation_counters (b : Rxio) (c cpupri : Int) (junk : Nat) (host_be : Bool) :
    (io_simulation b c cpupri junk host_be).2.prev_icycle = (io_next b c).prev_icycle
    ∧ (io_simulation b c cpupri junk host_be).2.prev_pcycle = (io_next b c).prev_pcycle
    ∧ (io_simulation b c cpupri junk host_be).2.pcycles = (io_next b c).pcycles := by
  unfold io_simulation io_next
  by_cases h : (io_cycles b c).2 = 0
  · rw [if_pos h, if_pos h]
    exact ⟨rfl, rfl, rfl⟩
  · rw [if_neg h, if_neg h]
    exact io_peripherals_counters _ _ _ _ _

theorem io_cycles_snd (b : Rxio) (c : Int) (h : b.prev_pcycle = b.pcycles) :
    (io_cycles b c).2 = uint32 (c - b.prev_icycle) / 2 := by
  unfold io_cycles
  simp only []
  rw [h]
  have hd : uint32 (c - b.prev_icycle) < 4294967296 := by
    unfold uint32; omega
  generalize uint32 (c - b.prev_icycle) = d at hd
  unfold uint32
  omega

theorem wrap_back (p k : Nat) (hp : p < 4294967296)
    (h : uint32 ((uint32 ((p : Int) + (k : Nat)) : Int) - p) = 0) :
    uint32 ((p : Int) + (k : Nat)) = p := by
  unfold uint32 at h ⊢
  omega

theorem io_next_inv (b : Rxio) (c : Int) (h : b.prev_pcycle = b.pcycles)
    (hlt : b.pcycles < 4294967296) :
    (io_next b c).prev_pcycle = (io_next b c).pcycles ∧ (io_next b c).pcycles < 4294967296
    ∧ (io_next b c).prev_icycle = uint32 c := by
  have hq : (io_cycles b c).1.pcycles
      = uint32 ((b.pcycles : Int) + (uint32 (c - b.prev_icycle) / 2 : Nat)) := rfl
  have hq2 : (io_cycles b c).1.pcycles < 4294967296 := by rw [hq]; exact uint32_lt _
  unfold io_next
  by_cases h0 : (io_cycles b c).2 = 0
  · rw [if_pos h0]
    have e : (io_cycles b c).2 = uint32 (((io_cycles b c).1.pcycles : Int) - b.prev_pcycle) := rfl
    have hp : (io_cycles b c).1.prev_pcycle = b.prev_pcycle := rfl
    refine ⟨?_, hq2, rfl⟩
    rw [hp, hq, h]
    rw [hq, h, h0] at e
    exact (wrap_back b.pcycles _ hlt e.symm).symm
  · rw [if_neg h0]
    exact ⟨rfl, hq2, rfl⟩

/-- Each call passes to the peripherals half the instruction cycles elapsed
since the call before, rounded down, and drops the odd cycle: over any sequence
of calls, twice the peripheral cycles delivered and the odd cycles dropped make
up the instruction cycles elapsed. -/
theorem pcycles_delivered_halves (cs : List Int) :
    ∀ (b : Rxio), b.prev_pcycle = b.pcycles → b.pcycles < 4294967296 →
      2 * pcycles_delivered b cs + half_cycles_lost b.prev_icycle cs
        = icycles_elapsed b.prev_icycle cs := by
  induction cs with
  | nil => intro b _ _; rfl
  | cons c rest ih =>
    intro b h hlt
    have hi := io_next_inv b c h hlt
    have h2 := ih (io_next b c) hi.1 hi.2.1
    rw [hi.2.2] at h2
    show 2 * ((io_cycles b c).2 + pcycles_delivered (io_next b c) rest)
        + (uint32 (c - b.prev_icycle) % 2 + half_cycles_lost (uint32 c) rest)
      = uint32 (c - b.prev_icycle) + icycles_elapsed (uint32 c) rest
    rw [io_cycles_snd b c h]
    omega

theorem pcycles_delivered_halves_witness :
    2 * pcycles_delivered (Rxio.power_on quiet_io) [1, 2, 3, 7]
        + half_cycles_lost 0 [1, 2, 3, 7] = icycles_elapsed 0 [1, 2, 3, 7]
    ∧ pcycles_delivered (Rxio.power_on quiet_io) [1, 2, 3, 7] = 2
    ∧ half_cycles_lost 0 [1, 2, 3, 7] = 3 :=
  ⟨pcycles_delivered_halves [1, 2, 3, 7] (Rxio.power_on quiet_io) rfl (by decide),
    by decide, by decide⟩

/-- C33 fails on the code: `io_simulation` halves the instruction cycles
elapsed since the call before and drops the odd one.  From power-on, the four
calls made at `rx_cycles` 1, 2, 3 and 4 each find a peripheral difference of 0
and return -1 before the peripherals, which get no cycle at all where
floor (4 / 2) = 2 are due: the counter `pcycles` is still 0 and the page of the
interrupt registers, which `icu` allocates, is not allocated.  The single call
at `rx_cycles` 4 delivers the 2 cycles. -/
theorem io_simulation_drops_half_cycles :
    (io_runs 0 0 false [1, 2, 3, 4] (Rxio.power_on quiet_io)).1 = [-1, -1, -1, -1]
    ∧ pcycles_delivered (Rxio.power_on quiet_io) [1, 2, 3, 4] = 0
    ∧ icycles_elapsed 0 [1, 2, 3, 4] = 4
    ∧ (io_runs 0 0 false [1, 2, 3, 4] (Rxio.power_on quiet_io)).2.pcycles = 0
    ∧ (io_runs 0 0 false [1, 2, 3, 4] (Rxio.power_on quiet_io)).2.prev_icycle = 4
    ∧ allocated (io_runs 0 0 false [1, 2, 3, 4] (Rxio.power_on quiet_io)).2.io.mem 0x00087000
        = false
    ∧ pcycles_delivered (Rxio.power_on quiet_io) [4] = 2
    ∧ icycles_elapsed 0 [4] = 4
    ∧ (io_runs 0 0 false [4] (Rxio.power_on quiet_io)).2.pcycles = 2 := by
  decide

end Rx

namespace H8

open Rx (uchar ushort uint32 sint32)

theorem telnet_escape_h8 (st : Sim) (ch c o : Nat) (ho : o < 256)
    (hi : (st.sci_port ch).iac = 2) (hc : uchar (st.sci_port ch).cmd = c) :
    (telnet_escape st ch o).host
        = (if c = 0xfd ∧ (o = 1 ∨ o = 3) then st.host
           else (Posix.write st.host (st.sci_port ch).fd [0xff, reply_command c o, o]).2)
    ∧ ((telnet_escape st ch o).sci_port ch).iac = 0 := by
  have hu : uchar o = o := by unfold uchar; omega
  subst hc
  unfold telnet_escape reply_command
  simp only [hi, hu]
  split_ifs <;> simp_all [set_port, upd]

theorem telnet_escape_rx (io : Rx.Io) (ch c o : Nat) (ho : o < 256)
    (hi : (io.sci_port ch).iac = 2) (hc : uchar (io.sci_port ch).cmd = c) :
    (Rx.telnet_escape io ch o).host
        = (if c = 0xfd ∧ (o = 1 ∨ o = 3) then io.host
           else (Posix.write io.host (io.sci_port ch).fd [0xff, reply_command c o, o]).2)
    ∧ ((Rx.telnet_escape io ch o).sci_port ch).iac = 0 := by
  have hu : uchar o = o := by unfold uchar; omega
  subst hc
  unfold Rx.telnet_escape reply_command
  simp only [hi, hu]
  split_ifs <;> simp_all [Rx.set_port, Rx.upd]
theorem telnet_escape_first_h8 (st : Sim) (ch c : Nat) (hc : c < 256)
    (hi : (st.sci_port ch).iac = 1) :
    (telnet_escape st ch c).host = st.host
    ∧ ((telnet_escape st ch c).sci_port ch).fd = (st.sci_port ch).fd
    ∧ ((telnet_escape st ch c).sci_port ch).iac = 2
    ∧ uchar ((telnet_escape st ch c).sci_port ch).cmd = c := by
  have hu : uchar c = c := by unfold uchar; omega
  unfold telnet_escape
  simp only [hi, hu]
  simp [set_port, upd, hu]
  decide

theorem telnet_escape_first_rx (io : Rx.Io) (ch c : Nat) (hc : c < 256)
    (hi : (io.sci_port ch).iac = 1) :
    (Rx.telnet_escape io ch c).host = io.host
    ∧ ((Rx.telnet_escape io ch c).sci_port ch).fd = (io.sci_port ch).fd
    ∧ ((Rx.telnet_escape io ch c).sci_port ch).iac = 2
    ∧ uchar ((Rx.telnet_escape io ch c).sci_port ch).cmd = c := by
  have hu : uchar c = c := by unfold uchar; omega
  unfold Rx.telnet_escape
  simp only [hi, hu]
  simp [Rx.set_port, Rx.upd, hu]
  decide

/-- C32: once IAC has been seen on a channel (`iac` is 1), for every command
byte `c` and option byte `o` the two calls of `telnet_escape` that take them
write exactly one reply of three bytes, 0xff, c' and `o`, to the descriptor of
the channel, except when `c` is DO (0xfd) and `o` is 1 or 3, where they write
nothing; c' is DO (0xfd) for WILL (0xfb) with `o` 1 or 3, DONT (0xfe) for WILL
with another option, WONT (0xfc) for DO with another option, and `c` itself for
any other command.  The sequence is then over (`iac` is 0).  This holds of the
function of the H8 and of that of the RX. -/
theorem telnet_escape_reply (st : Sim) (io : Rx.Io) (ch c o : Nat) (hc : c < 256) (ho : o < 256)
    (h8 : (st.sci_port ch).iac = 1) (hrx : (io.sci_port ch).iac = 1) :
    ((telnet_escape (telnet_escape st ch c) ch o).host
        = (if c = 0xfd ∧ (o = 1 ∨ o = 3) then st.host
           else (Posix.write st.host (st.sci_port ch).fd [0xff, reply_command c o, o]).2)
      ∧ ((telnet_escape (telnet_escape st ch c) ch o).sci_port ch).iac = 0)
    ∧ ((Rx.telnet_escape (Rx.telnet_escape io ch c) ch o).host
        = (if c = 0xfd ∧ (o = 1 ∨ o = 3) then io.host
           else (Posix.write io.host (io.sci_port ch).fd [0xff, reply_command c o, o]).2)
      ∧ ((Rx.telnet_escape (Rx.telnet_escape io ch c) ch o).sci_port ch).iac = 0)
    ∧ reply_command c o
        = (if c = 0xfb ∧ (o = 1 ∨ o = 3) then 0xfd
           else if c = 0xfb then 0xfe
           else if c = 0xfd then 0xfc
           else c) := by
  refine ⟨?_, ?_, ?_⟩
  · have h1 := telnet_escape_first_h8 st ch c hc h8
    have h2 := telnet_escape_h8 (telnet_escape st ch c) ch c o ho h1.2.2.1 h1.2.2.2
    rw [h1.1, h1.2.1] at h2
    exact h2
  · have h1 := telnet_escape_first_rx io ch c hc hrx
    have h2 := telnet_escape_rx (Rx.telnet_escape io ch c) ch c o ho h1.2.2.1 h1.2.2.2
    rw [h1.1, h1.2.1] at h2
    exact h2
  · unfold reply_command
    split_ifs <;> simp_all

theorem telnet_escape_reply_witness :
    ((set_port (net_state []) 0 ⟨5, 4, 1, 0⟩).sci_port 0).iac = 1
    ∧ ((Rx.set_port Rx.quiet_io 0 ⟨5, 4, 1, 0⟩).sci_port 0).iac = 1
    ∧ (telnet_escape (telnet_escape (set_port (net_state []) 0 ⟨5, 4, 1, 0⟩) 0 0xfb) 0 1).host.sent 5
        = [0xff, 0xfd, 1]
    ∧ (Rx.telnet_escape (Rx.telnet_escape (Rx.set_port Rx.quiet_io 0 ⟨5, 4, 1, 0⟩) 0 0xfb) 0
        1).host.sent 5 = [0xff, 0xfd, 1] :=
  ⟨rfl, rfl,
    by
      rw [(telnet_escape_reply (set_port (net_state []) 0 ⟨5, 4, 1, 0⟩)
        (Rx.set_port Rx.quiet_io 0 ⟨5, 4, 1, 0⟩) 0 0xfb 1 (by decide) (by decide) rfl rfl).1.1]
      rfl,
    by decide⟩

theorem get_priority_beyond_table (st : Sim) (vec : Int) :
    (st.h8300smode ≠ 0 → 128 ≤ vec → get_priority st vec = none)
    ∧ (st.h8300smode = 0 → st.h8300hmode ≠ 0 → 64 ≤ vec → get_priority st vec = none)
    ∧ (st.h8300smode = 0 → st.h8300hmode = 0 → get_priority st vec = none) := by
  refine ⟨fun hs hv => ?_, fun hs hh hv => ?_, fun hs hh => ?_⟩
  · have hi : index ipr_table vec = none := by
      unfold index
      rw [if_neg (by omega)]
      exact List.get?_eq_none.mpr (by simp [ipr_table]; omega)
    unfold get_priority
    rw [if_pos hs, hi]
  · have hi : index ipr_bit vec = none := by
      unfold index
      rw [if_neg (by omega)]
      exact List.get?_eq_none.mpr (by simp [ipr_bit]; omega)
    unfold get_priority
    rw [if_neg (by simpa using hs), if_pos hh, hi]
  · unfold get_priority
    rw [if_neg (by simpa using hs), if_neg (by simpa using hh)]

set_option maxRecDepth 100000 in
/-- C38 fails on the code for the H8SX.  The table `ipr_table` has 128 entries
and is indexed with the vector whenever `h8300smode` is set, but the H8SX table
lists the vectors 144 to 155 (the serial channels): on an H8SX after
`init_ioregs`, `get_priority` reads beyond the table for each of them and
returns nothing defined, and with RXI of the first serial channel (vector 145)
enabled and pending so does `intcont`.  The same holds whatever the mode flags
are: a vector of 128 or more is beyond `ipr_table`, one of 64 or more beyond
`ipr_bit`.  On the H8S and on the H8/300H every listed vector is within the
table used. -/
theorem get_priority_h8sx_out_of_bounds :
    (ipr_table.length = 128 ∧ ipr_bit.length = 64)
    ∧ ((h8300sx_with []).int_table = h8300sx_int_table ∧ (h8300sx_with []).h8300smode ≠ 0)
    ∧ ((events (h8300sx_with [])).filter
          (fun e => (get_priority (h8300sx_with []) e.vector).isNone)).map (fun e => e.vector)
        = [144, 145, 146, 147, 148, 149, 150, 151, 152, 153, 154, 155]
    ∧ (asserted (h8300sx_with [(0xffff7a, 0x40), (0xffff7c, 0x40)])
          ⟨145, 0xffff7c, 0x40, 0xffff7a, 0x40⟩ = true
      ∧ intcont (h8300sx_with [(0xffff7a, 0x40), (0xffff7c, 0x40)]) = none)
    ∧ (∀ (st : Sim) (vec : Int), st.int_table = h8300sx_int_table → 144 ≤ vec →
        get_priority st vec = none)
    ∧ (∀ e ∈ events (h8300s_with [] []), (get_priority (h8300s_with [] []) e.vector).isSome)
    ∧ (∀ e ∈ events (h8300h_with []), (get_priority (h8300h_with []) e.vector).isSome) := by
  refine ⟨by decide, by decide, by decide, by decide, fun st vec _ hv => ?_, by decide, by decide⟩
  by_cases hs : st.h8300smode = 0
  · by_cases hh : st.h8300hmode = 0
    · exact (get_priority_beyond_table st vec).2.2 hs hh
    · exact (get_priority_beyond_table st vec).2.1 hs hh (by omega)
  · exact (get_priority_beyond_table st vec).1 hs (by omega)

set_option maxRecDepth 100000 in
/-- C31 fails on the code: in both simulators the 16-bit branch stores the low
byte of the count through `TCNT8 (tm - 1)` before it stores it to
`TCNT8 (tm + 1)`.  On the H8/300H, with channels 2 and 3 paired at 0x0105 and
`cycles_diff = 8` (one prescaler expires), the pair counts to 0x0106 and the
counter of channel 1, a channel outside the pair, goes from 0x50 to 6; with
channels 0 and 1 paired the index `tm - 1` is -1, outside `timer8_base`, and
the call has no defined result.  On the RX, with channels 0 and 1 paired at
0x0105, `TCNT8 (-1)` is `tmrbase[7]`, the compare register TCORB of channel 1:
the call `tmr_update (3, 2)` counts the pair to 0x0106, overwrites TCORB of
channel 1 (0xff) with 6 and, comparing with the overwritten value, raises the
compare match B request of channel 0. -/
theorem timer8_pair_writes_outside_pair :
    ((reg timer8_pair23_state 0x98, reg timer8_pair23_state 0x99, reg timer8_pair23_state 0x89)
        = (0x01, 0x05, 0x50)
      ∧ (timer8 timer8_pair23_state 8).map (fun r => (reg r 0x98, reg r 0x99, reg r 0x89))
        = some (0x01, 0x06, 0x06)
      ∧ index timer8_pair01_state.timer8_base (0 - 1) = none
      ∧ (timer8 timer8_pair01_state 8).isNone = true)
    ∧ (Rx.tmr_index (-1) 8 = 7 ∧ Rx.tmr_index 1 6 = 7
      ∧ (List.range 12).map (fun i => Rx.ld Rx.tmr_pair_state.mem Rx.tmrbase_ptr i)
        = [0, 0, 0, 0, 0xff, 0xff, 0xff, 0xff, 0x01, 0x05, 0x18, 0]
      ∧ (Rx.tmr_update Rx.tmr_pair_state 3 2 0).1.isOk = true
      ∧ (List.range 12).map
          (fun i => Rx.ld (Rx.tmr_update Rx.tmr_pair_state 3 2 0).2.mem Rx.tmrbase_ptr i)
        = [0, 0, 0, 0, 0xff, 0xff, 0xff, 0x06, 0x01, 0x06, 0x18, 0]
      ∧ (List.range 3).map
          (fun i => Rx.byte_of (Rx.tmr_update Rx.tmr_pair_state 3 2 0).2.mem (Rx.IRADR (174 + i)))
        = [0, 1, 0]) := by
  decide

end H8

namespace H8

open Rx (uchar ushort uint32 sint32)

/-! # The calls of `timer8`, the 16-bit timers, `sci` and `iosimulation` -/

/-! ## A transmission in the channel's turn of the loop of `sci` -/

/-- What a turn of the outer loop of `h8300h_timer16` leaves of the prescalers:
the others as they were, and of its own the count less the elapsed cycles, with
one period added when that is not positive. -/
theorem h8300h_prescaler_prescale (st : Sim) (t : Itu) (d pcnt : Nat) (r : Sim × Itu)
    (h : h8300h_timer16_prescaler d pcnt st t = some r) :
    (∀ q, q ≠ pcnt → r.2.prescale q = t.prescale q) ∧
      (pcnt < 4 → -2147483648 ≤ t.prescale pcnt - d → t.prescale pcnt - d < 2147483648 →
        r.2.prescale pcnt = carry (t.prescale pcnt) d (h8300h_prescale_div.getD pcnt 0)) := by
  unfold h8300h_timer16_prescaler at h
  simp only [] at h
  constructor
  · intro q hq
    split_ifs at h
    · cases hf : h8300h_timer16_for pcnt
          ((-(t.set_prescale pcnt (sint32 (t.prescale pcnt - d))).prescale pcnt) /
            h8300h_prescale_div.getD pcnt 0).toNat (List.range 3) st
          (t.set_prescale pcnt (sint32 (t.prescale pcnt - d))) with
      | none => rw [hf] at h; simp at h
      | some x =>
        rw [hf] at h
        simp only [Option.map_some'] at h
        rw [← Option.some.inj h]
        show (x.2.set_prescale pcnt _).prescale q = _
        rw [itu_prescale_set, if_neg hq, h8300h_for_prescale _ _ _ _ _ x hf, itu_prescale_set,
          if_neg hq]
    · rw [← Option.some.inj h, itu_prescale_set, if_neg hq]
  · intro hp hlo hhi
    obtain ⟨hP0, hP1⟩ := h8300h_div_cases pcnt hp
    have hs : sint32 (t.prescale pcnt - d) = t.prescale pcnt - d := sint32_range _ hlo hhi
    rw [hs] at h
    simp only [itu_prescale_set, if_pos] at h
    unfold carry
    split_ifs at h with c1 c2
    · cases hf : h8300h_timer16_for pcnt
          ((-(t.prescale pcnt - (d : Int))) / h8300h_prescale_div.getD pcnt 0).toNat
          (List.range 3) st (t.set_prescale pcnt (t.prescale pcnt - d)) with
      | none => rw [hf] at h; simp at h
      | some x =>
        rw [hf] at h
        simp only [Option.map_some'] at h
        rw [← Option.some.inj h]
        show (x.2.set_prescale pcnt _).prescale pcnt = _
        rw [itu_prescale_set, if_pos rfl, h8300h_for_prescale _ _ _ _ _ x hf, itu_prescale_set,
          if_pos rfl, if_neg (by omega)]
        exact sint32_range _ (by omega) (by omega)
    · rw [← Option.some.inj h, itu_prescale_set, if_pos rfl, if_pos (by omega)]

/-- What a call of `h8300h_timer16` leaves of prescaler `pcnt`. -/
theorem h8300h_timer16_prescale (st : Sim) (t : Itu) (d pcnt : Nat) (r : Sim × Itu)
    (h : h8300h_timer16 st t d = some r) (hp : pcnt < 4)
    (hlo : -2147483648 ≤ t.prescale pcnt - d) (hhi : t.prescale pcnt - d < 2147483648) :
    r.2.prescale pcnt = carry (t.prescale pcnt) d (h8300h_prescale_div.getD pcnt 0) := by
  unfold h8300h_timer16 at h
  simp only [Option.some_bind] at h
  cases h0 : h8300h_timer16_prescaler d 0 st t with
  | none => rw [h0] at h; simp at h
  | some r0 =>
    rw [h0] at h
    simp only [Option.some_bind] at h
    cases h1 : h8300h_timer16_prescaler d 1 r0.1 r0.2 with
    | none => rw [h1] at h; simp at h
    | some r1 =>
      rw [h1] at h
      simp only [Option.some_bind] at h
      cases h2 : h8300h_timer16_prescaler d 2 r1.1 r1.2 with
      | none => rw [h2] at h; simp at h
      | some r2 =>
        rw [h2] at h
        simp only [Option.some_bind] at h
        obtain ⟨a0, b0⟩ := h8300h_prescaler_prescale st t d 0 r0 h0
        obtain ⟨a1, b1⟩ := h8300h_prescaler_prescale r0.1 r0.2 d 1 r1 h1
        obtain ⟨a2, b2⟩ := h8300h_prescaler_prescale r1.1 r1.2 d 2 r2 h2
        obtain ⟨a3, b3⟩ := h8300h_prescaler_prescale r2.1 r2.2 d 3 r h
        interval_cases pcnt
        · rw [a3 0 (by decide), a2 0 (by decide), a1 0 (by decide)]
          exact b0 (by decide) hlo hhi
        · rw [a3 1 (by decide), a2 1 (by decide)]
          have e : r0.2.prescale 1 = t.prescale 1 := a0 1 (by decide)
          rw [← e] at hlo hhi ⊢
          exact b1 (by decide) hlo hhi
        · rw [a3 2 (by decide)]
          have e : r1.2.prescale 2 = t.prescale 2 := (a1 2 (by decide)).trans (a0 2 (by decide))
          rw [← e] at hlo hhi ⊢
          exact b2 (by decide) hlo hhi
        · have e : r2.2.prescale 3 = t.prescale 3 :=
            (a2 3 (by decide)).trans ((a1 3 (by decide)).trans (a0 3 (by decide)))
          rw [← e] at hlo hhi ⊢
          exact b3 (by decide) hlo hhi

/-- A call `iosimulation (cycles)` that returns has made its calls with the
cycles elapsed since the previous call, `cycles - prev_cycles` when `cycles`
has not decreased and `cycles` when it has: `timer8` was called with them and
has moved each of its prescalers by them, with a period added on expiry; on an
H8/300H `h8300h_timer16` was then called with them on the state `timer8` left
and has moved each of its prescalers by them in the same way; `sci` was called
with them on the state the timers left, and a channel that was waiting for the
end of its frame there has that many cycles less to go; the value returned is
that of `intcont` on the state `sci` left, and `prev_cycles` holds `cycles`. -/
theorem iosimulation_advances_by_elapsed (b : Board) (cycles : Int) (hlo : -2 ^ 31 ≤ cycles)
    (hhi : cycles < 2 ^ 31) (hp : b.prev_cycles < 2 ^ 32) :
    ∃ d : Nat,
      (b.prev_cycles ≤ uint32 cycles → ((d : Nat) : Int) = (uint32 cycles : Int) - b.prev_cycles) ∧
      (uint32 cycles < b.prev_cycles → d = uint32 cycles) ∧
      (0 ≤ cycles → (uint32 cycles : Int) = cycles) ∧
      ∀ b' v, iosimulation b cycles = some (b', v) → ∃ s1,
      timer8 b.sim d = some s1 ∧
      (∀ pcnt, pcnt < 3 → -2 ^ 31 ≤ b.sim.prescale pcnt - d → b.sim.prescale pcnt - d < 2 ^ 31 →
        s1.prescale pcnt = carry (b.sim.prescale pcnt) d (prescale_div.getD pcnt 0)) ∧
      (s1.h8300smode = 0 → s1.h8300hmode ≠ 0 →
        ∃ s2, h8300h_timer16 s1 b.itu d = some (s2, b'.itu) ∧
          (∀ pcnt, pcnt < 4 → -2 ^ 31 ≤ b.itu.prescale pcnt - d →
            b.itu.prescale pcnt - d < 2 ^ 31 →
            b'.itu.prescale pcnt
              = carry (b.itu.prescale pcnt) d (h8300h_prescale_div.getD pcnt 0)) ∧
          sci s2 d = some b'.sim ∧
          (∀ ch bb e, sci_tables s2 → tx_waiting s2 ch bb e →
            (s2.sci_port_type = PORT_NET → (net_accept s2).1 = false) → 0 < sint32 (e - d) →
            b'.sim.tx_end_time ch = sint32 (e - d)) ∧
          b'.tpu = b.tpu) ∧
      (s1.h8300smode = 0 → s1.h8300hmode = 0 →
        sci s1 d = some b'.sim ∧ b'.itu = b.itu ∧ b'.tpu = b.tpu) ∧
      (s1.h8300smode ≠ 0 →
        ∃ s2, h8300s_timer16 s1 b.tpu d = some (s2, b'.tpu) ∧ sci s2 d = some b'.sim ∧
          b'.itu = b.itu) ∧
      intcont b'.sim = some v ∧ b'.prev_cycles = uint32 cycles := by
  have h2 : (2 : Int) ^ 31 = 2147483648 := by norm_num
  have h3 : (2 : Nat) ^ 32 = 4294967296 := by norm_num
  rw [h2] at hlo hhi
  rw [h3] at hp
  obtain ⟨e1, e2⟩ := cycles_diff_of_eq b.prev_cycles cycles hp
  refine ⟨cycles_diff_of b.prev_cycles cycles, fun hle => by rw [e1 hle, Nat.cast_sub hle], e2,
    fun h0 => uint32_nonneg cycles h0 (by omega), fun b' v h => ?_⟩
  unfold iosimulation io_advance at h
  simp only [] at h
  cases h8 : timer8 b.sim (cycles_diff_of b.prev_cycles cycles) with
  | none => rw [h8] at h; simp at h
  | some s1 =>
    rw [h8] at h
    simp only [Option.some_bind] at h
    refine ⟨s1, rfl, fun pcnt hpc l1 l2 => ?_, ?_, ?_, ?_, ?_⟩
    · rw [h2] at l1 l2
      exact timer8_prescale b.sim _ pcnt s1 h8 hpc l1 l2
    · intro hs hh
      rw [if_neg (by simpa using hs), if_pos hh] at h
      cases ht : h8300h_timer16 s1 b.itu (cycles_diff_of b.prev_cycles cycles) with
      | none => rw [ht] at h; simp at h
      | some r =>
        rw [ht] at h
        simp only [Option.map_some', Option.some_bind] at h
        cases hsc : sci r.1 (cycles_diff_of b.prev_cycles cycles) with
        | none => rw [hsc] at h; simp at h
        | some s3 =>
          rw [hsc] at h
          simp only [Option.some_bind] at h
          cases hi : intcont s3 with
          | none => rw [hi] at h; simp at h
          | some v0 =>
            rw [hi] at h
            simp only [Option.map_some', Option.some.injEq, Prod.mk.injEq] at h
            obtain ⟨hb, _⟩ := h
            subst hb
            refine ⟨r.1, rfl, fun pcnt hpc l1 l2 => ?_, hsc, fun ch bb e htab hwt hacc hpos => ?_,
              rfl⟩
            · rw [h2] at l1 l2
              exact h8300h_timer16_prescale s1 b.itu _ pcnt r ht hpc l1 l2
            · obtain ⟨x, hx⟩ := sci_reach_some r.1 _ ch bb htab hwt.1 hacc
              obtain ⟨st', q1, _, q3, _⟩ := sci_call_wait r.1 _ ch bb e x htab hwt hx
              rw [hsc] at q1
              obtain rfl := Option.some.inj q1
              exact (q3 hpos).1.2.2.2.2
    · intro hs hh
      rw [if_neg (by simpa using hs), if_neg (by simpa using hh)] at h
      simp only [Option.some_bind] at h
      cases hsc : sci s1 (cycles_diff_of b.prev_cycles cycles) with
      | none => rw [hsc] at h; simp at h
      | some s3 =>
        rw [hsc] at h
        simp only [Option.some_bind] at h
        cases hi : intcont s3 with
        | none => rw [hi] at h; simp at h
        | some v0 =>
          rw [hi] at h
          simp only [Option.map_some', Option.some.injEq, Prod.mk.injEq] at h
          obtain ⟨hb, _⟩ := h
          subst hb
          exact ⟨rfl, rfl, rfl⟩
    · intro hs
      rw [if_pos hs] at h
      cases ht : h8300s_timer16 s1 b.tpu (cycles_diff_of b.prev_cycles cycles) with
      | none => rw [ht] at h; simp at h
      | some r =>
        rw [ht] at h
        simp only [Option.map_some', Option.some_bind] at h
        cases hsc : sci r.1 (cycles_diff_of b.prev_cycles cycles) with
        | none => rw [hsc] at h; simp at h
        | some s3 =>
          rw [hsc] at h
          simp only [Option.some_bind] at h
          cases hi : intcont s3 with
          | none => rw [hi] at h; simp at h
          | some v0 =>
            rw [hi] at h
            simp only [Option.map_some', Option.some.injEq, Prod.mk.injEq] at h
            obtain ⟨hb, _⟩ := h
            subst hb
            exact ⟨r.1, rfl, hsc, rfl⟩
    · have hv : ∀ r : Option Board,
          (r.bind fun b0 => (sci b0.sim (cycles_diff_of b.prev_cycles cycles)).bind fun st0 =>
            (intcont st0).map (fun v0 => (({ b0 with sim := st0 } : Board), v0))) = some (b', v) →
          intcont b'.sim = some v := by
        intro r hk
        cases r with
        | none => simp at hk
        | some b0 =>
          simp only [Option.some_bind] at hk
          cases hsc : sci b0.sim (cycles_diff_of b.prev_cycles cycles) with
          | none => rw [hsc] at hk; simp at hk
          | some s3 =>
            rw [hsc] at hk
            simp only [Option.some_bind] at hk
            cases hi : intcont s3 with
            | none => rw [hi] at hk; simp at hk
            | some v0 =>
              rw [hi] at hk
              simp only [Option.map_some', Option.some.injEq, Prod.mk.injEq] at hk
              obtain ⟨hb, hv0⟩ := hk
              subst hb
              rw [← hv0]
              exact hi
      refine ⟨hv _ h, ?_⟩
      have := io_advance_prev { b with prev_cycles := uint32 cycles }
        (cycles_diff_of b.prev_cycles cycles) b' v (by
          unfold io_advance
          simp only []
          rw [h8]
          simp only [Option.some_bind]
          exact h)
      exact this

set_option maxRecDepth 100000 in
theorem iosimulation_advances_by_elapsed_witness :
    -2 ^ 31 ≤ (8 : Int) ∧ (8 : Int) < 2 ^ 31 ∧
    ((Board.power_on busy_state).at_cycles 3).prev_cycles < 2 ^ 32 ∧
    tx_waiting busy_state 0 0xb0 1000 ∧ sci_tables busy_state ∧
    busy_state.h8300smode = 0 ∧ busy_state.h8300hmode ≠ 0 ∧
    (busy_state.prescale 0, reg busy_state 0x88, (List.range 4).map Itu.power_on.prescale,
      TCNT16 busy_state 0, busy_state.tx_end_time 0) = (8, 5, [1, 2, 4, 8], 5, 1000) ∧
    (iosimulation ((Board.power_on busy_state).at_cycles 3) 8).map
      (fun r => (r.1.prev_cycles, r.1.sim.prescale 0, reg r.1.sim 0x88,
        (List.range 4).map r.1.itu.prescale, TCNT16 r.1.sim 0, r.1.sim.tx_end_time 0))
      = some (8, 3, 5, [-3, -1, 3, 3], 9, 995) ∧
    (iosimulation ((Board.power_on busy_state).at_cycles 12) 2).map
      (fun r => (r.1.prev_cycles, r.1.sim.prescale 0, reg r.1.sim 0x88,
        (List.range 4).map r.1.itu.prescale, TCNT16 r.1.sim 0, r.1.sim.tx_end_time 0))
      = some (2, 6, 5, [0, 2, 2, 6], 6, 998) ∧
    (io_calls [3, 8, 12, 2] (Board.power_on busy_state)).map
      (fun r => (r.prev_cycles, r.sim.prescale 0, reg r.sim 0x88,
        (List.range 4).map r.itu.prescale, TCNT16 r.sim 0, r.sim.tx_end_time 0))
      = some (2, 2, 6, [-9, -4, 2, 2], 32, 986) ∧
    (∃ d : Nat,
      (((Board.power_on busy_state).at_cycles 3).prev_cycles ≤ uint32 8 → ((d : Nat) : Int) = (uint32 8 : Int) - ((Board.power_on busy_state).at_cycles 3).prev_cycles) ∧
      (uint32 8 < ((Board.power_on busy_state).at_cycles 3).prev_cycles → d = uint32 8) ∧
      (0 ≤ (8 : Int) → (uint32 8 : Int) = 8) ∧
      ∀ b' v, iosimulation ((Board.power_on busy_state).at_cycles 3) 8 = some (b', v) → ∃ s1,
      timer8 ((Board.power_on busy_state).at_cycles 3).sim d = some s1 ∧
      (∀ pcnt, pcnt < 3 → -2 ^ 31 ≤ ((Board.power_on busy_state).at_cycles 3).sim.prescale pcnt - d → ((Board.power_on busy_state).at_cycles 3).sim.prescale pcnt - d < 2 ^ 31 →
        s1.prescale pcnt = carry (((Board.power_on busy_state).at_cycles 3).sim.prescale pcnt) d (prescale_div.getD pcnt 0)) ∧
      (s1.h8300smode = 0 → s1.h8300hmode ≠ 0 →
        ∃ s2, h8300h_timer16 s1 ((Board.power_on busy_state).at_cycles 3).itu d = some (s2, b'.itu) ∧
          (∀ pcnt, pcnt < 4 → -2 ^ 31 ≤ ((Board.power_on busy_state).at_cycles 3).itu.prescale pcnt - d →
            ((Board.power_on busy_state).at_cycles 3).itu.prescale pcnt - d < 2 ^ 31 →
            b'.itu.prescale pcnt
              = carry (((Board.power_on busy_state).at_cycles 3).itu.prescale pcnt) d (h8300h_prescale_div.getD pcnt 0)) ∧
          sci s2 d = some b'.sim ∧
          (∀ ch bb e, sci_tables s2 → tx_waiting s2 ch bb e →
            (s2.sci_port_type = PORT_NET → (net_accept s2).1 = false) → 0 < sint32 (e - d) →
            b'.sim.tx_end_time ch = sint32 (e - d)) ∧
          b'.tpu = ((Board.power_on busy_state).at_cycles 3).tpu) ∧
      (s1.h8300smode = 0 → s1.h8300hmode = 0 →
        sci s1 d = some b'.sim ∧ b'.itu = ((Board.power_on busy_state).at_cycles 3).itu ∧ b'.tpu = ((Board.power_on busy_state).at_cycles 3).tpu) ∧
      (s1.h8300smode ≠ 0 →
        ∃ s2, h8300s_timer16 s1 ((Board.power_on busy_state).at_cycles 3).tpu d = some (s2, b'.tpu) ∧ sci s2 d = some b'.sim ∧
          b'.itu = ((Board.power_on busy_state).at_cycles 3).itu) ∧
      intcont b'.sim = some v ∧ b'.prev_cycles = uint32 8) :=
  ⟨by decide, by decide, by decide, by decide, by decide, by decide, by decide, by decide,
    by decide, by decide, by decide,
    iosimulation_advances_by_elapsed ((Board.power_on busy_state).at_cycles 3) 8 (by decide) (by decide) (by decide)⟩

set_option maxRecDepth 100000 in
/-- C22: on an H8S after power-on, with every timer stopped, the first call
`iosimulation (1)` computes `cycles_diff = 1` and calls `timer8`, which leaves
7 of the 8 cycles of its prescaler 0; in `h8300s_timer16` prescaler 0, which has
1 cycle left, expires, and the expiry ends in `TPU_TSR(tm) |= tsr[tm]` with
`tm = TPU_CH`, past the end of `tpubase` and `tsr`: the call of the 16-bit
timers has no defined result, and neither has `iosimulation (1)`, which gets
to `sci` only after it.  The same holds on an H8SX, where `h8300smode` is set
too.  A call that finds no cycle elapsed returns; from `prev_cycles = 5` the
call with `cycles = 5` returns, and those with `cycles = 6` (one cycle elapsed)
and with `cycles = 3` (the counter has gone backwards, three cycles elapsed)
have no defined result. -/
theorem iosimulation_undefined_on_h8s :
    (h8300s_with [] []).h8300smode ≠ 0 ∧
    cycles_diff_of (Board.power_on (h8300s_with [] [])).prev_cycles 1 = 1 ∧
    (timer8 (h8300s_with [] []) 1).map (fun s => (s.prescale 0, s.h8300smode)) = some (7, 1) ∧
    Tpu.power_on.prescale 0 - 1 ≤ 0 ∧
    ((timer8 (h8300s_with [] []) 1).bind (fun s => h8300s_timer16 s Tpu.power_on 1)).isNone
      = true ∧
    (iosimulation (Board.power_on (h8300s_with [] [])) 1).isNone = true ∧
    (h8300sx_with []).h8300smode ≠ 0 ∧
    (iosimulation (Board.power_on (h8300sx_with [])) 1).isNone = true ∧
    (iosimulation (Board.power_on (h8300s_with [] [])) 0).map
      (fun r => (r.1.prev_cycles, r.1.sim.prescale 0, r.1.tpu.prescale 0)) = some (0, 8, 1) ∧
    (iosimulation ((Board.power_on (h8300s_with [] [])).at_cycles 5) 5).isSome = true ∧
    (iosimulation ((Board.power_on (h8300s_with [] [])).at_cycles 5) 6).isNone = true ∧
    (iosimulation ((Board.power_on (h8300s_with [] [])).at_cycles 5) 3).isNone = true := by
  decide

/-! ## Compare match and counting over the calls -/

set_option maxRecDepth 100000 in
/-- C13: two channels of the H8/300H 8-bit timers run in 8-bit mode.  Channel 0
counts on prescaler 0 from 0 towards compare-A = 10 with compare-B at 0xff and
clearing by compare match A selected (TCR = 0x09); channel 1 counts on
prescaler 1 (TCR = 0x0a) with compare-A = 5.  Ten calls `timer8 (8)` are ten
expiries of prescaler 0, the prescaler channel 0 has selected, and one of
prescaler 1, in the eighth call.  After them the match-A status bit (TCSR
0x40) of channel 0 is clear and its counter reads 2, not 0: in the eighth call
the expiry of prescaler 1 runs the compare checks of channel 0 on the `cnt`
that channel 1 left in the expiry of prescaler 0 and stores it to the counter
of channel 0, which so reads 0 after 8 ticks and 2 after 10.  With channel 1
stopped the same ten calls leave the bit set and the counter at 0.  A lone
channel that has selected prescaler 1 is visited at the expiry of prescaler 0,
which comes first in the call `timer8 (64)`, with nothing assigned to `cnt`:
the call has no defined result. -/
theorem timer8_match_lost_to_stale_count :
    runs8 (timer8_match_state 0x09 0x0a) 0 0 0x80 0x80 ∧
    reg (timer8_match_state 0x09 0x0a) (0x80 + 4) = 10 ∧
    10 < reg (timer8_match_state 0x09 0x0a) (0x80 + 6) ∧
    reg (timer8_match_state 0x09 0x0a) 0x80 &&& 0x18 = 0x08 ∧
    reg (timer8_match_state 0x09 0x0a) (0x80 + 8) = 0 ∧
    reg (timer8_match_state 0x09 0x0a) 0x81 &&& 0x07 = 1 + 1 ∧
    expiries 0 (List.replicate 10 8) (timer8_match_state 0x09 0x0a) = some 10 ∧
    expiries 1 (List.replicate 10 8) (timer8_match_state 0x09 0x0a) = some 1 ∧
    (timer8_calls (List.replicate 10 8) (timer8_match_state 0x09 0x0a)).map
      (fun s => (reg s (0x80 + 2) &&& 0x40, reg s (0x80 + 8))) = some (0, 2) ∧
    (List.range 11).map (fun n =>
      (timer8_calls (List.replicate n 8) (timer8_match_state 0x09 0x0a)).map
        (fun s => reg s (0x80 + 8)))
      = [some 0, some 1, some 2, some 3, some 4, some 5, some 6, some 7, some 0, some 1,
          some 2] ∧
    (timer8_calls (List.replicate 10 8) (timer8_match_state 0x09 0)).map
      (fun s => (reg s (0x80 + 2) &&& 0x40, reg s (0x80 + 8))) = some (0x40, 0) ∧
    runs8 (timer8_match_state 0x0a 0) 1 0 0x80 0x80 ∧
    (timer8 (timer8_match_state 0x0a 0) 64).isNone = true := by
  decide

set_option maxRecDepth 100000 in
/-- C28: channel 0 of the H8/300H 16-bit timers is started and counts on
prescaler 0, of period 1, from 5; the prescaler has 1 cycle left.  Every call
with `cycles_diff = 1` is an expiry, and the counter is still 5 after each of
them, also after 100: `pulse = -prescale / prescale_div` is 0 when the
prescaler lands on 0.  Calls with `cycles_diff = 10` add 9, 18 and 27: one
period only is put back at an expiry, so the prescaler falls further behind
with every call and `pulse` grows.  One call with `cycles_diff = 3` adds 2.
The inner loop of `h8300s_timer16` adds its `pulse` in the same way, 0 and 2
here.  In `timer8`, the 8-bit timers of the same file, a channel counts one at
every expiry of its prescaler. -/
theorem timer16_expiry_miscounts :
    counts16h (itu_state 5) 0 0 ∧ Itu.power_on.prescale 0 = 1 ∧
    h8300h_prescale_div.getD 0 0 = 1 ∧
    (List.range 5).map (fun n =>
      (h8300h_timer16_calls (List.replicate n 1) (itu_state 5) Itu.power_on).map
        (fun r => (TCNT16 r.1 0, r.2.prescale 0)))
      = [some (5, 1), some (5, 1), some (5, 1), some (5, 1), some (5, 1)] ∧
    (h8300h_timer16_calls (List.replicate 100 1) (itu_state 5) Itu.power_on).map
      (fun r => (TCNT16 r.1 0, r.2.prescale 0)) = some (5, 1) ∧
    (List.range 4).map (fun n =>
      (h8300h_timer16_calls (List.replicate n 10) (itu_state 5) Itu.power_on).map
        (fun r => (TCNT16 r.1 0, r.2.prescale 0)))
      = [some (5, 1), some (14, -8), some (32, -17), some (59, -26)] ∧
    (h8300h_timer16 (itu_state 5) Itu.power_on 3).map
      (fun r => (TCNT16 r.1 0, r.2.prescale 0)) = some (7, -1) ∧
    counts16s (tpu_state 5) 0 0 0xffffd0 ∧ Tpu.power_on.prescale 0 = 1 ∧
    (h8300s_timer16_for 0 0 TPU_CH 0 (tpu_state 5) (Tpu.power_on.set_prescale 0 0)).map
      (fun r => TPU_TCNT r.1 0xffffd0) = some 5 ∧
    (h8300s_timer16_for 0 2 TPU_CH 0 (tpu_state 5) (Tpu.power_on.set_prescale 0 (-2))).map
      (fun r => TPU_TCNT r.1 0xffffd0) = some 7 ∧
    runs8 (timer_state 0x01 0 0xff 0xff 5) 0 0 0x80 0x80 ∧
    (List.range 4).map (fun n =>
      (timer8_calls (List.replicate n 8) (timer_state 0x01 0 0xff 0xff 5)).map
        (fun s => (reg s 0x88, s.prescale 0)))
      = [some (5, 8), some (6, 8), some (7, 8), some (8, 8)] := by
  decide

end H8
